import Mathlib

/-!
Element-based branching (libsvn_delta/branch.c, editor3e.c): a shallow embedding

The definitions below follow `subversion/libsvn_delta/branch.c` function by
function; the editor of `editor3e.c` and `libsvn_ra_local/split_url.c` follow
in sections of their own.  Conventions of the embedding:

* C `int` element ids and revision numbers are `Int` (no arithmetic in the
  modelled functions can overflow except `next_eid++`, which is modelled on
  unbounded integers).
* C strings are `String`; a nullable `const char *` is `Option String`.
* An `apr_hash_t` keyed by `int` is an association list with pairwise
  distinct keys.  The order of the list is the iteration order of the hash
  table, which APR leaves unspecified; theorems quantify over every list.
* `SVN_ERR_ASSERT_NO_RETURN` aborts the process, and so does a failed plain
  `assert` (the model is a build without `NDEBUG`; a call that returns in the
  model returns the same in a build with it).  Functions that only read
  return `Outcome`; functions that write return `Step`, which carries the
  state the process was in when it stopped.
* Functions that change the revision root take it as an argument and return
  the new one in an `Outcome`; functions that return an `svn_error_t *` return
  `Run`, whose `error` carries the error code and the state at the return.
* Loops whose termination depends on the data take a fuel argument and
  return `out_of_fuel` when it is used up.
* A branch instance is an object with an address: a revision root holds its
  instances in a store, and pointers to instances are positions of the store.
* A stream is the list of its characters; `printf` and `sscanf` conversions are
  functions on such lists.
-/

namespace SvnBranch

/-! ## Data model -/

/-- Modelled from the spec: the node kinds of `svn_node_kind_t` (svn_types.h),
which the validation code compares against `svn_node_unknown` and `svn_node_none`. -/
inductive svn_node_kind_t where
  | svn_node_none
  | svn_node_file
  | svn_node_dir
  | svn_node_unknown
  | svn_node_symlink
  deriving DecidableEq, Repr

/-- Modelled from the spec: `svn_pathrev_t`, the reference `{ rev, relpath }` to
previously committed content; `relpath` is a nullable C string. -/
structure svn_pathrev_t where
  rev : Int
  relpath : Option String
  deriving DecidableEq, Repr

/-- Modelled from the spec: `svn_element_content_t` (private/svn_element.h), the
payload of an element: a semantic kind, a reference and the property table
(`none` is NULL), which editor3e.c tests for NULL.  The text and the symlink
target are opaque to branch.c and editor3e.c and are left out. -/
structure svn_element_content_t where
  kind : svn_node_kind_t
  ref : svn_pathrev_t
  props : Option (List (String × String))
  deriving DecidableEq, Repr

/-- Modelled from the spec: the record `svn_branch_el_rev_content_t` (private/svn_branch.h),
with the fields branch.c reads and writes: parent EID, name (nullable C string) and
payload (nullable pointer). -/
structure svn_branch_el_rev_content_t where
  parent_eid : Int
  name : Option String
  content : Option svn_element_content_t
  deriving DecidableEq, Repr

/-- An element map `apr_hash_t *e_map` (EID to element content), in iteration order. -/
abbrev EMap := List (Int × svn_branch_el_rev_content_t)

/-- Modelled from the spec: the record `svn_branch_sibling_t` (private/svn_branch.h); the
family it points to is passed alongside. -/
structure svn_branch_sibling_t where
  bsid : Int
  root_eid : Int
  deriving DecidableEq, Repr

/-- Modelled from the spec: the record `svn_branch_family_t` (private/svn_branch.h), with the
fields branch.c reads and writes. -/
structure svn_branch_family_t where
  first_bsid : Int
  next_bsid : Int
  first_eid : Int
  next_eid : Int
  branch_siblings : List svn_branch_sibling_t
  deriving DecidableEq, Repr

/-- Modelled from the spec: the record `svn_branch_instance_t` (private/svn_branch.h).  The
pointer `outer_branch` is the address of the outer instance in the store of the revision
root (`none` is NULL). -/
structure svn_branch_instance_t where
  sibling_defn : svn_branch_sibling_t
  outer_branch : Option Nat
  outer_eid : Int
  e_map : EMap
  deriving DecidableEq, Repr

/-- Modelled from the spec: the record `svn_branch_subtree_t` (private/svn_branch.h). -/
structure svn_branch_subtree_t where
  e_map : EMap
  root_eid : Int
  deriving DecidableEq, Repr

/-- Result of a function that only reads: a value, an abort through
`SVN_ERR_ASSERT_NO_RETURN` (or a NULL dereference), or fuel used up. -/
inductive Outcome (α : Type) where
  | ok (a : α)
  | malfunction
  | out_of_fuel
  deriving DecidableEq, Repr

/-- Result of a function that writes: the state after a normal return, the state
at the moment of an abort, or fuel used up. -/
inductive Step (σ : Type) where
  | done (s : σ)
  | malfunction (s : σ)
  | out_of_fuel
  deriving DecidableEq, Repr

/-! ## Hash table primitives -/

/-- Modelled from the spec: the lookup `svn_int_hash_get` (libsvn_subr): the value stored
under `k`, or NULL. -/
def svn_int_hash_get (m : EMap) (k : Int) : Option svn_branch_el_rev_content_t :=
  m.lookup k

/-- Modelled from the spec: the store `svn_int_hash_set` (libsvn_subr): a NULL value deletes
the key; otherwise the key is (re)bound.  The position of a new binding in the iteration
order is unspecified in APR; the model puts it last. -/
def svn_int_hash_set (m : EMap) (k : Int) : Option svn_branch_el_rev_content_t → EMap
  | none => m.filter (fun kv => kv.1 != k)
  | some v => m.filter (fun kv => kv.1 != k) ++ [(k, v)]

/-! ## Family macros -/

/-- The macro `FAMILY_HAS_ELEMENT`. -/
def FAMILY_HAS_ELEMENT (family : svn_branch_family_t) (eid : Int) : Bool :=
  decide (family.first_eid ≤ eid) && decide (eid < family.next_eid)

/-- The macro `IS_BRANCH_ROOT_EID`. -/
def IS_BRANCH_ROOT_EID (branch : svn_branch_instance_t) (eid : Int) : Bool :=
  eid == branch.sibling_defn.root_eid

/-- Modelled from the spec: the macro `SVN_IS_VALID_REVNUM` (svn_types.h): a revision number
is valid when it is not negative. -/
def SVN_IS_VALID_REVNUM (n : Int) : Bool := decide (0 ≤ n)

/-! ## Branch mappings -/

/-- The payload test of `branch_map_node_validate`: by reference (valid rev and a
relpath) or in full (a kind other than unknown and none). -/
def content_validate (c : svn_element_content_t) : Bool :=
  (SVN_IS_VALID_REVNUM c.ref.rev && c.ref.relpath.isSome)
    || (c.kind != svn_node_kind_t.svn_node_unknown
        && c.kind != svn_node_kind_t.svn_node_none)

/-- The checks of `branch_map_node_validate`: `true` when every assertion holds, `false` when
one of them aborts. -/
def branch_map_node_validate (family : svn_branch_family_t)
    (branch : svn_branch_instance_t) (eid : Int)
    (node : Option svn_branch_el_rev_content_t) : Bool :=
  match node with
  | none => false
  | some node =>
    (if IS_BRANCH_ROOT_EID branch eid then node.parent_eid == -1
     else (node.parent_eid != eid && FAMILY_HAS_ELEMENT family node.parent_eid))
    && (match node.name with
        | none => false
        | some name => IS_BRANCH_ROOT_EID branch eid == (name == ""))
    && (match node.content with
        | none => true
        | some c => content_validate c)

/-- The reader `svn_branch_map_get`. -/
def svn_branch_map_get (family : svn_branch_family_t) (branch : svn_branch_instance_t)
    (eid : Int) : Outcome (Option svn_branch_el_rev_content_t) :=
  if FAMILY_HAS_ELEMENT family eid then
    match svn_int_hash_get branch.e_map eid with
    | none => Outcome.ok none
    | some node =>
      if branch_map_node_validate family branch eid (some node) then Outcome.ok (some node)
      else Outcome.malfunction
  else Outcome.malfunction

/-- The checks of `assert_branch_instance_invariants` that can fail in the model: an instance
with an outer branch has an outer EID of the family other than -1, and an instance
without one has outer EID -1. -/
def assert_branch_instance_invariants (family : svn_branch_family_t)
    (branch : svn_branch_instance_t) : Bool :=
  match branch.outer_branch with
  | some _ => branch.outer_eid != -1 && FAMILY_HAS_ELEMENT family branch.outer_eid
  | none => branch.outer_eid == -1

/-- The writer `branch_map_set`: a NULL node deletes element `eid`. -/
def branch_map_set (family : svn_branch_family_t) (branch : svn_branch_instance_t)
    (eid : Int) (node : Option svn_branch_el_rev_content_t) :
    Step svn_branch_instance_t :=
  if FAMILY_HAS_ELEMENT family eid then
    if node.isNone || branch_map_node_validate family branch eid node then
      if assert_branch_instance_invariants family
          { branch with e_map := svn_int_hash_set branch.e_map eid node } then
        Step.done { branch with e_map := svn_int_hash_set branch.e_map eid node }
      else Step.malfunction { branch with e_map := svn_int_hash_set branch.e_map eid node }
    else Step.malfunction branch
  else Step.malfunction branch

/-- The writer `svn_branch_map_delete`. -/
def svn_branch_map_delete (family : svn_branch_family_t) (branch : svn_branch_instance_t)
    (eid : Int) : Step svn_branch_instance_t :=
  if FAMILY_HAS_ELEMENT family eid then branch_map_set family branch eid none
  else Step.malfunction branch

/-- The constructor `svn_branch_el_rev_content_create`. -/
def svn_branch_el_rev_content_create (parent_eid : Int) (name : Option String)
    (node_content : Option svn_element_content_t) : svn_branch_el_rev_content_t :=
  { parent_eid := parent_eid, name := name, content := node_content }

/-- The writer `svn_branch_map_update`. -/
def svn_branch_map_update (family : svn_branch_family_t) (branch : svn_branch_instance_t)
    (eid : Int) (new_parent_eid : Int) (new_name : Option String)
    (new_content : Option svn_element_content_t) : Step svn_branch_instance_t :=
  let node := svn_branch_el_rev_content_create new_parent_eid new_name new_content
  if FAMILY_HAS_ELEMENT family eid then
    if new_content.isSome then branch_map_set family branch eid (some node)
    else Step.malfunction branch
  else Step.malfunction branch

/-- The writer `svn_branch_map_update_as_subbranch_root`. -/
def svn_branch_map_update_as_subbranch_root (family : svn_branch_family_t)
    (branch : svn_branch_instance_t) (eid : Int) (new_parent_eid : Int)
    (new_name : Option String) : Step svn_branch_instance_t :=
  let node := svn_branch_el_rev_content_create new_parent_eid new_name none
  if FAMILY_HAS_ELEMENT family eid then
    if branch_map_node_validate family branch eid (some node) then
      branch_map_set family branch eid (some node)
    else Step.malfunction branch
  else Step.malfunction branch

/-- The extractor `svn_branch_map_get_subtree`: a copy of the whole element map. -/
def svn_branch_map_get_subtree (branch : svn_branch_instance_t) (eid : Int) :
    svn_branch_subtree_t :=
  { e_map := branch.e_map, root_eid := eid }

/-! ## Orphan purge -/

/-- One run of the `for` loop of `map_purge_orphans` over the entries `todo` still to
visit, with `m` the current table and `changed` the flag. -/
def map_purge_orphans_scan (root_eid : Int) :
    EMap → EMap → Bool → Step (EMap × Bool)
  | [], m, changed => Step.done (m, changed)
  | (this_eid, this_node) :: rest, m, changed =>
    if this_eid != root_eid then
      match svn_int_hash_get m this_node.parent_eid with
      | none => map_purge_orphans_scan root_eid rest (svn_int_hash_set m this_eid none) true
      | some parent_node =>
        if parent_node.content.isSome then map_purge_orphans_scan root_eid rest m changed
        else Step.malfunction (m, changed)
    else map_purge_orphans_scan root_eid rest m changed

/-- The `do ... while (changed)` loop of `map_purge_orphans`, with fuel. -/
def map_purge_orphans_loop (root_eid : Int) : Nat → EMap → Step EMap
  | 0, _ => Step.out_of_fuel
  | fuel + 1, m =>
    match map_purge_orphans_scan root_eid m m false with
    | Step.done (m', true) => map_purge_orphans_loop root_eid fuel m'
    | Step.done (m', false) => Step.done m'
    | Step.malfunction (m', _) => Step.malfunction m'
    | Step.out_of_fuel => Step.out_of_fuel

/-- The function `map_purge_orphans`.  Every pass that sets `changed` removes an
entry, so one more pass than there are entries is enough fuel. -/
def map_purge_orphans (e_map : EMap) (root_eid : Int) : Step EMap :=
  map_purge_orphans_loop root_eid (e_map.length + 1) e_map

/-- The function `svn_branch_map_purge_orphans`. -/
def svn_branch_map_purge_orphans (branch : svn_branch_instance_t) :
    Step svn_branch_instance_t :=
  match map_purge_orphans branch.e_map branch.sibling_defn.root_eid with
  | Step.done m => Step.done { branch with e_map := m }
  | Step.malfunction m => Step.malfunction { branch with e_map := m }
  | Step.out_of_fuel => Step.out_of_fuel

/-! ## Path resolution -/

/-- Modelled from the spec: `svn_relpath_join` (libsvn_subr/dirent_uri.c), which joins two
relative paths: if either is empty the other is returned, otherwise they are
joined with a slash. -/
def svn_relpath_join (base component : String) : String :=
  if base = "" then component
  else if component = "" then base
  else base ++ "/" ++ component

/-- The `for` loop of `svn_branch_get_path_by_eid`: walk the parents, joining names in front
of `path`. -/
def svn_branch_get_path_by_eid_loop (family : svn_branch_family_t)
    (branch : svn_branch_instance_t) : Nat → Int → String → Outcome (Option String)
  | 0, _, _ => Outcome.out_of_fuel
  | fuel + 1, eid, path =>
    if IS_BRANCH_ROOT_EID branch eid then Outcome.ok (some path)
    else
      match svn_branch_map_get family branch eid with
      | Outcome.ok none => Outcome.ok none
      | Outcome.ok (some node) =>
        (match node.name with
         | some name =>
           svn_branch_get_path_by_eid_loop family branch fuel node.parent_eid
             (svn_relpath_join name path)
         | none => Outcome.malfunction)
      | Outcome.malfunction => Outcome.malfunction
      | Outcome.out_of_fuel => Outcome.out_of_fuel

/-- The function `svn_branch_get_path_by_eid`; `ok none` is the NULL return. -/
def svn_branch_get_path_by_eid (family : svn_branch_family_t)
    (branch : svn_branch_instance_t) (fuel : Nat) (eid : Int) : Outcome (Option String) :=
  if FAMILY_HAS_ELEMENT family eid then
    svn_branch_get_path_by_eid_loop family branch fuel eid ""
  else Outcome.malfunction

/-- The linear search of `svn_branch_get_eid_by_path` over the entries still to visit. -/
def svn_branch_get_eid_by_path_scan (family : svn_branch_family_t)
    (branch : svn_branch_instance_t) (fuel : Nat) (path : String) : EMap → Outcome Int
  | [] => Outcome.ok (-1)
  | (eid, _) :: rest =>
    match svn_branch_get_path_by_eid family branch fuel eid with
    | Outcome.ok none => svn_branch_get_eid_by_path_scan family branch fuel path rest
    | Outcome.ok (some this_path) =>
      if path = this_path then Outcome.ok eid
      else svn_branch_get_eid_by_path_scan family branch fuel path rest
    | Outcome.malfunction => Outcome.malfunction
    | Outcome.out_of_fuel => Outcome.out_of_fuel

/-- The function `svn_branch_get_eid_by_path`; `fuel` bounds each path computation. -/
def svn_branch_get_eid_by_path (family : svn_branch_family_t)
    (branch : svn_branch_instance_t) (fuel : Nat) (path : String) : Outcome Int :=
  svn_branch_get_eid_by_path_scan family branch fuel path branch.e_map

/-! ## Allocation and subtrees -/

/-- The allocator `svn_branch_family_add_new_element`: returns `next_eid` and increments it. -/
def svn_branch_family_add_new_element (family : svn_branch_family_t) :
    svn_branch_family_t × Int :=
  ({ family with next_eid := family.next_eid + 1 }, family.next_eid)

/-- Sequencing of writes: go on from the state of a normal return, stop otherwise. -/
def Step.andThen {σ : Type} (s : Step σ) (g : σ → Step σ) : Step σ :=
  match s with
  | Step.done st => g st
  | Step.malfunction st => Step.malfunction st
  | Step.out_of_fuel => Step.out_of_fuel

/-- The function `svn_branch_map_add_subtree`, with fuel for the recursion over children.  The
state is the family (whose `next_eid` is bumped) and the destination branch. -/
def svn_branch_map_add_subtree :
    Nat → svn_branch_family_t × svn_branch_instance_t → Int → Int → Option String →
    svn_branch_subtree_t → Step (svn_branch_family_t × svn_branch_instance_t)
  | 0, _, _, _, _, _ => Step.out_of_fuel
  | fuel + 1, (family, to_branch), to_eid, new_parent_eid, new_name, new_subtree =>
    let alloc : svn_branch_family_t × Int :=
      if to_eid = -1 then svn_branch_family_add_new_element family else (family, to_eid)
    match svn_int_hash_get new_subtree.e_map new_subtree.root_eid with
    | none => Step.malfunction (alloc.1, to_branch)
    | some new_root_content =>
      let wrote : Step svn_branch_instance_t :=
        if new_root_content.content.isSome then
          svn_branch_map_update alloc.1 to_branch alloc.2 new_parent_eid new_name
            new_root_content.content
        else
          svn_branch_map_update_as_subbranch_root alloc.1 to_branch alloc.2
            new_parent_eid new_name
      match wrote with
      | Step.malfunction b => Step.malfunction (alloc.1, b)
      | Step.out_of_fuel => Step.out_of_fuel
      | Step.done b =>
        new_subtree.e_map.foldl
          (fun acc kv =>
            acc.andThen (fun st =>
              if kv.2.parent_eid = new_subtree.root_eid then
                svn_branch_map_add_subtree fuel st (-1) alloc.2 kv.2.name
                  { e_map := new_subtree.e_map, root_eid := kv.1 }
              else Step.done st))
          (Step.done (alloc.1, b))

/-- The second loop of `svn_branch_instantiate_subtree`: copy every non-root entry with
`branch_map_set`. -/
def svn_branch_instantiate_subtree_copy (family : svn_branch_family_t) (root_eid : Int) :
    EMap → svn_branch_instance_t → Step svn_branch_instance_t
  | [], to_branch => Step.done to_branch
  | (this_eid, this_node) :: rest, to_branch =>
    if this_eid != root_eid then
      match branch_map_set family to_branch this_eid (some this_node) with
      | Step.done b => svn_branch_instantiate_subtree_copy family root_eid rest b
      | other => other
    else svn_branch_instantiate_subtree_copy family root_eid rest to_branch

/-- The function `svn_branch_instantiate_subtree`.  The state is the destination branch and the
subtree, whose element map the purge writes to. -/
def svn_branch_instantiate_subtree (family : svn_branch_family_t)
    (to_branch : svn_branch_instance_t) (new_parent_eid : Int) (new_name : Option String)
    (new_subtree : svn_branch_subtree_t) :
    Step (svn_branch_instance_t × svn_branch_subtree_t) :=
  match svn_int_hash_get new_subtree.e_map new_subtree.root_eid with
  | none => Step.malfunction (to_branch, new_subtree)
  | some new_root_content =>
    let wrote : Step svn_branch_instance_t :=
      if new_root_content.content.isSome then
        svn_branch_map_update family to_branch new_subtree.root_eid new_parent_eid new_name
          new_root_content.content
      else
        svn_branch_map_update_as_subbranch_root family to_branch new_subtree.root_eid
          new_parent_eid new_name
    match wrote with
    | Step.malfunction b => Step.malfunction (b, new_subtree)
    | Step.out_of_fuel => Step.out_of_fuel
    | Step.done b =>
      match map_purge_orphans new_subtree.e_map new_subtree.root_eid with
      | Step.malfunction m => Step.malfunction (b, { new_subtree with e_map := m })
      | Step.out_of_fuel => Step.out_of_fuel
      | Step.done m =>
        match svn_branch_instantiate_subtree_copy family new_subtree.root_eid m b with
        | Step.done b2 => Step.done (b2, { new_subtree with e_map := m })
        | Step.malfunction b2 => Step.malfunction (b2, { new_subtree with e_map := m })
        | Step.out_of_fuel => Step.out_of_fuel

/-! ## Revision roots and repositories -/

/-- Modelled from the spec: the record `svn_branch_revision_root_t` (private/svn_branch.h).
Branch instances are objects with an address:
`store` holds the instance objects of the revision (address = position), and
`branch_instances` and `root_branch` hold addresses.  An address in a list or a pointer
field always is a position of the store. -/
structure svn_branch_revision_root_t where
  rev : Int
  root_branch : Option Nat
  branch_instances : List Nat
  store : List svn_branch_instance_t
  deriving DecidableEq, Repr

/-- Modelled from the spec: the record `svn_branch_repos_t` (private/svn_branch.h). -/
structure svn_branch_repos_t where
  rev_roots : List svn_branch_revision_root_t
  family : Option svn_branch_family_t
  deriving DecidableEq, Repr

/-- The constructor `svn_branch_repos_create`. -/
def svn_branch_repos_create : svn_branch_repos_t := { rev_roots := [], family := none }

/-- The macro `FAMILY_HAS_BSID`. -/
def FAMILY_HAS_BSID (family : svn_branch_family_t) (bsid : Int) : Bool :=
  decide (family.first_bsid ≤ bsid) && decide (bsid < family.next_bsid)

/-! ## Root paths and nested branches -/

/-- The function `svn_branch_get_root_rrpath`, with the call of `svn_branch_get_rrpath_by_eid` on
the outer branch written out; fuel bounds the walk outward and each path computation. -/
def svn_branch_get_root_rrpath (family : svn_branch_family_t)
    (store : List svn_branch_instance_t) : Nat → svn_branch_instance_t → Outcome String
  | 0, _ => Outcome.out_of_fuel
  | fuel + 1, branch =>
    match branch.outer_branch with
    | none => Outcome.ok ""
    | some a =>
      match store.get? a with
      | none => Outcome.malfunction
      | some outer =>
        match svn_branch_get_path_by_eid family outer fuel branch.outer_eid with
        | Outcome.ok none => Outcome.malfunction
        | Outcome.ok (some path) =>
          (match svn_branch_get_root_rrpath family store fuel outer with
           | Outcome.ok root => Outcome.ok (svn_relpath_join root path)
           | other => other)
        | Outcome.malfunction => Outcome.malfunction
        | Outcome.out_of_fuel => Outcome.out_of_fuel

/-- The function `svn_branch_get_rrpath_by_eid`. -/
def svn_branch_get_rrpath_by_eid (family : svn_branch_family_t)
    (store : List svn_branch_instance_t) (fuel : Nat) (branch : svn_branch_instance_t)
    (eid : Int) : Outcome (Option String) :=
  match svn_branch_get_path_by_eid family branch fuel eid with
  | Outcome.ok none => Outcome.ok none
  | Outcome.ok (some path) =>
    (match svn_branch_get_root_rrpath family store fuel branch with
     | Outcome.ok root => Outcome.ok (some (svn_relpath_join root path))
     | Outcome.malfunction => Outcome.malfunction
     | Outcome.out_of_fuel => Outcome.out_of_fuel)
  | Outcome.malfunction => Outcome.malfunction
  | Outcome.out_of_fuel => Outcome.out_of_fuel

/-- The comparison `strncmp(parent, child, strlen(parent))`: what is left of `child` after
`parent`, when `child` starts with `parent`. -/
def strip_parent : List Char → List Char → Option (List Char)
  | [], child => some child
  | _ :: _, [] => none
  | p :: ps, c :: cs => if p = c then strip_parent ps cs else none

/-- Modelled from the spec: `svn_relpath_skip_ancestor` (libsvn_subr/dirent_uri.c): the part
of `child` below `parent`, or NULL when `child` is not `parent` or below it. -/
def svn_relpath_skip_ancestor (parent child : String) : Option String :=
  if parent = "" then some child
  else
    match strip_parent parent.data child.data with
    | none => none
    | some [] => some ""
    | some (c :: rest) => if c = '/' then some (String.mk rest) else none

/-- The function `svn_branch_get_eid_by_rrpath`. -/
def svn_branch_get_eid_by_rrpath (family : svn_branch_family_t)
    (store : List svn_branch_instance_t) (fuel : Nat) (branch : svn_branch_instance_t)
    (rrpath : String) : Outcome Int :=
  match svn_branch_get_root_rrpath family store fuel branch with
  | Outcome.ok root =>
    (match svn_relpath_skip_ancestor root rrpath with
     | none => Outcome.ok (-1)
     | some path => svn_branch_get_eid_by_path family branch fuel path)
  | Outcome.malfunction => Outcome.malfunction
  | Outcome.out_of_fuel => Outcome.out_of_fuel

/-- The function `svn_branch_get_all_sub_branches`: the instances of the revision root, in list
order, whose `outer_branch` is the instance at address `a`. -/
def svn_branch_get_all_sub_branches (rev_root : svn_branch_revision_root_t) (a : Nat) :
    List Nat :=
  rev_root.branch_instances.filter (fun i =>
    match rev_root.store.get? i with
    | some b => b.outer_branch == some a
    | none => false)

/-- The loop over sub-branches of `svn_branch_find_nested_branch_element_by_rrpath`: the first
sub-branch for which `g` finds a branch wins. -/
def find_first_sub_branch {α : Type} (g : Nat → Outcome (Option α)) :
    List Nat → Outcome (Option α)
  | [] => Outcome.ok none
  | s :: rest =>
    match g s with
    | Outcome.ok (some x) => Outcome.ok (some x)
    | Outcome.ok none => find_first_sub_branch g rest
    | Outcome.malfunction => Outcome.malfunction
    | Outcome.out_of_fuel => Outcome.out_of_fuel

/-- The function `svn_branch_find_nested_branch_element_by_rrpath`, started at the instance at
address `a`.  The result `none` is `(NULL, -1)`; `some (b, eid)` is the branch at address
`b` with `eid`. -/
def svn_branch_find_nested_branch_element_by_rrpath (family : svn_branch_family_t)
    (rev_root : svn_branch_revision_root_t) :
    Nat → Nat → String → Outcome (Option (Nat × Int))
  | 0, _, _ => Outcome.out_of_fuel
  | fuel + 1, a, rrpath =>
    match rev_root.store.get? a with
    | none => Outcome.malfunction
    | some root_branch =>
      match svn_branch_get_root_rrpath family rev_root.store fuel root_branch with
      | Outcome.ok branch_root_path =>
        (match svn_relpath_skip_ancestor branch_root_path rrpath with
         | none => Outcome.ok none
         | some _ =>
           match find_first_sub_branch
              (fun s => svn_branch_find_nested_branch_element_by_rrpath family rev_root fuel s rrpath)
              (svn_branch_get_all_sub_branches rev_root a) with
           | Outcome.ok (some found) => Outcome.ok (some found)
           | Outcome.ok none =>
             (match svn_branch_get_eid_by_rrpath family rev_root.store fuel root_branch rrpath with
              | Outcome.ok eid => Outcome.ok (some (a, eid))
              | Outcome.malfunction => Outcome.malfunction
              | Outcome.out_of_fuel => Outcome.out_of_fuel)
           | Outcome.malfunction => Outcome.malfunction
           | Outcome.out_of_fuel => Outcome.out_of_fuel)
      | Outcome.malfunction => Outcome.malfunction
      | Outcome.out_of_fuel => Outcome.out_of_fuel

/-! ## Text: printf, sscanf and line reading -/

/-- The character of the decimal digit `d`. -/
def digit_char (d : Nat) : Char := Char.ofNat (48 + d)

/-- The digits of `n`, most significant first, in front of `acc`. -/
def print_nat_aux : Nat → Nat → List Char → List Char
  | 0, _, acc => acc
  | fuel + 1, n, acc =>
    if n < 10 then digit_char n :: acc
    else print_nat_aux fuel (n / 10) (digit_char (n % 10) :: acc)

/-- The decimal text of a natural number. -/
def print_nat (n : Nat) : List Char := print_nat_aux (n + 1) n []

/-- The conversion `%d` (and `%ld`) of `printf`. -/
def print_int (i : Int) : List Char :=
  if i < 0 then '-' :: print_nat i.natAbs else print_nat i.natAbs

/-- The test `isspace` of the C locale. -/
def c_isspace (c : Char) : Bool :=
  c == ' ' || c == '\t' || c == '\n' || c == '\x0b' || c == '\x0c' || c == '\r'

/-- The test `isdigit`. -/
def c_isdigit (c : Char) : Bool := decide (48 ≤ c.toNat) && decide (c.toNat ≤ 57)

/-- A white-space directive of a `sscanf` format: skips any amount of white space. -/
def scan_ws : List Char → List Char
  | [] => []
  | c :: cs => if c_isspace c then scan_ws cs else c :: cs

/-- Ordinary characters of a `sscanf` format: they must match the input exactly. -/
def scan_lit : List Char → List Char → Option (List Char)
  | [], s => some s
  | _ :: _, [] => none
  | l :: ls, c :: cs => if l = c then scan_lit ls cs else none

/-- The longest run of digits at the start of the input, as a number on top of `acc`. -/
def scan_digits : List Char → Nat → Nat × List Char
  | [], acc => (acc, [])
  | c :: cs, acc =>
    if c_isdigit c then scan_digits cs (10 * acc + (c.toNat - 48)) else (acc, c :: cs)

/-- The digits of a `%d` conversion: at least one digit. -/
def scan_nat : List Char → Option (Nat × List Char)
  | [] => none
  | c :: cs => if c_isdigit c then some (scan_digits (c :: cs) 0) else none

/-- The conversion `%d` (and `%ld`) of `sscanf`: white space, an optional sign, digits. -/
def scan_int (s : List Char) : Option (Int × List Char) :=
  match scan_ws s with
  | [] => none
  | c :: cs =>
    if c = '-' then
      match scan_nat cs with
      | some (n, rest) => some (-(n : Int), rest)
      | none => none
    else if c = '+' then
      match scan_nat cs with
      | some (n, rest) => some ((n : Int), rest)
      | none => none
    else
      match scan_nat (c :: cs) with
      | some (n, rest) => some ((n : Int), rest)
      | none => none

/-- Modelled from the spec: the reader `svn_stream_readline` (libsvn_subr/stream.c) with the
terminator `"\n"`: the line, the flag `eof` (the
stream ended before a terminator), and the rest of the stream. -/
def svn_stream_readline : List Char → List Char × Bool × List Char
  | [] => ([], true, [])
  | c :: cs =>
    if c = '\n' then ([], false, cs)
    else
      let r := svn_stream_readline cs
      (c :: r.1, r.2.1, r.2.2)

/-! ## Parsing -/

/-- The EIDs `first_eid, ..., next_eid - 1` that the `for` loops over a family visit. -/
def eid_range (family : svn_branch_family_t) : List Int :=
  (List.range (family.next_eid - family.first_eid).toNat).map
    (fun (k : Nat) => family.first_eid + (k : Int))

/-- The match of `sscanf(line, "b%d: root-eid %d at%n", ...)`: both numbers and the input
left at `%n`. -/
def scan_branch_line (line : List Char) : Option (Int × Int × List Char) := do
  let s ← scan_lit ['b'] line
  let (bsid, s) ← scan_int s
  let s ← scan_lit [':'] s
  let s ← scan_lit "root-eid".data (scan_ws s)
  let (root_eid, s) ← scan_int (scan_ws s)
  let s ← scan_lit "at".data (scan_ws s)
  pure (bsid, root_eid, s)

/-- The function `parse_branch_line`: BSID, root EID, root path and the rest of the stream.
A line on which `sscanf` stops before `%n` leaves `offset` unset; the model aborts. -/
def parse_branch_line (stream : List Char) : Outcome (Int × Int × String × List Char) :=
  let r := svn_stream_readline stream
  if r.2.1 then Outcome.malfunction
  else
    match scan_branch_line r.1 with
    | none => Outcome.malfunction
    | some (bsid, root_eid, rest) =>
      match rest with
      | [] => Outcome.malfunction
      | c :: path =>
        if c = ' ' then
          Outcome.ok (bsid, root_eid, if path = ['.'] then "" else String.mk path, r.2.2)
        else Outcome.malfunction

/-- The match of `sscanf(line, "b%de%d: %d%n", ...)`. -/
def scan_element_line (line : List Char) : Option (Int × Int × Int × List Char) := do
  let s ← scan_lit ['b'] line
  let (bsid, s) ← scan_int s
  let s ← scan_lit ['e'] s
  let (eid, s) ← scan_int s
  let s ← scan_lit [':'] s
  let (parent_eid, s) ← scan_int (scan_ws s)
  pure (bsid, eid, parent_eid, s)

/-- The function `parse_element_line`: BSID, EID, parent EID, name (NULL for `(null)`) and the
rest of the stream. -/
def parse_element_line (stream : List Char) :
    Outcome (Int × Int × Int × Option String × List Char) :=
  let r := svn_stream_readline stream
  if r.2.1 then Outcome.malfunction
  else
    match scan_element_line r.1 with
    | none => Outcome.malfunction
    | some (bsid, eid, parent_eid, rest) =>
      match rest with
      | [] => Outcome.malfunction
      | c :: name =>
        if c = ' ' then
          Outcome.ok (bsid, eid, parent_eid,
            (if name = "(null)".data then none
             else if name = ['.'] then some "" else some (String.mk name)), r.2.2)
        else Outcome.malfunction

/-- The function `family_find_branch_sibling`. -/
def family_find_branch_sibling (family : svn_branch_family_t) (bsid : Int) :
    Option svn_branch_sibling_t :=
  family.branch_siblings.find? (fun s => s.bsid == bsid)

/-- The constructor `svn_branch_sibling_create`, with its assertions. -/
def svn_branch_sibling_create (family : svn_branch_family_t) (bsid root_eid : Int) :
    Outcome svn_branch_sibling_t :=
  if FAMILY_HAS_BSID family bsid && FAMILY_HAS_ELEMENT family root_eid then
    Outcome.ok { bsid := bsid, root_eid := root_eid }
  else Outcome.malfunction

/-- The function `family_create_branch_sibling`: the family with the new sibling registered,
and the sibling. -/
def family_create_branch_sibling (family : svn_branch_family_t) (bsid root_eid : Int) :
    Outcome (svn_branch_family_t × svn_branch_sibling_t) :=
  match svn_branch_sibling_create family bsid root_eid with
  | Outcome.ok branch_sibling =>
    if family.first_eid ≤ root_eid then
      Outcome.ok ({ family with branch_siblings := family.branch_siblings ++ [branch_sibling] },
        branch_sibling)
    else Outcome.malfunction
  | Outcome.malfunction => Outcome.malfunction
  | Outcome.out_of_fuel => Outcome.out_of_fuel

/-- The function `family_find_or_create_branch_sibling`. -/
def family_find_or_create_branch_sibling (family : svn_branch_family_t) (bsid root_eid : Int) :
    Outcome (svn_branch_family_t × svn_branch_sibling_t) :=
  let found : Outcome (svn_branch_family_t × svn_branch_sibling_t) :=
    match family_find_branch_sibling family bsid with
    | some sibling => Outcome.ok (family, sibling)
    | none => family_create_branch_sibling family bsid root_eid
  match found with
  | Outcome.ok (family', sibling) =>
    if sibling.root_eid = root_eid then Outcome.ok (family', sibling) else Outcome.malfunction
  | other => other

/-- The constructor `svn_branch_instance_create`, with its assertions. -/
def svn_branch_instance_create (family : svn_branch_family_t)
    (branch_sibling : svn_branch_sibling_t) (outer_branch : Option Nat) (outer_eid : Int) :
    Outcome svn_branch_instance_t :=
  if assert_branch_instance_invariants family
      { sibling_defn := branch_sibling, outer_branch := outer_branch, outer_eid := outer_eid,
        e_map := [] } then
    Outcome.ok { sibling_defn := branch_sibling, outer_branch := outer_branch,
                 outer_eid := outer_eid, e_map := [] }
  else Outcome.malfunction

/-- Modelled from the spec: `svn_element_content_create_ref` (libsvn_delta/element.c), the
by-reference payload `{ rev, relpath }`, of unknown kind. -/
def svn_element_content_create_ref (peg : svn_pathrev_t) : svn_element_content_t :=
  { kind := svn_node_kind_t.svn_node_unknown, ref := peg, props := none }

/-- The first loop of `svn_branch_instance_parse`: one element line per EID of the family;
a line with a name sets the element, with a NULL payload. -/
def svn_branch_instance_parse_structure (family : svn_branch_family_t) :
    List Int → svn_branch_instance_t → List Char →
    Outcome (svn_branch_instance_t × List Char)
  | [], branch_instance, stream => Outcome.ok (branch_instance, stream)
  | _ :: eids, branch_instance, stream =>
    match parse_element_line stream with
    | Outcome.ok (_, this_eid, this_parent_eid, this_name, rest) =>
      (match this_name with
       | some name =>
         (match branch_map_set family branch_instance this_eid
             (some (svn_branch_el_rev_content_create this_parent_eid (some name) none)) with
          | Step.done b => svn_branch_instance_parse_structure family eids b rest
          | Step.malfunction _ => Outcome.malfunction
          | Step.out_of_fuel => Outcome.out_of_fuel)
       | none => svn_branch_instance_parse_structure family eids branch_instance rest)
    | Outcome.malfunction => Outcome.malfunction
    | Outcome.out_of_fuel => Outcome.out_of_fuel

/-- The second loop of `svn_branch_instance_parse`: every element gets a payload by reference
to its full path in this revision. -/
def svn_branch_instance_parse_content (family : svn_branch_family_t)
    (rev_root : svn_branch_revision_root_t) (fuel : Nat) :
    List Int → svn_branch_instance_t → Outcome svn_branch_instance_t
  | [], branch_instance => Outcome.ok branch_instance
  | eid :: eids, branch_instance =>
    match svn_branch_map_get family branch_instance eid with
    | Outcome.ok none =>
      svn_branch_instance_parse_content family rev_root fuel eids branch_instance
    | Outcome.ok (some node) =>
      (match svn_branch_get_rrpath_by_eid family rev_root.store fuel branch_instance eid with
       | Outcome.ok rrpath =>
         (match svn_branch_map_update family branch_instance eid node.parent_eid node.name
             (some (svn_element_content_create_ref { rev := rev_root.rev, relpath := rrpath })) with
          | Step.done b => svn_branch_instance_parse_content family rev_root fuel eids b
          | Step.malfunction _ => Outcome.malfunction
          | Step.out_of_fuel => Outcome.out_of_fuel)
       | Outcome.malfunction => Outcome.malfunction
       | Outcome.out_of_fuel => Outcome.out_of_fuel)
    | Outcome.malfunction => Outcome.malfunction
    | Outcome.out_of_fuel => Outcome.out_of_fuel

/-- The function `svn_branch_instance_parse`: the family (a sibling may have been registered),
the new branch instance and the rest of the stream. -/
def svn_branch_instance_parse (family : svn_branch_family_t)
    (rev_root : svn_branch_revision_root_t) (fuel : Nat) (stream : List Char) :
    Outcome (svn_branch_family_t × svn_branch_instance_t × List Char) :=
  match parse_branch_line stream with
  | Outcome.ok (bsid, root_eid, branch_root_rrpath, rest) =>
    (match family_find_or_create_branch_sibling family bsid root_eid with
     | Outcome.ok (family', branch_sibling) =>
       let outer : Outcome (Option Nat × Int) :=
         if branch_root_rrpath ≠ "" then
           match rev_root.root_branch with
           | none => Outcome.malfunction
           | some a =>
             match svn_branch_find_nested_branch_element_by_rrpath family' rev_root fuel a
                 branch_root_rrpath with
             | Outcome.ok (some (b, eid)) => Outcome.ok (some b, eid)
             | Outcome.ok none => Outcome.ok (none, -1)
             | Outcome.malfunction => Outcome.malfunction
             | Outcome.out_of_fuel => Outcome.out_of_fuel
         else Outcome.ok (none, -1)
       match outer with
       | Outcome.ok (outer_branch, outer_eid) =>
         (match svn_branch_instance_create family' branch_sibling outer_branch outer_eid with
          | Outcome.ok branch_instance =>
            (match svn_branch_instance_parse_structure family' (eid_range family')
                branch_instance rest with
             | Outcome.ok (b1, rest') =>
               (match svn_branch_instance_parse_content family' rev_root fuel
                   (eid_range family') b1 with
                | Outcome.ok b2 => Outcome.ok (family', b2, rest')
                | Outcome.malfunction => Outcome.malfunction
                | Outcome.out_of_fuel => Outcome.out_of_fuel)
             | Outcome.malfunction => Outcome.malfunction
             | Outcome.out_of_fuel => Outcome.out_of_fuel)
          | Outcome.malfunction => Outcome.malfunction
          | Outcome.out_of_fuel => Outcome.out_of_fuel)
       | Outcome.malfunction => Outcome.malfunction
       | Outcome.out_of_fuel => Outcome.out_of_fuel
     | Outcome.malfunction => Outcome.malfunction
     | Outcome.out_of_fuel => Outcome.out_of_fuel)
  | Outcome.malfunction => Outcome.malfunction
  | Outcome.out_of_fuel => Outcome.out_of_fuel

/-- The match of `sscanf(line, "family: bsids %d %d eids %d %d b-instances %d", ...)` with
all five conversions done. -/
def scan_family_line (line : List Char) : Option (Int × Int × Int × Int × Int) := do
  let s ← scan_lit "family:".data line
  let s ← scan_lit "bsids".data (scan_ws s)
  let (first_bsid, s) ← scan_int (scan_ws s)
  let (next_bsid, s) ← scan_int (scan_ws s)
  let s ← scan_lit "eids".data (scan_ws s)
  let (first_eid, s) ← scan_int (scan_ws s)
  let (next_eid, s) ← scan_int (scan_ws s)
  let s ← scan_lit "b-instances".data (scan_ws s)
  let (num, _) ← scan_int (scan_ws s)
  pure (first_bsid, next_bsid, first_eid, next_eid, num)

/-- The constructor `svn_branch_family_create`. -/
def svn_branch_family_create (first_bsid next_bsid first_eid next_eid : Int) :
    svn_branch_family_t :=
  { first_bsid := first_bsid, next_bsid := next_bsid, first_eid := first_eid,
    next_eid := next_eid, branch_siblings := [] }

/-- The function `svn_branch_family_parse`: the family of the repository (updated or created),
the number of branch instances and the rest of the stream. -/
def svn_branch_family_parse (repos : svn_branch_repos_t) (stream : List Char) :
    Outcome (svn_branch_family_t × Int × List Char) :=
  let r := svn_stream_readline stream
  if r.2.1 then Outcome.malfunction
  else
    match scan_family_line r.1 with
    | none => Outcome.malfunction
    | some (first_bsid, next_bsid, first_eid, next_eid, num) =>
      match repos.family with
      | some family =>
        if first_bsid = family.first_bsid ∧ family.next_bsid ≤ next_bsid
            ∧ first_eid = family.first_eid ∧ family.next_eid ≤ next_eid then
          Outcome.ok ({ family with next_bsid := next_bsid, next_eid := next_eid }, num, r.2.2)
        else Outcome.malfunction
      | none =>
        Outcome.ok (svn_branch_family_create first_bsid next_bsid first_eid next_eid, num, r.2.2)

/-- The loop `for (j = 0; j < num_branch_instances; j++)` of `svn_branch_revision_root_parse`. -/
def svn_branch_revision_root_parse_branches (fuel : Nat) :
    Nat → svn_branch_family_t → svn_branch_revision_root_t → List Char →
    Outcome (svn_branch_family_t × svn_branch_revision_root_t × List Char)
  | 0, family, rev_root, stream => Outcome.ok (family, rev_root, stream)
  | j + 1, family, rev_root, stream =>
    match svn_branch_instance_parse family rev_root fuel stream with
    | Outcome.ok (family', branch, rest) =>
      svn_branch_revision_root_parse_branches fuel j family'
        { rev_root with
          store := rev_root.store ++ [branch],
          branch_instances := rev_root.branch_instances ++ [rev_root.store.length],
          root_branch :=
            if branch.outer_branch.isNone then some rev_root.store.length
            else rev_root.root_branch }
        rest
    | Outcome.malfunction => Outcome.malfunction
    | Outcome.out_of_fuel => Outcome.out_of_fuel

/-- The function `svn_branch_revision_root_parse`: the repository (with its family) and the
new revision root. -/
def svn_branch_revision_root_parse (repos : svn_branch_repos_t) (fuel : Nat)
    (stream : List Char) : Outcome (svn_branch_repos_t × svn_branch_revision_root_t) :=
  let r := svn_stream_readline stream
  if r.2.1 then Outcome.malfunction
  else
    match scan_lit ['r'] r.1 with
    | none => Outcome.malfunction
    | some s =>
      match scan_int s with
      | none => Outcome.malfunction
      | some (rev, _) =>
        match svn_branch_family_parse repos r.2.2 with
        | Outcome.ok (family, num_branch_instances, rest) =>
          (match svn_branch_revision_root_parse_branches fuel num_branch_instances.toNat family
              { rev := rev, root_branch := none, branch_instances := [], store := [] } rest with
           | Outcome.ok (family', rev_root, _) =>
             Outcome.ok ({ repos with family := some family' }, rev_root)
           | Outcome.malfunction => Outcome.malfunction
           | Outcome.out_of_fuel => Outcome.out_of_fuel)
        | Outcome.malfunction => Outcome.malfunction
        | Outcome.out_of_fuel => Outcome.out_of_fuel

/-! ## Serializing -/

/-- The element lines of `svn_branch_instance_serialize`, one per EID. -/
def svn_branch_instance_serialize_elements (family : svn_branch_family_t)
    (branch : svn_branch_instance_t) : List Int → Outcome (List Char)
  | [] => Outcome.ok []
  | eid :: eids =>
    match svn_branch_map_get family branch eid with
    | Outcome.ok node =>
      let parent_eid : Int := match node with
        | some n => n.parent_eid
        | none => -1
      let name : Outcome (List Char) := match node with
        | some n =>
          (match n.name with
           | some s => Outcome.ok (if s ≠ "" then s.data else ['.'])
           | none => Outcome.malfunction)
        | none => Outcome.ok "(null)".data
      (match name with
       | Outcome.ok name =>
         (match svn_branch_instance_serialize_elements family branch eids with
          | Outcome.ok lines =>
            Outcome.ok (['b'] ++ print_int branch.sibling_defn.bsid ++ ['e'] ++ print_int eid
              ++ ": ".data ++ print_int parent_eid ++ [' '] ++ name ++ ['\n'] ++ lines)
          | other => other)
       | other => other)
    | Outcome.malfunction => Outcome.malfunction
    | Outcome.out_of_fuel => Outcome.out_of_fuel

/-- The function `svn_branch_instance_serialize` for the instance at address `a`: the text
written, and the store in which the instance has been purged. -/
def svn_branch_instance_serialize (family : svn_branch_family_t) (fuel : Nat)
    (store : List svn_branch_instance_t) (a : Nat) :
    Outcome (List Char × List svn_branch_instance_t) :=
  match store.get? a with
  | none => Outcome.malfunction
  | some branch =>
    match svn_branch_get_root_rrpath family store fuel branch with
    | Outcome.ok branch_root_rrpath =>
      (match svn_branch_map_purge_orphans branch with
       | Step.done purged =>
         (match svn_branch_instance_serialize_elements family purged (eid_range family) with
          | Outcome.ok lines =>
            Outcome.ok (['b'] ++ print_int branch.sibling_defn.bsid ++ ": root-eid ".data
              ++ print_int branch.sibling_defn.root_eid ++ " at ".data
              ++ (if branch_root_rrpath ≠ "" then branch_root_rrpath.data else ['.'])
              ++ ['\n'] ++ lines,
              store.set a purged)
          | Outcome.malfunction => Outcome.malfunction
          | Outcome.out_of_fuel => Outcome.out_of_fuel)
       | Step.malfunction _ => Outcome.malfunction
       | Step.out_of_fuel => Outcome.out_of_fuel)
    | Outcome.malfunction => Outcome.malfunction
    | Outcome.out_of_fuel => Outcome.out_of_fuel

/-- The loop of `svn_branch_family_serialize` over the branch instances. -/
def svn_branch_family_serialize_instances (family : svn_branch_family_t) (fuel : Nat) :
    List Nat → List svn_branch_instance_t → Outcome (List Char × List svn_branch_instance_t)
  | [], store => Outcome.ok ([], store)
  | a :: rest, store =>
    match svn_branch_instance_serialize family fuel store a with
    | Outcome.ok (text, store') =>
      (match svn_branch_family_serialize_instances family fuel rest store' with
       | Outcome.ok (text', store'') => Outcome.ok (text ++ text', store'')
       | other => other)
    | other => other

/-- The function `svn_branch_family_serialize`.  There is one family, so every instance of the
revision root belongs to it. -/
def svn_branch_family_serialize (family : svn_branch_family_t) (fuel : Nat)
    (rev_root : svn_branch_revision_root_t) :
    Outcome (List Char × List svn_branch_instance_t) :=
  match svn_branch_family_serialize_instances family fuel rev_root.branch_instances
      rev_root.store with
  | Outcome.ok (text, store) =>
    Outcome.ok ("family: bsids ".data ++ print_int family.first_bsid ++ [' ']
      ++ print_int family.next_bsid ++ " eids ".data ++ print_int family.first_eid ++ [' ']
      ++ print_int family.next_eid ++ " b-instances ".data
      ++ print_int (rev_root.branch_instances.length : Int) ++ ['\n'] ++ text, store)
  | other => other

/-- The function `svn_branch_revision_root_serialize`: the text written to the stream and the
revision root as the call leaves it (every instance purged of orphans). -/
def svn_branch_revision_root_serialize (family : svn_branch_family_t) (fuel : Nat)
    (rev_root : svn_branch_revision_root_t) :
    Outcome (List Char × svn_branch_revision_root_t) :=
  match rev_root.root_branch with
  | none => Outcome.malfunction
  | some _ =>
    match svn_branch_family_serialize family fuel rev_root with
    | Outcome.ok (text, store) =>
      Outcome.ok (['r'] ++ print_int rev_root.rev ++ ":\n".data ++ text,
        { rev_root with store := store })
    | Outcome.malfunction => Outcome.malfunction
    | Outcome.out_of_fuel => Outcome.out_of_fuel

/-! ## Branching, purging and deleting branch instances -/

/-- Modelled from the spec: the error codes (svn_error_codes.h) that branch.c, editor3e.c and
split_url.c put into an `svn_error_t`, and `SVN_ERR_CANCELLED`, the code with which a
cancellation function signals. -/
inductive svn_errno_t where
  | SVN_ERR_BRANCHING
  | SVN_ERR_FS_NO_SUCH_REVISION
  | SVN_ERR_RA_ILLEGAL_URL
  | SVN_ERR_RA_LOCAL_REPOS_OPEN_FAILED
  | SVN_ERR_CANCELLED
  deriving DecidableEq, Repr

/-- Result of a function that returns `svn_error_t *` and writes to the state `σ`: a return of
`SVN_NO_ERROR` with the new state and the value of the out-parameter, a return of an error with
the state as the call left it, an abort, or fuel used up. -/
inductive Run (σ : Type) (α : Type) where
  | ok (s : σ) (a : α)
  | error (s : σ) (e : svn_errno_t)
  | malfunction
  | out_of_fuel
  deriving DecidableEq, Repr

/-- Sequencing of calls that return a new state: go on from a normal return, stop otherwise. -/
def Outcome.bind {α β : Type} (o : Outcome α) (g : α → Outcome β) : Outcome β :=
  match o with
  | Outcome.ok a => g a
  | Outcome.malfunction => Outcome.malfunction
  | Outcome.out_of_fuel => Outcome.out_of_fuel

/-- The allocator `svn_branch_family_add_new_branch_sibling`: the new sibling has the BSID
`next_bsid`, which is incremented. -/
def svn_branch_family_add_new_branch_sibling (family : svn_branch_family_t) (root_eid : Int) :
    Outcome (svn_branch_family_t × svn_branch_sibling_t) :=
  family_create_branch_sibling { family with next_bsid := family.next_bsid + 1 }
    family.next_bsid root_eid

/-- The function `svn_branch_add_new_branch_instance`: the new instance is created and pushed
onto the list of the revision root of `outer_branch`; its address is returned. -/
def svn_branch_add_new_branch_instance (family : svn_branch_family_t)
    (rev_root : svn_branch_revision_root_t) (outer_branch : Nat) (outer_eid : Int)
    (branch_sibling : svn_branch_sibling_t) :
    Outcome (svn_branch_revision_root_t × Nat) :=
  match rev_root.store.get? outer_branch with
  | none => Outcome.malfunction
  | some _ =>
    match svn_branch_instance_create family branch_sibling (some outer_branch) outer_eid with
    | Outcome.ok branch_instance =>
      Outcome.ok ({ rev_root with
                    store := rev_root.store ++ [branch_instance],
                    branch_instances := rev_root.branch_instances ++ [rev_root.store.length] },
                  rev_root.store.length)
    | Outcome.malfunction => Outcome.malfunction
    | Outcome.out_of_fuel => Outcome.out_of_fuel

/-- The loop of `svn_branch_get_subbranches` over the instances of the revision root: the root
path of every instance is computed, and an immediate child of `branch` whose root path is at
or below `top_rrpath` is collected.  A NULL `top_rrpath` is dereferenced by
`svn_relpath_skip_ancestor` when there is an immediate child. -/
def svn_branch_get_subbranches_loop (family : svn_branch_family_t)
    (store : List svn_branch_instance_t) (fuel : Nat) (branch : Nat)
    (top_rrpath : Option String) : List Nat → Outcome (List Nat)
  | [] => Outcome.ok []
  | i :: rest =>
    match store.get? i with
    | none => Outcome.malfunction
    | some subbranch =>
      match svn_branch_get_root_rrpath family store fuel subbranch with
      | Outcome.ok sub_branch_root_rrpath =>
        if subbranch.outer_branch = some branch then
          match top_rrpath with
          | none => Outcome.malfunction
          | some top =>
            match svn_branch_get_subbranches_loop family store fuel branch top_rrpath rest with
            | Outcome.ok l =>
              Outcome.ok
                (if (svn_relpath_skip_ancestor top sub_branch_root_rrpath).isSome then i :: l
                 else l)
            | other => other
        else svn_branch_get_subbranches_loop family store fuel branch top_rrpath rest
      | Outcome.malfunction => Outcome.malfunction
      | Outcome.out_of_fuel => Outcome.out_of_fuel

/-- The function `svn_branch_get_subbranches`: the immediate sub-branches of the instance at
address `branch` whose root path is at or below the path of `eid`. -/
def svn_branch_get_subbranches (family : svn_branch_family_t)
    (rev_root : svn_branch_revision_root_t) (fuel : Nat) (branch : Nat) (eid : Int) :
    Outcome (List Nat) :=
  match rev_root.store.get? branch with
  | none => Outcome.malfunction
  | some b =>
    match svn_branch_get_rrpath_by_eid family rev_root.store fuel b eid with
    | Outcome.ok top_rrpath =>
      svn_branch_get_subbranches_loop family rev_root.store fuel branch top_rrpath
        rev_root.branch_instances
    | Outcome.malfunction => Outcome.malfunction
    | Outcome.out_of_fuel => Outcome.out_of_fuel

/-- The `while` loop of `svn_branch_instance_get_id`: `".%d%s"` puts the outer EID of the
current branch in front of `id`, then the walk goes on at the outer branch. -/
def svn_branch_instance_get_id_loop (store : List svn_branch_instance_t) :
    Nat → svn_branch_instance_t → List Char → Outcome (List Char)
  | 0, _, _ => Outcome.out_of_fuel
  | fuel + 1, branch, id =>
    match branch.outer_branch with
    | none => Outcome.ok ('^' :: id)
    | some a =>
      match store.get? a with
      | none => Outcome.malfunction
      | some outer =>
        svn_branch_instance_get_id_loop store fuel outer
          ('.' :: (print_int branch.outer_eid ++ id))

/-- The function `svn_branch_instance_get_id`. -/
def svn_branch_instance_get_id (store : List svn_branch_instance_t) (fuel : Nat)
    (branch : svn_branch_instance_t) : Outcome (List Char) :=
  svn_branch_instance_get_id_loop store fuel branch []

/-- The body of the loop `for (SVN_ARRAY_ITER(bi, subbranches))` of
`svn_branch_branch_subtree_r2` and `svn_branch_branch_into`: the sub-branch at address `s` is
branched into the instance at address `target` by `call`, the recursive call of
`svn_branch_branch_subtree_r2`, with its own root EID, outer EID and sibling. -/
def branch_subbranch
    (call : svn_branch_revision_root_t → Nat → Int → Nat → Int → svn_branch_sibling_t →
      Outcome (svn_branch_revision_root_t × Nat))
    (target : Nat) (s : Nat) (st : svn_branch_revision_root_t) :
    Outcome svn_branch_revision_root_t :=
  match st.store.get? s with
  | none => Outcome.malfunction
  | some subbranch =>
    match call st s subbranch.sibling_defn.root_eid target subbranch.outer_eid
        subbranch.sibling_defn with
    | Outcome.ok (st', _) => Outcome.ok st'
    | Outcome.malfunction => Outcome.malfunction
    | Outcome.out_of_fuel => Outcome.out_of_fuel

/-- The function `svn_branch_branch_subtree_r2`, on branch instances given by address; it
returns the new revision root and the address of the new instance.  When it returns, it
returns `SVN_NO_ERROR`: none of its callees makes an error. -/
def svn_branch_branch_subtree_r2 (family : svn_branch_family_t) :
    Nat → svn_branch_revision_root_t → Nat → Int → Nat → Int → svn_branch_sibling_t →
    Outcome (svn_branch_revision_root_t × Nat)
  | 0, _, _, _, _, _, _ => Outcome.out_of_fuel
  | fuel + 1, rev_root, from_branch, from_eid, to_outer_branch, to_outer_eid, new_branch_def =>
    match rev_root.store.get? from_branch with
    | none => Outcome.malfunction
    | some from_b =>
      match svn_branch_add_new_branch_instance family rev_root to_outer_branch to_outer_eid
          new_branch_def with
      | Outcome.ok (rev_root1, new_branch) =>
        (match rev_root1.store.get? new_branch with
         | none => Outcome.malfunction
         | some nb =>
           match svn_branch_instantiate_subtree family nb (-1) (some "")
               (svn_branch_map_get_subtree from_b from_eid) with
           | Step.done (nb', _) =>
             (match svn_branch_get_subbranches family
                 { rev_root1 with store := rev_root1.store.set new_branch nb' } fuel
                 from_branch from_eid with
              | Outcome.ok subs =>
                (match subs.foldl
                    (fun acc s => acc.bind
                      (branch_subbranch (svn_branch_branch_subtree_r2 family fuel) new_branch s))
                    (Outcome.ok { rev_root1 with store := rev_root1.store.set new_branch nb' })
                 with
                 | Outcome.ok st => Outcome.ok (st, new_branch)
                 | Outcome.malfunction => Outcome.malfunction
                 | Outcome.out_of_fuel => Outcome.out_of_fuel)
              | Outcome.malfunction => Outcome.malfunction
              | Outcome.out_of_fuel => Outcome.out_of_fuel)
           | Step.malfunction _ => Outcome.malfunction
           | Step.out_of_fuel => Outcome.out_of_fuel)
      | Outcome.malfunction => Outcome.malfunction
      | Outcome.out_of_fuel => Outcome.out_of_fuel

/-- The function `svn_branch_branch_subtree_r`.  The state is the family and the revision
root; the value is the address of the new branch instance. -/
def svn_branch_branch_subtree_r (fuel : Nat) (family : svn_branch_family_t)
    (rev_root : svn_branch_revision_root_t) (from_branch : Nat) (from_eid : Int)
    (to_outer_branch : Nat) (to_outer_parent_eid : Int) (new_name : Option String) :
    Run (svn_branch_family_t × svn_branch_revision_root_t) Nat :=
  match rev_root.store.get? from_branch with
  | none => Run.malfunction
  | some from_b =>
    match svn_branch_get_path_by_eid family from_b fuel from_eid with
    | Outcome.ok none => Run.error (family, rev_root) svn_errno_t.SVN_ERR_BRANCHING
    | Outcome.ok (some _) =>
      (match rev_root.store.get? to_outer_branch with
       | none => Run.malfunction
       | some to_outer_b =>
         match svn_branch_map_update_as_subbranch_root
             (svn_branch_family_add_new_element family).1 to_outer_b
             (svn_branch_family_add_new_element family).2 to_outer_parent_eid new_name with
         | Step.done to_outer_b' =>
           (match svn_branch_family_add_new_branch_sibling
               (svn_branch_family_add_new_element family).1 from_eid with
            | Outcome.ok (family', new_branch_def) =>
              (match svn_branch_branch_subtree_r2 family' fuel
                  { rev_root with store := rev_root.store.set to_outer_branch to_outer_b' }
                  from_branch from_eid to_outer_branch
                  (svn_branch_family_add_new_element family).2 new_branch_def with
               | Outcome.ok (rev_root', new_branch) => Run.ok (family', rev_root') new_branch
               | Outcome.malfunction => Run.malfunction
               | Outcome.out_of_fuel => Run.out_of_fuel)
            | Outcome.malfunction => Run.malfunction
            | Outcome.out_of_fuel => Run.out_of_fuel)
         | Step.malfunction _ => Run.malfunction
         | Step.out_of_fuel => Run.out_of_fuel)
    | Outcome.malfunction => Run.malfunction
    | Outcome.out_of_fuel => Run.out_of_fuel

/-- The function `svn_branch_branch_into`. -/
def svn_branch_branch_into (fuel : Nat) (family : svn_branch_family_t)
    (rev_root : svn_branch_revision_root_t) (from_branch : Nat) (from_eid : Int)
    (to_branch : Nat) (to_parent_eid : Int) (new_name : Option String) :
    Run svn_branch_revision_root_t Unit :=
  match rev_root.store.get? from_branch with
  | none => Run.malfunction
  | some from_b =>
    match svn_branch_get_path_by_eid family from_b fuel from_eid with
    | Outcome.ok none => Run.error rev_root svn_errno_t.SVN_ERR_BRANCHING
    | Outcome.ok (some _) =>
      (match rev_root.store.get? to_branch with
       | none => Run.malfunction
       | some to_b =>
         match svn_branch_instantiate_subtree family to_b to_parent_eid new_name
             (svn_branch_map_get_subtree from_b from_eid) with
         | Step.done (to_b', _) =>
           (match svn_branch_get_subbranches family
               { rev_root with store := rev_root.store.set to_branch to_b' } fuel
               from_branch from_eid with
            | Outcome.ok subs =>
              (match subs.foldl
                  (fun acc s => acc.bind
                    (branch_subbranch (svn_branch_branch_subtree_r2 family fuel) to_branch s))
                  (Outcome.ok { rev_root with store := rev_root.store.set to_branch to_b' })
               with
               | Outcome.ok st => Run.ok st ()
               | Outcome.malfunction => Run.malfunction
               | Outcome.out_of_fuel => Run.out_of_fuel)
            | Outcome.malfunction => Run.malfunction
            | Outcome.out_of_fuel => Run.out_of_fuel)
         | Step.malfunction _ => Run.malfunction
         | Step.out_of_fuel => Run.out_of_fuel)
    | Outcome.malfunction => Run.malfunction
    | Outcome.out_of_fuel => Run.out_of_fuel

/-- The function `svn_branch_revision_root_delete_branch_instance`: the first occurrence of the
instance in the list is deleted.  There is one revision root, so the assertion
`branch->rev_root == rev_root` holds. -/
def svn_branch_revision_root_delete_branch_instance (rev_root : svn_branch_revision_root_t)
    (branch : Nat) : svn_branch_revision_root_t :=
  { rev_root with branch_instances := rev_root.branch_instances.erase branch }

/-- The function `svn_branch_delete_branch_instance_r`.  The revision root is read through
`branch->outer_branch->rev_root`, so `outer_branch` is dereferenced. -/
def svn_branch_delete_branch_instance_r :
    Nat → svn_branch_revision_root_t → Nat → Outcome svn_branch_revision_root_t
  | 0, _, _ => Outcome.out_of_fuel
  | fuel + 1, rev_root, branch =>
    match rev_root.store.get? branch with
    | none => Outcome.malfunction
    | some b =>
      match (svn_branch_get_all_sub_branches rev_root branch).foldl
          (fun acc s => acc.bind (fun st => svn_branch_delete_branch_instance_r fuel st s))
          (Outcome.ok rev_root) with
      | Outcome.ok st =>
        (match b.outer_branch with
         | none => Outcome.malfunction
         | some o =>
           match st.store.get? o with
           | none => Outcome.malfunction
           | some _ => Outcome.ok (svn_branch_revision_root_delete_branch_instance st branch))
      | Outcome.malfunction => Outcome.malfunction
      | Outcome.out_of_fuel => Outcome.out_of_fuel

/-- The body of the loop of `svn_branch_purge_r` over the sub-branches of the instance at
address `branch`: the sub-branch at address `s` is purged by `purge` (the recursive call of
`svn_branch_purge_r`) when its outer EID has an element in `branch`, and deleted otherwise. -/
def purge_or_delete (family : svn_branch_family_t)
    (purge : svn_branch_revision_root_t → Nat → Outcome svn_branch_revision_root_t)
    (delete : svn_branch_revision_root_t → Nat → Outcome svn_branch_revision_root_t)
    (branch : Nat) (s : Nat) (st : svn_branch_revision_root_t) :
    Outcome svn_branch_revision_root_t :=
  match st.store.get? s with
  | none => Outcome.malfunction
  | some b =>
    match st.store.get? branch with
    | none => Outcome.malfunction
    | some outer =>
      match svn_branch_map_get family outer b.outer_eid with
      | Outcome.ok (some _) => purge st s
      | Outcome.ok none => delete st s
      | Outcome.malfunction => Outcome.malfunction
      | Outcome.out_of_fuel => Outcome.out_of_fuel

/-- The function `svn_branch_purge_r`. -/
def svn_branch_purge_r (family : svn_branch_family_t) :
    Nat → svn_branch_revision_root_t → Nat → Outcome svn_branch_revision_root_t
  | 0, _, _ => Outcome.out_of_fuel
  | fuel + 1, rev_root, branch =>
    match rev_root.store.get? branch with
    | none => Outcome.malfunction
    | some b =>
      match svn_branch_map_purge_orphans b with
      | Step.done b' =>
        (svn_branch_get_all_sub_branches
            { rev_root with store := rev_root.store.set branch b' } branch).foldl
          (fun acc s => acc.bind
            (purge_or_delete family (svn_branch_purge_r family fuel)
              (svn_branch_delete_branch_instance_r fuel) branch s))
          (Outcome.ok { rev_root with store := rev_root.store.set branch b' })
      | Step.malfunction _ => Outcome.malfunction
      | Step.out_of_fuel => Outcome.out_of_fuel

/-! ## Locating an element in a revision -/

/-- Modelled from the spec: the record `svn_branch_el_rev_id_t` (private/svn_branch.h): a
pointer to a branch instance (its address in the revision root, `none` for NULL), an EID and a
revision. -/
structure svn_branch_el_rev_id_t where
  branch : Option Nat
  eid : Int
  rev : Int
  deriving DecidableEq, Repr

/-- The function `svn_branch_repos_find_el_rev_by_path_rev`.  It writes nothing, so the state
is `Unit`; a revision root without root branch makes the nested lookup dereference NULL, and a
lookup that finds no branch fails `SVN_ERR_ASSERT_NO_RETURN(el_rev->branch)`. -/
def svn_branch_repos_find_el_rev_by_path_rev (family : svn_branch_family_t) (fuel : Nat)
    (repos : svn_branch_repos_t) (rrpath : String) (revnum : Int) :
    Run Unit svn_branch_el_rev_id_t :=
  if revnum < 0 ∨ revnum ≥ (repos.rev_roots.length : Int) then
    Run.error () svn_errno_t.SVN_ERR_FS_NO_SUCH_REVISION
  else
    match repos.rev_roots.get? revnum.toNat with
    | none => Run.malfunction
    | some rev_root =>
      match rev_root.root_branch with
      | none => Run.malfunction
      | some a =>
        match svn_branch_find_nested_branch_element_by_rrpath family rev_root fuel a rrpath with
        | Outcome.ok (some (branch, eid)) =>
          Run.ok () { branch := some branch, eid := eid, rev := revnum }
        | Outcome.ok none => Run.malfunction
        | Outcome.malfunction => Run.malfunction
        | Outcome.out_of_fuel => Run.out_of_fuel

/-! ## The editor (libsvn_delta/editor3e.c)

Conventions of this part of the embedding:

* The editor baton and the cancel baton point into one world `W`.  The cancellation function
  is a function on `W` that returns the world as it leaves it and the error it returns, if any.
  A callback is a function on `W` and on the operands it can write to (the branch record, an
  out-parameter) that returns a `Reply`: the world and the operands as it leaves them, on a
  return of `SVN_NO_ERROR`, on a return of an error, or at an abort inside the callback.  A
  callback that calls back into the same editor is not modelled.
* `ENABLE_ORDERING_CHECK` is a parameter of every operation: `true` is a build with `SVN_DEBUG`.
  Without it the fields `within_callback` and `finished` are neither read nor written.
* A failed `SVN_ERR_ASSERT` is `Reply.malfunction`, which carries the state at the abort.
* `svn_relpath_is_canonical` (libsvn_subr/dirent_uri.c) is a parameter.
-/

/-- Modelled from the spec: `svn_element_payload_t`, the name under which editor3e.c refers to
the payload type `svn_element_content_t` of branch.c. -/
abbrev svn_element_payload_t := svn_element_content_t

/-- Modelled from the spec: `svn_branch_state_t` (private/svn_branch.h) with the fields that
editor3e.c reads and writes: the root EID of the branch and the counter `rev_root->next_eid`,
the next EID that the family hands out. -/
structure svn_branch_state_t where
  root_eid : Int
  next_eid : Int
  deriving DecidableEq, Repr

/-- Modelled from the spec: the allocator `svn_branch_allocate_new_eid`: returns `next_eid` and
increments it. -/
def svn_branch_allocate_new_eid (branch : svn_branch_state_t) : svn_branch_state_t × Int :=
  ({ branch with next_eid := branch.next_eid + 1 }, branch.next_eid)

/-- Result of an editor operation on the state `σ`: a return of `SVN_NO_ERROR`, a return of an
error, an abort through `SVN_ERR_ASSERT`, each with the state at that moment, or fuel used
up. -/
inductive Reply (σ : Type) where
  | ok (s : σ)
  | error (s : σ) (e : svn_errno_t)
  | malfunction (s : σ)
  | out_of_fuel
  deriving DecidableEq, Repr

/-- The state that a reply carries: none when the fuel was used up. -/
def Reply.state {σ : Type} : Reply σ → Option σ
  | Reply.ok s => some s
  | Reply.error s _ => some s
  | Reply.malfunction s => some s
  | Reply.out_of_fuel => none

/-- The call returned, with `SVN_NO_ERROR` or with an error. -/
def Reply.returned {σ : Type} : Reply σ → Bool
  | Reply.ok _ => true
  | Reply.error _ _ => true
  | Reply.malfunction _ => false
  | Reply.out_of_fuel => false

/-- The reply with a function applied to the state it carries. -/
def Reply.map {σ τ : Type} (g : σ → τ) : Reply σ → Reply τ
  | Reply.ok s => Reply.ok (g s)
  | Reply.error s e => Reply.error (g s) e
  | Reply.malfunction s => Reply.malfunction (g s)
  | Reply.out_of_fuel => Reply.out_of_fuel

/-- The call returned `SVN_NO_ERROR`. -/
def Reply.succeeded {σ : Type} : Reply σ → Bool
  | Reply.ok _ => true
  | _ => false

/-- Modelled from the spec: the record `svn_editor3_cb_funcs_t` (private/svn_editor3e.h) of the
ten callbacks, each of which may be NULL, in the order in which editor3e.c initialises it. -/
structure svn_editor3_cb_funcs_t (W : Type) where
  cb_new_eid : Option (W → svn_branch_state_t → Int → Reply (W × (svn_branch_state_t × Int)))
  cb_add : Option (W → svn_branch_state_t → Int → Int → Option String →
    Option svn_element_payload_t → Reply (W × svn_branch_state_t))
  cb_copy_one : Option (W → Option svn_branch_el_rev_id_t → svn_branch_state_t → Int → Int →
    Option String → Option svn_element_payload_t → Reply (W × svn_branch_state_t))
  cb_copy_tree : Option (W → Option svn_branch_el_rev_id_t → svn_branch_state_t → Int →
    Option String → Reply (W × svn_branch_state_t))
  cb_delete : Option (W → svn_branch_state_t → Int → Reply (W × svn_branch_state_t))
  cb_alter : Option (W → svn_branch_state_t → Int → Int → Option String →
    Option svn_element_payload_t → Reply (W × svn_branch_state_t))
  cb_payload_resolve : Option (W → Option svn_element_payload_t →
    Option svn_branch_el_rev_content_t → Reply (W × Option svn_element_payload_t))
  cb_sequence_point : Option (W → Unit → Reply (W × Unit))
  cb_complete : Option (W → Unit → Reply (W × Unit))
  cb_abort : Option (W → Unit → Reply (W × Unit))

/-- The record `struct svn_editor3_t`: the world of the batons, the cancellation function, the
callbacks and the two flags of the ordering check.  The pools are left out. -/
structure svn_editor3_t (W : Type) where
  baton : W
  cancel_func : Option (W → W × Option svn_errno_t)
  funcs : svn_editor3_cb_funcs_t W
  within_callback : Bool
  finished : Bool

/-- The constructor `svn_editor3_create`. -/
def svn_editor3_create {W : Type} (editor_funcs : svn_editor3_cb_funcs_t W) (editor_baton : W)
    (cancel_func : Option (W → W × Option svn_errno_t)) : svn_editor3_t W :=
  { baton := editor_baton, cancel_func := cancel_func, funcs := editor_funcs,
    within_callback := false, finished := false }

/-- The macro `START_CALLBACK`: with the ordering check, `SVN_ERR_ASSERT(!within_callback)`
(`none` when it fails) and then `within_callback = TRUE`. -/
def START_CALLBACK {W : Type} (ENABLE_ORDERING_CHECK : Bool) (editor : svn_editor3_t W) :
    Option (svn_editor3_t W) :=
  if ENABLE_ORDERING_CHECK then
    if editor.within_callback then none
    else some { editor with within_callback := true }
  else some editor

/-- The macro `END_CALLBACK`. -/
def END_CALLBACK {W : Type} (ENABLE_ORDERING_CHECK : Bool) (editor : svn_editor3_t W) :
    svn_editor3_t W :=
  if ENABLE_ORDERING_CHECK then { editor with within_callback := false } else editor

/-- The macro `MARK_FINISHED`. -/
def MARK_FINISHED {W : Type} (ENABLE_ORDERING_CHECK : Bool) (editor : svn_editor3_t W) :
    svn_editor3_t W :=
  if ENABLE_ORDERING_CHECK then { editor with finished := true } else editor

/-- The macro `SHOULD_NOT_BE_FINISHED`: with the ordering check, the test of
`SVN_ERR_ASSERT(!finished)`; without it, nothing is tested. -/
def SHOULD_NOT_BE_FINISHED {W : Type} (ENABLE_ORDERING_CHECK : Bool)
    (editor : svn_editor3_t W) : Bool :=
  if ENABLE_ORDERING_CHECK then !editor.finished else true

/-- The function `check_cancel`. -/
def check_cancel {W : Type} (ENABLE_ORDERING_CHECK : Bool) (editor : svn_editor3_t W) :
    Reply (svn_editor3_t W) :=
  match editor.cancel_func with
  | none => Reply.ok editor
  | some cancel_func =>
    match START_CALLBACK ENABLE_ORDERING_CHECK editor with
    | none => Reply.malfunction editor
    | some started =>
      match cancel_func started.baton with
      | (world, err) =>
        match err with
        | none => Reply.ok (END_CALLBACK ENABLE_ORDERING_CHECK { started with baton := world })
        | some e =>
          Reply.error (END_CALLBACK ENABLE_ORDERING_CHECK { started with baton := world }) e

/-- The macro `DO_CALLBACK`: `cb` is the callback with the arguments of the operation filled
in, a function of the world and of the operands `x` that the callback can write to.  An abort
inside the callback leaves `within_callback` as `START_CALLBACK` set it. -/
def DO_CALLBACK {W σ : Type} (ENABLE_ORDERING_CHECK : Bool) (editor : svn_editor3_t W) (x : σ)
    (cb : Option (W → σ → Reply (W × σ))) : Reply (svn_editor3_t W × σ) :=
  match check_cancel ENABLE_ORDERING_CHECK editor with
  | Reply.ok checked =>
    (match cb with
     | none => Reply.ok (checked, x)
     | some cb =>
       match START_CALLBACK ENABLE_ORDERING_CHECK checked with
       | none => Reply.malfunction (checked, x)
       | some started =>
         match cb started.baton x with
         | Reply.ok (world, x') =>
           Reply.ok (END_CALLBACK ENABLE_ORDERING_CHECK { started with baton := world }, x')
         | Reply.error (world, x') e =>
           Reply.error (END_CALLBACK ENABLE_ORDERING_CHECK { started with baton := world }, x') e
         | Reply.malfunction (world, x') =>
           Reply.malfunction ({ started with baton := world }, x')
         | Reply.out_of_fuel => Reply.out_of_fuel)
  | Reply.error stopped e => Reply.error (stopped, x) e
  | Reply.malfunction stopped => Reply.malfunction (stopped, x)
  | Reply.out_of_fuel => Reply.out_of_fuel

/-- The macro `VALID_NODE_KIND`. -/
def VALID_NODE_KIND (kind : svn_node_kind_t) : Bool :=
  kind != svn_node_kind_t.svn_node_unknown && kind != svn_node_kind_t.svn_node_none

/-- The macro `VALID_EID`. -/
def VALID_EID (eid : Int) : Bool := decide (eid ≥ 0)

/-- The macro `VALID_NAME`: not NULL, not empty and canonical. -/
def VALID_NAME (svn_relpath_is_canonical : String → Bool) (name : Option String) : Bool :=
  match name with
  | none => false
  | some s => s != "" && svn_relpath_is_canonical s

/-- The macro `VALID_PAYLOAD`: not NULL and either by reference, with a relpath and a valid
revision, or of a valid kind with a property table. -/
def VALID_PAYLOAD (payload : Option svn_element_payload_t) : Bool :=
  match payload with
  | none => false
  | some p =>
    if p.kind = svn_node_kind_t.svn_node_unknown then
      p.ref.relpath.isSome && SVN_IS_VALID_REVNUM p.ref.rev
    else VALID_NODE_KIND p.kind && p.props.isSome

/-- The macro `VALID_EL_REV_ID`: not NULL, with a branch and a valid EID. -/
def VALID_EL_REV_ID (el_rev : Option svn_branch_el_rev_id_t) : Bool :=
  match el_rev with
  | none => false
  | some id => id.branch.isSome && VALID_EID id.eid

/-- The function `svn_editor3_new_eid`: the local `eid` starts as −1 and is what the callback
leaves in it; the result carries it as the value for `*eid_p`. -/
def svn_editor3_new_eid {W : Type} (ENABLE_ORDERING_CHECK : Bool) (editor : svn_editor3_t W)
    (branch : svn_branch_state_t) : Reply (svn_editor3_t W × (svn_branch_state_t × Int)) :=
  match DO_CALLBACK ENABLE_ORDERING_CHECK editor (branch, (-1 : Int))
      (editor.funcs.cb_new_eid.map (fun cb world x => cb world x.1 x.2)) with
  | Reply.ok (called, (b, eid)) =>
    if !VALID_EID eid then Reply.malfunction (called, (b, eid))
    else Reply.ok (called, (b, eid))
  | other => other

/-- The function `svn_editor3_add`. -/
def svn_editor3_add {W : Type} (ENABLE_ORDERING_CHECK : Bool)
    (svn_relpath_is_canonical : String → Bool) (editor : svn_editor3_t W)
    (branch : svn_branch_state_t) (eid new_parent_eid : Int) (new_name : Option String)
    (new_payload : Option svn_element_payload_t) :
    Reply (svn_editor3_t W × svn_branch_state_t) :=
  if !VALID_EID eid then Reply.malfunction (editor, branch)
  else if !VALID_EID new_parent_eid then Reply.malfunction (editor, branch)
  else if !VALID_NAME svn_relpath_is_canonical new_name then Reply.malfunction (editor, branch)
  else if !(new_payload.isNone || VALID_PAYLOAD new_payload) then
    Reply.malfunction (editor, branch)
  else if !(new_parent_eid != eid) then
    Reply.error (editor, branch) svn_errno_t.SVN_ERR_BRANCHING
  else
    DO_CALLBACK ENABLE_ORDERING_CHECK editor branch
      (editor.funcs.cb_add.map
        (fun cb world b => cb world b eid new_parent_eid new_name new_payload))

/-- The function `svn_editor3_copy_one`. -/
def svn_editor3_copy_one {W : Type} (ENABLE_ORDERING_CHECK : Bool)
    (svn_relpath_is_canonical : String → Bool) (editor : svn_editor3_t W)
    (src_el_rev : Option svn_branch_el_rev_id_t) (branch : svn_branch_state_t)
    (local_eid new_parent_eid : Int) (new_name : Option String)
    (new_payload : Option svn_element_payload_t) :
    Reply (svn_editor3_t W × svn_branch_state_t) :=
  if !VALID_EID local_eid then Reply.malfunction (editor, branch)
  else if !VALID_EL_REV_ID src_el_rev then Reply.malfunction (editor, branch)
  else if !VALID_EID new_parent_eid then Reply.malfunction (editor, branch)
  else if !VALID_NAME svn_relpath_is_canonical new_name then Reply.malfunction (editor, branch)
  else if !(new_payload.isNone || VALID_PAYLOAD new_payload) then
    Reply.malfunction (editor, branch)
  else
    DO_CALLBACK ENABLE_ORDERING_CHECK editor branch
      (editor.funcs.cb_copy_one.map
        (fun cb world b => cb world src_el_rev b local_eid new_parent_eid new_name new_payload))

/-- The function `svn_editor3_copy_tree`. -/
def svn_editor3_copy_tree {W : Type} (ENABLE_ORDERING_CHECK : Bool)
    (svn_relpath_is_canonical : String → Bool) (editor : svn_editor3_t W)
    (src_el_rev : Option svn_branch_el_rev_id_t) (branch : svn_branch_state_t)
    (new_parent_eid : Int) (new_name : Option String) :
    Reply (svn_editor3_t W × svn_branch_state_t) :=
  if !VALID_EL_REV_ID src_el_rev then Reply.malfunction (editor, branch)
  else if !VALID_EID new_parent_eid then Reply.malfunction (editor, branch)
  else if !VALID_NAME svn_relpath_is_canonical new_name then Reply.malfunction (editor, branch)
  else
    DO_CALLBACK ENABLE_ORDERING_CHECK editor branch
      (editor.funcs.cb_copy_tree.map
        (fun cb world b => cb world src_el_rev b new_parent_eid new_name))

/-- The function `svn_editor3_delete`. -/
def svn_editor3_delete {W : Type} (ENABLE_ORDERING_CHECK : Bool) (editor : svn_editor3_t W)
    (branch : svn_branch_state_t) (eid : Int) :
    Reply (svn_editor3_t W × svn_branch_state_t) :=
  if !VALID_EID eid then Reply.malfunction (editor, branch)
  else if !(eid != branch.root_eid) then Reply.malfunction (editor, branch)
  else
    DO_CALLBACK ENABLE_ORDERING_CHECK editor branch
      (editor.funcs.cb_delete.map (fun cb world b => cb world b eid))

/-- The `while` loop of `svn_editor3_alter`, which allocates EIDs until `eid` and
`new_parent_eid` are below `next_eid`; `none` when the fuel is used up. -/
def svn_editor3_alter_loop (eid new_parent_eid : Int) :
    Nat → svn_branch_state_t → Option svn_branch_state_t
  | 0, _ => none
  | fuel + 1, branch =>
    if eid ≥ branch.next_eid ∨ new_parent_eid ≥ branch.next_eid then
      svn_editor3_alter_loop eid new_parent_eid fuel (svn_branch_allocate_new_eid branch).1
    else some branch

/-- The function `svn_editor3_alter`.  At the root EID the test is `*new_name == '\0'`, which
reads through the pointer: a NULL name aborts there as a failed assertion does. -/
def svn_editor3_alter {W : Type} (ENABLE_ORDERING_CHECK : Bool)
    (svn_relpath_is_canonical : String → Bool) (fuel : Nat) (editor : svn_editor3_t W)
    (branch : svn_branch_state_t) (eid new_parent_eid : Int) (new_name : Option String)
    (new_payload : Option svn_element_payload_t) :
    Reply (svn_editor3_t W × svn_branch_state_t) :=
  if !VALID_EID eid then Reply.malfunction (editor, branch)
  else if !(if eid = branch.root_eid then new_parent_eid == -1
            else VALID_EID new_parent_eid) then Reply.malfunction (editor, branch)
  else if !(if eid = branch.root_eid then new_name == some ""
            else VALID_NAME svn_relpath_is_canonical new_name) then
    Reply.malfunction (editor, branch)
  else if !(new_payload.isNone || VALID_PAYLOAD new_payload) then
    Reply.malfunction (editor, branch)
  else if !(new_parent_eid != eid) then
    Reply.error (editor, branch) svn_errno_t.SVN_ERR_BRANCHING
  else
    match svn_editor3_alter_loop eid new_parent_eid fuel branch with
    | none => Reply.out_of_fuel
    | some allocated =>
      DO_CALLBACK ENABLE_ORDERING_CHECK editor allocated
        (editor.funcs.cb_alter.map
          (fun cb world b => cb world b eid new_parent_eid new_name new_payload))

/-- The function `svn_editor3_payload_resolve`; `payload` is what `*payload_p` holds at the
call, and the result carries what it holds afterwards. -/
def svn_editor3_payload_resolve {W : Type} (ENABLE_ORDERING_CHECK : Bool)
    (editor : svn_editor3_t W) (payload : Option svn_element_payload_t)
    (element : Option svn_branch_el_rev_content_t) :
    Reply (svn_editor3_t W × Option svn_element_payload_t) :=
  DO_CALLBACK ENABLE_ORDERING_CHECK editor payload
    (editor.funcs.cb_payload_resolve.map (fun cb world current => cb world current element))

/-- The function `svn_editor3_sequence_point`. -/
def svn_editor3_sequence_point {W : Type} (ENABLE_ORDERING_CHECK : Bool)
    (editor : svn_editor3_t W) : Reply (svn_editor3_t W × Unit) :=
  if !SHOULD_NOT_BE_FINISHED ENABLE_ORDERING_CHECK editor then Reply.malfunction (editor, ())
  else DO_CALLBACK ENABLE_ORDERING_CHECK editor () editor.funcs.cb_sequence_point

/-- The function `svn_editor3_complete`. -/
def svn_editor3_complete {W : Type} (ENABLE_ORDERING_CHECK : Bool)
    (editor : svn_editor3_t W) : Reply (svn_editor3_t W × Unit) :=
  if !SHOULD_NOT_BE_FINISHED ENABLE_ORDERING_CHECK editor then Reply.malfunction (editor, ())
  else
    match DO_CALLBACK ENABLE_ORDERING_CHECK editor () editor.funcs.cb_complete with
    | Reply.ok (called, u) => Reply.ok (MARK_FINISHED ENABLE_ORDERING_CHECK called, u)
    | other => other

/-- The function `svn_editor3_abort`. -/
def svn_editor3_abort {W : Type} (ENABLE_ORDERING_CHECK : Bool)
    (editor : svn_editor3_t W) : Reply (svn_editor3_t W × Unit) :=
  if !SHOULD_NOT_BE_FINISHED ENABLE_ORDERING_CHECK editor then Reply.malfunction (editor, ())
  else
    match DO_CALLBACK ENABLE_ORDERING_CHECK editor () editor.funcs.cb_abort with
    | Reply.ok (called, u) => Reply.ok (MARK_FINISHED ENABLE_ORDERING_CHECK called, u)
    | other => other

/-! ## The change-detection wrapper (editor3e.c)

The baton of the wrapper holds the wrapped editor and the flag that `change_detected` points
to, so the world of the wrapper editor is `change_detection_baton_t W`.  Each callback of the
wrapper calls the operation of the same name on the wrapped editor: `SVN_ERR` passes an error
on, an abort inside the call aborts the callback.  The `while` loop of the `svn_editor3_alter`
that `change_detection_alter` calls takes its fuel from the parameter `fuel`. -/

/-- The record `change_detection_baton_t`; `change_detected` is the value of the flag that the
field points to. -/
structure change_detection_baton_t (W : Type) where
  wrapped_editor : svn_editor3_t W
  change_detected : Bool

/-- The tail `SVN_ERR(svn_editor3_...(eb->wrapped_editor, ...)); return SVN_NO_ERROR;` of each
callback of the wrapper: the reply of the wrapped editor is the reply of the callback, and the
wrapped editor is as the call left it. -/
def change_detection_forward {W σ : Type} (eb : change_detection_baton_t W)
    (r : Reply (svn_editor3_t W × σ)) : Reply (change_detection_baton_t W × σ) :=
  r.map (fun s => ({ eb with wrapped_editor := s.1 }, s.2))

/-- The callback `change_detection_new_eid`.  `svn_editor3_new_eid` writes `*eid_p` only on
success: otherwise the operand `eid` is as it was. -/
def change_detection_new_eid {W : Type} (ENABLE_ORDERING_CHECK : Bool)
    (eb : change_detection_baton_t W) (branch : svn_branch_state_t) (eid : Int) :
    Reply (change_detection_baton_t W × (svn_branch_state_t × Int)) :=
  match svn_editor3_new_eid ENABLE_ORDERING_CHECK eb.wrapped_editor branch with
  | Reply.ok (e, (b, new_eid)) => Reply.ok ({ eb with wrapped_editor := e }, (b, new_eid))
  | Reply.error (e, (b, _)) err => Reply.error ({ eb with wrapped_editor := e }, (b, eid)) err
  | Reply.malfunction (e, (b, _)) => Reply.malfunction ({ eb with wrapped_editor := e }, (b, eid))
  | Reply.out_of_fuel => Reply.out_of_fuel

/-- The callback `change_detection_add`. -/
def change_detection_add {W : Type} (ENABLE_ORDERING_CHECK : Bool)
    (svn_relpath_is_canonical : String → Bool) (eb : change_detection_baton_t W)
    (branch : svn_branch_state_t) (eid new_parent_eid : Int) (new_name : Option String)
    (new_payload : Option svn_element_payload_t) :
    Reply (change_detection_baton_t W × svn_branch_state_t) :=
  change_detection_forward { eb with change_detected := true }
    (svn_editor3_add ENABLE_ORDERING_CHECK svn_relpath_is_canonical eb.wrapped_editor branch
      eid new_parent_eid new_name new_payload)

/-- The callback `change_detection_copy_one`. -/
def change_detection_copy_one {W : Type} (ENABLE_ORDERING_CHECK : Bool)
    (svn_relpath_is_canonical : String → Bool) (eb : change_detection_baton_t W)
    (src_el_rev : Option svn_branch_el_rev_id_t) (branch : svn_branch_state_t)
    (local_eid new_parent_eid : Int) (new_name : Option String)
    (new_payload : Option svn_element_payload_t) :
    Reply (change_detection_baton_t W × svn_branch_state_t) :=
  change_detection_forward { eb with change_detected := true }
    (svn_editor3_copy_one ENABLE_ORDERING_CHECK svn_relpath_is_canonical eb.wrapped_editor
      src_el_rev branch local_eid new_parent_eid new_name new_payload)

/-- The callback `change_detection_copy_tree`. -/
def change_detection_copy_tree {W : Type} (ENABLE_ORDERING_CHECK : Bool)
    (svn_relpath_is_canonical : String → Bool) (eb : change_detection_baton_t W)
    (src_el_rev : Option svn_branch_el_rev_id_t) (branch : svn_branch_state_t)
    (new_parent_eid : Int) (new_name : Option String) :
    Reply (change_detection_baton_t W × svn_branch_state_t) :=
  change_detection_forward { eb with change_detected := true }
    (svn_editor3_copy_tree ENABLE_ORDERING_CHECK svn_relpath_is_canonical eb.wrapped_editor
      src_el_rev branch new_parent_eid new_name)

/-- The callback `change_detection_delete`. -/
def change_detection_delete {W : Type} (ENABLE_ORDERING_CHECK : Bool)
    (eb : change_detection_baton_t W) (branch : svn_branch_state_t) (eid : Int) :
    Reply (change_detection_baton_t W × svn_branch_state_t) :=
  change_detection_forward { eb with change_detected := true }
    (svn_editor3_delete ENABLE_ORDERING_CHECK eb.wrapped_editor branch eid)

/-- The callback `change_detection_alter`. -/
def change_detection_alter {W : Type} (ENABLE_ORDERING_CHECK : Bool)
    (svn_relpath_is_canonical : String → Bool) (fuel : Nat) (eb : change_detection_baton_t W)
    (branch : svn_branch_state_t) (eid new_parent_eid : Int) (new_name : Option String)
    (new_payload : Option svn_element_payload_t) :
    Reply (change_detection_baton_t W × svn_branch_state_t) :=
  change_detection_forward { eb with change_detected := true }
    (svn_editor3_alter ENABLE_ORDERING_CHECK svn_relpath_is_canonical fuel eb.wrapped_editor
      branch eid new_parent_eid new_name new_payload)

/-- The callback `change_detection_payload_resolve`. -/
def change_detection_payload_resolve {W : Type} (ENABLE_ORDERING_CHECK : Bool)
    (eb : change_detection_baton_t W) (payload : Option svn_element_payload_t)
    (element : Option svn_branch_el_rev_content_t) :
    Reply (change_detection_baton_t W × Option svn_element_payload_t) :=
  change_detection_forward eb
    (svn_editor3_payload_resolve ENABLE_ORDERING_CHECK eb.wrapped_editor payload element)

/-- The callback `change_detection_sequence_point`. -/
def change_detection_sequence_point {W : Type} (ENABLE_ORDERING_CHECK : Bool)
    (eb : change_detection_baton_t W) (_ : Unit) : Reply (change_detection_baton_t W × Unit) :=
  change_detection_forward eb
    (svn_editor3_sequence_point ENABLE_ORDERING_CHECK eb.wrapped_editor)

/-- The callback `change_detection_complete`. -/
def change_detection_complete {W : Type} (ENABLE_ORDERING_CHECK : Bool)
    (eb : change_detection_baton_t W) (_ : Unit) : Reply (change_detection_baton_t W × Unit) :=
  change_detection_forward eb (svn_editor3_complete ENABLE_ORDERING_CHECK eb.wrapped_editor)

/-- The callback `change_detection_abort`. -/
def change_detection_abort {W : Type} (ENABLE_ORDERING_CHECK : Bool)
    (eb : change_detection_baton_t W) (_ : Unit) : Reply (change_detection_baton_t W × Unit) :=
  change_detection_forward eb (svn_editor3_abort ENABLE_ORDERING_CHECK eb.wrapped_editor)

/-- The table `wrapper_funcs` of `svn_editor3__change_detection_editor`. -/
def wrapper_funcs {W : Type} (ENABLE_ORDERING_CHECK : Bool)
    (svn_relpath_is_canonical : String → Bool) (fuel : Nat) :
    svn_editor3_cb_funcs_t (change_detection_baton_t W) :=
  { cb_new_eid := some (change_detection_new_eid ENABLE_ORDERING_CHECK)
    cb_add := some (change_detection_add ENABLE_ORDERING_CHECK svn_relpath_is_canonical)
    cb_copy_one :=
      some (change_detection_copy_one ENABLE_ORDERING_CHECK svn_relpath_is_canonical)
    cb_copy_tree :=
      some (change_detection_copy_tree ENABLE_ORDERING_CHECK svn_relpath_is_canonical)
    cb_delete := some (change_detection_delete ENABLE_ORDERING_CHECK)
    cb_alter :=
      some (change_detection_alter ENABLE_ORDERING_CHECK svn_relpath_is_canonical fuel)
    cb_payload_resolve := some (change_detection_payload_resolve ENABLE_ORDERING_CHECK)
    cb_sequence_point := some (change_detection_sequence_point ENABLE_ORDERING_CHECK)
    cb_complete := some (change_detection_complete ENABLE_ORDERING_CHECK)
    cb_abort := some (change_detection_abort ENABLE_ORDERING_CHECK) }

/-- The function `svn_editor3__change_detection_editor`: it sets the flag to FALSE and creates
the wrapper editor without a cancellation function.  The function always returns
`SVN_NO_ERROR`; the result is the editor written to `*editor_p`, whose baton holds the flag. -/
def svn_editor3__change_detection_editor {W : Type} (ENABLE_ORDERING_CHECK : Bool)
    (svn_relpath_is_canonical : String → Bool) (fuel : Nat)
    (wrapped_editor : svn_editor3_t W) : svn_editor3_t (change_detection_baton_t W) :=
  svn_editor3_create (wrapper_funcs ENABLE_ORDERING_CHECK svn_relpath_is_canonical fuel)
    { wrapped_editor := wrapped_editor, change_detected := false } none

/-! ## Differences of two subtrees (editor3e.c) and equality of elements (branch.c)

`svn_element_content_equal` is not part of these sources and is a parameter.  The local
`payload` of `svn_branch_subtree_differences` is not initialised; what it holds at the call of
`svn_editor3_payload_resolve` is the parameter `uninitialised`. -/

/-- The function `svn_branch_el_rev_content_equal` (branch.c).  `strcmp` reads through both
names: a NULL name aborts as a failed assertion does. -/
def svn_branch_el_rev_content_equal
    (svn_element_content_equal :
      Option svn_element_content_t → Option svn_element_content_t → Bool)
    (content_left content_right : Option svn_branch_el_rev_content_t) : Outcome Bool :=
  match content_left, content_right with
  | none, none => Outcome.ok true
  | none, some _ => Outcome.ok false
  | some _, none => Outcome.ok false
  | some l, some r =>
    if l.parent_eid ≠ r.parent_eid then Outcome.ok false
    else
      match l.name, r.name with
      | some name_left, some name_right =>
        if name_left ≠ name_right then Outcome.ok false
        else if !svn_element_content_equal l.content r.content then Outcome.ok false
        else Outcome.ok true
      | _, _ => Outcome.malfunction

/-- Modelled from the spec: `apr_hash_overlay` (APR): the table with the entries of `overlay`
and the entries of `base` whose key `overlay` does not have. -/
def apr_hash_overlay (overlay base : EMap) : EMap :=
  overlay ++ base.filter (fun kv => (overlay.lookup kv.1).isNone)

/-- The table `diff` of `svn_branch_subtree_differences`, from EID to the array `contents` of
the two elements, either of which may be NULL. -/
abbrev DiffMap :=
  List (Int × (Option svn_branch_el_rev_content_t × Option svn_branch_el_rev_content_t))

/-- A block `if (element) { ... }` of the loop of `svn_branch_subtree_differences`: the
payload of a present element is resolved and the element is replaced by a new one with that
payload; on an error the element is as it was. -/
def resolve_element {W : Type} (ENABLE_ORDERING_CHECK : Bool)
    (uninitialised : Option svn_element_payload_t) (editor : svn_editor3_t W)
    (element : Option svn_branch_el_rev_content_t) :
    Reply (svn_editor3_t W × Option svn_branch_el_rev_content_t) :=
  match element with
  | none => Reply.ok (editor, none)
  | some el =>
    match svn_editor3_payload_resolve ENABLE_ORDERING_CHECK editor uninitialised (some el) with
    | Reply.ok (after, payload) =>
      Reply.ok (after, some (svn_branch_el_rev_content_create el.parent_eid el.name payload))
    | Reply.error (after, _) err => Reply.error (after, element) err
    | Reply.malfunction (after, _) => Reply.malfunction (after, element)
    | Reply.out_of_fuel => Reply.out_of_fuel

/-- The loop of `svn_branch_subtree_differences` over the keys of the overlay;
`svn_int_hash_set(diff, e, contents)` rebinds the key `e`. -/
def subtree_differences_loop {W : Type} (ENABLE_ORDERING_CHECK : Bool)
    (svn_element_content_equal :
      Option svn_element_content_t → Option svn_element_content_t → Bool)
    (uninitialised : Option svn_element_payload_t) (left right : svn_branch_subtree_t) :
    List Int → svn_editor3_t W → DiffMap → Reply (svn_editor3_t W × DiffMap)
  | [], editor, diff => Reply.ok (editor, diff)
  | e :: rest, editor, diff =>
    match resolve_element ENABLE_ORDERING_CHECK uninitialised editor
        (svn_int_hash_get left.e_map e) with
    | Reply.ok (editor1, element_left) =>
      (match resolve_element ENABLE_ORDERING_CHECK uninitialised editor1
          (svn_int_hash_get right.e_map e) with
       | Reply.ok (editor2, element_right) =>
         (match svn_branch_el_rev_content_equal svn_element_content_equal element_left
              element_right with
          | Outcome.ok equal =>
            subtree_differences_loop ENABLE_ORDERING_CHECK svn_element_content_equal
              uninitialised left right rest editor2
              (if !equal then
                 diff.filter (fun kv => kv.1 != e) ++ [(e, (element_left, element_right))]
               else diff)
          | Outcome.malfunction => Reply.malfunction (editor2, diff)
          | Outcome.out_of_fuel => Reply.out_of_fuel)
       | Reply.error (editor2, _) err => Reply.error (editor2, diff) err
       | Reply.malfunction (editor2, _) => Reply.malfunction (editor2, diff)
       | Reply.out_of_fuel => Reply.out_of_fuel)
    | Reply.error (editor1, _) err => Reply.error (editor1, diff) err
    | Reply.malfunction (editor1, _) => Reply.malfunction (editor1, diff)
    | Reply.out_of_fuel => Reply.out_of_fuel

/-- The function `svn_branch_subtree_differences`: the result carries the table written to
`*diff_p`, or `none` when the function returned before writing it. -/
def svn_branch_subtree_differences {W : Type} (ENABLE_ORDERING_CHECK : Bool)
    (svn_element_content_equal :
      Option svn_element_content_t → Option svn_element_content_t → Bool)
    (uninitialised : Option svn_element_payload_t) (editor : svn_editor3_t W)
    (left right : svn_branch_subtree_t) : Reply (svn_editor3_t W × Option DiffMap) :=
  match subtree_differences_loop ENABLE_ORDERING_CHECK svn_element_content_equal uninitialised
      left right ((apr_hash_overlay left.e_map right.e_map).map Prod.fst) editor [] with
  | Reply.ok (after, diff) => Reply.ok (after, some diff)
  | Reply.error (after, _) err => Reply.error (after, none) err
  | Reply.malfunction (after, _) => Reply.malfunction (after, none)
  | Reply.out_of_fuel => Reply.out_of_fuel

/-! ## Splitting a `file://` URL (libsvn_ra_local/split_url.c)

C strings are lists of characters, a pointer into a string is the rest of the string from that
position, and a character is one `char`.  The functions of other libraries that
`svn_ra_local__split_URL` calls are parameters; the branch for Windows is left out. -/

/-- Modelled from the spec: `strncmp` (C library): the difference of the first characters that
differ among the first `n`, the end of a string counting as the character 0; 0 when there is
none. -/
def strncmp : List Char → List Char → Nat → Int
  | _, _, 0 => 0
  | [], [], _ + 1 => 0
  | [], b :: _, _ + 1 => 0 - (b.toNat : Int)
  | a :: _, [], _ + 1 => (a.toNat : Int)
  | a :: s1, b :: s2, n + 1 =>
    if a = b then strncmp s1 s2 n else (a.toNat : Int) - (b.toNat : Int)

/-- Modelled from the spec: `strchr` (C library) for a character other than 0: the rest of the
string from the first occurrence of `c`, or NULL. -/
def strchr : List Char → Char → Option (List Char)
  | [], _ => none
  | a :: s, c => if a = c then some (a :: s) else strchr s c

/-- The function `svn_ra_local__split_URL`: the error code, or the repository, `*repos_url` and
`*fs_path`.  `svn_repos_open` gives `none` when it returns an error.  The pointer `path`
points into `hostname`, so the two differ exactly when the lengths of the rests differ. -/
def svn_ra_local__split_URL {R : Type} (svn_path_uri_decode : String → String)
    (svn_repos_find_root_path : String → Option String) (svn_repos_open : String → Option R)
    (svn_path_component_count : String → Nat)
    (svn_path_remove_components : String → Nat → String) (URL : String) :
    Except svn_errno_t (R × String × String) :=
  if strncmp URL.data "file://".data 7 ≠ 0 then
    Except.error svn_errno_t.SVN_ERR_RA_ILLEGAL_URL
  else
    let hostname := URL.data.drop 7
    match strchr hostname '/' with
    | none => Except.error svn_errno_t.SVN_ERR_RA_ILLEGAL_URL
    | some path =>
      if hostname.length ≠ path.length
          ∧ strncmp
              (svn_path_uri_decode
                (String.mk (hostname.take (hostname.length - path.length)))).data
              "localhost/".data 10 ≠ 0 then
        Except.error svn_errno_t.SVN_ERR_RA_ILLEGAL_URL
      else
        match svn_repos_find_root_path (svn_path_uri_decode (String.mk path)) with
        | none => Except.error svn_errno_t.SVN_ERR_RA_LOCAL_REPOS_OPEN_FAILED
        | some repos_root =>
          match svn_repos_open repos_root with
          | none => Except.error svn_errno_t.SVN_ERR_RA_LOCAL_REPOS_OPEN_FAILED
          | some repos =>
            let fs_path :=
              String.mk ((svn_path_uri_decode (String.mk path)).data.drop repos_root.length)
            Except.ok (repos,
              svn_path_remove_components URL (svn_path_component_count fs_path), fs_path)

/-! ## Predicates of the specification and example data -/

/-- A hash table has one entry per key. -/
def NodupKeys (m : EMap) : Prop := (m.map Prod.fst).Nodup

/-- An orphan of `m` relative to the root EID `r`. -/
inductive Orphan (m : EMap) (r : Int) : Int → Prop where
  | parent_missing (e : Int) (n : svn_branch_el_rev_content_t) :
      e ≠ r → svn_int_hash_get m e = some n → svn_int_hash_get m n.parent_eid = none →
      Orphan m r e
  | parent_orphan (e : Int) (n : svn_branch_el_rev_content_t) :
      e ≠ r → svn_int_hash_get m e = some n → Orphan m r n.parent_eid → Orphan m r e

/-- The parent chain from `e`, followed through entries of `m`, ends at the entry of `r`. -/
inductive ReachesRoot (m : EMap) (r : Int) : Int → Prop where
  | root (n : svn_branch_el_rev_content_t) : svn_int_hash_get m r = some n → ReachesRoot m r r
  | step (e : Int) (n : svn_branch_el_rev_content_t) :
      e ≠ r → svn_int_hash_get m e = some n → ReachesRoot m r n.parent_eid → ReachesRoot m r e

/-- Following `parent_eid` from `e` arrives at the root EID or at an EID with no entry. -/
inductive ChainTerminates (m : EMap) (r : Int) : Int → Prop where
  | at_root : ChainTerminates m r r
  | no_entry (e : Int) : svn_int_hash_get m e = none → ChainTerminates m r e
  | step (e : Int) (n : svn_branch_el_rev_content_t) :
      e ≠ r → svn_int_hash_get m e = some n → ChainTerminates m r n.parent_eid →
      ChainTerminates m r e

/-- The invariant of the purge: the current table is a sub-list of the original
one and everything missing from it is an orphan of the original. -/
def PurgeInv (m0 : EMap) (r : Int) (m : EMap) : Prop :=
  m.Sublist m0 ∧ ∀ e n, (e, n) ∈ m0 → (e, n) ∉ m → Orphan m0 r e

/-- A table in which no non-root entry lacks its parent. -/
def NoOrphanEntry (r : Int) (m : EMap) : Prop :=
  ∀ e n, (e, n) ∈ m → e ≠ r →
    ∃ p, svn_int_hash_get m n.parent_eid = some p ∧ p.content.isSome = true

/-- A payload by reference to the root path of revision 0. -/
def payload0 : svn_element_content_t :=
  { kind := svn_node_kind_t.svn_node_dir, ref := { rev := 0, relpath := some "" },
    props := some [] }

/-- An element with the payload `payload0`. -/
def el (parent_eid : Int) (name : String) : svn_branch_el_rev_content_t :=
  { parent_eid := parent_eid, name := some name, content := some payload0 }

/-- A map whose elements 1 and 2 are each the parent of the other. -/
def cycle_map : EMap := [(0, el (-1) ""), (1, el 2 "a"), (2, el 1 "b")]

/-- A map with the orphan 2, whose parent 9 has no entry. -/
def orphan_example_map : EMap := [(0, el (-1) ""), (1, el 0 "a"), (2, el 9 "b")]

/-- Every entry of the element map is in the family range and passes validation. -/
def BranchValid (f : svn_branch_family_t) (b : svn_branch_instance_t) : Prop :=
  NodupKeys b.e_map ∧ ∀ e n, (e, n) ∈ b.e_map →
    FAMILY_HAS_ELEMENT f e = true ∧ branch_map_node_validate f b e (some n) = true

/-- The path of `e`: the names on the parent chain from the branch root down to `e`, joined. -/
inductive PathTo (b : svn_branch_instance_t) : Int → String → Prop where
  | root : PathTo b b.sibling_defn.root_eid ""
  | step (e : Int) (n : svn_branch_el_rev_content_t) (name P : String) :
      e ≠ b.sibling_defn.root_eid → svn_int_hash_get b.e_map e = some n →
      n.name = some name → PathTo b n.parent_eid P →
      PathTo b e (svn_relpath_join P name)

/-- Some EID on the chain from `e` up to, but excluding, the root EID has no entry. -/
inductive ChainBroken (b : svn_branch_instance_t) : Int → Prop where
  | here (e : Int) : e ≠ b.sibling_defn.root_eid → svn_int_hash_get b.e_map e = none →
      ChainBroken b e
  | up (e : Int) (n : svn_branch_el_rev_content_t) :
      e ≠ b.sibling_defn.root_eid → svn_int_hash_get b.e_map e = some n →
      ChainBroken b n.parent_eid → ChainBroken b e

/-- The call `svn_branch_get_path_by_eid(branch, eid)` returns `res`. -/
def PathByEid (f : svn_branch_family_t) (b : svn_branch_instance_t) (e : Int)
    (res : Option String) : Prop :=
  ∃ fuel, svn_branch_get_path_by_eid f b fuel e = Outcome.ok res

/-- The call `svn_branch_get_eid_by_path(branch, path)` returns `r`. -/
def EidByPath (f : svn_branch_family_t) (b : svn_branch_instance_t) (p : String)
    (r : Int) : Prop :=
  ∃ fuel, svn_branch_get_eid_by_path f b fuel p = Outcome.ok r

/-- A family with BSID 0 and the EIDs from `first_eid` up to `next_eid`. -/
def family_of (first_eid next_eid : Int) : svn_branch_family_t :=
  { first_bsid := 0, next_bsid := 1, first_eid := first_eid, next_eid := next_eid,
    branch_siblings := [{ bsid := 0, root_eid := 0 }] }

/-- A top-level branch with root EID 0 and the given map. -/
def branch_of (m : EMap) : svn_branch_instance_t :=
  { sibling_defn := { bsid := 0, root_eid := 0 }, outer_branch := none, outer_eid := -1,
    e_map := m }

/-- A payload by reference to `file.txt` in revision 0. -/
def payload_file_txt : svn_element_content_t :=
  { kind := svn_node_kind_t.svn_node_unknown, ref := { rev := 0, relpath := some "file.txt" },
    props := none }

/-- A map without a root element: element 1, named `file.txt`, has the parent 0. -/
def file_txt_map : EMap :=
  [(1, svn_branch_el_rev_content_create 0 (some "file.txt") (some payload_file_txt))]

/-- The data-model invariants on a node written at `eid` (spec section 3, items 1 to 4). -/
def NodeInvariants (f : svn_branch_family_t) (b : svn_branch_instance_t) (eid : Int)
    (node : svn_branch_el_rev_content_t) : Prop :=
  (if eid = b.sibling_defn.root_eid then node.parent_eid = -1 ∧ node.name = some ""
   else node.parent_eid ≠ eid
        ∧ (f.first_eid ≤ node.parent_eid ∧ node.parent_eid < f.next_eid)
        ∧ ∃ s, node.name = some s ∧ s ≠ "")
  ∧ ∀ c, node.content = some c →
      (0 ≤ c.ref.rev ∧ c.ref.relpath ≠ none)
      ∨ (c.kind ≠ svn_node_kind_t.svn_node_unknown ∧ c.kind ≠ svn_node_kind_t.svn_node_none)

/-- The states of one family and one branch reachable from an empty element map by
successful map writes (and EID allocations in between). -/
inductive Reachable : svn_branch_family_t × svn_branch_instance_t → Prop where
  | init (f : svn_branch_family_t) (b : svn_branch_instance_t) :
      b.e_map = [] → Reachable (f, b)
  | alloc (f : svn_branch_family_t) (b : svn_branch_instance_t) :
      Reachable (f, b) → Reachable ((svn_branch_family_add_new_element f).1, b)
  | update (f : svn_branch_family_t) (b b' : svn_branch_instance_t) (eid p : Int)
      (name : Option String) (c : Option svn_element_content_t) :
      Reachable (f, b) → svn_branch_map_update f b eid p name c = Step.done b' →
      Reachable (f, b')
  | update_as_subbranch_root (f : svn_branch_family_t) (b b' : svn_branch_instance_t)
      (eid p : Int) (name : Option String) :
      Reachable (f, b) →
      svn_branch_map_update_as_subbranch_root f b eid p name = Step.done b' →
      Reachable (f, b')
  | delete (f : svn_branch_family_t) (b b' : svn_branch_instance_t) (eid : Int) :
      Reachable (f, b) → svn_branch_map_delete f b eid = Step.done b' → Reachable (f, b')
  | add_subtree (f : svn_branch_family_t) (b : svn_branch_instance_t)
      (s' : svn_branch_family_t × svn_branch_instance_t) (fuel : Nat) (to_eid p : Int)
      (name : Option String) (t : svn_branch_subtree_t) :
      Reachable (f, b) → svn_branch_map_add_subtree fuel (f, b) to_eid p name t = Step.done s' →
      Reachable s'
  | instantiate_subtree (f : svn_branch_family_t) (b b' : svn_branch_instance_t) (p : Int)
      (name : Option String) (t t' : svn_branch_subtree_t) :
      Reachable (f, b) → svn_branch_instantiate_subtree f b p name t = Step.done (b', t') →
      Reachable (f, b')

/-- The property that `svn_branch_map_add_subtree` keeps: the branch stays valid, its sibling
definition stays, and the family range only grows at the top. -/
def AddSubtreeStep (s s' : svn_branch_family_t × svn_branch_instance_t) : Prop :=
  BranchValid s'.1 s'.2 ∧ s'.2.sibling_defn = s.2.sibling_defn
    ∧ s'.1.first_eid = s.1.first_eid ∧ s.1.next_eid ≤ s'.1.next_eid

/-- The elements 1 and 2, each the parent of the other. -/
def cycle_pair : EMap := [(1, el 2 "a"), (2, el 1 "b")]

/-- The input does not go on with a digit. -/
def NoDigitAhead (rest : List Char) : Prop :=
  match rest with
  | [] => True
  | c :: _ => c_isdigit c = false

/-- All characters are digits. -/
def AllDigits (l : List Char) : Prop := ∀ c ∈ l, c_isdigit c = true

/-- The value of a run of digits on top of `acc`. -/
def digits_value (l : List Char) (acc : Nat) : Nat :=
  l.foldl (fun a c => 10 * a + (c.toNat - 48)) acc

/-- What `parse_element_line` makes of the text after the parent EID. -/
def decode_name (name : List Char) : Option String :=
  if name = "(null)".data then none
  else if name = ['.'] then some "" else some (String.mk name)

/-- What `parse_branch_line` makes of the text of the root path. -/
def decode_path (path : List Char) : String :=
  if path = ['.'] then "" else String.mk path

/-- The element maps `m` and `m'` have the same EIDs with the same parent and name. -/
def SameSkeleton (m m' : EMap) : Prop :=
  ∀ e, (svn_int_hash_get m' e).map (fun n => (n.parent_eid, n.name))
    = (svn_int_hash_get m e).map (fun n => (n.parent_eid, n.name))

/-- The root path of a branch instance: empty at the top, otherwise the root path of the
outer branch joined with the path of the outer EID in it. -/
inductive RootPath (store : List svn_branch_instance_t) : svn_branch_instance_t → String → Prop
  where
  | top (b : svn_branch_instance_t) : b.outer_branch = none → RootPath store b ""
  | nested (b : svn_branch_instance_t) (o : Nat) (ob : svn_branch_instance_t) (p R : String) :
      b.outer_branch = some o → store.get? o = some ob → PathTo ob b.outer_eid p →
      RootPath store ob R → RootPath store b (svn_relpath_join R p)

/-- The instance at address `c` is the instance at `o` or one of its outer branches. -/
inductive OuterChain (store : List svn_branch_instance_t) : Nat → Nat → Prop where
  | refl (o : Nat) : OuterChain store o o
  | step (c d o : Nat) (b : svn_branch_instance_t) :
      store.get? d = some b → b.outer_branch = some c → OuterChain store d o →
      OuterChain store c o

/-- The instance `b'` stands for `b`: same sibling and outer link, same skeleton. -/
def Image (g : svn_branch_family_t) (b b' : svn_branch_instance_t) : Prop :=
  b'.sibling_defn = b.sibling_defn ∧ b'.outer_branch = b.outer_branch
    ∧ b'.outer_eid = b.outer_eid ∧ SameSkeleton b.e_map b'.e_map ∧ BranchValid g b'

/-- The store `S'` holds images of the first instances of `S`. -/
def StoreImage (g : svn_branch_family_t) (S S' : List svn_branch_instance_t) : Prop :=
  ∀ a b', S'.get? a = some b' → ∃ b, S.get? a = some b ∧ Image g b b'

/-- Every outer branch has a smaller address. -/
def OuterBefore (S : List svn_branch_instance_t) : Prop :=
  ∀ i b o, S.get? i = some b → b.outer_branch = some o → o < i

/-- The revision roots for which serializing and parsing is shown to round-trip. -/
structure RoundTripReady (f : svn_branch_family_t) (r : svn_branch_revision_root_t) : Prop where
  rev_valid : 0 ≤ r.rev
  addresses : r.branch_instances = List.range r.store.length
  root_first : r.root_branch = some 0
  has_root : 0 < r.store.length
  top_level : ∀ b, r.store.get? 0 = some b → b.outer_branch = none
  nested : ∀ i b, 0 < i → r.store.get? i = some b → ∃ o, b.outer_branch = some o ∧ o < i
  invariants : ∀ i b, r.store.get? i = some b → assert_branch_instance_invariants f b = true
  valid : ∀ i b, r.store.get? i = some b → BranchValid f b
  no_orphans : ∀ i b, r.store.get? i = some b →
    NoOrphanEntry b.sibling_defn.root_eid b.e_map
  acyclic : ∀ i b, r.store.get? i = some b → ∀ e n, (e, n) ∈ b.e_map →
    ChainTerminates b.e_map b.sibling_defn.root_eid e
  names : ∀ i b, r.store.get? i = some b → ∀ e n s, (e, n) ∈ b.e_map → n.name = some s →
    '\n' ∉ s.data ∧ s ≠ "(null)" ∧ s ≠ "."
  siblings : ∀ i b, r.store.get? i = some b →
    FAMILY_HAS_BSID f b.sibling_defn.bsid = true
      ∧ FAMILY_HAS_ELEMENT f b.sibling_defn.root_eid = true
  siblings_agree : ∀ i j b c, r.store.get? i = some b → r.store.get? j = some c →
    b.sibling_defn.bsid = c.sibling_defn.bsid →
    b.sibling_defn.root_eid = c.sibling_defn.root_eid
  anchor : ∀ i b o ob, r.store.get? i = some b → b.outer_branch = some o →
    r.store.get? o = some ob →
    b.outer_eid ≠ ob.sibling_defn.root_eid ∧ (∃ n, (b.outer_eid, n) ∈ ob.e_map)
      ∧ ∀ e n p, (e, n) ∈ ob.e_map → PathTo ob e p → PathTo ob b.outer_eid p →
          e = b.outer_eid
  disjoint : ∀ i s b c o Ri Rs, s < i → r.store.get? i = some b → r.store.get? s = some c →
    b.outer_branch = some o → RootPath r.store b Ri → RootPath r.store c Rs →
    svn_relpath_skip_ancestor Rs Ri ≠ none → OuterChain r.store s o

/-- From `K0` on, the fuel is enough for every root path and every path of a key. -/
def FuelEnough (f : svn_branch_family_t) (S : List svn_branch_instance_t) (K0 : Nat) : Prop :=
  ∀ fuel, K0 ≤ fuel → ∀ a b, S.get? a = some b →
    (∃ R, svn_branch_get_root_rrpath f S fuel b = Outcome.ok R)
    ∧ ∀ e n, (e, n) ∈ b.e_map →
        ∃ p, svn_branch_get_path_by_eid f b fuel e = Outcome.ok (some p)

/-- The name that `svn_branch_instance_serialize` writes for the node of an EID. -/
def printed_name (node : Option svn_branch_el_rev_content_t) : List Char :=
  match node with
  | none => "(null)".data
  | some n =>
    match n.name with
    | some s => if s ≠ "" then s.data else ['.']
    | none => []

/-- The parent EID that `svn_branch_instance_serialize` writes for the node of an EID. -/
def printed_parent (node : Option svn_branch_el_rev_content_t) : Int :=
  match node with
  | some n => n.parent_eid
  | none => -1

/-- The element line of an EID. -/
def element_line (bsid eid : Int) (node : Option svn_branch_el_rev_content_t) : List Char :=
  'b' :: (print_int bsid ++ 'e' :: (print_int eid ++ ':' :: ' ' ::
    (print_int (printed_parent node) ++ ' ' :: (printed_name node ++ ['\n']))))

/-- The element lines of a branch for a list of EIDs. -/
def element_lines (b : svn_branch_instance_t) : List Int → List Char
  | [] => []
  | e :: l =>
    element_line b.sibling_defn.bsid e (svn_int_hash_get b.e_map e) ++ element_lines b l

/-- The node as the first loop of the parser stores it: without payload. -/
def strip_content (n : svn_branch_el_rev_content_t) : svn_branch_el_rev_content_t :=
  svn_branch_el_rev_content_create n.parent_eid n.name none

/-- The names for which the text of an element line reads back as the name. -/
def NameReadsBack (s : String) : Prop := '\n' ∉ s.data ∧ s ≠ "(null)" ∧ s ≠ "."

/-- The node as the second loop of the parser stores it: with a payload by reference. -/
def with_ref (rev : Int) (relpath : String) (n : svn_branch_el_rev_content_t) :
    svn_branch_el_rev_content_t :=
  { parent_eid := n.parent_eid, name := n.name,
    content := some (svn_element_content_create_ref { rev := rev, relpath := some relpath }) }

/-- Every entry of `cur` is an entry of `b` without payload or with a valid payload. -/
def LooksLike (b cur : svn_branch_instance_t) : Prop :=
  ∀ e, match svn_int_hash_get b.e_map e with
    | none => svn_int_hash_get cur.e_map e = none
    | some n => ∃ c, svn_int_hash_get cur.e_map e = some ⟨n.parent_eid, n.name, c⟩
        ∧ ∀ x, c = some x → content_validate x = true

/-- The paths whose text on a branch line reads back as the path. -/
def GoodPath (P : String) : Prop := '\n' ∉ P.data ∧ P ≠ "."

/-- The root path that `svn_branch_instance_serialize` writes. -/
def printed_path (R : String) : List Char := if R ≠ "" then R.data else ['.']

/-- The text of a branch instance: the branch line and the element lines. -/
def instance_text (g : svn_branch_family_t) (R : String) (b : svn_branch_instance_t) :
    List Char :=
  ['b'] ++ print_int b.sibling_defn.bsid ++ ": root-eid ".data
    ++ print_int b.sibling_defn.root_eid ++ " at ".data ++ printed_path R ++ ['\n']
    ++ element_lines b (eid_range g)

/-- The siblings registered so far are those of the first `i` instances. -/
def SiblingsOf (S : List svn_branch_instance_t) (i : Nat) (L : List svn_branch_sibling_t) :
    Prop :=
  ∀ s ∈ L, ∃ j b, j < i ∧ S.get? j = some b ∧ b.sibling_defn = s

/-- The relpath that `svn_branch_get_rrpath_by_eid` returns, the empty path if it returns
none. -/
def rrpath_value (f : svn_branch_family_t) (S : List svn_branch_instance_t) (fuel : Nat)
    (b : svn_branch_instance_t) (e : Int) : String :=
  match svn_branch_get_rrpath_by_eid f S fuel b e with
  | Outcome.ok (some p) => p
  | _ => ""

/-- The parsed instance: an image of the original in which every element has its payload by
reference. -/
def Parsed (f g : svn_branch_family_t) (S : List svn_branch_instance_t) (fuel : Nat)
    (rev : Int) (b b' : svn_branch_instance_t) : Prop :=
  Image g b b' ∧ ∀ e, svn_int_hash_get b'.e_map e
    = match svn_int_hash_get b.e_map e with
      | none => none
      | some n => some (with_ref rev (rrpath_value f S fuel b e) n)

/-- The root path that `svn_branch_get_root_rrpath` returns, the empty path if it does not
return. -/
def root_path_value (f : svn_branch_family_t) (S : List svn_branch_instance_t) (fuel : Nat)
    (b : svn_branch_instance_t) : String :=
  match svn_branch_get_root_rrpath f S fuel b with
  | Outcome.ok R => R
  | _ => ""

/-- The text of the branch instances at the addresses of a list. -/
def instances_text (f : svn_branch_family_t) (S : List svn_branch_instance_t) (fuel : Nat) :
    List Nat → List Char
  | [] => []
  | a :: l =>
    (match S.get? a with
     | some b => instance_text f (root_path_value f S fuel b) b
     | none => []) ++ instances_text f S fuel l

/-- The text of the family of a revision root: the family line and the branch instances. -/
def family_text (f : svn_branch_family_t) (r : svn_branch_revision_root_t)
    (fuel : Nat) : List Char :=
  "family: bsids ".data ++ print_int f.first_bsid ++ [' ']
    ++ print_int f.next_bsid ++ " eids ".data ++ print_int f.first_eid ++ [' ']
    ++ print_int f.next_eid ++ " b-instances ".data
    ++ print_int (r.branch_instances.length : Int) ++ ['\n']
    ++ instances_text f r.store fuel r.branch_instances

/-- The text of a revision root. -/
def revision_root_text (f : svn_branch_family_t) (r : svn_branch_revision_root_t)
    (fuel : Nat) : List Char :=
  ['r'] ++ print_int r.rev ++ ":\n".data ++ family_text f r fuel

/-- The state of the parser after `i` branch instances. -/
structure ParseInv (f : svn_branch_family_t) (r : svn_branch_revision_root_t) (fuel : Nat)
    (i : Nat) (g : svn_branch_family_t) (rr : svn_branch_revision_root_t) : Prop where
  first_eid : g.first_eid = f.first_eid
  next_eid : g.next_eid = f.next_eid
  first_bsid : g.first_bsid = f.first_bsid
  next_bsid : g.next_bsid = f.next_bsid
  siblings : SiblingsOf r.store i g.branch_siblings
  rev : rr.rev = r.rev
  list : rr.branch_instances = List.range i
  len : rr.store.length = i
  root : 0 < i → rr.root_branch = some 0
  parsed : ∀ a b', rr.store.get? a = some b' →
    ∃ b, r.store.get? a = some b ∧ Parsed f g r.store fuel r.rev b b'

/-- Serializing `r` with the given fuel returns a text and leaves `r` as it is, and parsing
that text into a fresh repository returns a revision root with the same revision, family
ranges, root branch and list of instances, in which every instance has the same sibling, outer
branch and outer EID, and the same EIDs with the same parent and name, each with the payload by
reference to its relpath in `r`. -/
def RoundTripsAt (f : svn_branch_family_t) (r : svn_branch_revision_root_t) (fuel : Nat) :
    Prop :=
  ∃ text repos' r' g,
    svn_branch_revision_root_serialize f fuel r = Outcome.ok (text, r)
    ∧ svn_branch_revision_root_parse svn_branch_repos_create fuel text
        = Outcome.ok (repos', r')
    ∧ repos'.family = some g
    ∧ g.first_bsid = f.first_bsid ∧ g.next_bsid = f.next_bsid
    ∧ g.first_eid = f.first_eid ∧ g.next_eid = f.next_eid
    ∧ r'.rev = r.rev ∧ r'.root_branch = r.root_branch
    ∧ r'.branch_instances = r.branch_instances
    ∧ r'.store.length = r.store.length
    ∧ ∀ a b, r.store.get? a = some b →
        ∃ b', r'.store.get? a = some b'
          ∧ b'.sibling_defn = b.sibling_defn ∧ b'.outer_branch = b.outer_branch
          ∧ b'.outer_eid = b.outer_eid
          ∧ (∀ e, svn_int_hash_get b.e_map e = none → svn_int_hash_get b'.e_map e = none)
          ∧ ∀ e n, svn_int_hash_get b.e_map e = some n →
              ∃ p, svn_branch_get_rrpath_by_eid f r.store fuel b e = Outcome.ok (some p)
                ∧ svn_int_hash_get b'.e_map e
                    = some { parent_eid := n.parent_eid, name := n.name,
                             content := some (svn_element_content_create_ref
                               { rev := r.rev, relpath := some p }) }

/-- A family with one sibling and the EIDs 0 and 1. -/
def null_name_family : svn_branch_family_t := family_of 0 2

/-- A branch whose element 1 has the name `(null)`. -/
def null_name_branch : svn_branch_instance_t :=
  branch_of [(0, el (-1) ""), (1, el 0 "(null)")]

/-- The revision root 5 with `null_name_branch` as its only instance. -/
def null_name_root : svn_branch_revision_root_t :=
  { rev := 5, root_branch := some 0, branch_instances := [0], store := [null_name_branch] }

/-- The text that serializing `null_name_root` writes. -/
def null_name_text : List Char :=
  ("r5:\nfamily: bsids 0 1 eids 0 2 b-instances 1\nb0: root-eid 0 at .\n"
    ++ "b0e0: -1 .\nb0e1: 0 (null)\n").data

/-- The branch that parsing `null_name_text` builds: element 1 is gone. -/
def null_name_parsed : svn_branch_instance_t :=
  branch_of [(0, svn_branch_el_rev_content_create (-1) (some "")
    (some (svn_element_content_create_ref { rev := 5, relpath := some "" })))]

/-- A family with the BSIDs 0 and 1 and the EIDs 0 to 3. -/
def round_trip_family : svn_branch_family_t :=
  { first_bsid := 0, next_bsid := 2, first_eid := 0, next_eid := 4,
    branch_siblings := [{ bsid := 0, root_eid := 0 }, { bsid := 1, root_eid := 2 }] }

/-- The top-level branch: the directory `dir` and the sub-branch root element `sub`. -/
def round_trip_top : svn_branch_instance_t :=
  { sibling_defn := { bsid := 0, root_eid := 0 }, outer_branch := none, outer_eid := -1,
    e_map := [(0, el (-1) ""), (1, el 0 "dir"),
      (3, svn_branch_el_rev_content_create 0 (some "sub") none)] }

/-- The branch nested at element 3 of the top-level branch. -/
def round_trip_nested : svn_branch_instance_t :=
  { sibling_defn := { bsid := 1, root_eid := 2 }, outer_branch := some 0, outer_eid := 3,
    e_map := [(2, el (-1) ""), (1, el 2 "f")] }

/-- The revision root 5 with the two branches. -/
def round_trip_root : svn_branch_revision_root_t :=
  { rev := 5, root_branch := some 0, branch_instances := [0, 1],
    store := [round_trip_top, round_trip_nested] }

/-- Every non-root entry of `m` can be copied into `b` by `branch_map_set`. -/
def CopyOK (f : svn_branch_family_t) (r : Int) (m : EMap) (b : svn_branch_instance_t) : Prop :=
  ∀ e n, (e, n) ∈ m → e ≠ r →
    FAMILY_HAS_ELEMENT f e = true ∧ branch_map_node_validate f b e (some n) = true
      ∧ assert_branch_instance_invariants f b = true

/-- The checks under which the root element of a subtree is written at `r`. -/
def RootWriteOK (f : svn_branch_family_t) (b : svn_branch_instance_t) (r p : Int)
    (name : Option String) (c : Option svn_element_content_t) : Prop :=
  FAMILY_HAS_ELEMENT f r = true ∧ branch_map_node_validate f b r (some ⟨p, name, c⟩) = true
    ∧ assert_branch_instance_invariants f b = true

/-- The element `e` is `r` or below it: the parent chain from `e`, followed through entries of
`m`, arrives at the entry of `r`. -/
inductive Below (m : EMap) (r : Int) : Int → Prop where
  | root (n : svn_branch_el_rev_content_t) : svn_int_hash_get m r = some n → Below m r r
  | step (e : Int) (n : svn_branch_el_rev_content_t) :
      svn_int_hash_get m e = some n → Below m r n.parent_eid → Below m r e

/-- The parent chain from `e` has `d` entries before it arrives at an EID without entry. -/
inductive Depth (m : EMap) : Int → Nat → Prop where
  | no_entry (e : Int) : svn_int_hash_get m e = none → Depth m e 0
  | step (e : Int) (n : svn_branch_el_rev_content_t) (d : Nat) :
      svn_int_hash_get m e = some n → Depth m n.parent_eid d → Depth m e (d + 1)

/-- The map has no parent cycle: the parent chain of every element ends. -/
def NoParentCycle (m : EMap) : Prop := ∀ e n, (e, n) ∈ m → ∃ d, Depth m e d

/-- The `n` EIDs that the allocator hands out from `a` on. -/
def fresh_eids (a : Int) (n : Nat) : List Int :=
  (List.range n).map (fun (i : Nat) => a + (i : Int))

/-- The step of the loop of `svn_branch_map_add_subtree` over the entries of the subtree: an
entry whose parent is `r` is added, with a new EID, below the new EID `R` of `r`. -/
def add_subtree_child (fuel : Nat) (m : EMap) (r R : Int)
    (kv : Int × svn_branch_el_rev_content_t)
    (st : svn_branch_family_t × svn_branch_instance_t) :
    Step (svn_branch_family_t × svn_branch_instance_t) :=
  if kv.2.parent_eid = r then
    svn_branch_map_add_subtree fuel st (-1) R kv.2.name { e_map := m, root_eid := kv.1 }
  else Step.done st

/-- The family after one allocation. -/
def family_bump (f : svn_branch_family_t) : svn_branch_family_t :=
  { f with next_eid := f.next_eid + 1 }

/-- What the loop over the children of `r` has done when it returns: `A` pairs every element
below a child of `r` among `todo` with its new EID. -/
structure KidsSpec (m : EMap) (r R : Int) (todo : EMap)
    (f : svn_branch_family_t) (b : svn_branch_instance_t)
    (f' : svn_branch_family_t) (b' : svn_branch_instance_t) (A : List (Int × Int)) : Prop where
  next : f' = { f with next_eid := f.next_eid + (A.length : Int) }
  new_eids : A.map Prod.snd = fresh_eids f.next_eid A.length
  sibling : b'.sibling_defn = b.sibling_defn
  outer_branch : b'.outer_branch = b.outer_branch
  outer_eid : b'.outer_eid = b.outer_eid
  frame : ∀ k, k ∉ A.map Prod.snd → svn_int_hash_get b'.e_map k = svn_int_hash_get b.e_map k
  nodes : ∀ e e', (e, e') ∈ A → ∃ n q, svn_int_hash_get m e = some n
    ∧ ((n.parent_eid = r ∧ q = R) ∨ (n.parent_eid, q) ∈ A)
    ∧ svn_int_hash_get b'.e_map e' = some ⟨q, n.name, n.content⟩
  keys : ∀ e, e ∈ A.map Prod.fst ↔ ∃ c n, (c, n) ∈ todo ∧ n.parent_eid = r ∧ Below m c e
  nodup : (A.map Prod.fst).Nodup

/-- What a call of `svn_branch_map_add_subtree` with `to_eid = -1` has done when it returns: `A`
pairs every element of the subtree at or below its root `c` with its new EID. -/
structure CallSpec (m : EMap) (c P : Int) (name : Option String)
    (f : svn_branch_family_t) (b : svn_branch_instance_t)
    (f' : svn_branch_family_t) (b' : svn_branch_instance_t) (A : List (Int × Int)) : Prop where
  next : f' = { f with next_eid := f.next_eid + (A.length : Int) }
  new_eids : A.map Prod.snd = fresh_eids f.next_eid A.length
  sibling : b'.sibling_defn = b.sibling_defn
  outer_branch : b'.outer_branch = b.outer_branch
  outer_eid : b'.outer_eid = b.outer_eid
  frame : ∀ k, k ∉ A.map Prod.snd → svn_int_hash_get b'.e_map k = svn_int_hash_get b.e_map k
  head : ∃ root, svn_int_hash_get m c = some root ∧ (c, f.next_eid) ∈ A
    ∧ svn_int_hash_get b'.e_map f.next_eid = some ⟨P, name, root.content⟩
  nodes : ∀ e e', (e, e') ∈ A → e ≠ c → ∃ n q, svn_int_hash_get m e = some n
    ∧ (n.parent_eid, q) ∈ A
    ∧ svn_int_hash_get b'.e_map e' = some ⟨q, n.name, n.content⟩
  keys : ∀ e, e ∈ A.map Prod.fst ↔ Below m c e
  nodup : (A.map Prod.fst).Nodup

/-- The call `svn_branch_map_add_subtree (to_branch, -1, new_parent_eid, new_name, subtree)`
does not run out of fuel, and when it returns the family `f'` and the branch `b'` there is a
list `A` of pairs (EID in the subtree, new EID) such that: `A` holds every element at or below
the subtree root once; `next_eid` has grown by the length of `A`; the new EIDs are the EIDs from
the old `next_eid` on, one after the other; the copy of the root is (`new_parent_eid`,
`new_name`, payload of the root); the copy of every other element has its name and payload and
as parent the new EID of its parent; and the branch holds at every EID below the old
`next_eid` what it held. -/
def AssignsFreshEids (f : svn_branch_family_t) (to_branch : svn_branch_instance_t)
    (new_parent_eid : Int) (new_name : Option String) (new_subtree : svn_branch_subtree_t)
    (root : svn_branch_el_rev_content_t) : Prop :=
  (∀ fuel, new_subtree.e_map.length + 1 ≤ fuel →
    svn_branch_map_add_subtree fuel (f, to_branch) (-1) new_parent_eid new_name new_subtree
      ≠ Step.out_of_fuel)
  ∧ ∀ fuel f' b',
      svn_branch_map_add_subtree fuel (f, to_branch) (-1) new_parent_eid new_name new_subtree
        = Step.done (f', b') →
      ∃ A : List (Int × Int),
        (∀ e, e ∈ A.map Prod.fst ↔ Below new_subtree.e_map new_subtree.root_eid e)
        ∧ (A.map Prod.fst).Nodup
        ∧ f' = { f with next_eid := f.next_eid + (A.length : Int) }
        ∧ A.map Prod.snd = fresh_eids f.next_eid A.length
        ∧ (new_subtree.root_eid, f.next_eid) ∈ A
        ∧ svn_int_hash_get b'.e_map f.next_eid
            = some ⟨new_parent_eid, new_name, root.content⟩
        ∧ (∀ e e', (e, e') ∈ A → e ≠ new_subtree.root_eid →
            ∃ n q, svn_int_hash_get new_subtree.e_map e = some n ∧ (n.parent_eid, q) ∈ A
              ∧ svn_int_hash_get b'.e_map e' = some ⟨q, n.name, n.content⟩)
        ∧ (∀ k, k < f.next_eid →
            svn_int_hash_get b'.e_map k = svn_int_hash_get to_branch.e_map k)
        ∧ b'.sibling_defn = to_branch.sibling_defn
        ∧ b'.outer_branch = to_branch.outer_branch ∧ b'.outer_eid = to_branch.outer_eid

/-- A chain: the root, `a` below it and `b` below `a`. -/
def chain_map : EMap := [(0, el (-1) ""), (1, el 0 "a"), (2, el 1 "b")]

/-- The instance that `svn_branch_instance_create` makes. -/
def created_instance (branch_sibling : svn_branch_sibling_t) (outer_branch : Nat)
    (outer_eid : Int) : svn_branch_instance_t :=
  { sibling_defn := branch_sibling, outer_branch := some outer_branch, outer_eid := outer_eid,
    e_map := [] }

/-- The revision root with one more instance. -/
def pushed (rev_root : svn_branch_revision_root_t) (b : svn_branch_instance_t) :
    svn_branch_revision_root_t :=
  { rev_root with
    store := rev_root.store ++ [b],
    branch_instances := rev_root.branch_instances ++ [rev_root.store.length] }

/-- The revision root `rr'` is `rr` with more instances, pushed one after the other. -/
structure Extends (rr rr' : svn_branch_revision_root_t) : Prop where
  rev : rr'.rev = rr.rev
  root_branch : rr'.root_branch = rr.root_branch
  len : rr.store.length ≤ rr'.store.length
  same : ∀ i, i < rr.store.length → rr'.store.get? i = rr.store.get? i
  list : rr'.branch_instances
    = rr.branch_instances ++ List.range' rr.store.length (rr'.store.length - rr.store.length)

/-- What a call of `svn_branch_branch_subtree_r2` that returns has done to the revision root:
the new instance is at the first new address, anchored at the destination, and every other new
instance is nested in a new instance. -/
structure R2Post (family : svn_branch_family_t) (rr : svn_branch_revision_root_t)
    (from_branch : Nat) (from_eid : Int) (to_outer_branch : Nat) (to_outer_eid : Int)
    (new_branch_def : svn_branch_sibling_t) (rr' : svn_branch_revision_root_t) (a : Nat) :
    Prop where
  addr : a = rr.store.length
  ext : Extends rr rr'
  grow : rr.store.length < rr'.store.length
  dest : ∃ to_b, rr.store.get? to_outer_branch = some to_b
  checks : assert_branch_instance_invariants family
      (created_instance new_branch_def to_outer_branch to_outer_eid) = true
  new_inst : ∃ from_b nb s', rr.store.get? from_branch = some from_b
    ∧ svn_branch_instantiate_subtree family
        (created_instance new_branch_def to_outer_branch to_outer_eid) (-1) (some "")
        (svn_branch_map_get_subtree from_b from_eid) = Step.done (nb, s')
    ∧ rr'.store.get? a = some nb
  nested : ∀ i, a < i → i < rr'.store.length →
    ∃ b o, rr'.store.get? i = some b ∧ b.outer_branch = some o ∧ a ≤ o ∧ o < i

/-- What the loop over the sub-branches has done: every new instance is anchored at `target` or
nested in a new instance. -/
structure LoopPost (target : Nat) (st0 st : svn_branch_revision_root_t) : Prop where
  ext : Extends st0 st
  nested : ∀ i, st0.store.length ≤ i → i < st.store.length →
    ∃ b o, st.store.get? i = some b ∧ b.outer_branch = some o
      ∧ (o = target ∨ st0.store.length ≤ o) ∧ o < i

/-- The family of the branching scenario: BSID 0, EIDs 0 and 1. -/
def branching_family : svn_branch_family_t := family_of 0 2

/-- The outer branch of the branching scenario: the root and its child `dir`. -/
def branching_outer : svn_branch_instance_t := branch_of [(0, el (-1) ""), (1, el 0 "dir")]

/-- The revision root of the branching scenario. -/
def branching_root : svn_branch_revision_root_t :=
  { rev := 0, root_branch := some 0, branch_instances := [0], store := [branching_outer] }

/-- The family after the branching: one more BSID, one more EID and the new sibling. -/
def branching_family_after : svn_branch_family_t :=
  { first_bsid := 0, next_bsid := 2, first_eid := 0, next_eid := 3,
    branch_siblings := [{ bsid := 0, root_eid := 0 }, { bsid := 1, root_eid := 1 }] }

/-- The new branch instance of the branching scenario. -/
def branching_inner : svn_branch_instance_t :=
  { sibling_defn := { bsid := 1, root_eid := 1 }, outer_branch := some 0, outer_eid := 2,
    e_map := [(1, el (-1) "")] }

/-- The revision root after the branching. -/
def branching_root_after : svn_branch_revision_root_t :=
  { rev := 0, root_branch := some 0, branch_instances := [0, 1],
    store := [branch_of [(0, el (-1) ""), (1, el 0 "dir"),
                (2, svn_branch_el_rev_content_create 0 (some "copy") none)],
              branching_inner] }

/-- The chain of outer EIDs of a branch instance, its own outer EID first, then that of its
outer branch, and so on walking outward; a top-level instance has the empty chain. -/
inductive OuterEids (store : List svn_branch_instance_t) :
    svn_branch_instance_t → List Int → Prop
  | top (b : svn_branch_instance_t) : b.outer_branch = none → OuterEids store b []
  | nested (b : svn_branch_instance_t) (a : Nat) (outer : svn_branch_instance_t)
      (L : List Int) : b.outer_branch = some a → store.get? a = some outer →
      OuterEids store outer L → OuterEids store b (b.outer_eid :: L)

/-- The branch id that the code builds from a chain of outer EIDs given own first: `^`, then
`.` and an EID for every member of the chain, the outermost anchor first and the own outer
EID last. -/
def branch_id_inward (L : List Int) : List Char :=
  '^' :: (L.reverse.flatMap (fun (e : Int) => '.' :: print_int e))

/-- The branch id in the words of the specification: `^`, then `.` and the own outer EID,
then `.` and the outer EID of the outer branch, and so on walking outward. -/
def branch_id_outward (L : List Int) : List Char :=
  '^' :: (L.flatMap (fun (e : Int) => '.' :: print_int e))

/-- A top-level branch, a branch anchored at its EID 2, and a branch anchored at EID 5 of
the latter. -/
def nested_store : List svn_branch_instance_t :=
  [ { sibling_defn := { bsid := 0, root_eid := 0 }, outer_branch := none, outer_eid := -1,
      e_map := [] },
    { sibling_defn := { bsid := 1, root_eid := 3 }, outer_branch := some 0, outer_eid := 2,
      e_map := [] },
    { sibling_defn := { bsid := 2, root_eid := 6 }, outer_branch := some 1, outer_eid := 5,
      e_map := [] } ]

/-- The innermost branch of `nested_store`. -/
def nested_inner : svn_branch_instance_t :=
  { sibling_defn := { bsid := 2, root_eid := 6 }, outer_branch := some 1, outer_eid := 5,
    e_map := [] }

/-- The instance at address `i` is the instance at address `a` or is nested in it: the walk
along `outer_branch` from `i` arrives at `a`. -/
inductive Nested (S : List svn_branch_instance_t) (a : Nat) : Nat → Prop
  | self : Nested S a a
  | step (i : Nat) (b : svn_branch_instance_t) (o : Nat) : S.get? i = some b →
      b.outer_branch = some o → Nested S a o → Nested S a i

/-- The list of instances has no instance twice and has the outer branch of each of its
instances. -/
structure ListClosed (rr : svn_branch_revision_root_t) : Prop where
  nodup : rr.branch_instances.Nodup
  closed : ∀ i ∈ rr.branch_instances, ∀ b o, rr.store.get? i = some b →
    b.outer_branch = some o → o ∈ rr.branch_instances

/-- What `svn_branch_delete_branch_instance_r` has done to the revision root: the instances
are as they were, and the list has lost the instance `a` and those nested in it, the rest
staying in order. -/
structure DeletedR (rr rr' : svn_branch_revision_root_t) (a : Nat) : Prop where
  store : rr'.store = rr.store
  rev : rr'.rev = rr.rev
  root_branch : rr'.root_branch = rr.root_branch
  sub : rr'.branch_instances.Sublist rr.branch_instances
  mem : ∀ i, i ∈ rr'.branch_instances ↔ (i ∈ rr.branch_instances ∧ ¬ Nested rr.store a i)

/-- The revision root is ready for the recursive purge: every outer branch has a smaller
address, the list of instances is closed, every element map is valid, every outer EID is an
EID of the family, and the orphan purge of every instance returns. -/
structure PurgeReady (family : svn_branch_family_t) (rr : svn_branch_revision_root_t) :
    Prop where
  before : OuterBefore rr.store
  list : ListClosed rr
  valid : ∀ i b, rr.store.get? i = some b → BranchValid family b
  anchor : ∀ i b o, rr.store.get? i = some b → b.outer_branch = some o →
    FAMILY_HAS_ELEMENT family b.outer_eid = true
  purge : ∀ i b, rr.store.get? i = some b →
    ∃ b', svn_branch_map_purge_orphans b = Step.done b'

/-- The instance at address `a` has been purged recursively between the revision roots `rr`
and `rr'`: its element map in `rr'` is the orphan purge of its element map in `rr`; every
immediate sub-branch whose outer EID has an element in the purged map is in the list of
`rr'` and has been purged recursively; every immediate sub-branch whose outer EID has no
element in the purged map has left the list of `rr'` with every instance nested in it. -/
inductive PurgedR (rr rr' : svn_branch_revision_root_t) : Nat → Prop
  | mk (a : Nat) (b b' : svn_branch_instance_t) :
      rr.store.get? a = some b → svn_branch_map_purge_orphans b = Step.done b' →
      rr'.store.get? a = some b' →
      (∀ s ∈ svn_branch_get_all_sub_branches rr a, ∀ bs, rr.store.get? s = some bs →
        svn_int_hash_get b'.e_map bs.outer_eid ≠ none → s ∈ rr'.branch_instances) →
      (∀ s ∈ svn_branch_get_all_sub_branches rr a, ∀ bs, rr.store.get? s = some bs →
        svn_int_hash_get b'.e_map bs.outer_eid ≠ none → PurgedR rr rr' s) →
      (∀ s ∈ svn_branch_get_all_sub_branches rr a, ∀ bs, rr.store.get? s = some bs →
        svn_int_hash_get b'.e_map bs.outer_eid = none →
        ∀ i, Nested rr.store s i → i ∉ rr'.branch_instances) →
      PurgedR rr rr' a

/-- Two stores have the same instances up to the element maps, as far as nesting goes. -/
def SameOuter (S S' : List svn_branch_instance_t) : Prop :=
  S'.length = S.length
  ∧ ∀ i b, S.get? i = some b → ∃ b', S'.get? i = some b' ∧ b'.outer_branch = b.outer_branch

/-- What a recursive purge or deletion at the instance `a` leaves alone: the instances keep
their outer branches, those not nested in `a` are untouched and stay listed, the list keeps
its order, and the revision root stays ready for the purge. -/
structure PurgeFrame (family : svn_branch_family_t) (rr rr' : svn_branch_revision_root_t)
    (a : Nat) : Prop where
  rev : rr'.rev = rr.rev
  root_branch : rr'.root_branch = rr.root_branch
  outer : SameOuter rr.store rr'.store
  frame : ∀ i, ¬ Nested rr.store a i → rr'.store.get? i = rr.store.get? i
  sub : rr'.branch_instances.Sublist rr.branch_instances
  keep : ∀ i ∈ rr.branch_instances, ¬ Nested rr.store a i → i ∈ rr'.branch_instances
  ready : PurgeReady family rr'

/-- What one turn of the loop of `svn_branch_purge_r` does for the sub-branch `s` of `a`. -/
structure PurgeStep (family : svn_branch_family_t) (a s : Nat)
    (st st1 : svn_branch_revision_root_t) : Prop where
  frame : PurgeFrame family st st1 s
  kept : ∀ bs ba, st.store.get? s = some bs → st.store.get? a = some ba →
    svn_int_hash_get ba.e_map bs.outer_eid ≠ none →
    s ∈ st1.branch_instances ∧ PurgedR st st1 s
  deleted : ∀ bs ba, st.store.get? s = some bs → st.store.get? a = some ba →
    svn_int_hash_get ba.e_map bs.outer_eid = none →
    ∀ i, Nested st.store s i → i ∉ st1.branch_instances

/-- What the loop of `svn_branch_purge_r` over the sub-branches `todo` of `a` does. -/
structure PurgeLoop (family : svn_branch_family_t) (a : Nat) (todo : List Nat)
    (st st' : svn_branch_revision_root_t) : Prop where
  rev : st'.rev = st.rev
  root_branch : st'.root_branch = st.root_branch
  outer : SameOuter st.store st'.store
  frame : ∀ i, (∀ s ∈ todo, ¬ Nested st.store s i) → st'.store.get? i = st.store.get? i
  sub : st'.branch_instances.Sublist st.branch_instances
  keep : ∀ i ∈ st.branch_instances, (∀ s ∈ todo, ¬ Nested st.store s i) →
    i ∈ st'.branch_instances
  ready : PurgeReady family st'
  kept : ∀ s ∈ todo, ∀ bs ba, st.store.get? s = some bs → st.store.get? a = some ba →
    svn_int_hash_get ba.e_map bs.outer_eid ≠ none →
    s ∈ st'.branch_instances ∧ PurgedR st st' s
  deleted : ∀ s ∈ todo, ∀ bs ba, st.store.get? s = some bs → st.store.get? a = some ba →
    svn_int_hash_get ba.e_map bs.outer_eid = none →
    ∀ i, Nested st.store s i → i ∉ st'.branch_instances

/-- The family of the purge scenario: EIDs 0 to 9. -/
def purge_family : svn_branch_family_t := family_of 0 10

/-- The top branch of the purge scenario: the root, the anchor `keep` under the root and the
anchor `gone`, an orphan whose parent 9 has no element. -/
def purge_top : svn_branch_instance_t :=
  { sibling_defn := { bsid := 0, root_eid := 0 }, outer_branch := none, outer_eid := -1,
    e_map := [(0, el (-1) ""),
      (1, svn_branch_el_rev_content_create 0 (some "keep") none),
      (2, svn_branch_el_rev_content_create 9 (some "gone") none)] }

/-- The sub-branch anchored at `keep`, with an orphan of its own. -/
def purge_kept : svn_branch_instance_t :=
  { sibling_defn := { bsid := 1, root_eid := 3 }, outer_branch := some 0, outer_eid := 1,
    e_map := [(3, el (-1) ""), (4, el 8 "x")] }

/-- The sub-branch anchored at `gone`. -/
def purge_gone : svn_branch_instance_t :=
  { sibling_defn := { bsid := 2, root_eid := 5 }, outer_branch := some 0, outer_eid := 2,
    e_map := [(5, el (-1) ""), (7, svn_branch_el_rev_content_create 5 (some "in") none)] }

/-- The sub-branch nested in the sub-branch anchored at `gone`. -/
def purge_inner : svn_branch_instance_t :=
  { sibling_defn := { bsid := 3, root_eid := 6 }, outer_branch := some 2, outer_eid := 7,
    e_map := [(6, el (-1) "")] }

/-- The revision root of the purge scenario. -/
def purge_root : svn_branch_revision_root_t :=
  { rev := 0, root_branch := some 0, branch_instances := [0, 1, 2, 3],
    store := [purge_top, purge_kept, purge_gone, purge_inner] }

/-- The revision root of the purge scenario after `svn_branch_purge_r` on the top branch. -/
def purge_root_after : svn_branch_revision_root_t :=
  { rev := 0, root_branch := some 0, branch_instances := [0, 1],
    store := [{ purge_top with e_map := [(0, el (-1) ""),
                (1, svn_branch_el_rev_content_create 0 (some "keep") none)] },
              { purge_kept with e_map := [(3, el (-1) "")] }, purge_gone, purge_inner] }

/-- The list of instances names existing instances, none twice, and every outer branch is an
existing instance. -/
structure InstancesListed (rr : svn_branch_revision_root_t) : Prop where
  listed : ∀ i ∈ rr.branch_instances, i < rr.store.length
  nodup : rr.branch_instances.Nodup
  outer : ∀ i b o, rr.store.get? i = some b → b.outer_branch = some o → o < rr.store.length

/-- Sub-branch disjointness in the words of the specification: no two immediate sub-branches
of one branch instance have the same root rrpath. -/
def SubBranchDisjointness (family : svn_branch_family_t) (rr : svn_branch_revision_root_t) :
    Prop :=
  ∀ s t bs bt o fuel R, s ∈ rr.branch_instances → t ∈ rr.branch_instances → s ≠ t →
    rr.store.get? s = some bs → rr.store.get? t = some bt →
    bs.outer_branch = some o → bt.outer_branch = some o →
    svn_branch_get_root_rrpath family rr.store fuel bs = Outcome.ok R →
    svn_branch_get_root_rrpath family rr.store fuel bt ≠ Outcome.ok R

/-- The revision root of the branching scenario after `svn_branch_branch_into` of the top
branch into itself: the sub-branch at `copy` is there twice. -/
def branching_root_into_itself : svn_branch_revision_root_t :=
  { rev := 0, root_branch := some 0, branch_instances := [0, 1, 2],
    store := [branch_of [(0, el (-1) ""), (1, el 0 "dir"),
                (2, svn_branch_el_rev_content_create 0 (some "copy") none)],
              branching_inner, branching_inner] }

/-- The revision root of the branching scenario after a second branching of `dir` under the
name `copy`. -/
def branching_root_twice : svn_branch_revision_root_t :=
  { rev := 0, root_branch := some 0, branch_instances := [0, 1, 2],
    store := [branch_of [(0, el (-1) ""), (1, el 0 "dir"),
                (2, svn_branch_el_rev_content_create 0 (some "copy") none),
                (3, svn_branch_el_rev_content_create 0 (some "copy") none)],
              branching_inner,
              { sibling_defn := { bsid := 2, root_eid := 1 }, outer_branch := some 0,
                outer_eid := 3, e_map := [(1, el (-1) "")] }] }

/-- The family of the branching scenario after the second branching. -/
def branching_family_twice : svn_branch_family_t :=
  { first_bsid := 0, next_bsid := 3, first_eid := 0, next_eid := 4,
    branch_siblings := [{ bsid := 0, root_eid := 0 }, { bsid := 1, root_eid := 1 },
      { bsid := 2, root_eid := 1 }] }

/-- A call of one of the allocators of a family: `svn_branch_family_add_new_element`, or
`svn_branch_family_add_new_branch_sibling` with the root EID of the new sibling. -/
inductive alloc_request where
  | element
  | branch_sibling (root_eid : Int)
  deriving DecidableEq, Repr

/-- What an allocator returned: the EID, or the sibling. -/
inductive alloc_reply where
  | eid (e : Int)
  | sibling (s : svn_branch_sibling_t)
  deriving DecidableEq, Repr

/-- A sequence of allocations on one family, one after the other: the family after the last
one and what each returned.  An allocation of a sibling that fails an assertion ends the
sequence. -/
def run_allocations :
    svn_branch_family_t → List alloc_request → Outcome (svn_branch_family_t × List alloc_reply)
  | family, [] => Outcome.ok (family, [])
  | family, alloc_request.element :: rest =>
    match run_allocations (svn_branch_family_add_new_element family).1 rest with
    | Outcome.ok (family', replies) =>
      Outcome.ok (family', alloc_reply.eid (svn_branch_family_add_new_element family).2
        :: replies)
    | Outcome.malfunction => Outcome.malfunction
    | Outcome.out_of_fuel => Outcome.out_of_fuel
  | family, alloc_request.branch_sibling root_eid :: rest =>
    match svn_branch_family_add_new_branch_sibling family root_eid with
    | Outcome.ok (family1, s) =>
      (match run_allocations family1 rest with
       | Outcome.ok (family', replies) => Outcome.ok (family', alloc_reply.sibling s :: replies)
       | Outcome.malfunction => Outcome.malfunction
       | Outcome.out_of_fuel => Outcome.out_of_fuel)
    | Outcome.malfunction => Outcome.malfunction
    | Outcome.out_of_fuel => Outcome.out_of_fuel

/-- The EIDs among the replies, in the order of the allocations. -/
def returned_eids : List alloc_reply → List Int
  | [] => []
  | alloc_reply.eid e :: rest => e :: returned_eids rest
  | alloc_reply.sibling _ :: rest => returned_eids rest

/-- The BSIDs of the siblings among the replies, in the order of the allocations. -/
def returned_bsids : List alloc_reply → List Int
  | [] => []
  | alloc_reply.eid _ :: rest => returned_bsids rest
  | alloc_reply.sibling s :: rest => s.bsid :: returned_bsids rest

/-- A family whose range of EIDs is empty, with `first_eid` above `next_eid`. -/
def inverted_family : svn_branch_family_t := svn_branch_family_create 0 1 5 2

/-- A family without siblings, with the BSID 0 and the EIDs 0 and 1. -/
def bare_family : svn_branch_family_t := svn_branch_family_create 0 1 0 2

/-- Every entry of the branch at an EID of the family passes `branch_map_node_validate`. -/
def RangeValid (f : svn_branch_family_t) (b : svn_branch_instance_t) : Prop :=
  ∀ e ∈ eid_range f, ∀ n, svn_int_hash_get b.e_map e = some n →
    branch_map_node_validate f b e (some n) = true

/-- The loop of `svn_branch_family_serialize` writes the instances at the addresses of the
list one after the other, starting from the store `S`: `blocks` has, for each address in order,
the root path of the instance and the instance as `svn_branch_map_purge_orphans` left it, and
`S'` is the store after the last one. -/
inductive InstancesWritten (f : svn_branch_family_t) (fuel : Nat) :
    List Nat → List svn_branch_instance_t → List (String × svn_branch_instance_t) →
    List svn_branch_instance_t → Prop where
  | nil (S : List svn_branch_instance_t) : InstancesWritten f fuel [] S [] S
  | cons (a : Nat) (l : List Nat) (S : List svn_branch_instance_t)
      (b : svn_branch_instance_t) (R : String) (purged : svn_branch_instance_t)
      (blocks : List (String × svn_branch_instance_t)) (S' : List svn_branch_instance_t) :
      S.get? a = some b →
      svn_branch_get_root_rrpath f S fuel b = Outcome.ok R →
      svn_branch_map_purge_orphans b = Step.done purged →
      RangeValid f purged →
      InstancesWritten f fuel l (S.set a purged) blocks S' →
      InstancesWritten f fuel (a :: l) S ((R, purged) :: blocks) S'

/-- The text that serializing `round_trip_root` writes. -/
def round_trip_text : List Char :=
  ("r5:\nfamily: bsids 0 2 eids 0 4 b-instances 2\n"
    ++ "b0: root-eid 0 at .\nb0e0: -1 .\nb0e1: 0 dir\nb0e2: -1 (null)\nb0e3: 0 sub\n"
    ++ "b1: root-eid 2 at sub\nb1e0: -1 (null)\nb1e1: 2 f\nb1e2: -1 .\nb1e3: -1 (null)\n").data

/-- A repository whose only revision, 0, has the top-level branch of `round_trip_root` and the
branch nested in it at `sub`. -/
def find_el_rev_repos : svn_branch_repos_t :=
  { rev_roots := [{ round_trip_root with rev := 0 }], family := some round_trip_family }

/-- The arguments pass the validation of `svn_editor3_alter`: the EID is valid; at the root EID
the parent is −1 and the name is empty, elsewhere the parent is a valid EID and the name is
valid; the payload is absent or valid; the parent is not the element itself. -/
def AlterValid (svn_relpath_is_canonical : String → Bool) (branch : svn_branch_state_t)
    (eid new_parent_eid : Int) (new_name : Option String)
    (new_payload : Option svn_element_payload_t) : Prop :=
  0 ≤ eid
  ∧ (if eid = branch.root_eid then new_parent_eid = -1 ∧ new_name = some ""
     else 0 ≤ new_parent_eid ∧ VALID_NAME svn_relpath_is_canonical new_name = true)
  ∧ (new_payload = none ∨ VALID_PAYLOAD new_payload = true)
  ∧ new_parent_eid ≠ eid

/-- What the call of a callback leaves when no cancellation function is set and no other
callback is running: the world and the operands as the callback left them, with its error if
it returned one; after an abort inside the callback `within_callback` is still set when the
ordering check is enabled. -/
def invoked {W σ : Type} (ENABLE_ORDERING_CHECK : Bool) (editor : svn_editor3_t W)
    (r : Reply (W × σ)) : Reply (svn_editor3_t W × σ) :=
  match r with
  | Reply.ok (world, x) => Reply.ok ({ editor with baton := world }, x)
  | Reply.error (world, x) e => Reply.error ({ editor with baton := world }, x) e
  | Reply.malfunction (world, x) =>
    Reply.malfunction
      ({ editor with baton := world, within_callback := ENABLE_ORDERING_CHECK }, x)
  | Reply.out_of_fuel => Reply.out_of_fuel

/-- A stand-in for `svn_relpath_is_canonical` in the examples: no slash at either end. -/
def example_is_canonical (s : String) : Bool :=
  s.data.head? != some '/' && s.data.getLast? != some '/'

/-- Callbacks for the examples: the world counts the calls of the callbacks; `cb_new_eid`
allocates an EID, `cb_payload_resolve` returns the payload of the element, the others leave
their operands as they are. -/
def counting_funcs : svn_editor3_cb_funcs_t Nat :=
  { cb_new_eid := some (fun world b _ =>
      Reply.ok (world + 1, svn_branch_allocate_new_eid b))
    cb_add := some (fun world b _ _ _ _ => Reply.ok (world + 1, b))
    cb_copy_one := some (fun world _ b _ _ _ _ => Reply.ok (world + 1, b))
    cb_copy_tree := some (fun world _ b _ _ => Reply.ok (world + 1, b))
    cb_delete := some (fun world b _ => Reply.ok (world + 1, b))
    cb_alter := some (fun world b _ _ _ _ => Reply.ok (world + 1, b))
    cb_payload_resolve := some (fun world _ element =>
      Reply.ok (world + 1, element.bind (fun el => el.content)))
    cb_sequence_point := some (fun world u => Reply.ok (world + 1, u))
    cb_complete := some (fun world u => Reply.ok (world + 1, u))
    cb_abort := some (fun world u => Reply.ok (world + 1, u)) }

/-- An editor with `counting_funcs`, no cancellation function and the count 0. -/
def counting_editor : svn_editor3_t Nat := svn_editor3_create counting_funcs 0 none

/-- A branch with root EID 0 in a family whose next EID is 2. -/
def example_branch_state : svn_branch_state_t := { root_eid := 0, next_eid := 2 }

/-- A payload by reference to `file.txt` in revision 0. -/
def example_payload : svn_element_payload_t :=
  { kind := svn_node_kind_t.svn_node_unknown, ref := { rev := 0, relpath := some "file.txt" },
    props := none }

/-- The assertions of `svn_editor3_alter` hold: all of `AlterValid` but the last part. -/
def AlterAsserted (svn_relpath_is_canonical : String → Bool) (branch : svn_branch_state_t)
    (eid new_parent_eid : Int) (new_name : Option String)
    (new_payload : Option svn_element_payload_t) : Prop :=
  0 ≤ eid
  ∧ (if eid = branch.root_eid then new_parent_eid = -1 ∧ new_name = some ""
     else 0 ≤ new_parent_eid ∧ VALID_NAME svn_relpath_is_canonical new_name = true)
  ∧ (new_payload = none ∨ VALID_PAYLOAD new_payload = true)

/-- The assertions of `svn_editor3_add` hold. -/
def AddAsserted (svn_relpath_is_canonical : String → Bool) (eid new_parent_eid : Int)
    (new_name : Option String) (new_payload : Option svn_element_payload_t) : Prop :=
  0 ≤ eid ∧ 0 ≤ new_parent_eid ∧ VALID_NAME svn_relpath_is_canonical new_name = true
  ∧ (new_payload = none ∨ VALID_PAYLOAD new_payload = true)

/-- A call of one of the ten operations of the editor, with its arguments. -/
inductive editor_call where
  | new_eid (branch : svn_branch_state_t)
  | add (branch : svn_branch_state_t) (eid new_parent_eid : Int) (new_name : Option String)
      (new_payload : Option svn_element_payload_t)
  | copy_one (src_el_rev : Option svn_branch_el_rev_id_t) (branch : svn_branch_state_t)
      (local_eid new_parent_eid : Int) (new_name : Option String)
      (new_payload : Option svn_element_payload_t)
  | copy_tree (src_el_rev : Option svn_branch_el_rev_id_t) (branch : svn_branch_state_t)
      (new_parent_eid : Int) (new_name : Option String)
  | delete (branch : svn_branch_state_t) (eid : Int)
  | alter (branch : svn_branch_state_t) (eid new_parent_eid : Int) (new_name : Option String)
      (new_payload : Option svn_element_payload_t)
  | payload_resolve (payload : Option svn_element_payload_t)
      (element : Option svn_branch_el_rev_content_t)
  | sequence_point
  | complete
  | abort
  deriving DecidableEq, Repr

/-- The call is `complete` or `abort`. -/
def editor_call.finishes : editor_call → Bool
  | editor_call.complete => true
  | editor_call.abort => true
  | _ => false

/-- The call is one of the operations that change the tree: `add`, `copy_one`, `copy_tree`,
`delete` or `alter`. -/
def editor_call.mutates : editor_call → Bool
  | editor_call.add _ _ _ _ _ => true
  | editor_call.copy_one _ _ _ _ _ _ => true
  | editor_call.copy_tree _ _ _ _ => true
  | editor_call.delete _ _ => true
  | editor_call.alter _ _ _ _ _ => true
  | _ => false

/-- The operation of the editor that a call names, applied to the editor; the reply carries
the editor as the operation leaves it. -/
def run_call {W : Type} (ENABLE_ORDERING_CHECK : Bool)
    (svn_relpath_is_canonical : String → Bool) (fuel : Nat) (editor : svn_editor3_t W) :
    editor_call → Reply (svn_editor3_t W)
  | editor_call.new_eid branch =>
    (svn_editor3_new_eid ENABLE_ORDERING_CHECK editor branch).map Prod.fst
  | editor_call.add branch eid new_parent_eid new_name new_payload =>
    (svn_editor3_add ENABLE_ORDERING_CHECK svn_relpath_is_canonical editor branch eid
      new_parent_eid new_name new_payload).map Prod.fst
  | editor_call.copy_one src_el_rev branch local_eid new_parent_eid new_name new_payload =>
    (svn_editor3_copy_one ENABLE_ORDERING_CHECK svn_relpath_is_canonical editor src_el_rev
      branch local_eid new_parent_eid new_name new_payload).map Prod.fst
  | editor_call.copy_tree src_el_rev branch new_parent_eid new_name =>
    (svn_editor3_copy_tree ENABLE_ORDERING_CHECK svn_relpath_is_canonical editor src_el_rev
      branch new_parent_eid new_name).map Prod.fst
  | editor_call.delete branch eid =>
    (svn_editor3_delete ENABLE_ORDERING_CHECK editor branch eid).map Prod.fst
  | editor_call.alter branch eid new_parent_eid new_name new_payload =>
    (svn_editor3_alter ENABLE_ORDERING_CHECK svn_relpath_is_canonical fuel editor branch eid
      new_parent_eid new_name new_payload).map Prod.fst
  | editor_call.payload_resolve payload element =>
    (svn_editor3_payload_resolve ENABLE_ORDERING_CHECK editor payload element).map Prod.fst
  | editor_call.sequence_point =>
    (svn_editor3_sequence_point ENABLE_ORDERING_CHECK editor).map Prod.fst
  | editor_call.complete => (svn_editor3_complete ENABLE_ORDERING_CHECK editor).map Prod.fst
  | editor_call.abort => (svn_editor3_abort ENABLE_ORDERING_CHECK editor).map Prod.fst

/-- The editor `later` is `editor` after some calls of operations, each made on the editor as
the call before left it. -/
inductive Later {W : Type} (ENABLE_ORDERING_CHECK : Bool)
    (svn_relpath_is_canonical : String → Bool) (editor : svn_editor3_t W) :
    svn_editor3_t W → Prop where
  | refl : Later ENABLE_ORDERING_CHECK svn_relpath_is_canonical editor editor
  | step (before after : svn_editor3_t W) (fuel : Nat) (call : editor_call) :
      Later ENABLE_ORDERING_CHECK svn_relpath_is_canonical editor before →
      (run_call ENABLE_ORDERING_CHECK svn_relpath_is_canonical fuel before call).state
        = some after →
      Later ENABLE_ORDERING_CHECK svn_relpath_is_canonical editor after

/-- The fields of the editor that no operation but `complete` and `abort` writes are the same,
and `within_callback` is cleared again when it was clear and the call returned. -/
def Kept {W : Type} (editor after : svn_editor3_t W) (returned : Bool) : Prop :=
  after.finished = editor.finished ∧ after.funcs = editor.funcs
  ∧ after.cancel_func = editor.cancel_func
  ∧ (returned = true → editor.within_callback = false → after.within_callback = false)

/-- What a call of an operation leaves of the editor: the callbacks and the cancellation
function are the same, `within_callback` is clear again when it was clear and the call returned,
and `finished` is set exactly when it was set or the ordering check is enabled and the call was
a `complete` or `abort` that returned `SVN_NO_ERROR`. -/
def Stepped {W : Type} (ENABLE_ORDERING_CHECK : Bool) (editor after : svn_editor3_t W)
    (returned succeeded finishes : Bool) : Prop :=
  after.funcs = editor.funcs ∧ after.cancel_func = editor.cancel_func
  ∧ (returned = true → editor.within_callback = false → after.within_callback = false)
  ∧ after.finished = (editor.finished || (ENABLE_ORDERING_CHECK && finishes && succeeded))

/-- The assertions of `svn_editor3_copy_one` hold. -/
def CopyOneAsserted (svn_relpath_is_canonical : String → Bool)
    (src_el_rev : Option svn_branch_el_rev_id_t) (local_eid new_parent_eid : Int)
    (new_name : Option String) (new_payload : Option svn_element_payload_t) : Prop :=
  0 ≤ local_eid ∧ VALID_EL_REV_ID src_el_rev = true ∧ 0 ≤ new_parent_eid
  ∧ VALID_NAME svn_relpath_is_canonical new_name = true
  ∧ (new_payload = none ∨ VALID_PAYLOAD new_payload = true)

/-- The assertions of `svn_editor3_copy_tree` hold. -/
def CopyTreeAsserted (svn_relpath_is_canonical : String → Bool)
    (src_el_rev : Option svn_branch_el_rev_id_t) (new_parent_eid : Int)
    (new_name : Option String) : Prop :=
  VALID_EL_REV_ID src_el_rev = true ∧ 0 ≤ new_parent_eid
  ∧ VALID_NAME svn_relpath_is_canonical new_name = true

/-- An example locator: element 1 of the branch at address 0 in revision 0. -/
def example_el_rev : svn_branch_el_rev_id_t := { branch := some 0, eid := 1, rev := 0 }

/-- The counting editor after a `complete` with the ordering check: one call counted, and
finished. -/
def completed_editor : svn_editor3_t Nat :=
  { counting_editor with baton := 1, finished := true }

/-- An editor with the counting callbacks whose cancellation function adds 10 to the count and
signals `SVN_ERR_CANCELLED`. -/
def cancelling_editor : svn_editor3_t Nat :=
  svn_editor3_create counting_funcs 0
    (some (fun world => (world + 10, some svn_errno_t.SVN_ERR_CANCELLED)))

/-- The reply of an operation of the wrapper editor as the caller sees it: the wrapped editor
as the call left it, and the operands. -/
def wrapped_reply {W σ : Type}
    (r : Reply (svn_editor3_t (change_detection_baton_t W) × σ)) :
    Reply (svn_editor3_t W × σ) :=
  r.map (fun s => (s.1.baton.wrapped_editor, s.2))

/-- An editor made by `svn_editor3__change_detection_editor` between two calls: it has the
callbacks of the wrapper and no cancellation function, no callback is running, and it is
finished only when the wrapped editor is. -/
def WrapperInv {W : Type} (ENABLE_ORDERING_CHECK : Bool)
    (svn_relpath_is_canonical : String → Bool) (fuel : Nat)
    (w : svn_editor3_t (change_detection_baton_t W)) : Prop :=
  w.funcs = wrapper_funcs ENABLE_ORDERING_CHECK svn_relpath_is_canonical fuel
  ∧ w.cancel_func = none ∧ w.within_callback = false
  ∧ (w.finished = true → w.baton.wrapped_editor.finished = true)

/-- The call passes the checks that the operation makes before it calls the callback: the
assertions on the arguments and the test of the parent in `add` and `alter`, whose loop
returns, and the test of `SHOULD_NOT_BE_FINISHED` in `sequence_point`, `complete` and
`abort`. -/
def Reaches {W : Type} (ENABLE_ORDERING_CHECK : Bool)
    (svn_relpath_is_canonical : String → Bool) (fuel : Nat) (editor : svn_editor3_t W) :
    editor_call → Prop
  | editor_call.new_eid _ => True
  | editor_call.add _ eid new_parent_eid new_name new_payload =>
    AddAsserted svn_relpath_is_canonical eid new_parent_eid new_name new_payload
    ∧ new_parent_eid ≠ eid
  | editor_call.copy_one src_el_rev _ local_eid new_parent_eid new_name new_payload =>
    CopyOneAsserted svn_relpath_is_canonical src_el_rev local_eid new_parent_eid new_name
      new_payload
  | editor_call.copy_tree src_el_rev _ new_parent_eid new_name =>
    CopyTreeAsserted svn_relpath_is_canonical src_el_rev new_parent_eid new_name
  | editor_call.delete branch eid => 0 ≤ eid ∧ eid ≠ branch.root_eid
  | editor_call.alter branch eid new_parent_eid new_name new_payload =>
    AlterValid svn_relpath_is_canonical branch eid new_parent_eid new_name new_payload
    ∧ ∃ allocated, svn_editor3_alter_loop eid new_parent_eid fuel branch = some allocated
  | editor_call.payload_resolve _ _ => True
  | editor_call.sequence_point => SHOULD_NOT_BE_FINISHED ENABLE_ORDERING_CHECK editor = true
  | editor_call.complete => SHOULD_NOT_BE_FINISHED ENABLE_ORDERING_CHECK editor = true
  | editor_call.abort => SHOULD_NOT_BE_FINISHED ENABLE_ORDERING_CHECK editor = true

/-- The editor `after` is `editor` after the calls `calls`, the first one first: each entry
holds the editor on which the call was made, which is the editor as the call before left it,
the fuel and the call, and each call returned, with `SVN_NO_ERROR` or with an error. -/
inductive Issued {W : Type} (ENABLE_ORDERING_CHECK : Bool)
    (svn_relpath_is_canonical : String → Bool) (editor : svn_editor3_t W) :
    List (svn_editor3_t W × Nat × editor_call) → svn_editor3_t W → Prop where
  | nil : Issued ENABLE_ORDERING_CHECK svn_relpath_is_canonical editor [] editor
  | snoc (calls : List (svn_editor3_t W × Nat × editor_call))
      (before after : svn_editor3_t W) (fuel : Nat) (call : editor_call) :
      Issued ENABLE_ORDERING_CHECK svn_relpath_is_canonical editor calls before →
      (run_call ENABLE_ORDERING_CHECK svn_relpath_is_canonical fuel before call).returned
        = true →
      (run_call ENABLE_ORDERING_CHECK svn_relpath_is_canonical fuel before call).state
        = some after →
      Issued ENABLE_ORDERING_CHECK svn_relpath_is_canonical editor
        (calls ++ [(before, fuel, call)]) after

/-- The counting editor behind a change-detection wrapper, with the ordering check enabled. -/
def detecting_editor : svn_editor3_t (change_detection_baton_t Nat) :=
  svn_editor3__change_detection_editor true example_is_canonical 1 counting_editor

/-- The editor resolves every payload: no callback is running, the cancellation function, if
set, never signals, and the `payload_resolve` callback is set and returns `SVN_NO_ERROR` with a
payload that depends on the element only, `resolve element`. -/
def Resolving {W : Type} (editor : svn_editor3_t W)
    (resolve : Option svn_branch_el_rev_content_t → Option svn_element_payload_t) : Prop :=
  editor.within_callback = false
  ∧ (∀ probe, editor.cancel_func = some probe → ∀ w, (probe w).2 = none)
  ∧ ∃ cb, editor.funcs.cb_payload_resolve = some cb
      ∧ ∀ w current element, ∃ w', cb w current element = Reply.ok (w', resolve element)

/-- The element with its payload resolved, or absent. -/
def resolved (resolve : Option svn_branch_el_rev_content_t → Option svn_element_payload_t)
    (element : Option svn_branch_el_rev_content_t) : Option svn_branch_el_rev_content_t :=
  element.map
    (fun el => svn_branch_el_rev_content_create el.parent_eid el.name (resolve (some el)))

/-- Equality of two elements in the words of the specification: both absent, or both present
with the same parent EID, the same name and the same payload, the payloads compared by
`svn_element_content_equal`. -/
def structurally_equal
    (svn_element_content_equal :
      Option svn_element_content_t → Option svn_element_content_t → Bool)
    (left right : Option svn_branch_el_rev_content_t) : Bool :=
  match left, right with
  | none, none => true
  | some l, some r =>
    decide (l.parent_eid = r.parent_eid) && decide (l.name = r.name)
      && svn_element_content_equal l.content r.content
  | _, _ => false

/-- No element of the map has a NULL name. -/
def NamesSet (m : EMap) : Prop := ∀ kv ∈ m, kv.2.name ≠ none

/-- The resolution of the counting editor: the payload that the element has. -/
def example_resolve (element : Option svn_branch_el_rev_content_t) :
    Option svn_element_payload_t :=
  element.bind (fun el => el.content)

/-- A subtree with the root element 0 and the file `a` as element 1. -/
def example_left : svn_branch_subtree_t :=
  { e_map := [(0, { parent_eid := -1, name := some "", content := some example_payload }),
              (1, { parent_eid := 0, name := some "a", content := some example_payload })],
    root_eid := 0 }

/-- A subtree with the root element 0 and the file `b` as element 2. -/
def example_right : svn_branch_subtree_t :=
  { e_map := [(0, { parent_eid := -1, name := some "", content := some example_payload }),
              (2, { parent_eid := 0, name := some "b", content := some example_payload })],
    root_eid := 0 }

/-- A revision root whose only branch instance is a top-level branch without elements. -/
def empty_branch_root : svn_branch_revision_root_t :=
  { rev := 0, root_branch := some 0, branch_instances := [0], store := [branch_of []] }

/-- Every branch instance of the store has a defined root path: the call of
`svn_branch_get_root_rrpath` returns a path, given enough fuel. -/
def RootPathsDefined (f : svn_branch_family_t) (S : List svn_branch_instance_t) : Prop :=
  ∀ a b, S.get? a = some b →
    ∃ K, ∀ fuel, K ≤ fuel → ∃ R, svn_branch_get_root_rrpath f S fuel b = Outcome.ok R

/-- A revision root whose only branch instance is the top-level branch with the map
`cycle_map`, in which elements 1 and 2 are each the parent of the other. -/
def cycle_rev_root : svn_branch_revision_root_t :=
  { rev := 0, root_branch := some 0, branch_instances := [0], store := [branch_of cycle_map] }

/-- A repository whose only revision is `cycle_rev_root`. -/
def cycle_repos : svn_branch_repos_t :=
  { rev_roots := [cycle_rev_root], family := some (family_of 0 3) }

/-- The revision root 0 that names the nested branch of `round_trip_root` as its root
branch. -/
def nested_root_rev_root : svn_branch_revision_root_t :=
  { round_trip_root with rev := 0, root_branch := some 1 }

/-- A repository whose revision 0 is `nested_root_rev_root`. -/
def nested_root_repos : svn_branch_repos_t :=
  { rev_roots := [nested_root_rev_root], family := some round_trip_family }

/-- A branch anchored at element 1 of the instance at address 0. -/
def dangling_nested : svn_branch_instance_t :=
  { sibling_defn := { bsid := 0, root_eid := 0 }, outer_branch := some 0, outer_eid := 1,
    e_map := [(0, el (-1) "")] }

/-- A revision root whose nested branch is anchored at element 1 of the top-level branch, which
has no such element. -/
def dangling_rev_root : svn_branch_revision_root_t :=
  { rev := 0, root_branch := some 0, branch_instances := [0, 1],
    store := [branch_of [(0, el (-1) "")], dangling_nested] }

/-- A repository whose revision 0 is `dangling_rev_root`. -/
def dangling_repos : svn_branch_repos_t :=
  { rev_roots := [dangling_rev_root], family := some (family_of 0 2) }

/-- A revision root with one top-level branch that has the elements 0 and 1. -/
def unallocated_rev_root : svn_branch_revision_root_t :=
  { rev := 0, root_branch := some 0, branch_instances := [0],
    store := [branch_of [(0, el (-1) ""), (1, el 0 "a")]] }

/-- A repository whose revision 0 is `unallocated_rev_root`, in a family whose only EID
is 0. -/
def unallocated_repos : svn_branch_repos_t :=
  { rev_roots := [unallocated_rev_root], family := some (family_of 0 1) }

/-- The elements at which two immediate sub-branches of one branch instance are anchored have
different paths in that instance. -/
def PathsDistinct (rr : svn_branch_revision_root_t) : Prop :=
  ∀ s t bs bt o bo p, s ∈ rr.branch_instances → t ∈ rr.branch_instances → s ≠ t →
    rr.store.get? s = some bs → rr.store.get? t = some bt →
    bs.outer_branch = some o → bt.outer_branch = some o → rr.store.get? o = some bo →
    PathTo bo bs.outer_eid p → ¬ PathTo bo bt.outer_eid p

/-- No immediate sub-branch of the instance at address `o` is anchored at an element that has
the path of the element `e`. -/
def NoPathAt (rr : svn_branch_revision_root_t) (o : Nat) (e : Int) : Prop :=
  ∀ s ∈ rr.branch_instances, ∀ bs bo p, rr.store.get? s = some bs →
    bs.outer_branch = some o → rr.store.get? o = some bo →
    PathTo bo e p → ¬ PathTo bo bs.outer_eid p

/-- The state in which the branching of sub-branches keeps the paths of the anchors distinct:
the list names existing instances, the element maps pass validation, and the anchors of the
immediate sub-branches of one instance have distinct paths. -/
structure PathsReady (family : svn_branch_family_t) (rr : svn_branch_revision_root_t) :
    Prop where
  listed : InstancesListed rr
  valid : ∀ a b, rr.store.get? a = some b → BranchValid family b
  distinct : PathsDistinct rr

/-- The state of the loop over the sub-branches that branches them into the instance `T`,
after the sub-branches `P`: an instance anchored in `T` was there before the loop or is the
copy of a sub-branch of `P`, anchored at its outer EID. -/
structure PathLoop (family : svn_branch_family_t) (T : Nat)
    (st0 : svn_branch_revision_root_t) (P : List Nat) (st : svn_branch_revision_root_t) :
    Prop where
  ready : PathsReady family st
  ext : Extends st0 st
  anchored : ∀ i ∈ st.branch_instances, ∀ b, st.store.get? i = some b →
    b.outer_branch = some T →
    i ∈ st0.branch_instances
      ∨ ∃ s ∈ P, ∃ bs, st0.store.get? s = some bs ∧ b.outer_eid = bs.outer_eid

/-- In `to_b`, which is the branch instance at address `T` with the subtree instantiated, the
elements at which the immediate sub-branches of `T` are anchored keep distinct paths, and the
elements at which the sub-branches `subs` are copied have paths that differ from these and
from one another. -/
def LandingFree (rr : svn_branch_revision_root_t) (T : Nat) (to_b : svn_branch_instance_t)
    (subs : List Nat) : Prop :=
  (∀ s ∈ rr.branch_instances, ∀ t ∈ rr.branch_instances, s ≠ t → ∀ bs bt p,
      rr.store.get? s = some bs → rr.store.get? t = some bt →
      bs.outer_branch = some T → bt.outer_branch = some T →
      PathTo to_b bs.outer_eid p → ¬ PathTo to_b bt.outer_eid p)
  ∧ (∀ s ∈ subs, ∀ t ∈ rr.branch_instances, ∀ bs bt p,
      rr.store.get? s = some bs → rr.store.get? t = some bt → bt.outer_branch = some T →
      PathTo to_b bs.outer_eid p → ¬ PathTo to_b bt.outer_eid p)
  ∧ (∀ s ∈ subs, ∀ t ∈ subs, s ≠ t → ∀ bs bt p,
      rr.store.get? s = some bs → rr.store.get? t = some bt →
      PathTo to_b bs.outer_eid p → ¬ PathTo to_b bt.outer_eid p)

/-- The branch instance `b` with the placeholder `(parent, name)` of a sub-branch root
written at `eid`. -/
def placeholder_written (b : svn_branch_instance_t) (eid parent : Int)
    (name : Option String) : svn_branch_instance_t :=
  { b with e_map := svn_int_hash_set b.e_map eid (some ⟨parent, name, none⟩) }

/-- The top-level branch with the directory `dir` and the roots `copy` and `copy2` of two
sub-branches. -/
def two_copies_top : svn_branch_instance_t :=
  branch_of [(0, el (-1) ""), (1, el 0 "dir"),
    (2, svn_branch_el_rev_content_create 0 (some "copy") none),
    (3, svn_branch_el_rev_content_create 0 (some "copy2") none)]

/-- The sub-branch at `copy2`. -/
def two_copies_second : svn_branch_instance_t :=
  { sibling_defn := { bsid := 2, root_eid := 1 }, outer_branch := some 0, outer_eid := 3,
    e_map := [(1, el (-1) "")] }

/-- A second top-level branch, with the root element only. -/
def two_copies_other : svn_branch_instance_t := branch_of [(0, el (-1) "")]

/-- A revision root in which the top-level branch has the sub-branches at `copy` and at
`copy2`. -/
def two_copies_root : svn_branch_revision_root_t :=
  { rev := 0, root_branch := some 0, branch_instances := [0, 1, 2, 3],
    store := [two_copies_top, branching_inner, two_copies_second, two_copies_other] }

/-- The family after one more branching. -/
def three_copies_family : svn_branch_family_t :=
  { first_bsid := 0, next_bsid := 4, first_eid := 0, next_eid := 5,
    branch_siblings := [{ bsid := 0, root_eid := 0 }, { bsid := 1, root_eid := 1 },
      { bsid := 2, root_eid := 1 }, { bsid := 3, root_eid := 1 }] }

/-- The sub-branch at `copy3`. -/
def three_copies_third : svn_branch_instance_t :=
  { sibling_defn := { bsid := 3, root_eid := 1 }, outer_branch := some 0, outer_eid := 4,
    e_map := [(1, el (-1) "")] }

/-- The revision root `two_copies_root` after the branching of `dir` under the name
`copy3`. -/
def three_copies_root : svn_branch_revision_root_t :=
  { rev := 0, root_branch := some 0, branch_instances := [0, 1, 2, 3, 4],
    store := [branch_of [(0, el (-1) ""), (1, el 0 "dir"),
                (2, svn_branch_el_rev_content_create 0 (some "copy") none),
                (3, svn_branch_el_rev_content_create 0 (some "copy2") none),
                (4, svn_branch_el_rev_content_create 0 (some "copy3") none)],
              branching_inner, two_copies_second, two_copies_other, three_copies_third] }

/-- The copy of the sub-branch at `copy` in the second top-level branch. -/
def two_copies_first_copy : svn_branch_instance_t :=
  { sibling_defn := { bsid := 1, root_eid := 1 }, outer_branch := some 3, outer_eid := 2,
    e_map := [(1, el (-1) "")] }

/-- The copy of the sub-branch at `copy2` in the second top-level branch. -/
def two_copies_second_copy : svn_branch_instance_t :=
  { sibling_defn := { bsid := 2, root_eid := 1 }, outer_branch := some 3, outer_eid := 3,
    e_map := [(1, el (-1) "")] }

/-- The revision root `two_copies_root` after `svn_branch_branch_into` of the top-level branch
into the second top-level branch. -/
def two_copies_into : svn_branch_revision_root_t :=
  { rev := 0, root_branch := some 0, branch_instances := [0, 1, 2, 3, 4, 5],
    store := [two_copies_top, branching_inner, two_copies_second, two_copies_top,
              two_copies_first_copy, two_copies_second_copy] }

/-- The family of the scenario in which an element is moved. -/
def moved_family : svn_branch_family_t :=
  { first_bsid := 0, next_bsid := 3, first_eid := 0, next_eid := 5,
    branch_siblings := [{ bsid := 0, root_eid := 0 }, { bsid := 1, root_eid := 1 },
      { bsid := 2, root_eid := 1 }] }

/-- The top-level branch with the directories `x` and `y` and the roots `x/a` and `y/a` of two
sub-branches. -/
def moved_top : svn_branch_instance_t :=
  branch_of [(0, el (-1) ""), (1, el 0 "x"), (2, el 0 "y"),
    (3, svn_branch_el_rev_content_create 1 (some "a") none),
    (4, svn_branch_el_rev_content_create 2 (some "a") none)]

/-- The sub-branch at `x/a`. -/
def moved_first : svn_branch_instance_t :=
  { sibling_defn := { bsid := 1, root_eid := 1 }, outer_branch := some 0, outer_eid := 3,
    e_map := [(1, el (-1) "")] }

/-- The sub-branch at `y/a`. -/
def moved_second : svn_branch_instance_t :=
  { sibling_defn := { bsid := 2, root_eid := 1 }, outer_branch := some 0, outer_eid := 4,
    e_map := [(1, el (-1) "")] }

/-- A second top-level branch, with the directory `y`. -/
def moved_source : svn_branch_instance_t := branch_of [(0, el (-1) ""), (2, el 0 "y")]

/-- A revision root with the sub-branches at `x/a` and at `y/a`. -/
def moved_root : svn_branch_revision_root_t :=
  { rev := 0, root_branch := some 0, branch_instances := [0, 1, 2, 3],
    store := [moved_top, moved_first, moved_second, moved_source] }

/-- The revision root `moved_root` after `svn_branch_branch_into` of the directory `y` of the
second top-level branch into the first under the name `x`. -/
def moved_root_after : svn_branch_revision_root_t :=
  { rev := 0, root_branch := some 0, branch_instances := [0, 1, 2, 3],
    store := [branch_of [(0, el (-1) ""), (1, el 0 "x"),
                (3, svn_branch_el_rev_content_create 1 (some "a") none),
                (4, svn_branch_el_rev_content_create 2 (some "a") none), (2, el 0 "x")],
              moved_first, moved_second, moved_source] }

/-- The family of the scenario with a name that holds a slash. -/
def slash_family : svn_branch_family_t :=
  { first_bsid := 0, next_bsid := 3, first_eid := 0, next_eid := 5,
    branch_siblings := [{ bsid := 0, root_eid := 0 }, { bsid := 1, root_eid := 1 },
      { bsid := 2, root_eid := 1 }] }

/-- The destination: a top-level branch whose element 2 has the name `x/c`. -/
def slash_target : svn_branch_instance_t := branch_of [(0, el (-1) ""), (2, el 0 "x/c")]

/-- The source: a top-level branch with the directory `a`, the root `a/b` of a sub-branch,
which is a child of the root element, and the root `a/c` of a sub-branch, which is a child of
`a`. -/
def slash_source : svn_branch_instance_t :=
  branch_of [(0, el (-1) ""), (1, el 0 "a"),
    (2, svn_branch_el_rev_content_create 0 (some "a/b") none),
    (4, svn_branch_el_rev_content_create 1 (some "c") none)]

/-- The sub-branch of the source at `a/b`. -/
def slash_first : svn_branch_instance_t :=
  { sibling_defn := { bsid := 1, root_eid := 1 }, outer_branch := some 1, outer_eid := 2,
    e_map := [(1, el (-1) "")] }

/-- The sub-branch of the source at `a/c`. -/
def slash_second : svn_branch_instance_t :=
  { sibling_defn := { bsid := 2, root_eid := 1 }, outer_branch := some 1, outer_eid := 4,
    e_map := [(1, el (-1) "")] }

/-- A revision root with the destination, the source and its two sub-branches. -/
def slash_root : svn_branch_revision_root_t :=
  { rev := 0, root_branch := some 0, branch_instances := [0, 1, 2, 3],
    store := [slash_target, slash_source, slash_first, slash_second] }

/-- The copy of the sub-branch at `a/b` in the destination. -/
def slash_first_copy : svn_branch_instance_t :=
  { sibling_defn := { bsid := 1, root_eid := 1 }, outer_branch := some 0, outer_eid := 2,
    e_map := [(1, el (-1) "")] }

/-- The copy of the sub-branch at `a/c` in the destination. -/
def slash_second_copy : svn_branch_instance_t :=
  { sibling_defn := { bsid := 2, root_eid := 1 }, outer_branch := some 0, outer_eid := 4,
    e_map := [(1, el (-1) "")] }

/-- The revision root `slash_root` after `svn_branch_branch_into` of the directory `a` of the
source into the destination under the name `x`. -/
def slash_root_after : svn_branch_revision_root_t :=
  { rev := 0, root_branch := some 0, branch_instances := [0, 1, 2, 3, 4, 5],
    store := [branch_of [(0, el (-1) ""), (2, el 0 "x/c"), (1, el 0 "x"),
                (4, svn_branch_el_rev_content_create 1 (some "c") none)],
              slash_source, slash_first, slash_second, slash_first_copy,
              slash_second_copy] }

/-! ## Lemmas and theorems -/

theorem get_nil (k : Int) : svn_int_hash_get [] k = none := rfl

theorem get_cons (k k' : Int) (v : svn_branch_el_rev_content_t) (m : EMap) :
    svn_int_hash_get ((k', v) :: m) k = if k = k' then some v else svn_int_hash_get m k := by
  unfold svn_int_hash_get
  rw [List.lookup_cons]
  by_cases h : k = k'
  · subst h; simp
  · have : (k == k') = false := by simpa using h
    simp [this, h]

theorem mem_of_get {m : EMap} {k : Int} {v : svn_branch_el_rev_content_t}
    (h : svn_int_hash_get m k = some v) : (k, v) ∈ m := by
  induction m with
  | nil => simp [get_nil] at h
  | cons kv m ih =>
    obtain ⟨k', v'⟩ := kv
    rw [get_cons] at h
    by_cases hk : k = k'
    · subst hk; simp at h; subst h; exact List.mem_cons_self _ _
    · rw [if_neg hk] at h; exact List.mem_cons_of_mem _ (ih h)

theorem get_eq_none_iff {m : EMap} {k : Int} :
    svn_int_hash_get m k = none ↔ ∀ v, (k, v) ∉ m := by
  induction m with
  | nil => simp [get_nil]
  | cons kv m ih =>
    obtain ⟨k', v'⟩ := kv
    rw [get_cons]
    by_cases hk : k = k'
    · subst hk
      simp only [if_true]
      constructor
      · intro h; cases h
      · intro h; exact absurd (List.mem_cons_self _ _) (h v')
    · rw [if_neg hk, ih]
      constructor
      · intro h v hv
        rcases List.mem_cons.1 hv with h1 | h1
        · exact hk (by cases h1; rfl)
        · exact h v h1
      · intro h v hv; exact h v (List.mem_cons_of_mem _ hv)

theorem nodupKeys_cons {kv : Int × svn_branch_el_rev_content_t} {m : EMap} :
    NodupKeys (kv :: m) ↔ (∀ v, (kv.1, v) ∉ m) ∧ NodupKeys m := by
  unfold NodupKeys
  rw [List.map_cons, List.nodup_cons]
  constructor
  · rintro ⟨h1, h2⟩
    refine ⟨fun v hv => h1 ?_, h2⟩
    exact List.mem_map.2 ⟨(kv.1, v), hv, rfl⟩
  · rintro ⟨h1, h2⟩
    refine ⟨fun hm => ?_, h2⟩
    obtain ⟨⟨a, b⟩, hab, rfl⟩ := List.mem_map.1 hm
    exact h1 b hab

theorem get_of_mem {m : EMap} (nd : NodupKeys m) {k : Int} {v : svn_branch_el_rev_content_t}
    (h : (k, v) ∈ m) : svn_int_hash_get m k = some v := by
  induction m with
  | nil => cases h
  | cons kv m ih =>
    obtain ⟨k', v'⟩ := kv
    rw [get_cons]
    obtain ⟨h1, h2⟩ := nodupKeys_cons.1 nd
    rcases List.mem_cons.1 h with h3 | h3
    · cases h3; simp
    · have hk : k ≠ k' := by
        rintro rfl; exact h1 v h3
      rw [if_neg hk]; exact ih h2 h3

theorem get_eq_some_iff {m : EMap} (nd : NodupKeys m) {k : Int}
    {v : svn_branch_el_rev_content_t} : svn_int_hash_get m k = some v ↔ (k, v) ∈ m :=
  ⟨mem_of_get, get_of_mem nd⟩

theorem nodupKeys_sublist {m m' : EMap} (h : m'.Sublist m) (nd : NodupKeys m) :
    NodupKeys m' :=
  List.Nodup.sublist (List.Sublist.map Prod.fst h) nd

theorem get_sublist {m m' : EMap} (h : m'.Sublist m) (nd : NodupKeys m) {k : Int}
    {v : svn_branch_el_rev_content_t} (hg : svn_int_hash_get m' k = some v) :
    svn_int_hash_get m k = some v :=
  get_of_mem nd (h.subset (mem_of_get hg))

theorem set_none_eq (m : EMap) (k : Int) :
    svn_int_hash_set m k none = m.filter (fun kv => kv.1 != k) := rfl

theorem set_none_sublist (m : EMap) (k : Int) : (svn_int_hash_set m k none).Sublist m := by
  rw [set_none_eq]; exact List.filter_sublist m

theorem mem_set_none {m : EMap} {k : Int} {kv : Int × svn_branch_el_rev_content_t} :
    kv ∈ svn_int_hash_set m k none ↔ kv ∈ m ∧ kv.1 ≠ k := by
  rw [set_none_eq, List.mem_filter]; simp

theorem get_set_none (m : EMap) (k k' : Int) :
    svn_int_hash_get (svn_int_hash_set m k none) k'
      = if k' = k then none else svn_int_hash_get m k' := by
  induction m with
  | nil => simp [set_none_eq, get_nil]
  | cons kv m ih =>
    obtain ⟨a, b⟩ := kv
    rw [set_none_eq] at ih ⊢
    by_cases ha : a = k
    · subst ha
      have : List.filter (fun kv : Int × svn_branch_el_rev_content_t => kv.1 != a) ((a, b) :: m)
          = List.filter (fun kv => kv.1 != a) m := by
        simp [List.filter_cons]
      rw [this, ih, get_cons]
      by_cases hk : k' = a <;> simp [hk]
    · have : List.filter (fun kv : Int × svn_branch_el_rev_content_t => kv.1 != k) ((a, b) :: m)
          = (a, b) :: List.filter (fun kv => kv.1 != k) m := by
        simp [List.filter_cons, ha]
      rw [this, get_cons, ih, get_cons]
      by_cases hk : k' = k
      · have : k' ≠ a := by rintro rfl; exact ha hk
        simp [hk, this]
        intro h; exact absurd (h ▸ rfl) ha
      · simp [hk]

theorem get_append_single (m : EMap) (k k' : Int) (v : svn_branch_el_rev_content_t) :
    svn_int_hash_get (m ++ [(k, v)]) k'
      = match svn_int_hash_get m k' with
        | some w => some w
        | none => if k' = k then some v else none := by
  induction m with
  | nil => simp [get_cons, get_nil]
  | cons kv m ih =>
    obtain ⟨a, b⟩ := kv
    rw [List.cons_append, get_cons, get_cons, ih]
    by_cases hk : k' = a <;> simp [hk]

theorem get_set_some (m : EMap) (k k' : Int) (v : svn_branch_el_rev_content_t) :
    svn_int_hash_get (svn_int_hash_set m k (some v)) k'
      = if k' = k then some v else svn_int_hash_get m k' := by
  have h1 : svn_int_hash_set m k (some v) = svn_int_hash_set m k none ++ [(k, v)] := rfl
  rw [h1, get_append_single, get_set_none]
  by_cases hk : k' = k
  · simp [hk]
  · simp only [if_neg hk]
    cases svn_int_hash_get m k' <;> simp

theorem nodupKeys_set (m : EMap) (nd : NodupKeys m) (k : Int)
    (v : Option svn_branch_el_rev_content_t) : NodupKeys (svn_int_hash_set m k v) := by
  cases v with
  | none => exact nodupKeys_sublist (set_none_sublist m k) nd
  | some v =>
    have h1 : svn_int_hash_set m k (some v) = svn_int_hash_set m k none ++ [(k, v)] := rfl
    rw [h1]
    unfold NodupKeys
    rw [List.map_append, List.nodup_append]
    refine ⟨nodupKeys_sublist (set_none_sublist m k) nd, by simp, ?_⟩
    intro a ha hb
    simp at hb
    subst hb
    obtain ⟨⟨x, y⟩, hxy, hx⟩ := List.mem_map.1 ha
    have := (mem_set_none.1 hxy).2
    exact this hx

theorem scan_sublist (r : Int) : ∀ (todo m : EMap) (ch : Bool) (m' : EMap) (ch' : Bool),
    map_purge_orphans_scan r todo m ch = Step.done (m', ch') → m'.Sublist m := by
  intro todo
  induction todo with
  | nil =>
    intro m ch m' ch' h
    simp [map_purge_orphans_scan] at h
    rw [← h.1]
  | cons kv rest ih =>
    intro m ch m' ch' h
    obtain ⟨e, n⟩ := kv
    simp only [map_purge_orphans_scan] at h
    split at h
    · split at h
      · exact (ih _ _ _ _ h).trans (set_none_sublist m e)
      · split at h
        · exact ih _ _ _ _ h
        · cases h
    · exact ih _ _ _ _ h

theorem scan_malfunction_sublist (r : Int) :
    ∀ (todo m : EMap) (ch : Bool) (m' : EMap) (ch' : Bool),
    map_purge_orphans_scan r todo m ch = Step.malfunction (m', ch') → m'.Sublist m := by
  intro todo
  induction todo with
  | nil =>
    intro m ch m' ch' h
    simp [map_purge_orphans_scan] at h
  | cons kv rest ih =>
    intro m ch m' ch' h
    obtain ⟨e, n⟩ := kv
    simp only [map_purge_orphans_scan] at h
    split at h
    · split at h
      · exact (ih _ _ _ _ h).trans (set_none_sublist m e)
      · split at h
        · exact ih _ _ _ _ h
        · simp at h; rw [← h.1]
    · exact ih _ _ _ _ h

theorem scan_ne_out_of_fuel (r : Int) : ∀ (todo m : EMap) (ch : Bool),
    map_purge_orphans_scan r todo m ch ≠ Step.out_of_fuel := by
  intro todo
  induction todo with
  | nil => intro m ch h; simp [map_purge_orphans_scan] at h
  | cons kv rest ih =>
    intro m ch h
    obtain ⟨e, n⟩ := kv
    simp only [map_purge_orphans_scan] at h
    split at h
    · split at h
      · exact ih _ _ h
      · split at h
        · exact ih _ _ h
        · cases h
    · exact ih _ _ h

theorem length_set_none_lt {m : EMap} {k : Int} {v : svn_branch_el_rev_content_t}
    (h : (k, v) ∈ m) : (svn_int_hash_set m k none).length < m.length := by
  rw [set_none_eq]
  induction m with
  | nil => cases h
  | cons kv m ih =>
    rcases List.mem_cons.1 h with h1 | h1
    · subst h1
      have : List.filter (fun kv : Int × svn_branch_el_rev_content_t => kv.1 != k) ((k, v) :: m)
          = List.filter (fun kv => kv.1 != k) m := by simp [List.filter_cons]
      rw [this]
      exact Nat.lt_succ_of_le (List.length_filter_le _ _)
    · have := ih h1
      rw [List.filter_cons]
      split
      · simp only [List.length_cons]; omega
      · simp only [List.length_cons]; omega

theorem scan_length (r : Int) : ∀ (todo m : EMap) (ch : Bool) (m' : EMap) (ch' : Bool),
    map_purge_orphans_scan r todo m ch = Step.done (m', ch') →
    (ch = false → ∀ kv ∈ todo, kv ∈ m) →
    m'.length ≤ m.length ∧ (ch = false → ch' = true → m'.length < m.length) := by
  intro todo
  induction todo with
  | nil =>
    intro m ch m' ch' h _
    simp [map_purge_orphans_scan] at h
    obtain ⟨h1, h2⟩ := h
    subst h1; subst h2
    exact ⟨le_refl _, fun a b => by rw [a] at b; cases b⟩
  | cons kv rest ih =>
    intro m ch m' ch' h hsub
    obtain ⟨e, n⟩ := kv
    simp only [map_purge_orphans_scan] at h
    have hrest : ch = false → ∀ kv ∈ rest, kv ∈ m :=
      fun hc kv hkv => hsub hc kv (List.mem_cons_of_mem _ hkv)
    split at h
    · split at h
      · have h1 := (ih _ _ _ _ h (fun hc => by cases hc)).1
        have h2 : (svn_int_hash_set m e none).length ≤ m.length :=
          (set_none_sublist m e).length_le
        refine ⟨le_trans h1 h2, fun hc _ => ?_⟩
        have hmem : (e, n) ∈ m := hsub hc _ (List.mem_cons_self _ _)
        exact lt_of_le_of_lt h1 (length_set_none_lt hmem)
      · split at h
        · exact ih _ _ _ _ h hrest
        · cases h
    · exact ih _ _ _ _ h hrest

/-- Once the flag `changed` is set, the scan never clears it. -/
theorem scan_flag_stays (r : Int) : ∀ (todo m : EMap) (m' : EMap),
    map_purge_orphans_scan r todo m true ≠ Step.done (m', false) := by
  intro todo
  induction todo with
  | nil => intro m m' h; simp [map_purge_orphans_scan] at h
  | cons kv rest ih =>
    intro m m' h
    obtain ⟨e, n⟩ := kv
    simp only [map_purge_orphans_scan] at h
    split at h
    · split at h
      · exact ih _ _ h
      · split at h
        · exact ih _ _ h
        · cases h
    · exact ih _ _ h

/-- A scan that starts with `changed = FALSE` and ends with it still FALSE
has not touched the table. -/
theorem scan_unchanged (r : Int) : ∀ (todo m : EMap) (m' : EMap),
    map_purge_orphans_scan r todo m false = Step.done (m', false) → m' = m := by
  intro todo
  induction todo with
  | nil => intro m m' h; simp [map_purge_orphans_scan] at h; exact h.symm
  | cons kv rest ih =>
    intro m m' h
    obtain ⟨e, n⟩ := kv
    simp only [map_purge_orphans_scan] at h
    split at h
    · split at h
      · exact absurd h (scan_flag_stays r _ _ _)
      · split at h
        · exact ih _ _ h
        · cases h
    · exact ih _ _ h

/-- What a pass that changes nothing has checked: every non-root entry it visited
has its parent in the table, with a payload. -/
theorem scan_fixpoint (r : Int) : ∀ (todo m : EMap),
    map_purge_orphans_scan r todo m false = Step.done (m, false) →
    ∀ e n, (e, n) ∈ todo → e ≠ r →
      ∃ p, svn_int_hash_get m n.parent_eid = some p ∧ p.content.isSome = true := by
  intro todo
  induction todo with
  | nil => intro m _ e n h; cases h
  | cons kv rest ih =>
    intro m h e n hmem hne
    obtain ⟨e0, n0⟩ := kv
    simp only [map_purge_orphans_scan] at h
    split at h
    · split at h
      · exact absurd h (scan_flag_stays r _ _ _)
      · rename_i p hp
        split at h
        · rename_i hc
          rcases List.mem_cons.1 hmem with h1 | h1
          · cases h1; exact ⟨p, hp, hc⟩
          · exact ih m h e n h1 hne
        · cases h
    · rename_i hroot
      rcases List.mem_cons.1 hmem with h1 | h1
      · cases h1; simp at hroot; exact absurd hroot hne
      · exact ih m h e n h1 hne

theorem purgeInv_refl (m0 : EMap) (r : Int) : PurgeInv m0 r m0 :=
  ⟨List.Sublist.refl _, fun _ _ h1 h2 => absurd h1 h2⟩

theorem purgeInv_remove {m0 : EMap} (nd : NodupKeys m0) {r : Int} {m : EMap}
    (inv : PurgeInv m0 r m) {e : Int} {n : svn_branch_el_rev_content_t}
    (hmem : (e, n) ∈ m0) (hne : e ≠ r)
    (hnone : svn_int_hash_get m n.parent_eid = none) :
    PurgeInv m0 r (svn_int_hash_set m e none) := by
  have horph : Orphan m0 r e := by
    cases hp : svn_int_hash_get m0 n.parent_eid with
    | none => exact Orphan.parent_missing e n hne (get_of_mem nd hmem) hp
    | some p =>
      have h1 : (n.parent_eid, p) ∈ m0 := mem_of_get hp
      have h2 : (n.parent_eid, p) ∉ m := (get_eq_none_iff.1 hnone) p
      exact Orphan.parent_orphan e n hne (get_of_mem nd hmem) (inv.2 _ _ h1 h2)
  refine ⟨(set_none_sublist m e).trans inv.1, ?_⟩
  intro e' n' h1 h2
  by_cases h3 : (e', n') ∈ m
  · have h4 : e' = e := by
      by_contra hc
      exact h2 (mem_set_none.2 ⟨h3, hc⟩)
    subst h4; exact horph
  · exact inv.2 _ _ h1 h3

theorem scan_inv {m0 : EMap} (nd : NodupKeys m0) (r : Int) :
    ∀ (todo m : EMap) (ch : Bool) (res : Step (EMap × Bool)),
    map_purge_orphans_scan r todo m ch = res →
    (∀ kv ∈ todo, kv ∈ m0) → PurgeInv m0 r m →
    match res with
    | Step.done (m', _) => PurgeInv m0 r m'
    | Step.malfunction (m', _) => PurgeInv m0 r m'
    | Step.out_of_fuel => True := by
  intro todo
  induction todo with
  | nil =>
    intro m ch res h _ inv
    simp only [map_purge_orphans_scan] at h
    subst h; exact inv
  | cons kv rest ih =>
    intro m ch res h hsub inv
    obtain ⟨e, n⟩ := kv
    have hrest : ∀ kv ∈ rest, kv ∈ m0 := fun kv hkv => hsub kv (List.mem_cons_of_mem _ hkv)
    simp only [map_purge_orphans_scan] at h
    split at h
    · rename_i hroot
      have hne : e ≠ r := by simpa using hroot
      split at h
      · rename_i hnone
        exact ih _ _ _ h hrest
          (purgeInv_remove nd inv (hsub _ (List.mem_cons_self _ _)) hne hnone)
      · split at h
        · exact ih _ _ _ h hrest inv
        · subst h; exact inv
    · exact ih _ _ _ h hrest inv

theorem loop_spec {m0 : EMap} (nd : NodupKeys m0) (r : Int) :
    ∀ (fuel : Nat) (m : EMap), PurgeInv m0 r m →
    match map_purge_orphans_loop r fuel m with
    | Step.done m' =>
        PurgeInv m0 r m' ∧ NoOrphanEntry r m'
          ∧ map_purge_orphans_scan r m' m' false = Step.done (m', false)
    | Step.malfunction m' => PurgeInv m0 r m'
    | Step.out_of_fuel => True := by
  intro fuel
  induction fuel with
  | zero => intro m _; simp [map_purge_orphans_loop]
  | succ fuel ih =>
    intro m inv
    simp only [map_purge_orphans_loop]
    have hs := scan_inv nd r m m false _ rfl (fun kv hkv => inv.1.subset hkv) inv
    cases hres : map_purge_orphans_scan r m m false with
    | done p =>
      obtain ⟨m', ch'⟩ := p
      rw [hres] at hs
      cases ch' with
      | true => exact ih m' hs
      | false =>
        have hm : m' = m := scan_unchanged r m m m' hres
        subst hm
        exact ⟨hs, fun e n h1 h2 => scan_fixpoint r m' m' hres e n h1 h2, hres⟩
    | malfunction p =>
      obtain ⟨m', ch'⟩ := p
      rw [hres] at hs
      exact hs
    | out_of_fuel => trivial

theorem loop_terminates (r : Int) : ∀ (fuel : Nat) (m : EMap), m.length < fuel →
    map_purge_orphans_loop r fuel m ≠ Step.out_of_fuel := by
  intro fuel
  induction fuel with
  | zero => intro m h; omega
  | succ fuel ih =>
    intro m hlen
    simp only [map_purge_orphans_loop]
    cases hres : map_purge_orphans_scan r m m false with
    | done p =>
      obtain ⟨m', ch'⟩ := p
      cases ch' with
      | true =>
        have := (scan_length r m m false m' true hres (fun _ kv h => h)).2 rfl rfl
        exact ih m' (by omega)
      | false => simp
    | malfunction p => obtain ⟨m', ch'⟩ := p; simp
    | out_of_fuel => exact absurd hres (scan_ne_out_of_fuel r m m false)

theorem purge_terminates (m : EMap) (r : Int) : map_purge_orphans m r ≠ Step.out_of_fuel :=
  loop_terminates r _ m (Nat.lt_succ_self _)

/-- No orphan of the original table survives in a table without orphan entries. -/
theorem orphan_not_mem {m0 : EMap} (nd : NodupKeys m0) {r : Int} {m : EMap}
    (hsub : m.Sublist m0) (hfix : NoOrphanEntry r m) :
    ∀ e, Orphan m0 r e → ∀ n, (e, n) ∉ m := by
  intro e ho
  induction ho with
  | parent_missing e n hne hg hp =>
    intro n' hmem
    have h1 : svn_int_hash_get m0 e = some n' := get_of_mem nd (hsub.subset hmem)
    rw [hg] at h1; cases h1
    obtain ⟨p, hp1, _⟩ := hfix e n hmem hne
    have := get_sublist hsub nd hp1
    rw [hp] at this; cases this
  | parent_orphan e n hne hg _ ih =>
    intro n' hmem
    have h1 : svn_int_hash_get m0 e = some n' := get_of_mem nd (hsub.subset hmem)
    rw [hg] at h1; cases h1
    obtain ⟨p, hp1, _⟩ := hfix e n hmem hne
    exact ih p (mem_of_get hp1)

/-- The result of a purge that returns. -/
theorem purge_done_spec {m0 : EMap} (nd : NodupKeys m0) (r : Int) (m' : EMap)
    (h : map_purge_orphans m0 r = Step.done m') :
    m'.Sublist m0 ∧ NoOrphanEntry r m'
      ∧ (∀ e n, (e, n) ∈ m' ↔ ((e, n) ∈ m0 ∧ ¬ Orphan m0 r e))
      ∧ map_purge_orphans_scan r m' m' false = Step.done (m', false) := by
  have hl := loop_spec nd r (m0.length + 1) m0 (purgeInv_refl m0 r)
  unfold map_purge_orphans at h
  rw [h] at hl
  obtain ⟨inv, hfix, hscan⟩ := hl
  refine ⟨inv.1, hfix, ?_, hscan⟩
  intro e n
  constructor
  · intro hmem
    exact ⟨inv.1.subset hmem, fun ho => orphan_not_mem nd inv.1 hfix e ho n hmem⟩
  · rintro ⟨h1, h2⟩
    by_contra hc
    exact h2 (inv.2 e n h1 hc)

theorem reachesRoot_has_entry {m : EMap} {r e : Int} (h : ReachesRoot m r e) :
    ∃ n, svn_int_hash_get m e = some n := by
  cases h with
  | root n hn => exact ⟨n, hn⟩
  | step e n _ hn _ => exact ⟨n, hn⟩

theorem reachesRoot_not_orphan {m : EMap} {r e : Int} (h : ReachesRoot m r e) :
    ¬ Orphan m r e := by
  induction h with
  | root n _ =>
    intro ho
    cases ho with
    | parent_missing _ _ hne _ _ => exact hne rfl
    | parent_orphan _ _ hne _ _ => exact hne rfl
  | step e n _ hg hr ih =>
    intro ho
    cases ho with
    | parent_missing _ n' _ hg' hp =>
      rw [hg] at hg'; cases hg'
      obtain ⟨p, hp'⟩ := reachesRoot_has_entry hr
      rw [hp] at hp'; cases hp'
    | parent_orphan _ n' _ hg' ho' =>
      rw [hg] at hg'; cases hg'
      exact ih ho'

theorem reachesRoot_of_not_orphan {m : EMap} {r e : Int} (ht : ChainTerminates m r e) :
    ∀ n, svn_int_hash_get m e = some n → ¬ Orphan m r e → ReachesRoot m r e := by
  induction ht with
  | at_root => intro n hn _; exact ReachesRoot.root n hn
  | no_entry e he => intro n hn; rw [he] at hn; cases hn
  | step e n0 hne hg _ ih =>
    intro n hn hno
    rw [hg] at hn; cases hn
    cases hp : svn_int_hash_get m n0.parent_eid with
    | none => exact absurd (Orphan.parent_missing e n0 hne hg hp) hno
    | some p =>
      exact ReachesRoot.step e n0 hne hg
        (ih p hp (fun ho => hno (Orphan.parent_orphan e n0 hne hg ho)))

theorem scan_no_malfunction (r : Int) : ∀ (todo m : EMap) (ch : Bool),
    (∀ kv ∈ m, kv.2.content.isSome = true) →
    ∀ s, map_purge_orphans_scan r todo m ch ≠ Step.malfunction s := by
  intro todo
  induction todo with
  | nil => intro m ch _ s h; simp [map_purge_orphans_scan] at h
  | cons kv rest ih =>
    intro m ch hp s h
    obtain ⟨e, n⟩ := kv
    simp only [map_purge_orphans_scan] at h
    split at h
    · split at h
      · exact ih _ _ (fun kv hkv => hp kv ((set_none_sublist m e).subset hkv)) s h
      · rename_i p hpar
        split at h
        · exact ih _ _ hp s h
        · rename_i hc
          exact hc (hp (n.parent_eid, p) (mem_of_get hpar))
    · exact ih _ _ hp s h

theorem loop_no_malfunction (r : Int) : ∀ (fuel : Nat) (m : EMap),
    (∀ kv ∈ m, kv.2.content.isSome = true) →
    ∀ s, map_purge_orphans_loop r fuel m ≠ Step.malfunction s := by
  intro fuel
  induction fuel with
  | zero => intro m _ s h; simp [map_purge_orphans_loop] at h
  | succ fuel ih =>
    intro m hp s h
    simp only [map_purge_orphans_loop] at h
    cases hres : map_purge_orphans_scan r m m false with
    | done p =>
      obtain ⟨m', ch'⟩ := p
      rw [hres] at h
      cases ch' with
      | true =>
        exact ih m' (fun kv hkv => hp kv ((scan_sublist r m m false m' true hres).subset hkv)) s h
      | false => simp at h
    | malfunction p => exact scan_no_malfunction r m m false hp p hres
    | out_of_fuel => exact absurd hres (scan_ne_out_of_fuel r m m false)

theorem loop_fixed (r : Int) : ∀ (fuel : Nat) (m m' : EMap),
    map_purge_orphans_loop r fuel m = Step.done m' →
    map_purge_orphans_scan r m' m' false = Step.done (m', false) := by
  intro fuel
  induction fuel with
  | zero => intro m m' h; simp [map_purge_orphans_loop] at h
  | succ fuel ih =>
    intro m m' h
    simp only [map_purge_orphans_loop] at h
    cases hres : map_purge_orphans_scan r m m false with
    | done p =>
      obtain ⟨m2, ch'⟩ := p
      rw [hres] at h
      cases ch' with
      | true => exact ih m2 m' h
      | false =>
        simp at h; subst h
        have := scan_unchanged r m m m2 hres
        subst this; exact hres
    | malfunction p => rw [hres] at h; simp at h
    | out_of_fuel => rw [hres] at h; simp at h

/-- C2 (amended): for every element map `m` with distinct keys and every root EID `r`,
`map_purge_orphans` terminates, and when it returns the table holds exactly the entries
of `m` that are not orphans, in their original order.  An orphan is a non-root element
from which following `parent_eid` through non-root entries arrives at an EID that has no
entry.  Every element whose parent chain ends at the entry of `r` is kept; and where the
chain of an element terminates at all, being kept is the same as its chain ending at the
entry of `r`. -/
theorem purge_orphans_keeps_non_orphans (m : EMap) (r : Int) (nd : NodupKeys m) :
    map_purge_orphans m r ≠ Step.out_of_fuel
    ∧ (∀ m', map_purge_orphans m r = Step.done m' →
        m'.Sublist m ∧ ∀ e n, (e, n) ∈ m' ↔ ((e, n) ∈ m ∧ ¬ Orphan m r e))
    ∧ (∀ e, ReachesRoot m r e → ¬ Orphan m r e)
    ∧ (∀ e n, (e, n) ∈ m → ChainTerminates m r e → ¬ Orphan m r e → ReachesRoot m r e) := by
  refine ⟨purge_terminates m r, ?_, fun e h => reachesRoot_not_orphan h, ?_⟩
  · intro m' h
    have := purge_done_spec nd r m' h
    exact ⟨this.1, this.2.2.1⟩
  · intro e n hmem ht hno
    exact reachesRoot_of_not_orphan ht n (get_of_mem nd hmem) hno

theorem cycle_map_nodup : NodupKeys cycle_map := by
  unfold NodupKeys cycle_map; decide

/-- C2, witness: the theorem applied to the map with a parent cycle. -/
theorem purge_orphans_keeps_non_orphans_witness :
    NodupKeys cycle_map ∧ map_purge_orphans cycle_map 0 ≠ Step.out_of_fuel :=
  ⟨cycle_map_nodup, (purge_orphans_keeps_non_orphans cycle_map 0 cycle_map_nodup).1⟩

theorem not_reachesRoot_cycle : ∀ e, ReachesRoot cycle_map 0 e → e ≠ 1 ∧ e ≠ 2 := by
  intro e h
  induction h with
  | root n _ => decide
  | step e n hne hg _ ih =>
    constructor
    · rintro rfl
      have : n = el 2 "a" := by
        have h2 : svn_int_hash_get cycle_map 1 = some (el 2 "a") := by decide
        rw [h2] at hg; cases hg; rfl
      subst this
      exact ih.2 rfl
    · rintro rfl
      have : n = el 1 "b" := by
        have h2 : svn_int_hash_get cycle_map 2 = some (el 1 "b") := by decide
        rw [h2] at hg; cases hg; rfl
      subst this
      exact ih.1 rfl

/-- C2, counterexample: in the map `{0: root, 1: (parent 2, "a"), 2: (parent 1, "b")}` with
root EID 0 the purge returns the map unchanged, so it keeps element 1, whose parent chain
never ends at the root. -/
theorem purge_orphans_keeps_cycle :
    map_purge_orphans cycle_map 0 = Step.done cycle_map
    ∧ (1, el 2 "a") ∈ cycle_map ∧ 1 ≠ (0 : Int) ∧ ¬ ReachesRoot cycle_map 0 1 :=
  ⟨by decide, by decide, by decide, fun h => (not_reachesRoot_cycle 1 h).1 rfl⟩

/-- C4: for every element map with distinct keys in which every element has a payload, and
every root EID `r`, `map_purge_orphans` returns; the result has no entry for a non-root
element whose `parent_eid` is not a key of the map, still has the same entry for every EID
whose parent chain ends at the entry of `r` (the entry of `r` included), and every entry it
has is an unchanged entry of the input, in the original order.  The map
`{0: root, 1: (parent 0, "a"), 2: (parent 9, "b")}` with `r = 0` becomes exactly `{0, 1}`. -/
theorem purge_orphans_frame (m : EMap) (r : Int) (nd : NodupKeys m)
    (hp : ∀ kv ∈ m, kv.2.content.isSome = true) :
    (∃ m', map_purge_orphans m r = Step.done m'
      ∧ (∀ e n, (e, n) ∈ m → e ≠ r → svn_int_hash_get m n.parent_eid = none →
          svn_int_hash_get m' e = none)
      ∧ (∀ e, ReachesRoot m r e → svn_int_hash_get m' e = svn_int_hash_get m e)
      ∧ (∀ e n, svn_int_hash_get m' e = some n → svn_int_hash_get m e = some n)
      ∧ m'.Sublist m)
    ∧ map_purge_orphans orphan_example_map 0 = Step.done [(0, el (-1) ""), (1, el 0 "a")] := by
  refine ⟨?_, by decide⟩
  cases hres : map_purge_orphans m r with
  | out_of_fuel => exact absurd hres (purge_terminates m r)
  | malfunction s => exact absurd hres (loop_no_malfunction r _ m hp s)
  | done m' =>
    obtain ⟨hsub, _, hiff, _⟩ := purge_done_spec nd r m' hres
    refine ⟨m', rfl, ?_, ?_, fun e n h => get_sublist hsub nd h, hsub⟩
    · intro e n hmem hne hnone
      rw [get_eq_none_iff]
      intro v hv
      have h1 := (hiff e v).1 hv
      have h2 : svn_int_hash_get m e = some v := get_of_mem nd h1.1
      have h3 : svn_int_hash_get m e = some n := get_of_mem nd hmem
      have hnone2 : svn_int_hash_get m v.parent_eid = none := by
        rw [h2] at h3; cases h3; exact hnone
      exact h1.2 (Orphan.parent_missing e v hne h2 hnone2)
    · intro e hr
      obtain ⟨n, hn⟩ := reachesRoot_has_entry hr
      rw [hn]
      exact get_of_mem (nodupKeys_sublist hsub nd)
        ((hiff e n).2 ⟨mem_of_get hn, reachesRoot_not_orphan hr⟩)

theorem orphan_example_nodup : NodupKeys orphan_example_map := by
  unfold NodupKeys orphan_example_map; decide

/-- C4, witness: the theorem applied to the example map of the spec. -/
theorem purge_orphans_frame_witness :
    NodupKeys orphan_example_map
    ∧ (∀ kv ∈ orphan_example_map, kv.2.content.isSome = true)
    ∧ ∃ m', map_purge_orphans orphan_example_map 0 = Step.done m' :=
  ⟨orphan_example_nodup, by decide,
    (purge_orphans_frame orphan_example_map 0 orphan_example_nodup (by decide)).1.imp
      (fun _ h => h.1)⟩

/-- C5: `map_purge_orphans` is idempotent: if purging `m` with root EID `r` returns `m'`, then
purging `m'` again with the same `r` returns `m'`. -/
theorem purge_orphans_idempotent (m : EMap) (r : Int) (m' : EMap)
    (h : map_purge_orphans m r = Step.done m') :
    map_purge_orphans m' r = Step.done m' := by
  have hfix := loop_fixed r _ m m' h
  unfold map_purge_orphans
  simp only [map_purge_orphans_loop, hfix]

/-- C5, witness: the theorem applied to the example map of the spec. -/
theorem purge_orphans_idempotent_witness :
    map_purge_orphans orphan_example_map 0 = Step.done [(0, el (-1) ""), (1, el 0 "a")]
    ∧ map_purge_orphans [(0, el (-1) ""), (1, el 0 "a")] 0
        = Step.done [(0, el (-1) ""), (1, el 0 "a")] :=
  ⟨by decide, purge_orphans_idempotent orphan_example_map 0 _ (by decide)⟩

theorem string_eq_empty_of_length {a : String} (h : a.length = 0) : a = "" := by
  apply String.ext
  have : a.data.length = 0 := h
  exact List.length_eq_zero.1 this

theorem append_ne_empty_left {a b : String} (h : a ≠ "") : a ++ b ≠ "" := by
  intro hc
  have : (a ++ b).length = 0 := by rw [hc]; rfl
  rw [String.length_append] at this
  exact h (string_eq_empty_of_length (by omega))

theorem join_empty_left (c : String) : svn_relpath_join "" c = c := by
  simp [svn_relpath_join]

theorem join_empty_right (c : String) : svn_relpath_join c "" = c := by
  unfold svn_relpath_join
  by_cases h : c = ""
  · simp [h]
  · simp [h]

theorem join_of_ne {a b : String} (ha : a ≠ "") (hb : b ≠ "") :
    svn_relpath_join a b = a ++ "/" ++ b := by
  unfold svn_relpath_join
  rw [if_neg ha, if_neg hb]

theorem join_ne_empty {a b : String} (h : a ≠ "" ∨ b ≠ "") : svn_relpath_join a b ≠ "" := by
  by_cases ha : a = ""
  · rcases h with h | h
    · exact absurd ha h
    · subst ha; rw [join_empty_left]; exact h
  · by_cases hb : b = ""
    · subst hb; rw [join_empty_right]; exact ha
    · rw [join_of_ne ha hb, String.append_assoc]
      exact append_ne_empty_left ha

theorem join_assoc (a b c : String) :
    svn_relpath_join (svn_relpath_join a b) c = svn_relpath_join a (svn_relpath_join b c) := by
  by_cases ha : a = ""
  · subst ha; simp [join_empty_left]
  by_cases hb : b = ""
  · subst hb; simp [join_empty_left, join_empty_right]
  by_cases hc : c = ""
  · subst hc; simp [join_empty_right]
  rw [join_of_ne (join_ne_empty (Or.inl ha)) hc, join_of_ne ha (join_ne_empty (Or.inl hb)),
    join_of_ne ha hb, join_of_ne hb hc]
  simp [String.append_assoc]

theorem is_root_iff (b : svn_branch_instance_t) (e : Int) :
    IS_BRANCH_ROOT_EID b e = true ↔ e = b.sibling_defn.root_eid := by
  simp [IS_BRANCH_ROOT_EID]

/-- What validation gives for a non-root entry. -/
theorem validate_non_root {f : svn_branch_family_t} {b : svn_branch_instance_t} {e : Int}
    {n : svn_branch_el_rev_content_t} (h : branch_map_node_validate f b e (some n) = true)
    (hne : e ≠ b.sibling_defn.root_eid) :
    n.parent_eid ≠ e ∧ FAMILY_HAS_ELEMENT f n.parent_eid = true
      ∧ ∃ name, n.name = some name ∧ name ≠ "" := by
  have hr : IS_BRANCH_ROOT_EID b e = false := by
    simpa [IS_BRANCH_ROOT_EID] using hne
  simp only [branch_map_node_validate, hr, Bool.and_eq_true] at h
  obtain ⟨⟨h1, h2⟩, _⟩ := h
  cases hn : n.name with
  | none => rw [hn] at h2; simp at h2
  | some name =>
    rw [hn] at h2
    simp at h1 h2
    exact ⟨h1.1, h1.2, name, rfl, h2⟩

/-- What validation gives for the root entry. -/
theorem validate_root {f : svn_branch_family_t} {b : svn_branch_instance_t}
    {n : svn_branch_el_rev_content_t}
    (h : branch_map_node_validate f b b.sibling_defn.root_eid (some n) = true) :
    n.parent_eid = -1 ∧ n.name = some "" := by
  have hr : IS_BRANCH_ROOT_EID b b.sibling_defn.root_eid = true := by
    simp [IS_BRANCH_ROOT_EID]
  simp only [branch_map_node_validate, hr, Bool.and_eq_true] at h
  obtain ⟨⟨h1, h2⟩, _⟩ := h
  cases hn : n.name with
  | none => rw [hn] at h2; simp at h2
  | some name =>
    rw [hn] at h2
    simp at h1 h2
    exact ⟨h1, by rw [h2]⟩

theorem map_get_valid {f : svn_branch_family_t} {b : svn_branch_instance_t}
    (hv : BranchValid f b) {e : Int} (he : FAMILY_HAS_ELEMENT f e = true) :
    svn_branch_map_get f b e = Outcome.ok (svn_int_hash_get b.e_map e) := by
  unfold svn_branch_map_get
  rw [if_pos he]
  cases hg : svn_int_hash_get b.e_map e with
  | none => rfl
  | some n =>
    have := (hv.2 e n (mem_of_get hg)).2
    simp [this]

/-- One turn of the loop on a valid branch. -/
theorem path_loop_succ {f : svn_branch_family_t} {b : svn_branch_instance_t}
    (hv : BranchValid f b) {e : Int} (he : FAMILY_HAS_ELEMENT f e = true)
    (fuel : Nat) (acc : String) :
    svn_branch_get_path_by_eid_loop f b (fuel + 1) e acc
      = if e = b.sibling_defn.root_eid then Outcome.ok (some acc)
        else match svn_int_hash_get b.e_map e with
          | none => Outcome.ok none
          | some n =>
            svn_branch_get_path_by_eid_loop f b fuel n.parent_eid
              (svn_relpath_join (n.name.getD "") acc) := by
  simp only [svn_branch_get_path_by_eid_loop]
  by_cases hr : e = b.sibling_defn.root_eid
  · have : IS_BRANCH_ROOT_EID b e = true := (is_root_iff b e).2 hr
    rw [if_pos this, if_pos hr]
  · have : IS_BRANCH_ROOT_EID b e = false := by simpa [IS_BRANCH_ROOT_EID] using hr
    simp only [this, if_neg hr, Bool.false_eq_true, if_false]
    rw [map_get_valid hv he]
    cases hg : svn_int_hash_get b.e_map e with
    | none => rfl
    | some n =>
      obtain ⟨_, _, name, hn, _⟩ := validate_non_root (hv.2 e n (mem_of_get hg)).2 hr
      simp [hn]

theorem path_loop_of_pathTo {f : svn_branch_family_t} {b : svn_branch_instance_t}
    (hv : BranchValid f b) {e : Int} {P : String} (h : PathTo b e P) :
    FAMILY_HAS_ELEMENT f e = true →
    ∃ k, ∀ fuel, k ≤ fuel → ∀ acc,
      svn_branch_get_path_by_eid_loop f b fuel e acc
        = Outcome.ok (some (svn_relpath_join P acc)) := by
  induction h with
  | root =>
    intro he
    refine ⟨1, fun fuel hk acc => ?_⟩
    obtain ⟨k, rfl⟩ : ∃ k, fuel = k + 1 := ⟨fuel - 1, by omega⟩
    rw [path_loop_succ hv he, if_pos rfl, join_empty_left]
  | step e n name P hne hg hn _ ih =>
    intro he
    obtain ⟨_, hpf, _⟩ := validate_non_root (hv.2 e n (mem_of_get hg)).2 hne
    obtain ⟨k, hk⟩ := ih hpf
    refine ⟨k + 1, fun fuel hf acc => ?_⟩
    obtain ⟨j, rfl⟩ : ∃ j, fuel = j + 1 := ⟨fuel - 1, by omega⟩
    rw [path_loop_succ hv he, if_neg hne, hg]
    simp only [hn, Option.getD_some]
    rw [hk j (by omega), join_assoc]

theorem path_loop_of_chainBroken {f : svn_branch_family_t} {b : svn_branch_instance_t}
    (hv : BranchValid f b) {e : Int} (h : ChainBroken b e) :
    FAMILY_HAS_ELEMENT f e = true →
    ∃ k, ∀ fuel, k ≤ fuel → ∀ acc,
      svn_branch_get_path_by_eid_loop f b fuel e acc = Outcome.ok none := by
  induction h with
  | here e hne hg =>
    intro he
    refine ⟨1, fun fuel hk acc => ?_⟩
    obtain ⟨k, rfl⟩ : ∃ k, fuel = k + 1 := ⟨fuel - 1, by omega⟩
    rw [path_loop_succ hv he, if_neg hne, hg]
  | up e n hne hg _ ih =>
    intro he
    obtain ⟨_, hpf, _⟩ := validate_non_root (hv.2 e n (mem_of_get hg)).2 hne
    obtain ⟨k, hk⟩ := ih hpf
    refine ⟨k + 1, fun fuel hf acc => ?_⟩
    obtain ⟨j, rfl⟩ : ∃ j, fuel = j + 1 := ⟨fuel - 1, by omega⟩
    rw [path_loop_succ hv he, if_neg hne, hg]
    exact hk j (by omega) _

theorem path_loop_sound {f : svn_branch_family_t} {b : svn_branch_instance_t}
    (hv : BranchValid f b) : ∀ (fuel : Nat) (e : Int) (acc : String),
    FAMILY_HAS_ELEMENT f e = true →
    match svn_branch_get_path_by_eid_loop f b fuel e acc with
    | Outcome.ok (some q) => ∃ P, PathTo b e P ∧ q = svn_relpath_join P acc
    | Outcome.ok none => ChainBroken b e
    | Outcome.malfunction => False
    | Outcome.out_of_fuel => True := by
  intro fuel
  induction fuel with
  | zero => intro e acc _; simp [svn_branch_get_path_by_eid_loop]
  | succ fuel ih =>
    intro e acc he
    rw [path_loop_succ hv he]
    by_cases hr : e = b.sibling_defn.root_eid
    · rw [if_pos hr]
      subst hr
      exact ⟨"", PathTo.root, (join_empty_left acc).symm⟩
    · rw [if_neg hr]
      cases hg : svn_int_hash_get b.e_map e with
      | none => exact ChainBroken.here e hr hg
      | some n =>
        obtain ⟨_, hpf, name, hn, _⟩ := validate_non_root (hv.2 e n (mem_of_get hg)).2 hr
        simp only [hn, Option.getD_some]
        have := ih n.parent_eid (svn_relpath_join name acc) hpf
        cases hres : svn_branch_get_path_by_eid_loop f b fuel n.parent_eid
            (svn_relpath_join name acc) with
        | ok res =>
          rw [hres] at this
          cases res with
          | none => exact ChainBroken.up e n hr hg this
          | some q =>
            obtain ⟨P, hP, hq⟩ := this
            exact ⟨svn_relpath_join P name, PathTo.step e n name P hr hg hn hP,
              by rw [hq, join_assoc]⟩
        | malfunction => rw [hres] at this; exact this
        | out_of_fuel => trivial

theorem pathTo_unique {b : svn_branch_instance_t} {e : Int} {P : String}
    (h : PathTo b e P) : ∀ Q, PathTo b e Q → P = Q := by
  induction h with
  | root =>
    intro Q hq
    cases hq with
    | root => rfl
    | step _ _ _ _ hne _ _ _ => exact absurd rfl hne
  | step e n name P hne hg hn _ ih =>
    intro Q hq
    cases hq with
    | root => exact absurd rfl hne
    | step _ n' name' P' _ hg' hn' hp' =>
      rw [hg] at hg'; cases hg'
      rw [hn] at hn'; cases hn'
      rw [ih P' hp']

theorem pathTo_not_broken {b : svn_branch_instance_t} {e : Int} {P : String}
    (h : PathTo b e P) : ¬ ChainBroken b e := by
  induction h with
  | root =>
    intro hc
    cases hc with
    | here _ hne _ => exact hne rfl
    | up _ _ hne _ _ => exact hne rfl
  | step e n name P hne hg hn _ ih =>
    intro hc
    cases hc with
    | here _ _ hg' => rw [hg] at hg'; cases hg'
    | up _ n' _ hg' hc' => rw [hg] at hg'; cases hg'; exact ih hc'

theorem path_by_eid_eq_loop {f : svn_branch_family_t} {b : svn_branch_instance_t} {e : Int}
    (he : FAMILY_HAS_ELEMENT f e = true) (fuel : Nat) :
    svn_branch_get_path_by_eid f b fuel e = svn_branch_get_path_by_eid_loop f b fuel e "" := by
  unfold svn_branch_get_path_by_eid; rw [if_pos he]

theorem pathByEid_some_iff {f : svn_branch_family_t} {b : svn_branch_instance_t}
    (hv : BranchValid f b) {e : Int} (he : FAMILY_HAS_ELEMENT f e = true) (p : String) :
    PathByEid f b e (some p) ↔ PathTo b e p := by
  constructor
  · rintro ⟨fuel, h⟩
    rw [path_by_eid_eq_loop he] at h
    have := path_loop_sound hv fuel e "" he
    rw [h] at this
    obtain ⟨P, hP, hq⟩ := this
    rw [join_empty_right] at hq
    rw [hq]; exact hP
  · intro h
    obtain ⟨k, hk⟩ := path_loop_of_pathTo hv h he
    refine ⟨k, ?_⟩
    rw [path_by_eid_eq_loop he, hk k (le_refl _), join_empty_right]

theorem pathByEid_none_iff {f : svn_branch_family_t} {b : svn_branch_instance_t}
    (hv : BranchValid f b) {e : Int} (he : FAMILY_HAS_ELEMENT f e = true) :
    PathByEid f b e none ↔ ChainBroken b e := by
  constructor
  · rintro ⟨fuel, h⟩
    rw [path_by_eid_eq_loop he] at h
    have := path_loop_sound hv fuel e "" he
    rw [h] at this
    exact this
  · intro h
    obtain ⟨k, hk⟩ := path_loop_of_chainBroken hv h he
    exact ⟨k, by rw [path_by_eid_eq_loop he, hk k (le_refl _)]⟩

theorem pathByEid_family {f : svn_branch_family_t} {b : svn_branch_instance_t} {e : Int}
    {res : Option String} (h : PathByEid f b e res) : FAMILY_HAS_ELEMENT f e = true := by
  obtain ⟨fuel, h⟩ := h
  unfold svn_branch_get_path_by_eid at h
  by_cases he : FAMILY_HAS_ELEMENT f e = true
  · exact he
  · rw [if_neg he] at h; cases h

/-- C6: for every valid branch `b` and EID `e` in the family range, `svn_branch_get_path_by_eid`
returns the path `p` exactly when `p` is the join of the names on the parent chain from the
branch root down to `e`; it returns NULL exactly when some EID on the chain from `e` up to,
but excluding, the root EID has no entry; it never aborts; and for a non-root `e` with
entry `(parent, name)` whose parent has the path `P`, it returns `join(P, name)`. -/
theorem path_by_eid_spec (f : svn_branch_family_t) (b : svn_branch_instance_t) (e : Int)
    (hv : BranchValid f b) (he : FAMILY_HAS_ELEMENT f e = true) :
    (∀ p, PathByEid f b e (some p) ↔ PathTo b e p)
    ∧ (PathByEid f b e none ↔ ChainBroken b e)
    ∧ (∀ fuel, svn_branch_get_path_by_eid f b fuel e ≠ Outcome.malfunction)
    ∧ (∀ n name P, e ≠ b.sibling_defn.root_eid → svn_int_hash_get b.e_map e = some n →
        n.name = some name → PathByEid f b n.parent_eid (some P) →
        PathByEid f b e (some (svn_relpath_join P name))) := by
  refine ⟨pathByEid_some_iff hv he, pathByEid_none_iff hv he, ?_, ?_⟩
  · intro fuel h
    rw [path_by_eid_eq_loop he] at h
    have := path_loop_sound hv fuel e "" he
    rw [h] at this
    exact this
  · intro n name P hne hg hn hP
    have hpf := pathByEid_family hP
    exact (pathByEid_some_iff hv he _).2
      (PathTo.step e n name P hne hg hn ((pathByEid_some_iff hv hpf _).1 hP))

/-- On a valid branch a terminating chain either gives a path or is broken. -/
theorem pathTo_or_broken {f : svn_branch_family_t} {b : svn_branch_instance_t}
    (hv : BranchValid f b) {e : Int}
    (h : ChainTerminates b.e_map b.sibling_defn.root_eid e) :
    (∃ P, PathTo b e P) ∨ ChainBroken b e := by
  induction h with
  | at_root => exact Or.inl ⟨"", PathTo.root⟩
  | no_entry e hg =>
    by_cases hr : e = b.sibling_defn.root_eid
    · subst hr; exact Or.inl ⟨"", PathTo.root⟩
    · exact Or.inr (ChainBroken.here e hr hg)
  | step e n hne hg _ ih =>
    obtain ⟨_, _, name, hn, _⟩ := validate_non_root (hv.2 e n (mem_of_get hg)).2 hne
    rcases ih with ⟨P, hP⟩ | hb
    · exact Or.inl ⟨_, PathTo.step e n name P hne hg hn hP⟩
    · exact Or.inr (ChainBroken.up e n hne hg hb)

theorem branchValid_of_sublist {f : svn_branch_family_t} {b : svn_branch_instance_t}
    (hv : BranchValid f b) {m : EMap} (hsub : m.Sublist b.e_map) :
    BranchValid f { b with e_map := m } :=
  ⟨nodupKeys_sublist hsub hv.1, fun e n h => hv.2 e n (hsub.subset h)⟩

theorem pathTo_after_purge {f : svn_branch_family_t} {b : svn_branch_instance_t}
    (hv : BranchValid f b) {m : EMap} (hsub : m.Sublist b.e_map)
    (hfix : NoOrphanEntry b.sibling_defn.root_eid m) {e : Int}
    (h : ChainTerminates b.e_map b.sibling_defn.root_eid e) :
    ∀ n, (e, n) ∈ m → ∃ P, PathTo { b with e_map := m } e P := by
  induction h with
  | at_root => intro _ _; exact ⟨"", PathTo.root⟩
  | no_entry e hg =>
    intro n hmem
    exact absurd (hsub.subset hmem) (get_eq_none_iff.1 hg n)
  | step e n0 hne hg _ ih =>
    intro n hmem
    have h1 : svn_int_hash_get b.e_map e = some n := get_of_mem hv.1 (hsub.subset hmem)
    rw [hg] at h1; cases h1
    obtain ⟨p, hp, _⟩ := hfix e n0 hmem hne
    obtain ⟨P, hP⟩ := ih p (mem_of_get hp)
    obtain ⟨_, _, name, hn, _⟩ := validate_non_root (hv.2 e n0 (mem_of_get hg)).2 hne
    exact ⟨_, PathTo.step e n0 name P hne
      (get_of_mem (nodupKeys_sublist hsub hv.1) hmem) hn hP⟩

/-- C3 (amended): for every valid branch `b` whose element map has no parent cycle (the
parent chain of every key arrives at the root EID or at an EID without entry), the purge
terminates, and when `svn_branch_map_purge_orphans` returns, `svn_branch_get_path_by_eid` terminates with a
non-NULL path for every key of the purged element map. -/
theorem path_defined_after_purge (f : svn_branch_family_t) (b : svn_branch_instance_t)
    (hv : BranchValid f b)
    (hac : ∀ e n, (e, n) ∈ b.e_map → ChainTerminates b.e_map b.sibling_defn.root_eid e) :
    svn_branch_map_purge_orphans b ≠ Step.out_of_fuel
    ∧ ∀ b', svn_branch_map_purge_orphans b = Step.done b' →
        ∀ e n, (e, n) ∈ b'.e_map → ∃ p, PathByEid f b' e (some p) := by
  constructor
  · intro h
    unfold svn_branch_map_purge_orphans at h
    cases hres : map_purge_orphans b.e_map b.sibling_defn.root_eid with
    | done m => rw [hres] at h; cases h
    | malfunction m => rw [hres] at h; cases h
    | out_of_fuel => exact purge_terminates _ _ hres
  · intro b' h e n hmem
    unfold svn_branch_map_purge_orphans at h
    cases hres : map_purge_orphans b.e_map b.sibling_defn.root_eid with
    | malfunction m => rw [hres] at h; cases h
    | out_of_fuel => rw [hres] at h; cases h
    | done m =>
      rw [hres] at h
      simp only [Step.done.injEq] at h
      subst h
      obtain ⟨hsub, hfix, _, _⟩ := purge_done_spec hv.1 _ m hres
      have hv' := branchValid_of_sublist hv hsub
      have hmem0 := hsub.subset hmem
      obtain ⟨P, hP⟩ := pathTo_after_purge hv hsub hfix (hac e n hmem0) n hmem
      exact ⟨P, (pathByEid_some_iff hv' (hv.2 e n hmem0).1 P).2 hP⟩

theorem branchValid_of_forall {f : svn_branch_family_t} {b : svn_branch_instance_t}
    (nd : NodupKeys b.e_map)
    (h : b.e_map.all (fun kv => FAMILY_HAS_ELEMENT f kv.1
          && branch_map_node_validate f b kv.1 (some kv.2)) = true) :
    BranchValid f b := by
  refine ⟨nd, fun e n hmem => ?_⟩
  have := List.all_eq_true.1 h (e, n) hmem
  simpa using this

theorem cycle_branch_valid : BranchValid (family_of 0 3) (branch_of cycle_map) :=
  branchValid_of_forall cycle_map_nodup (by decide)

theorem cycle_loop_diverges : ∀ (fuel : Nat) (acc : String),
    svn_branch_get_path_by_eid_loop (family_of 0 3) (branch_of cycle_map) fuel 1 acc
        = Outcome.out_of_fuel
    ∧ svn_branch_get_path_by_eid_loop (family_of 0 3) (branch_of cycle_map) fuel 2 acc
        = Outcome.out_of_fuel := by
  intro fuel
  induction fuel with
  | zero => intro acc; exact ⟨rfl, rfl⟩
  | succ fuel ih =>
    intro acc
    constructor
    · rw [path_loop_succ cycle_branch_valid (by decide)]
      exact (ih _).2
    · rw [path_loop_succ cycle_branch_valid (by decide)]
      exact (ih _).1

/-- C3, counterexample: the valid branch whose map is
`{0: root, 1: (parent 2, "a"), 2: (parent 1, "b")}` is left unchanged by the purge, and
`svn_branch_get_path_by_eid` does not terminate on its key 1: it uses up every amount of fuel. -/
theorem path_by_eid_diverges_on_cycle :
    BranchValid (family_of 0 3) (branch_of cycle_map)
    ∧ svn_branch_map_purge_orphans (branch_of cycle_map) = Step.done (branch_of cycle_map)
    ∧ (1, el 2 "a") ∈ (branch_of cycle_map).e_map
    ∧ ∀ fuel, svn_branch_get_path_by_eid (family_of 0 3) (branch_of cycle_map) fuel 1
        = Outcome.out_of_fuel := by
  refine ⟨cycle_branch_valid, by decide, by decide, fun fuel => ?_⟩
  rw [path_by_eid_eq_loop (by decide)]
  exact (cycle_loop_diverges fuel "").1

theorem orphan_example_valid :
    BranchValid (family_of 0 10) (branch_of orphan_example_map) :=
  branchValid_of_forall orphan_example_nodup (by decide)

theorem orphan_example_acyclic : ∀ e n, (e, n) ∈ (branch_of orphan_example_map).e_map →
    ChainTerminates (branch_of orphan_example_map).e_map
      (branch_of orphan_example_map).sibling_defn.root_eid e := by
  intro e n h
  have h0 : ChainTerminates orphan_example_map 0 0 := ChainTerminates.at_root
  have h9 : ChainTerminates orphan_example_map 0 9 := ChainTerminates.no_entry 9 (by decide)
  simp only [branch_of, orphan_example_map, List.mem_cons, Prod.mk.injEq, List.mem_nil_iff,
    or_false] at h
  rcases h with ⟨rfl, _⟩ | ⟨rfl, _⟩ | ⟨rfl, _⟩
  · exact h0
  · exact ChainTerminates.step 1 (el 0 "a") (by decide) (by decide) h0
  · exact ChainTerminates.step 2 (el 9 "b") (by decide) (by decide) h9

/-- C3, witness: the amended theorem applied to the example map of the spec. -/
theorem path_defined_after_purge_witness :
    BranchValid (family_of 0 10) (branch_of orphan_example_map)
    ∧ (∀ e n, (e, n) ∈ (branch_of orphan_example_map).e_map →
        ChainTerminates (branch_of orphan_example_map).e_map
          (branch_of orphan_example_map).sibling_defn.root_eid e)
    ∧ (∃ b', svn_branch_map_purge_orphans (branch_of orphan_example_map) = Step.done b')
    ∧ ∀ b', svn_branch_map_purge_orphans (branch_of orphan_example_map) = Step.done b' →
        ∀ e n, (e, n) ∈ b'.e_map → ∃ p, PathByEid (family_of 0 10) b' e (some p) :=
  ⟨orphan_example_valid, orphan_example_acyclic,
    ⟨branch_of [(0, el (-1) ""), (1, el 0 "a")], by decide⟩,
    (path_defined_after_purge (family_of 0 10) (branch_of orphan_example_map)
      orphan_example_valid orphan_example_acyclic).2⟩

/-- C6, witness: the theorem applied to element 1 of the example map of the spec. -/
theorem path_by_eid_spec_witness :
    BranchValid (family_of 0 10) (branch_of orphan_example_map)
    ∧ FAMILY_HAS_ELEMENT (family_of 0 10) 1 = true
    ∧ PathByEid (family_of 0 10) (branch_of orphan_example_map) 1
        (some (svn_relpath_join "" "a")) :=
  ⟨orphan_example_valid, by decide,
    ((path_by_eid_spec (family_of 0 10) (branch_of orphan_example_map) 1
      orphan_example_valid (by decide)).1 _).2
      (PathTo.step 1 (el 0 "a") "a" "" (by decide) (by decide) rfl PathTo.root)⟩

theorem pathByEid_unique {f : svn_branch_family_t} {b : svn_branch_instance_t}
    (hv : BranchValid f b) {e : Int} {r1 r2 : Option String}
    (h1 : PathByEid f b e r1) (h2 : PathByEid f b e r2) : r1 = r2 := by
  have he := pathByEid_family h1
  cases r1 with
  | none =>
    cases r2 with
    | none => rfl
    | some q =>
      exact absurd ((pathByEid_none_iff hv he).1 h1)
        (pathTo_not_broken ((pathByEid_some_iff hv he q).1 h2))
  | some p =>
    cases r2 with
    | none =>
      exact absurd ((pathByEid_none_iff hv he).1 h2)
        (pathTo_not_broken ((pathByEid_some_iff hv he p).1 h1))
    | some q =>
      rw [pathTo_unique ((pathByEid_some_iff hv he p).1 h1) q
        ((pathByEid_some_iff hv he q).1 h2)]

theorem eid_scan_sound (f : svn_branch_family_t) (b : svn_branch_instance_t) (fuel : Nat)
    (p : String) : ∀ (l : EMap) (r : Int),
    svn_branch_get_eid_by_path_scan f b fuel p l = Outcome.ok r →
    (∃ n, (r, n) ∈ l ∧ svn_branch_get_path_by_eid f b fuel r = Outcome.ok (some p))
    ∨ (r = -1 ∧ ∀ e n, (e, n) ∈ l →
        ∃ res, svn_branch_get_path_by_eid f b fuel e = Outcome.ok res ∧ res ≠ some p) := by
  intro l
  induction l with
  | nil =>
    intro r h
    simp only [svn_branch_get_eid_by_path_scan, Outcome.ok.injEq] at h
    exact Or.inr ⟨h.symm, fun e n hm => by cases hm⟩
  | cons kv rest ih =>
    intro r h
    obtain ⟨e0, n0⟩ := kv
    simp only [svn_branch_get_eid_by_path_scan] at h
    cases hres : svn_branch_get_path_by_eid f b fuel e0 with
    | malfunction => rw [hres] at h; cases h
    | out_of_fuel => rw [hres] at h; cases h
    | ok res =>
      rw [hres] at h
      have hrest : ∀ res', res = res' → res' ≠ some p →
          svn_branch_get_eid_by_path_scan f b fuel p rest = Outcome.ok r →
          (∃ n, (r, n) ∈ (e0, n0) :: rest
              ∧ svn_branch_get_path_by_eid f b fuel r = Outcome.ok (some p))
          ∨ (r = -1 ∧ ∀ e n, (e, n) ∈ (e0, n0) :: rest →
              ∃ res, svn_branch_get_path_by_eid f b fuel e = Outcome.ok res
                ∧ res ≠ some p) := by
        intro res' hr hne h'
        rcases ih r h' with ⟨n, hn, hp⟩ | ⟨h1, h2⟩
        · exact Or.inl ⟨n, List.mem_cons_of_mem _ hn, hp⟩
        · refine Or.inr ⟨h1, fun e n hm => ?_⟩
          rcases List.mem_cons.1 hm with h3 | h3
          · cases h3; exact ⟨res', by rw [hres, hr], hne⟩
          · exact h2 e n h3
      cases res with
      | none => exact hrest none rfl (by simp) h
      | some q =>
        simp only at h
        by_cases hpq : p = q
        · rw [if_pos hpq] at h
          simp only [Outcome.ok.injEq] at h
          subst h; subst hpq
          exact Or.inl ⟨n0, List.mem_cons_self _ _, hres⟩
        · rw [if_neg hpq] at h
          exact hrest (some q) rfl (fun hc => hpq (by cases hc; rfl)) h

theorem eid_scan_total (f : svn_branch_family_t) (b : svn_branch_instance_t) (fuel : Nat)
    (p : String) : ∀ (l : EMap),
    (∀ e n, (e, n) ∈ l → ∃ res, svn_branch_get_path_by_eid f b fuel e = Outcome.ok res) →
    ∃ r, svn_branch_get_eid_by_path_scan f b fuel p l = Outcome.ok r := by
  intro l
  induction l with
  | nil => intro _; exact ⟨-1, rfl⟩
  | cons kv rest ih =>
    intro h
    obtain ⟨e0, n0⟩ := kv
    obtain ⟨res, hres⟩ := h e0 n0 (List.mem_cons_self _ _)
    obtain ⟨r, hr⟩ := ih (fun e n hm => h e n (List.mem_cons_of_mem _ hm))
    simp only [svn_branch_get_eid_by_path_scan, hres]
    cases res with
    | none => exact ⟨r, hr⟩
    | some q =>
      simp only
      by_cases hpq : p = q
      · exact ⟨e0, by rw [if_pos hpq]⟩
      · exact ⟨r, by rw [if_neg hpq]; exact hr⟩

theorem eid_scan_unique {f : svn_branch_family_t} {b : svn_branch_instance_t}
    (hv : BranchValid f b) (p : String) (k1 k2 : Nat) : ∀ (l : EMap) (r1 r2 : Int),
    svn_branch_get_eid_by_path_scan f b k1 p l = Outcome.ok r1 →
    svn_branch_get_eid_by_path_scan f b k2 p l = Outcome.ok r2 → r1 = r2 := by
  intro l
  induction l with
  | nil =>
    intro r1 r2 h1 h2
    simp only [svn_branch_get_eid_by_path_scan, Outcome.ok.injEq] at h1 h2
    rw [← h1, ← h2]
  | cons kv rest ih =>
    intro r1 r2 h1 h2
    obtain ⟨e0, n0⟩ := kv
    simp only [svn_branch_get_eid_by_path_scan] at h1 h2
    cases hres1 : svn_branch_get_path_by_eid f b k1 e0 with
    | malfunction => rw [hres1] at h1; cases h1
    | out_of_fuel => rw [hres1] at h1; cases h1
    | ok res1 =>
      cases hres2 : svn_branch_get_path_by_eid f b k2 e0 with
      | malfunction => rw [hres2] at h2; cases h2
      | out_of_fuel => rw [hres2] at h2; cases h2
      | ok res2 =>
        have heq : res1 = res2 := pathByEid_unique hv ⟨k1, hres1⟩ ⟨k2, hres2⟩
        subst heq
        rw [hres1] at h1
        rw [hres2] at h2
        cases res1 with
        | none => exact ih r1 r2 h1 h2
        | some q =>
          simp only at h1 h2
          by_cases hpq : p = q
          · rw [if_pos hpq] at h1 h2
            simp only [Outcome.ok.injEq] at h1 h2
            rw [← h1, ← h2]
          · rw [if_neg hpq] at h1 h2
            exact ih r1 r2 h1 h2

/-- One fuel that is enough for every key of a list. -/
theorem uniform_fuel {f : svn_branch_family_t} {b : svn_branch_instance_t}
    (hv : BranchValid f b)
    (hac : ∀ e n, (e, n) ∈ b.e_map → ChainTerminates b.e_map b.sibling_defn.root_eid e) :
    ∀ (l : EMap), (∀ kv ∈ l, kv ∈ b.e_map) →
    ∃ K, ∀ e n, (e, n) ∈ l → ∀ fuel, K ≤ fuel →
      ∃ res, svn_branch_get_path_by_eid f b fuel e = Outcome.ok res := by
  intro l
  induction l with
  | nil => intro _; exact ⟨0, fun e n hm => by cases hm⟩
  | cons kv rest ih =>
    intro hsub
    obtain ⟨e0, n0⟩ := kv
    obtain ⟨K, hK⟩ := ih (fun kv h => hsub kv (List.mem_cons_of_mem _ h))
    have hmem := hsub (e0, n0) (List.mem_cons_self _ _)
    have he := (hv.2 e0 n0 hmem).1
    have hk0 : ∃ k, ∀ fuel, k ≤ fuel →
        ∃ res, svn_branch_get_path_by_eid f b fuel e0 = Outcome.ok res := by
      rcases pathTo_or_broken hv (hac e0 n0 hmem) with ⟨P, hP⟩ | hb
      · obtain ⟨k, hk⟩ := path_loop_of_pathTo hv hP he
        exact ⟨k, fun fuel hf => ⟨_, by rw [path_by_eid_eq_loop he, hk fuel hf]⟩⟩
      · obtain ⟨k, hk⟩ := path_loop_of_chainBroken hv hb he
        exact ⟨k, fun fuel hf => ⟨_, by rw [path_by_eid_eq_loop he, hk fuel hf]⟩⟩
    obtain ⟨k, hk⟩ := hk0
    refine ⟨max K k, fun e n hm fuel hf => ?_⟩
    rcases List.mem_cons.1 hm with h3 | h3
    · cases h3; exact hk fuel (le_trans (le_max_right _ _) hf)
    · exact hK e n h3 fuel (le_trans (le_max_left _ _) hf)

/-- C7 (amended): for every valid branch `b` whose element map has no parent cycle and no
key −1, and every path `p`: `svn_branch_get_eid_by_path` returns, with one result; a result other
than −1 is a key of the map whose path is `p`; and the result is −1 exactly when no key of
the map has the path `p`.  In the fresh-branch scenario, after allocating EID 1 and
`update(b, 1, 0, "file.txt", payload)`, the path of EID 1 is `"file.txt"` and the EID of
`"file.txt"` is 1. -/
theorem eid_by_path_spec (f : svn_branch_family_t) (b : svn_branch_instance_t) (p : String)
    (hv : BranchValid f b) (hneg : ∀ n, ((-1 : Int), n) ∉ b.e_map)
    (hac : ∀ e n, (e, n) ∈ b.e_map → ChainTerminates b.e_map b.sibling_defn.root_eid e) :
    (∃ r, EidByPath f b p r)
    ∧ (∀ r r', EidByPath f b p r → EidByPath f b p r' → r = r')
    ∧ (∀ r, EidByPath f b p r → r ≠ -1 →
        (∃ n, (r, n) ∈ b.e_map) ∧ PathByEid f b r (some p))
    ∧ (EidByPath f b p (-1) ↔ ∀ e n, (e, n) ∈ b.e_map → ¬ PathByEid f b e (some p))
    ∧ (∃ b1, svn_branch_map_update (svn_branch_family_add_new_element (family_of 0 1)).1
          (branch_of []) (svn_branch_family_add_new_element (family_of 0 1)).2 0
          (some "file.txt") (some payload_file_txt) = Step.done b1
        ∧ (svn_branch_family_add_new_element (family_of 0 1)).2 = 1
        ∧ PathByEid (svn_branch_family_add_new_element (family_of 0 1)).1 b1 1
            (some "file.txt")
        ∧ EidByPath (svn_branch_family_add_new_element (family_of 0 1)).1 b1 "file.txt" 1) := by
  obtain ⟨K, hK⟩ := uniform_fuel hv hac b.e_map (fun _ h => h)
  have htot : ∃ r, EidByPath f b p r := by
    obtain ⟨r, hr⟩ := eid_scan_total f b K p b.e_map
      (fun e n hm => hK e n hm K (le_refl _))
    exact ⟨r, K, hr⟩
  refine ⟨htot, ?_, ?_, ?_, ?_⟩
  · rintro r r' ⟨k1, h1⟩ ⟨k2, h2⟩
    exact eid_scan_unique hv p k1 k2 b.e_map r r' h1 h2
  · rintro r ⟨k, hk⟩ hne
    rcases eid_scan_sound f b k p b.e_map r hk with ⟨n, hn, hp⟩ | ⟨h1, _⟩
    · exact ⟨⟨n, hn⟩, k, hp⟩
    · exact absurd h1 hne
  · constructor
    · rintro ⟨k, hk⟩ e n hm hp
      rcases eid_scan_sound f b k p b.e_map (-1) hk with ⟨n', hn', _⟩ | ⟨_, h2⟩
      · exact hneg n' hn'
      · obtain ⟨res, hres, hne⟩ := h2 e n hm
        exact hne (pathByEid_unique hv ⟨k, hres⟩ hp)
    · intro hno
      obtain ⟨r, k, hk⟩ := htot
      rcases eid_scan_sound f b k p b.e_map r hk with ⟨n, hn, hp⟩ | ⟨h1, _⟩
      · exact absurd ⟨k, hp⟩ (hno r n hn)
      · subst h1; exact ⟨k, hk⟩
  · exact ⟨branch_of file_txt_map, by decide, by decide, ⟨2, by decide⟩, ⟨2, by decide⟩⟩

theorem no_key_of_all {m : EMap} {k : Int} (h : m.all (fun kv => kv.1 != k) = true) :
    ∀ n, (k, n) ∉ m := by
  intro n hm
  have := List.all_eq_true.1 h (k, n) hm
  simp at this

theorem cycle_eid_scan_diverges : ∀ fuel,
    svn_branch_get_eid_by_path (family_of 0 3) (branch_of cycle_map) fuel "zzz"
      = Outcome.out_of_fuel := by
  intro fuel
  cases fuel with
  | zero => rfl
  | succ k =>
    have h0 : svn_branch_get_path_by_eid (family_of 0 3) (branch_of cycle_map) (k + 1) 0
        = Outcome.ok (some "") := by
      rw [path_by_eid_eq_loop (by decide), path_loop_succ cycle_branch_valid (by decide)]
      rfl
    have h1 : svn_branch_get_path_by_eid (family_of 0 3) (branch_of cycle_map) (k + 1) 1
        = Outcome.out_of_fuel := by
      rw [path_by_eid_eq_loop (by decide)]
      exact (cycle_loop_diverges (k + 1) "").1
    show svn_branch_get_eid_by_path_scan (family_of 0 3) (branch_of cycle_map) (k + 1) "zzz"
      [(0, el (-1) ""), (1, el 2 "a"), (2, el 1 "b")] = Outcome.out_of_fuel
    simp only [svn_branch_get_eid_by_path_scan, h0, h1]
    rw [if_neg (by decide)]

theorem cycle_no_path_zzz : ∀ e n, (e, n) ∈ (branch_of cycle_map).e_map →
    ¬ PathByEid (family_of 0 3) (branch_of cycle_map) e (some "zzz") := by
  rintro e n hm ⟨fuel, hf⟩
  simp only [branch_of, cycle_map, List.mem_cons, Prod.mk.injEq, List.mem_nil_iff,
    or_false] at hm
  rcases hm with ⟨rfl, _⟩ | ⟨rfl, _⟩ | ⟨rfl, _⟩
  · cases fuel with
    | zero => cases hf
    | succ k =>
      rw [path_by_eid_eq_loop (by decide), path_loop_succ cycle_branch_valid (by decide),
        if_pos (by decide)] at hf
      simp at hf
  · rw [path_by_eid_eq_loop (by decide), (cycle_loop_diverges fuel "").1] at hf
    cases hf
  · rw [path_by_eid_eq_loop (by decide), (cycle_loop_diverges fuel "").2] at hf
    cases hf

/-- C7, counterexample: on the valid branch whose map is
`{0: root, 1: (parent 2, "a"), 2: (parent 1, "b")}` no key has the path `"zzz"`, yet
`svn_branch_get_eid_by_path` does not return −1 for `"zzz"`: it never returns. -/
theorem eid_by_path_diverges_on_cycle :
    BranchValid (family_of 0 3) (branch_of cycle_map)
    ∧ (∀ n, ((-1 : Int), n) ∉ (branch_of cycle_map).e_map)
    ∧ (∀ e n, (e, n) ∈ (branch_of cycle_map).e_map →
        ¬ PathByEid (family_of 0 3) (branch_of cycle_map) e (some "zzz"))
    ∧ ¬ EidByPath (family_of 0 3) (branch_of cycle_map) "zzz" (-1) := by
  refine ⟨cycle_branch_valid, no_key_of_all (by decide), cycle_no_path_zzz, ?_⟩
  rintro ⟨fuel, hf⟩
  rw [cycle_eid_scan_diverges fuel] at hf
  cases hf

/-- C7, witness: the amended theorem applied to the example map of the spec. -/
theorem eid_by_path_spec_witness :
    BranchValid (family_of 0 10) (branch_of orphan_example_map)
    ∧ (∀ n, ((-1 : Int), n) ∉ (branch_of orphan_example_map).e_map)
    ∧ (∃ r, EidByPath (family_of 0 10) (branch_of orphan_example_map) "a" r)
    ∧ EidByPath (family_of 0 10) (branch_of orphan_example_map) "a" 1 :=
  ⟨orphan_example_valid, no_key_of_all (by decide),
    (eid_by_path_spec (family_of 0 10) (branch_of orphan_example_map) "a"
      orphan_example_valid (no_key_of_all (by decide)) orphan_example_acyclic).1,
    ⟨3, by decide⟩⟩

theorem validate_iff (f : svn_branch_family_t) (b : svn_branch_instance_t) (eid : Int)
    (node : svn_branch_el_rev_content_t) :
    branch_map_node_validate f b eid (some node) = true ↔ NodeInvariants f b eid node := by
  obtain ⟨p, name, c⟩ := node
  unfold NodeInvariants
  by_cases hr : eid = b.sibling_defn.root_eid
  · have hr' : IS_BRANCH_ROOT_EID b eid = true := (is_root_iff b eid).2 hr
    simp only [branch_map_node_validate, hr', if_pos hr, if_true, Bool.and_eq_true]
    cases name with
    | none => simp
    | some s =>
      cases c with
      | none => simp
      | some c =>
        simp [content_validate, SVN_IS_VALID_REVNUM, Option.isSome_iff_ne_none]
  · have hr' : IS_BRANCH_ROOT_EID b eid = false := by simpa [IS_BRANCH_ROOT_EID] using hr
    simp only [branch_map_node_validate, hr', if_neg hr, Bool.and_eq_true]
    cases name with
    | none => simp
    | some s =>
      cases c with
      | none => simp [FAMILY_HAS_ELEMENT]; tauto
      | some c =>
        simp [content_validate, SVN_IS_VALID_REVNUM, Option.isSome_iff_ne_none,
          FAMILY_HAS_ELEMENT]
        tauto

theorem instance_invariants_e_map (f : svn_branch_family_t) (b : svn_branch_instance_t)
    (m : EMap) :
    assert_branch_instance_invariants f { b with e_map := m }
      = assert_branch_instance_invariants f b := rfl

theorem set_some_result (f : svn_branch_family_t) (b : svn_branch_instance_t) (eid : Int)
    (node : svn_branch_el_rev_content_t) :
    branch_map_set f b eid (some node)
      = if FAMILY_HAS_ELEMENT f eid = true ∧ branch_map_node_validate f b eid (some node) = true
        then
          (if assert_branch_instance_invariants f b = true then
            Step.done { b with e_map := svn_int_hash_set b.e_map eid (some node) }
          else Step.malfunction { b with e_map := svn_int_hash_set b.e_map eid (some node) })
        else Step.malfunction b := by
  unfold branch_map_set
  rw [instance_invariants_e_map]
  by_cases h1 : FAMILY_HAS_ELEMENT f eid = true
  · by_cases h2 : branch_map_node_validate f b eid (some node) = true
    · simp [h1, h2]
    · simp [h1, h2]
  · simp [h1]

theorem update_result (f : svn_branch_family_t) (b : svn_branch_instance_t) (eid p : Int)
    (name : Option String) (c : Option svn_element_content_t) :
    svn_branch_map_update f b eid p name c
      = if FAMILY_HAS_ELEMENT f eid = true ∧ c.isSome = true
            ∧ branch_map_node_validate f b eid (some ⟨p, name, c⟩) = true
        then
          (if assert_branch_instance_invariants f b = true then
            Step.done { b with e_map := svn_int_hash_set b.e_map eid (some ⟨p, name, c⟩) }
          else Step.malfunction
            { b with e_map := svn_int_hash_set b.e_map eid (some ⟨p, name, c⟩) })
        else Step.malfunction b := by
  unfold svn_branch_map_update svn_branch_el_rev_content_create
  simp only [set_some_result]
  by_cases h1 : FAMILY_HAS_ELEMENT f eid = true
  · by_cases h2 : c.isSome = true
    · by_cases h3 : branch_map_node_validate f b eid (some ⟨p, name, c⟩) = true
      · simp [h1, h2, h3]
      · simp [h1, h2, h3]
    · simp [h1, h2]
  · simp [h1]

theorem update_as_subbranch_root_result (f : svn_branch_family_t)
    (b : svn_branch_instance_t) (eid p : Int) (name : Option String) :
    svn_branch_map_update_as_subbranch_root f b eid p name
      = if FAMILY_HAS_ELEMENT f eid = true
            ∧ branch_map_node_validate f b eid (some ⟨p, name, none⟩) = true
        then
          (if assert_branch_instance_invariants f b = true then
            Step.done { b with e_map := svn_int_hash_set b.e_map eid (some ⟨p, name, none⟩) }
          else Step.malfunction
            { b with e_map := svn_int_hash_set b.e_map eid (some ⟨p, name, none⟩) })
        else Step.malfunction b := by
  unfold svn_branch_map_update_as_subbranch_root svn_branch_el_rev_content_create
  simp only [set_some_result]
  by_cases h1 : FAMILY_HAS_ELEMENT f eid = true
  · by_cases h3 : branch_map_node_validate f b eid (some ⟨p, name, none⟩) = true
    · simp [h1, h3]
    · simp [h1, h3]
  · simp [h1]

/-- C8: every write of a node `(p, name, c)` at `eid` by `branch_map_set`, `svn_branch_map_update` or
`svn_branch_map_update_as_subbranch_root` is validated: the check of `branch_map_node_validate` is
exactly the data-model invariants (root: parent −1 and empty name; other EIDs: parent
different from the EID, inside the family range, and a non-empty name; a present payload
is a valid reference or has a concrete kind).  If they are violated the write aborts with
the branch unchanged; a write that returns has stored a node satisfying them; and a node
satisfying them at an EID of the family is stored (in a branch instance that satisfies
the instance invariants). -/
theorem map_write_validated (f : svn_branch_family_t) (b : svn_branch_instance_t)
    (eid p : Int) (name : Option String) (c : Option svn_element_content_t) :
    (branch_map_node_validate f b eid (some ⟨p, name, c⟩) = true
        ↔ NodeInvariants f b eid ⟨p, name, c⟩)
    ∧ (¬ NodeInvariants f b eid ⟨p, name, c⟩ →
        branch_map_set f b eid (some ⟨p, name, c⟩) = Step.malfunction b
        ∧ svn_branch_map_update f b eid p name c = Step.malfunction b)
    ∧ (¬ NodeInvariants f b eid ⟨p, name, none⟩ →
        svn_branch_map_update_as_subbranch_root f b eid p name = Step.malfunction b)
    ∧ (∀ b', (branch_map_set f b eid (some ⟨p, name, c⟩) = Step.done b'
              ∨ svn_branch_map_update f b eid p name c = Step.done b') →
        NodeInvariants f b eid ⟨p, name, c⟩
        ∧ b' = { b with e_map := svn_int_hash_set b.e_map eid (some ⟨p, name, c⟩) })
    ∧ (∀ b', svn_branch_map_update_as_subbranch_root f b eid p name = Step.done b' →
        NodeInvariants f b eid ⟨p, name, none⟩
        ∧ b' = { b with e_map := svn_int_hash_set b.e_map eid (some ⟨p, name, none⟩) })
    ∧ (FAMILY_HAS_ELEMENT f eid = true → assert_branch_instance_invariants f b = true →
        NodeInvariants f b eid ⟨p, name, c⟩ →
        branch_map_set f b eid (some ⟨p, name, c⟩)
          = Step.done { b with e_map := svn_int_hash_set b.e_map eid (some ⟨p, name, c⟩) }) := by
  refine ⟨validate_iff f b eid _, ?_, ?_, ?_, ?_, ?_⟩
  · intro h
    have h' : ¬ branch_map_node_validate f b eid (some ⟨p, name, c⟩) = true :=
      fun hc => h ((validate_iff f b eid _).1 hc)
    rw [set_some_result, update_result]
    constructor
    · rw [if_neg (fun hc => h' hc.2)]
    · rw [if_neg (fun hc => h' hc.2.2)]
  · intro h
    have h' : ¬ branch_map_node_validate f b eid (some ⟨p, name, none⟩) = true :=
      fun hc => h ((validate_iff f b eid _).1 hc)
    rw [update_as_subbranch_root_result, if_neg (fun hc => h' hc.2)]
  · intro b' h
    rw [set_some_result, update_result] at h
    rcases h with h | h
    · split at h
      · rename_i hc
        split at h
        · exact ⟨(validate_iff f b eid _).1 hc.2, by cases h; rfl⟩
        · cases h
      · cases h
    · split at h
      · rename_i hc
        split at h
        · exact ⟨(validate_iff f b eid _).1 hc.2.2, by cases h; rfl⟩
        · cases h
      · cases h
  · intro b' h
    rw [update_as_subbranch_root_result] at h
    split at h
    · rename_i hc
      split at h
      · exact ⟨(validate_iff f b eid _).1 hc.2, by cases h; rfl⟩
      · cases h
    · cases h
  · intro h1 hi h2
    rw [set_some_result, if_pos ⟨h1, (validate_iff f b eid _).2 h2⟩, if_pos hi]

/-- C10, the code at the failing input: in a family whose EID range starts at −1,
`svn_branch_map_update` stores at the non-root EID 1 a node whose `parent_eid` is −1. -/
theorem update_stores_parent_minus_one_at_non_root :
    svn_branch_map_update (family_of (-1) 2) (branch_of []) 1 (-1) (some "a") (some payload0)
      = Step.done (branch_of [(1, el (-1) "a")])
    ∧ (1 : Int) ≠ (branch_of []).sibling_defn.root_eid
    ∧ (el (-1) "a").parent_eid = -1 := by
  decide

/-- With no EID −1 in the family, validation gives parent −1 exactly at the root. -/
theorem parent_minus_one_iff_root (f : svn_branch_family_t) (b : svn_branch_instance_t)
    (eid : Int) (node : svn_branch_el_rev_content_t) (hf : 0 ≤ f.first_eid)
    (h : branch_map_node_validate f b eid (some node) = true) :
    node.parent_eid = -1 ↔ eid = b.sibling_defn.root_eid := by
  constructor
  · intro hp
    by_contra hne
    have := (validate_non_root h hne).2.1
    simp [FAMILY_HAS_ELEMENT, hp] at this
    omega
  · intro hr
    subst hr
    exact (validate_root h).1

theorem validate_congr (f : svn_branch_family_t) (b b' : svn_branch_instance_t)
    (h : b'.sibling_defn = b.sibling_defn) (e : Int)
    (n : Option svn_branch_el_rev_content_t) :
    branch_map_node_validate f b' e n = branch_map_node_validate f b e n := by
  unfold branch_map_node_validate IS_BRANCH_ROOT_EID
  rw [h]

theorem family_has_mono {f f' : svn_branch_family_t} (h1 : f'.first_eid = f.first_eid)
    (h2 : f.next_eid ≤ f'.next_eid) {e : Int} (h : FAMILY_HAS_ELEMENT f e = true) :
    FAMILY_HAS_ELEMENT f' e = true := by
  simp only [FAMILY_HAS_ELEMENT, Bool.and_eq_true, decide_eq_true_eq] at h ⊢
  omega

theorem validate_mono {f f' : svn_branch_family_t} (h1 : f'.first_eid = f.first_eid)
    (h2 : f.next_eid ≤ f'.next_eid) {b : svn_branch_instance_t} {e : Int}
    {n : svn_branch_el_rev_content_t} (h : branch_map_node_validate f b e (some n) = true) :
    branch_map_node_validate f' b e (some n) = true := by
  simp only [branch_map_node_validate, Bool.and_eq_true] at h ⊢
  obtain ⟨⟨ha, hb⟩, hc⟩ := h
  refine ⟨⟨?_, hb⟩, hc⟩
  split at ha
  · rename_i hr; rw [if_pos hr]; exact ha
  · rename_i hr
    rw [if_neg hr]
    simp only [Bool.and_eq_true] at ha ⊢
    exact ⟨ha.1, family_has_mono h1 h2 ha.2⟩

theorem branchValid_mono {f f' : svn_branch_family_t} (h1 : f'.first_eid = f.first_eid)
    (h2 : f.next_eid ≤ f'.next_eid) {b : svn_branch_instance_t} (hv : BranchValid f b) :
    BranchValid f' b :=
  ⟨hv.1, fun e n hm => ⟨family_has_mono h1 h2 (hv.2 e n hm).1,
    validate_mono h1 h2 (hv.2 e n hm).2⟩⟩

theorem mem_set_some {m : EMap} {k : Int} {v : svn_branch_el_rev_content_t}
    {kv : Int × svn_branch_el_rev_content_t} (h : kv ∈ svn_int_hash_set m k (some v)) :
    (kv ∈ m ∧ kv.1 ≠ k) ∨ kv = (k, v) := by
  have h1 : svn_int_hash_set m k (some v) = svn_int_hash_set m k none ++ [(k, v)] := rfl
  rw [h1, List.mem_append] at h
  rcases h with h | h
  · exact Or.inl (mem_set_none.1 h)
  · exact Or.inr (by simpa using h)

/-- A successful `branch_map_set` keeps the branch valid. -/
theorem set_preserves_valid {f : svn_branch_family_t} {b b' : svn_branch_instance_t}
    {eid : Int} {node : Option svn_branch_el_rev_content_t} (hv : BranchValid f b)
    (h : branch_map_set f b eid node = Step.done b') :
    BranchValid f b' ∧ b'.sibling_defn = b.sibling_defn := by
  unfold branch_map_set at h
  split at h
  · rename_i hfam
    split at h
    · rename_i hok
      split at h
      swap
      · cases h
      simp only [Step.done.injEq] at h
      subst h
      refine ⟨⟨nodupKeys_set _ hv.1 _ _, ?_⟩, rfl⟩
      intro e n hm
      rw [validate_congr f b { b with e_map := svn_int_hash_set b.e_map eid node } rfl e
        (some n)]
      cases node with
      | none => exact hv.2 e n ((set_none_sublist _ _).subset hm)
      | some v =>
        rcases mem_set_some hm with h1 | h1
        · exact hv.2 e n h1.1
        · cases h1
          refine ⟨hfam, ?_⟩
          simpa using hok
    · cases h
  · cases h

theorem update_preserves_valid {f : svn_branch_family_t} {b b' : svn_branch_instance_t}
    {eid p : Int} {name : Option String} {c : Option svn_element_content_t}
    (hv : BranchValid f b) (h : svn_branch_map_update f b eid p name c = Step.done b') :
    BranchValid f b' ∧ b'.sibling_defn = b.sibling_defn := by
  unfold svn_branch_map_update at h
  simp only at h
  split at h
  · split at h
    · exact set_preserves_valid hv h
    · cases h
  · cases h

theorem update_as_subbranch_root_preserves_valid {f : svn_branch_family_t}
    {b b' : svn_branch_instance_t} {eid p : Int} {name : Option String}
    (hv : BranchValid f b)
    (h : svn_branch_map_update_as_subbranch_root f b eid p name = Step.done b') :
    BranchValid f b' ∧ b'.sibling_defn = b.sibling_defn := by
  unfold svn_branch_map_update_as_subbranch_root at h
  simp only at h
  split at h
  · split at h
    · exact set_preserves_valid hv h
    · cases h
  · cases h

theorem delete_preserves_valid {f : svn_branch_family_t} {b b' : svn_branch_instance_t}
    {eid : Int} (hv : BranchValid f b) (h : svn_branch_map_delete f b eid = Step.done b') :
    BranchValid f b' ∧ b'.sibling_defn = b.sibling_defn := by
  unfold svn_branch_map_delete at h
  split at h
  · exact set_preserves_valid hv h
  · cases h

theorem foldl_andThen_stuck {σ α : Type} (g : α → σ → Step σ) :
    ∀ (l : List α) (s0 : Step σ), (∀ s, s0 ≠ Step.done s) →
    ∀ s, l.foldl (fun acc a => acc.andThen (g a)) s0 ≠ Step.done s := by
  intro l
  induction l with
  | nil => intro s0 h s; exact h s
  | cons a l ih =>
    intro s0 h s
    simp only [List.foldl_cons]
    apply ih
    intro s1
    cases s0 with
    | done x => exact absurd rfl (h x)
    | malfunction x => simp [Step.andThen]
    | out_of_fuel => simp [Step.andThen]

theorem foldl_andThen_inv {σ α : Type} (g : α → σ → Step σ) (P : σ → Prop)
    (hg : ∀ a s s', P s → g a s = Step.done s' → P s') :
    ∀ (l : List α) (s s' : σ), P s →
    l.foldl (fun acc a => acc.andThen (g a)) (Step.done s) = Step.done s' → P s' := by
  intro l
  induction l with
  | nil => intro s s' hs h; simp at h; subst h; exact hs
  | cons a l ih =>
    intro s s' hs h
    simp only [List.foldl_cons] at h
    cases hga : g a s with
    | done s1 =>
      have : (Step.done s).andThen (g a) = Step.done s1 := by simp [Step.andThen, hga]
      rw [this] at h
      exact ih s1 s' (hg a s s1 hs hga) h
    | malfunction s1 =>
      have : (Step.done s).andThen (g a) = Step.malfunction s1 := by simp [Step.andThen, hga]
      rw [this] at h
      exact absurd h (foldl_andThen_stuck g l _ (by simp) s')
    | out_of_fuel =>
      have : (Step.done s).andThen (g a) = Step.out_of_fuel := by simp [Step.andThen, hga]
      rw [this] at h
      exact absurd h (foldl_andThen_stuck g l _ (by simp) s')

theorem add_subtree_preserves_valid : ∀ (fuel : Nat)
    (s : svn_branch_family_t × svn_branch_instance_t) (to_eid p : Int) (name : Option String)
    (t : svn_branch_subtree_t) (s' : svn_branch_family_t × svn_branch_instance_t),
    BranchValid s.1 s.2 →
    svn_branch_map_add_subtree fuel s to_eid p name t = Step.done s' →
    AddSubtreeStep s s' := by
  intro fuel
  induction fuel with
  | zero => intro s to_eid p name t s' _ h; simp [svn_branch_map_add_subtree] at h
  | succ fuel ih =>
    intro s to_eid p name t s' hv h
    obtain ⟨f, b⟩ := s
    simp only [svn_branch_map_add_subtree] at h
    -- the family after the allocation
    have halloc : ∀ (a : svn_branch_family_t × Int),
        a = (if to_eid = -1 then svn_branch_family_add_new_element f else (f, to_eid)) →
        a.1.first_eid = f.first_eid ∧ f.next_eid ≤ a.1.next_eid := by
      intro a ha
      split at ha
      · subst ha; simp [svn_branch_family_add_new_element]
      · subst ha; simp
    generalize hA : (if to_eid = -1 then svn_branch_family_add_new_element f
      else (f, to_eid)) = a at h
    obtain ⟨ha1, ha2⟩ := halloc a hA.symm
    have hva : BranchValid a.1 b := branchValid_mono ha1 ha2 hv
    split at h
    · cases h
    · rename_i root_content _
      have hw : ∀ b1,
          (if root_content.content.isSome = true then
              svn_branch_map_update a.1 b a.2 p name root_content.content
            else svn_branch_map_update_as_subbranch_root a.1 b a.2 p name) = Step.done b1 →
          BranchValid a.1 b1 ∧ b1.sibling_defn = b.sibling_defn := by
        intro b1 hb1
        split at hb1
        · exact update_preserves_valid hva hb1
        · exact update_as_subbranch_root_preserves_valid hva hb1
      split at h
      · cases h
      · cases h
      · rename_i b1 hb1
        obtain ⟨hv1, hs1⟩ := hw b1 hb1
        have hstart : AddSubtreeStep (f, b) (a.1, b1) := ⟨hv1, hs1, ha1, ha2⟩
        refine foldl_andThen_inv
          (fun (kv : Int × svn_branch_el_rev_content_t) st =>
            if kv.2.parent_eid = t.root_eid then
              svn_branch_map_add_subtree fuel st (-1) a.2 kv.2.name
                { e_map := t.e_map, root_eid := kv.1 }
            else Step.done st)
          (fun st => AddSubtreeStep (f, b) st) ?_ t.e_map (a.1, b1) s' hstart h
        intro kv st st' hst hstep
        simp only at hstep
        split at hstep
        · have := ih st (-1) a.2 kv.2.name _ st' hst.1 hstep
          exact ⟨this.1, this.2.1.trans hst.2.1, this.2.2.1.trans hst.2.2.1,
            le_trans hst.2.2.2 this.2.2.2⟩
        · simp only [Step.done.injEq] at hstep
          subst hstep; exact hst

theorem instantiate_copy_preserves_valid {f : svn_branch_family_t} (root_eid : Int) :
    ∀ (m : EMap) (b b' : svn_branch_instance_t), BranchValid f b →
    svn_branch_instantiate_subtree_copy f root_eid m b = Step.done b' →
    BranchValid f b' ∧ b'.sibling_defn = b.sibling_defn := by
  intro m
  induction m with
  | nil =>
    intro b b' hv h
    simp only [svn_branch_instantiate_subtree_copy, Step.done.injEq] at h
    subst h; exact ⟨hv, rfl⟩
  | cons kv rest ih =>
    intro b b' hv h
    obtain ⟨e, n⟩ := kv
    simp only [svn_branch_instantiate_subtree_copy] at h
    split at h
    · cases hb1 : branch_map_set f b e (some n) with
      | done b1 =>
        rw [hb1] at h
        obtain ⟨hv1, hs1⟩ := set_preserves_valid hv hb1
        obtain ⟨hv2, hs2⟩ := ih b1 b' hv1 h
        exact ⟨hv2, hs2.trans hs1⟩
      | malfunction x => rw [hb1] at h; cases h
      | out_of_fuel => rw [hb1] at h; cases h
    · exact ih b b' hv h

theorem instantiate_preserves_valid {f : svn_branch_family_t}
    {b b' : svn_branch_instance_t} {p : Int} {name : Option String}
    {t t' : svn_branch_subtree_t} (hv : BranchValid f b)
    (h : svn_branch_instantiate_subtree f b p name t = Step.done (b', t')) :
    BranchValid f b' ∧ b'.sibling_defn = b.sibling_defn := by
  unfold svn_branch_instantiate_subtree at h
  split at h
  · cases h
  · rename_i root_content _
    simp only at h
    have hw : ∀ b1,
        (if root_content.content.isSome = true then
            svn_branch_map_update f b t.root_eid p name root_content.content
          else svn_branch_map_update_as_subbranch_root f b t.root_eid p name) = Step.done b1 →
        BranchValid f b1 ∧ b1.sibling_defn = b.sibling_defn := by
      intro b1 hb1
      split at hb1
      · exact update_preserves_valid hv hb1
      · exact update_as_subbranch_root_preserves_valid hv hb1
    split at h
    · cases h
    · cases h
    · rename_i b1 hb1
      obtain ⟨hv1, hs1⟩ := hw b1 hb1
      split at h
      · cases h
      · cases h
      · rename_i m hm
        split at h
        · rename_i b2 hb2
          simp only [Step.done.injEq, Prod.mk.injEq] at h
          obtain ⟨rfl, _⟩ := h
          obtain ⟨hv2, hs2⟩ := instantiate_copy_preserves_valid _ m b1 b2 hv1 hb2
          exact ⟨hv2, hs2.trans hs1⟩
        · cases h
        · cases h

theorem reachable_valid {s : svn_branch_family_t × svn_branch_instance_t}
    (h : Reachable s) : BranchValid s.1 s.2 := by
  induction h with
  | init f b he =>
    refine ⟨?_, ?_⟩
    · show NodupKeys b.e_map
      rw [he]; exact List.nodup_nil
    · intro e n hm
      have hm' : (e, n) ∈ b.e_map := hm
      rw [he] at hm'; cases hm'
  | alloc f b _ ih =>
    exact @branchValid_mono f (svn_branch_family_add_new_element f).1 rfl
      (by simp [svn_branch_family_add_new_element]) b ih
  | update f b b' eid p name c _ h ih => exact (update_preserves_valid ih h).1
  | update_as_subbranch_root f b b' eid p name _ h ih =>
    exact (update_as_subbranch_root_preserves_valid ih h).1
  | delete f b b' eid _ h ih => exact (delete_preserves_valid ih h).1
  | add_subtree f b s' fuel to_eid p name t _ h ih =>
    exact (add_subtree_preserves_valid fuel (f, b) to_eid p name t s' ih h).1
  | instantiate_subtree f b b' p name t t' _ h ih =>
    exact (instantiate_preserves_valid ih h).1

theorem reachable_cycle_pair : Reachable (family_of 0 3, branch_of cycle_pair) :=
  Reachable.update (family_of 0 3) (branch_of [(1, el 2 "a")]) (branch_of cycle_pair)
    2 1 (some "b") (some payload0)
    (Reachable.update (family_of 0 3) (branch_of []) (branch_of [(1, el 2 "a")])
      1 2 (some "a") (some payload0) (Reachable.init _ _ rfl) (by decide))
    (by decide)

theorem cycle_pair_chain : ∀ e, ChainTerminates cycle_pair 0 e → e ≠ 1 ∧ e ≠ 2 := by
  intro e h
  induction h with
  | at_root => decide
  | no_entry e hg =>
    constructor
    · rintro rfl; revert hg; decide
    · rintro rfl; revert hg; decide
  | step e n hne hg _ ih =>
    constructor
    · rintro rfl
      have h2 : svn_int_hash_get cycle_pair 1 = some (el 2 "a") := by decide
      rw [h2] at hg; cases hg
      exact ih.2 rfl
    · rintro rfl
      have h2 : svn_int_hash_get cycle_pair 2 = some (el 1 "b") := by decide
      rw [h2] at hg; cases hg
      exact ih.1 rfl

/-- C9, counterexample: from an empty map the two successful calls
`update(b, 1, 2, "a", payload)` and `update(b, 2, 1, "b", payload)` reach a map in which
following `parent_eid` from element 1 never arrives at the root EID or at an EID without
entry. -/
theorem reachable_map_with_cycle :
    Reachable (family_of 0 3, branch_of cycle_pair)
    ∧ (1, el 2 "a") ∈ (branch_of cycle_pair).e_map
    ∧ ¬ ChainTerminates (branch_of cycle_pair).e_map
        (branch_of cycle_pair).sibling_defn.root_eid 1 :=
  ⟨reachable_cycle_pair, by decide, fun h => (cycle_pair_chain 1 h).1 rfl⟩

/-- C9 (amended): in every state reachable from an empty element map by successful update,
update_as_subbranch_root, delete, add_subtree and instantiate_subtree calls, every entry
passes validation; in particular no non-root element is its own parent and the parent of
a non-root element is an EID of the family.  Longer parent cycles are not excluded. -/
theorem reachable_no_self_parent (s : svn_branch_family_t × svn_branch_instance_t)
    (h : Reachable s) :
    BranchValid s.1 s.2
    ∧ ∀ e n, (e, n) ∈ s.2.e_map → e ≠ s.2.sibling_defn.root_eid →
        n.parent_eid ≠ e ∧ FAMILY_HAS_ELEMENT s.1 n.parent_eid = true := by
  have hv := reachable_valid h
  refine ⟨hv, fun e n hm hne => ?_⟩
  have := validate_non_root (hv.2 e n hm).2 hne
  exact ⟨this.1, this.2.1⟩

/-- C9, witness: the amended theorem applied to the reachable state with a two-element cycle. -/
theorem reachable_no_self_parent_witness :
    Reachable (family_of 0 3, branch_of cycle_pair)
    ∧ BranchValid (family_of 0 3) (branch_of cycle_pair) :=
  ⟨reachable_cycle_pair, (reachable_no_self_parent _ reachable_cycle_pair).1⟩

theorem readline_line (line rest : List Char) (h : '\n' ∉ line) :
    svn_stream_readline (line ++ '\n' :: rest) = (line, false, rest) := by
  induction line with
  | nil => simp [svn_stream_readline]
  | cons c cs ih =>
    have hc : c ≠ '\n' := fun hc => h (by simp [hc])
    have hcs : '\n' ∉ cs := fun hm => h (List.mem_cons_of_mem _ hm)
    simp [svn_stream_readline, hc, ih hcs]

theorem scan_lit_append (l rest : List Char) : scan_lit l (l ++ rest) = some rest := by
  induction l with
  | nil => cases rest <;> rfl
  | cons c cs ih => simp [scan_lit, ih]

theorem digit_char_isdigit {d : Nat} (h : d < 10) : c_isdigit (digit_char d) = true := by
  have : d = 0 ∨ d = 1 ∨ d = 2 ∨ d = 3 ∨ d = 4 ∨ d = 5 ∨ d = 6 ∨ d = 7 ∨ d = 8 ∨ d = 9 := by
    omega
  rcases this with h | h | h | h | h | h | h | h | h | h <;> subst h <;> decide

theorem digit_char_value {d : Nat} (h : d < 10) : (digit_char d).toNat - 48 = d := by
  have : d = 0 ∨ d = 1 ∨ d = 2 ∨ d = 3 ∨ d = 4 ∨ d = 5 ∨ d = 6 ∨ d = 7 ∨ d = 8 ∨ d = 9 := by
    omega
  rcases this with h | h | h | h | h | h | h | h | h | h <;> subst h <;> decide

theorem digit_char_ne_newline {d : Nat} (h : d < 10) : digit_char d ≠ '\n' := by
  have : d = 0 ∨ d = 1 ∨ d = 2 ∨ d = 3 ∨ d = 4 ∨ d = 5 ∨ d = 6 ∨ d = 7 ∨ d = 8 ∨ d = 9 := by
    omega
  rcases this with h | h | h | h | h | h | h | h | h | h <;> subst h <;> decide

theorem scan_digits_run (l rest : List Char) (hl : AllDigits l) (hr : NoDigitAhead rest)
    (acc : Nat) : scan_digits (l ++ rest) acc = (digits_value l acc, rest) := by
  induction l generalizing acc with
  | nil =>
    cases rest with
    | nil => rfl
    | cons c cs =>
      have : c_isdigit c = false := hr
      simp [scan_digits, this, digits_value]
  | cons c cs ih =>
    have hc : c_isdigit c = true := hl c (List.mem_cons_self _ _)
    have hcs : AllDigits cs := fun x hx => hl x (List.mem_cons_of_mem _ hx)
    show scan_digits (c :: (cs ++ rest)) acc = _
    simp only [scan_digits, hc, if_true]
    rw [ih hcs]
    rfl

theorem print_nat_aux_spec : ∀ (fuel n : Nat) (acc : List Char), n < fuel →
    ∃ l, print_nat_aux fuel n acc = l ++ acc ∧ l ≠ [] ∧ AllDigits l
      ∧ ∀ a, digits_value l a = a * 10 ^ l.length + n := by
  intro fuel
  induction fuel with
  | zero => intro n acc h; omega
  | succ fuel ih =>
    intro n acc h
    simp only [print_nat_aux]
    by_cases hn : n < 10
    · rw [if_pos hn]
      refine ⟨[digit_char n], rfl, by simp, ?_, ?_⟩
      · intro c hc
        simp at hc; subst hc
        exact digit_char_isdigit hn
      · intro a
        simp [digits_value, digit_char_value hn]
        ring
    · rw [if_neg hn]
      have hlt : n / 10 < fuel := by omega
      obtain ⟨l, h1, h2, h3, h4⟩ := ih (n / 10) (digit_char (n % 10) :: acc) hlt
      have hd : n % 10 < 10 := Nat.mod_lt _ (by decide)
      refine ⟨l ++ [digit_char (n % 10)], ?_, by simp, ?_, ?_⟩
      · rw [h1]; simp
      · intro c hc
        rcases List.mem_append.1 hc with h5 | h5
        · exact h3 c h5
        · simp at h5; subst h5; exact digit_char_isdigit hd
      · intro a
        have : digits_value (l ++ [digit_char (n % 10)]) a
            = 10 * digits_value l a + ((digit_char (n % 10)).toNat - 48) := by
          simp [digits_value, List.foldl_append]
        rw [this, h4, digit_char_value hd]
        simp only [List.length_append, List.length_singleton, pow_succ]
        have := Nat.div_add_mod n 10
        nlinarith [this]

theorem print_nat_spec (n : Nat) :
    print_nat n ≠ [] ∧ AllDigits (print_nat n) ∧ digits_value (print_nat n) 0 = n := by
  obtain ⟨l, h1, h2, h3, h4⟩ := print_nat_aux_spec (n + 1) n [] (Nat.lt_succ_self n)
  have : print_nat n = l := by simp [print_nat, h1]
  rw [this]
  exact ⟨h2, h3, by simpa using h4 0⟩

theorem scan_nat_print (n : Nat) (rest : List Char) (hr : NoDigitAhead rest) :
    scan_nat (print_nat n ++ rest) = some (n, rest) := by
  obtain ⟨h1, h2, h3⟩ := print_nat_spec n
  cases hp : print_nat n with
  | nil => exact absurd hp h1
  | cons c cs =>
    have hc : c_isdigit c = true := h2 c (by rw [hp]; exact List.mem_cons_self _ _)
    simp only [List.cons_append, scan_nat, hc, if_true]
    have := scan_digits_run (c :: cs) rest (by rw [← hp]; exact h2) hr 0
    simp only [List.cons_append] at this
    rw [this, ← hp, h3]

theorem isdigit_not_space {c : Char} (h : c_isdigit c = true) : c_isspace c = false := by
  simp only [c_isdigit, Bool.and_eq_true, decide_eq_true_eq] at h
  simp only [c_isspace, Bool.or_eq_false_iff, beq_eq_false_iff_ne, ne_eq]
  refine ⟨⟨⟨⟨⟨?_, ?_⟩, ?_⟩, ?_⟩, ?_⟩, ?_⟩ <;> (rintro rfl; revert h; decide)

theorem isdigit_ne {c d : Char} (h : c_isdigit c = true) (hd : c_isdigit d = false) :
    c ≠ d := by
  rintro rfl; rw [h] at hd; cases hd

theorem scan_int_print (v : Int) (rest : List Char) (hr : NoDigitAhead rest) :
    scan_int (print_int v ++ rest) = some (v, rest) := by
  obtain ⟨h1, h2, _⟩ := print_nat_spec v.natAbs
  unfold print_int scan_int
  by_cases hv : v < 0
  · rw [if_pos hv]
    have hws : scan_ws (('-' :: print_nat v.natAbs) ++ rest)
        = '-' :: (print_nat v.natAbs ++ rest) := by
      simp [scan_ws, c_isspace]
    rw [hws]
    simp only [if_true]
    rw [scan_nat_print _ _ hr]
    simp only [Option.some.injEq, Prod.mk.injEq, and_true]
    omega
  · rw [if_neg hv]
    cases hp : print_nat v.natAbs with
    | nil => exact absurd hp h1
    | cons c cs =>
      have hc : c_isdigit c = true := h2 c (by rw [hp]; exact List.mem_cons_self _ _)
      have hws : scan_ws ((c :: cs) ++ rest) = c :: (cs ++ rest) := by
        simp [scan_ws, isdigit_not_space hc]
      rw [hws]
      have hm : c ≠ '-' := isdigit_ne hc (by decide)
      have hpl : c ≠ '+' := isdigit_ne hc (by decide)
      simp only [if_neg hm, if_neg hpl]
      have := scan_nat_print v.natAbs rest hr
      rw [hp] at this
      simp only [List.cons_append] at this
      rw [this]
      simp only [Option.some.injEq, Prod.mk.injEq, and_true]
      omega

theorem print_int_no_newline (v : Int) : '\n' ∉ print_int v := by
  obtain ⟨_, h2, _⟩ := print_nat_spec v.natAbs
  have hd : ∀ c ∈ print_nat v.natAbs, c ≠ '\n' := by
    intro c hc
    exact isdigit_ne (h2 c hc) (by decide)
  unfold print_int
  split
  · intro hm
    rcases List.mem_cons.1 hm with h | h
    · revert h; decide
    · exact hd _ h rfl
  · intro hm; exact hd _ hm rfl

/-- The text of `%d` starts with a character that is not white space. -/
theorem scan_ws_print_int (v : Int) (rest : List Char) :
    scan_ws (print_int v ++ rest) = print_int v ++ rest := by
  obtain ⟨h1, h2, _⟩ := print_nat_spec v.natAbs
  unfold print_int
  split
  · simp [scan_ws, c_isspace]
  · cases hp : print_nat v.natAbs with
    | nil => exact absurd hp h1
    | cons c cs =>
      have hc : c_isdigit c = true := h2 c (by rw [hp]; exact List.mem_cons_self _ _)
      simp [scan_ws, isdigit_not_space hc]

theorem scan_element_line_spec (bsid eid parent : Int) (rest : List Char)
    (hr : NoDigitAhead rest) :
    scan_element_line
        ('b' :: (print_int bsid ++ 'e' :: (print_int eid ++ ':' :: ' ' ::
          (print_int parent ++ rest))))
      = some (bsid, eid, parent, rest) := by
  unfold scan_element_line
  have h1 : scan_lit ['b'] ('b' :: (print_int bsid ++ 'e' :: (print_int eid ++ ':' :: ' ' ::
      (print_int parent ++ rest))))
      = some (print_int bsid ++ 'e' :: (print_int eid ++ ':' :: ' ' ::
          (print_int parent ++ rest))) := scan_lit_append ['b'] _
  have h2 := scan_int_print bsid ('e' :: (print_int eid ++ ':' :: ' ' ::
      (print_int parent ++ rest))) (by show c_isdigit 'e' = false; decide)
  have h3 : scan_lit ['e'] ('e' :: (print_int eid ++ ':' :: ' ' ::
      (print_int parent ++ rest)))
      = some (print_int eid ++ ':' :: ' ' :: (print_int parent ++ rest)) :=
    scan_lit_append ['e'] _
  have h4 := scan_int_print eid (':' :: ' ' :: (print_int parent ++ rest))
    (by show c_isdigit ':' = false; decide)
  have h5 : scan_lit [':'] (':' :: ' ' :: (print_int parent ++ rest))
      = some (' ' :: (print_int parent ++ rest)) := scan_lit_append [':'] _
  have h6 : scan_ws (' ' :: (print_int parent ++ rest)) = print_int parent ++ rest := by
    rw [scan_ws]
    simp only [show c_isspace ' ' = true from by decide, if_true]
    exact scan_ws_print_int parent rest
  have h7 := scan_int_print parent rest hr
  simp only [h1, h2, h3, h4, h5, h6, h7, Option.bind_eq_bind, Option.some_bind, Option.pure_def,
    bind, pure]

theorem parse_element_line_spec (bsid eid parent : Int) (name rest : List Char)
    (hn : '\n' ∉ name) :
    parse_element_line
        ('b' :: (print_int bsid ++ 'e' :: (print_int eid ++ ':' :: ' ' ::
          (print_int parent ++ ' ' :: (name ++ '\n' :: rest)))))
      = Outcome.ok (bsid, eid, parent, decode_name name, rest) := by
  have hline : '\n' ∉ 'b' :: (print_int bsid ++ 'e' :: (print_int eid ++ ':' :: ' ' ::
      (print_int parent ++ ' ' :: name))) := by
    have a := print_int_no_newline bsid
    have b := print_int_no_newline eid
    have c := print_int_no_newline parent
    simp only [List.mem_cons, List.mem_append, not_or]
    refine ⟨by decide, a, by decide, b, by decide, by decide, c, by decide, hn⟩
  have hsplit : 'b' :: (print_int bsid ++ 'e' :: (print_int eid ++ ':' :: ' ' ::
        (print_int parent ++ ' ' :: (name ++ '\n' :: rest))))
      = ('b' :: (print_int bsid ++ 'e' :: (print_int eid ++ ':' :: ' ' ::
        (print_int parent ++ ' ' :: name)))) ++ '\n' :: rest := by
    simp [List.append_assoc]
  unfold parse_element_line
  rw [hsplit, readline_line _ _ hline]
  simp only [Bool.false_eq_true, if_false]
  rw [scan_element_line_spec bsid eid parent (' ' :: name)
    (by show c_isdigit ' ' = false; decide)]
  simp only [if_true]
  rfl

theorem scan_branch_line_spec (bsid root_eid : Int) (rest : List Char) :
    scan_branch_line
        ('b' :: (print_int bsid ++ ':' :: ' ' :: 'r' :: 'o' :: 'o' :: 't' :: '-' :: 'e' :: 'i'
          :: 'd' :: ' ' :: (print_int root_eid ++ ' ' :: 'a' :: 't' :: rest)))
      = some (bsid, root_eid, rest) := by
  unfold scan_branch_line
  have h1 : scan_lit ['b'] ('b' :: (print_int bsid ++ ':' :: ' ' :: 'r' :: 'o' :: 'o' :: 't'
      :: '-' :: 'e' :: 'i' :: 'd' :: ' ' :: (print_int root_eid ++ ' ' :: 'a' :: 't' :: rest)))
      = some (print_int bsid ++ ':' :: ' ' :: 'r' :: 'o' :: 'o' :: 't'
      :: '-' :: 'e' :: 'i' :: 'd' :: ' ' :: (print_int root_eid ++ ' ' :: 'a' :: 't' :: rest)) :=
    scan_lit_append ['b'] _
  have h2 := scan_int_print bsid (':' :: ' ' :: 'r' :: 'o' :: 'o' :: 't'
      :: '-' :: 'e' :: 'i' :: 'd' :: ' ' :: (print_int root_eid ++ ' ' :: 'a' :: 't' :: rest))
    (by show c_isdigit ':' = false; decide)
  have h3 : scan_lit [':'] (':' :: ' ' :: 'r' :: 'o' :: 'o' :: 't'
      :: '-' :: 'e' :: 'i' :: 'd' :: ' ' :: (print_int root_eid ++ ' ' :: 'a' :: 't' :: rest))
      = some (' ' :: 'r' :: 'o' :: 'o' :: 't'
      :: '-' :: 'e' :: 'i' :: 'd' :: ' ' :: (print_int root_eid ++ ' ' :: 'a' :: 't' :: rest)) :=
    scan_lit_append [':'] _
  have h4 : scan_ws (' ' :: 'r' :: 'o' :: 'o' :: 't'
      :: '-' :: 'e' :: 'i' :: 'd' :: ' ' :: (print_int root_eid ++ ' ' :: 'a' :: 't' :: rest))
      = 'r' :: 'o' :: 'o' :: 't'
      :: '-' :: 'e' :: 'i' :: 'd' :: ' ' :: (print_int root_eid ++ ' ' :: 'a' :: 't' :: rest) := by
    simp [scan_ws, c_isspace]
  have h5 : scan_lit "root-eid".data ('r' :: 'o' :: 'o' :: 't'
      :: '-' :: 'e' :: 'i' :: 'd' :: ' ' :: (print_int root_eid ++ ' ' :: 'a' :: 't' :: rest))
      = some (' ' :: (print_int root_eid ++ ' ' :: 'a' :: 't' :: rest)) :=
    scan_lit_append "root-eid".data _
  have h6 : scan_ws (' ' :: (print_int root_eid ++ ' ' :: 'a' :: 't' :: rest))
      = print_int root_eid ++ ' ' :: 'a' :: 't' :: rest := by
    rw [scan_ws]
    simp only [show c_isspace ' ' = true from by decide, if_true]
    exact scan_ws_print_int root_eid _
  have h7 := scan_int_print root_eid (' ' :: 'a' :: 't' :: rest)
    (by show c_isdigit ' ' = false; decide)
  have h8 : scan_ws (' ' :: 'a' :: 't' :: rest) = 'a' :: 't' :: rest := by
    simp [scan_ws, c_isspace]
  have h9 : scan_lit "at".data ('a' :: 't' :: rest) = some rest := scan_lit_append "at".data _
  simp only [h1, h2, h3, h4, h5, h6, h7, h8, h9, Option.bind_eq_bind, Option.some_bind,
    Option.pure_def, bind, pure]

theorem parse_branch_line_spec (bsid root_eid : Int) (path rest : List Char)
    (hn : '\n' ∉ path) :
    parse_branch_line
        ('b' :: (print_int bsid ++ ':' :: ' ' :: 'r' :: 'o' :: 'o' :: 't' :: '-' :: 'e' :: 'i'
          :: 'd' :: ' ' :: (print_int root_eid ++ ' ' :: 'a' :: 't' :: ' ' ::
            (path ++ '\n' :: rest))))
      = Outcome.ok (bsid, root_eid, decode_path path, rest) := by
  have hline : '\n' ∉ 'b' :: (print_int bsid ++ ':' :: ' ' :: 'r' :: 'o' :: 'o' :: 't' :: '-'
      :: 'e' :: 'i' :: 'd' :: ' ' :: (print_int root_eid ++ ' ' :: 'a' :: 't' :: ' ' :: path)) := by
    have a := print_int_no_newline bsid
    have b := print_int_no_newline root_eid
    simp only [List.mem_cons, List.mem_append, not_or]
    refine ⟨by decide, a, by decide, by decide, by decide, by decide, by decide, by decide,
      by decide, by decide, by decide, by decide, by decide, b, by decide, by decide, by decide,
      by decide, hn⟩
  have hsplit : 'b' :: (print_int bsid ++ ':' :: ' ' :: 'r' :: 'o' :: 'o' :: 't' :: '-' :: 'e'
        :: 'i' :: 'd' :: ' ' :: (print_int root_eid ++ ' ' :: 'a' :: 't' :: ' ' ::
            (path ++ '\n' :: rest)))
      = ('b' :: (print_int bsid ++ ':' :: ' ' :: 'r' :: 'o' :: 'o' :: 't' :: '-'
      :: 'e' :: 'i' :: 'd' :: ' ' :: (print_int root_eid ++ ' ' :: 'a' :: 't' :: ' ' :: path)))
        ++ '\n' :: rest := by
    simp [List.append_assoc]
  unfold parse_branch_line
  rw [hsplit, readline_line _ _ hline]
  simp only [Bool.false_eq_true, if_false]
  rw [scan_branch_line_spec bsid root_eid (' ' :: path)]
  simp only [if_true]
  rfl

theorem scan_ws_space_int (v : Int) (rest : List Char) :
    scan_ws (' ' :: (print_int v ++ rest)) = print_int v ++ rest := by
  rw [scan_ws]
  simp only [show c_isspace ' ' = true from by decide, if_true]
  exact scan_ws_print_int v rest

theorem scan_family_line_spec (a b c d n : Int) :
    scan_family_line
        ("family:".data ++ ' ' :: ("bsids".data ++ ' ' :: (print_int a ++ ' ' :: (print_int b
          ++ ' ' :: ("eids".data ++ ' ' :: (print_int c ++ ' ' :: (print_int d
          ++ ' ' :: ("b-instances".data ++ ' ' :: print_int n))))))))
      = some (a, b, c, d, n) := by
  unfold scan_family_line
  have h1 := scan_lit_append "family:".data (' ' :: ("bsids".data ++ ' ' :: (print_int a
    ++ ' ' :: (print_int b ++ ' ' :: ("eids".data ++ ' ' :: (print_int c ++ ' ' :: (print_int d
          ++ ' ' :: ("b-instances".data ++ ' ' :: print_int n))))))))
  have h2 : scan_ws (' ' :: ("bsids".data ++ ' ' :: (print_int a
    ++ ' ' :: (print_int b ++ ' ' :: ("eids".data ++ ' ' :: (print_int c ++ ' ' :: (print_int d
          ++ ' ' :: ("b-instances".data ++ ' ' :: print_int n))))))))
      = "bsids".data ++ ' ' :: (print_int a
    ++ ' ' :: (print_int b ++ ' ' :: ("eids".data ++ ' ' :: (print_int c ++ ' ' :: (print_int d
          ++ ' ' :: ("b-instances".data ++ ' ' :: print_int n)))))) := by
    show scan_ws (' ' :: 'b' :: _) = _
    simp [scan_ws, c_isspace]
  have h3 := scan_lit_append "bsids".data (' ' :: (print_int a
    ++ ' ' :: (print_int b ++ ' ' :: ("eids".data ++ ' ' :: (print_int c ++ ' ' :: (print_int d
          ++ ' ' :: ("b-instances".data ++ ' ' :: print_int n)))))))
  have h4 := scan_ws_space_int a (' ' :: (print_int b ++ ' ' :: ("eids".data ++ ' ' ::
    (print_int c ++ ' ' :: (print_int d ++ ' ' :: ("b-instances".data ++ ' ' :: print_int n))))))
  have h5 := scan_int_print a (' ' :: (print_int b ++ ' ' :: ("eids".data ++ ' ' ::
    (print_int c ++ ' ' :: (print_int d ++ ' ' :: ("b-instances".data ++ ' ' :: print_int n))))))
    (by show c_isdigit ' ' = false; decide)
  have h6 := scan_ws_space_int b (' ' :: ("eids".data ++ ' ' ::
    (print_int c ++ ' ' :: (print_int d ++ ' ' :: ("b-instances".data ++ ' ' :: print_int n)))))
  have h7 := scan_int_print b (' ' :: ("eids".data ++ ' ' ::
    (print_int c ++ ' ' :: (print_int d ++ ' ' :: ("b-instances".data ++ ' ' :: print_int n)))))
    (by show c_isdigit ' ' = false; decide)
  have h8 : scan_ws (' ' :: ("eids".data ++ ' ' ::
    (print_int c ++ ' ' :: (print_int d ++ ' ' :: ("b-instances".data ++ ' ' :: print_int n)))))
      = "eids".data ++ ' ' ::
    (print_int c ++ ' ' :: (print_int d ++ ' ' :: ("b-instances".data ++ ' ' :: print_int n))) := by
    show scan_ws (' ' :: 'e' :: _) = _
    simp [scan_ws, c_isspace]
  have h9 := scan_lit_append "eids".data (' ' ::
    (print_int c ++ ' ' :: (print_int d ++ ' ' :: ("b-instances".data ++ ' ' :: print_int n))))
  have h10 := scan_ws_space_int c (' ' :: (print_int d ++ ' ' ::
    ("b-instances".data ++ ' ' :: print_int n)))
  have h11 := scan_int_print c (' ' :: (print_int d ++ ' ' ::
    ("b-instances".data ++ ' ' :: print_int n))) (by show c_isdigit ' ' = false; decide)
  have h12 := scan_ws_space_int d (' ' :: ("b-instances".data ++ ' ' :: print_int n))
  have h13 := scan_int_print d (' ' :: ("b-instances".data ++ ' ' :: print_int n))
    (by show c_isdigit ' ' = false; decide)
  have h14 : scan_ws (' ' :: ("b-instances".data ++ ' ' :: print_int n))
      = "b-instances".data ++ ' ' :: print_int n := by
    show scan_ws (' ' :: 'b' :: _) = _
    simp [scan_ws, c_isspace]
  have h15 := scan_lit_append "b-instances".data (' ' :: print_int n)
  have h16 : scan_ws (' ' :: print_int n) = print_int n := by
    have := scan_ws_space_int n []
    simpa using this
  have h17 : scan_int (print_int n) = some (n, []) := by
    have := scan_int_print n [] trivial
    simpa using this
  simp only [h1, h2, h3, h4, h5, h6, h7, h8, h9, h10, h11, h12, h13, h14, h15, h16, h17,
    Option.bind_eq_bind, Option.some_bind, Option.pure_def, bind, pure]

theorem family_line_shape (a b c d n : Int) (text : List Char) :
    "family: bsids ".data ++ print_int a ++ [' '] ++ print_int b ++ " eids ".data
        ++ print_int c ++ [' '] ++ print_int d ++ " b-instances ".data ++ print_int n
        ++ ['\n'] ++ text
      = ("family:".data ++ ' ' :: ("bsids".data ++ ' ' :: (print_int a ++ ' ' :: (print_int b
          ++ ' ' :: ("eids".data ++ ' ' :: (print_int c ++ ' ' :: (print_int d
          ++ ' ' :: ("b-instances".data ++ ' ' :: print_int n)))))))) ++ '\n' :: text := by
  have e1 : "family: bsids ".data = "family:".data ++ ' ' :: ("bsids".data ++ [' ']) := by
    decide
  have e2 : " eids ".data = ' ' :: ("eids".data ++ [' ']) := by decide
  have e3 : " b-instances ".data = ' ' :: ("b-instances".data ++ [' ']) := by decide
  rw [e1, e2, e3]
  simp [List.append_assoc]

theorem family_line_no_newline (a b c d n : Int) :
    '\n' ∉ "family:".data ++ ' ' :: ("bsids".data ++ ' ' :: (print_int a ++ ' ' :: (print_int b
          ++ ' ' :: ("eids".data ++ ' ' :: (print_int c ++ ' ' :: (print_int d
          ++ ' ' :: ("b-instances".data ++ ' ' :: print_int n))))))) := by
  have ha := print_int_no_newline a
  have hb := print_int_no_newline b
  have hc := print_int_no_newline c
  have hd := print_int_no_newline d
  have hn := print_int_no_newline n
  have h1 : '\n' ∉ "family:".data := by decide
  have h2 : '\n' ∉ "bsids".data := by decide
  have h3 : '\n' ∉ "eids".data := by decide
  have h4 : '\n' ∉ "b-instances".data := by decide
  simp only [List.mem_cons, List.mem_append, not_or]
  exact ⟨by decide, by decide, by decide, by decide, ha, by decide, hb, by decide, by decide,
    by decide, hc, by decide, hd, by decide, by decide, by decide, hn⟩

/-- Parsing the family line into a repository that has no family yet. -/
theorem family_parse_spec (f : svn_branch_family_t) (n : Int) (text : List Char) :
    svn_branch_family_parse svn_branch_repos_create
        ("family: bsids ".data ++ print_int f.first_bsid ++ [' '] ++ print_int f.next_bsid
          ++ " eids ".data ++ print_int f.first_eid ++ [' '] ++ print_int f.next_eid
          ++ " b-instances ".data ++ print_int n ++ ['\n'] ++ text)
      = Outcome.ok (svn_branch_family_create f.first_bsid f.next_bsid f.first_eid f.next_eid,
          n, text) := by
  rw [family_line_shape]
  unfold svn_branch_family_parse
  rw [readline_line _ _ (family_line_no_newline _ _ _ _ _)]
  simp only [Bool.false_eq_true, if_false]
  rw [scan_family_line_spec]
  rfl

theorem rev_line_spec (rev : Int) (text : List Char) :
    svn_stream_readline (['r'] ++ print_int rev ++ ":\n".data ++ text)
        = ('r' :: (print_int rev ++ [':']), false, text)
    ∧ scan_lit ['r'] ('r' :: (print_int rev ++ [':'])) = some (print_int rev ++ [':'])
    ∧ scan_int (print_int rev ++ [':']) = some (rev, [':']) := by
  refine ⟨?_, scan_lit_append ['r'] _, scan_int_print rev [':'] (by
    show c_isdigit ':' = false; decide)⟩
  have e : ['r'] ++ print_int rev ++ ":\n".data ++ text
      = ('r' :: (print_int rev ++ [':'])) ++ '\n' :: text := by
    have : ":\n".data = [':', '\n'] := by decide
    rw [this]; simp [List.append_assoc]
  rw [e]
  apply readline_line
  have := print_int_no_newline rev
  simp only [List.mem_cons, List.mem_append, not_or, List.mem_nil_iff, or_false]
  exact ⟨by decide, this, by decide⟩

theorem sameSkeleton_refl (m : EMap) : SameSkeleton m m := fun _ => rfl

theorem sameSkeleton_get {m m' : EMap} (h : SameSkeleton m m') (e : Int) :
    (svn_int_hash_get m e = none → svn_int_hash_get m' e = none)
    ∧ (∀ n, svn_int_hash_get m e = some n →
        ∃ n', svn_int_hash_get m' e = some n' ∧ n'.parent_eid = n.parent_eid
          ∧ n'.name = n.name) := by
  have := h e
  constructor
  · intro hn
    rw [hn] at this
    cases hg : svn_int_hash_get m' e with
    | none => rfl
    | some x => rw [hg] at this; simp at this
  · intro n hn
    rw [hn] at this
    cases hg : svn_int_hash_get m' e with
    | none => rw [hg] at this; simp at this
    | some x =>
      rw [hg] at this
      simp only [Option.map_some', Option.some.injEq, Prod.mk.injEq] at this
      exact ⟨x, rfl, this.1, this.2⟩

theorem family_has_congr {g g' : svn_branch_family_t} (h1 : g'.first_eid = g.first_eid)
    (h2 : g'.next_eid = g.next_eid) (e : Int) :
    FAMILY_HAS_ELEMENT g' e = FAMILY_HAS_ELEMENT g e := by
  simp only [FAMILY_HAS_ELEMENT, h1, h2]

/-- The path loop only looks at the family range, the root EID and the skeleton of the map. -/
theorem path_loop_congr {g g' : svn_branch_family_t} {b b' : svn_branch_instance_t}
    (h1 : g'.first_eid = g.first_eid) (h2 : g'.next_eid = g.next_eid)
    (hr : b'.sibling_defn.root_eid = b.sibling_defn.root_eid)
    (hs : SameSkeleton b.e_map b'.e_map) (hv : BranchValid g b) (hv' : BranchValid g' b') :
    ∀ (fuel : Nat) (e : Int) (acc : String), FAMILY_HAS_ELEMENT g e = true →
    svn_branch_get_path_by_eid_loop g' b' fuel e acc
      = svn_branch_get_path_by_eid_loop g b fuel e acc := by
  intro fuel
  induction fuel with
  | zero => intro e acc _; rfl
  | succ fuel ih =>
    intro e acc he
    have he' : FAMILY_HAS_ELEMENT g' e = true := by rw [family_has_congr h1 h2]; exact he
    rw [path_loop_succ hv he, path_loop_succ hv' he', hr]
    by_cases hroot : e = b.sibling_defn.root_eid
    · rw [if_pos hroot, if_pos hroot]
    · rw [if_neg hroot, if_neg hroot]
      obtain ⟨hnone, hsome⟩ := sameSkeleton_get hs e
      cases hg : svn_int_hash_get b.e_map e with
      | none => rw [hnone hg]
      | some n =>
        obtain ⟨n', hn', hp, hname⟩ := hsome n hg
        rw [hn']
        simp only [hp, hname]
        exact ih _ _ (validate_non_root (hv.2 e n (mem_of_get hg)).2 hroot).2.1

theorem path_by_eid_congr {g g' : svn_branch_family_t} {b b' : svn_branch_instance_t}
    (h1 : g'.first_eid = g.first_eid) (h2 : g'.next_eid = g.next_eid)
    (hr : b'.sibling_defn.root_eid = b.sibling_defn.root_eid)
    (hs : SameSkeleton b.e_map b'.e_map) (hv : BranchValid g b) (hv' : BranchValid g' b')
    (fuel : Nat) (e : Int) :
    svn_branch_get_path_by_eid g' b' fuel e = svn_branch_get_path_by_eid g b fuel e := by
  unfold svn_branch_get_path_by_eid
  rw [family_has_congr h1 h2]
  by_cases he : FAMILY_HAS_ELEMENT g e = true
  · rw [if_pos he, if_pos he]
    exact path_loop_congr h1 h2 hr hs hv hv' fuel e "" he
  · rw [if_neg he, if_neg he]

theorem root_rrpath_congr {g g' : svn_branch_family_t} {S S' : List svn_branch_instance_t}
    (h1 : g'.first_eid = g.first_eid) (h2 : g'.next_eid = g.next_eid)
    (hS : StoreImage g' S S') (hvS : ∀ a b, S.get? a = some b → BranchValid g b)
    (hord : OuterBefore S) :
    ∀ (fuel : Nat) (b b' : svn_branch_instance_t),
    b'.outer_branch = b.outer_branch → b'.outer_eid = b.outer_eid →
    (∀ o, b.outer_branch = some o → o < S'.length) →
    svn_branch_get_root_rrpath g' S' fuel b' = svn_branch_get_root_rrpath g S fuel b := by
  intro fuel
  induction fuel with
  | zero => intro b b' _ _ _; rfl
  | succ fuel ih =>
    intro b b' ho he hlen
    simp only [svn_branch_get_root_rrpath]
    rw [ho, he]
    cases hob : b.outer_branch with
    | none => rfl
    | some o =>
      simp only
      have hlt := hlen o hob
      obtain ⟨ob', hob'⟩ : ∃ ob', S'.get? o = some ob' := by
        cases h : S'.get? o with
        | none => rw [List.get?_eq_none] at h; omega
        | some x => exact ⟨x, rfl⟩
      obtain ⟨ob, hobS, himg⟩ := hS o ob' hob'
      rw [hob', hobS]
      simp only
      rw [path_by_eid_congr h1 h2 (by rw [himg.1]) himg.2.2.2.1 (hvS o ob hobS) himg.2.2.2.2]
      rw [ih ob ob' himg.2.1 himg.2.2.1 (fun o2 ho2 => by
        have := hord o ob o2 hobS ho2
        omega)]

theorem rootPath_unique {S : List svn_branch_instance_t} {b : svn_branch_instance_t}
    {R : String} (h : RootPath S b R) : ∀ R', RootPath S b R' → R = R' := by
  induction h with
  | top b hb =>
    intro R' h'
    cases h' with
    | top _ _ => rfl
    | nested _ o ob p R2 ho _ _ _ => rw [hb] at ho; cases ho
  | nested b o ob p R ho hob hp _ ih =>
    intro R' h'
    cases h' with
    | top _ hb => rw [hb] at ho; cases ho
    | nested _ o2 ob2 p2 R2 ho2 hob2 hp2 hR2 =>
      rw [ho] at ho2; cases ho2
      rw [hob] at hob2; cases hob2
      rw [pathTo_unique hp p2 hp2, ih R2 hR2]

theorem root_rrpath_sound {g : svn_branch_family_t} {S : List svn_branch_instance_t}
    (hvS : ∀ a b, S.get? a = some b → BranchValid g b) :
    ∀ (fuel : Nat) (b : svn_branch_instance_t) (R : String),
    svn_branch_get_root_rrpath g S fuel b = Outcome.ok R → RootPath S b R := by
  intro fuel
  induction fuel with
  | zero => intro b R h; simp [svn_branch_get_root_rrpath] at h
  | succ fuel ih =>
    intro b R h
    simp only [svn_branch_get_root_rrpath] at h
    cases hob : b.outer_branch with
    | none =>
      rw [hob] at h
      simp only [Outcome.ok.injEq] at h
      subst h
      exact RootPath.top b hob
    | some o =>
      rw [hob] at h
      simp only at h
      cases hS : S.get? o with
      | none => rw [hS] at h; cases h
      | some ob =>
        rw [hS] at h
        simp only at h
        cases hp : svn_branch_get_path_by_eid g ob fuel b.outer_eid with
        | malfunction => rw [hp] at h; cases h
        | out_of_fuel => rw [hp] at h; cases h
        | ok res =>
          rw [hp] at h
          cases res with
          | none => cases h
          | some p =>
            simp only at h
            cases hr : svn_branch_get_root_rrpath g S fuel ob with
            | malfunction => rw [hr] at h; cases h
            | out_of_fuel => rw [hr] at h; cases h
            | ok R0 =>
              rw [hr] at h
              simp only [Outcome.ok.injEq] at h
              subst h
              have hfam := pathByEid_family ⟨fuel, hp⟩
              exact RootPath.nested b o ob p R0 hob hS
                ((pathByEid_some_iff (hvS o ob hS) hfam p).1 ⟨fuel, hp⟩) (ih ob R0 hr)

theorem root_rrpath_complete {g : svn_branch_family_t} {S : List svn_branch_instance_t}
    (hvS : ∀ a b, S.get? a = some b → BranchValid g b)
    (hinv : ∀ a b, S.get? a = some b → assert_branch_instance_invariants g b = true)
    {b : svn_branch_instance_t} {R : String} (h : RootPath S b R) :
    assert_branch_instance_invariants g b = true →
    ∃ K, ∀ fuel, K ≤ fuel → svn_branch_get_root_rrpath g S fuel b = Outcome.ok R := by
  induction h with
  | top b hb =>
    intro _
    refine ⟨1, fun fuel hf => ?_⟩
    obtain ⟨k, rfl⟩ : ∃ k, fuel = k + 1 := ⟨fuel - 1, by omega⟩
    simp [svn_branch_get_root_rrpath, hb]
  | nested b o ob p R ho hob hp _ ih =>
    intro hb
    have hfam : FAMILY_HAS_ELEMENT g b.outer_eid = true := by
      simp only [assert_branch_instance_invariants, ho, Bool.and_eq_true] at hb
      exact hb.2
    obtain ⟨K1, hK1⟩ := ih (hinv o ob hob)
    obtain ⟨K2, hK2⟩ := path_loop_of_pathTo (hvS o ob hob) hp hfam
    refine ⟨max K1 K2 + 1, fun fuel hf => ?_⟩
    obtain ⟨k, rfl⟩ : ∃ k, fuel = k + 1 := ⟨fuel - 1, by omega⟩
    have hk1 : K1 ≤ k := by have := le_max_left K1 K2; omega
    have hk2 : K2 ≤ k := by have := le_max_right K1 K2; omega
    simp only [svn_branch_get_root_rrpath, ho, hob]
    rw [path_by_eid_eq_loop hfam, hK2 k hk2, join_empty_right]
    simp only
    rw [hK1 k hk1]

theorem keys_have_path {g : svn_branch_family_t} {b : svn_branch_instance_t}
    (hv : BranchValid g b) (hno : NoOrphanEntry b.sibling_defn.root_eid b.e_map)
    (hac : ∀ e n, (e, n) ∈ b.e_map → ChainTerminates b.e_map b.sibling_defn.root_eid e) :
    ∀ e n, (e, n) ∈ b.e_map → ∃ P, PathTo b e P := by
  intro e n hm
  exact pathTo_after_purge hv (List.Sublist.refl _) hno (hac e n hm) n hm

theorem uniform_of_list {α : Type} (Q : Nat → α → Prop) :
    ∀ (l : List α), (∀ x ∈ l, ∃ K, ∀ fuel, K ≤ fuel → Q fuel x) →
    ∃ K, ∀ fuel, K ≤ fuel → ∀ x ∈ l, Q fuel x := by
  intro l
  induction l with
  | nil => intro _; exact ⟨0, fun _ _ x hx => by cases hx⟩
  | cons a l ih =>
    intro h
    obtain ⟨K1, hK1⟩ := h a (List.mem_cons_self _ _)
    obtain ⟨K2, hK2⟩ := ih (fun x hx => h x (List.mem_cons_of_mem _ hx))
    refine ⟨max K1 K2, fun fuel hf x hx => ?_⟩
    rcases List.mem_cons.1 hx with h1 | h1
    · subst h1; exact hK1 fuel (le_trans (le_max_left _ _) hf)
    · exact hK2 fuel (le_trans (le_max_right _ _) hf) x h1

theorem strip_parent_append (l rest : List Char) : strip_parent l (l ++ rest) = some rest := by
  induction l with
  | nil => cases rest <;> rfl
  | cons c cs ih => simp [strip_parent, ih]

/-- The part of `join(R, p)` below `R` is `p`. -/
theorem skip_ancestor_join (R p : String) :
    svn_relpath_skip_ancestor R (svn_relpath_join R p) = some p := by
  unfold svn_relpath_skip_ancestor
  by_cases hR : R = ""
  · rw [if_pos hR, hR, join_empty_left]
  · rw [if_neg hR]
    by_cases hp : p = ""
    · subst hp
      rw [join_empty_right]
      have := strip_parent_append R.data []
      simp only [List.append_nil] at this
      rw [this]
    · rw [join_of_ne hR hp]
      have hd : (R ++ "/" ++ p).data = R.data ++ '/' :: p.data := by
        simp [String.data_append]
      rw [hd, strip_parent_append]
      simp

theorem chain_le {S : List svn_branch_instance_t} (hord : OuterBefore S) {c o : Nat}
    (h : OuterChain S c o) : c ≤ o := by
  induction h with
  | refl o => exact le_refl _
  | step c d o b hd hb _ ih =>
    have := hord d b c hd hb
    omega

theorem chain_join {S : List svn_branch_instance_t}
    (hex : ∀ a b, S.get? a = some b → ∃ R, RootPath S b R) {c o : Nat}
    (h : OuterChain S c o) :
    ∀ bc bo Rc Ro, S.get? c = some bc → S.get? o = some bo → RootPath S bc Rc →
      RootPath S bo Ro → ∃ q, Ro = svn_relpath_join Rc q := by
  induction h with
  | refl o =>
    intro bc bo Rc Ro hc ho hRc hRo
    rw [hc] at ho; cases ho
    exact ⟨"", by rw [join_empty_right]; exact rootPath_unique hRo Rc hRc⟩
  | step c d o bd hd hbd _ ih =>
    intro bc bo Rc Ro hc ho hRc hRo
    obtain ⟨Rd, hRd⟩ := hex d bd hd
    obtain ⟨q, hq⟩ := ih bd bo Rd Ro hd ho hRd hRo
    cases hRd with
    | top _ hb => rw [hb] at hbd; cases hbd
    | nested _ o2 ob2 p2 R2 ho2 hob2 hp2 hR2 =>
      rw [hbd] at ho2; cases ho2
      rw [hc] at hob2; cases hob2
      have := rootPath_unique hR2 Rc hRc
      subst this
      exact ⟨svn_relpath_join p2 q, by rw [hq, join_assoc]⟩

theorem find_first_none {α : Type} (g : Nat → Outcome (Option α)) :
    ∀ (l : List Nat), (∀ s ∈ l, g s = Outcome.ok none) →
    find_first_sub_branch g l = Outcome.ok none := by
  intro l
  induction l with
  | nil => intro _; rfl
  | cons s l ih =>
    intro h
    simp only [find_first_sub_branch, h s (List.mem_cons_self _ _)]
    exact ih (fun x hx => h x (List.mem_cons_of_mem _ hx))

theorem find_first_some {α : Type} (g : Nat → Outcome (Option α)) (x : α) :
    ∀ (l : List Nat), (∀ s ∈ l, g s = Outcome.ok none ∨ g s = Outcome.ok (some x)) →
    (∃ s ∈ l, g s = Outcome.ok (some x)) →
    find_first_sub_branch g l = Outcome.ok (some x) := by
  intro l
  induction l with
  | nil => rintro _ ⟨s, hs, _⟩; cases hs
  | cons s l ih =>
    intro h hex
    rcases h s (List.mem_cons_self _ _) with h1 | h1
    · simp only [find_first_sub_branch, h1]
      apply ih (fun x hx => h x (List.mem_cons_of_mem _ hx))
      obtain ⟨t, ht, hgt⟩ := hex
      rcases List.mem_cons.1 ht with h2 | h2
      · subst h2; rw [h1] at hgt; cases hgt
      · exact ⟨t, h2, hgt⟩
    · simp only [find_first_sub_branch, h1]

/-- The scan finds the only key that has the path. -/
theorem eid_by_path_unique_key {g : svn_branch_family_t} {b : svn_branch_instance_t}
    (hv : BranchValid g b) (fuel : Nat) (p : String) (e0 : Int)
    (n0 : svn_branch_el_rev_content_t) (hkey : (e0, n0) ∈ b.e_map)
    (htot : ∀ e n, (e, n) ∈ b.e_map →
      ∃ q, svn_branch_get_path_by_eid g b fuel e = Outcome.ok (some q))
    (hp0 : svn_branch_get_path_by_eid g b fuel e0 = Outcome.ok (some p))
    (huniq : ∀ e n, (e, n) ∈ b.e_map → PathTo b e p → e = e0) :
    svn_branch_get_eid_by_path g b fuel p = Outcome.ok e0 := by
  obtain ⟨r, hr⟩ := eid_scan_total g b fuel p b.e_map
    (fun e n hm => by obtain ⟨q, hq⟩ := htot e n hm; exact ⟨some q, hq⟩)
  have hr' : svn_branch_get_eid_by_path g b fuel p = Outcome.ok r := hr
  rw [hr']
  rcases eid_scan_sound g b fuel p b.e_map r hr with ⟨n, hn, hpr⟩ | ⟨_, hall⟩
  · have hfam := (hv.2 r n hn).1
    have := huniq r n hn ((pathByEid_some_iff hv hfam p).1 ⟨fuel, hpr⟩)
    rw [this]
  · obtain ⟨res, hres, hne⟩ := hall e0 n0 hkey
    rw [hp0] at hres
    cases hres
    exact absurd rfl hne

theorem ready_outerBefore {f : svn_branch_family_t} {r : svn_branch_revision_root_t}
    (h : RoundTripReady f r) : OuterBefore r.store := by
  intro i b o hb ho
  rcases Nat.eq_zero_or_pos i with h0 | h0
  · subst h0
    rw [h.top_level b hb] at ho; cases ho
  · obtain ⟨o', ho', hlt⟩ := h.nested i b h0 hb
    rw [ho] at ho'; cases ho'; exact hlt

theorem get_of_lt {α : Type} {l : List α} {i : Nat} (h : i < l.length) :
    ∃ x, l.get? i = some x := by
  cases hg : l.get? i with
  | none => rw [List.get?_eq_none] at hg; omega
  | some x => exact ⟨x, rfl⟩

theorem lt_of_get {α : Type} {l : List α} {i : Nat} {x : α} (h : l.get? i = some x) :
    i < l.length := by
  by_contra hc
  have : l.get? i = none := List.get?_eq_none.2 (by omega)
  rw [this] at h; cases h

theorem ready_rootPath_exists {f : svn_branch_family_t} {r : svn_branch_revision_root_t}
    (h : RoundTripReady f r) : ∀ i b, r.store.get? i = some b → ∃ R, RootPath r.store b R := by
  intro i
  induction i using Nat.strong_induction_on with
  | _ i ih =>
    intro b hb
    cases ho : b.outer_branch with
    | none => exact ⟨"", RootPath.top b ho⟩
    | some o =>
      have hlt := ready_outerBefore h i b o hb ho
      obtain ⟨ob, hob⟩ := get_of_lt (lt_trans hlt (lt_of_get hb))
      obtain ⟨R, hR⟩ := ih o hlt ob hob
      obtain ⟨_, ⟨n, hn⟩, _⟩ := h.anchor i b o ob hb ho hob
      obtain ⟨p, hp⟩ := keys_have_path (h.valid o ob hob) (h.no_orphans o ob hob)
        (h.acyclic o ob hob) b.outer_eid n hn
      exact ⟨_, RootPath.nested b o ob p R ho hob hp hR⟩

theorem exists_fuelEnough {f : svn_branch_family_t} {r : svn_branch_revision_root_t}
    (h : RoundTripReady f r) : ∃ K0, FuelEnough f r.store K0 := by
  have hroot : ∀ b ∈ r.store, ∃ K, ∀ fuel, K ≤ fuel →
      ∃ R, svn_branch_get_root_rrpath f r.store fuel b = Outcome.ok R := by
    intro b hb
    obtain ⟨i, hi⟩ := List.mem_iff_get?.1 hb
    obtain ⟨R, hR⟩ := ready_rootPath_exists h i b hi
    obtain ⟨K, hK⟩ := root_rrpath_complete h.valid h.invariants hR (h.invariants i b hi)
    exact ⟨K, fun fuel hf => ⟨R, hK fuel hf⟩⟩
  have hpath : ∀ b ∈ r.store, ∃ K, ∀ fuel, K ≤ fuel → ∀ e n, (e, n) ∈ b.e_map →
      ∃ p, svn_branch_get_path_by_eid f b fuel e = Outcome.ok (some p) := by
    intro b hb
    obtain ⟨i, hi⟩ := List.mem_iff_get?.1 hb
    have hv := h.valid i b hi
    have hkeys : ∀ kv ∈ b.e_map, ∃ K, ∀ fuel, K ≤ fuel →
        ∃ p, svn_branch_get_path_by_eid f b fuel kv.1 = Outcome.ok (some p) := by
      rintro ⟨e, n⟩ hm
      obtain ⟨P, hP⟩ := keys_have_path hv (h.no_orphans i b hi) (h.acyclic i b hi) e n hm
      have he := (hv.2 e n hm).1
      obtain ⟨K, hK⟩ := path_loop_of_pathTo hv hP he
      exact ⟨K, fun fuel hf => ⟨P, by
        rw [path_by_eid_eq_loop he, hK fuel hf, join_empty_right]⟩⟩
    obtain ⟨K, hK⟩ := uniform_of_list
      (fun fuel (kv : Int × svn_branch_el_rev_content_t) =>
        ∃ p, svn_branch_get_path_by_eid f b fuel kv.1 = Outcome.ok (some p)) b.e_map hkeys
    exact ⟨K, fun fuel hf e n hm => hK fuel hf (e, n) hm⟩
  obtain ⟨K1, hK1⟩ := uniform_of_list
    (fun fuel b => ∃ R, svn_branch_get_root_rrpath f r.store fuel b = Outcome.ok R)
    r.store hroot
  obtain ⟨K2, hK2⟩ := uniform_of_list
    (fun fuel (b : svn_branch_instance_t) => ∀ e n, (e, n) ∈ b.e_map →
      ∃ p, svn_branch_get_path_by_eid f b fuel e = Outcome.ok (some p))
    r.store hpath
  refine ⟨max K1 K2, fun fuel hf a b hb => ?_⟩
  have hmem : b ∈ r.store := List.mem_iff_get?.2 ⟨a, hb⟩
  exact ⟨hK1 fuel (le_trans (le_max_left _ _) hf) b hmem,
    hK2 fuel (le_trans (le_max_right _ _) hf) b hmem⟩

theorem sameSkeleton_get_rev {m m' : EMap} (h : SameSkeleton m m') {e : Int}
    {n' : svn_branch_el_rev_content_t} (hn : svn_int_hash_get m' e = some n') :
    ∃ n, svn_int_hash_get m e = some n ∧ n'.parent_eid = n.parent_eid ∧ n'.name = n.name := by
  cases hg : svn_int_hash_get m e with
  | none =>
    have := (sameSkeleton_get h e).1 hg
    rw [hn] at this; cases this
  | some n =>
    obtain ⟨n2, hn2, h1, h2⟩ := (sameSkeleton_get h e).2 n hg
    rw [hn] at hn2; cases hn2
    exact ⟨n, rfl, h1, h2⟩

/-- Paths in an image are the paths of the original. -/
theorem pathTo_image {f g : svn_branch_family_t} {b b' : svn_branch_instance_t}
    (h1 : g.first_eid = f.first_eid) (h2 : g.next_eid = f.next_eid)
    (hv : BranchValid f b) (himg : Image g b b') {e : Int} {p : String}
    (he : FAMILY_HAS_ELEMENT f e = true) : PathTo b' e p ↔ PathTo b e p := by
  have he' : FAMILY_HAS_ELEMENT g e = true := by rw [family_has_congr h1 h2]; exact he
  rw [← pathByEid_some_iff himg.2.2.2.2 he' p, ← pathByEid_some_iff hv he p]
  constructor
  · rintro ⟨fuel, hf⟩
    exact ⟨fuel, by
      rw [← path_by_eid_congr h1 h2 (by rw [himg.1]) himg.2.2.2.1 hv himg.2.2.2.2]; exact hf⟩
  · rintro ⟨fuel, hf⟩
    exact ⟨fuel, by
      rw [path_by_eid_congr h1 h2 (by rw [himg.1]) himg.2.2.2.1 hv himg.2.2.2.2]; exact hf⟩

theorem mem_sub_branches {rr : svn_branch_revision_root_t} {c s : Nat} :
    s ∈ svn_branch_get_all_sub_branches rr c ↔
      s ∈ rr.branch_instances ∧ ∃ b, rr.store.get? s = some b ∧ b.outer_branch = some c := by
  unfold svn_branch_get_all_sub_branches
  rw [List.mem_filter]
  constructor
  · rintro ⟨h1, h2⟩
    refine ⟨h1, ?_⟩
    cases hg : rr.store.get? s with
    | none => rw [hg] at h2; cases h2
    | some b =>
      rw [hg] at h2
      exact ⟨b, rfl, by simpa using h2⟩
  · rintro ⟨h1, b, hb, ho⟩
    refine ⟨h1, ?_⟩
    rw [hb]; simp [ho]

/-- The nested lookup on the instances parsed so far resolves the root path of the next
nested instance to its outer branch and outer EID. -/
theorem find_nested_spec {f g : svn_branch_family_t} {r : svn_branch_revision_root_t}
    (h : RoundTripReady f r) (hg1 : g.first_eid = f.first_eid) (hg2 : g.next_eid = f.next_eid)
    {rr : svn_branch_revision_root_t} (hS : StoreImage g r.store rr.store)
    (hlist : rr.branch_instances = List.range rr.store.length)
    {K0 : Nat} (hK0 : FuelEnough f r.store K0)
    {i : Nat} {b : svn_branch_instance_t} {o : Nat} (hb : r.store.get? i = some b)
    (ho : b.outer_branch = some o) (hlen : rr.store.length = i) {Ri : String}
    (hRi : RootPath r.store b Ri) :
    ∀ d c, o - c ≤ d → OuterChain r.store c o → ∀ fuel, K0 + d + 2 ≤ fuel →
      svn_branch_find_nested_branch_element_by_rrpath g rr fuel c Ri
        = Outcome.ok (some (o, b.outer_eid)) := by
  have hord := ready_outerBefore h
  have hoi : o < i := hord i b o hb ho
  obtain ⟨bo, hbo⟩ := get_of_lt (lt_trans hoi (lt_of_get hb))
  -- the root path of the instance is the root path of its outer branch and the anchor path
  obtain ⟨Ro, pi, hRo, hpi, hRi_eq⟩ : ∃ Ro pi, RootPath r.store bo Ro ∧ PathTo bo b.outer_eid pi
      ∧ Ri = svn_relpath_join Ro pi := by
    cases hRi with
    | top _ hnone => rw [hnone] at ho; cases ho
    | nested _ o2 ob2 p2 R2 ho2 hob2 hp2 hR2 =>
      rw [ho] at ho2; cases ho2
      rw [hbo] at hob2; cases hob2
      exact ⟨R2, p2, hR2, hp2, rfl⟩
  -- facts about an address below the length of the parsed store
  have himage : ∀ a, a < i → ∃ x x', r.store.get? a = some x ∧ rr.store.get? a = some x'
      ∧ Image g x x' := by
    intro a ha
    obtain ⟨x', hx'⟩ := get_of_lt (show a < rr.store.length by omega)
    obtain ⟨x, hx, himg⟩ := hS a x' hx'
    exact ⟨x, x', hx, hx', himg⟩
  have hrootpath : ∀ a x x' k, r.store.get? a = some x → rr.store.get? a = some x' →
      Image g x x' → a < i → K0 ≤ k →
      ∃ R, svn_branch_get_root_rrpath g rr.store k x' = Outcome.ok R ∧ RootPath r.store x R := by
    intro a x x' k hx hx' himg ha hk
    obtain ⟨R, hR⟩ := (hK0 k hk a x hx).1
    refine ⟨R, ?_, root_rrpath_sound h.valid k x R hR⟩
    rw [root_rrpath_congr hg1 hg2 hS h.valid hord k x x' himg.2.1 himg.2.2.1
      (fun o2 ho2 => by have := hord a x o2 hx ho2; omega)]
    exact hR
  intro d
  induction d with
  | zero =>
    intro c hd hchain fuel hfuel
    have hco : c = o := by have := chain_le hord hchain; omega
    subst hco
    obtain ⟨k, rfl⟩ : ∃ k, fuel = k + 1 := ⟨fuel - 1, by omega⟩
    obtain ⟨x, x', hx, hx', himg⟩ := himage c hoi
    rw [hbo] at hx; cases hx
    obtain ⟨R, hR, hRP⟩ := hrootpath c bo x' k hbo hx' himg hoi (by omega)
    have hRRo : R = Ro := rootPath_unique hRP Ro hRo
    subst hRRo
    simp only [svn_branch_find_nested_branch_element_by_rrpath, hx', hR]
    rw [hRi_eq, skip_ancestor_join]
    simp only
    -- no sub-branch of the outer branch is found
    have hsubs : ∀ s ∈ svn_branch_get_all_sub_branches rr c,
        svn_branch_find_nested_branch_element_by_rrpath g rr k s (svn_relpath_join R pi)
          = Outcome.ok none := by
      intro s hs
      obtain ⟨hs1, bs', hbs', hos'⟩ := mem_sub_branches.1 hs
      rw [hlist, List.mem_range] at hs1
      obtain ⟨bs, hbs, himgs⟩ := hS s bs' hbs'
      have hos : bs.outer_branch = some c := by rw [← himgs.2.1]; exact hos'
      have hcs : c < s := hord s bs c hbs hos
      obtain ⟨k', rfl⟩ : ∃ k', k = k' + 1 := ⟨k - 1, by omega⟩
      obtain ⟨Rs, hRs, hRsP⟩ := hrootpath s bs bs' k' hbs hbs' himgs (by omega) (by omega)
      simp only [svn_branch_find_nested_branch_element_by_rrpath, hbs', hRs]
      cases hsk : svn_relpath_skip_ancestor Rs (svn_relpath_join R pi) with
      | none => rfl
      | some q =>
        exfalso
        have := h.disjoint i s b bs c (svn_relpath_join R pi) Rs (by omega) hb hbs ho
          (by rw [← hRi_eq]; exact hRi) hRsP (by rw [hsk]; simp)
        have := chain_le hord this
        omega
    rw [find_first_none _ _ hsubs]
    simp only
    -- the outer EID is found in the outer branch
    unfold svn_branch_get_eid_by_rrpath
    rw [hR]
    simp only
    rw [skip_ancestor_join]
    simp only
    obtain ⟨hne, ⟨n0, hn0⟩, huniq⟩ := h.anchor i b c bo hb ho hbo
    have hvo := h.valid c bo hbo
    obtain ⟨n0', hn0', _, _⟩ := (sameSkeleton_get himg.2.2.2.1 b.outer_eid).2 n0
      (get_of_mem hvo.1 hn0)
    have hcongr : ∀ e, svn_branch_get_path_by_eid g x' k e
        = svn_branch_get_path_by_eid f bo k e :=
      fun e => path_by_eid_congr hg1 hg2 (by rw [himg.1]) himg.2.2.2.1 hvo himg.2.2.2.2 k e
    have hkey := eid_by_path_unique_key himg.2.2.2.2 k pi b.outer_eid n0' (mem_of_get hn0')
      (fun e n hm => by
        obtain ⟨n2, hn2, _, _⟩ := sameSkeleton_get_rev himg.2.2.2.1
          (get_of_mem himg.2.2.2.2.1 hm)
        rw [hcongr]
        exact (hK0 k (by omega) c bo hbo).2 e n2 (mem_of_get hn2))
      (by
        rw [hcongr]
        obtain ⟨p, hp⟩ := (hK0 k (by omega) c bo hbo).2 b.outer_eid n0 hn0
        have hfam := (hvo.2 b.outer_eid n0 hn0).1
        have := (pathByEid_some_iff hvo hfam p).1 ⟨k, hp⟩
        rw [pathTo_unique hpi p this]
        exact hp)
      (fun e n hm hP => by
        obtain ⟨n2, hn2, _, _⟩ := sameSkeleton_get_rev himg.2.2.2.1
          (get_of_mem himg.2.2.2.2.1 hm)
        have hfam := (hvo.2 e n2 (mem_of_get hn2)).1
        exact huniq e n2 pi (mem_of_get hn2) ((pathTo_image hg1 hg2 hvo himg hfam).1 hP) hpi)
    rw [hkey]
  | succ d ih =>
    intro c hd hchain fuel hfuel
    by_cases hco : o - c ≤ d
    · exact ih c hco hchain fuel (by omega)
    have hcle := chain_le hord hchain
    have hclt : c < o := by omega
    obtain ⟨k, rfl⟩ : ∃ k, fuel = k + 1 := ⟨fuel - 1, by omega⟩
    obtain ⟨bc, bc', hbc, hbc', himg⟩ := himage c (by omega)
    obtain ⟨R, hR, hRP⟩ := hrootpath c bc bc' k hbc hbc' himg (by omega) (by omega)
    obtain ⟨q0, hq0⟩ := chain_join (ready_rootPath_exists h) hchain bc bo R Ro hbc hbo hRP hRo
    have hRi2 : Ri = svn_relpath_join R (svn_relpath_join q0 pi) := by
      rw [hRi_eq, hq0, join_assoc]
    simp only [svn_branch_find_nested_branch_element_by_rrpath, hbc', hR]
    rw [hRi2, skip_ancestor_join]
    simp only
    rw [← hRi2]
    have hsubs : ∀ s ∈ svn_branch_get_all_sub_branches rr c,
        svn_branch_find_nested_branch_element_by_rrpath g rr k s Ri = Outcome.ok none
        ∨ svn_branch_find_nested_branch_element_by_rrpath g rr k s Ri
            = Outcome.ok (some (o, b.outer_eid)) := by
      intro s hs
      obtain ⟨hs1, bs', hbs', hos'⟩ := mem_sub_branches.1 hs
      rw [hlist, List.mem_range] at hs1
      obtain ⟨bs, hbs, himgs⟩ := hS s bs' hbs'
      have hos : bs.outer_branch = some c := by rw [← himgs.2.1]; exact hos'
      have hcs : c < s := hord s bs c hbs hos
      by_cases hsc : OuterChain r.store s o
      · right
        have := chain_le hord hsc
        exact ih s (by omega) hsc k (by omega)
      · left
        obtain ⟨k', rfl⟩ : ∃ k', k = k' + 1 := ⟨k - 1, by omega⟩
        obtain ⟨Rs, hRs, hRsP⟩ := hrootpath s bs bs' k' hbs hbs' himgs (by omega) (by omega)
        simp only [svn_branch_find_nested_branch_element_by_rrpath, hbs', hRs]
        cases hsk : svn_relpath_skip_ancestor Rs Ri with
        | none => rfl
        | some q =>
          exfalso
          exact hsc (h.disjoint i s b bs o Ri Rs (by omega) hb hbs ho hRi hRsP
            (by rw [hsk]; simp))
    have hex : ∃ s ∈ svn_branch_get_all_sub_branches rr c,
        svn_branch_find_nested_branch_element_by_rrpath g rr k s Ri
            = Outcome.ok (some (o, b.outer_eid)) := by
      cases hchain with
      | refl _ => omega
      | step _ d2 _ bd hd2 hbd hch2 =>
        have hd2o := chain_le hord hch2
        obtain ⟨x, x', hx, hx', himgd⟩ := himage d2 (by omega)
        rw [hd2] at hx; cases hx
        have hcd : c < d2 := hord d2 bd c hd2 hbd
        refine ⟨d2, mem_sub_branches.2 ⟨by rw [hlist, List.mem_range]; omega, x', hx', ?_⟩,
          ih d2 (by omega) hch2 k (by omega)⟩
        rw [himgd.2.1]; exact hbd
    rw [find_first_some _ _ _ hsubs hex]

theorem valid_name_some {g : svn_branch_family_t} {b : svn_branch_instance_t} {e : Int}
    {n : svn_branch_el_rev_content_t} (h : branch_map_node_validate g b e (some n) = true) :
    ∃ s, n.name = some s := by
  by_cases hr : e = b.sibling_defn.root_eid
  · subst hr; exact ⟨"", (validate_root h).2⟩
  · obtain ⟨_, _, s, hs, _⟩ := validate_non_root h hr
    exact ⟨s, hs⟩

theorem serialize_elements_spec {g : svn_branch_family_t} {b : svn_branch_instance_t}
    (hv : BranchValid g b) : ∀ (l : List Int), (∀ e ∈ l, FAMILY_HAS_ELEMENT g e = true) →
    svn_branch_instance_serialize_elements g b l = Outcome.ok (element_lines b l) := by
  intro l
  induction l with
  | nil => intro _; rfl
  | cons e l ih =>
    intro hl
    have he := hl e (List.mem_cons_self _ _)
    simp only [svn_branch_instance_serialize_elements, map_get_valid hv he,
      ih (fun x hx => hl x (List.mem_cons_of_mem _ hx))]
    have hcolon : ": ".data = [':', ' '] := by decide
    cases hg : svn_int_hash_get b.e_map e with
    | none =>
      simp [element_lines, element_line, printed_name, printed_parent, hg, hcolon]
    | some n =>
      obtain ⟨s, hs⟩ := valid_name_some (hv.2 e n (mem_of_get hg)).2
      simp [element_lines, element_line, printed_name, printed_parent, hg, hs, hcolon]

theorem string_mk_data (s : String) : String.mk s.data = s := rfl

theorem data_ne_of_ne {s t : String} (h : s ≠ t) : s.data ≠ t.data :=
  fun hd => h (String.ext hd)

theorem decode_printed_name (node : Option svn_branch_el_rev_content_t)
    (hname : ∀ n, node = some n → ∃ s, n.name = some s ∧ (s ≠ "" → NameReadsBack s)) :
    decode_name (printed_name node) = node.bind (fun n => n.name)
    ∧ '\n' ∉ printed_name node := by
  cases node with
  | none => exact ⟨by decide, by decide⟩
  | some n =>
    obtain ⟨s, hs, hgood⟩ := hname n rfl
    by_cases hempty : s = ""
    · subst hempty
      simp only [printed_name, hs, Option.bind]
      exact ⟨by decide, by decide⟩
    · obtain ⟨h1, h2, h3⟩ := hgood hempty
      simp only [printed_name, hs, Option.bind, ne_eq, hempty, not_false_eq_true, if_true]
      refine ⟨?_, h1⟩
      unfold decode_name
      rw [if_neg (data_ne_of_ne h2), if_neg (data_ne_of_ne (t := ".") h3), string_mk_data]

theorem validate_swap_content {g : svn_branch_family_t} {b b' : svn_branch_instance_t}
    (hs : b'.sibling_defn = b.sibling_defn) {e : Int} {n : svn_branch_el_rev_content_t}
    (h : branch_map_node_validate g b e (some n) = true)
    (c : Option svn_element_content_t) (hc : ∀ x, c = some x → content_validate x = true) :
    branch_map_node_validate g b' e (some ⟨n.parent_eid, n.name, c⟩) = true := by
  rw [validate_congr g b b' hs]
  simp only [branch_map_node_validate, Bool.and_eq_true] at h ⊢
  refine ⟨h.1, ?_⟩
  cases c with
  | none => rfl
  | some x => exact hc x rfl

/-- The first loop of the parser rebuilds the skeleton of the serialized branch. -/
theorem parse_structure_spec {g : svn_branch_family_t} {b : svn_branch_instance_t}
    (hv : BranchValid g b)
    (hnames : ∀ e n s, (e, n) ∈ b.e_map → n.name = some s → NameReadsBack s)
    (rest : List Char) :
    ∀ (l : List Int) (cur : svn_branch_instance_t),
    (∀ e ∈ l, FAMILY_HAS_ELEMENT g e = true) →
    cur.sibling_defn = b.sibling_defn → assert_branch_instance_invariants g cur = true →
    NodupKeys cur.e_map →
    ∃ fin, svn_branch_instance_parse_structure g l cur (element_lines b l ++ rest)
        = Outcome.ok (fin, rest)
      ∧ fin.sibling_defn = cur.sibling_defn ∧ fin.outer_branch = cur.outer_branch
      ∧ fin.outer_eid = cur.outer_eid ∧ NodupKeys fin.e_map
      ∧ ∀ e, svn_int_hash_get fin.e_map e
          = match (if e ∈ l then svn_int_hash_get b.e_map e else none) with
            | some n => some (strip_content n)
            | none => svn_int_hash_get cur.e_map e := by
  intro l
  induction l with
  | nil =>
    intro cur _ _ _ hnd
    exact ⟨cur, rfl, rfl, rfl, rfl, hnd, fun e => by simp⟩
  | cons eid l ih =>
    intro cur hl hsib hinv hnd
    have he := hl eid (List.mem_cons_self _ _)
    have hl' : ∀ e ∈ l, FAMILY_HAS_ELEMENT g e = true :=
      fun x hx => hl x (List.mem_cons_of_mem _ hx)
    have hdec := decode_printed_name (svn_int_hash_get b.e_map eid) (fun n hn => by
      obtain ⟨s, hs⟩ := valid_name_some (hv.2 eid n (mem_of_get hn)).2
      exact ⟨s, hs, fun _ => hnames eid n s (mem_of_get hn) hs⟩)
    have hline : parse_element_line (element_lines b (eid :: l) ++ rest)
        = Outcome.ok (b.sibling_defn.bsid, eid, printed_parent (svn_int_hash_get b.e_map eid),
            (svn_int_hash_get b.e_map eid).bind (fun n => n.name),
            element_lines b l ++ rest) := by
      have := parse_element_line_spec b.sibling_defn.bsid eid
        (printed_parent (svn_int_hash_get b.e_map eid))
        (printed_name (svn_int_hash_get b.e_map eid)) (element_lines b l ++ rest) hdec.2
      rw [hdec.1] at this
      rw [← this]
      simp [element_lines, element_line, List.append_assoc]
    simp only [svn_branch_instance_parse_structure, hline]
    cases hg : svn_int_hash_get b.e_map eid with
    | none =>
      simp only [Option.bind]
      obtain ⟨fin, h1, h2, h3, h4, h5, h6⟩ := ih cur hl' hsib hinv hnd
      refine ⟨fin, h1, h2, h3, h4, h5, fun e => ?_⟩
      rw [h6 e]
      by_cases hee : e = eid
      · subst hee
        by_cases hel : e ∈ l
        · simp [hel, hg]
        · simp [hel, hg]
      · simp [hee]
    | some n =>
      obtain ⟨s, hs⟩ := valid_name_some (hv.2 eid n (mem_of_get hg)).2
      simp only [Option.bind, hs, printed_parent]
      have hval : branch_map_node_validate g cur eid
          (some (svn_branch_el_rev_content_create n.parent_eid (some s) none)) = true := by
        have := validate_swap_content hsib (hv.2 eid n (mem_of_get hg)).2 none
          (fun x hx => by cases hx)
        rw [hs] at this
        exact this
      have hset : branch_map_set g cur eid
          (some (svn_branch_el_rev_content_create n.parent_eid (some s) none))
          = Step.done { cur with e_map := (svn_int_hash_set cur.e_map eid
              (some (svn_branch_el_rev_content_create n.parent_eid (some s) none))) } := by
        rw [set_some_result, if_pos ⟨he, hval⟩, if_pos hinv]
      rw [hset]
      simp only
      obtain ⟨fin, h1, h2, h3, h4, h5, h6⟩ := ih
        { cur with e_map := (svn_int_hash_set cur.e_map eid
            (some (svn_branch_el_rev_content_create n.parent_eid (some s) none))) }
        hl' hsib hinv (nodupKeys_set cur.e_map hnd eid
          (some (svn_branch_el_rev_content_create n.parent_eid (some s) none)))
      refine ⟨fin, h1, h2, h3, h4, h5, fun e => ?_⟩
      rw [h6 e]
      simp only [get_set_some]
      have hstrip : strip_content n
          = svn_branch_el_rev_content_create n.parent_eid (some s) none := by
        simp [strip_content, hs]
      by_cases hee : e = eid
      · subst hee
        by_cases hel : e ∈ l
        · simp [hel, hg]
        · simp [hel, hg, hstrip]
      · simp [hee]

theorem looksLike_image {g : svn_branch_family_t} {b cur : svn_branch_instance_t}
    (hv : BranchValid g b) (hs : cur.sibling_defn = b.sibling_defn)
    (ho : cur.outer_branch = b.outer_branch) (he : cur.outer_eid = b.outer_eid)
    (hnd : NodupKeys cur.e_map) (h : LooksLike b cur) : Image g b cur := by
  refine ⟨hs, ho, he, ?_, hnd, ?_⟩
  · intro e
    have := h e
    cases hg : svn_int_hash_get b.e_map e with
    | none => rw [hg] at this; simp only at this; rw [this]
    | some n =>
      rw [hg] at this
      obtain ⟨c, hc, _⟩ := this
      rw [hc]; rfl
  · intro e n' hm
    have hget := get_of_mem hnd hm
    have := h e
    cases hg : svn_int_hash_get b.e_map e with
    | none => rw [hg] at this; simp only at this; rw [this] at hget; cases hget
    | some n =>
      rw [hg] at this
      obtain ⟨c, hc, hcv⟩ := this
      rw [hc] at hget
      cases hget
      exact ⟨(hv.2 e n (mem_of_get hg)).1,
        validate_swap_content hs (hv.2 e n (mem_of_get hg)).2 c hcv⟩

theorem nodupKeys_set_branch (cur : svn_branch_instance_t) (hnd : NodupKeys cur.e_map)
    (eid : Int) (v : Option svn_branch_el_rev_content_t) :
    NodupKeys ({ cur with e_map := svn_int_hash_set cur.e_map eid v }).e_map :=
  nodupKeys_set cur.e_map hnd eid v

theorem ref_content_valid {rev : Int} (h : 0 ≤ rev) (p : String) :
    content_validate (svn_element_content_create_ref { rev := rev, relpath := some p })
      = true := by
  simp [content_validate, svn_element_content_create_ref, SVN_IS_VALID_REVNUM, h]

/-- The second loop of the parser gives every element its payload by reference. -/
theorem parse_content_spec {g : svn_branch_family_t} {b : svn_branch_instance_t}
    (hv : BranchValid g b) (rr : svn_branch_revision_root_t) (fuel : Nat)
    (relpath : Int → String) (hrev : 0 ≤ rr.rev)
    (hrr : ∀ b', Image g b b' → ∀ e n, (e, n) ∈ b.e_map →
      svn_branch_get_rrpath_by_eid g rr.store fuel b' e = Outcome.ok (some (relpath e))) :
    ∀ (l : List Int) (cur : svn_branch_instance_t), l.Nodup →
    (∀ e ∈ l, FAMILY_HAS_ELEMENT g e = true) →
    cur.sibling_defn = b.sibling_defn → cur.outer_branch = b.outer_branch →
    cur.outer_eid = b.outer_eid → assert_branch_instance_invariants g cur = true →
    NodupKeys cur.e_map →
    (∀ e, svn_int_hash_get cur.e_map e
        = match svn_int_hash_get b.e_map e with
          | none => none
          | some n =>
            if e ∈ l then some (strip_content n) else some (with_ref rr.rev (relpath e) n)) →
    ∃ fin, svn_branch_instance_parse_content g rr fuel l cur = Outcome.ok fin
      ∧ fin.sibling_defn = b.sibling_defn ∧ fin.outer_branch = b.outer_branch
      ∧ fin.outer_eid = b.outer_eid ∧ NodupKeys fin.e_map
      ∧ ∀ e, svn_int_hash_get fin.e_map e
          = match svn_int_hash_get b.e_map e with
            | none => none
            | some n => some (with_ref rr.rev (relpath e) n) := by
  intro l
  induction l with
  | nil =>
    intro cur _ _ hs ho he _ hnd hH
    refine ⟨cur, rfl, hs, ho, he, hnd, fun e => ?_⟩
    rw [hH e]
    cases svn_int_hash_get b.e_map e <;> simp
  | cons eid l ih =>
    intro cur hnodup hl hs ho he hinv hnd hH
    have hfam := hl eid (List.mem_cons_self _ _)
    have hl' : ∀ e ∈ l, FAMILY_HAS_ELEMENT g e = true :=
      fun x hx => hl x (List.mem_cons_of_mem _ hx)
    obtain ⟨hnotin, hnodup'⟩ := List.nodup_cons.1 hnodup
    have hlooks : LooksLike b cur := by
      intro e
      have := hH e
      cases hg : svn_int_hash_get b.e_map e with
      | none => rw [hg] at this; exact this
      | some n =>
        rw [hg] at this
        simp only at this ⊢
        by_cases hel : e ∈ eid :: l
        · rw [if_pos hel] at this
          exact ⟨none, this, fun x hx => by cases hx⟩
        · rw [if_neg hel] at this
          exact ⟨_, this, fun x hx => by cases hx; exact ref_content_valid hrev _⟩
    have himg := looksLike_image hv hs ho he hnd hlooks
    simp only [svn_branch_instance_parse_content, map_get_valid himg.2.2.2.2 hfam]
    have hcur := hH eid
    cases hg : svn_int_hash_get b.e_map eid with
    | none =>
      rw [hg] at hcur
      simp only at hcur
      rw [hcur]
      simp only
      apply ih cur hnodup' hl' hs ho he hinv hnd
      intro e
      rw [hH e]
      cases hge : svn_int_hash_get b.e_map e with
      | none => rfl
      | some n =>
        have hne : e ≠ eid := by rintro rfl; rw [hg] at hge; cases hge
        simp [hne]
    | some n =>
      rw [hg] at hcur
      simp only [List.mem_cons, true_or, if_true] at hcur
      rw [hcur]
      simp only
      rw [hrr cur himg eid n (mem_of_get hg)]
      simp only
      have hval : branch_map_node_validate g cur eid
          (some ⟨(strip_content n).parent_eid, (strip_content n).name,
            some (svn_element_content_create_ref
              { rev := rr.rev, relpath := some (relpath eid) })⟩) = true :=
        validate_swap_content hs (hv.2 eid n (mem_of_get hg)).2 _
          (fun x hx => by cases hx; exact ref_content_valid hrev _)
      rw [update_result, if_pos ⟨hfam, rfl, hval⟩, if_pos hinv]
      simp only
      refine ih { cur with e_map := (svn_int_hash_set cur.e_map eid
          (some ⟨(strip_content n).parent_eid, (strip_content n).name,
            some (svn_element_content_create_ref
              { rev := rr.rev, relpath := some (relpath eid) })⟩)) }
        hnodup' hl' hs ho he hinv (nodupKeys_set_branch cur hnd eid _) ?_
      intro e
      simp only [get_set_some]
      by_cases hee : e = eid
      · subst hee
        rw [if_pos rfl, hg]
        simp only [if_neg hnotin]
        rfl
      · rw [if_neg hee, hH e]
        cases hge : svn_int_hash_get b.e_map e with
        | none => rfl
        | some n2 => simp [hee]

theorem goodPath_empty : GoodPath "" := ⟨by decide, by decide⟩

theorem goodPath_join {a b : String} (ha : GoodPath a) (hb : GoodPath b) :
    GoodPath (svn_relpath_join a b) := by
  by_cases h1 : a = ""
  · subst h1; rw [join_empty_left]; exact hb
  by_cases h2 : b = ""
  · subst h2; rw [join_empty_right]; exact ha
  rw [join_of_ne h1 h2]
  constructor
  · have hd : (a ++ "/" ++ b).data = a.data ++ '/' :: b.data := by simp [String.data_append]
    rw [hd]
    simp only [List.mem_append, List.mem_cons, not_or]
    exact ⟨ha.1, by decide, hb.1⟩
  · intro hc
    have hl : (a ++ "/" ++ b).length = 1 := by rw [hc]; rfl
    rw [String.length_append, String.length_append] at hl
    have h3 : a.length ≠ 0 := fun h => h1 (string_eq_empty_of_length h)
    have h4 : b.length ≠ 0 := fun h => h2 (string_eq_empty_of_length h)
    omega

theorem pathTo_good {b : svn_branch_instance_t}
    (hnames : ∀ e n s, (e, n) ∈ b.e_map → n.name = some s → NameReadsBack s)
    {e : Int} {P : String} (h : PathTo b e P) : GoodPath P := by
  induction h with
  | root => exact goodPath_empty
  | step e n name P _ hg hn _ ih =>
    have := hnames e n name (mem_of_get hg) hn
    exact goodPath_join ih ⟨this.1, this.2.2⟩

theorem rootPath_good {S : List svn_branch_instance_t}
    (hnames : ∀ a b, S.get? a = some b →
      ∀ e n s, (e, n) ∈ b.e_map → n.name = some s → NameReadsBack s)
    {b : svn_branch_instance_t} {R : String} (h : RootPath S b R) : GoodPath R := by
  induction h with
  | top => exact goodPath_empty
  | nested b o ob p R _ hob hp _ ih =>
    exact goodPath_join ih (pathTo_good (hnames o ob hob) hp)

theorem decode_printed_path {R : String} (h : GoodPath R) :
    decode_path (printed_path R) = R ∧ '\n' ∉ printed_path R := by
  unfold printed_path decode_path
  by_cases hR : R = ""
  · subst hR; exact ⟨by decide, by decide⟩
  · simp only [ne_eq, hR, not_false_eq_true, if_true]
    exact ⟨by rw [if_neg (data_ne_of_ne (t := ".") h.2), string_mk_data], h.1⟩

theorem scan_no_orphans (r : Int) (m : EMap) : ∀ (todo : EMap),
    (∀ e n, (e, n) ∈ todo → e ≠ r →
      ∃ p, svn_int_hash_get m n.parent_eid = some p ∧ p.content.isSome = true) →
    map_purge_orphans_scan r todo m false = Step.done (m, false) := by
  intro todo
  induction todo with
  | nil => intro _; rfl
  | cons kv rest ih =>
    intro h
    obtain ⟨e, n⟩ := kv
    have hrest := ih (fun e' n' hm hne => h e' n' (List.mem_cons_of_mem _ hm) hne)
    simp only [map_purge_orphans_scan]
    by_cases he : e = r
    · simp [he, hrest]
    · obtain ⟨p, hp, hc⟩ := h e n (List.mem_cons_self _ _) he
      simp [he, hp, hc, hrest]

/-- Without orphans the purge changes nothing. -/
theorem purge_no_orphans {r : Int} {m : EMap} (h : NoOrphanEntry r m) :
    map_purge_orphans m r = Step.done m := by
  unfold map_purge_orphans
  simp only [map_purge_orphans_loop, scan_no_orphans r m m h]

theorem branch_purge_no_orphans {b : svn_branch_instance_t}
    (h : NoOrphanEntry b.sibling_defn.root_eid b.e_map) :
    svn_branch_map_purge_orphans b = Step.done b := by
  unfold svn_branch_map_purge_orphans
  rw [purge_no_orphans h]

theorem set_get_self {α : Type} : ∀ (l : List α) (i : Nat) (x : α),
    l.get? i = some x → l.set i x = l := by
  intro l
  induction l with
  | nil => intro i x h; cases h
  | cons a l ih =>
    intro i x h
    cases i with
    | zero => simp at h; subst h; rfl
    | succ i =>
      have h2 : l.get? i = some x := by simpa using h
      simp [List.set, ih i x h2]

theorem mem_eid_range (g : svn_branch_family_t) (e : Int) :
    e ∈ eid_range g ↔ FAMILY_HAS_ELEMENT g e = true := by
  simp only [eid_range, List.mem_map, List.mem_range, FAMILY_HAS_ELEMENT, Bool.and_eq_true,
    decide_eq_true_eq]
  constructor
  · rintro ⟨k, hk, rfl⟩
    omega
  · rintro ⟨h1, h2⟩
    exact ⟨(e - g.first_eid).toNat, by omega, by omega⟩

theorem eid_range_nodup (g : svn_branch_family_t) : (eid_range g).Nodup := by
  unfold eid_range
  apply List.Nodup.map _ (List.nodup_range _)
  intro a b hab
  have hab2 : g.first_eid + (a : Int) = g.first_eid + (b : Int) := hab
  omega

/-- Serializing an instance without orphans writes its text and leaves the store as it is. -/
theorem instance_serialize_spec {f : svn_branch_family_t} {S : List svn_branch_instance_t}
    {a : Nat} {b : svn_branch_instance_t} (hb : S.get? a = some b) (hv : BranchValid f b)
    (hno : NoOrphanEntry b.sibling_defn.root_eid b.e_map) {fuel : Nat} {R : String}
    (hR : svn_branch_get_root_rrpath f S fuel b = Outcome.ok R) :
    svn_branch_instance_serialize f fuel S a = Outcome.ok (instance_text f R b, S) := by
  unfold svn_branch_instance_serialize
  simp only [hb, hR, branch_purge_no_orphans hno,
    serialize_elements_spec hv (eid_range f) (fun e he => (mem_eid_range f e).1 he),
    set_get_self S a b hb]
  rfl

theorem storeImage_family {g g' : svn_branch_family_t} {S S' : List svn_branch_instance_t}
    (h1 : g'.first_eid = g.first_eid) (h2 : g'.next_eid = g.next_eid)
    (h : StoreImage g S S') : StoreImage g' S S' := by
  intro a b' hb'
  obtain ⟨b, hb, hs, ho, he, hk, hv⟩ := h a b' hb'
  exact ⟨b, hb, hs, ho, he, hk, branchValid_mono h1 (le_of_eq h2.symm) hv⟩

theorem chain_snoc {S : List svn_branch_instance_t} {c d : Nat} (h : OuterChain S c d) :
    ∀ o b, S.get? o = some b → b.outer_branch = some d → OuterChain S c o := by
  induction h with
  | refl d => intro o b hb ho; exact OuterChain.step d o o b hb ho (OuterChain.refl o)
  | step c x d bx hx hbx _ ih =>
    intro o b hb ho
    exact OuterChain.step c x o bx hx hbx (ih o b hb ho)

/-- The top-level instance, at address 0, is on every outer chain. -/
theorem chain_from_zero {f : svn_branch_family_t} {r : svn_branch_revision_root_t}
    (h : RoundTripReady f r) : ∀ o, o < r.store.length → OuterChain r.store 0 o := by
  intro o
  induction o using Nat.strong_induction_on with
  | _ o ih =>
    intro hlt
    rcases Nat.eq_zero_or_pos o with h0 | h0
    · subst h0; exact OuterChain.refl 0
    · obtain ⟨b, hb⟩ := get_of_lt hlt
      obtain ⟨d, hd, hdo⟩ := h.nested o b h0 hb
      exact chain_snoc (ih d hdo (lt_trans hdo hlt)) o b hb hd

theorem find_or_create_spec {f g : svn_branch_family_t} {r : svn_branch_revision_root_t}
    (h : RoundTripReady f r) (hg1 : g.first_eid = f.first_eid) (hg2 : g.next_eid = f.next_eid)
    (hg3 : g.first_bsid = f.first_bsid) (hg4 : g.next_bsid = f.next_bsid)
    {i : Nat} {b : svn_branch_instance_t} (hb : r.store.get? i = some b)
    (hsib : SiblingsOf r.store i g.branch_siblings) :
    ∃ g', family_find_or_create_branch_sibling g b.sibling_defn.bsid b.sibling_defn.root_eid
        = Outcome.ok (g', b.sibling_defn)
      ∧ g'.first_eid = f.first_eid ∧ g'.next_eid = f.next_eid
      ∧ g'.first_bsid = f.first_bsid ∧ g'.next_bsid = f.next_bsid
      ∧ SiblingsOf r.store (i + 1) g'.branch_siblings := by
  have hweak : SiblingsOf r.store (i + 1) g.branch_siblings := by
    intro s hs
    obtain ⟨j, c, hj, hc, hcs⟩ := hsib s hs
    exact ⟨j, c, by omega, hc, hcs⟩
  unfold family_find_or_create_branch_sibling family_find_branch_sibling
  cases hf : g.branch_siblings.find? (fun s => s.bsid == b.sibling_defn.bsid) with
  | some s =>
    have hmem := List.mem_of_find?_eq_some hf
    have hbs := List.find?_some hf
    simp only [beq_iff_eq] at hbs
    obtain ⟨j, c, _, hc, hcs⟩ := hsib s hmem
    have hroot := h.siblings_agree j i c b hc hb (by rw [hcs]; exact hbs)
    rw [hcs] at hroot
    have hs : s = b.sibling_defn := by
      cases s; cases hbd : b.sibling_defn
      rw [hbd] at hbs hroot
      simp only at hbs hroot
      simp [hbs, hroot]
    subst hs
    exact ⟨g, by simp, hg1, hg2, hg3, hg4, hweak⟩
  | none =>
    obtain ⟨hs1, hs2⟩ := h.siblings i b hb
    have hs1' : FAMILY_HAS_BSID g b.sibling_defn.bsid = true := by
      simpa only [FAMILY_HAS_BSID, hg3, hg4] using hs1
    have hs2' : FAMILY_HAS_ELEMENT g b.sibling_defn.root_eid = true := by
      rw [family_has_congr hg1 hg2]; exact hs2
    have hle : g.first_eid ≤ b.sibling_defn.root_eid := by
      simp only [FAMILY_HAS_ELEMENT, Bool.and_eq_true, decide_eq_true_eq] at hs2'
      exact hs2'.1
    refine ⟨{ g with branch_siblings := g.branch_siblings ++ [b.sibling_defn] }, ?_, hg1, hg2,
      hg3, hg4, ?_⟩
    · simp [family_create_branch_sibling, svn_branch_sibling_create, hs1', hs2', hle]
    · intro s hs
      simp only [List.mem_append, List.mem_singleton] at hs
      rcases hs with hs | hs
      · exact hweak s hs
      · exact ⟨i, b, by omega, hb, hs.symm⟩

theorem rrpath_of_fuelEnough {f : svn_branch_family_t} {S : List svn_branch_instance_t}
    {K0 : Nat} (hK0 : FuelEnough f S K0) {fuel : Nat} (hf : K0 ≤ fuel) {a : Nat}
    {b : svn_branch_instance_t} (hb : S.get? a = some b) {e : Int}
    {n : svn_branch_el_rev_content_t} (hm : (e, n) ∈ b.e_map) :
    svn_branch_get_rrpath_by_eid f S fuel b e
      = Outcome.ok (some (rrpath_value f S fuel b e)) := by
  obtain ⟨⟨R, hR⟩, hp⟩ := hK0 fuel hf a b hb
  obtain ⟨p, hp⟩ := hp e n hm
  have : svn_branch_get_rrpath_by_eid f S fuel b e
      = Outcome.ok (some (svn_relpath_join R p)) := by
    simp only [svn_branch_get_rrpath_by_eid, hp, hR]
  simp only [rrpath_value, this]

/-- On the image of an instance, over the images of the instances before it, the relpath of
an element is computed as on the original. -/
theorem rrpath_by_eid_congr {f g : svn_branch_family_t} {S S' : List svn_branch_instance_t}
    (h1 : g.first_eid = f.first_eid) (h2 : g.next_eid = f.next_eid)
    (hS : StoreImage g S S') (hvS : ∀ a b, S.get? a = some b → BranchValid f b)
    (hord : OuterBefore S) {i : Nat} {b b' : svn_branch_instance_t}
    (hb : S.get? i = some b) (hlen : S'.length = i) (him : Image g b b') (fuel : Nat)
    (e : Int) :
    svn_branch_get_rrpath_by_eid g S' fuel b' e = svn_branch_get_rrpath_by_eid f S fuel b e := by
  obtain ⟨hs, ho, he, hk, hv'⟩ := him
  unfold svn_branch_get_rrpath_by_eid
  rw [path_by_eid_congr h1 h2 (by rw [hs]) hk (hvS i b hb) hv' fuel e,
    root_rrpath_congr h1 h2 hS hvS hord fuel b b' ho he
      (fun o hbo => by rw [hlen]; exact hord i b o hb hbo)]

theorem instance_text_shape (f : svn_branch_family_t) (R : String) (b : svn_branch_instance_t)
    (rest : List Char) :
    instance_text f R b ++ rest
      = 'b' :: (print_int b.sibling_defn.bsid ++ ':' :: ' ' :: 'r' :: 'o' :: 'o' :: 't' :: '-'
          :: 'e' :: 'i' :: 'd' :: ' ' :: (print_int b.sibling_defn.root_eid ++ ' ' :: 'a' :: 't'
          :: ' ' :: (printed_path R ++ '\n' :: (element_lines b (eid_range f) ++ rest)))) := by
  have h1 : ": root-eid ".data = [':', ' ', 'r', 'o', 'o', 't', '-', 'e', 'i', 'd', ' '] := rfl
  have h2 : " at ".data = [' ', 'a', 't', ' '] := rfl
  simp only [instance_text, h1, h2, List.append_assoc, List.cons_append, List.nil_append]

theorem nested_root_path_ne {f : svn_branch_family_t} {r : svn_branch_revision_root_t}
    (h : RoundTripReady f r) {i : Nat} {b : svn_branch_instance_t} {o : Nat}
    (hb : r.store.get? i = some b) (ho : b.outer_branch = some o) {R : String}
    (hR : RootPath r.store b R) : R ≠ "" := by
  cases hR with
  | top _ hn => rw [ho] at hn; cases hn
  | nested _ o2 ob p R2 ho2 hob hp _ =>
    obtain ⟨hne, _, _⟩ := h.anchor i b o2 ob hb ho2 hob
    apply join_ne_empty
    right
    generalize b.outer_eid = oe at hp hne
    cases hp with
    | root => exact absurd rfl hne
    | step _ n name P hne2 hg hn _ =>
      obtain ⟨_, _, name2, hn2, hne3⟩ :=
        validate_non_root ((h.valid o2 ob hob).2 _ n (mem_of_get hg)).2 hne2
      rw [hn] at hn2; cases hn2
      exact join_ne_empty (Or.inr hne3)

/-- The outer branch and outer EID that `svn_branch_instance_parse` finds for the root path of
the next instance: none at the empty path, otherwise those of the nested lookup from the root
branch. -/
theorem parse_outer_cases {f g : svn_branch_family_t} {r rr : svn_branch_revision_root_t}
    (h : RoundTripReady f r) (hg1 : g.first_eid = f.first_eid) (hg2 : g.next_eid = f.next_eid)
    (hS : StoreImage g r.store rr.store)
    (hlist : rr.branch_instances = List.range rr.store.length)
    {K0 : Nat} (hK0 : FuelEnough f r.store K0)
    {i : Nat} {b : svn_branch_instance_t} (hb : r.store.get? i = some b)
    (hlen : rr.store.length = i) (hroot : 0 < i → rr.root_branch = some 0)
    {R : String} (hR : RootPath r.store b R) {fuel : Nat} (hfuel : K0 + i + 2 ≤ fuel) :
    (b.outer_branch = none ∧ b.outer_eid = -1 ∧ R = "")
    ∨ (∃ o, b.outer_branch = some o ∧ R ≠ "" ∧ rr.root_branch = some 0
        ∧ svn_branch_find_nested_branch_element_by_rrpath g rr fuel 0 R
            = Outcome.ok (some (o, b.outer_eid))) := by
  have hinv := h.invariants i b hb
  cases ho : b.outer_branch with
  | none =>
    have hR0 : R = "" := rootPath_unique hR "" (RootPath.top b ho)
    have he : b.outer_eid = -1 := by
      simpa [assert_branch_instance_invariants, ho] using hinv
    exact Or.inl ⟨rfl, he, hR0⟩
  | some o =>
    have hord := ready_outerBefore h
    have hoi : o < i := hord i b o hb ho
    have hi : 0 < i := by omega
    have hne : R ≠ "" := nested_root_path_ne h hb ho hR
    have hfind := find_nested_spec h hg1 hg2 hS hlist hK0 hb ho hlen hR o 0 (by omega)
      (chain_from_zero h o (lt_trans hoi (lt_of_get hb))) fuel (by omega)
    exact Or.inr ⟨o, rfl, hne, hroot hi, hfind⟩

theorem eid_range_congr {f g : svn_branch_family_t} (h1 : g.first_eid = f.first_eid)
    (h2 : g.next_eid = f.next_eid) : eid_range g = eid_range f := by
  simp only [eid_range, h1, h2]

/-- Parsing the text of the next instance, over the images of the instances before it, gives
its image with the payloads by reference. -/
theorem instance_parse_spec {f g : svn_branch_family_t} {r rr : svn_branch_revision_root_t}
    (h : RoundTripReady f r) (hg1 : g.first_eid = f.first_eid) (hg2 : g.next_eid = f.next_eid)
    (hg3 : g.first_bsid = f.first_bsid) (hg4 : g.next_bsid = f.next_bsid)
    {i : Nat} {b : svn_branch_instance_t} (hb : r.store.get? i = some b)
    (hsib : SiblingsOf r.store i g.branch_siblings)
    (hS : StoreImage g r.store rr.store)
    (hlist : rr.branch_instances = List.range rr.store.length)
    (hlen : rr.store.length = i) (hroot : 0 < i → rr.root_branch = some 0)
    (hrev : rr.rev = r.rev)
    {K0 : Nat} (hK0 : FuelEnough f r.store K0)
    {R : String} (hR : RootPath r.store b R) {fuel : Nat} (hfuel : K0 + i + 2 ≤ fuel)
    (rest : List Char) :
    ∃ g' b', svn_branch_instance_parse g rr fuel (instance_text f R b ++ rest)
        = Outcome.ok (g', b', rest)
      ∧ g'.first_eid = f.first_eid ∧ g'.next_eid = f.next_eid
      ∧ g'.first_bsid = f.first_bsid ∧ g'.next_bsid = f.next_bsid
      ∧ SiblingsOf r.store (i + 1) g'.branch_siblings
      ∧ Parsed f g' r.store fuel r.rev b b' := by
  have hord := ready_outerBefore h
  have hnames : ∀ a c, r.store.get? a = some c →
      ∀ e n s, (e, n) ∈ c.e_map → n.name = some s → NameReadsBack s :=
    fun a c hc e n s hm hn => h.names a c hc e n s hm hn
  obtain ⟨hdec, hnl⟩ := decode_printed_path (rootPath_good hnames hR)
  obtain ⟨g', hfc, hg1', hg2', hg3', hg4', hsib'⟩ :=
    find_or_create_spec h hg1 hg2 hg3 hg4 hb hsib
  have hS' : StoreImage g' r.store rr.store :=
    storeImage_family (hg1'.trans hg1.symm) (hg2'.trans hg2.symm) hS
  have hrange : eid_range g' = eid_range f := eid_range_congr hg1' hg2'
  have hv : BranchValid f b := h.valid i b hb
  have hv' : BranchValid g' b := branchValid_mono hg1' (le_of_eq hg2'.symm) hv
  have houter := parse_outer_cases h hg1' hg2' hS' hlist hK0 hb hlen hroot hR hfuel
  have hinv' : assert_branch_instance_invariants g'
      { sibling_defn := b.sibling_defn, outer_branch := b.outer_branch,
        outer_eid := b.outer_eid, e_map := [] } = true := by
    have := h.invariants i b hb
    simpa only [assert_branch_instance_invariants, family_has_congr hg1' hg2'] using this
  have hl : ∀ e ∈ eid_range f, FAMILY_HAS_ELEMENT g' e = true := fun e he => by
    rw [family_has_congr hg1' hg2']; exact (mem_eid_range f e).1 he
  obtain ⟨fin1, hp1, hs1, ho1, he1, hnd1, hget1⟩ :=
    parse_structure_spec hv' (hnames i b hb) rest (eid_range f)
      { sibling_defn := b.sibling_defn, outer_branch := b.outer_branch,
        outer_eid := b.outer_eid, e_map := [] } hl rfl hinv' (by simp [NodupKeys])
  have hinv1 : assert_branch_instance_invariants g' fin1 = true := by
    simpa only [assert_branch_instance_invariants, ho1, he1] using hinv'
  have hrr : ∀ b', Image g' b b' → ∀ e n, (e, n) ∈ b.e_map →
      svn_branch_get_rrpath_by_eid g' rr.store fuel b' e
        = Outcome.ok (some (rrpath_value f r.store fuel b e)) := by
    intro b' him e n hm
    rw [rrpath_by_eid_congr hg1' hg2' hS' h.valid hord hb hlen him fuel e]
    exact rrpath_of_fuelEnough hK0 (by omega) hb hm
  obtain ⟨fin2, hp2, hs2, ho2, he2, hnd2, hget2⟩ :=
    parse_content_spec hv' rr fuel (rrpath_value f r.store fuel b)
      (by rw [hrev]; exact h.rev_valid) hrr (eid_range f) fin1 (eid_range_nodup f) hl
      hs1 ho1 he1 hinv1 hnd1 (by
        intro e
        rw [hget1 e]
        cases hg : svn_int_hash_get b.e_map e with
        | none => simp [svn_int_hash_get]
        | some n =>
          have hmem : e ∈ eid_range f :=
            (mem_eid_range f e).2 (hv.2 e n (mem_of_get hg)).1
          simp [hmem])
  refine ⟨g', fin2, ?_, hg1', hg2', hg3', hg4', hsib', ?_, ?_⟩
  · unfold svn_branch_instance_parse
    rw [instance_text_shape, parse_branch_line_spec _ _ _ _ hnl]
    simp only [hdec, hfc, svn_branch_instance_create, hrange]
    rcases houter with ⟨hob, hoe, hR0⟩ | ⟨o, hob, hne, hrb, hfind⟩
    · rw [hob, hoe] at hinv' hp1
      rw [if_neg (by rw [hR0]; simp)]
      simp only [hinv', if_true, hp1, hp2]
    · rw [hob] at hinv' hp1
      rw [if_pos hne, hrb]
      simp only [hfind, hinv', if_true, hp1, hp2]
  · apply looksLike_image hv' hs2 ho2 he2 hnd2
    intro e
    rw [hget2 e]
    cases hg : svn_int_hash_get b.e_map e with
    | none => simp
    | some n =>
      exact ⟨_, rfl, fun x hx => by
        cases hx
        exact ref_content_valid (by rw [hrev]; exact h.rev_valid) _⟩
  · intro e
    rw [hget2 e, hrev]

theorem root_path_of_fuelEnough {f : svn_branch_family_t} {S : List svn_branch_instance_t}
    {K0 : Nat} (hK0 : FuelEnough f S K0) {fuel : Nat} (hf : K0 ≤ fuel) {a : Nat}
    {b : svn_branch_instance_t} (hb : S.get? a = some b) :
    svn_branch_get_root_rrpath f S fuel b = Outcome.ok (root_path_value f S fuel b) := by
  obtain ⟨⟨R, hR⟩, _⟩ := hK0 fuel hf a b hb
  simp only [root_path_value, hR]

/-- Serializing the instances of a revision root without orphans writes their texts and leaves
the store as it is. -/
theorem serialize_instances_spec {f : svn_branch_family_t} {r : svn_branch_revision_root_t}
    (h : RoundTripReady f r) {K0 : Nat} (hK0 : FuelEnough f r.store K0) {fuel : Nat}
    (hf : K0 ≤ fuel) : ∀ l : List Nat, (∀ a ∈ l, a < r.store.length) →
    svn_branch_family_serialize_instances f fuel l r.store
      = Outcome.ok (instances_text f r.store fuel l, r.store) := by
  intro l
  induction l with
  | nil => intro _; rfl
  | cons a l ih =>
    intro hl
    obtain ⟨b, hb⟩ := get_of_lt (hl a (List.mem_cons_self _ _))
    have hs := instance_serialize_spec hb (h.valid a b hb) (h.no_orphans a b hb)
      (root_path_of_fuelEnough hK0 hf hb)
    simp only [svn_branch_family_serialize_instances, hs,
      ih (fun x hx => hl x (List.mem_cons_of_mem _ hx)), instances_text, hb]

theorem revision_root_serialize_spec {f : svn_branch_family_t}
    {r : svn_branch_revision_root_t} (h : RoundTripReady f r) {K0 : Nat}
    (hK0 : FuelEnough f r.store K0) {fuel : Nat} (hf : K0 ≤ fuel) :
    svn_branch_revision_root_serialize f fuel r
      = Outcome.ok (revision_root_text f r fuel, r) := by
  have hl : ∀ a ∈ r.branch_instances, a < r.store.length := by
    intro a ha
    rw [h.addresses] at ha
    exact List.mem_range.1 ha
  unfold svn_branch_revision_root_serialize svn_branch_family_serialize
  rw [h.root_first]
  simp only [serialize_instances_spec h hK0 hf r.branch_instances hl, revision_root_text,
    family_text]
  have hrf := h.root_first
  cases r
  simp only at hrf
  subst hrf
  rfl

theorem parsed_family {f g g' : svn_branch_family_t} {S : List svn_branch_instance_t}
    {fuel : Nat} {rev : Int} {b b' : svn_branch_instance_t}
    (h1 : g'.first_eid = g.first_eid) (h2 : g'.next_eid = g.next_eid)
    (h : Parsed f g S fuel rev b b') : Parsed f g' S fuel rev b b' := by
  obtain ⟨⟨hs, ho, he, hk, hv⟩, hget⟩ := h
  exact ⟨⟨hs, ho, he, hk, branchValid_mono h1 (le_of_eq h2.symm) hv⟩, hget⟩

theorem parseInv_storeImage {f g : svn_branch_family_t} {r rr : svn_branch_revision_root_t}
    {fuel i : Nat} (h : ParseInv f r fuel i g rr) : StoreImage g r.store rr.store := by
  intro a b' hb'
  obtain ⟨b, hb, him, _⟩ := h.parsed a b' hb'
  exact ⟨b, hb, him⟩

/-- The loop of the parser reads the texts of the remaining instances and ends with an image of
every instance. -/
theorem parse_branches_spec {f : svn_branch_family_t} {r : svn_branch_revision_root_t}
    (h : RoundTripReady f r) {K0 : Nat} (hK0 : FuelEnough f r.store K0) {fuel : Nat}
    (hfuel : K0 + r.store.length + 2 ≤ fuel) :
    ∀ (k i : Nat) (g : svn_branch_family_t) (rr : svn_branch_revision_root_t),
    i + k = r.store.length → ParseInv f r fuel i g rr →
    ∃ g' rr', svn_branch_revision_root_parse_branches fuel k g rr
        (instances_text f r.store fuel (List.range' i k)) = Outcome.ok (g', rr', [])
      ∧ ParseInv f r fuel (i + k) g' rr' := by
  intro k
  induction k with
  | zero =>
    intro i g rr _ hinv
    exact ⟨g, rr, rfl, hinv⟩
  | succ k ih =>
    intro i g rr hik hinv
    have hi : i < r.store.length := by omega
    obtain ⟨b, hb⟩ := get_of_lt hi
    have hK : K0 ≤ fuel := by omega
    have hK2 : K0 + i + 2 ≤ fuel := by omega
    have hR : RootPath r.store b (root_path_value f r.store fuel b) :=
      root_rrpath_sound h.valid fuel b _ (root_path_of_fuelEnough hK0 hK hb)
    obtain ⟨g1, b1, hp, e1, e2, e3, e4, hsib, hpar⟩ :=
      instance_parse_spec h hinv.first_eid hinv.next_eid hinv.first_bsid hinv.next_bsid hb
        hinv.siblings (parseInv_storeImage hinv) (by rw [hinv.list, hinv.len]) hinv.len
        hinv.root hinv.rev hK0 hR hK2
        (instances_text f r.store fuel (List.range' (i + 1) k))
    have hinv1 : ParseInv f r fuel (i + 1) g1
        { rr with
          store := rr.store ++ [b1],
          branch_instances := rr.branch_instances ++ [rr.store.length],
          root_branch :=
            (if b1.outer_branch.isNone then some rr.store.length else rr.root_branch) } := by
      refine ⟨e1, e2, e3, e4, hsib, hinv.rev, ?_, ?_, ?_, ?_⟩
      · show rr.branch_instances ++ [rr.store.length] = List.range (i + 1)
        rw [hinv.list, hinv.len, List.range_succ]
      · show (rr.store ++ [b1]).length = i + 1
        rw [List.length_append, hinv.len]; rfl
      · intro _
        show (if b1.outer_branch.isNone then some rr.store.length else rr.root_branch) = some 0
        rw [hpar.1.2.1]
        rcases Nat.eq_zero_or_pos i with h0 | h0
        · subst h0
          rw [h.top_level b hb, hinv.len]; rfl
        · obtain ⟨o, ho, _⟩ := h.nested i b h0 hb
          rw [ho]
          exact hinv.root h0
      · intro a b' hb'
        have hb2 : (rr.store ++ [b1]).get? a = some b' := hb'
        by_cases ha : a < rr.store.length
        · rw [List.get?_eq_getElem?, List.getElem?_append_left ha, ← List.get?_eq_getElem?] at hb2
          obtain ⟨c, hc, hcp⟩ := hinv.parsed a b' hb2
          exact ⟨c, hc, parsed_family (e1.trans hinv.first_eid.symm)
            (e2.trans hinv.next_eid.symm) hcp⟩
        · have hlt := lt_of_get hb2
          rw [List.length_append] at hlt
          have hai : a = rr.store.length := by simp at hlt; omega
          subst hai
          rw [List.get?_eq_getElem?, List.getElem?_append_right (le_refl _)] at hb2
          simp at hb2
          subst hb2
          exact ⟨b, by rw [hinv.len]; exact hb, hpar⟩
    obtain ⟨g', rr', hrec, hfin⟩ := ih (i + 1) g1 _ (by omega) hinv1
    refine ⟨g', rr', ?_, by rw [show i + (k + 1) = i + 1 + k by omega]; exact hfin⟩
    rw [List.range'_succ]
    simp only [instances_text, hb, svn_branch_revision_root_parse_branches, hp]
    exact hrec

theorem parseInv_init (f : svn_branch_family_t) (r : svn_branch_revision_root_t)
    (fuel : Nat) :
    ParseInv f r fuel 0
      (svn_branch_family_create f.first_bsid f.next_bsid f.first_eid f.next_eid)
      { rev := r.rev, root_branch := none, branch_instances := [], store := [] } where
  first_eid := rfl
  next_eid := rfl
  first_bsid := rfl
  next_bsid := rfl
  siblings := fun s hs => by cases hs
  rev := rfl
  list := rfl
  len := rfl
  root := fun hc => absurd hc (lt_irrefl 0)
  parsed := fun a b' hb' => by simp at hb'

theorem round_trip_of_ready {f : svn_branch_family_t} {r : svn_branch_revision_root_t}
    (h : RoundTripReady f r) {K0 : Nat} (hK0 : FuelEnough f r.store K0) {fuel : Nat}
    (hfuel : K0 + r.store.length + 2 ≤ fuel) : RoundTripsAt f r fuel := by
  have hK : K0 ≤ fuel := by omega
  obtain ⟨g', rr', hpb, hinv⟩ := parse_branches_spec h hK0 hfuel r.store.length 0
    (svn_branch_family_create f.first_bsid f.next_bsid f.first_eid f.next_eid)
    { rev := r.rev, root_branch := none, branch_instances := [], store := [] }
    (by omega) (parseInv_init f r fuel)
  rw [Nat.zero_add] at hinv
  have hlistlen : r.branch_instances.length = r.store.length := by
    rw [h.addresses, List.length_range]
  have hrange : List.range' 0 r.store.length = r.branch_instances := by
    rw [h.addresses, List.range_eq_range']
  rw [hrange] at hpb
  refine ⟨revision_root_text f r fuel, { svn_branch_repos_create with family := some g' }, rr',
    g', revision_root_serialize_spec h hK0 hK, ?_, rfl, hinv.first_bsid, hinv.next_bsid,
    hinv.first_eid, hinv.next_eid, hinv.rev, ?_, ?_, hinv.len, ?_⟩
  · obtain ⟨hl1, hl2, hl3⟩ := rev_line_spec r.rev (family_text f r fuel)
    have hfp : svn_branch_family_parse svn_branch_repos_create (family_text f r fuel)
        = Outcome.ok
            (svn_branch_family_create f.first_bsid f.next_bsid f.first_eid f.next_eid,
              (r.branch_instances.length : Int), instances_text f r.store fuel
                r.branch_instances) := family_parse_spec f _ _
    unfold svn_branch_revision_root_parse revision_root_text
    rw [hl1]
    simp only [Bool.false_eq_true, if_false, hl2, hl3, hfp, Int.toNat_ofNat,
      hlistlen, hpb]
  · rw [hinv.root h.has_root, h.root_first]
  · rw [hinv.list, h.addresses]
  · intro a b hb
    have ha : a < rr'.store.length := by rw [hinv.len]; exact lt_of_get hb
    obtain ⟨b', hb'⟩ := get_of_lt ha
    obtain ⟨c, hc, ⟨hs, ho, he, _, _⟩, hget⟩ := hinv.parsed a b' hb'
    rw [hb] at hc; cases hc
    refine ⟨b', hb', hs, ho, he, fun e hn => by rw [hget e, hn], fun e n hn => ?_⟩
    exact ⟨rrpath_value f r.store fuel b e,
      rrpath_of_fuelEnough hK0 hK hb (mem_of_get hn), by rw [hget e, hn]; rfl⟩

theorem round_trip_store_cases {i : Nat} {b : svn_branch_instance_t}
    (h : round_trip_root.store.get? i = some b) :
    (i = 0 ∧ b = round_trip_top) ∨ (i = 1 ∧ b = round_trip_nested) := by
  match i, h with
  | 0, h => left; simp [round_trip_root] at h; exact ⟨rfl, h.symm⟩
  | 1, h => right; simp [round_trip_root] at h; exact ⟨rfl, h.symm⟩
  | n + 2, h => simp [round_trip_root] at h

theorem round_trip_top_valid : BranchValid round_trip_family round_trip_top :=
  branchValid_of_forall (by simp [NodupKeys, round_trip_top]) (by decide)

theorem round_trip_nested_valid : BranchValid round_trip_family round_trip_nested :=
  branchValid_of_forall (by simp [NodupKeys, round_trip_nested]) (by decide)

theorem round_trip_top_paths :
    PathTo round_trip_top 0 "" ∧ PathTo round_trip_top 1 "dir"
      ∧ PathTo round_trip_top 3 "sub" :=
  ⟨PathTo.root,
    PathTo.step 1 (el 0 "dir") "dir" "" (by decide) (by decide) rfl PathTo.root,
    PathTo.step 3 (svn_branch_el_rev_content_create 0 (some "sub") none) "sub" ""
      (by decide) (by decide) rfl PathTo.root⟩

/-- The two-branch revision root is one for which the round trip is shown. -/
theorem round_trip_root_ready : RoundTripReady round_trip_family round_trip_root where
  rev_valid := by decide
  addresses := by decide
  root_first := rfl
  has_root := by decide
  top_level := fun b hb => by
    rcases round_trip_store_cases hb with ⟨_, rfl⟩ | ⟨h1, _⟩
    · rfl
    · cases h1
  nested := fun i b hi hb => by
    rcases round_trip_store_cases hb with ⟨rfl, _⟩ | ⟨rfl, rfl⟩
    · cases hi
    · exact ⟨0, rfl, by decide⟩
  invariants := fun i b hb => by
    rcases round_trip_store_cases hb with ⟨_, rfl⟩ | ⟨_, rfl⟩ <;> decide
  valid := fun i b hb => by
    rcases round_trip_store_cases hb with ⟨_, rfl⟩ | ⟨_, rfl⟩
    · exact round_trip_top_valid
    · exact round_trip_nested_valid
  no_orphans := fun i b hb => by
    rcases round_trip_store_cases hb with ⟨_, rfl⟩ | ⟨_, rfl⟩
    · intro e n hm hne
      simp only [round_trip_top, List.mem_cons, Prod.mk.injEq, List.mem_nil_iff,
        or_false] at hm
      rcases hm with ⟨rfl, _⟩ | ⟨_, rfl⟩ | ⟨_, rfl⟩
      · exact absurd rfl hne
      · exact ⟨el (-1) "", by decide, by decide⟩
      · exact ⟨el (-1) "", by decide, by decide⟩
    · intro e n hm hne
      simp only [round_trip_nested, List.mem_cons, Prod.mk.injEq, List.mem_nil_iff,
        or_false] at hm
      rcases hm with ⟨rfl, _⟩ | ⟨_, rfl⟩
      · exact absurd rfl hne
      · exact ⟨el (-1) "", by decide, by decide⟩
  acyclic := fun i b hb => by
    rcases round_trip_store_cases hb with ⟨_, rfl⟩ | ⟨_, rfl⟩
    · intro e n hm
      simp only [round_trip_top, List.mem_cons, Prod.mk.injEq, List.mem_nil_iff,
        or_false] at hm
      rcases hm with ⟨rfl, _⟩ | ⟨rfl, _⟩ | ⟨rfl, _⟩
      · exact ChainTerminates.at_root
      · exact ChainTerminates.step 1 (el 0 "dir") (by decide) (by decide)
          ChainTerminates.at_root
      · exact ChainTerminates.step 3 (svn_branch_el_rev_content_create 0 (some "sub") none)
          (by decide) (by decide) ChainTerminates.at_root
    · intro e n hm
      simp only [round_trip_nested, List.mem_cons, Prod.mk.injEq, List.mem_nil_iff,
        or_false] at hm
      rcases hm with ⟨rfl, _⟩ | ⟨rfl, _⟩
      · exact ChainTerminates.at_root
      · exact ChainTerminates.step 1 (el 2 "f") (by decide) (by decide)
          ChainTerminates.at_root
  names := fun i b hb e n s hm hn => by
    rcases round_trip_store_cases hb with ⟨_, rfl⟩ | ⟨_, rfl⟩
    · simp only [round_trip_top, List.mem_cons, Prod.mk.injEq, List.mem_nil_iff,
        or_false] at hm
      rcases hm with ⟨_, rfl⟩ | ⟨_, rfl⟩ | ⟨_, rfl⟩ <;> cases hn <;> decide
    · simp only [round_trip_nested, List.mem_cons, Prod.mk.injEq, List.mem_nil_iff,
        or_false] at hm
      rcases hm with ⟨_, rfl⟩ | ⟨_, rfl⟩ <;> cases hn <;> decide
  siblings := fun i b hb => by
    rcases round_trip_store_cases hb with ⟨_, rfl⟩ | ⟨_, rfl⟩ <;> decide
  siblings_agree := fun i j b c hb hc hbc => by
    rcases round_trip_store_cases hb with ⟨_, rfl⟩ | ⟨_, rfl⟩ <;>
      rcases round_trip_store_cases hc with ⟨_, rfl⟩ | ⟨_, rfl⟩
    · rfl
    · exact absurd hbc (by decide)
    · exact absurd hbc (by decide)
    · rfl
  anchor := fun i b o ob hb ho hob => by
    rcases round_trip_store_cases hb with ⟨_, rfl⟩ | ⟨_, rfl⟩
    · cases ho
    · cases ho
      rcases round_trip_store_cases hob with ⟨_, rfl⟩ | ⟨h1, _⟩
      · refine ⟨by decide, ⟨svn_branch_el_rev_content_create 0 (some "sub") none, by decide⟩,
          fun e n p hm hp h3 => ?_⟩
        obtain ⟨p0, p1, p3⟩ := round_trip_top_paths
        have hp3 : p = "sub" := pathTo_unique h3 _ p3
        subst hp3
        simp only [round_trip_top, List.mem_cons, Prod.mk.injEq, List.mem_nil_iff,
          or_false] at hm
        rcases hm with ⟨rfl, _⟩ | ⟨rfl, _⟩ | ⟨rfl, _⟩
        · exact absurd (pathTo_unique hp _ p0) (by decide)
        · exact absurd (pathTo_unique hp _ p1) (by decide)
        · rfl
      · cases h1
  disjoint := fun i s b c o Ri Rs hsi hb hc ho _ _ _ => by
    rcases round_trip_store_cases hb with ⟨rfl, _⟩ | ⟨rfl, rfl⟩
    · cases hsi
    · cases ho
      have hs0 : s = 0 := by omega
      subst hs0
      exact OuterChain.refl 0

theorem null_name_serialize :
    svn_branch_revision_root_serialize null_name_family 4 null_name_root
      = Outcome.ok (null_name_text, null_name_root) := by decide

theorem null_name_parse :
    svn_branch_revision_root_parse svn_branch_repos_create 4 null_name_text
      = Outcome.ok ({ rev_roots := [], family := some (family_of 0 2) },
          { rev := 5, root_branch := some 0, branch_instances := [0],
            store := [null_name_parsed] }) := by rfl

/-- C1, counterexample: the branch of `null_name_root` satisfies the element-map invariants
and has element 1, named `(null)`; serializing the revision root writes the line
`b0e1: 0 (null)` for it, which is also the line of an EID without element, and parsing the
text returns a revision root whose branch has no element 1: the set of EIDs is not the same. -/
theorem round_trip_drops_null_name :
    BranchValid null_name_family null_name_branch
    ∧ assert_branch_instance_invariants null_name_family null_name_branch = true
    ∧ svn_int_hash_get null_name_branch.e_map 1 = some (el 0 "(null)")
    ∧ svn_branch_revision_root_serialize null_name_family 4 null_name_root
        = Outcome.ok (null_name_text, null_name_root)
    ∧ svn_branch_revision_root_parse svn_branch_repos_create 4 null_name_text
        = Outcome.ok ({ rev_roots := [], family := some (family_of 0 2) },
            { rev := 5, root_branch := some 0, branch_instances := [0],
              store := [null_name_parsed] })
    ∧ svn_int_hash_get null_name_parsed.e_map 1 = none :=
  ⟨branchValid_of_forall (by simp [NodupKeys, null_name_branch, branch_of]) (by decide),
    by decide, by decide, null_name_serialize, null_name_parse, by decide⟩

/-- C1 (amended): for a revision root that is ready for the round trip (instances stored
outer before inner with the root branch first, every instance valid, without orphans and
without parent cycles, names without newline and other than `(null)` and `.`, nested branches
anchored at distinct element paths), with enough fuel serializing returns a text and parsing
that text into a fresh repository returns a revision root with the same revision, family
ranges and instances (sibling, outer branch, outer EID), in which every instance has the same
EIDs with the same parent and name, each with the payload by reference to `r.rev` and the
relpath of the element in `r`. -/
theorem serialize_parse_round_trip (f : svn_branch_family_t) (r : svn_branch_revision_root_t)
    (h : RoundTripReady f r) : ∃ K, ∀ fuel, K ≤ fuel → RoundTripsAt f r fuel := by
  obtain ⟨K0, hK0⟩ := exists_fuelEnough h
  exact ⟨K0 + r.store.length + 2, fun fuel hf => round_trip_of_ready h hK0 hf⟩

/-- C1, witness: the amended theorem applied to the revision root with a top-level branch and
a branch nested in it. -/
theorem serialize_parse_round_trip_witness :
    RoundTripReady round_trip_family round_trip_root
    ∧ ∃ K, ∀ fuel, K ≤ fuel → RoundTripsAt round_trip_family round_trip_root fuel :=
  ⟨round_trip_root_ready,
    serialize_parse_round_trip round_trip_family round_trip_root round_trip_root_ready⟩

theorem set_done_iff (f : svn_branch_family_t) (b b' : svn_branch_instance_t) (e : Int)
    (n : svn_branch_el_rev_content_t) :
    branch_map_set f b e (some n) = Step.done b' ↔
      (FAMILY_HAS_ELEMENT f e = true ∧ branch_map_node_validate f b e (some n) = true
        ∧ assert_branch_instance_invariants f b = true)
      ∧ b' = { b with e_map := svn_int_hash_set b.e_map e (some n) } := by
  rw [set_some_result]
  by_cases h1 : FAMILY_HAS_ELEMENT f e = true ∧ branch_map_node_validate f b e (some n) = true
  · rw [if_pos h1]
    by_cases h2 : assert_branch_instance_invariants f b = true
    · rw [if_pos h2]
      constructor
      · intro h; cases h; exact ⟨⟨h1.1, h1.2, h2⟩, rfl⟩
      · rintro ⟨_, rfl⟩; rfl
    · rw [if_neg h2]
      constructor
      · intro h; cases h
      · rintro ⟨⟨_, _, h3⟩, _⟩; exact absurd h3 h2
  · rw [if_neg h1]
    constructor
    · intro h; cases h
    · rintro ⟨⟨h3, h4, _⟩, _⟩; exact absurd ⟨h3, h4⟩ h1

/-- The copy loop returns exactly when every non-root entry passes the checks, and then the
destination holds the copied entries over its own. -/
theorem instantiate_copy_spec (f : svn_branch_family_t) (r : Int) :
    ∀ (m : EMap) (b : svn_branch_instance_t), NodupKeys m →
    (∀ b', svn_branch_instantiate_subtree_copy f r m b = Step.done b' →
      CopyOK f r m b ∧ b'.sibling_defn = b.sibling_defn ∧ b'.outer_branch = b.outer_branch
        ∧ b'.outer_eid = b.outer_eid
        ∧ ∀ e, svn_int_hash_get b'.e_map e
            = if e ≠ r ∧ (svn_int_hash_get m e).isSome then svn_int_hash_get m e
              else svn_int_hash_get b.e_map e)
    ∧ (CopyOK f r m b → ∃ b', svn_branch_instantiate_subtree_copy f r m b = Step.done b') := by
  intro m
  induction m with
  | nil =>
    intro b _
    refine ⟨fun b' h => ?_, fun _ => ⟨b, rfl⟩⟩
    simp only [svn_branch_instantiate_subtree_copy, Step.done.injEq] at h
    subst h
    exact ⟨fun e n hm _ => (by cases hm), rfl, rfl, rfl, fun e => by simp [svn_int_hash_get]⟩
  | cons kv rest ih =>
    intro b nd
    obtain ⟨k, v⟩ := kv
    have ndr : NodupKeys rest := (nodupKeys_cons.1 nd).2
    have hk : svn_int_hash_get rest k = none := get_eq_none_iff.2 (nodupKeys_cons.1 nd).1
    by_cases hkr : k = r
    · subst hkr
      have hstep : svn_branch_instantiate_subtree_copy f k ((k, v) :: rest) b
          = svn_branch_instantiate_subtree_copy f k rest b := by
        simp [svn_branch_instantiate_subtree_copy]
      rw [hstep]
      obtain ⟨ih1, ih2⟩ := ih b ndr
      constructor
      · intro b' h
        obtain ⟨hok, hs, ho, he, hget⟩ := ih1 b' h
        refine ⟨fun e n hm hne => ?_, hs, ho, he, fun e => ?_⟩
        · rcases List.mem_cons.1 hm with hm | hm
          · cases hm; exact absurd rfl hne
          · exact hok e n hm hne
        · rw [hget e, get_cons]
          by_cases hek : e = k
          · subst hek; simp
          · simp [hek]
      · intro hok
        exact ih2 (fun e n hm hne => hok e n (List.mem_cons_of_mem _ hm) hne)
    · have hbne : (k != r) = true := by simpa using hkr
      constructor
      · intro b' h
        simp only [svn_branch_instantiate_subtree_copy, hbne, if_true] at h
        cases hb1 : branch_map_set f b k (some v) with
        | done b1 =>
          rw [hb1] at h
          obtain ⟨hchk, rfl⟩ := (set_done_iff f b b1 k v).1 hb1
          obtain ⟨hok, hs, ho, he, hget⟩ := (ih _ ndr).1 b' h
          refine ⟨fun e n hm hne => ?_, hs, ho, he, fun e => ?_⟩
          · rcases List.mem_cons.1 hm with hm | hm
            · cases hm; exact hchk
            · obtain ⟨a1, a2, a3⟩ := hok e n hm hne
              exact ⟨a1, by rw [← a2]; exact (validate_congr f _ _ rfl e _).symm, a3⟩
          · rw [hget e, get_cons]
            by_cases hek : e = k
            · subst hek
              simp [hk, hkr, get_set_some]
            · simp [hek, get_set_some]
        | malfunction x => rw [hb1] at h; cases h
        | out_of_fuel => rw [hb1] at h; cases h
      · intro hok
        have hchk := hok k v (List.mem_cons_self _ _) hkr
        have hb1 := (set_done_iff f b _ k v).2 ⟨hchk, rfl⟩
        simp only [svn_branch_instantiate_subtree_copy, hbne, if_true, hb1]
        apply (ih _ ndr).2
        intro e n hm hne
        obtain ⟨a1, a2, a3⟩ := hok e n (List.mem_cons_of_mem _ hm) hne
        exact ⟨a1, by rw [← a2]; exact validate_congr f _ _ rfl e _, a3⟩

theorem invariants_congr (f : svn_branch_family_t) {b b' : svn_branch_instance_t}
    (ho : b'.outer_branch = b.outer_branch) (he : b'.outer_eid = b.outer_eid) :
    assert_branch_instance_invariants f b' = assert_branch_instance_invariants f b := by
  unfold assert_branch_instance_invariants
  rw [ho, he]

theorem rootWriteOK_congr {f : svn_branch_family_t} {b b' : svn_branch_instance_t}
    (hs : b'.sibling_defn = b.sibling_defn) (ho : b'.outer_branch = b.outer_branch)
    (he : b'.outer_eid = b.outer_eid) {r p : Int} {name : Option String}
    {c : Option svn_element_content_t} (h : RootWriteOK f b r p name c) :
    RootWriteOK f b' r p name c :=
  ⟨h.1, by rw [validate_congr f b b' hs]; exact h.2.1, by rw [invariants_congr f ho he]; exact h.2.2⟩

theorem copyOK_congr {f : svn_branch_family_t} {b b' : svn_branch_instance_t}
    (hs : b'.sibling_defn = b.sibling_defn) (ho : b'.outer_branch = b.outer_branch)
    (he : b'.outer_eid = b.outer_eid) {r : Int} {m : EMap} (h : CopyOK f r m b) :
    CopyOK f r m b' := by
  intro e n hm hne
  obtain ⟨a1, a2, a3⟩ := h e n hm hne
  exact ⟨a1, by rw [validate_congr f b b' hs]; exact a2, by rw [invariants_congr f ho he]; exact a3⟩

/-- The write of the subtree root, by `svn_branch_map_update` or
`svn_branch_map_update_as_subbranch_root`, returns exactly when the checks hold. -/
theorem root_write_iff (f : svn_branch_family_t) (b b1 : svn_branch_instance_t) (r p : Int)
    (name : Option String) (c : Option svn_element_content_t) :
    (if c.isSome = true then svn_branch_map_update f b r p name c
      else svn_branch_map_update_as_subbranch_root f b r p name) = Step.done b1 ↔
    RootWriteOK f b r p name c
      ∧ b1 = { b with e_map := svn_int_hash_set b.e_map r (some ⟨p, name, c⟩) } := by
  unfold RootWriteOK
  cases c with
  | none =>
    simp only [Option.isSome_none, Bool.false_eq_true, if_false]
    rw [update_as_subbranch_root_result]
    by_cases h1 : FAMILY_HAS_ELEMENT f r = true
        ∧ branch_map_node_validate f b r (some ⟨p, name, none⟩) = true
    · rw [if_pos h1]
      by_cases h2 : assert_branch_instance_invariants f b = true
      · rw [if_pos h2]
        constructor
        · intro h; cases h; exact ⟨⟨h1.1, h1.2, h2⟩, rfl⟩
        · rintro ⟨_, rfl⟩; rfl
      · rw [if_neg h2]
        constructor
        · intro h; cases h
        · rintro ⟨⟨_, _, h3⟩, _⟩; exact absurd h3 h2
    · rw [if_neg h1]
      constructor
      · intro h; cases h
      · rintro ⟨⟨h3, h4, _⟩, _⟩; exact absurd ⟨h3, h4⟩ h1
  | some x =>
    simp only [Option.isSome_some, if_true]
    rw [update_result]
    by_cases h1 : FAMILY_HAS_ELEMENT f r = true ∧ (some x).isSome = true
        ∧ branch_map_node_validate f b r (some ⟨p, name, some x⟩) = true
    · rw [if_pos h1]
      by_cases h2 : assert_branch_instance_invariants f b = true
      · rw [if_pos h2]
        constructor
        · intro h; cases h; exact ⟨⟨h1.1, h1.2.2, h2⟩, rfl⟩
        · rintro ⟨_, rfl⟩; rfl
      · rw [if_neg h2]
        constructor
        · intro h; cases h
        · rintro ⟨⟨_, _, h3⟩, _⟩; exact absurd h3 h2
    · rw [if_neg h1]
      constructor
      · intro h; cases h
      · rintro ⟨⟨h3, h4, _⟩, _⟩; exact absurd ⟨h3, rfl, h4⟩ h1

/-- The call `svn_branch_instantiate_subtree` returns exactly when the subtree has its root
element, the root write and the copies pass their checks and the purge does not abort. -/
theorem instantiate_done_iff (f : svn_branch_family_t) (b : svn_branch_instance_t) (p : Int)
    (name : Option String) (s : svn_branch_subtree_t) (b' : svn_branch_instance_t)
    (s' : svn_branch_subtree_t) :
    svn_branch_instantiate_subtree f b p name s = Step.done (b', s') ↔
    ∃ root m1, svn_int_hash_get s.e_map s.root_eid = some root
      ∧ RootWriteOK f b s.root_eid p name root.content
      ∧ map_purge_orphans s.e_map s.root_eid = Step.done m1
      ∧ s' = { s with e_map := m1 }
      ∧ svn_branch_instantiate_subtree_copy f s.root_eid m1
          { b with e_map := (svn_int_hash_set b.e_map s.root_eid
              (some ⟨p, name, root.content⟩)) } = Step.done b' := by
  unfold svn_branch_instantiate_subtree
  cases hr : svn_int_hash_get s.e_map s.root_eid with
  | none =>
    simp only
    constructor
    · intro h; cases h
    · rintro ⟨root, m1, h, _⟩; cases h
  | some root =>
    simp only
    cases hw : (if root.content.isSome = true then
        svn_branch_map_update f b s.root_eid p name root.content
      else svn_branch_map_update_as_subbranch_root f b s.root_eid p name) with
    | done b1 =>
      obtain ⟨hok, rfl⟩ := (root_write_iff f b b1 s.root_eid p name root.content).1 hw
      simp only
      cases hp : map_purge_orphans s.e_map s.root_eid with
      | done m1 =>
        simp only
        cases hc : svn_branch_instantiate_subtree_copy f s.root_eid m1
            { b with e_map := (svn_int_hash_set b.e_map s.root_eid
                (some ⟨p, name, root.content⟩)) } with
        | done b2 =>
          simp only [Step.done.injEq, Prod.mk.injEq]
          constructor
          · rintro ⟨rfl, rfl⟩
            exact ⟨root, m1, rfl, hok, rfl, rfl, hc⟩
          · rintro ⟨root', m1', h1, _, h3, h4, h5⟩
            cases h1; cases h3
            rw [hc] at h5; cases h5
            exact ⟨rfl, h4.symm⟩
        | malfunction x =>
          simp only
          constructor
          · intro h; cases h
          · rintro ⟨root', m1', h1, _, h3, _, h5⟩
            cases h1; cases h3
            rw [hc] at h5; cases h5
        | out_of_fuel =>
          simp only
          constructor
          · intro h; cases h
          · rintro ⟨root', m1', h1, _, h3, _, h5⟩
            cases h1; cases h3
            rw [hc] at h5; cases h5
      | malfunction x =>
        simp only
        constructor
        · intro h; cases h
        · rintro ⟨root', m1', h1, _, h3, _⟩; cases h3
      | out_of_fuel =>
        simp only
        constructor
        · intro h; cases h
        · rintro ⟨root', m1', h1, _, h3, _⟩; cases h3
    | malfunction x =>
      simp only
      constructor
      · intro h; cases h
      · rintro ⟨root', m1', h1, h2, _⟩
        cases h1
        have := (root_write_iff f b _ s.root_eid p name root.content).2 ⟨h2, rfl⟩
        rw [hw] at this; cases this
    | out_of_fuel =>
      simp only
      constructor
      · intro h; cases h
      · rintro ⟨root', m1', h1, h2, _⟩
        cases h1
        have := (root_write_iff f b _ s.root_eid p name root.content).2 ⟨h2, rfl⟩
        rw [hw] at this; cases this

/-- The lookups in the branch that `svn_branch_instantiate_subtree` returns. -/
theorem instantiate_lookup {f : svn_branch_family_t} {b : svn_branch_instance_t} {p : Int}
    {name : Option String} {s : svn_branch_subtree_t} (nd : NodupKeys s.e_map)
    {b' : svn_branch_instance_t} {s' : svn_branch_subtree_t}
    (h : svn_branch_instantiate_subtree f b p name s = Step.done (b', s')) :
    ∃ root m1, svn_int_hash_get s.e_map s.root_eid = some root
      ∧ map_purge_orphans s.e_map s.root_eid = Step.done m1 ∧ s' = { s with e_map := m1 }
      ∧ RootWriteOK f b s.root_eid p name root.content
      ∧ CopyOK f s.root_eid m1 b
      ∧ b'.sibling_defn = b.sibling_defn ∧ b'.outer_branch = b.outer_branch
      ∧ b'.outer_eid = b.outer_eid
      ∧ ∀ e, svn_int_hash_get b'.e_map e
          = if e = s.root_eid then some ⟨p, name, root.content⟩
            else if (svn_int_hash_get m1 e).isSome then svn_int_hash_get m1 e
            else svn_int_hash_get b.e_map e := by
  obtain ⟨root, m1, hr, hok, hp, hs', hc⟩ := (instantiate_done_iff f b p name s b' s').1 h
  have hsub := (purge_done_spec nd s.root_eid m1 hp).1
  obtain ⟨hcok, e1, e2, e3, hget⟩ :=
    (instantiate_copy_spec f s.root_eid m1 _ (nodupKeys_sublist hsub nd)).1 b' hc
  refine ⟨root, m1, hr, hp, hs', hok, copyOK_congr rfl rfl rfl hcok, e1, e2, e3, fun e => ?_⟩
  rw [hget e]
  by_cases he : e = s.root_eid
  · subst he
    simp [get_set_some]
  · simp only [ne_eq, he, not_false_eq_true, true_and, if_false]
    by_cases hm : (svn_int_hash_get m1 e).isSome = true
    · rw [if_pos hm, if_pos hm]
    · rw [if_neg hm, if_neg hm]
      show svn_int_hash_get (svn_int_hash_set b.e_map s.root_eid _) e = _
      rw [get_set_some, if_neg he]

/-- A purged map is purged by one more pass that changes nothing. -/
theorem purge_again {m : EMap} (nd : NodupKeys m) {r : Int} {m1 : EMap}
    (h : map_purge_orphans m r = Step.done m1) : map_purge_orphans m1 r = Step.done m1 := by
  have hfix := (purge_done_spec nd r m1 h).2.2.2
  unfold map_purge_orphans
  simp only [map_purge_orphans_loop, hfix]

/-- C11: when `svn_branch_instantiate_subtree` returns, for a subtree (a hash table) without
parent cycle whose root element exists, the destination branch holds at the root EID of the
subtree the node (`new_parent_eid`, `new_name`, payload of the subtree root); at every other
EID reachable from the subtree root it holds the node of the subtree unchanged; and at every
other EID that is not reachable (whether it is in the subtree or not) it holds what
`to_branch` held, so no unreachable element is copied. -/
theorem instantiate_subtree_preserves_eids (f : svn_branch_family_t)
    (to_branch : svn_branch_instance_t) (new_parent_eid : Int) (new_name : Option String)
    (new_subtree : svn_branch_subtree_t) (root : svn_branch_el_rev_content_t)
    (nd : NodupKeys new_subtree.e_map)
    (hac : ∀ e n, (e, n) ∈ new_subtree.e_map →
      ChainTerminates new_subtree.e_map new_subtree.root_eid e)
    (hroot : svn_int_hash_get new_subtree.e_map new_subtree.root_eid = some root)
    (b' : svn_branch_instance_t) (s' : svn_branch_subtree_t)
    (h : svn_branch_instantiate_subtree f to_branch new_parent_eid new_name new_subtree
      = Step.done (b', s')) :
    svn_int_hash_get b'.e_map new_subtree.root_eid
        = some ⟨new_parent_eid, new_name, root.content⟩
    ∧ (∀ e, e ≠ new_subtree.root_eid → ReachesRoot new_subtree.e_map new_subtree.root_eid e →
        svn_int_hash_get b'.e_map e = svn_int_hash_get new_subtree.e_map e)
    ∧ (∀ e, e ≠ new_subtree.root_eid →
        ¬ ReachesRoot new_subtree.e_map new_subtree.root_eid e →
        svn_int_hash_get b'.e_map e = svn_int_hash_get to_branch.e_map e)
    ∧ b'.sibling_defn = to_branch.sibling_defn ∧ b'.outer_branch = to_branch.outer_branch
    ∧ b'.outer_eid = to_branch.outer_eid := by
  obtain ⟨root', m1, hr, hp, _, _, _, e1, e2, e3, hget⟩ := instantiate_lookup nd h
  rw [hroot] at hr; cases hr
  obtain ⟨hsub, _, hmem, _⟩ := purge_done_spec nd new_subtree.root_eid m1 hp
  have nd1 := nodupKeys_sublist hsub nd
  refine ⟨by rw [hget, if_pos rfl], fun e he hreach => ?_, fun e he hnot => ?_, e1, e2, e3⟩
  · obtain ⟨n, hn⟩ := reachesRoot_has_entry hreach
    have h1 : svn_int_hash_get m1 e = some n :=
      get_of_mem nd1 ((hmem e n).2 ⟨mem_of_get hn, reachesRoot_not_orphan hreach⟩)
    rw [hget, if_neg he, h1, hn]
    rfl
  · have h1 : svn_int_hash_get m1 e = none := by
      cases hg : svn_int_hash_get m1 e with
      | none => rfl
      | some n =>
        obtain ⟨hm, hno⟩ := (hmem e n).1 (mem_of_get hg)
        exact absurd (reachesRoot_of_not_orphan (hac e n hm) n (get_of_mem nd hm) hno) hnot
    rw [hget, if_neg he, h1]
    rfl

/-- C11, witness: the subtree `{0: root, 1: (0, "a"), 2: (9, "b")}` with root 0 instantiated
into an empty branch with root EID 0. -/
theorem instantiate_subtree_preserves_eids_witness :
    svn_int_hash_get
        (branch_of [(0, el (-1) ""), (1, el 0 "a")]).e_map 0 = some ⟨-1, some "", some payload0⟩
    ∧ (∀ e, e ≠ 0 → ReachesRoot orphan_example_map 0 e →
        svn_int_hash_get (branch_of [(0, el (-1) ""), (1, el 0 "a")]).e_map e
          = svn_int_hash_get orphan_example_map e)
    ∧ (∀ e, e ≠ 0 → ¬ ReachesRoot orphan_example_map 0 e →
        svn_int_hash_get (branch_of [(0, el (-1) ""), (1, el 0 "a")]).e_map e
          = svn_int_hash_get (branch_of []).e_map e)
    ∧ (branch_of [(0, el (-1) ""), (1, el 0 "a")]).sibling_defn = (branch_of []).sibling_defn
    ∧ (branch_of [(0, el (-1) ""), (1, el 0 "a")]).outer_branch = (branch_of []).outer_branch
    ∧ (branch_of [(0, el (-1) ""), (1, el 0 "a")]).outer_eid = (branch_of []).outer_eid :=
  instantiate_subtree_preserves_eids (family_of 0 10) (branch_of []) (-1) (some "")
    { e_map := orphan_example_map, root_eid := 0 } (el (-1) "") orphan_example_nodup
    orphan_example_acyclic (by decide)
    (branch_of [(0, el (-1) ""), (1, el 0 "a")])
    { e_map := [(0, el (-1) ""), (1, el 0 "a")], root_eid := 0 } (by decide)

/-- C16: when `svn_branch_instantiate_subtree` has returned, a second application with the
same destination, parent EID, name and subtree (with the element map as the first
application left it, or as it was before) returns as well, and the element map of the
destination holds at every EID what it held after the first application. -/
theorem instantiate_subtree_twice (f : svn_branch_family_t) (to_branch : svn_branch_instance_t)
    (new_parent_eid : Int) (new_name : Option String) (new_subtree : svn_branch_subtree_t)
    (nd : NodupKeys new_subtree.e_map) (b1 : svn_branch_instance_t)
    (s1 : svn_branch_subtree_t)
    (h : svn_branch_instantiate_subtree f to_branch new_parent_eid new_name new_subtree
      = Step.done (b1, s1)) :
    ∃ b2, svn_branch_instantiate_subtree f b1 new_parent_eid new_name s1 = Step.done (b2, s1)
      ∧ svn_branch_instantiate_subtree f b1 new_parent_eid new_name new_subtree
          = Step.done (b2, s1)
      ∧ (∀ e, svn_int_hash_get b2.e_map e = svn_int_hash_get b1.e_map e)
      ∧ b2.sibling_defn = b1.sibling_defn ∧ b2.outer_branch = b1.outer_branch
      ∧ b2.outer_eid = b1.outer_eid := by
  obtain ⟨root, m1, hr, hp, hs1, hok, hcok, e1, e2, e3, hget⟩ := instantiate_lookup nd h
  obtain ⟨hsub, _, hmem, _⟩ := purge_done_spec nd new_subtree.root_eid m1 hp
  have nd1 := nodupKeys_sublist hsub nd
  have hok1 : RootWriteOK f b1 new_subtree.root_eid new_parent_eid new_name root.content :=
    rootWriteOK_congr e1 e2 e3 hok
  have hcok1 : CopyOK f new_subtree.root_eid m1
      { b1 with e_map := (svn_int_hash_set b1.e_map new_subtree.root_eid
          (some ⟨new_parent_eid, new_name, root.content⟩)) } :=
    copyOK_congr e1 e2 e3 hcok
  obtain ⟨b2, hc2⟩ := (instantiate_copy_spec f new_subtree.root_eid m1 _ nd1).2 hcok1
  have hr1 : svn_int_hash_get m1 new_subtree.root_eid = some root := by
    apply get_of_mem nd1
    refine (hmem _ _).2 ⟨mem_of_get hr, fun ho => ?_⟩
    cases ho with
    | parent_missing _ _ hne _ _ => exact hne rfl
    | parent_orphan _ _ hne _ _ => exact hne rfl
  have hsecond : svn_branch_instantiate_subtree f b1 new_parent_eid new_name new_subtree
      = Step.done (b2, s1) :=
    (instantiate_done_iff f b1 _ _ new_subtree b2 s1).2 ⟨root, m1, hr, hok1, hp, hs1, hc2⟩
  have hsecond' : svn_branch_instantiate_subtree f b1 new_parent_eid new_name s1
      = Step.done (b2, s1) := by
    subst hs1
    exact (instantiate_done_iff f b1 _ _ _ b2 _).2
      ⟨root, m1, hr1, hok1, purge_again nd hp, rfl, hc2⟩
  obtain ⟨_, _, hr', hp', _, _, _, e1', e2', e3', hget'⟩ := instantiate_lookup nd hsecond
  rw [hr] at hr'; cases hr'
  rw [hp] at hp'; cases hp'
  refine ⟨b2, hsecond', hsecond, fun e => ?_, e1', e2', e3'⟩
  rw [hget' e, hget e]
  by_cases he : e = new_subtree.root_eid
  · rw [if_pos he, if_pos he]
  · simp only [if_neg he]
    by_cases hm : (svn_int_hash_get m1 e).isSome = true
    · simp only [if_pos hm]
    · simp only [if_neg hm]

/-- C16, witness: the example subtree instantiated twice into an empty branch. -/
theorem instantiate_subtree_twice_witness :
    ∃ b2, svn_branch_instantiate_subtree (family_of 0 10)
          (branch_of [(0, el (-1) ""), (1, el 0 "a")]) (-1) (some "")
          { e_map := [(0, el (-1) ""), (1, el 0 "a")], root_eid := 0 }
        = Step.done (b2, { e_map := [(0, el (-1) ""), (1, el 0 "a")], root_eid := 0 })
      ∧ svn_branch_instantiate_subtree (family_of 0 10)
          (branch_of [(0, el (-1) ""), (1, el 0 "a")]) (-1) (some "")
          { e_map := orphan_example_map, root_eid := 0 }
        = Step.done (b2, { e_map := [(0, el (-1) ""), (1, el 0 "a")], root_eid := 0 })
      ∧ (∀ e, svn_int_hash_get b2.e_map e
          = svn_int_hash_get (branch_of [(0, el (-1) ""), (1, el 0 "a")]).e_map e)
      ∧ b2.sibling_defn = (branch_of [(0, el (-1) ""), (1, el 0 "a")]).sibling_defn
      ∧ b2.outer_branch = (branch_of [(0, el (-1) ""), (1, el 0 "a")]).outer_branch
      ∧ b2.outer_eid = (branch_of [(0, el (-1) ""), (1, el 0 "a")]).outer_eid :=
  instantiate_subtree_twice (family_of 0 10) (branch_of []) (-1) (some "")
    { e_map := orphan_example_map, root_eid := 0 } orphan_example_nodup
    (branch_of [(0, el (-1) ""), (1, el 0 "a")])
    { e_map := [(0, el (-1) ""), (1, el 0 "a")], root_eid := 0 } (by decide)

theorem depth_unique {m : EMap} {e : Int} {d : Nat} (h : Depth m e d) :
    ∀ d', Depth m e d' → d = d' := by
  induction h with
  | no_entry e he =>
    intro d' h'
    cases h' with
    | no_entry _ _ => rfl
    | step _ n _ hn _ => rw [he] at hn; cases hn
  | step e n d hn _ ih =>
    intro d' h'
    cases h' with
    | no_entry _ he => rw [he] at hn; cases hn
    | step _ n' d2 hn' hd' =>
      rw [hn] at hn'; cases hn'
      rw [ih d2 hd']

theorem depth_exists {m : EMap} (h : NoParentCycle m) (e : Int) : ∃ d, Depth m e d := by
  cases hg : svn_int_hash_get m e with
  | none => exact ⟨0, Depth.no_entry e hg⟩
  | some n => exact h e n (mem_of_get hg)

/-- Going up from `e` to `c` the depth does not grow. -/
theorem below_depth_le {m : EMap} {c e : Int} (h : Below m c e) :
    ∀ dc de, Depth m c dc → Depth m e de → dc ≤ de := by
  induction h with
  | root n _ =>
    intro dc de h1 h2
    exact le_of_eq (depth_unique h1 de h2)
  | step e n hn _ ih =>
    intro dc de h1 h2
    cases h2 with
    | no_entry _ he => rw [he] at hn; cases hn
    | step _ n' d hn' hd =>
      rw [hn] at hn'; cases hn'
      have := ih dc d h1 hd
      omega

/-- Two elements of the same depth above `e` are the same element. -/
theorem below_same_depth {m : EMap} {c1 e : Int} (h : Below m c1 e) :
    ∀ c2 d, Below m c2 e → Depth m c1 d → Depth m c2 d → c1 = c2 := by
  induction h with
  | root n hn =>
    intro c2 d h2 d1 d2
    cases h2 with
    | root _ _ => rfl
    | step _ n' hn' hb =>
      cases d1 with
      | no_entry _ he => rw [he] at hn; cases hn
      | step _ n2 d' hn2 hd' =>
        rw [hn'] at hn2; cases hn2
        have := below_depth_le hb _ _ d2 hd'
        omega
  | step e n hn hb ih =>
    intro c2 d h2 d1 d2
    cases h2 with
    | root n' hn' =>
      cases d2 with
      | no_entry _ he => rw [he] at hn; cases hn
      | step _ n2 d' hn2 hd' =>
        rw [hn] at hn2; cases hn2
        have := below_depth_le hb _ _ d1 hd'
        omega
    | step _ n' hn' hb' =>
      rw [hn] at hn'; cases hn'
      exact ih c2 d hb' d1 d2

theorem below_trans_child {m : EMap} {r c : Int} {n : svn_branch_el_rev_content_t}
    (hr : ∃ x, svn_int_hash_get m r = some x) (hc : svn_int_hash_get m c = some n)
    (hp : n.parent_eid = r) {e : Int} (h : Below m c e) : Below m r e := by
  induction h with
  | root n' hn' =>
    obtain ⟨x, hx⟩ := hr
    exact Below.step c n hc (by rw [hp]; exact Below.root x hx)
  | step e n' hn' _ ih => exact Below.step e n' hn' ih

/-- An element below `r` is `r` or is below a child of `r`. -/
theorem below_cases {m : EMap} {r e : Int} (h : Below m r e) :
    e = r ∨ ∃ c n, svn_int_hash_get m c = some n ∧ n.parent_eid = r ∧ Below m c e := by
  induction h with
  | root n _ => exact Or.inl rfl
  | step e n hn hb ih =>
    right
    rcases ih with h1 | ⟨c, nc, hc, hp, hbc⟩
    · exact ⟨e, n, hn, h1, Below.root n hn⟩
    · exact ⟨c, nc, hc, hp, Below.step e n hn hbc⟩

/-- The depth of an element is at most the number of entries. -/
theorem depth_le_length {m : EMap} {e : Int} {d : Nat} (h : Depth m e d) : d ≤ m.length := by
  have key : ∀ e d, Depth m e d → ∃ L : List Int, L.length = d ∧ L.Nodup
      ∧ ∀ x ∈ L, x ∈ m.map Prod.fst ∧ ∃ dx, Depth m x dx ∧ dx ≤ d := by
    intro e d h
    induction h with
    | no_entry e _ => exact ⟨[], rfl, List.nodup_nil, fun x hx => by cases hx⟩
    | step e n d hn hd ih =>
      obtain ⟨L, hl, hnd, hL⟩ := ih
      have hdep : Depth m e (d + 1) := Depth.step e n d hn hd
      refine ⟨e :: L, by simp [hl], List.nodup_cons.2 ⟨fun hmem => ?_, hnd⟩, fun x hx => ?_⟩
      · obtain ⟨_, dx, hdx, hle⟩ := hL e hmem
        have := depth_unique hdep dx hdx
        omega
      · rcases List.mem_cons.1 hx with rfl | hx
        · exact ⟨List.mem_map.2 ⟨(x, n), mem_of_get hn, rfl⟩, d + 1, hdep, le_refl _⟩
        · obtain ⟨h1, dx, hdx, hle⟩ := hL x hx
          exact ⟨h1, dx, hdx, by omega⟩
  obtain ⟨L, hl, hnd, hL⟩ := key e d h
  have hsub : L ⊆ m.map Prod.fst := fun x hx => (hL x hx).1
  have := (List.subperm_of_subset hnd hsub).length_le
  simpa [hl] using this

theorem mem_fresh_eids {a : Int} {n : Nat} {x : Int} :
    x ∈ fresh_eids a n ↔ a ≤ x ∧ x < a + n := by
  simp only [fresh_eids, List.mem_map, List.mem_range]
  constructor
  · rintro ⟨i, hi, rfl⟩; omega
  · rintro ⟨h1, h2⟩; exact ⟨(x - a).toNat, by omega, by omega⟩

theorem fresh_eids_length (a : Int) (n : Nat) : (fresh_eids a n).length = n := by
  simp [fresh_eids]

theorem fresh_eids_append (a : Int) (n1 n2 : Nat) :
    fresh_eids a (n1 + n2) = fresh_eids a n1 ++ fresh_eids (a + n1) n2 := by
  simp only [fresh_eids, List.range_add, List.map_append, List.map_map]
  congr 1
  apply List.map_congr_left
  intro i _
  simp only [Function.comp, Nat.cast_add]
  omega

theorem fresh_eids_succ (a : Int) (n : Nat) :
    fresh_eids a (n + 1) = a :: fresh_eids (a + 1) n := by
  rw [Nat.add_comm, fresh_eids_append]
  simp [fresh_eids, List.range_succ]

theorem fresh_eids_nodup (a : Int) (n : Nat) : (fresh_eids a n).Nodup := by
  unfold fresh_eids
  apply List.Nodup.map _ (List.nodup_range _)
  intro i j hij
  have : a + (i : Int) = a + (j : Int) := hij
  omega

theorem root_write_not_fuel (f : svn_branch_family_t) (b : svn_branch_instance_t) (r p : Int)
    (name : Option String) (c : Option svn_element_content_t) :
    (if c.isSome = true then svn_branch_map_update f b r p name c
      else svn_branch_map_update_as_subbranch_root f b r p name) ≠ Step.out_of_fuel := by
  split
  · rw [update_result]; split
    · split <;> simp
    · simp
  · rw [update_as_subbranch_root_result]; split
    · split <;> simp
    · simp

/-- One unfolding of `svn_branch_map_add_subtree` called with `to_eid = -1`, when the subtree has
its root element and the root write passes its checks. -/
theorem add_subtree_unfold (fuel : Nat) (f : svn_branch_family_t) (b : svn_branch_instance_t)
    (p : Int) (name : Option String) (m : EMap) (r : Int) (root : svn_branch_el_rev_content_t)
    (hr : svn_int_hash_get m r = some root)
    (hok : RootWriteOK (family_bump f) b f.next_eid p name root.content) :
    svn_branch_map_add_subtree (fuel + 1) (f, b) (-1) p name { e_map := m, root_eid := r }
      = m.foldl (fun acc kv => acc.andThen (add_subtree_child fuel m r f.next_eid kv))
          (Step.done (family_bump f,
            { b with e_map := (svn_int_hash_set b.e_map f.next_eid
                (some ⟨p, name, root.content⟩)) })) := by
  have hw := (root_write_iff (family_bump f) b _ f.next_eid p name root.content).2 ⟨hok, rfl⟩
  simp only [svn_branch_map_add_subtree, svn_branch_family_add_new_element, if_true, hr]
  simp only [family_bump] at hw
  simp only [hw]
  rfl

/-- A call of `svn_branch_map_add_subtree` with `to_eid = -1` that does not abort has found the
root element and passed the checks of the root write. -/
theorem add_subtree_not_malfunction (fuel : Nat) (f : svn_branch_family_t)
    (b : svn_branch_instance_t) (p : Int) (name : Option String) (m : EMap) (r : Int)
    (h : ∀ x, svn_branch_map_add_subtree (fuel + 1) (f, b) (-1) p name
      { e_map := m, root_eid := r } ≠ Step.malfunction x) :
    ∃ root, svn_int_hash_get m r = some root
      ∧ RootWriteOK (family_bump f) b f.next_eid p name root.content := by
  cases hr : svn_int_hash_get m r with
  | none =>
    exfalso
    apply h (family_bump f, b)
    simp [svn_branch_map_add_subtree, svn_branch_family_add_new_element, hr, family_bump]
  | some root =>
    refine ⟨root, rfl, ?_⟩
    by_contra hno
    cases hw : (if root.content.isSome = true then
        svn_branch_map_update (family_bump f) b f.next_eid p name root.content
      else svn_branch_map_update_as_subbranch_root (family_bump f) b f.next_eid p name) with
    | done b1 => exact hno ((root_write_iff _ b b1 _ p name root.content).1 hw).1
    | out_of_fuel => exact root_write_not_fuel _ _ _ _ _ _ hw
    | malfunction x =>
      apply h (family_bump f, x)
      simp only [family_bump] at hw
      simp only [svn_branch_map_add_subtree, svn_branch_family_add_new_element, if_true, hr, hw]
      rfl

theorem snd_unique {A : List (Int × Int)} (h : (A.map Prod.fst).Nodup) {e x y : Int}
    (hx : (e, x) ∈ A) (hy : (e, y) ∈ A) : x = y := by
  induction A with
  | nil => cases hx
  | cons a A ih =>
    rw [List.map_cons, List.nodup_cons] at h
    rcases List.mem_cons.1 hx with hx | hx <;> rcases List.mem_cons.1 hy with hy | hy
    · rw [← hx] at hy
      exact (Prod.mk.inj hy).2.symm
    · exact absurd (List.mem_map.2 ⟨(e, y), hy, by rw [← hx]⟩) h.1
    · exact absurd (List.mem_map.2 ⟨(e, x), hx, by rw [← hy]⟩) h.1
    · exact ih h.2 hx hy

theorem child_depth {m : EMap} {r c : Int} {n : svn_branch_el_rev_content_t} {d : Nat}
    (hc : svn_int_hash_get m c = some n) (hp : n.parent_eid = r) (hd : Depth m r d) :
    Depth m c (d + 1) :=
  Depth.step c n d hc (by rw [hp]; exact hd)

theorem kids_spec {m : EMap} (nd : NodupKeys m) (hac : NoParentCycle m) (r R : Int)
    (fuel : Nat)
    (IH : ∀ c P name f b f' b',
      svn_branch_map_add_subtree fuel (f, b) (-1) P name { e_map := m, root_eid := c }
        = Step.done (f', b') → ∃ A, CallSpec m c P name f b f' b' A) :
    ∀ todo : EMap, NodupKeys todo → (∀ kv ∈ todo, kv ∈ m) →
    ∀ f0 b0 f' b',
      todo.foldl (fun acc kv => acc.andThen (add_subtree_child fuel m r R kv))
        (Step.done (f0, b0)) = Step.done (f', b') →
      ∃ A, KidsSpec m r R todo f0 b0 f' b' A := by
  obtain ⟨dr, hdr⟩ := depth_exists hac r
  intro todo
  induction todo with
  | nil =>
    intro _ _ f0 b0 f' b' h
    simp only [List.foldl_nil, Step.done.injEq, Prod.mk.injEq] at h
    obtain ⟨rfl, rfl⟩ := h
    refine ⟨[], ?_, rfl, rfl, rfl, rfl, fun _ _ => rfl, fun e e' h => (by cases h), ?_,
      List.nodup_nil⟩
    · simp
    · intro e
      simp
  | cons kv rest ih =>
    intro ndt hsub f0 b0 f' b' h
    have ndr : NodupKeys rest := (nodupKeys_cons.1 ndt).2
    have hsubr : ∀ x ∈ rest, x ∈ m := fun x hx => hsub x (List.mem_cons_of_mem _ hx)
    simp only [List.foldl_cons] at h
    cases hstep : add_subtree_child fuel m r R kv (f0, b0) with
    | malfunction x =>
      have : (Step.done (f0, b0)).andThen (add_subtree_child fuel m r R kv)
          = Step.malfunction x := by simp [Step.andThen, hstep]
      rw [this] at h
      exact absurd h (foldl_andThen_stuck _ rest _ (by simp) _)
    | out_of_fuel =>
      have : (Step.done (f0, b0)).andThen (add_subtree_child fuel m r R kv)
          = Step.out_of_fuel := by simp [Step.andThen, hstep]
      rw [this] at h
      exact absurd h (foldl_andThen_stuck _ rest _ (by simp) _)
    | done st1 =>
      obtain ⟨f1, b1⟩ := st1
      have : (Step.done (f0, b0)).andThen (add_subtree_child fuel m r R kv)
          = Step.done (f1, b1) := by simp [Step.andThen, hstep]
      rw [this] at h
      obtain ⟨A2, k2⟩ := ih ndr hsubr f1 b1 f' b' h
      by_cases hchild : kv.2.parent_eid = r
      · -- a child of `r`: the recursive call, then the rest of the loop
        simp only [add_subtree_child, if_pos hchild] at hstep
        obtain ⟨A1, k1⟩ := IH kv.1 R kv.2.name f0 b0 f1 b1 hstep
        have hkv : svn_int_hash_get m kv.1 = some kv.2 := get_of_mem nd (hsub kv (List.mem_cons_self _ _))
        have hf1 : f1.next_eid = f0.next_eid + (A1.length : Int) := by rw [k1.next]
        have hlow : ∀ x ∈ A1.map Prod.snd, x ∉ A2.map Prod.snd := by
          intro x hx hx2
          rw [k1.new_eids, mem_fresh_eids] at hx
          rw [k2.new_eids, mem_fresh_eids, hf1] at hx2
          omega
        refine ⟨A1 ++ A2, ?_, ?_, k2.sibling.trans k1.sibling,
          k2.outer_branch.trans k1.outer_branch, k2.outer_eid.trans k1.outer_eid, ?_, ?_, ?_, ?_⟩
        · rw [k2.next, k1.next]
          simp only [List.length_append, Nat.cast_add]
          congr 1
          omega
        · rw [List.map_append, k1.new_eids, k2.new_eids, hf1, List.length_append,
            fresh_eids_append]
        · intro k hk
          rw [List.map_append, List.mem_append, not_or] at hk
          rw [k2.frame k hk.2, k1.frame k hk.1]
        · intro e e' hmem
          rcases List.mem_append.1 hmem with h1 | h2
          · have he' : e' ∉ A2.map Prod.snd :=
              hlow e' (List.mem_map.2 ⟨(e, e'), h1, rfl⟩)
            by_cases hec : e = kv.1
            · subst hec
              obtain ⟨root, hroot, hhead, hget⟩ := k1.head
              rw [hkv] at hroot; cases hroot
              have : e' = f0.next_eid := snd_unique k1.nodup h1 hhead
              subst this
              exact ⟨kv.2, R, hkv, Or.inl ⟨hchild, rfl⟩, by rw [k2.frame _ he', hget]⟩
            · obtain ⟨n, q, hn, hq, hget⟩ := k1.nodes e e' h1 hec
              exact ⟨n, q, hn, Or.inr (List.mem_append_left _ hq), by rw [k2.frame _ he', hget]⟩
          · obtain ⟨n, q, hn, hq, hget⟩ := k2.nodes e e' h2
            refine ⟨n, q, hn, ?_, hget⟩
            rcases hq with hq | hq
            · exact Or.inl hq
            · exact Or.inr (List.mem_append_right _ hq)
        · intro e
          rw [List.map_append, List.mem_append, k1.keys, k2.keys]
          constructor
          · rintro (h1 | ⟨c, n, hcn, hp, hb⟩)
            · exact ⟨kv.1, kv.2, List.mem_cons_self _ _, hchild, h1⟩
            · exact ⟨c, n, List.mem_cons_of_mem _ hcn, hp, hb⟩
          · rintro ⟨c, n, hcn, hp, hb⟩
            rcases List.mem_cons.1 hcn with h1 | h1
            · cases h1; exact Or.inl hb
            · exact Or.inr ⟨c, n, h1, hp, hb⟩
        · rw [List.map_append]
          refine List.Nodup.append k1.nodup k2.nodup ?_
          intro e h1 h2
          rw [k1.keys] at h1
          obtain ⟨c, n, hcn, hp, hb⟩ := (k2.keys e).1 h2
          have hc : svn_int_hash_get m c = some n := get_of_mem nd (hsubr _ hcn)
          have heq : kv.1 = c :=
            below_same_depth h1 c (dr + 1) hb (child_depth hkv hchild hdr) (child_depth hc hp hdr)
          exact (nodupKeys_cons.1 ndt).1 n (by rw [heq]; exact hcn)
      · -- not a child of `r`: skipped
        simp only [add_subtree_child, if_neg hchild, Step.done.injEq, Prod.mk.injEq] at hstep
        obtain ⟨rfl, rfl⟩ := hstep
        refine ⟨A2, k2.next, k2.new_eids, k2.sibling, k2.outer_branch, k2.outer_eid, k2.frame,
          k2.nodes, fun e => ?_, k2.nodup⟩
        rw [k2.keys]
        constructor
        · rintro ⟨c, n, hcn, hp, hb⟩
          exact ⟨c, n, List.mem_cons_of_mem _ hcn, hp, hb⟩
        · rintro ⟨c, n, hcn, hp, hb⟩
          rcases List.mem_cons.1 hcn with h1 | h1
          · cases h1; exact absurd hp hchild
          · exact ⟨c, n, h1, hp, hb⟩

/-- A call of `svn_branch_map_add_subtree` with `to_eid = -1` that returns has given a new EID
to every element at or below the subtree root. -/
theorem add_subtree_spec {m : EMap} (nd : NodupKeys m) (hac : NoParentCycle m) :
    ∀ (fuel : Nat) (c P : Int) (name : Option String) (f : svn_branch_family_t)
      (b : svn_branch_instance_t) (f' : svn_branch_family_t) (b' : svn_branch_instance_t),
      svn_branch_map_add_subtree fuel (f, b) (-1) P name { e_map := m, root_eid := c }
        = Step.done (f', b') → ∃ A, CallSpec m c P name f b f' b' A := by
  intro fuel
  induction fuel with
  | zero => intro c P name f b f' b' h; simp [svn_branch_map_add_subtree] at h
  | succ fuel ih =>
    intro c P name f b f' b' h
    obtain ⟨root, hroot, hok⟩ := add_subtree_not_malfunction fuel f b P name m c
      (fun x hx => by rw [h] at hx; cases hx)
    rw [add_subtree_unfold fuel f b P name m c root hroot hok] at h
    obtain ⟨A, k⟩ := kids_spec nd hac c f.next_eid fuel ih m nd (fun _ hkv => hkv) _ _ _ _ h
    obtain ⟨dc, hdc⟩ := depth_exists hac c
    have hnew : ∀ x ∈ A.map Prod.snd, f.next_eid + 1 ≤ x := by
      intro x hx
      rw [k.new_eids, mem_fresh_eids] at hx
      exact hx.1
    have hR : f.next_eid ∉ A.map Prod.snd := fun hx => by
      have := hnew _ hx
      omega
    refine ⟨(c, f.next_eid) :: A, ?_, ?_, k.sibling, k.outer_branch, k.outer_eid, ?_, ?_, ?_,
      ?_, ?_⟩
    · rw [k.next]
      simp only [family_bump, List.length_cons, Nat.cast_add, Nat.cast_one]
      congr 1
      omega
    · rw [List.map_cons, k.new_eids, List.length_cons, fresh_eids_succ]
      rfl
    · intro x hx
      rw [List.map_cons, List.mem_cons, not_or] at hx
      rw [k.frame x hx.2]
      simp only [get_set_some, if_neg hx.1]
    · refine ⟨root, hroot, List.mem_cons_self _ _, ?_⟩
      rw [k.frame _ hR]
      simp only [get_set_some, if_true]
    · intro e e' hmem hne
      rcases List.mem_cons.1 hmem with h1 | h1
      · cases h1; exact absurd rfl hne
      · obtain ⟨n, q, hn, hq, hget⟩ := k.nodes e e' h1
        refine ⟨n, q, hn, ?_, hget⟩
        rcases hq with ⟨hp, rfl⟩ | hq
        · rw [hp]; exact List.mem_cons_self _ _
        · exact List.mem_cons_of_mem _ hq
    · intro e
      rw [List.map_cons, List.mem_cons, k.keys]
      constructor
      · rintro (rfl | ⟨c', n, hcn, hp, hb⟩)
        · exact Below.root root hroot
        · exact below_trans_child ⟨root, hroot⟩ (get_of_mem nd hcn) hp hb
      · intro hb
        rcases below_cases hb with h1 | ⟨c', n, hc', hp, hb'⟩
        · exact Or.inl h1
        · exact Or.inr ⟨c', n, mem_of_get hc', hp, hb'⟩
    · rw [List.map_cons, List.nodup_cons]
      refine ⟨fun hmem => ?_, k.nodup⟩
      obtain ⟨c', n, hcn, hp, hb⟩ := (k.keys c).1 hmem
      have := below_depth_le hb _ _ (child_depth (get_of_mem nd hcn) hp hdc) hdc
      omega

theorem foldl_andThen_not_fuel {σ α : Type} (g : α → σ → Step σ) :
    ∀ (l : List α), (∀ a ∈ l, ∀ s, g a s ≠ Step.out_of_fuel) → ∀ (s0 : Step σ),
    s0 ≠ Step.out_of_fuel →
    l.foldl (fun acc a => acc.andThen (g a)) s0 ≠ Step.out_of_fuel := by
  intro l
  induction l with
  | nil => intro _ s0 h; simpa using h
  | cons a l ih =>
    intro hg s0 h0
    simp only [List.foldl_cons]
    apply ih (fun x hx => hg x (List.mem_cons_of_mem _ hx))
    cases s0 with
    | done x => simpa [Step.andThen] using hg a (List.mem_cons_self _ _) x
    | malfunction x => simp [Step.andThen]
    | out_of_fuel => exact absurd rfl h0

/-- With fuel for the levels below the root, `svn_branch_map_add_subtree` does not run out of
fuel. -/
theorem add_subtree_terminates {m : EMap} (nd : NodupKeys m) :
    ∀ (fuel : Nat) (c : Int) (d : Nat), Depth m c d → m.length + 2 ≤ fuel + d →
    ∀ (P : Int) (name : Option String) (f : svn_branch_family_t) (b : svn_branch_instance_t),
      svn_branch_map_add_subtree fuel (f, b) (-1) P name { e_map := m, root_eid := c }
        ≠ Step.out_of_fuel := by
  intro fuel
  induction fuel with
  | zero =>
    intro c d hd hle
    have := depth_le_length hd
    omega
  | succ fuel ih =>
    intro c d hd hle P name f b hout
    obtain ⟨root, hroot, hok⟩ := add_subtree_not_malfunction fuel f b P name m c
      (fun x hx => by rw [hout] at hx; cases hx)
    rw [add_subtree_unfold fuel f b P name m c root hroot hok] at hout
    refine foldl_andThen_not_fuel _ m (fun kv hkv st => ?_) _ (by simp) hout
    unfold add_subtree_child
    split
    · rename_i hp
      obtain ⟨f1, b1⟩ := st
      exact ih kv.1 (d + 1) (child_depth (get_of_mem nd hkv) hp hd) (by omega) _ _ f1 b1
    · simp

/-- C12: for every family, destination branch and subtree (a hash table) without parent cycle
whose root element exists, `svn_branch_map_add_subtree` called with `to_eid = -1` terminates,
and when it returns it has raised `next_eid` by the number of elements at or below the subtree
root, given them the EIDs from the old `next_eid` on (distinct, one each), stored the copy of
the root as (`new_parent_eid`, `new_name`), stored the copy of every other such element with
its name and payload and the new EID of its parent, and left every EID below the old
`next_eid` as it was. -/
theorem add_subtree_assigns_fresh_eids (f : svn_branch_family_t)
    (to_branch : svn_branch_instance_t) (new_parent_eid : Int) (new_name : Option String)
    (new_subtree : svn_branch_subtree_t) (root : svn_branch_el_rev_content_t)
    (nd : NodupKeys new_subtree.e_map) (hac : NoParentCycle new_subtree.e_map)
    (hroot : svn_int_hash_get new_subtree.e_map new_subtree.root_eid = some root) :
    AssignsFreshEids f to_branch new_parent_eid new_name new_subtree root := by
  obtain ⟨m, r⟩ := new_subtree
  simp only at nd hac hroot
  constructor
  · intro fuel hfuel
    obtain ⟨d, hd⟩ := depth_exists hac r
    have hd1 : 1 ≤ d := by
      cases hd with
      | no_entry _ he => rw [he] at hroot; cases hroot
      | step _ _ _ _ _ => omega
    have hfuel2 : m.length + 1 ≤ fuel := hfuel
    exact add_subtree_terminates nd fuel r d hd (by omega) _ _ f to_branch
  · intro fuel f' b' h
    obtain ⟨A, k⟩ := add_subtree_spec nd hac fuel r new_parent_eid new_name f to_branch f' b' h
    obtain ⟨root', hroot', hmem, hget⟩ := k.head
    rw [hroot] at hroot'; cases hroot'
    refine ⟨A, k.keys, k.nodup, k.next, k.new_eids, hmem, hget, k.nodes, fun x hx => ?_,
      k.sibling, k.outer_branch, k.outer_eid⟩
    apply k.frame
    rw [k.new_eids, mem_fresh_eids]
    omega

theorem chain_map_no_cycle : NoParentCycle chain_map := by
  have h0 : Depth chain_map 0 1 :=
    Depth.step 0 (el (-1) "") 0 (by decide) (Depth.no_entry (-1) (by decide))
  have h1 : Depth chain_map 1 2 := Depth.step 1 (el 0 "a") 1 (by decide) h0
  have h2 : Depth chain_map 2 3 := Depth.step 2 (el 1 "b") 2 (by decide) h1
  intro e n hm
  simp only [chain_map, List.mem_cons, Prod.mk.injEq, List.mem_nil_iff, or_false] at hm
  rcases hm with ⟨rfl, _⟩ | ⟨rfl, _⟩ | ⟨rfl, _⟩
  · exact ⟨1, h0⟩
  · exact ⟨2, h1⟩
  · exact ⟨3, h2⟩

/-- C12, witness: the subtree at `a` of the chain copied below the root of the same branch: the
call returns with the new elements 3 and 4. -/
theorem add_subtree_assigns_fresh_eids_witness :
    NodupKeys chain_map ∧ NoParentCycle chain_map
    ∧ svn_branch_map_add_subtree 4 (family_of 0 3, branch_of chain_map) (-1) 0 (some "copy")
        { e_map := chain_map, root_eid := 1 }
      = Step.done ({ family_of 0 3 with next_eid := 5 },
          branch_of (chain_map ++ [(3, el 0 "copy"), (4, el 3 "b")]))
    ∧ AssignsFreshEids (family_of 0 3) (branch_of chain_map) 0 (some "copy")
        { e_map := chain_map, root_eid := 1 } (el 0 "a") :=
  ⟨by unfold NodupKeys chain_map; decide, chain_map_no_cycle, by decide,
    add_subtree_assigns_fresh_eids (family_of 0 3) (branch_of chain_map) 0 (some "copy")
      { e_map := chain_map, root_eid := 1 } (el 0 "a") (by unfold NodupKeys chain_map; decide)
      chain_map_no_cycle (by decide)⟩

theorem foldl_bind_stuck {σ α : Type} (g : α → σ → Outcome σ) :
    ∀ (l : List α) (s0 : Outcome σ), (∀ x, s0 ≠ Outcome.ok x) → ∀ s,
    l.foldl (fun acc a => acc.bind (g a)) s0 ≠ Outcome.ok s := by
  intro l
  induction l with
  | nil => intro s0 h s; simpa using h s
  | cons a l ih =>
    intro s0 h s
    simp only [List.foldl_cons]
    apply ih
    intro s1
    cases s0 with
    | ok x => exact absurd rfl (h x)
    | malfunction => simp [Outcome.bind]
    | out_of_fuel => simp [Outcome.bind]

/-- A loop of calls that returns has gone through a state after every call. -/
theorem foldl_bind_cons {σ α : Type} (g : α → σ → Outcome σ) (a : α) (l : List α)
    (s s' : σ) (h : (a :: l).foldl (fun acc x => acc.bind (g x)) (Outcome.ok s) = Outcome.ok s') :
    ∃ s1, g a s = Outcome.ok s1
      ∧ l.foldl (fun acc x => acc.bind (g x)) (Outcome.ok s1) = Outcome.ok s' := by
  simp only [List.foldl_cons] at h
  cases hga : g a s with
  | ok s1 =>
    have : (Outcome.ok s).bind (g a) = Outcome.ok s1 := by simp [Outcome.bind, hga]
    rw [this] at h
    exact ⟨s1, rfl, h⟩
  | malfunction =>
    have : (Outcome.ok s).bind (g a) = Outcome.malfunction := by simp [Outcome.bind, hga]
    rw [this] at h
    exact absurd h (foldl_bind_stuck g l _ (by simp) s')
  | out_of_fuel =>
    have : (Outcome.ok s).bind (g a) = Outcome.out_of_fuel := by simp [Outcome.bind, hga]
    rw [this] at h
    exact absurd h (foldl_bind_stuck g l _ (by simp) s')

theorem foldl_bind_inv {σ α : Type} (g : α → σ → Outcome σ) (P : σ → Prop) :
    ∀ (l : List α), (∀ a ∈ l, ∀ s s', P s → g a s = Outcome.ok s' → P s') →
    ∀ (s s' : σ), P s →
    l.foldl (fun acc a => acc.bind (g a)) (Outcome.ok s) = Outcome.ok s' → P s' := by
  intro l
  induction l with
  | nil => intro _ s s' hs h; simp at h; subst h; exact hs
  | cons a l ih =>
    intro hg s s' hs h
    obtain ⟨s1, h1, h2⟩ := foldl_bind_cons g a l s s' h
    exact ih (fun x hx => hg x (List.mem_cons_of_mem _ hx)) s1 s'
      (hg a (List.mem_cons_self _ _) s s1 hs h1) h2

theorem foldl_bind_not_fuel {σ α : Type} (g : α → σ → Outcome σ) (P : σ → Prop) :
    ∀ (l : List α), (∀ a ∈ l, ∀ s s', P s → g a s = Outcome.ok s' → P s') →
    (∀ a ∈ l, ∀ s, P s → g a s ≠ Outcome.out_of_fuel) → ∀ (s : σ), P s →
    l.foldl (fun acc a => acc.bind (g a)) (Outcome.ok s) ≠ Outcome.out_of_fuel := by
  intro l
  induction l with
  | nil => intro _ _ s _; simp
  | cons a l ih =>
    intro hg hn s hs
    simp only [List.foldl_cons]
    cases hga : g a s with
    | ok s1 =>
      have : (Outcome.ok s).bind (g a) = Outcome.ok s1 := by simp [Outcome.bind, hga]
      rw [this]
      exact ih (fun x hx => hg x (List.mem_cons_of_mem _ hx))
        (fun x hx => hn x (List.mem_cons_of_mem _ hx)) s1
        (hg a (List.mem_cons_self _ _) s s1 hs hga)
    | malfunction =>
      have : (Outcome.ok s).bind (g a) = Outcome.malfunction := by simp [Outcome.bind, hga]
      rw [this]
      have hstuck : ∀ (l : List α),
          l.foldl (fun acc a => acc.bind (g a)) Outcome.malfunction = Outcome.malfunction := by
        intro l
        induction l with
        | nil => rfl
        | cons b l ihl => simpa [Outcome.bind] using ihl
      rw [hstuck]; simp
    | out_of_fuel => exact absurd hga (hn a (List.mem_cons_self _ _) s hs)

/-- A call of `svn_branch_branch_subtree_r2` that returns has created the new instance,
instantiated the subtree into it, found the sub-branches and run the loop over them. -/
theorem r2_unfold {family : svn_branch_family_t} {fuel : Nat}
    {rev_root : svn_branch_revision_root_t} {from_branch : Nat} {from_eid : Int}
    {to_outer_branch : Nat} {to_outer_eid : Int} {new_branch_def : svn_branch_sibling_t}
    {rev_root' : svn_branch_revision_root_t} {a : Nat}
    (h : svn_branch_branch_subtree_r2 family (fuel + 1) rev_root from_branch from_eid
      to_outer_branch to_outer_eid new_branch_def = Outcome.ok (rev_root', a)) :
    ∃ from_b to_b nb s' subs,
      rev_root.store.get? from_branch = some from_b
      ∧ rev_root.store.get? to_outer_branch = some to_b
      ∧ assert_branch_instance_invariants family
          (created_instance new_branch_def to_outer_branch to_outer_eid) = true
      ∧ svn_branch_instantiate_subtree family
          (created_instance new_branch_def to_outer_branch to_outer_eid) (-1) (some "")
          (svn_branch_map_get_subtree from_b from_eid) = Step.done (nb, s')
      ∧ svn_branch_get_subbranches family (pushed rev_root nb) fuel from_branch from_eid
          = Outcome.ok subs
      ∧ subs.foldl (fun acc s => acc.bind
            (branch_subbranch (svn_branch_branch_subtree_r2 family fuel) rev_root.store.length s))
          (Outcome.ok (pushed rev_root nb)) = Outcome.ok rev_root'
      ∧ a = rev_root.store.length := by
  simp only [svn_branch_branch_subtree_r2] at h
  cases hf : rev_root.store.get? from_branch with
  | none => rw [hf] at h; cases h
  | some from_b =>
    rw [hf] at h
    simp only [svn_branch_add_new_branch_instance] at h
    cases ht : rev_root.store.get? to_outer_branch with
    | none => rw [ht] at h; cases h
    | some to_b =>
      rw [ht] at h
      simp only [svn_branch_instance_create] at h
      by_cases hinv : assert_branch_instance_invariants family
          (created_instance new_branch_def to_outer_branch to_outer_eid) = true
      · have hinv' := hinv
        simp only [created_instance] at hinv'
        simp only [hinv', if_true] at h
        have hget : (rev_root.store ++ [created_instance new_branch_def to_outer_branch
            to_outer_eid]).get? rev_root.store.length
              = some (created_instance new_branch_def to_outer_branch to_outer_eid) := by
          rw [List.get?_eq_getElem?, List.getElem?_append_right (le_refl _)]
          simp
        simp only [created_instance] at hget
        simp only [hget] at h
        cases hi : svn_branch_instantiate_subtree family
            (created_instance new_branch_def to_outer_branch to_outer_eid) (-1) (some "")
            (svn_branch_map_get_subtree from_b from_eid) with
        | done r =>
          obtain ⟨nb, s'⟩ := r
          have hi0 := hi
          simp only [created_instance] at hi
          simp only [hi] at h
          have hset : (rev_root.store ++ [created_instance new_branch_def to_outer_branch
              to_outer_eid]).set rev_root.store.length nb = rev_root.store ++ [nb] := by
            rw [List.set_append_right _ _ (le_refl _)]
            simp
          simp only [created_instance] at hset
          simp only [hset] at h
          cases hs : svn_branch_get_subbranches family (pushed rev_root nb) fuel from_branch
              from_eid with
          | ok subs =>
            have hs0 := hs
            simp only [pushed] at hs
            simp only [hs] at h
            cases hl : subs.foldl
                (fun acc s => acc.bind (branch_subbranch
                  (svn_branch_branch_subtree_r2 family fuel) rev_root.store.length s))
                (Outcome.ok (pushed rev_root nb)) with
            | ok st =>
              have hl0 := hl
              simp only [pushed] at hl
              simp only [hl, Outcome.ok.injEq, Prod.mk.injEq] at h
              exact ⟨from_b, to_b, nb, s', subs, rfl, rfl, hinv, hi0, hs0, by rw [← h.1]; exact hl0,
                h.2.symm⟩
            | malfunction =>
              simp only [pushed] at hl
              simp only [hl] at h; cases h
            | out_of_fuel =>
              simp only [pushed] at hl
              simp only [hl] at h; cases h
          | malfunction => simp only [pushed] at hs; simp only [hs] at h; cases h
          | out_of_fuel => simp only [pushed] at hs; simp only [hs] at h; cases h
        | malfunction x => simp only [created_instance] at hi; simp only [hi] at h; cases h
        | out_of_fuel => simp only [created_instance] at hi; simp only [hi] at h; cases h
      · have hinv' := hinv
        simp only [created_instance] at hinv'
        simp only [hinv', if_false] at h
        cases h

/-- The copy loop writes the element map only, and not at the root EID. -/
theorem instantiate_copy_fields (f : svn_branch_family_t) (r : Int) :
    ∀ (m : EMap) (b b' : svn_branch_instance_t),
    svn_branch_instantiate_subtree_copy f r m b = Step.done b' →
    b'.sibling_defn = b.sibling_defn ∧ b'.outer_branch = b.outer_branch
      ∧ b'.outer_eid = b.outer_eid
      ∧ svn_int_hash_get b'.e_map r = svn_int_hash_get b.e_map r := by
  intro m
  induction m with
  | nil =>
    intro b b' h
    simp only [svn_branch_instantiate_subtree_copy, Step.done.injEq] at h
    subst h; exact ⟨rfl, rfl, rfl, rfl⟩
  | cons kv rest ih =>
    intro b b' h
    obtain ⟨k, v⟩ := kv
    by_cases hkr : k = r
    · have hb : (k != r) = false := by simpa using hkr
      simp only [svn_branch_instantiate_subtree_copy, hb, Bool.false_eq_true, if_false] at h
      exact ih b b' h
    · have hb : (k != r) = true := by simpa using hkr
      simp only [svn_branch_instantiate_subtree_copy, hb, if_true] at h
      cases hb1 : branch_map_set f b k (some v) with
      | done b1 =>
        rw [hb1] at h
        obtain ⟨_, rfl⟩ := (set_done_iff f b b1 k v).1 hb1
        obtain ⟨e1, e2, e3, e4⟩ := ih _ b' h
        refine ⟨e1, e2, e3, ?_⟩
        rw [e4]
        simp only [get_set_some]
        rw [if_neg (fun hc => hkr hc.symm)]
      | malfunction x => rw [hb1] at h; cases h
      | out_of_fuel => rw [hb1] at h; cases h

/-- The branch that `svn_branch_instantiate_subtree` returns has the sibling and the outer
branch of the destination, and the root element of the subtree with the new parent and
name. -/
theorem instantiate_fields {f : svn_branch_family_t} {b : svn_branch_instance_t} {p : Int}
    {name : Option String} {s : svn_branch_subtree_t} {b' : svn_branch_instance_t}
    {s' : svn_branch_subtree_t}
    (h : svn_branch_instantiate_subtree f b p name s = Step.done (b', s')) :
    b'.sibling_defn = b.sibling_defn ∧ b'.outer_branch = b.outer_branch
      ∧ b'.outer_eid = b.outer_eid
      ∧ ∃ root, svn_int_hash_get s.e_map s.root_eid = some root
          ∧ svn_int_hash_get b'.e_map s.root_eid = some ⟨p, name, root.content⟩ := by
  obtain ⟨root, m1, hr, _, _, _, hc⟩ := (instantiate_done_iff f b p name s b' s').1 h
  obtain ⟨e1, e2, e3, e4⟩ := instantiate_copy_fields f s.root_eid m1 _ b' hc
  refine ⟨e1, e2, e3, root, hr, ?_⟩
  rw [e4]
  simp only [get_set_some, if_true]

theorem extends_refl (rr : svn_branch_revision_root_t) : Extends rr rr :=
  ⟨rfl, rfl, le_refl _, fun _ _ => rfl, by simp⟩

theorem extends_trans {a b c : svn_branch_revision_root_t} (h1 : Extends a b)
    (h2 : Extends b c) : Extends a c := by
  refine ⟨h2.rev.trans h1.rev, h2.root_branch.trans h1.root_branch, le_trans h1.len h2.len,
    fun i hi => ?_, ?_⟩
  · rw [h2.same i (lt_of_lt_of_le hi h1.len), h1.same i hi]
  · rw [h2.list, h1.list, List.append_assoc]
    congr 1
    have h3 := h1.len
    have h4 := h2.len
    have e1 : a.store.length + (b.store.length - a.store.length) = b.store.length := by omega
    have e2 : c.store.length - a.store.length
        = (c.store.length - b.store.length) + (b.store.length - a.store.length) := by omega
    have := List.range'_append_1 a.store.length (b.store.length - a.store.length)
      (c.store.length - b.store.length)
    rw [e1] at this
    rw [this, e2]

theorem extends_pushed (rr : svn_branch_revision_root_t) (b : svn_branch_instance_t) :
    Extends rr (pushed rr b) := by
  refine ⟨rfl, rfl, by simp [pushed], fun i hi => ?_, ?_⟩
  · simp only [pushed]
    rw [List.get?_eq_getElem?, List.get?_eq_getElem?, List.getElem?_append_left hi]
  · simp [pushed]

theorem pushed_get (rr : svn_branch_revision_root_t) (b : svn_branch_instance_t) :
    (pushed rr b).store.get? rr.store.length = some b := by
  simp only [pushed]
  rw [List.get?_eq_getElem?, List.getElem?_append_right (le_refl _)]
  simp

theorem r2_post (family : svn_branch_family_t) : ∀ (fuel : Nat)
    (rr : svn_branch_revision_root_t) (from_branch : Nat) (from_eid : Int)
    (to_outer_branch : Nat) (to_outer_eid : Int) (new_branch_def : svn_branch_sibling_t)
    (rr' : svn_branch_revision_root_t) (a : Nat),
    svn_branch_branch_subtree_r2 family fuel rr from_branch from_eid to_outer_branch
      to_outer_eid new_branch_def = Outcome.ok (rr', a) →
    R2Post family rr from_branch from_eid to_outer_branch to_outer_eid new_branch_def rr' a := by
  intro fuel
  induction fuel with
  | zero => intro rr f fe t te d rr' a h; simp [svn_branch_branch_subtree_r2] at h
  | succ fuel ih =>
    intro rr from_branch from_eid to_outer_branch to_outer_eid new_branch_def rr' a h
    obtain ⟨from_b, to_b, nb, s', subs, hf, ht, hinv, hi, _, hl, ha⟩ := r2_unfold h
    have hloop : LoopPost rr.store.length (pushed rr nb) rr' := by
      refine foldl_bind_inv _ (fun st => LoopPost rr.store.length (pushed rr nb) st) subs ?_
        (pushed rr nb) rr' ⟨extends_refl _, fun i h1 h2 => absurd h1 (by omega)⟩ hl
      intro s _ st st' hst hcall
      unfold branch_subbranch at hcall
      cases hs : st.store.get? s with
      | none => rw [hs] at hcall; cases hcall
      | some sub =>
        rw [hs] at hcall
        simp only at hcall
        cases hr : svn_branch_branch_subtree_r2 family fuel st s sub.sibling_defn.root_eid
            rr.store.length sub.outer_eid sub.sibling_defn with
        | ok res =>
          obtain ⟨st2, a2⟩ := res
          rw [hr] at hcall
          simp only [Outcome.ok.injEq] at hcall
          subst hcall
          have post := ih st s _ _ _ _ st2 a2 hr
          obtain ⟨_, nb2, _, _, hinst, hnb2⟩ := post.new_inst
          obtain ⟨_, e2, _, _⟩ := instantiate_fields hinst
          have hlen0 := hst.ext.len
          refine ⟨extends_trans hst.ext post.ext, fun i h1 h2 => ?_⟩
          by_cases hi1 : i < st.store.length
          · obtain ⟨b, o, hb, ho, hor, hlt⟩ := hst.nested i h1 hi1
            exact ⟨b, o, by rw [post.ext.same i hi1]; exact hb, ho, hor, hlt⟩
          · by_cases hi2 : i = a2
            · subst hi2
              refine ⟨nb2, rr.store.length, hnb2, by rw [e2]; rfl, Or.inl rfl, ?_⟩
              have : (pushed rr nb).store.length = rr.store.length + 1 := by simp [pushed]
              omega
            · have ha2 := post.addr
              obtain ⟨b, o, hb, ho, h3, h4⟩ := post.nested i (by omega) h2
              exact ⟨b, o, hb, ho, Or.inr (by omega), h4⟩
        | malfunction => rw [hr] at hcall; cases hcall
        | out_of_fuel => rw [hr] at hcall; cases hcall
    have hplen : (pushed rr nb).store.length = rr.store.length + 1 := by simp [pushed]
    have hext := extends_trans (extends_pushed rr nb) hloop.ext
    refine ⟨ha, hext, ?_, ⟨to_b, ht⟩, hinv, ⟨from_b, nb, s', hf, hi, ?_⟩, fun i h1 h2 => ?_⟩
    · have := hloop.ext.len
      omega
    · rw [ha, hloop.ext.same _ (by omega)]
      exact pushed_get rr nb
    · obtain ⟨b, o, hb, ho, h3, h4⟩ := hloop.nested i (by omega) h2
      exact ⟨b, o, hb, ho, by omega, h4⟩

/-- The allocator of siblings returns exactly when the new sibling passes the assertions. -/
theorem add_new_branch_sibling_ok {family family' : svn_branch_family_t} {root_eid : Int}
    {d : svn_branch_sibling_t}
    (h : svn_branch_family_add_new_branch_sibling family root_eid = Outcome.ok (family', d)) :
    d = { bsid := family.next_bsid, root_eid := root_eid }
    ∧ family' = { family with next_bsid := family.next_bsid + 1,
                              branch_siblings := family.branch_siblings ++ [d] } := by
  unfold svn_branch_family_add_new_branch_sibling family_create_branch_sibling
    svn_branch_sibling_create at h
  by_cases h1 : (FAMILY_HAS_BSID { family with next_bsid := family.next_bsid + 1 }
      family.next_bsid && FAMILY_HAS_ELEMENT { family with next_bsid := family.next_bsid + 1 }
      root_eid) = true
  · rw [if_pos h1] at h
    simp only at h
    by_cases h2 : family.first_eid ≤ root_eid
    · rw [if_pos h2] at h
      simp only [Outcome.ok.injEq, Prod.mk.injEq] at h
      obtain ⟨rfl, rfl⟩ := h
      exact ⟨rfl, rfl⟩
    · rw [if_neg h2] at h; cases h
  · rw [if_neg h1] at h; cases h

/-- A call of `svn_branch_branch_subtree_r` that returns without error has found the path of
the source, written the placeholder, registered the sibling and run
`svn_branch_branch_subtree_r2`. -/
theorem branch_subtree_r_unfold {fuel : Nat} {family : svn_branch_family_t}
    {rev_root : svn_branch_revision_root_t} {from_branch : Nat} {from_eid : Int}
    {to_outer_branch : Nat} {to_outer_parent_eid : Int} {new_name : Option String}
    {family' : svn_branch_family_t} {rev_root' : svn_branch_revision_root_t} {a : Nat}
    (h : svn_branch_branch_subtree_r fuel family rev_root from_branch from_eid to_outer_branch
      to_outer_parent_eid new_name = Run.ok (family', rev_root') a) :
    ∃ from_b path to_b d,
      rev_root.store.get? from_branch = some from_b
      ∧ svn_branch_get_path_by_eid family from_b fuel from_eid = Outcome.ok (some path)
      ∧ rev_root.store.get? to_outer_branch = some to_b
      ∧ RootWriteOK (family_bump family) to_b family.next_eid to_outer_parent_eid new_name none
      ∧ svn_branch_family_add_new_branch_sibling (family_bump family) from_eid
          = Outcome.ok (family', d)
      ∧ svn_branch_branch_subtree_r2 family' fuel
          { rev_root with store := (rev_root.store.set to_outer_branch
              { to_b with e_map := (svn_int_hash_set to_b.e_map family.next_eid
                  (some ⟨to_outer_parent_eid, new_name, none⟩)) }) }
          from_branch from_eid to_outer_branch family.next_eid d = Outcome.ok (rev_root', a) := by
  unfold svn_branch_branch_subtree_r at h
  cases hf : rev_root.store.get? from_branch with
  | none => rw [hf] at h; cases h
  | some from_b =>
    rw [hf] at h
    simp only at h
    cases hp : svn_branch_get_path_by_eid family from_b fuel from_eid with
    | ok path =>
      rw [hp] at h
      cases path with
      | none => cases h
      | some path =>
        simp only at h
        cases ht : rev_root.store.get? to_outer_branch with
        | none => rw [ht] at h; cases h
        | some to_b =>
          rw [ht] at h
          simp only [svn_branch_family_add_new_element] at h
          cases hw : svn_branch_map_update_as_subbranch_root (family_bump family) to_b
              family.next_eid to_outer_parent_eid new_name with
          | done to_b' =>
            have hw' := hw
            simp only [family_bump] at hw'
            rw [hw'] at h
            simp only at h
            have hroot := (root_write_iff (family_bump family) to_b to_b' family.next_eid
              to_outer_parent_eid new_name none).1 (by simpa using hw)
            obtain ⟨hok, rfl⟩ := hroot
            cases hs : svn_branch_family_add_new_branch_sibling (family_bump family) from_eid with
            | ok r =>
              obtain ⟨f2, d⟩ := r
              have hs' := hs
              simp only [family_bump] at hs'
              rw [hs'] at h
              simp only at h
              cases hr : svn_branch_branch_subtree_r2 f2 fuel
                  { rev_root with store := (rev_root.store.set to_outer_branch
                      { to_b with e_map := (svn_int_hash_set to_b.e_map family.next_eid
                          (some ⟨to_outer_parent_eid, new_name, none⟩)) }) }
                  from_branch from_eid to_outer_branch family.next_eid d with
              | ok res =>
                obtain ⟨rr2, a2⟩ := res
                rw [hr] at h
                simp only [Run.ok.injEq, Prod.mk.injEq] at h
                obtain ⟨⟨rfl, rfl⟩, rfl⟩ := h
                exact ⟨from_b, path, to_b, d, rfl, hp, rfl, hok, rfl, hr⟩
              | malfunction => rw [hr] at h; cases h
              | out_of_fuel => rw [hr] at h; cases h
            | malfunction => simp only [family_bump] at hs; rw [hs] at h; cases h
            | out_of_fuel => simp only [family_bump] at hs; rw [hs] at h; cases h
          | malfunction x => simp only [family_bump] at hw; rw [hw] at h; cases h
          | out_of_fuel => simp only [family_bump] at hw; rw [hw] at h; cases h
    | malfunction => rw [hp] at h; cases h
    | out_of_fuel => rw [hp] at h; cases h

theorem get_set_self' {α : Type} (l : List α) (i : Nat) (x : α) (h : i < l.length) :
    (l.set i x).get? i = some x := by
  rw [List.get?_eq_getElem?, List.getElem?_set_self]
  simp [h]

theorem get_set_other {α : Type} (l : List α) (i j : Nat) (x : α) (h : i ≠ j) :
    (l.set i x).get? j = l.get? j := by
  rw [List.get?_eq_getElem?, List.get?_eq_getElem?, List.getElem?_set_ne h]

/-- C13: for every call of `svn_branch_branch_subtree_r` that returns without error: the new
outer EID is the `next_eid` that the family had; the outer branch maps it to the element
(`to_outer_parent_eid`, `new_name`) without payload; the family has one more EID, one more
BSID and one more sibling, whose BSID is the `next_bsid` that the family had and whose root EID
is `from_eid`; and the returned instance is in the list of the revision root, has that sibling,
the outer branch `to_outer_branch` and the new outer EID, and its element `from_eid` has the
parent -1 and the empty name. -/
theorem branch_subtree_result (fuel : Nat) (family : svn_branch_family_t)
    (rev_root : svn_branch_revision_root_t) (from_branch : Nat) (from_eid : Int)
    (to_outer_branch : Nat) (to_outer_parent_eid : Int) (new_name : Option String)
    (family' : svn_branch_family_t) (rev_root' : svn_branch_revision_root_t)
    (new_branch : Nat)
    (h : svn_branch_branch_subtree_r fuel family rev_root from_branch from_eid to_outer_branch
      to_outer_parent_eid new_name = Run.ok (family', rev_root') new_branch) :
    (∃ to_b, rev_root'.store.get? to_outer_branch = some to_b
        ∧ svn_int_hash_get to_b.e_map family.next_eid
            = some ⟨to_outer_parent_eid, new_name, none⟩)
    ∧ family' = { family with
        next_eid := family.next_eid + 1, next_bsid := family.next_bsid + 1,
        branch_siblings :=
          family.branch_siblings ++ [{ bsid := family.next_bsid, root_eid := from_eid }] }
    ∧ new_branch ∈ rev_root'.branch_instances
    ∧ ∃ nb, rev_root'.store.get? new_branch = some nb
        ∧ nb.sibling_defn = { bsid := family.next_bsid, root_eid := from_eid }
        ∧ nb.outer_branch = some to_outer_branch ∧ nb.outer_eid = family.next_eid
        ∧ ∃ c, svn_int_hash_get nb.e_map from_eid = some ⟨-1, some "", c⟩ := by
  obtain ⟨from_b, path, to_b, d, hf, _, ht, _, hs, hr⟩ := branch_subtree_r_unfold h
  obtain ⟨rfl, rfl⟩ := add_new_branch_sibling_ok hs
  have post := r2_post _ _ _ _ _ _ _ _ _ _ hr
  have hto : to_outer_branch < rev_root.store.length := lt_of_get ht
  obtain ⟨_, nb, _, _, hinst, hnb⟩ := post.new_inst
  obtain ⟨e1, e2, e3, root, _, hget⟩ := instantiate_fields hinst
  have hsame := post.ext.same to_outer_branch (by simpa using hto)
  rw [get_set_self' _ _ _ hto] at hsame
  refine ⟨⟨_, hsame, ?_⟩, rfl, ?_, nb, hnb, e1, e2, e3, root.content, hget⟩
  · simp only [get_set_some, if_true]
  · rw [post.ext.list, post.addr]
    apply List.mem_append_right
    rw [List.mem_range']
    have := post.grow
    exact ⟨0, by omega, by simp⟩

/-- C13, witness: the branching scenario `branch_subtree(outer, 1, outer, 0, "copy")`: the
call allocates the outer EID 2 and the sibling with BSID 1 and root EID 1, and the branch id
of the new instance is `^.2`. -/
theorem branch_subtree_result_witness :
    svn_branch_branch_subtree_r 6 branching_family branching_root 0 1 0 0 (some "copy")
      = Run.ok (branching_family_after, branching_root_after) 1
    ∧ svn_branch_instance_get_id branching_root_after.store 2 branching_inner
      = Outcome.ok "^.2".data
    ∧ (∃ to_b, branching_root_after.store.get? 0 = some to_b
        ∧ svn_int_hash_get to_b.e_map branching_family.next_eid = some ⟨0, some "copy", none⟩)
    ∧ branching_family_after = { branching_family with
        next_eid := branching_family.next_eid + 1, next_bsid := branching_family.next_bsid + 1,
        branch_siblings :=
          branching_family.branch_siblings
            ++ [{ bsid := branching_family.next_bsid, root_eid := 1 }] }
    ∧ 1 ∈ branching_root_after.branch_instances
    ∧ ∃ nb, branching_root_after.store.get? 1 = some nb
        ∧ nb.sibling_defn = { bsid := branching_family.next_bsid, root_eid := 1 }
        ∧ nb.outer_branch = some 0 ∧ nb.outer_eid = branching_family.next_eid
        ∧ ∃ c, svn_int_hash_get nb.e_map 1 = some ⟨-1, some "", c⟩ :=
  ⟨by rfl, by decide,
    branch_subtree_result 6 branching_family branching_root 0 1 0 0 (some "copy")
      branching_family_after branching_root_after 1 (by rfl)⟩

/-- C14: whenever `svn_branch_get_path_by_eid (from_branch, from_eid)` returns NULL,
`svn_branch_branch_subtree_r` returns the error `SVN_ERR_BRANCHING`, with the family and the
revision root as they were: no EID and no BSID is allocated, no sibling and no instance is
added, and no element map is written. -/
theorem branch_subtree_source_missing (fuel : Nat) (family : svn_branch_family_t)
    (rev_root : svn_branch_revision_root_t) (from_branch : Nat) (from_eid : Int)
    (to_outer_branch : Nat) (to_outer_parent_eid : Int) (new_name : Option String)
    (from_b : svn_branch_instance_t) (hb : rev_root.store.get? from_branch = some from_b)
    (hp : svn_branch_get_path_by_eid family from_b fuel from_eid = Outcome.ok none) :
    svn_branch_branch_subtree_r fuel family rev_root from_branch from_eid to_outer_branch
      to_outer_parent_eid new_name
      = Run.error (family, rev_root) svn_errno_t.SVN_ERR_BRANCHING := by
  unfold svn_branch_branch_subtree_r
  rw [hb]
  simp only [hp]

/-- C14, witness: in the branching scenario with an allocated EID 5 that has no element, the
path of EID 5 is NULL and the call fails. -/
theorem branch_subtree_source_missing_witness :
    branching_root.store.get? 0 = some branching_outer
    ∧ svn_branch_get_path_by_eid (family_of 0 9) branching_outer 3 5 = Outcome.ok none
    ∧ svn_branch_branch_subtree_r 3 (family_of 0 9) branching_root 0 5 0 0 (some "copy")
      = Run.error (family_of 0 9, branching_root) svn_errno_t.SVN_ERR_BRANCHING :=
  ⟨rfl, by decide,
    branch_subtree_source_missing 3 (family_of 0 9) branching_root 0 5 0 0 (some "copy")
      branching_outer rfl (by decide)⟩

theorem get_id_loop_spec (store : List svn_branch_instance_t) :
    ∀ (fuel : Nat) (b : svn_branch_instance_t) (L : List Int) (id : List Char),
      OuterEids store b L → L.length < fuel →
      svn_branch_instance_get_id_loop store fuel b id
        = Outcome.ok ('^' :: ((L.reverse.flatMap (fun (e : Int) => '.' :: print_int e)) ++ id)) := by
  intro fuel
  induction fuel with
  | zero => intro b L id _ hl; omega
  | succ n ih =>
    intro b L id h hl
    cases h with
    | top _ hb =>
      simp only [svn_branch_instance_get_id_loop, hb]
      simp
    | nested _ a outer L' hb ha hL =>
      simp only [svn_branch_instance_get_id_loop, hb, ha]
      rw [ih outer L' _ hL (by simpa using hl)]
      simp [List.flatMap_append, List.append_assoc]

theorem nested_inner_chain : OuterEids nested_store nested_inner [5, 2] :=
  OuterEids.nested nested_inner 1 _ [2] rfl rfl
    (OuterEids.nested _ 0 _ [] rfl rfl (OuterEids.top _ rfl))

/-- C15, as amended: for a branch instance with the chain `L` of outer EIDs (own first,
walking outward), `svn_branch_instance_get_id` returns, with fuel above the length of the
chain, `^` followed by `.` and an EID for every member of the chain in the order from the
outermost anchor inward, the own outer EID last; a top-level instance has the id `^`; and two
instances with the same chain, in whatever stores, have the same id. -/
theorem branch_id_from_outermost (store : List svn_branch_instance_t)
    (b : svn_branch_instance_t) (L : List Int) (h : OuterEids store b L) :
    (∀ fuel, L.length < fuel →
      svn_branch_instance_get_id store fuel b = Outcome.ok (branch_id_inward L))
    ∧ (b.outer_branch = none → ∀ fuel, 0 < fuel →
        svn_branch_instance_get_id store fuel b = Outcome.ok ['^'])
    ∧ (∀ (store2 : List svn_branch_instance_t) (b2 : svn_branch_instance_t),
        OuterEids store2 b2 L → ∀ fuel, L.length < fuel →
        svn_branch_instance_get_id store2 fuel b2 = svn_branch_instance_get_id store fuel b) := by
  have key : ∀ (st : List svn_branch_instance_t) (x : svn_branch_instance_t),
      OuterEids st x L → ∀ fuel, L.length < fuel →
      svn_branch_instance_get_id st fuel x = Outcome.ok (branch_id_inward L) := by
    intro st x hx fuel hl
    unfold svn_branch_instance_get_id branch_id_inward
    rw [get_id_loop_spec st fuel x L [] hx hl, List.append_nil]
  refine ⟨key store b h, ?_, ?_⟩
  · intro hb fuel hf
    cases h with
    | top _ _ => exact key store b (OuterEids.top b hb) fuel hf
    | nested _ a outer L' hb' _ _ => rw [hb] at hb'; cases hb'
  · intro store2 b2 h2 fuel hl
    rw [key store2 b2 h2 fuel hl, key store b h fuel hl]

/-- C15, witness: the branch anchored at EID 5 of a branch anchored at EID 2 of the top
branch has the id `^.2.5`. -/
theorem branch_id_from_outermost_witness :
    OuterEids nested_store nested_inner [5, 2]
    ∧ svn_branch_instance_get_id nested_store 3 nested_inner = Outcome.ok "^.2.5".data
    ∧ (∀ fuel, [(5 : Int), 2].length < fuel →
      svn_branch_instance_get_id nested_store fuel nested_inner
        = Outcome.ok (branch_id_inward [5, 2])) :=
  ⟨nested_inner_chain, by decide,
    (branch_id_from_outermost nested_store nested_inner [5, 2] nested_inner_chain).1⟩

/-- C15, counterexample: the branch anchored at EID 5 of a branch anchored at EID 2 of the
top branch has the chain 5, 2 of outer EIDs walking outward, and its id is `^.2.5`: the own
outer EID 5 is written after the outer EID 2 of its outer branch, so the id is not the text
`^.5.2` of the specification. -/
theorem branch_id_own_eid_last :
    OuterEids nested_store nested_inner [5, 2]
    ∧ svn_branch_instance_get_id nested_store 3 nested_inner = Outcome.ok "^.2.5".data
    ∧ branch_id_outward [5, 2] = "^.5.2".data
    ∧ svn_branch_instance_get_id nested_store 3 nested_inner
        ≠ Outcome.ok (branch_id_outward [5, 2]) :=
  ⟨nested_inner_chain, by decide, by decide, by decide⟩

theorem find_first_skips {α : Type} (g : Nat → Outcome (Option α)) (x : α) (s : Nat)
    (post : List Nat) (hs : g s = Outcome.ok (some x)) :
    ∀ (pre : List Nat), (∀ t ∈ pre, g t = Outcome.ok none) →
    find_first_sub_branch g (pre ++ s :: post) = Outcome.ok (some x) := by
  intro pre
  induction pre with
  | nil => intro _; simp only [List.nil_append, find_first_sub_branch, hs]
  | cons t pre ih =>
    intro h
    simp only [List.cons_append, find_first_sub_branch, h t (List.mem_cons_self _ _)]
    exact ih (fun u hu => h u (List.mem_cons_of_mem _ hu))

theorem find_first_inv {α : Type} (g : Nat → Outcome (Option α)) :
    ∀ (l : List Nat) (r : Option α), find_first_sub_branch g l = Outcome.ok r →
    (r = none ∧ ∀ s ∈ l, g s = Outcome.ok none)
    ∨ ∃ pre s post x, l = pre ++ s :: post ∧ (∀ t ∈ pre, g t = Outcome.ok none)
        ∧ g s = Outcome.ok (some x) ∧ r = some x := by
  intro l
  induction l with
  | nil =>
    intro r h
    simp only [find_first_sub_branch] at h
    cases h
    exact Or.inl ⟨rfl, fun s hs => by cases hs⟩
  | cons s l ih =>
    intro r h
    cases hg : g s with
    | ok o =>
      cases o with
      | none =>
        simp only [find_first_sub_branch, hg] at h
        rcases ih r h with ⟨h1, h2⟩ | ⟨pre, t, post, x, h1, h2, h3, h4⟩
        · refine Or.inl ⟨h1, fun u hu => ?_⟩
          rcases List.mem_cons.1 hu with e | e
          · rw [e]; exact hg
          · exact h2 u e
        · refine Or.inr ⟨s :: pre, t, post, x, by rw [h1]; rfl, fun u hu => ?_, h3, h4⟩
          rcases List.mem_cons.1 hu with e | e
          · rw [e]; exact hg
          · exact h2 u e
      | some x =>
        simp only [find_first_sub_branch, hg] at h
        cases h
        exact Or.inr ⟨[], s, l, x, rfl, (fun u hu => by cases hu), hg, rfl⟩
    | malfunction => simp only [find_first_sub_branch, hg] at h; cases h
    | out_of_fuel => simp only [find_first_sub_branch, hg] at h; cases h

theorem find_nested_unfold {family : svn_branch_family_t}
    {rev_root : svn_branch_revision_root_t} {fuel a : Nat} {rrpath : String}
    {res : Option (Nat × Int)}
    (h : svn_branch_find_nested_branch_element_by_rrpath family rev_root (fuel + 1) a rrpath
      = Outcome.ok res) :
    ∃ root_branch R, rev_root.store.get? a = some root_branch
      ∧ svn_branch_get_root_rrpath family rev_root.store fuel root_branch = Outcome.ok R
      ∧ ((svn_relpath_skip_ancestor R rrpath = none ∧ res = none)
        ∨ (svn_relpath_skip_ancestor R rrpath ≠ none
          ∧ ∃ r, find_first_sub_branch
              (fun s => svn_branch_find_nested_branch_element_by_rrpath family rev_root fuel s
                rrpath) (svn_branch_get_all_sub_branches rev_root a) = Outcome.ok r
            ∧ ((∃ x, r = some x ∧ res = some x)
              ∨ (r = none ∧ ∃ eid, svn_branch_get_eid_by_rrpath family rev_root.store fuel
                    root_branch rrpath = Outcome.ok eid ∧ res = some (a, eid))))) := by
  simp only [svn_branch_find_nested_branch_element_by_rrpath] at h
  cases hb : rev_root.store.get? a with
  | none => rw [hb] at h; cases h
  | some root_branch =>
    rw [hb] at h
    simp only at h
    cases hR : svn_branch_get_root_rrpath family rev_root.store fuel root_branch with
    | malfunction => rw [hR] at h; cases h
    | out_of_fuel => rw [hR] at h; cases h
    | ok R =>
      rw [hR] at h
      simp only at h
      refine ⟨root_branch, R, rfl, hR, ?_⟩
      cases hs : svn_relpath_skip_ancestor R rrpath with
      | none => rw [hs] at h; cases h; exact Or.inl ⟨rfl, rfl⟩
      | some p =>
        rw [hs] at h
        simp only at h
        refine Or.inr ⟨by simp, ?_⟩
        cases hf : find_first_sub_branch
            (fun s => svn_branch_find_nested_branch_element_by_rrpath family rev_root fuel s
              rrpath) (svn_branch_get_all_sub_branches rev_root a) with
        | malfunction => rw [hf] at h; cases h
        | out_of_fuel => rw [hf] at h; cases h
        | ok r =>
          rw [hf] at h
          refine ⟨r, rfl, ?_⟩
          cases r with
          | some x => simp only at h; cases h; exact Or.inl ⟨x, rfl, rfl⟩
          | none =>
            simp only at h
            cases he : svn_branch_get_eid_by_rrpath family rev_root.store fuel root_branch
                rrpath with
            | malfunction => rw [he] at h; cases h
            | out_of_fuel => rw [he] at h; cases h
            | ok eid => rw [he] at h; cases h; exact Or.inr ⟨rfl, eid, rfl, rfl⟩

theorem find_nested_inside (family : svn_branch_family_t)
    (rev_root : svn_branch_revision_root_t) (rrpath : String) :
    ∀ (k start b : Nat) (eid : Int),
      svn_branch_find_nested_branch_element_by_rrpath family rev_root k start rrpath
        = Outcome.ok (some (b, eid)) →
      ∃ nb R j, rev_root.store.get? b = some nb
        ∧ svn_branch_get_root_rrpath family rev_root.store j nb = Outcome.ok R
        ∧ svn_relpath_skip_ancestor R rrpath ≠ none := by
  intro k
  induction k with
  | zero => intro start b eid h; simp only [svn_branch_find_nested_branch_element_by_rrpath] at h; cases h
  | succ n ih =>
    intro start b eid h
    obtain ⟨rb, R, hb, hR, hc⟩ := find_nested_unfold h
    rcases hc with ⟨_, h0⟩ | ⟨hs, r, hf, hc⟩
    · cases h0
    · rcases hc with ⟨x, rfl, hx⟩ | ⟨rfl, eid', _, hx⟩
      · cases hx
        rcases find_first_inv _ _ _ hf with ⟨h1, _⟩ | ⟨pre, s, post, x, _, _, h3, h4⟩
        · cases h1
        · cases h4
          exact ih s b eid h3
      · cases hx
        exact ⟨rb, R, n, hb, hR, hs⟩

/-- C17: `svn_branch_find_nested_branch_element_by_rrpath (root_branch, rrpath)`, where the
root rrpath `R` of `root_branch` has been computed: if `rrpath` is not `R` or below it, the
result is (NULL, -1); otherwise, if the immediate sub-branches before `s` in the list of
instances find nothing and `s` finds `x`, the result is `x`; otherwise, if no immediate
sub-branch finds anything, the result is `root_branch` with
`svn_branch_get_eid_by_rrpath (root_branch, rrpath)`; every result is one of these three; and
whenever a call returns a branch, the root rrpath of that branch is `rrpath` or an ancestor of
it. -/
theorem find_nested_recursion (family : svn_branch_family_t)
    (rev_root : svn_branch_revision_root_t) (fuel a : Nat) (rrpath : String)
    (root_branch : svn_branch_instance_t) (R : String)
    (hb : rev_root.store.get? a = some root_branch)
    (hR : svn_branch_get_root_rrpath family rev_root.store fuel root_branch = Outcome.ok R) :
    (svn_relpath_skip_ancestor R rrpath = none →
      svn_branch_find_nested_branch_element_by_rrpath family rev_root (fuel + 1) a rrpath
        = Outcome.ok none)
    ∧ (svn_relpath_skip_ancestor R rrpath ≠ none →
      ∀ (pre : List Nat) (s : Nat) (post : List Nat) (x : Nat × Int),
        svn_branch_get_all_sub_branches rev_root a = pre ++ s :: post →
        (∀ t ∈ pre, svn_branch_find_nested_branch_element_by_rrpath family rev_root fuel t
          rrpath = Outcome.ok none) →
        svn_branch_find_nested_branch_element_by_rrpath family rev_root fuel s rrpath
          = Outcome.ok (some x) →
        svn_branch_find_nested_branch_element_by_rrpath family rev_root (fuel + 1) a rrpath
          = Outcome.ok (some x))
    ∧ (svn_relpath_skip_ancestor R rrpath ≠ none →
      (∀ t ∈ svn_branch_get_all_sub_branches rev_root a,
        svn_branch_find_nested_branch_element_by_rrpath family rev_root fuel t rrpath
          = Outcome.ok none) →
      ∀ eid, svn_branch_get_eid_by_rrpath family rev_root.store fuel root_branch rrpath
          = Outcome.ok eid →
        svn_branch_find_nested_branch_element_by_rrpath family rev_root (fuel + 1) a rrpath
          = Outcome.ok (some (a, eid)))
    ∧ (∀ res, svn_branch_find_nested_branch_element_by_rrpath family rev_root (fuel + 1) a
          rrpath = Outcome.ok res →
        (svn_relpath_skip_ancestor R rrpath = none ∧ res = none)
        ∨ (svn_relpath_skip_ancestor R rrpath ≠ none
          ∧ ∃ pre s post x, svn_branch_get_all_sub_branches rev_root a = pre ++ s :: post
            ∧ (∀ t ∈ pre, svn_branch_find_nested_branch_element_by_rrpath family rev_root fuel
                t rrpath = Outcome.ok none)
            ∧ svn_branch_find_nested_branch_element_by_rrpath family rev_root fuel s rrpath
                = Outcome.ok (some x)
            ∧ res = some x)
        ∨ (svn_relpath_skip_ancestor R rrpath ≠ none
          ∧ (∀ t ∈ svn_branch_get_all_sub_branches rev_root a,
              svn_branch_find_nested_branch_element_by_rrpath family rev_root fuel t rrpath
                = Outcome.ok none)
          ∧ ∃ eid, svn_branch_get_eid_by_rrpath family rev_root.store fuel root_branch rrpath
                = Outcome.ok eid ∧ res = some (a, eid)))
    ∧ (∀ (k start b : Nat) (eid : Int),
        svn_branch_find_nested_branch_element_by_rrpath family rev_root k start rrpath
          = Outcome.ok (some (b, eid)) →
        ∃ nb R' j, rev_root.store.get? b = some nb
          ∧ svn_branch_get_root_rrpath family rev_root.store j nb = Outcome.ok R'
          ∧ svn_relpath_skip_ancestor R' rrpath ≠ none) := by
  refine ⟨?_, ?_, ?_, ?_, find_nested_inside family rev_root rrpath⟩
  · intro hs
    simp only [svn_branch_find_nested_branch_element_by_rrpath, hb, hR, hs]
  · intro hs pre s post x hl hpre hx
    cases hp : svn_relpath_skip_ancestor R rrpath with
    | none => exact absurd hp hs
    | some p =>
      simp only [svn_branch_find_nested_branch_element_by_rrpath, hb, hR, hp, hl]
      rw [find_first_skips _ x s post hx pre hpre]
  · intro hs hall eid he
    cases hp : svn_relpath_skip_ancestor R rrpath with
    | none => exact absurd hp hs
    | some p =>
      simp only [svn_branch_find_nested_branch_element_by_rrpath, hb, hR, hp]
      rw [find_first_none _ _ hall]
      simp only [he]
  · intro res h
    obtain ⟨rb, R0, hb0, hR0, hc⟩ := find_nested_unfold h
    rw [hb] at hb0; cases hb0
    rw [hR] at hR0; cases hR0
    rcases hc with h0 | ⟨hs, r, hf, hc⟩
    · exact Or.inl h0
    · rcases find_first_inv _ _ _ hf with ⟨h1, h2⟩ | ⟨pre, s, post, x, h1, h2, h3, h4⟩
      · rcases hc with ⟨x, hx, _⟩ | ⟨_, eid, he, hres⟩
        · rw [h1] at hx; cases hx
        · exact Or.inr (Or.inr ⟨hs, h2, eid, he, hres⟩)
      · rcases hc with ⟨y, hy, hres⟩ | ⟨h0, _⟩
        · rw [h4] at hy; cases hy
          exact Or.inr (Or.inl ⟨hs, pre, s, post, x, h1, h2, h3, hres⟩)
        · rw [h4] at h0; cases h0

/-- C17, witness: in the revision root of the branching scenario the path `copy` is found in
the sub-branch, at its root element. -/
theorem find_nested_recursion_witness :
    branching_root_after.store.get? 0
      = some (branch_of [(0, el (-1) ""), (1, el 0 "dir"),
                (2, svn_branch_el_rev_content_create 0 (some "copy") none)])
    ∧ svn_branch_get_root_rrpath branching_family_after branching_root_after.store 4
        (branch_of [(0, el (-1) ""), (1, el 0 "dir"),
                (2, svn_branch_el_rev_content_create 0 (some "copy") none)]) = Outcome.ok ""
    ∧ svn_branch_find_nested_branch_element_by_rrpath branching_family_after
        branching_root_after 5 0 "copy" = Outcome.ok (some (1, 1)) :=
  ⟨rfl, by decide,
    (find_nested_recursion branching_family_after branching_root_after 4 0 "copy"
      (branch_of [(0, el (-1) ""), (1, el 0 "dir"),
                (2, svn_branch_el_rev_content_create 0 (some "copy") none)]) "" rfl
      (by decide)).2.1 (by decide) [] 1 [] (1, 1) (by decide)
      (fun t ht => by cases ht) (by decide)⟩

theorem nested_le {S : List svn_branch_instance_t} (hord : OuterBefore S) {a i : Nat}
    (h : Nested S a i) : a ≤ i := by
  induction h with
  | self => exact le_refl _
  | step i b o hb ho _ ih => exact le_trans ih (le_of_lt (hord i b o hb ho))

theorem nested_trans {S : List svn_branch_instance_t} {a s i : Nat} (h1 : Nested S a s)
    (h2 : Nested S s i) : Nested S a i := by
  induction h2 with
  | self => exact h1
  | step i b o hb ho _ ih => exact Nested.step i b o hb ho ih

/-- An instance nested in `a` is `a` or is nested in an immediate sub-branch of `a`. -/
theorem nested_cases {S : List svn_branch_instance_t} {a i : Nat} (h : Nested S a i) :
    i = a ∨ ∃ s bs, S.get? s = some bs ∧ bs.outer_branch = some a ∧ Nested S s i := by
  induction h with
  | self => exact Or.inl rfl
  | step i b o hb ho _ ih =>
    rcases ih with rfl | ⟨s, bs, h1, h2, h3⟩
    · exact Or.inr ⟨i, b, hb, ho, Nested.self⟩
    · exact Or.inr ⟨s, bs, h1, h2, Nested.step i b o hb ho h3⟩

/-- In a closed list the instances on the walk from a listed instance are listed. -/
theorem nested_listed {rr : svn_branch_revision_root_t} (hc : ListClosed rr) {a i : Nat}
    (h : Nested rr.store a i) (hi : i ∈ rr.branch_instances) :
    i = a ∨ ∃ s ∈ svn_branch_get_all_sub_branches rr a, Nested rr.store s i := by
  induction h with
  | self => exact Or.inl rfl
  | step i b o hb ho _ ih =>
    rcases ih (hc.closed i hi b o hb ho) with rfl | ⟨s, hs, h3⟩
    · exact Or.inr ⟨i, mem_sub_branches.2 ⟨hi, b, hb, ho⟩, Nested.self⟩
    · exact Or.inr ⟨s, hs, Nested.step i b o hb ho h3⟩

theorem nested_of_sub {rr : svn_branch_revision_root_t} {a s i : Nat}
    (hs : s ∈ svn_branch_get_all_sub_branches rr a) (h : Nested rr.store s i) :
    Nested rr.store a i := by
  obtain ⟨_, b, hb, ho⟩ := mem_sub_branches.1 hs
  exact nested_trans (Nested.step s b a hb ho Nested.self) h

theorem deletedR_closed {rr rr' : svn_branch_revision_root_t} {a : Nat}
    (hc : ListClosed rr) (h : DeletedR rr rr' a) : ListClosed rr' := by
  refine ⟨h.sub.nodup hc.nodup, ?_⟩
  intro i hi b o hb ho
  rw [h.store] at hb
  obtain ⟨h1, h2⟩ := (h.mem i).1 hi
  exact (h.mem o).2 ⟨hc.closed i h1 b o hb ho, fun hn => h2 (Nested.step i b o hb ho hn)⟩

theorem foldl_bind_ok {σ α : Type} (g : α → σ → Outcome σ) (a : α) (l : List α) (s s1 : σ)
    (h : g a s = Outcome.ok s1) :
    (a :: l).foldl (fun acc x => acc.bind (g x)) (Outcome.ok s)
      = l.foldl (fun acc x => acc.bind (g x)) (Outcome.ok s1) := by
  simp only [List.foldl_cons, Outcome.bind, h]

/-- The loop of `svn_branch_delete_branch_instance_r`, given what each of its calls does. -/
theorem delete_loop (S : List svn_branch_instance_t)
    (g : Nat → svn_branch_revision_root_t → Outcome svn_branch_revision_root_t) :
    ∀ (todo : List Nat),
    (∀ s ∈ todo, ∀ st, st.store = S → ListClosed st →
      ∃ st', g s st = Outcome.ok st' ∧ DeletedR st st' s) →
    ∀ (st : svn_branch_revision_root_t), st.store = S → ListClosed st →
    ∃ st', todo.foldl (fun acc s => acc.bind (g s)) (Outcome.ok st) = Outcome.ok st'
      ∧ st'.store = S ∧ st'.rev = st.rev ∧ st'.root_branch = st.root_branch
      ∧ st'.branch_instances.Sublist st.branch_instances
      ∧ ListClosed st'
      ∧ ∀ i, i ∈ st'.branch_instances
          ↔ (i ∈ st.branch_instances ∧ ∀ s ∈ todo, ¬ Nested S s i) := by
  intro todo
  induction todo with
  | nil =>
    intro _ st hS hc
    exact ⟨st, rfl, hS, rfl, rfl, List.Sublist.refl _, hc, fun i => by simp⟩
  | cons s todo ih =>
    intro hg st hS hc
    obtain ⟨st1, h1, d1⟩ := hg s (List.mem_cons_self _ _) st hS hc
    have hS1 : st1.store = S := by rw [d1.store, hS]
    obtain ⟨st', h2, e1, e2, e3, e4, e5, e6⟩ :=
      ih (fun t ht => hg t (List.mem_cons_of_mem _ ht)) st1 hS1 (deletedR_closed hc d1)
    refine ⟨st', ?_, e1, by rw [e2, d1.rev], by rw [e3, d1.root_branch], e4.trans d1.sub, e5, ?_⟩
    · rw [foldl_bind_ok g s todo st st1 h1]; exact h2
    · intro i
      rw [e6 i, d1.mem i, hS]
      constructor
      · rintro ⟨⟨h3, h4⟩, h5⟩
        refine ⟨h3, fun t ht => ?_⟩
        rcases List.mem_cons.1 ht with rfl | ht
        · exact h4
        · exact h5 t ht
      · intro ⟨h3, h4⟩
        exact ⟨⟨h3, h4 s (List.mem_cons_self _ _)⟩,
          fun t ht => h4 t (List.mem_cons_of_mem _ ht)⟩

/-- A call of `svn_branch_delete_branch_instance_r` on a nested instance returns, with enough
fuel, and has removed the instance and those nested in it from the list. -/
theorem delete_nested_spec (S : List svn_branch_instance_t) (hord : OuterBefore S) :
    ∀ (fuel : Nat) (rr : svn_branch_revision_root_t) (a : Nat) (b : svn_branch_instance_t)
      (o : Nat), rr.store = S → ListClosed rr → S.get? a = some b → b.outer_branch = some o →
      S.length < fuel + a →
      ∃ rr', svn_branch_delete_branch_instance_r fuel rr a = Outcome.ok rr'
        ∧ DeletedR rr rr' a := by
  intro fuel
  induction fuel with
  | zero =>
    intro rr a b o _ _ hb _ hf
    have := lt_of_get hb
    omega
  | succ n ih =>
    intro rr a b o hS hc hb ho hf
    have hloop := delete_loop S (fun s st => svn_branch_delete_branch_instance_r n st s)
      (svn_branch_get_all_sub_branches rr a)
      (fun s hs st hst hcl => by
        obtain ⟨_, bs, hbs, hos⟩ := mem_sub_branches.1 hs
        rw [hS] at hbs
        have : a < s := hord s bs a hbs hos
        exact ih st s bs a hst hcl hbs hos (by omega))
      rr hS hc
    obtain ⟨st, h1, e1, e2, e3, e4, e5, e6⟩ := hloop
    have hoa : o < a := hord a b o hb ho
    obtain ⟨ob, hob⟩ := get_of_lt (lt_trans hoa (lt_of_get hb))
    refine ⟨svn_branch_revision_root_delete_branch_instance st a, ?_, ?_⟩
    · simp only [svn_branch_delete_branch_instance_r]
      rw [hS, hb]
      simp only
      rw [h1]
      simp only [ho, e1, hob]
    · refine ⟨by simp [svn_branch_revision_root_delete_branch_instance, e1, hS],
        by simp [svn_branch_revision_root_delete_branch_instance, e2],
        by simp [svn_branch_revision_root_delete_branch_instance, e3],
        (List.erase_sublist a _).trans e4, ?_⟩
      intro i
      simp only [svn_branch_revision_root_delete_branch_instance]
      rw [e5.nodup.mem_erase_iff, e6 i, hS]
      constructor
      · rintro ⟨h3, h4, h5⟩
        refine ⟨h4, fun hn => ?_⟩
        have hi : i ∈ rr.branch_instances := h4
        rw [← hS] at hn
        rcases nested_listed hc hn hi with rfl | ⟨s, hs, h6⟩
        · exact h3 rfl
        · rw [hS] at h6; exact h5 s hs h6
      · rintro ⟨h3, h4⟩
        refine ⟨fun e => h4 (e ▸ Nested.self), h3, fun s hs hn => h4 ?_⟩
        have := nested_of_sub hs (hS ▸ hn)
        rw [hS] at this; exact this

/-- C19: `svn_branch_delete_branch_instance_r` on a top-level branch instance (one without
outer branch) never returns: after the loop over the sub-branches it reads the revision root
through `branch->outer_branch->rev_root`, which dereferences the NULL `outer_branch`.  With
an ordered store, a closed list and enough fuel the call arrives at that dereference. -/
theorem delete_top_level_never_returns (rr : svn_branch_revision_root_t) (a : Nat)
    (b : svn_branch_instance_t) (hb : rr.store.get? a = some b)
    (ho : b.outer_branch = none) :
    (∀ fuel rr', svn_branch_delete_branch_instance_r fuel rr a ≠ Outcome.ok rr')
    ∧ (OuterBefore rr.store → ListClosed rr → ∀ fuel, rr.store.length < fuel + a →
        svn_branch_delete_branch_instance_r fuel rr a = Outcome.malfunction) := by
  constructor
  · intro fuel rr' h
    cases fuel with
    | zero => simp only [svn_branch_delete_branch_instance_r] at h; cases h
    | succ n =>
      simp only [svn_branch_delete_branch_instance_r] at h
      rw [hb] at h
      simp only at h
      cases hl : (svn_branch_get_all_sub_branches rr a).foldl
          (fun acc s => acc.bind (fun st => svn_branch_delete_branch_instance_r n st s))
          (Outcome.ok rr) with
      | ok st => rw [hl] at h; simp only [ho] at h; cases h
      | malfunction => rw [hl] at h; cases h
      | out_of_fuel => rw [hl] at h; cases h
  · intro hord hc fuel hf
    cases fuel with
    | zero =>
      have := lt_of_get hb
      omega
    | succ n =>
      obtain ⟨st, h1, _⟩ := delete_loop rr.store
        (fun s st => svn_branch_delete_branch_instance_r n st s)
        (svn_branch_get_all_sub_branches rr a)
        (fun s hs st hst hcl => by
          obtain ⟨_, bs, hbs, hos⟩ := mem_sub_branches.1 hs
          have : a < s := hord s bs a hbs hos
          exact delete_nested_spec rr.store hord n st s bs a hst hcl hbs hos (by omega))
        rr rfl hc
      simp only [svn_branch_delete_branch_instance_r]
      rw [hb]
      simp only
      rw [h1]
      simp only [ho]

/-- C19, witness: deleting the top-level instance of the branching scenario, before and after
the branching, ends in the NULL dereference. -/
theorem delete_top_level_never_returns_witness :
    branching_root.store.get? 0 = some branching_outer
    ∧ branching_outer.outer_branch = none
    ∧ svn_branch_delete_branch_instance_r 3 branching_root 0 = Outcome.malfunction
    ∧ svn_branch_delete_branch_instance_r 3 branching_root_after 0 = Outcome.malfunction
    ∧ ∀ fuel rr', svn_branch_delete_branch_instance_r fuel branching_root 0 ≠ Outcome.ok rr' :=
  ⟨rfl, rfl, by decide, by decide,
    (delete_top_level_never_returns branching_root 0 branching_outer rfl rfl).1⟩

theorem sameOuter_refl (S : List svn_branch_instance_t) : SameOuter S S :=
  ⟨rfl, fun _ b h => ⟨b, h, rfl⟩⟩

theorem sameOuter_symm {S S' : List svn_branch_instance_t} (h : SameOuter S S') :
    SameOuter S' S := by
  refine ⟨h.1.symm, fun i b' hb' => ?_⟩
  have hi : i < S.length := h.1 ▸ lt_of_get hb'
  obtain ⟨b, hb⟩ := get_of_lt hi
  obtain ⟨b2, h2, h3⟩ := h.2 i b hb
  rw [hb'] at h2; cases h2
  exact ⟨b, hb, h3.symm⟩

theorem sameOuter_trans {S S1 S2 : List svn_branch_instance_t} (h1 : SameOuter S S1)
    (h2 : SameOuter S1 S2) : SameOuter S S2 := by
  refine ⟨h2.1.trans h1.1, fun i b hb => ?_⟩
  obtain ⟨b1, hb1, e1⟩ := h1.2 i b hb
  obtain ⟨b2, hb2, e2⟩ := h2.2 i b1 hb1
  exact ⟨b2, hb2, e2.trans e1⟩

theorem nested_sameOuter {S S' : List svn_branch_instance_t} (h : SameOuter S S') {a i : Nat}
    (hn : Nested S a i) : Nested S' a i := by
  induction hn with
  | self => exact Nested.self
  | step i b o hb ho _ ih =>
    obtain ⟨b', hb', e⟩ := h.2 i b hb
    exact Nested.step i b' o hb' (e.trans ho) ih

theorem nested_iff {S S' : List svn_branch_instance_t} (h : SameOuter S S') (a i : Nat) :
    Nested S' a i ↔ Nested S a i :=
  ⟨nested_sameOuter (sameOuter_symm h), nested_sameOuter h⟩

theorem outerBefore_sameOuter {S S' : List svn_branch_instance_t} (h : SameOuter S S')
    (hord : OuterBefore S) : OuterBefore S' := by
  intro i b' o hb' ho
  obtain ⟨b, hb, e⟩ := (sameOuter_symm h).2 i b' hb'
  exact hord i b o hb (e.trans ho)

/-- Of two instances that contain a third, one contains the other. -/
theorem nested_linear {S : List svn_branch_instance_t} {s t i : Nat} (h1 : Nested S s i) :
    Nested S t i → Nested S s t ∨ Nested S t s := by
  induction h1 with
  | self => intro h2; exact Or.inr h2
  | step i b o hb ho h ih =>
    intro h2
    cases h2 with
    | self => exact Or.inl (Nested.step _ b o hb ho h)
    | step _ b2 o2 hb2 ho2 h3 =>
      rw [hb] at hb2; cases hb2
      rw [ho] at ho2; cases ho2
      exact ih h3

/-- Two different sub-branches of one instance have no nested instance in common. -/
theorem siblings_disjoint {S : List svn_branch_instance_t} (hord : OuterBefore S)
    {a s t i : Nat} {bs bt : svn_branch_instance_t} (hs : S.get? s = some bs)
    (hos : bs.outer_branch = some a) (ht : S.get? t = some bt)
    (hot : bt.outer_branch = some a) (hne : s ≠ t) (h1 : Nested S s i) :
    ¬ Nested S t i := by
  have key : ∀ (x y : Nat) (bx bybr : svn_branch_instance_t), S.get? x = some bx →
      bx.outer_branch = some a → S.get? y = some bybr → bybr.outer_branch = some a → x ≠ y →
      ¬ Nested S x y := by
    intro x y bx bybr hx hox hy hoy hxy hn
    cases hn with
    | self => exact hxy rfl
    | step _ b2 o2 hb2 ho2 h3 =>
      rw [hy] at hb2; cases hb2
      rw [hoy] at ho2; cases ho2
      have h4 := nested_le hord h3
      have h5 := hord x bx a hx hox
      omega
  intro h2
  rcases nested_linear h1 h2 with h | h
  · exact key s t bs bt hs hos ht hot hne h
  · exact key t s bt bs ht hot hs hos (fun e => hne e.symm) h

theorem not_nested_outer {S : List svn_branch_instance_t} (hord : OuterBefore S)
    {a s : Nat} {bs : svn_branch_instance_t} (hs : S.get? s = some bs)
    (hos : bs.outer_branch = some a) : ¬ Nested S s a := by
  intro h
  have h1 := nested_le hord h
  have h2 := hord s bs a hs hos
  omega

/-- The postcondition of the recursive purge reads the two revision roots only at the
instances nested in `a`. -/
theorem purgedR_congr {r1 r1' r0 r0' : svn_branch_revision_root_t}
    (hN : SameOuter r0.store r1.store) {a : Nat} (h : PurgedR r1 r1' a) :
    (∀ i, Nested r1.store a i →
      r0.store.get? i = r1.store.get? i ∧ r0'.store.get? i = r1'.store.get? i
      ∧ (i ∈ r0.branch_instances → i ∈ r1.branch_instances)
      ∧ (i ∈ r1'.branch_instances ↔ i ∈ r0'.branch_instances)) →
    PurgedR r0 r0' a := by
  induction h with
  | mk a b b' hb hp hb' hlisted _ hdel ih =>
    intro hc
    have hsub : ∀ s ∈ svn_branch_get_all_sub_branches r0 a, ∀ bs,
        r0.store.get? s = some bs →
        s ∈ svn_branch_get_all_sub_branches r1 a ∧ r1.store.get? s = some bs := by
      intro s hs bs hbs
      obtain ⟨h1, b2, h2, h3⟩ := mem_sub_branches.1 hs
      have hn : Nested r1.store a s :=
        nested_sameOuter hN (Nested.step s b2 a h2 h3 Nested.self)
      obtain ⟨e1, _, e3, _⟩ := hc s hn
      rw [e1] at h2 hbs
      exact ⟨mem_sub_branches.2 ⟨e3 h1, b2, h2, h3⟩, hbs⟩
    have ha := hc a Nested.self
    refine PurgedR.mk a b b' (by rw [ha.1]; exact hb) hp (by rw [ha.2.1]; exact hb') ?_ ?_ ?_
    · intro s hs bs hbs hg
      obtain ⟨h1, h2⟩ := hsub s hs bs hbs
      exact ((hc s (nested_of_sub h1 Nested.self)).2.2.2).1 (hlisted s h1 bs h2 hg)
    · intro s hs bs hbs hg
      obtain ⟨h1, h2⟩ := hsub s hs bs hbs
      exact ih s h1 bs h2 hg (fun i hi => hc i (nested_of_sub h1 hi))
    · intro s hs bs hbs hg i hi hmem
      obtain ⟨h1, h2⟩ := hsub s hs bs hbs
      have hi1 : Nested r1.store s i := nested_sameOuter hN hi
      exact hdel s h1 bs h2 hg i hi1 (((hc i (nested_of_sub h1 hi1)).2.2.2).2 hmem)

theorem purge_loop (family : svn_branch_family_t) (a : Nat)
    (g : Nat → svn_branch_revision_root_t → Outcome svn_branch_revision_root_t) (L : Nat)
    (hg : ∀ s st, PurgeReady family st → st.store.length = L →
      s ∈ svn_branch_get_all_sub_branches st a →
      ∃ st1, g s st = Outcome.ok st1 ∧ PurgeStep family a s st st1) :
    ∀ (todo : List Nat) (st : svn_branch_revision_root_t), PurgeReady family st →
      st.store.length = L → todo.Nodup →
      (∀ s ∈ todo, s ∈ svn_branch_get_all_sub_branches st a) →
      ∃ st', todo.foldl (fun acc s => acc.bind (g s)) (Outcome.ok st) = Outcome.ok st'
        ∧ PurgeLoop family a todo st st' := by
  intro todo
  induction todo with
  | nil =>
    intro st hr _ _ _
    exact ⟨st, rfl, ⟨rfl, rfl, sameOuter_refl _, fun _ _ => rfl, List.Sublist.refl _,
      fun _ h _ => h, hr, (fun s hs => by cases hs), (fun s hs => by cases hs)⟩⟩
  | cons s todo ih =>
    intro st hr hL hnd hsubs
    obtain ⟨st1, h1, p1⟩ := hg s st hr hL (hsubs s (List.mem_cons_self _ _))
    obtain ⟨_, bs, hbs, hos⟩ := mem_sub_branches.1 (hsubs s (List.mem_cons_self _ _))
    obtain ⟨hs_notin, hnd'⟩ := List.nodup_cons.1 hnd
    have hdisj : ∀ t ∈ todo, ∀ i, Nested st.store t i → ¬ Nested st.store s i := by
      intro t ht i hn
      obtain ⟨_, bt, hbt, hot⟩ := mem_sub_branches.1 (hsubs t (List.mem_cons_of_mem _ ht))
      exact siblings_disjoint hr.before hbt hot hbs hos
        (fun e => hs_notin (e ▸ ht)) hn
    have hnot_a : ¬ Nested st.store s a := not_nested_outer hr.before hbs hos
    have htodo1 : ∀ t ∈ todo, t ∈ svn_branch_get_all_sub_branches st1 a := by
      intro t ht
      obtain ⟨htl, bt, hbt, hot⟩ := mem_sub_branches.1 (hsubs t (List.mem_cons_of_mem _ ht))
      have hn := hdisj t ht t Nested.self
      exact mem_sub_branches.2 ⟨p1.frame.keep t htl hn, bt,
        by rw [p1.frame.frame t hn]; exact hbt, hot⟩
    obtain ⟨st', h2, p2⟩ := ih st1 p1.frame.ready (by rw [p1.frame.outer.1, hL]) hnd' htodo1
    have hN := p1.frame.outer
    refine ⟨st', by rw [foldl_bind_ok g s todo st st1 h1]; exact h2, ?_⟩
    have hrest : ∀ i, (∀ t ∈ s :: todo, ¬ Nested st.store t i) →
        ∀ t ∈ todo, ¬ Nested st1.store t i :=
      fun i hi t ht hn => hi t (List.mem_cons_of_mem _ ht) ((nested_iff hN t i).1 hn)
    have hins : ∀ i, Nested st.store s i → ∀ u ∈ todo, ¬ Nested st1.store u i :=
      fun i hi u hu hn => hdisj u hu i ((nested_iff hN u i).1 hn) hi
    refine ⟨p2.rev.trans p1.frame.rev, p2.root_branch.trans p1.frame.root_branch,
      sameOuter_trans hN p2.outer, ?_, p2.sub.trans p1.frame.sub, ?_, p2.ready, ?_, ?_⟩
    · intro i hi
      rw [p2.frame i (hrest i hi), p1.frame.frame i (hi s (List.mem_cons_self _ _))]
    · intro i hil hi
      exact p2.keep i (p1.frame.keep i hil (hi s (List.mem_cons_self _ _))) (hrest i hi)
    · intro t ht bt ba hbt hba hget
      rcases List.mem_cons.1 ht with rfl | ht
      · obtain ⟨k1, k2⟩ := p1.kept bt ba hbt hba hget
        refine ⟨p2.keep t k1 (hins t Nested.self), ?_⟩
        exact purgedR_congr (sameOuter_refl _) k2 (fun i hi =>
          ⟨rfl, p2.frame i (hins i hi), id,
            ⟨fun h => p2.keep i h (hins i hi), fun h => p2.sub.subset h⟩⟩)
      · have hn := hdisj t ht t Nested.self
        have hbt1 : st1.store.get? t = some bt := by rw [p1.frame.frame t hn]; exact hbt
        have hba1 : st1.store.get? a = some ba := by rw [p1.frame.frame a hnot_a]; exact hba
        obtain ⟨k1, k2⟩ := p2.kept t ht bt ba hbt1 hba1 hget
        refine ⟨k1, purgedR_congr hN k2 (fun i hi => ?_)⟩
        have hi0 : ¬ Nested st.store s i := hdisj t ht i ((nested_iff hN t i).1 hi)
        exact ⟨(p1.frame.frame i hi0).symm, rfl, fun h => p1.frame.keep i h hi0, Iff.rfl⟩
    · intro t ht bt ba hbt hba hget i hi hmem
      rcases List.mem_cons.1 ht with rfl | ht
      · exact p1.deleted bt ba hbt hba hget i hi (p2.sub.subset hmem)
      · have hn := hdisj t ht t Nested.self
        have hbt1 : st1.store.get? t = some bt := by rw [p1.frame.frame t hn]; exact hbt
        have hba1 : st1.store.get? a = some ba := by rw [p1.frame.frame a hnot_a]; exact hba
        exact p2.deleted t ht bt ba hbt1 hba1 hget i ((nested_iff hN t i).2 hi) hmem

theorem purge_orphans_fields {b b' : svn_branch_instance_t}
    (h : svn_branch_map_purge_orphans b = Step.done b') :
    ∃ m, map_purge_orphans b.e_map b.sibling_defn.root_eid = Step.done m
      ∧ b' = { b with e_map := m } := by
  unfold svn_branch_map_purge_orphans at h
  cases hm : map_purge_orphans b.e_map b.sibling_defn.root_eid with
  | done m => rw [hm] at h; simp only at h; cases h; exact ⟨m, rfl, rfl⟩
  | malfunction m => rw [hm] at h; cases h
  | out_of_fuel => rw [hm] at h; cases h

theorem purge_orphans_again {family : svn_branch_family_t} {b b' : svn_branch_instance_t}
    (hv : BranchValid family b) (h : svn_branch_map_purge_orphans b = Step.done b') :
    BranchValid family b' ∧ svn_branch_map_purge_orphans b' = Step.done b'
      ∧ b'.outer_branch = b.outer_branch ∧ b'.outer_eid = b.outer_eid := by
  obtain ⟨m, hm, rfl⟩ := purge_orphans_fields h
  refine ⟨branchValid_of_sublist hv (purge_done_spec hv.1 _ m hm).1, ?_, rfl, rfl⟩
  unfold svn_branch_map_purge_orphans
  simp only [purge_again hv.1 hm]

theorem get_set_cases {α : Type} (l : List α) (a i : Nat) (x : α) (ha : a < l.length) :
    (l.set a x).get? i = if i = a then some x else l.get? i := by
  by_cases h : i = a
  · rw [if_pos h, h]; exact get_set_self' l a x ha
  · rw [if_neg h]; exact get_set_other l a i x (fun e => h e.symm)

theorem sameOuter_set {S : List svn_branch_instance_t} {a : Nat}
    {b b' : svn_branch_instance_t} (hb : S.get? a = some b)
    (ho : b'.outer_branch = b.outer_branch) : SameOuter S (S.set a b') := by
  refine ⟨List.length_set _ _ _, fun i bi hbi => ?_⟩
  rw [get_set_cases S a i b' (lt_of_get hb)]
  by_cases h : i = a
  · rw [if_pos h]
    rw [h, hb] at hbi; cases hbi
    exact ⟨b', rfl, ho⟩
  · rw [if_neg h]; exact ⟨bi, hbi, rfl⟩

/-- Writing the purged element map of one instance keeps the revision root ready. -/
theorem ready_set {family : svn_branch_family_t} {rr : svn_branch_revision_root_t}
    (hr : PurgeReady family rr) {a : Nat} {b b' : svn_branch_instance_t}
    (hb : rr.store.get? a = some b) (hp : svn_branch_map_purge_orphans b = Step.done b') :
    PurgeReady family { rr with store := rr.store.set a b' } := by
  obtain ⟨v1, v2, v3, v4⟩ := purge_orphans_again (hr.valid a b hb) hp
  have hN : SameOuter rr.store (rr.store.set a b') := sameOuter_set hb v3
  have hget := fun i => get_set_cases rr.store a i b' (lt_of_get hb)
  refine ⟨outerBefore_sameOuter hN hr.before, ⟨hr.list.nodup, ?_⟩, ?_, ?_, ?_⟩
  · intro i hi bi o hbi ho
    obtain ⟨b0, h0, e0⟩ := (sameOuter_symm hN).2 i bi hbi
    exact hr.list.closed i hi b0 o h0 (e0.trans ho)
  · intro i bi hbi
    simp only [hget i] at hbi
    by_cases h : i = a
    · rw [if_pos h] at hbi; cases hbi; exact v1
    · rw [if_neg h] at hbi; exact hr.valid i bi hbi
  · intro i bi o hbi ho
    simp only [hget i] at hbi
    by_cases h : i = a
    · rw [if_pos h] at hbi; cases hbi
      rw [v4]; exact hr.anchor a b o hb (v3 ▸ ho)
    · rw [if_neg h] at hbi; exact hr.anchor i bi o hbi ho
  · intro i bi hbi
    simp only [hget i] at hbi
    by_cases h : i = a
    · rw [if_pos h] at hbi; cases hbi; exact ⟨_, v2⟩
    · rw [if_neg h] at hbi; exact hr.purge i bi hbi

theorem deleted_frame {family : svn_branch_family_t} {rr rr' : svn_branch_revision_root_t}
    {a : Nat} (hr : PurgeReady family rr) (h : DeletedR rr rr' a) :
    PurgeFrame family rr rr' a := by
  refine ⟨h.rev, h.root_branch, by rw [h.store]; exact sameOuter_refl _,
    fun i _ => by rw [h.store], h.sub, fun i hi hn => (h.mem i).2 ⟨hi, hn⟩, ?_⟩
  refine ⟨by rw [h.store]; exact hr.before, deletedR_closed hr.list h, ?_, ?_, ?_⟩
  · intro i b hb; rw [h.store] at hb; exact hr.valid i b hb
  · intro i b o hb; rw [h.store] at hb; exact hr.anchor i b o hb
  · intro i b hb; rw [h.store] at hb; exact hr.purge i b hb

/-- With enough fuel `svn_branch_purge_r` returns on a ready revision root, and it has purged
the instance recursively and left the rest alone. -/
theorem purge_r_spec (family : svn_branch_family_t) :
    ∀ (fuel : Nat) (rr : svn_branch_revision_root_t) (a : Nat), PurgeReady family rr →
      a < rr.store.length → rr.store.length < fuel + a →
      ∃ rr', svn_branch_purge_r family fuel rr a = Outcome.ok rr'
        ∧ PurgeFrame family rr rr' a
        ∧ (a ∈ rr.branch_instances → a ∈ rr'.branch_instances)
        ∧ PurgedR rr rr' a := by
  intro fuel
  induction fuel with
  | zero => intro rr a _ ha hf; omega
  | succ n ih =>
    intro rr a hr ha hf
    obtain ⟨b, hb⟩ := get_of_lt ha
    obtain ⟨b', hp⟩ := hr.purge a b hb
    obtain ⟨_, _, v3, _⟩ := purge_orphans_again (hr.valid a b hb) hp
    have hr0 := ready_set hr hb hp
    have hN0 : SameOuter rr.store (rr.store.set a b') := sameOuter_set hb v3
    have hget := fun i => get_set_cases rr.store a i b' ha
    have hg : ∀ s st, PurgeReady family st → st.store.length = rr.store.length →
        s ∈ svn_branch_get_all_sub_branches st a →
        ∃ st1, purge_or_delete family (svn_branch_purge_r family n)
            (svn_branch_delete_branch_instance_r n) a s st = Outcome.ok st1
          ∧ PurgeStep family a s st st1 := by
      intro s st hst hl hs
      obtain ⟨hsl, bs, hbs, hos⟩ := mem_sub_branches.1 hs
      have has : a < s := hst.before s bs a hbs hos
      have hsL := lt_of_get hbs
      obtain ⟨ba, hba⟩ := get_of_lt (lt_trans has hsL)
      have hmg := map_get_valid (hst.valid a ba hba) (hst.anchor s bs a hbs hos)
      cases hget : svn_int_hash_get ba.e_map bs.outer_eid with
      | none =>
        obtain ⟨st1, d1, d2⟩ := delete_nested_spec st.store hst.before n st s bs a rfl
          hst.list hbs hos (by omega)
        refine ⟨st1, ?_, deleted_frame hst d2, ?_, ?_⟩
        · simp only [purge_or_delete, hbs, hba, hmg, hget]
          exact d1
        · intro bs2 ba2 h1 h2 h3
          rw [hbs] at h1; cases h1
          rw [hba] at h2; cases h2
          exact absurd hget h3
        · intro bs2 ba2 _ _ _ i hi hmem
          exact ((d2.mem i).1 hmem).2 hi
      | some x =>
        obtain ⟨st1, q1, q2, q3, q4⟩ := ih st s hst hsL (by omega)
        refine ⟨st1, ?_, q2, ?_, ?_⟩
        · simp only [purge_or_delete, hbs, hba, hmg, hget]
          exact q1
        · intro _ _ _ _ _
          exact ⟨q3 hsl, q4⟩
        · intro bs2 ba2 h1 h2 h3
          rw [hbs] at h1; cases h1
          rw [hba] at h2; cases h2
          rw [hget] at h3; cases h3
    have hnd : (svn_branch_get_all_sub_branches
        { rr with store := rr.store.set a b' } a).Nodup := by
      unfold svn_branch_get_all_sub_branches
      exact hr.list.nodup.filter _
    obtain ⟨st', h2, p2⟩ := purge_loop family a
      (purge_or_delete family (svn_branch_purge_r family n)
        (svn_branch_delete_branch_instance_r n) a) rr.store.length hg
      (svn_branch_get_all_sub_branches { rr with store := rr.store.set a b' } a)
      { rr with store := rr.store.set a b' } hr0 (List.length_set _ _ _) hnd (fun s hs => hs)
    have hnot : ∀ i, ¬ Nested rr.store a i →
        ∀ s ∈ svn_branch_get_all_sub_branches { rr with store := rr.store.set a b' } a,
        ¬ Nested (rr.store.set a b') s i := by
      intro i hi s hs hn
      apply hi
      have h3 := nested_of_sub hs hn
      exact (nested_iff hN0 a i).1 h3
    have hself : ∀ s ∈ svn_branch_get_all_sub_branches { rr with store := rr.store.set a b' } a,
        ¬ Nested (rr.store.set a b') s a := by
      intro s hs
      obtain ⟨_, bs, hbs, hos⟩ := mem_sub_branches.1 hs
      exact not_nested_outer hr0.before hbs hos
    have hne : ∀ i, ¬ Nested rr.store a i → i ≠ a := fun i hi e => hi (e ▸ Nested.self)
    refine ⟨st', ?_, ?_, ?_, ?_⟩
    · simp only [svn_branch_purge_r]
      rw [hb]
      simp only
      rw [hp]
      exact h2
    · refine ⟨p2.rev, p2.root_branch, sameOuter_trans hN0 p2.outer, ?_, p2.sub, ?_, p2.ready⟩
      · intro i hi
        rw [p2.frame i (hnot i hi)]
        show (rr.store.set a b').get? i = rr.store.get? i
        rw [hget i, if_neg (hne i hi)]
      · intro i hil hi
        exact p2.keep i hil (hnot i hi)
    · intro hal
      exact p2.keep a hal hself
    · have ha' : st'.store.get? a = some b' := by
        rw [p2.frame a hself]
        show (rr.store.set a b').get? a = some b'
        rw [hget a, if_pos rfl]
      have hsub : ∀ s ∈ svn_branch_get_all_sub_branches rr a, ∀ bs,
          rr.store.get? s = some bs →
          s ∈ svn_branch_get_all_sub_branches { rr with store := rr.store.set a b' } a
          ∧ (rr.store.set a b').get? s = some bs := by
        intro s hs bs hbs
        obtain ⟨h1, b2, h3, h4⟩ := mem_sub_branches.1 hs
        have hsa : s ≠ a := fun e => by
          have := hr.before s b2 a h3 h4
          omega
        have h5 : (rr.store.set a b').get? s = rr.store.get? s := by
          rw [hget s, if_neg hsa]
        exact ⟨mem_sub_branches.2 ⟨h1, b2, by rw [h5]; exact h3, h4⟩, by rw [h5]; exact hbs⟩
      have hin : ∀ s ∈ svn_branch_get_all_sub_branches rr a, ∀ i,
          Nested (rr.store.set a b') s i → (rr.store.set a b').get? i = rr.store.get? i := by
        intro s hs i hi
        obtain ⟨_, b2, h3, h4⟩ := mem_sub_branches.1 hs
        have h6 := nested_le hr.before ((nested_iff hN0 s i).1 hi)
        have h7 := hr.before s b2 a h3 h4
        rw [hget i, if_neg (by omega)]
      have ha0 : (rr.store.set a b').get? a = some b' := by rw [hget a, if_pos rfl]
      refine PurgedR.mk a b b' hb hp ha' ?_ ?_ ?_
      · intro s hs bs hbs hg
        obtain ⟨h1, h2⟩ := hsub s hs bs hbs
        exact (p2.kept s h1 bs b' h2 ha0 hg).1
      · intro s hs bs hbs hg
        obtain ⟨h1, h2⟩ := hsub s hs bs hbs
        have k := (p2.kept s h1 bs b' h2 ha0 hg).2
        exact purgedR_congr hN0 k (fun i hi => ⟨(hin s hs i hi).symm, rfl, id, Iff.rfl⟩)
      · intro s hs bs hbs hg i hi
        obtain ⟨h1, h2⟩ := hsub s hs bs hbs
        exact p2.deleted s h1 bs b' h2 ha0 hg i ((nested_iff hN0 s i).2 hi)

theorem purge_root_cases {i : Nat} {b : svn_branch_instance_t}
    (h : purge_root.store.get? i = some b) :
    (i = 0 ∧ b = purge_top) ∨ (i = 1 ∧ b = purge_kept) ∨ (i = 2 ∧ b = purge_gone)
      ∨ (i = 3 ∧ b = purge_inner) := by
  match i, h with
  | 0, h => simp [purge_root] at h; exact Or.inl ⟨rfl, h.symm⟩
  | 1, h => simp [purge_root] at h; exact Or.inr (Or.inl ⟨rfl, h.symm⟩)
  | 2, h => simp [purge_root] at h; exact Or.inr (Or.inr (Or.inl ⟨rfl, h.symm⟩))
  | 3, h => simp [purge_root] at h; exact Or.inr (Or.inr (Or.inr ⟨rfl, h.symm⟩))
  | n + 4, h => simp [purge_root] at h

theorem purge_root_ready : PurgeReady purge_family purge_root := by
  refine ⟨?_, ⟨by decide, ?_⟩, ?_, ?_, ?_⟩
  · intro i b o hb ho
    rcases purge_root_cases hb with ⟨rfl, rfl⟩ | ⟨rfl, rfl⟩ | ⟨rfl, rfl⟩ | ⟨rfl, rfl⟩
    · cases ho
    · cases ho; decide
    · cases ho; decide
    · cases ho; decide
  · intro i _ b o hb ho
    rcases purge_root_cases hb with ⟨rfl, rfl⟩ | ⟨rfl, rfl⟩ | ⟨rfl, rfl⟩ | ⟨rfl, rfl⟩
    · cases ho
    · cases ho; decide
    · cases ho; decide
    · cases ho; decide
  · intro i b hb
    rcases purge_root_cases hb with ⟨rfl, rfl⟩ | ⟨rfl, rfl⟩ | ⟨rfl, rfl⟩ | ⟨rfl, rfl⟩
    · exact branchValid_of_forall (by simp [NodupKeys, purge_top]) (by decide)
    · exact branchValid_of_forall (by simp [NodupKeys, purge_kept]) (by decide)
    · exact branchValid_of_forall (by simp [NodupKeys, purge_gone]) (by decide)
    · exact branchValid_of_forall (by simp [NodupKeys, purge_inner]) (by decide)
  · intro i b o hb ho
    rcases purge_root_cases hb with ⟨rfl, rfl⟩ | ⟨rfl, rfl⟩ | ⟨rfl, rfl⟩ | ⟨rfl, rfl⟩
    · cases ho
    · decide
    · decide
    · decide
  · intro i b hb
    rcases purge_root_cases hb with ⟨rfl, rfl⟩ | ⟨rfl, rfl⟩ | ⟨rfl, rfl⟩ | ⟨rfl, rfl⟩
    · exact ⟨_, rfl⟩
    · exact ⟨_, rfl⟩
    · exact ⟨_, rfl⟩
    · exact ⟨_, rfl⟩

/-- C18: on a revision root that is ready for the purge, `svn_branch_purge_r (branch)`
returns with enough fuel, and afterwards: the element map of `branch` is the orphan purge of
what it was; every immediate sub-branch whose outer EID has an element in the purged map of
`branch` is in the list of instances and has been purged recursively; and every immediate
sub-branch whose outer EID has no element in the purged map of `branch` has left the list
of instances together with every instance nested in it. -/
theorem purge_r_postcondition (family : svn_branch_family_t)
    (rr : svn_branch_revision_root_t) (a : Nat) (hr : PurgeReady family rr)
    (ha : a < rr.store.length) (fuel : Nat) (hf : rr.store.length < fuel + a) :
    ∃ rr' b b', svn_branch_purge_r family fuel rr a = Outcome.ok rr'
      ∧ rr.store.get? a = some b ∧ svn_branch_map_purge_orphans b = Step.done b'
      ∧ rr'.store.get? a = some b'
      ∧ ∀ s ∈ svn_branch_get_all_sub_branches rr a, ∀ bs, rr.store.get? s = some bs →
        (svn_int_hash_get b'.e_map bs.outer_eid ≠ none →
          s ∈ rr'.branch_instances ∧ PurgedR rr rr' s)
        ∧ (svn_int_hash_get b'.e_map bs.outer_eid = none →
          ∀ i, Nested rr.store s i → i ∉ rr'.branch_instances) := by
  obtain ⟨rr', h1, _, _, h4⟩ := purge_r_spec family fuel rr a hr ha hf
  cases h4 with
  | mk _ b b' hb hp hb' hlisted hpurged hdel =>
    exact ⟨rr', b, b', h1, hb, hp, hb', fun s hs bs hbs =>
      ⟨fun hg => ⟨hlisted s hs bs hbs hg, hpurged s hs bs hbs hg⟩, hdel s hs bs hbs⟩⟩

/-- C18, witness: the purge scenario: the top branch loses its orphan `gone`, the sub-branch
at `keep` stays and loses its own orphan, and the sub-branch at `gone` leaves the list with
the instance nested in it. -/
theorem purge_r_postcondition_witness :
    PurgeReady purge_family purge_root
    ∧ svn_branch_purge_r purge_family 5 purge_root 0 = Outcome.ok purge_root_after
    ∧ ∃ rr' b b', svn_branch_purge_r purge_family 5 purge_root 0 = Outcome.ok rr'
      ∧ purge_root.store.get? 0 = some b ∧ svn_branch_map_purge_orphans b = Step.done b'
      ∧ rr'.store.get? 0 = some b'
      ∧ ∀ s ∈ svn_branch_get_all_sub_branches purge_root 0, ∀ bs,
        purge_root.store.get? s = some bs →
        (svn_int_hash_get b'.e_map bs.outer_eid ≠ none →
          s ∈ rr'.branch_instances ∧ PurgedR purge_root rr' s)
        ∧ (svn_int_hash_get b'.e_map bs.outer_eid = none →
          ∀ i, Nested purge_root.store s i → i ∉ rr'.branch_instances) :=
  ⟨purge_root_ready, by decide,
    purge_r_postcondition purge_family purge_root 0 purge_root_ready (by decide) 5
      (by decide)⟩

theorem mem_extends {rr rr' : svn_branch_revision_root_t} (h : Extends rr rr') (i : Nat) :
    i ∈ rr'.branch_instances
      ↔ i ∈ rr.branch_instances ∨ (rr.store.length ≤ i ∧ i < rr'.store.length) := by
  rw [h.list, List.mem_append, List.mem_range'_1]
  have := h.len
  constructor
  · rintro (h1 | ⟨h1, h2⟩)
    · exact Or.inl h1
    · exact Or.inr ⟨h1, by omega⟩
  · rintro (h1 | ⟨h1, h2⟩)
    · exact Or.inl h1
    · exact Or.inr ⟨h1, by omega⟩

theorem listed_extends {rr rr' : svn_branch_revision_root_t} (hl : InstancesListed rr)
    (h : Extends rr rr')
    (hnew : ∀ i, rr.store.length ≤ i → ∀ b o, rr'.store.get? i = some b →
      b.outer_branch = some o → o < rr'.store.length) : InstancesListed rr' := by
  have hlen := h.len
  refine ⟨?_, ?_, ?_⟩
  · intro i hi
    rcases (mem_extends h i).1 hi with h1 | ⟨_, h2⟩
    · exact lt_of_lt_of_le (hl.listed i h1) hlen
    · exact h2
  · rw [h.list]
    refine List.Nodup.append hl.nodup (List.nodup_range' _ _) ?_
    intro i h1 h2
    have := hl.listed i h1
    have := (List.mem_range'_1.1 h2).1
    omega
  · intro i b o hb ho
    by_cases hi : i < rr.store.length
    · rw [h.same i hi] at hb
      exact lt_of_lt_of_le (hl.outer i b o hb ho) hlen
    · exact hnew i (by omega) b o hb ho

/-- The sub-branches that `svn_branch_get_subbranches` collects are immediate sub-branches,
in the order of the list. -/
theorem get_subbranches_loop_spec (family : svn_branch_family_t)
    (store : List svn_branch_instance_t) (fuel : Nat) (branch : Nat)
    (top_rrpath : Option String) :
    ∀ (l subs : List Nat),
      svn_branch_get_subbranches_loop family store fuel branch top_rrpath l = Outcome.ok subs →
      subs.Sublist l
      ∧ ∀ s ∈ subs, ∃ bs, store.get? s = some bs ∧ bs.outer_branch = some branch := by
  intro l
  induction l with
  | nil =>
    intro subs h
    simp only [svn_branch_get_subbranches_loop] at h
    cases h
    exact ⟨List.Sublist.refl _, fun s hs => by cases hs⟩
  | cons i rest ih =>
    intro subs h
    simp only [svn_branch_get_subbranches_loop] at h
    cases hb : store.get? i with
    | none => rw [hb] at h; cases h
    | some sb =>
      rw [hb] at h
      simp only at h
      cases hR : svn_branch_get_root_rrpath family store fuel sb with
      | malfunction => rw [hR] at h; cases h
      | out_of_fuel => rw [hR] at h; cases h
      | ok R =>
        rw [hR] at h
        simp only at h
        by_cases ho : sb.outer_branch = some branch
        · rw [if_pos ho] at h
          cases top_rrpath with
          | none => cases h
          | some top =>
            simp only at h
            cases hl : svn_branch_get_subbranches_loop family store fuel branch (some top)
                rest with
            | malfunction => rw [hl] at h; cases h
            | out_of_fuel => rw [hl] at h; cases h
            | ok l' =>
              rw [hl] at h
              simp only at h
              obtain ⟨h1, h2⟩ := ih l' hl
              cases h
              by_cases hk : (svn_relpath_skip_ancestor top R).isSome = true
              · rw [if_pos hk]
                refine ⟨h1.cons₂ i, fun s hs => ?_⟩
                rcases List.mem_cons.1 hs with rfl | hs
                · exact ⟨sb, hb, ho⟩
                · exact h2 s hs
              · rw [if_neg hk]
                exact ⟨h1.cons i, h2⟩
        · rw [if_neg ho] at h
          obtain ⟨h1, h2⟩ := ih subs h
          exact ⟨h1.cons i, h2⟩

theorem get_subbranches_spec {family : svn_branch_family_t}
    {rr : svn_branch_revision_root_t} {fuel branch : Nat} {eid : Int} {subs : List Nat}
    (h : svn_branch_get_subbranches family rr fuel branch eid = Outcome.ok subs) :
    subs.Sublist rr.branch_instances
    ∧ ∀ s ∈ subs, ∃ bs, rr.store.get? s = some bs ∧ bs.outer_branch = some branch := by
  unfold svn_branch_get_subbranches at h
  cases hb : rr.store.get? branch with
  | none => rw [hb] at h; cases h
  | some b =>
    rw [hb] at h
    simp only at h
    cases hp : svn_branch_get_rrpath_by_eid family rr.store fuel b eid with
    | malfunction => rw [hp] at h; cases h
    | out_of_fuel => rw [hp] at h; cases h
    | ok top =>
      rw [hp] at h
      exact get_subbranches_loop_spec family rr.store fuel branch top _ subs h

theorem branch_subbranch_unfold
    {call : svn_branch_revision_root_t → Nat → Int → Nat → Int → svn_branch_sibling_t →
      Outcome (svn_branch_revision_root_t × Nat)}
    {target s : Nat} {st st1 : svn_branch_revision_root_t}
    (h : branch_subbranch call target s st = Outcome.ok st1) :
    ∃ subbranch a1, st.store.get? s = some subbranch
      ∧ call st s subbranch.sibling_defn.root_eid target subbranch.outer_eid
          subbranch.sibling_defn = Outcome.ok (st1, a1) := by
  unfold branch_subbranch at h
  cases hb : st.store.get? s with
  | none => rw [hb] at h; cases h
  | some subbranch =>
    rw [hb] at h
    simp only at h
    cases hc : call st s subbranch.sibling_defn.root_eid target subbranch.outer_eid
        subbranch.sibling_defn with
    | malfunction => rw [hc] at h; cases h
    | out_of_fuel => rw [hc] at h; cases h
    | ok p =>
      obtain ⟨x, a1⟩ := p
      rw [hc] at h
      simp only at h
      cases h
      exact ⟨subbranch, a1, rfl, hc⟩

/-- A call of `svn_branch_branch_into` that returns without error has instantiated the subtree
in the destination and run the loop over the sub-branches of the source. -/
theorem branch_into_unfold {fuel : Nat} {family : svn_branch_family_t}
    {rev_root : svn_branch_revision_root_t} {from_branch : Nat} {from_eid : Int}
    {to_branch : Nat} {to_parent_eid : Int} {new_name : Option String}
    {rev_root' : svn_branch_revision_root_t}
    (h : svn_branch_branch_into fuel family rev_root from_branch from_eid to_branch
      to_parent_eid new_name = Run.ok rev_root' ()) :
    ∃ from_b to_b to_b' s' subs,
      rev_root.store.get? from_branch = some from_b
      ∧ rev_root.store.get? to_branch = some to_b
      ∧ svn_branch_instantiate_subtree family to_b to_parent_eid new_name
          (svn_branch_map_get_subtree from_b from_eid) = Step.done (to_b', s')
      ∧ svn_branch_get_subbranches family
          { rev_root with store := rev_root.store.set to_branch to_b' } fuel from_branch
          from_eid = Outcome.ok subs
      ∧ subs.foldl (fun acc s => acc.bind
            (branch_subbranch (svn_branch_branch_subtree_r2 family fuel) to_branch s))
          (Outcome.ok { rev_root with store := rev_root.store.set to_branch to_b' })
          = Outcome.ok rev_root' := by
  unfold svn_branch_branch_into at h
  cases hf : rev_root.store.get? from_branch with
  | none => rw [hf] at h; cases h
  | some from_b =>
    rw [hf] at h
    simp only at h
    cases hp : svn_branch_get_path_by_eid family from_b fuel from_eid with
    | ok path =>
      rw [hp] at h
      cases path with
      | none => cases h
      | some path =>
        simp only at h
        cases ht : rev_root.store.get? to_branch with
        | none => rw [ht] at h; cases h
        | some to_b =>
          rw [ht] at h
          simp only at h
          cases hi : svn_branch_instantiate_subtree family to_b to_parent_eid new_name
              (svn_branch_map_get_subtree from_b from_eid) with
          | done r =>
            obtain ⟨to_b', s'⟩ := r
            rw [hi] at h
            simp only at h
            cases hs : svn_branch_get_subbranches family
                { rev_root with store := rev_root.store.set to_branch to_b' } fuel from_branch
                from_eid with
            | ok subs =>
              rw [hs] at h
              simp only at h
              cases hl : subs.foldl (fun acc s => acc.bind
                  (branch_subbranch (svn_branch_branch_subtree_r2 family fuel) to_branch s))
                  (Outcome.ok { rev_root with store := rev_root.store.set to_branch to_b' }) with
              | ok st =>
                rw [hl] at h
                simp only [Run.ok.injEq] at h
                obtain ⟨rfl, _⟩ := h
                exact ⟨from_b, to_b, to_b', s', subs, rfl, rfl, hi, hs, hl⟩
              | malfunction => rw [hl] at h; cases h
              | out_of_fuel => rw [hl] at h; cases h
            | malfunction => rw [hs] at h; cases h
            | out_of_fuel => rw [hs] at h; cases h
          | malfunction x => rw [hi] at h; cases h
          | out_of_fuel => rw [hi] at h; cases h
    | malfunction => rw [hp] at h; cases h
    | out_of_fuel => rw [hp] at h; cases h

/-- Writing an instance with the same outer branch and outer EID leaves every instance with
its anchor. -/
theorem set_anchor {S : List svn_branch_instance_t} {a : Nat} {b b' : svn_branch_instance_t}
    (hb : S.get? a = some b) (ho : b'.outer_branch = b.outer_branch)
    (he : b'.outer_eid = b.outer_eid) {i : Nat} {x : svn_branch_instance_t}
    (hx : (S.set a b').get? i = some x) :
    ∃ y, S.get? i = some y ∧ y.outer_branch = x.outer_branch ∧ y.outer_eid = x.outer_eid := by
  rw [get_set_cases S a i b' (lt_of_get hb)] at hx
  by_cases h : i = a
  · rw [if_pos h] at hx; cases hx
    exact ⟨b, h ▸ hb, ho.symm, he.symm⟩
  · rw [if_neg h] at hx
    exact ⟨x, hx, rfl, rfl⟩

theorem listed_set {rr : svn_branch_revision_root_t} (hl : InstancesListed rr) {a : Nat}
    {b b' : svn_branch_instance_t} (hb : rr.store.get? a = some b)
    (ho : b'.outer_branch = b.outer_branch) (he : b'.outer_eid = b.outer_eid) :
    InstancesListed { rr with store := rr.store.set a b' } := by
  refine ⟨fun i hi => ?_, hl.nodup, fun i x o hx hox => ?_⟩
  · simp only [List.length_set]; exact hl.listed i hi
  · obtain ⟨y, hy, e1, _⟩ := set_anchor hb ho he hx
    simp only [List.length_set]
    exact hl.outer i y o hy (e1.trans hox)

theorem branching_root_after_cases {i : Nat} {b : svn_branch_instance_t}
    (h : branching_root_after.store.get? i = some b) :
    (i = 0 ∧ b.outer_branch = none) ∨ (i = 1 ∧ b = branching_inner) := by
  match i, h with
  | 0, h => simp [branching_root_after] at h; exact Or.inl ⟨rfl, by rw [← h]; rfl⟩
  | 1, h => simp [branching_root_after] at h; exact Or.inr ⟨rfl, h.symm⟩
  | n + 2, h => simp [branching_root_after] at h

theorem branching_root_after_disjoint :
    SubBranchDisjointness branching_family_after branching_root_after := by
  intro s t bs bt o fuel R _ _ hne hbs hbt hos hot _
  rcases branching_root_after_cases hbs with ⟨_, h1⟩ | ⟨h1, _⟩
  · rw [h1] at hos; cases hos
  · rcases branching_root_after_cases hbt with ⟨_, h2⟩ | ⟨h2, _⟩
    · rw [h2] at hot; cases hot
    · exact absurd (h1.trans h2.symm) hne

theorem fresh_eids_pairwise (a : Int) (n : Nat) :
    (fresh_eids a n).Pairwise (fun x y => x < y) := by
  unfold fresh_eids
  rw [List.pairwise_map]
  refine List.Pairwise.imp ?_ (List.pairwise_lt_range n)
  intro i j hij
  show a + (i : Int) < a + (j : Int)
  omega

/-- The allocator of siblings returns only when the new BSID and the root EID are in the
ranges of the family. -/
theorem add_new_branch_sibling_checks {family family' : svn_branch_family_t} {root_eid : Int}
    {d : svn_branch_sibling_t}
    (h : svn_branch_family_add_new_branch_sibling family root_eid = Outcome.ok (family', d)) :
    family.first_bsid ≤ family.next_bsid ∧ FAMILY_HAS_ELEMENT family root_eid = true := by
  unfold svn_branch_family_add_new_branch_sibling family_create_branch_sibling
    svn_branch_sibling_create at h
  by_cases h1 : (FAMILY_HAS_BSID { family with next_bsid := family.next_bsid + 1 }
      family.next_bsid && FAMILY_HAS_ELEMENT { family with next_bsid := family.next_bsid + 1 }
      root_eid) = true
  · simp only [Bool.and_eq_true, FAMILY_HAS_BSID, FAMILY_HAS_ELEMENT, decide_eq_true_eq] at h1
    refine ⟨h1.1.1, ?_⟩
    simp only [FAMILY_HAS_ELEMENT, Bool.and_eq_true, decide_eq_true_eq]
    exact h1.2
  · rw [if_neg h1] at h; cases h

/-- The allocator of siblings returns when the checks pass. -/
theorem add_new_branch_sibling_returns (family : svn_branch_family_t) (root_eid : Int)
    (h1 : family.first_bsid ≤ family.next_bsid)
    (h2 : FAMILY_HAS_ELEMENT family root_eid = true) :
    svn_branch_family_add_new_branch_sibling family root_eid
      = Outcome.ok ({ family with next_bsid := family.next_bsid + 1,
                                  branch_siblings := family.branch_siblings
                                    ++ [{ bsid := family.next_bsid, root_eid := root_eid }] },
                    { bsid := family.next_bsid, root_eid := root_eid }) := by
  simp only [FAMILY_HAS_ELEMENT, Bool.and_eq_true, decide_eq_true_eq] at h2
  unfold svn_branch_family_add_new_branch_sibling family_create_branch_sibling
    svn_branch_sibling_create
  have h3 : (FAMILY_HAS_BSID { family with next_bsid := family.next_bsid + 1 }
      family.next_bsid && FAMILY_HAS_ELEMENT { family with next_bsid := family.next_bsid + 1 }
      root_eid) = true := by
    simp only [Bool.and_eq_true, FAMILY_HAS_BSID, FAMILY_HAS_ELEMENT, decide_eq_true_eq]
    exact ⟨⟨h1, by omega⟩, h2⟩
  rw [if_pos h3]
  simp only
  rw [if_pos h2.1]

/-- What a sequence of allocations that returns has done. -/
theorem run_allocations_spec : ∀ (reqs : List alloc_request) (f f' : svn_branch_family_t)
    (replies : List alloc_reply), run_allocations f reqs = Outcome.ok (f', replies) →
    returned_eids replies = fresh_eids f.next_eid (returned_eids replies).length
    ∧ f'.next_eid = f.next_eid + ((returned_eids replies).length : Int)
    ∧ returned_bsids replies = fresh_eids f.next_bsid (returned_bsids replies).length
    ∧ f'.next_bsid = f.next_bsid + ((returned_bsids replies).length : Int)
    ∧ f'.first_eid = f.first_eid ∧ f'.first_bsid = f.first_bsid
    ∧ (∀ b ∈ returned_bsids replies, f.first_bsid ≤ b) := by
  intro reqs
  induction reqs with
  | nil =>
    intro f f' replies h
    simp only [run_allocations, Outcome.ok.injEq, Prod.mk.injEq] at h
    obtain ⟨rfl, rfl⟩ := h
    simp [returned_eids, returned_bsids, fresh_eids]
  | cons r rest ih =>
    intro f f' replies h
    cases r with
    | element =>
      simp only [run_allocations] at h
      cases hr : run_allocations (svn_branch_family_add_new_element f).1 rest with
      | ok p =>
        obtain ⟨f2, l⟩ := p
        rw [hr] at h
        simp only [Outcome.ok.injEq, Prod.mk.injEq] at h
        obtain ⟨rfl, rfl⟩ := h
        obtain ⟨e1, e2, e3, e4, e5, e6, e7⟩ := ih _ _ _ hr
        simp only [svn_branch_family_add_new_element] at e1 e2 e3 e4 e5 e6 e7
        refine ⟨?_, ?_, e3, e4, e5, e6, e7⟩
        · simp only [returned_eids, svn_branch_family_add_new_element, List.length_cons]
          rw [fresh_eids_succ, ← e1]
        · simp only [returned_eids, svn_branch_family_add_new_element, List.length_cons]
          rw [e2]; push_cast; omega
      | malfunction => rw [hr] at h; cases h
      | out_of_fuel => rw [hr] at h; cases h
    | branch_sibling root_eid =>
      simp only [run_allocations] at h
      cases hs : svn_branch_family_add_new_branch_sibling f root_eid with
      | ok p =>
        obtain ⟨f1, s⟩ := p
        rw [hs] at h
        simp only at h
        cases hr : run_allocations f1 rest with
        | ok q =>
          obtain ⟨f2, l⟩ := q
          rw [hr] at h
          simp only [Outcome.ok.injEq, Prod.mk.injEq] at h
          obtain ⟨rfl, rfl⟩ := h
          obtain ⟨e1, e2, e3, e4, e5, e6, e7⟩ := ih _ _ _ hr
          obtain ⟨c1, _⟩ := add_new_branch_sibling_checks hs
          obtain ⟨rfl, rfl⟩ := add_new_branch_sibling_ok hs
          simp only at e1 e2 e3 e4 e5 e6 e7
          refine ⟨e1, e2, ?_, ?_, e5, e6, ?_⟩
          · simp only [returned_bsids, List.length_cons]
            rw [fresh_eids_succ, ← e3]
          · simp only [returned_bsids, List.length_cons]
            rw [e4]; push_cast; omega
          · intro b hb
            simp only [returned_bsids, List.mem_cons] at hb
            rcases hb with rfl | hb
            · exact c1
            · exact e7 b hb
        | malfunction => rw [hr] at h; cases h
        | out_of_fuel => rw [hr] at h; cases h
      | malfunction => rw [hs] at h; cases h
      | out_of_fuel => rw [hs] at h; cases h

theorem run_allocations_returns : ∀ (reqs : List alloc_request) (f : svn_branch_family_t),
    f.first_bsid ≤ f.next_bsid →
    (∀ r, alloc_request.branch_sibling r ∈ reqs → FAMILY_HAS_ELEMENT f r = true) →
    ∃ f' replies, run_allocations f reqs = Outcome.ok (f', replies) := by
  intro reqs
  induction reqs with
  | nil => intro f _ _; exact ⟨f, [], rfl⟩
  | cons r rest ih =>
    intro f hb hr
    cases r with
    | element =>
      obtain ⟨f', replies, h⟩ := ih (svn_branch_family_add_new_element f).1 hb
        (fun r hmem => by
          have := hr r (List.mem_cons_of_mem _ hmem)
          simp only [FAMILY_HAS_ELEMENT, svn_branch_family_add_new_element, Bool.and_eq_true,
            decide_eq_true_eq] at this ⊢
          omega)
      refine ⟨f', alloc_reply.eid (svn_branch_family_add_new_element f).2 :: replies, ?_⟩
      simp only [run_allocations, h]
    | branch_sibling root_eid =>
      have hs := add_new_branch_sibling_returns f root_eid hb
        (hr root_eid (List.mem_cons_self _ _))
      obtain ⟨f', replies, h⟩ := ih
        { f with next_bsid := f.next_bsid + 1,
                 branch_siblings := f.branch_siblings
                   ++ [{ bsid := f.next_bsid, root_eid := root_eid }] }
        (by show f.first_bsid ≤ f.next_bsid + 1; omega)
        (fun r hmem => by
          have := hr r (List.mem_cons_of_mem _ hmem)
          simp only [FAMILY_HAS_ELEMENT, Bool.and_eq_true, decide_eq_true_eq] at this ⊢
          exact this)
      refine ⟨f', alloc_reply.sibling { bsid := f.next_bsid, root_eid := root_eid }
        :: replies, ?_⟩
      simp only [run_allocations, hs, h]

/-- C22, as amended: `svn_branch_family_add_new_element` returns `next_eid` and increments
it; `svn_branch_family_add_new_branch_sibling`, when it returns, gives the sibling the BSID
`next_bsid` and increments it; a sequence of allocations returns when the BSID range is not
inverted and the root EIDs of the siblings are EIDs of the family; and for every sequence of
allocations that returns, the returned EIDs are strictly increasing and pairwise distinct,
likewise the BSIDs, every returned EID is at or above the old `next_eid` and below the new
one, every returned BSID is in the BSID range of the family afterwards, and every returned EID
is in the EID range of the family afterwards when `first_eid ≤ next_eid` held before. -/
theorem allocation_monotone (f : svn_branch_family_t) (reqs : List alloc_request) :
    ((svn_branch_family_add_new_element f).2 = f.next_eid
      ∧ (svn_branch_family_add_new_element f).1.next_eid = f.next_eid + 1)
    ∧ (∀ root_eid f1 s,
        svn_branch_family_add_new_branch_sibling f root_eid = Outcome.ok (f1, s) →
        s.bsid = f.next_bsid ∧ f1.next_bsid = f.next_bsid + 1)
    ∧ (f.first_bsid ≤ f.next_bsid →
        (∀ r, alloc_request.branch_sibling r ∈ reqs → FAMILY_HAS_ELEMENT f r = true) →
        ∃ f' replies, run_allocations f reqs = Outcome.ok (f', replies))
    ∧ (∀ f' replies, run_allocations f reqs = Outcome.ok (f', replies) →
        (returned_eids replies).Pairwise (fun x y => x < y)
        ∧ (returned_eids replies).Nodup
        ∧ (returned_bsids replies).Pairwise (fun x y => x < y)
        ∧ (returned_bsids replies).Nodup
        ∧ (∀ e ∈ returned_eids replies, f.next_eid ≤ e ∧ e < f'.next_eid)
        ∧ (∀ b ∈ returned_bsids replies, FAMILY_HAS_BSID f' b = true)
        ∧ (f.first_eid ≤ f.next_eid →
            ∀ e ∈ returned_eids replies, FAMILY_HAS_ELEMENT f' e = true)) := by
  refine ⟨⟨rfl, rfl⟩, ?_, run_allocations_returns reqs f, ?_⟩
  · intro root_eid f1 s h
    obtain ⟨rfl, rfl⟩ := add_new_branch_sibling_ok h
    exact ⟨rfl, rfl⟩
  · intro f' replies h
    obtain ⟨e1, e2, e3, e4, e5, e6, e7⟩ := run_allocations_spec reqs f f' replies h
    have hmem : ∀ e ∈ returned_eids replies, f.next_eid ≤ e ∧ e < f'.next_eid := by
      intro e he
      rw [e1] at he
      have := mem_fresh_eids.1 he
      omega
    refine ⟨?_, ?_, ?_, ?_, hmem, ?_, ?_⟩
    · rw [e1]; exact fresh_eids_pairwise _ _
    · rw [e1]; exact fresh_eids_nodup _ _
    · rw [e3]; exact fresh_eids_pairwise _ _
    · rw [e3]; exact fresh_eids_nodup _ _
    · intro b hb
      have h1 := e7 b hb
      rw [e3] at hb
      have h2 := mem_fresh_eids.1 hb
      simp only [FAMILY_HAS_BSID, Bool.and_eq_true, decide_eq_true_eq]
      omega
    · intro hf e he
      have := hmem e he
      simp only [FAMILY_HAS_ELEMENT, Bool.and_eq_true, decide_eq_true_eq]
      omega

/-- C22, witness: on the family with the BSID 0 and the EIDs 0 and 1, an EID, a sibling and
another EID are allocated: the EIDs are 2 and 3 and the BSID is 1. -/
theorem allocation_monotone_witness :
    run_allocations (family_of 0 2)
      [alloc_request.element, alloc_request.branch_sibling 0, alloc_request.element]
      = Outcome.ok ({ first_bsid := 0, next_bsid := 2, first_eid := 0, next_eid := 4,
                      branch_siblings := [{ bsid := 0, root_eid := 0 },
                        { bsid := 1, root_eid := 0 }] },
                    [alloc_reply.eid 2, alloc_reply.sibling { bsid := 1, root_eid := 0 },
                      alloc_reply.eid 3])
    ∧ (∃ f' replies, run_allocations (family_of 0 2)
        [alloc_request.element, alloc_request.branch_sibling 0, alloc_request.element]
        = Outcome.ok (f', replies)) :=
  ⟨by decide,
    (allocation_monotone (family_of 0 2)
      [alloc_request.element, alloc_request.branch_sibling 0, alloc_request.element]).2.2.1
      (by decide)
      (fun r hr => by
        simp only [List.mem_cons, List.mem_singleton, alloc_request.branch_sibling.injEq,
          reduceCtorEq, false_or, or_false, List.not_mem_nil] at hr
        rw [hr]; decide)⟩

/-- C22, counterexample: the family made by `svn_branch_family_create (repos, 0, 1, 5, 2)` has
`first_eid` 5 and `next_eid` 2; the allocator returns the EID 2 and the family then has the
range from 5 up to 3, in which the returned EID does not lie. -/
theorem allocated_eid_outside_range :
    run_allocations inverted_family [alloc_request.element]
      = Outcome.ok ({ inverted_family with next_eid := 3 }, [alloc_reply.eid 2])
    ∧ (svn_branch_family_add_new_element inverted_family).2 = 2
    ∧ FAMILY_HAS_ELEMENT (svn_branch_family_add_new_element inverted_family).1 2 = false :=
  ⟨by decide, by decide, by decide⟩

/-- In a list of siblings with distinct BSIDs, the search finds the sibling with the BSID. -/
theorem find_sibling_of_mem {family : svn_branch_family_t}
    (hnd : (family.branch_siblings.map (fun s => s.bsid)).Nodup) {s : svn_branch_sibling_t}
    (hs : s ∈ family.branch_siblings) :
    family_find_branch_sibling family s.bsid = some s := by
  unfold family_find_branch_sibling
  generalize family.branch_siblings = L at hnd hs
  induction L with
  | nil => cases hs
  | cons t L ih =>
    simp only [List.map_cons, List.nodup_cons, List.mem_map, not_exists, not_and] at hnd
    rcases List.mem_cons.1 hs with rfl | hmem
    · simp [List.find?_cons]
    · have hne : t.bsid ≠ s.bsid := fun e => hnd.1 s hmem e.symm
      rw [List.find?_cons]
      have : (t.bsid == s.bsid) = false := by simpa using hne
      rw [this]
      exact ih hnd.2 hmem

theorem find_sibling_none {family : svn_branch_family_t} {bsid : Int} :
    family_find_branch_sibling family bsid = none
      ↔ ∀ s ∈ family.branch_siblings, s.bsid ≠ bsid := by
  unfold family_find_branch_sibling
  rw [List.find?_eq_none]
  constructor
  · intro h s hs e; exact h s hs (by simpa using e)
  · intro h s hs; simpa using h s hs

/-- A call of `family_find_or_create_branch_sibling` that returns gives a sibling of the family
with the BSID and the root EID asked for, and keeps the BSIDs of the siblings distinct. -/
theorem find_or_create_sibling_post {family family' : svn_branch_family_t} {bsid root_eid : Int}
    {s : svn_branch_sibling_t}
    (hnd : (family.branch_siblings.map (fun s => s.bsid)).Nodup)
    (h : family_find_or_create_branch_sibling family bsid root_eid = Outcome.ok (family', s)) :
    s ∈ family'.branch_siblings ∧ s.bsid = bsid ∧ s.root_eid = root_eid
      ∧ (family'.branch_siblings.map (fun s => s.bsid)).Nodup := by
  unfold family_find_or_create_branch_sibling at h
  cases hf : family_find_branch_sibling family bsid with
  | some s0 =>
    rw [hf] at h
    simp only at h
    by_cases hr : s0.root_eid = root_eid
    · rw [if_pos hr] at h
      simp only [Outcome.ok.injEq, Prod.mk.injEq] at h
      obtain ⟨rfl, rfl⟩ := h
      unfold family_find_branch_sibling at hf
      have hb := List.find?_some hf
      simp only [beq_iff_eq] at hb
      exact ⟨List.mem_of_find?_eq_some hf, hb, hr, hnd⟩
    · rw [if_neg hr] at h; cases h
  | none =>
    have hnone := find_sibling_none.1 hf
    rw [hf] at h
    simp only [family_create_branch_sibling, svn_branch_sibling_create] at h
    by_cases hc : (FAMILY_HAS_BSID family bsid && FAMILY_HAS_ELEMENT family root_eid) = true
    · rw [if_pos hc] at h
      simp only at h
      by_cases h1 : family.first_eid ≤ root_eid
      · rw [if_pos h1] at h
        simp only [if_true, Outcome.ok.injEq, Prod.mk.injEq] at h
        obtain ⟨rfl, rfl⟩ := h
        refine ⟨by simp, rfl, rfl, ?_⟩
        simp only [List.map_append, List.map_cons, List.map_nil]
        rw [List.nodup_append]
        refine ⟨hnd, by simp, ?_⟩
        intro x hx hy
        simp only [List.mem_singleton] at hy
        obtain ⟨t, ht, rfl⟩ := List.mem_map.1 hx
        exact hnone t ht hy
      · rw [if_neg h1] at h; cases h
    · rw [if_neg hc] at h; cases h

/-- C23, as amended: for a family whose siblings have distinct BSIDs,
`family_find_or_create_branch_sibling (family, bsid, root_eid)`: if the family has a sibling
with that BSID and the same root EID, that sibling is returned and the family is unchanged; if
it has none with that BSID and `bsid` and `root_eid` lie in the ranges of the family, a new
sibling (`bsid`, `root_eid`) is appended to the list and returned; if it has none with that
BSID and `bsid` or `root_eid` lies outside the ranges, the call fails an assertion; and if it
has a sibling with that BSID and a different root EID, the call fails the assertion
`sibling->root_eid == root_eid`; a call that returns keeps the BSIDs distinct. -/
theorem find_or_create_sibling_cases (family : svn_branch_family_t) (bsid root_eid : Int)
    (hnd : (family.branch_siblings.map (fun s => s.bsid)).Nodup) :
    (∀ s ∈ family.branch_siblings, s.bsid = bsid → s.root_eid = root_eid →
      family_find_or_create_branch_sibling family bsid root_eid = Outcome.ok (family, s))
    ∧ ((∀ s ∈ family.branch_siblings, s.bsid ≠ bsid) →
        FAMILY_HAS_BSID family bsid = true → FAMILY_HAS_ELEMENT family root_eid = true →
        family_find_or_create_branch_sibling family bsid root_eid
          = Outcome.ok ({ family with branch_siblings := family.branch_siblings
                            ++ [{ bsid := bsid, root_eid := root_eid }] },
                        { bsid := bsid, root_eid := root_eid }))
    ∧ ((∀ s ∈ family.branch_siblings, s.bsid ≠ bsid) →
        ¬ (FAMILY_HAS_BSID family bsid = true ∧ FAMILY_HAS_ELEMENT family root_eid = true) →
        family_find_or_create_branch_sibling family bsid root_eid = Outcome.malfunction)
    ∧ (∀ s ∈ family.branch_siblings, s.bsid = bsid → s.root_eid ≠ root_eid →
        family_find_or_create_branch_sibling family bsid root_eid = Outcome.malfunction)
    ∧ (∀ family' s,
        family_find_or_create_branch_sibling family bsid root_eid = Outcome.ok (family', s) →
        (family'.branch_siblings.map (fun s => s.bsid)).Nodup) := by
  refine ⟨?_, ?_, ?_, ?_, fun family' s h => (find_or_create_sibling_post hnd h).2.2.2⟩
  · intro s hs hb hr
    have hf := find_sibling_of_mem hnd hs
    rw [hb] at hf
    simp only [family_find_or_create_branch_sibling, hf, hr, if_true]
  · intro hnone hb hr
    have hf := find_sibling_none.2 hnone
    have hr' := hr
    simp only [FAMILY_HAS_ELEMENT, Bool.and_eq_true, decide_eq_true_eq] at hr'
    simp only [family_find_or_create_branch_sibling, hf, family_create_branch_sibling,
      svn_branch_sibling_create, hb, hr, Bool.and_self, if_true, hr'.1]
  · intro hnone hnot
    have hf := find_sibling_none.2 hnone
    have hc : (FAMILY_HAS_BSID family bsid && FAMILY_HAS_ELEMENT family root_eid) = false := by
      cases h1 : FAMILY_HAS_BSID family bsid <;> cases h2 : FAMILY_HAS_ELEMENT family root_eid
      · rfl
      · rfl
      · rfl
      · exact absurd ⟨h1, h2⟩ hnot
    simp only [family_find_or_create_branch_sibling, hf, family_create_branch_sibling,
      svn_branch_sibling_create, hc]
    rfl
  · intro s hs hb hr
    have hf := find_sibling_of_mem hnd hs
    rw [hb] at hf
    simp only [family_find_or_create_branch_sibling, hf, hr, if_false]

/-- C23, witness: in the family with the sibling (0, 0) the sibling is found again, a sibling
with the root EID 1 is refused, and the family without siblings gets the sibling (0, 1). -/
theorem find_or_create_sibling_cases_witness :
    ((family_of 0 2).branch_siblings.map (fun s => s.bsid)).Nodup
    ∧ family_find_or_create_branch_sibling (family_of 0 2) 0 0
        = Outcome.ok (family_of 0 2, { bsid := 0, root_eid := 0 })
    ∧ family_find_or_create_branch_sibling (family_of 0 2) 0 1 = Outcome.malfunction
    ∧ family_find_or_create_branch_sibling bare_family 0 1
        = Outcome.ok ({ bare_family with branch_siblings := [{ bsid := 0, root_eid := 1 }] },
            { bsid := 0, root_eid := 1 }) :=
  ⟨by decide,
    (find_or_create_sibling_cases (family_of 0 2) 0 0 (by decide)).1 { bsid := 0, root_eid := 0 }
      (by decide) rfl rfl,
    by decide, by decide⟩

/-- C23, counterexample: the family without siblings has no sibling with the BSID 0, yet
`family_find_or_create_branch_sibling (family, 0, -3)` appends and returns nothing: the root
EID -3 is below `first_eid` and the call fails an assertion; likewise with the BSID 5, which
is not a BSID of the family. -/
theorem find_or_create_sibling_out_of_range :
    family_find_branch_sibling bare_family 0 = none
    ∧ family_find_or_create_branch_sibling bare_family 0 (-3) = Outcome.malfunction
    ∧ family_find_branch_sibling bare_family 5 = none
    ∧ family_find_or_create_branch_sibling bare_family 5 0 = Outcome.malfunction :=
  ⟨by decide, by decide, by decide, by decide⟩

theorem filter_set_some (m : EMap) (e : Int) (v : svn_branch_el_rev_content_t) :
    svn_int_hash_set (svn_int_hash_set m e (some v)) e none = svn_int_hash_set m e none := by
  show (m.filter (fun kv => kv.1 != e) ++ [(e, v)]).filter (fun kv => kv.1 != e)
    = m.filter (fun kv => kv.1 != e)
  rw [List.filter_append, List.filter_filter]
  simp

theorem set_none_of_absent {m : EMap} {e : Int} (h : svn_int_hash_get m e = none) :
    svn_int_hash_set m e none = m := by
  rw [set_none_eq, List.filter_eq_self]
  intro kv hkv
  obtain ⟨k, v⟩ := kv
  have := get_eq_none_iff.1 h v
  simp only [bne_iff_ne, ne_eq]
  intro hk
  exact this (hk ▸ hkv)

/-- C24: for every branch `b`, EID `e` and arguments with which `svn_branch_map_update
(b, e, p, n, payload)` returns: `svn_branch_map_delete (b, e)` after it returns, and the branch
it leaves is the branch before the update (the same element map, entry for entry and lookup
for lookup) if and only if `e` had no entry before the update. -/
theorem delete_after_update (f : svn_branch_family_t) (b : svn_branch_instance_t) (e p : Int)
    (n : Option String) (c : Option svn_element_content_t) (b1 : svn_branch_instance_t)
    (h : svn_branch_map_update f b e p n c = Step.done b1) :
    ∃ b2, svn_branch_map_delete f b1 e = Step.done b2
      ∧ (b2.e_map = b.e_map ↔ svn_int_hash_get b.e_map e = none)
      ∧ ((∀ k, svn_int_hash_get b2.e_map k = svn_int_hash_get b.e_map k)
          ↔ svn_int_hash_get b.e_map e = none)
      ∧ (b2 = b ↔ svn_int_hash_get b.e_map e = none) := by
  rw [update_result] at h
  by_cases h1 : FAMILY_HAS_ELEMENT f e = true ∧ c.isSome = true
      ∧ branch_map_node_validate f b e (some ⟨p, n, c⟩) = true
  · rw [if_pos h1] at h
    by_cases h2 : assert_branch_instance_invariants f b = true
    · rw [if_pos h2] at h
      cases h
      have hdel : svn_branch_map_delete f
          { b with e_map := svn_int_hash_set b.e_map e (some ⟨p, n, c⟩) } e
          = Step.done { b with e_map := svn_int_hash_set b.e_map e none } := by
        simp only [svn_branch_map_delete, branch_map_set, h1.1, if_true, Option.isNone_none,
          Bool.true_or, instance_invariants_e_map, h2, filter_set_some]
      have hlook : (∀ k, svn_int_hash_get (svn_int_hash_set b.e_map e none) k
          = svn_int_hash_get b.e_map k) ↔ svn_int_hash_get b.e_map e = none := by
        constructor
        · intro hk
          have := hk e
          rw [get_set_none, if_pos rfl] at this
          exact this.symm
        · intro hn k
          rw [set_none_of_absent hn]
      have hmap : svn_int_hash_set b.e_map e none = b.e_map
          ↔ svn_int_hash_get b.e_map e = none := by
        constructor
        · intro hm
          have := get_set_none b.e_map e e
          rw [hm, if_pos rfl] at this
          exact this
        · exact set_none_of_absent
      refine ⟨_, hdel, hmap, hlook, ?_⟩
      constructor
      · intro hb
        exact hmap.1 (congrArg svn_branch_instance_t.e_map hb)
      · intro hn
        cases b
        simp only [svn_branch_instance_t.mk.injEq, true_and]
        exact set_none_of_absent hn
    · rw [if_neg h2] at h; cases h
  · rw [if_neg h1] at h; cases h

/-- C24, witness: in the empty branch the element 1 is added and deleted again, which gives
the empty branch; in the branch that has the element 1, updating and deleting it gives a
branch without the element 1. -/
theorem delete_after_update_witness :
    svn_branch_map_update (family_of 0 2) (branch_of []) 1 0 (some "a") (some payload0)
      = Step.done (branch_of [(1, el 0 "a")])
    ∧ svn_branch_map_delete (family_of 0 2) (branch_of [(1, el 0 "a")]) 1
      = Step.done (branch_of [])
    ∧ svn_branch_map_update (family_of 0 2) (branch_of [(1, el 0 "a")]) 1 0 (some "b")
        (some payload0) = Step.done (branch_of [(1, el 0 "b")])
    ∧ svn_branch_map_delete (family_of 0 2) (branch_of [(1, el 0 "b")]) 1
      = Step.done (branch_of [])
    ∧ ∃ b2, svn_branch_map_delete (family_of 0 2) (branch_of [(1, el 0 "a")]) 1 = Step.done b2
      ∧ (b2.e_map = (branch_of []).e_map ↔ svn_int_hash_get (branch_of []).e_map 1 = none)
      ∧ ((∀ k, svn_int_hash_get b2.e_map k = svn_int_hash_get (branch_of []).e_map k)
          ↔ svn_int_hash_get (branch_of []).e_map 1 = none)
      ∧ (b2 = branch_of [] ↔ svn_int_hash_get (branch_of []).e_map 1 = none) :=
  ⟨by decide, by decide, by decide, by decide,
    delete_after_update (family_of 0 2) (branch_of []) 1 0 (some "a") (some payload0)
      (branch_of [(1, el 0 "a")]) (by decide)⟩

theorem pathTo_empty_root {f : svn_branch_family_t} {b : svn_branch_instance_t}
    (hv : BranchValid f b) {e : Int} {p : String} (h : PathTo b e p) (hp : p = "") :
    e = b.sibling_defn.root_eid := by
  cases h with
  | root => rfl
  | step e n name P hne hg hn hP =>
    exfalso
    obtain ⟨_, _, name', hn', hne'⟩ := validate_non_root (hv.2 e n (mem_of_get hg)).2 hne
    rw [hn] at hn'; cases hn'
    exact join_ne_empty (Or.inr hne') hp

theorem path_of_root {f : svn_branch_family_t} {b : svn_branch_instance_t}
    (he : FAMILY_HAS_ELEMENT f b.sibling_defn.root_eid = true) (k : Nat) :
    svn_branch_get_path_by_eid f b (k + 1) b.sibling_defn.root_eid = Outcome.ok (some "") := by
  rw [path_by_eid_eq_loop he]
  simp [svn_branch_get_path_by_eid_loop, IS_BRANCH_ROOT_EID]

theorem root_rrpath_top (f : svn_branch_family_t) (S : List svn_branch_instance_t)
    {b : svn_branch_instance_t} (htop : b.outer_branch = none) (k : Nat) :
    svn_branch_get_root_rrpath f S (k + 1) b = Outcome.ok "" := by
  simp [svn_branch_get_root_rrpath, htop]

theorem eid_by_rrpath_top (f : svn_branch_family_t) (S : List svn_branch_instance_t)
    {b : svn_branch_instance_t} (htop : b.outer_branch = none) (k : Nat) (p : String) :
    svn_branch_get_eid_by_rrpath f S (k + 1) b p
      = svn_branch_get_eid_by_path_scan f b (k + 1) p b.e_map := by
  unfold svn_branch_get_eid_by_rrpath
  rw [root_rrpath_top f S htop k]
  simp [svn_relpath_skip_ancestor, svn_branch_get_eid_by_path]

/-- C25 (amended): for every top-level branch instance whose entries pass validation and whose
parent chains end, the call `svn_branch_get_eid_by_rrpath(branch, "")` returns, given enough
fuel: the root EID when the element map has an entry at the root EID, and −1 when it has
none. -/
theorem eid_by_rrpath_empty_at_top (f : svn_branch_family_t) (S : List svn_branch_instance_t)
    (b : svn_branch_instance_t) (htop : b.outer_branch = none) (hv : BranchValid f b)
    (hac : ∀ e n, (e, n) ∈ b.e_map → ChainTerminates b.e_map b.sibling_defn.root_eid e) :
    ∃ K, ∀ fuel, K ≤ fuel →
      svn_branch_get_eid_by_rrpath f S fuel b ""
        = Outcome.ok (if (svn_int_hash_get b.e_map b.sibling_defn.root_eid).isSome
            then b.sibling_defn.root_eid else -1) := by
  obtain ⟨K, hK⟩ := uniform_fuel hv hac b.e_map (fun _ h => h)
  refine ⟨K + 1, fun fuel hf => ?_⟩
  obtain ⟨k, rfl⟩ : ∃ k, fuel = k + 1 := ⟨fuel - 1, by omega⟩
  rw [eid_by_rrpath_top f S htop k ""]
  obtain ⟨r, hr⟩ := eid_scan_total f b (k + 1) "" b.e_map
    (fun e n hm => hK e n hm (k + 1) (by omega))
  rw [hr]
  rcases eid_scan_sound f b (k + 1) "" b.e_map r hr with ⟨n, hn, hp⟩ | ⟨h1, h2⟩
  · have he := (hv.2 r n hn).1
    have hroot := pathTo_empty_root hv ((pathByEid_some_iff hv he "").1 ⟨k + 1, hp⟩) rfl
    subst hroot
    rw [get_of_mem hv.1 hn]; rfl
  · cases hg : svn_int_hash_get b.e_map b.sibling_defn.root_eid with
    | none => rw [h1]; rfl
    | some n =>
      exfalso
      have hm := mem_of_get hg
      obtain ⟨res, hres, hne⟩ := h2 _ n hm
      rw [path_of_root (hv.2 _ n hm).1 k] at hres
      cases hres
      exact hne rfl

/-- C25, witness: the amended theorem applied to the example map of the spec, where the lookup
of the empty path returns the root EID 0. -/
theorem eid_by_rrpath_empty_at_top_witness :
    (branch_of orphan_example_map).outer_branch = none
    ∧ BranchValid (family_of 0 10) (branch_of orphan_example_map)
    ∧ (∃ K, ∀ fuel, K ≤ fuel →
        svn_branch_get_eid_by_rrpath (family_of 0 10) [] fuel (branch_of orphan_example_map) ""
          = Outcome.ok 0)
    ∧ svn_branch_get_eid_by_rrpath (family_of 0 10) [] 3 (branch_of orphan_example_map) ""
        = Outcome.ok 0 :=
  ⟨rfl, orphan_example_valid,
    eid_by_rrpath_empty_at_top (family_of 0 10) [] (branch_of orphan_example_map) rfl
      orphan_example_valid orphan_example_acyclic,
    by decide⟩

/-- C25, counterexample: in the fresh-branch scenario (family with the EIDs 0 and 1, top-level
branch with root EID 0 whose only entry is element 1, `file.txt`, below EID 0) the lookup of the
empty rrpath returns −1, and with no amount of fuel the root EID 0. -/
theorem eid_by_rrpath_empty_without_root_entry :
    (branch_of file_txt_map).outer_branch = none
    ∧ (branch_of file_txt_map).sibling_defn.root_eid = 0
    ∧ BranchValid (family_of 0 2) (branch_of file_txt_map)
    ∧ svn_branch_get_eid_by_rrpath (family_of 0 2) [] 2 (branch_of file_txt_map) ""
        = Outcome.ok (-1)
    ∧ ∀ fuel, svn_branch_get_eid_by_rrpath (family_of 0 2) [] fuel (branch_of file_txt_map) ""
        ≠ Outcome.ok 0 := by
  refine ⟨rfl, rfl, branchValid_of_forall (by simp [NodupKeys, file_txt_map, branch_of])
    (by decide), by decide, ?_⟩
  intro fuel h
  cases fuel with
  | zero => revert h; decide
  | succ k =>
    rw [eid_by_rrpath_top _ _ rfl k ""] at h
    rcases eid_scan_sound _ _ (k + 1) "" _ 0 h with ⟨n, hn, _⟩ | ⟨h1, _⟩
    · revert hn; simp [branch_of, file_txt_map]
    · revert h1; decide

theorem serialize_elements_iff (g : svn_branch_family_t) (b : svn_branch_instance_t) :
    ∀ (l : List Int), (∀ e ∈ l, FAMILY_HAS_ELEMENT g e = true) → ∀ lines,
    (svn_branch_instance_serialize_elements g b l = Outcome.ok lines
      ↔ (∀ e ∈ l, ∀ n, svn_int_hash_get b.e_map e = some n →
            branch_map_node_validate g b e (some n) = true)
          ∧ lines = element_lines b l) := by
  intro l
  induction l with
  | nil =>
    intro _ lines
    simp only [svn_branch_instance_serialize_elements, element_lines, Outcome.ok.injEq]
    constructor
    · intro h; exact ⟨(fun e he => by cases he), h.symm⟩
    · intro h; exact h.2.symm
  | cons e l ih =>
    intro hl lines
    have he := hl e (List.mem_cons_self _ _)
    have ih2 := ih (fun x hx => hl x (List.mem_cons_of_mem _ hx))
    have hcolon : ": ".data = [':', ' '] := by decide
    simp only [svn_branch_instance_serialize_elements, svn_branch_map_get, if_pos he]
    cases hg : svn_int_hash_get b.e_map e with
    | none =>
      cases hrest : svn_branch_instance_serialize_elements g b l with
      | ok rest =>
        obtain ⟨hv, hr⟩ := (ih2 rest).1 hrest
        simp only [Outcome.ok.injEq]
        constructor
        · intro h
          refine ⟨fun x hx n hn => ?_, ?_⟩
          · rcases List.mem_cons.1 hx with rfl | hx
            · rw [hg] at hn; cases hn
            · exact hv x hx n hn
          · rw [← h, hr]
            simp [element_lines, element_line, printed_name, printed_parent, hg, hcolon]
        · rintro ⟨_, h⟩
          rw [h, hr]
          simp [element_lines, element_line, printed_name, printed_parent, hg, hcolon]
      | malfunction =>
        simp only [false_iff, reduceCtorEq]
        rintro ⟨hv, _⟩
        have := (ih2 (element_lines b l)).2
          ⟨fun x hx => hv x (List.mem_cons_of_mem _ hx), rfl⟩
        rw [hrest] at this; cases this
      | out_of_fuel =>
        simp only [false_iff, reduceCtorEq]
        rintro ⟨hv, _⟩
        have := (ih2 (element_lines b l)).2
          ⟨fun x hx => hv x (List.mem_cons_of_mem _ hx), rfl⟩
        rw [hrest] at this; cases this
    | some n =>
      by_cases hval : branch_map_node_validate g b e (some n) = true
      · obtain ⟨s, hs⟩ := valid_name_some hval
        simp only [hval, if_true, hs]
        cases hrest : svn_branch_instance_serialize_elements g b l with
        | ok rest =>
          obtain ⟨hv, hr⟩ := (ih2 rest).1 hrest
          simp only [Outcome.ok.injEq]
          constructor
          · intro h
            refine ⟨fun x hx n' hn => ?_, ?_⟩
            · rcases List.mem_cons.1 hx with rfl | hx
              · rw [hg] at hn; cases hn; exact hval
              · exact hv x hx n' hn
            · rw [← h, hr]
              simp [element_lines, element_line, printed_name, printed_parent, hg, hs, hcolon]
          · rintro ⟨_, h⟩
            rw [h, hr]
            simp [element_lines, element_line, printed_name, printed_parent, hg, hs, hcolon]
        | malfunction =>
          simp only [false_iff, reduceCtorEq]
          rintro ⟨hv, _⟩
          have := (ih2 (element_lines b l)).2
            ⟨fun x hx => hv x (List.mem_cons_of_mem _ hx), rfl⟩
          rw [hrest] at this; cases this
        | out_of_fuel =>
          simp only [false_iff, reduceCtorEq]
          rintro ⟨hv, _⟩
          have := (ih2 (element_lines b l)).2
            ⟨fun x hx => hv x (List.mem_cons_of_mem _ hx), rfl⟩
          rw [hrest] at this; cases this
      · simp only [hval, Bool.false_eq_true, if_false, false_iff, reduceCtorEq]
        rintro ⟨hv, _⟩
        exact hval (hv e (List.mem_cons_self _ _) n hg)

theorem instance_serialize_iff (f : svn_branch_family_t) (fuel : Nat)
    (S : List svn_branch_instance_t) (a : Nat) (t : List Char)
    (S' : List svn_branch_instance_t) :
    svn_branch_instance_serialize f fuel S a = Outcome.ok (t, S')
      ↔ ∃ b R purged, S.get? a = some b
          ∧ svn_branch_get_root_rrpath f S fuel b = Outcome.ok R
          ∧ svn_branch_map_purge_orphans b = Step.done purged
          ∧ RangeValid f purged
          ∧ t = instance_text f R purged ∧ S' = S.set a purged := by
  have hsib : ∀ b purged, svn_branch_map_purge_orphans b = Step.done purged →
      purged.sibling_defn = b.sibling_defn := by
    intro b purged h
    unfold svn_branch_map_purge_orphans at h
    split at h
    · cases h; rfl
    · cases h
    · cases h
  have hel := fun (p : svn_branch_instance_t) =>
    serialize_elements_iff f p (eid_range f) (fun e he => (mem_eid_range f e).1 he)
  constructor
  · intro h
    unfold svn_branch_instance_serialize at h
    cases hb : S.get? a with
    | none => rw [hb] at h; cases h
    | some b =>
      rw [hb] at h
      simp only at h
      cases hR : svn_branch_get_root_rrpath f S fuel b with
      | malfunction => rw [hR] at h; cases h
      | out_of_fuel => rw [hR] at h; cases h
      | ok R =>
        rw [hR] at h
        simp only at h
        cases hp : svn_branch_map_purge_orphans b with
        | malfunction _ => rw [hp] at h; cases h
        | out_of_fuel => rw [hp] at h; cases h
        | done purged =>
          rw [hp] at h
          simp only at h
          cases hl : svn_branch_instance_serialize_elements f purged (eid_range f) with
          | malfunction => rw [hl] at h; cases h
          | out_of_fuel => rw [hl] at h; cases h
          | ok lines =>
            rw [hl] at h
            simp only [Outcome.ok.injEq, Prod.mk.injEq] at h
            obtain ⟨hv, hlines⟩ := (hel purged lines).1 hl
            refine ⟨b, R, purged, rfl, hR, hp, hv, ?_, h.2.symm⟩
            rw [← h.1, hlines, instance_text, printed_path, hsib b purged hp]
  · rintro ⟨b, R, purged, hb, hR, hp, hv, rfl, rfl⟩
    unfold svn_branch_instance_serialize
    rw [hb]
    simp only [hR, hp, (hel purged _).2 ⟨hv, rfl⟩, instance_text, printed_path,
      hsib b purged hp]

theorem serialize_instances_iff (f : svn_branch_family_t) (fuel : Nat) :
    ∀ (l : List Nat) (S : List svn_branch_instance_t) (t : List Char)
      (S' : List svn_branch_instance_t),
    svn_branch_family_serialize_instances f fuel l S = Outcome.ok (t, S')
      ↔ ∃ blocks, InstancesWritten f fuel l S blocks S'
          ∧ t = blocks.flatMap (fun blk => instance_text f blk.1 blk.2) := by
  intro l
  induction l with
  | nil =>
    intro S t S'
    simp only [svn_branch_family_serialize_instances, Outcome.ok.injEq, Prod.mk.injEq]
    constructor
    · rintro ⟨rfl, rfl⟩
      exact ⟨[], InstancesWritten.nil S, rfl⟩
    · rintro ⟨blocks, hw, rfl⟩
      cases hw
      exact ⟨rfl, rfl⟩
  | cons a l ih =>
    intro S t S'
    simp only [svn_branch_family_serialize_instances]
    constructor
    · intro h
      cases h1 : svn_branch_instance_serialize f fuel S a with
      | malfunction => rw [h1] at h; cases h
      | out_of_fuel => rw [h1] at h; cases h
      | ok r1 =>
        obtain ⟨t1, S1⟩ := r1
        rw [h1] at h
        simp only at h
        cases h2 : svn_branch_family_serialize_instances f fuel l S1 with
        | malfunction => rw [h2] at h; cases h
        | out_of_fuel => rw [h2] at h; cases h
        | ok r2 =>
          obtain ⟨t2, S2⟩ := r2
          rw [h2] at h
          simp only [Outcome.ok.injEq, Prod.mk.injEq] at h
          obtain ⟨b, R, purged, hb, hR, hp, hv, rfl, rfl⟩ :=
            (instance_serialize_iff f fuel S a t1 S1).1 h1
          obtain ⟨blocks, hw, rfl⟩ := (ih _ t2 S2).1 h2
          obtain ⟨rfl, rfl⟩ := h
          exact ⟨(R, purged) :: blocks,
            InstancesWritten.cons a l S b R purged blocks S2 hb hR hp hv hw,
            by simp [List.flatMap_cons]⟩
    · rintro ⟨blocks, hw, rfl⟩
      cases hw with
      | cons _ _ _ b R purged blocks' _ hb hR hp hv hw' =>
        have h1 := (instance_serialize_iff f fuel S a _ _).2
          ⟨b, R, purged, hb, hR, hp, hv, rfl, rfl⟩
        have h2 := (ih _ _ _).2 ⟨blocks', hw', rfl⟩
        simp only [h1, h2, List.flatMap_cons]

theorem instancesWritten_length {f : svn_branch_family_t} {fuel : Nat} {l : List Nat}
    {S S' : List svn_branch_instance_t} {blocks : List (String × svn_branch_instance_t)}
    (h : InstancesWritten f fuel l S blocks S') : blocks.length = l.length := by
  induction h with
  | nil => rfl
  | cons _ _ _ _ _ _ _ _ _ _ _ _ _ ih => simp [ih]

theorem element_lines_eq (b : svn_branch_instance_t) (l : List Int) :
    element_lines b l
      = (l.map (fun e =>
          element_line b.sibling_defn.bsid e (svn_int_hash_get b.e_map e))).flatten := by
  induction l with
  | nil => rfl
  | cons e l ih => simp [element_lines, ih]

theorem round_trip_serialize :
    svn_branch_revision_root_serialize round_trip_family 4 round_trip_root
      = Outcome.ok (round_trip_text, round_trip_root) := by rfl

/-- C21: `svn_branch_revision_root_serialize` returns a text exactly when the revision root has
a root branch and every instance of its list can be written (it is in the store, its root path
is found, the purge returns, every entry at an EID of the family passes validation); the text is
then the line `r<rev>:`, the family line with `first_bsid`, `next_bsid`, `first_eid`,
`next_eid` and the number N of branch instances, and, for each of the N instances in order, the
text of the instance: the line `b<BSID>: root-eid <EID> at <path>`, with `.` for the empty
path, followed by one element line for each EID of the family, which are the
`next_eid - first_eid` EIDs from `first_eid` on in increasing order.  The element line of an
EID without entry has the parent −1 and the name `(null)`, the line of an element with the
empty name has the name `.`, and any other name is written as it is.  For a revision root
that is ready for the round trip the call returns, given enough fuel. -/
theorem revision_root_serialize_format (f : svn_branch_family_t) (fuel : Nat)
    (rr : svn_branch_revision_root_t) :
    (∀ text rr', svn_branch_revision_root_serialize f fuel rr = Outcome.ok (text, rr')
      ↔ rr.root_branch ≠ none
        ∧ ∃ blocks S', InstancesWritten f fuel rr.branch_instances rr.store blocks S'
          ∧ rr' = { rr with store := S' }
          ∧ text = ['r'] ++ print_int rr.rev ++ ":\n".data
              ++ "family: bsids ".data ++ print_int f.first_bsid ++ [' ']
              ++ print_int f.next_bsid ++ " eids ".data ++ print_int f.first_eid ++ [' ']
              ++ print_int f.next_eid ++ " b-instances ".data
              ++ print_int (rr.branch_instances.length : Int) ++ ['\n']
              ++ blocks.flatMap (fun blk => instance_text f blk.1 blk.2))
    ∧ (∀ l S blocks S', InstancesWritten f fuel l S blocks S' → blocks.length = l.length)
    ∧ (∀ R b, instance_text f R b
        = ['b'] ++ print_int b.sibling_defn.bsid ++ ": root-eid ".data
            ++ print_int b.sibling_defn.root_eid ++ " at ".data
            ++ (if R = "" then ['.'] else R.data) ++ ['\n']
            ++ ((eid_range f).map (fun e =>
                element_line b.sibling_defn.bsid e (svn_int_hash_get b.e_map e))).flatten)
    ∧ (eid_range f).length = (f.next_eid - f.first_eid).toNat
    ∧ (∀ i (h : i < (eid_range f).length), (eid_range f).get ⟨i, h⟩ = f.first_eid + (i : Int))
    ∧ (∀ bsid e, element_line bsid e none
        = ['b'] ++ print_int bsid ++ ['e'] ++ print_int e ++ ": -1 (null)\n".data)
    ∧ (∀ bsid e n, n.name = some "" → element_line bsid e (some n)
        = ['b'] ++ print_int bsid ++ ['e'] ++ print_int e ++ ": ".data
            ++ print_int n.parent_eid ++ " .\n".data)
    ∧ (∀ bsid e n s, n.name = some s → s ≠ "" → element_line bsid e (some n)
        = ['b'] ++ print_int bsid ++ ['e'] ++ print_int e ++ ": ".data
            ++ print_int n.parent_eid ++ [' '] ++ s.data ++ ['\n'])
    ∧ (RoundTripReady f rr → ∃ K, ∀ fuel', K ≤ fuel' →
        ∃ text, svn_branch_revision_root_serialize f fuel' rr = Outcome.ok (text, rr)) := by
  have hcolon : ": ".data = [':', ' '] := by decide
  refine ⟨fun text rr' => ?_, fun l S blocks S' h => instancesWritten_length h,
    fun R b => ?_, by simp [eid_range], fun i h => by simp [eid_range], fun bsid e => ?_,
    fun bsid e n hn => ?_, fun bsid e n s hn hs => ?_, fun h => ?_⟩
  · unfold svn_branch_revision_root_serialize svn_branch_family_serialize
    cases hrb : rr.root_branch with
    | none => simp
    | some a =>
      simp only [ne_eq, reduceCtorEq, not_false_eq_true, true_and]
      constructor
      · intro h
        cases hs : svn_branch_family_serialize_instances f fuel rr.branch_instances rr.store with
        | malfunction => rw [hs] at h; cases h
        | out_of_fuel => rw [hs] at h; cases h
        | ok r =>
          obtain ⟨t, S'⟩ := r
          rw [hs] at h
          simp only [Outcome.ok.injEq, Prod.mk.injEq] at h
          obtain ⟨blocks, hw, rfl⟩ := (serialize_instances_iff f fuel _ _ t S').1 hs
          exact ⟨blocks, S', hw, h.2.symm, by rw [← h.1]; simp [List.append_assoc]⟩
      · rintro ⟨blocks, S', hw, rfl, rfl⟩
        have hs := (serialize_instances_iff f fuel _ _ _ S').2 ⟨blocks, hw, rfl⟩
        simp only [hs, List.append_assoc]
  · rw [instance_text, element_lines_eq, printed_path]
    by_cases hR : R = "" <;> simp [hR]
  · have h1 : print_int (-1) = ['-', '1'] := by decide
    have h2 : ": -1 (null)\n".data = [':', ' ', '-', '1', ' ', '(', 'n', 'u', 'l', 'l', ')', '\n'] := by
      decide
    simp [element_line, printed_name, printed_parent, h1, h2]
  · have h2 : " .\n".data = [' ', '.', '\n'] := by decide
    simp [element_line, printed_name, printed_parent, hn, hcolon, h2]
  · simp [element_line, printed_name, printed_parent, hn, hs, hcolon]
  · obtain ⟨K0, hK0⟩ := exists_fuelEnough h
    exact ⟨K0, fun fuel' hf => ⟨_, revision_root_serialize_spec h hK0 hf⟩⟩

/-- C21, witness: the theorem applied to the revision root with a top-level branch and a
branch nested in it: serializing it with fuel 4 writes `round_trip_text`, so the two instances
are written in order, and serializing it returns from some fuel on. -/
theorem revision_root_serialize_format_witness :
    (round_trip_root.root_branch ≠ none
      ∧ ∃ blocks S', InstancesWritten round_trip_family 4 round_trip_root.branch_instances
            round_trip_root.store blocks S'
          ∧ round_trip_root = { round_trip_root with store := S' }
          ∧ round_trip_text = ['r'] ++ print_int round_trip_root.rev ++ ":\n".data
              ++ "family: bsids ".data ++ print_int round_trip_family.first_bsid ++ [' ']
              ++ print_int round_trip_family.next_bsid ++ " eids ".data
              ++ print_int round_trip_family.first_eid ++ [' ']
              ++ print_int round_trip_family.next_eid ++ " b-instances ".data
              ++ print_int (round_trip_root.branch_instances.length : Int) ++ ['\n']
              ++ blocks.flatMap (fun blk => instance_text round_trip_family blk.1 blk.2))
    ∧ RoundTripReady round_trip_family round_trip_root
    ∧ ∃ K, ∀ fuel', K ≤ fuel' → ∃ text,
        svn_branch_revision_root_serialize round_trip_family fuel' round_trip_root
          = Outcome.ok (text, round_trip_root) :=
  ⟨((revision_root_serialize_format round_trip_family 4 round_trip_root).1
      round_trip_text round_trip_root).1 round_trip_serialize,
    round_trip_root_ready,
    (revision_root_serialize_format round_trip_family 4 round_trip_root).2.2.2.2.2.2.2.2
      round_trip_root_ready⟩

theorem find_first_total {α : Type} (g : Nat → Outcome (Option α)) :
    ∀ (l : List Nat), (∀ s ∈ l, ∃ r, g s = Outcome.ok r) →
    ∃ r, find_first_sub_branch g l = Outcome.ok r := by
  intro l
  induction l with
  | nil => intro _; exact ⟨none, rfl⟩
  | cons s l ih =>
    intro h
    obtain ⟨r, hr⟩ := h s (List.mem_cons_self _ _)
    simp only [find_first_sub_branch, hr]
    cases r with
    | none => exact ih (fun x hx => h x (List.mem_cons_of_mem _ hx))
    | some x => exact ⟨some x, rfl⟩

theorem eid_by_rrpath_total {f : svn_branch_family_t} {S : List svn_branch_instance_t}
    {K0 : Nat} (hK0 : FuelEnough f S K0) {fuel : Nat} (hf : K0 ≤ fuel) {a : Nat}
    {b : svn_branch_instance_t} (hb : S.get? a = some b) (rrpath : String) :
    ∃ eid, svn_branch_get_eid_by_rrpath f S fuel b rrpath = Outcome.ok eid := by
  obtain ⟨⟨R, hR⟩, hkeys⟩ := hK0 fuel hf a b hb
  simp only [svn_branch_get_eid_by_rrpath, hR]
  cases svn_relpath_skip_ancestor R rrpath with
  | none => exact ⟨-1, rfl⟩
  | some p =>
    exact eid_scan_total f b fuel p b.e_map (fun e n hm => by
      obtain ⟨q, hq⟩ := hkeys e n hm
      exact ⟨some q, hq⟩)

/-- With the instances stored outer before inner and enough fuel for every path, the nested
lookup returns from every instance. -/
theorem find_nested_total {f : svn_branch_family_t} {rr : svn_branch_revision_root_t}
    (hord : OuterBefore rr.store) {K0 : Nat} (hK0 : FuelEnough f rr.store K0)
    (rrpath : String) :
    ∀ (n a : Nat), a < rr.store.length → rr.store.length - a ≤ n →
    ∀ fuel, K0 + n + 1 ≤ fuel →
    ∃ res, svn_branch_find_nested_branch_element_by_rrpath f rr fuel a rrpath
      = Outcome.ok res := by
  intro n
  induction n with
  | zero => intro a ha hn; omega
  | succ n ih =>
    intro a ha hn fuel hf
    obtain ⟨k, rfl⟩ : ∃ k, fuel = k + 1 := ⟨fuel - 1, by omega⟩
    obtain ⟨b, hb⟩ := get_of_lt ha
    obtain ⟨⟨R, hR⟩, _⟩ := hK0 k (by omega) a b hb
    simp only [svn_branch_find_nested_branch_element_by_rrpath, hb, hR]
    cases svn_relpath_skip_ancestor R rrpath with
    | none => exact ⟨none, rfl⟩
    | some p =>
      simp only
      obtain ⟨r, hr⟩ := find_first_total
        (fun s => svn_branch_find_nested_branch_element_by_rrpath f rr k s rrpath)
        (svn_branch_get_all_sub_branches rr a) (fun s hs => by
          obtain ⟨_, c, hc, hco⟩ := mem_sub_branches.1 hs
          have h1 := hord s c a hc hco
          have h2 := lt_of_get hc
          exact ih s h2 (by omega) k (by omega))
      rw [hr]
      cases r with
      | some x => exact ⟨some x, rfl⟩
      | none =>
        obtain ⟨eid, he⟩ := eid_by_rrpath_total hK0 (show K0 ≤ k by omega) hb rrpath
        simp only [he]
        exact ⟨some (a, eid), rfl⟩

/-- Started at a top-level instance, the nested lookup never comes back without a branch. -/
theorem find_nested_top_some (f : svn_branch_family_t) (rr : svn_branch_revision_root_t)
    {a : Nat} {b : svn_branch_instance_t} (hb : rr.store.get? a = some b)
    (htop : b.outer_branch = none) (rrpath : String) (fuel : Nat) :
    svn_branch_find_nested_branch_element_by_rrpath f rr fuel a rrpath ≠ Outcome.ok none := by
  intro h
  cases fuel with
  | zero => simp [svn_branch_find_nested_branch_element_by_rrpath] at h
  | succ k =>
    obtain ⟨rb, R, hrb, hR, hcase⟩ := find_nested_unfold h
    rw [hb] at hrb
    cases hrb
    cases k with
    | zero => simp [svn_branch_get_root_rrpath] at hR
    | succ j =>
      rw [root_rrpath_top f rr.store htop j] at hR
      cases hR
      rcases hcase with ⟨hs, _⟩ | ⟨_, r, _, hr⟩
      · simp [svn_relpath_skip_ancestor] at hs
      · rcases hr with ⟨x, _, hx⟩ | ⟨_, eid, _, he⟩
        · cases hx
        · cases he

theorem find_el_rev_root_ready :
    RoundTripReady round_trip_family { round_trip_root with rev := 0 } :=
  { rev_valid := by decide
    addresses := round_trip_root_ready.addresses
    root_first := round_trip_root_ready.root_first
    has_root := round_trip_root_ready.has_root
    top_level := round_trip_root_ready.top_level
    nested := round_trip_root_ready.nested
    invariants := round_trip_root_ready.invariants
    valid := round_trip_root_ready.valid
    no_orphans := round_trip_root_ready.no_orphans
    acyclic := round_trip_root_ready.acyclic
    names := round_trip_root_ready.names
    siblings := round_trip_root_ready.siblings
    siblings_agree := round_trip_root_ready.siblings_agree
    anchor := round_trip_root_ready.anchor
    disjoint := round_trip_root_ready.disjoint }

/-- For an in-range revision whose revision root has a root branch,
`svn_branch_repos_find_el_rev_by_path_rev` returns the locator of what the nested lookup
returns, and it returns no locator when the lookup does not return a branch. -/
theorem find_el_rev_in_range (family : svn_branch_family_t) (repos : svn_branch_repos_t)
    (rrpath : String) (revnum : Int) (rev_root : svn_branch_revision_root_t) (a : Nat)
    (k : Nat) (h0 : 0 ≤ revnum) (hg : repos.rev_roots.get? revnum.toNat = some rev_root)
    (ha : rev_root.root_branch = some a) :
    (∀ b eid, svn_branch_find_nested_branch_element_by_rrpath family rev_root k a rrpath
        = Outcome.ok (some (b, eid)) →
      svn_branch_repos_find_el_rev_by_path_rev family k repos rrpath revnum
        = Run.ok () { branch := some b, eid := eid, rev := revnum })
    ∧ (∀ r, svn_branch_find_nested_branch_element_by_rrpath family rev_root k a rrpath = r →
      (∀ x, r ≠ Outcome.ok (some x)) →
      ∀ el, svn_branch_repos_find_el_rev_by_path_rev family k repos rrpath revnum
        ≠ Run.ok () el) := by
  have hlt := lt_of_get hg
  have hrange : ¬ (revnum < 0 ∨ revnum ≥ (repos.rev_roots.length : Int)) := by omega
  unfold svn_branch_repos_find_el_rev_by_path_rev
  rw [if_neg hrange, hg]
  refine ⟨fun b eid h => by simp only [ha, h], fun r hr hne el => ?_⟩
  simp only [ha, hr]
  rcases r with (_ | ⟨b, eid⟩) | _ | _
  · simp
  · exact absurd rfl (hne (b, eid))
  · simp
  · simp

theorem do_callback_plain {W σ : Type} (chk : Bool) (editor : svn_editor3_t W) (x : σ)
    (cb : W → σ → Reply (W × σ)) (hc : editor.cancel_func = none)
    (hw : editor.within_callback = false) :
    DO_CALLBACK chk editor x (some cb) = invoked chk editor (cb editor.baton x) := by
  obtain ⟨baton, cancel, funcs, within, finished⟩ := editor
  simp only at hc hw
  subst hc hw
  rcases h : cb baton x with ⟨w, x'⟩ | ⟨⟨w, x'⟩, e⟩ | ⟨w, x'⟩ | _ <;> cases chk <;>
    simp [DO_CALLBACK, check_cancel, START_CALLBACK, END_CALLBACK, invoked, h]

theorem alter_loop_spec (eid new_parent_eid : Int) :
    ∀ (fuel : Nat) (branch : svn_branch_state_t),
    (max (eid + 1) (new_parent_eid + 1) - branch.next_eid).toNat < fuel →
    svn_editor3_alter_loop eid new_parent_eid fuel branch
      = some { branch with
          next_eid := max branch.next_eid (max (eid + 1) (new_parent_eid + 1)) } := by
  intro fuel
  induction fuel with
  | zero => intro branch h; omega
  | succ k ih =>
    intro branch h
    obtain ⟨root, next⟩ := branch
    simp only at h
    unfold svn_editor3_alter_loop
    by_cases hc : eid ≥ next ∨ new_parent_eid ≥ next
    · rw [if_pos hc, ih _ (by simp only [svn_branch_allocate_new_eid]; omega)]
      simp only [svn_branch_allocate_new_eid, Option.some.injEq,
        svn_branch_state_t.mk.injEq, true_and]
      omega
    · rw [if_neg hc]
      simp only [Option.some.injEq, svn_branch_state_t.mk.injEq, true_and]
      omega

theorem alter_of_valid {W : Type} (chk : Bool) (canon : String → Bool)
    (editor : svn_editor3_t W) (branch : svn_branch_state_t) (eid p : Int)
    (name : Option String) (payload : Option svn_element_payload_t)
    (hv : AlterValid canon branch eid p name payload) (fuel : Nat)
    (hf : (max (eid + 1) (p + 1) - branch.next_eid).toNat < fuel) :
    svn_editor3_alter chk canon fuel editor branch eid p name payload
      = DO_CALLBACK chk editor
          { branch with next_eid := max branch.next_eid (max (eid + 1) (p + 1)) }
          (editor.funcs.cb_alter.map (fun cb world b => cb world b eid p name payload)) := by
  obtain ⟨h1, h2, h3, h4⟩ := hv
  have c1 : (!VALID_EID eid) = false := by simp [VALID_EID, h1]
  have c2 : (!(if eid = branch.root_eid then p == -1 else VALID_EID p)) = false := by
    by_cases hr : eid = branch.root_eid
    · rw [if_pos hr] at h2 ⊢; simp [h2.1]
    · rw [if_neg hr] at h2 ⊢; simp [VALID_EID, h2.1]
  have c3 : (!(if eid = branch.root_eid then name == some ""
              else VALID_NAME canon name)) = false := by
    by_cases hr : eid = branch.root_eid
    · rw [if_pos hr] at h2 ⊢; simp [h2.2]
    · rw [if_neg hr] at h2 ⊢; simp [h2.2]
  have c4 : (!(payload.isNone || VALID_PAYLOAD payload)) = false := by
    rcases h3 with rfl | h3
    · rfl
    · simp [h3]
  have c5 : (!(p != eid)) = false := by simp [h4]
  unfold svn_editor3_alter
  rw [c1, c2, c3, c4, c5]
  simp only [Bool.false_eq_true, if_false, alter_loop_spec eid p fuel branch hf]

theorem alter_of_invalid {W : Type} (chk : Bool) (canon : String → Bool)
    (editor : svn_editor3_t W) (branch : svn_branch_state_t) (eid p : Int)
    (name : Option String) (payload : Option svn_element_payload_t)
    (hv : ¬ AlterValid canon branch eid p name payload) (fuel : Nat) :
    svn_editor3_alter chk canon fuel editor branch eid p name payload
        = Reply.malfunction (editor, branch)
      ∨ svn_editor3_alter chk canon fuel editor branch eid p name payload
        = Reply.error (editor, branch) svn_errno_t.SVN_ERR_BRANCHING := by
  unfold svn_editor3_alter
  by_cases c1 : (!VALID_EID eid) = true
  · rw [if_pos c1]; exact Or.inl rfl
  rw [if_neg c1]
  by_cases c2 : (!(if eid = branch.root_eid then p == -1 else VALID_EID p)) = true
  · rw [if_pos c2]; exact Or.inl rfl
  rw [if_neg c2]
  by_cases c3 : (!(if eid = branch.root_eid then name == some ""
              else VALID_NAME canon name)) = true
  · rw [if_pos c3]; exact Or.inl rfl
  rw [if_neg c3]
  by_cases c4 : (!(payload.isNone || VALID_PAYLOAD payload)) = true
  · rw [if_pos c4]; exact Or.inl rfl
  rw [if_neg c4]
  by_cases c5 : (!(p != eid)) = true
  · rw [if_pos c5]; exact Or.inr rfl
  exfalso
  apply hv
  simp only [Bool.not_eq_true, Bool.not_eq_false', Bool.not_not] at c1 c2 c3 c4 c5
  refine ⟨by simpa [VALID_EID] using c1, ?_, ?_, by simpa using c5⟩
  · by_cases hr : eid = branch.root_eid
    · rw [if_pos hr] at c2 c3 ⊢
      exact ⟨by simpa using c2, by simpa using c3⟩
    · rw [if_neg hr] at c2 c3 ⊢
      exact ⟨by simpa [VALID_EID] using c2, c3⟩
  · cases payload with
    | none => exact Or.inl rfl
    | some q => right; simpa using c4

theorem payload_ok_iff (payload : Option svn_element_payload_t) :
    (payload.isNone || VALID_PAYLOAD payload) = true
      ↔ (payload = none ∨ VALID_PAYLOAD payload = true) := by
  cases payload with
  | none => simp
  | some q => simp

theorem alter_malfunction {W : Type} (chk : Bool) (canon : String → Bool)
    (editor : svn_editor3_t W) (branch : svn_branch_state_t) (eid p : Int)
    (name : Option String) (payload : Option svn_element_payload_t)
    (hv : ¬ AlterAsserted canon branch eid p name payload) (fuel : Nat) :
    svn_editor3_alter chk canon fuel editor branch eid p name payload
      = Reply.malfunction (editor, branch) := by
  unfold svn_editor3_alter
  by_cases c1 : (!VALID_EID eid) = true
  · rw [if_pos c1]
  rw [if_neg c1]
  by_cases c2 : (!(if eid = branch.root_eid then p == -1 else VALID_EID p)) = true
  · rw [if_pos c2]
  rw [if_neg c2]
  by_cases c3 : (!(if eid = branch.root_eid then name == some ""
              else VALID_NAME canon name)) = true
  · rw [if_pos c3]
  rw [if_neg c3]
  by_cases c4 : (!(payload.isNone || VALID_PAYLOAD payload)) = true
  · rw [if_pos c4]
  exfalso
  apply hv
  simp only [Bool.not_eq_true, Bool.not_eq_false', Bool.not_not] at c1 c2 c3 c4
  refine ⟨by simpa [VALID_EID] using c1, ?_, (payload_ok_iff payload).1 c4⟩
  by_cases hr : eid = branch.root_eid
  · rw [if_pos hr] at c2 c3 ⊢
    exact ⟨by simpa using c2, by simpa using c3⟩
  · rw [if_neg hr] at c2 c3 ⊢
    exact ⟨by simpa [VALID_EID] using c2, c3⟩

theorem alter_branching {W : Type} (chk : Bool) (canon : String → Bool)
    (editor : svn_editor3_t W) (branch : svn_branch_state_t) (eid : Int)
    (name : Option String) (payload : Option svn_element_payload_t)
    (hv : AlterAsserted canon branch eid eid name payload) (fuel : Nat) :
    svn_editor3_alter chk canon fuel editor branch eid eid name payload
      = Reply.error (editor, branch) svn_errno_t.SVN_ERR_BRANCHING := by
  obtain ⟨h1, h2, h3⟩ := hv
  have hr : eid ≠ branch.root_eid := by
    intro hr
    rw [if_pos hr] at h2
    omega
  rw [if_neg hr] at h2
  have c1 : (!VALID_EID eid) = false := by simp [VALID_EID, h1]
  have c2 : (!(if eid = branch.root_eid then eid == -1 else VALID_EID eid)) = false := by
    rw [if_neg hr]; simp [VALID_EID, h1]
  have c3 : (!(if eid = branch.root_eid then name == some ""
              else VALID_NAME canon name)) = false := by
    rw [if_neg hr]; simp [h2.2]
  have c4 : (!(payload.isNone || VALID_PAYLOAD payload)) = false := by
    simp only [(payload_ok_iff payload).2 h3, Bool.not_true]
  unfold svn_editor3_alter
  rw [c1, c2, c3, c4]
  simp

theorem add_malfunction {W : Type} (chk : Bool) (canon : String → Bool)
    (editor : svn_editor3_t W) (branch : svn_branch_state_t) (eid p : Int)
    (name : Option String) (payload : Option svn_element_payload_t)
    (hv : ¬ AddAsserted canon eid p name payload) :
    svn_editor3_add chk canon editor branch eid p name payload
      = Reply.malfunction (editor, branch) := by
  unfold svn_editor3_add
  by_cases c1 : (!VALID_EID eid) = true
  · rw [if_pos c1]
  rw [if_neg c1]
  by_cases c2 : (!VALID_EID p) = true
  · rw [if_pos c2]
  rw [if_neg c2]
  by_cases c3 : (!VALID_NAME canon name) = true
  · rw [if_pos c3]
  rw [if_neg c3]
  by_cases c4 : (!(payload.isNone || VALID_PAYLOAD payload)) = true
  · rw [if_pos c4]
  exfalso
  apply hv
  simp only [Bool.not_eq_true, Bool.not_eq_false', Bool.not_not] at c1 c2 c3 c4
  exact ⟨by simpa [VALID_EID] using c1, by simpa [VALID_EID] using c2, c3,
    (payload_ok_iff payload).1 c4⟩

theorem add_asserted {W : Type} (chk : Bool) (canon : String → Bool)
    (editor : svn_editor3_t W) (branch : svn_branch_state_t) (eid p : Int)
    (name : Option String) (payload : Option svn_element_payload_t)
    (hv : AddAsserted canon eid p name payload) :
    svn_editor3_add chk canon editor branch eid p name payload
      = if p = eid then Reply.error (editor, branch) svn_errno_t.SVN_ERR_BRANCHING
        else DO_CALLBACK chk editor branch
          (editor.funcs.cb_add.map (fun cb world b => cb world b eid p name payload)) := by
  obtain ⟨h1, h2, h3, h4⟩ := hv
  have c1 : (!VALID_EID eid) = false := by simp [VALID_EID, h1]
  have c2 : (!VALID_EID p) = false := by simp [VALID_EID, h2]
  have c3 : (!VALID_NAME canon name) = false := by simp [h3]
  have c4 : (!(payload.isNone || VALID_PAYLOAD payload)) = false := by
    simp only [(payload_ok_iff payload).2 h4, Bool.not_true]
  unfold svn_editor3_add
  rw [c1, c2, c3, c4]
  by_cases hp : p = eid
  · simp [hp]
  · simp [hp]

theorem delete_cases {W : Type} (chk : Bool) (editor : svn_editor3_t W)
    (branch : svn_branch_state_t) (eid : Int) :
    svn_editor3_delete chk editor branch eid
      = if eid < 0 ∨ eid = branch.root_eid then Reply.malfunction (editor, branch)
        else DO_CALLBACK chk editor branch
          (editor.funcs.cb_delete.map (fun cb world b => cb world b eid)) := by
  unfold svn_editor3_delete
  by_cases h1 : eid < 0
  · have c1 : (!VALID_EID eid) = true := by simp [VALID_EID, h1]
    rw [if_pos c1, if_pos (Or.inl h1)]
  · have c1 : (!VALID_EID eid) = false := by simp [VALID_EID]; omega
    rw [c1]
    by_cases h2 : eid = branch.root_eid
    · simp [h2]
    · simp [h1, h2]

/-- C27: editor alter on the branch root.  For a branch whose root EID is a valid EID and a
payload that is absent or valid, `svn_editor3_alter(branch, root_eid, -1, "", payload)` passes
the validation: given enough fuel the call is the dispatch of `cb_alter` with these arguments
(on the branch with `next_eid` raised above the root EID), and with no cancellation function
and no callback running the handler is called.  With a parent other than −1 or a name other
than the empty one, as in `alter(branch, root_eid, 7, "foo", …)`, the call aborts on an
assertion with the editor and the branch as they were, so without a call of the handler.  A
call on the root EID that does not abort in this way has the parent −1 and the empty name. -/
theorem alter_on_root {W : Type} (ENABLE_ORDERING_CHECK : Bool)
    (svn_relpath_is_canonical : String → Bool) (editor : svn_editor3_t W)
    (branch : svn_branch_state_t) (payload : Option svn_element_payload_t) :
    (0 ≤ branch.root_eid → (payload = none ∨ VALID_PAYLOAD payload = true) →
      ∃ K, ∀ fuel, K ≤ fuel →
        svn_editor3_alter ENABLE_ORDERING_CHECK svn_relpath_is_canonical fuel editor branch
            branch.root_eid (-1) (some "") payload
          = DO_CALLBACK ENABLE_ORDERING_CHECK editor
              { branch with next_eid := max branch.next_eid (branch.root_eid + 1) }
              (editor.funcs.cb_alter.map
                (fun cb world b => cb world b branch.root_eid (-1) (some "") payload))
        ∧ (editor.cancel_func = none → editor.within_callback = false →
            ∀ cb, editor.funcs.cb_alter = some cb →
            svn_editor3_alter ENABLE_ORDERING_CHECK svn_relpath_is_canonical fuel editor branch
                branch.root_eid (-1) (some "") payload
              = invoked ENABLE_ORDERING_CHECK editor (cb editor.baton
                  { branch with next_eid := max branch.next_eid (branch.root_eid + 1) }
                  branch.root_eid (-1) (some "") payload)))
    ∧ (∀ fuel p name, p ≠ -1 ∨ name ≠ some "" →
        svn_editor3_alter ENABLE_ORDERING_CHECK svn_relpath_is_canonical fuel editor branch
            branch.root_eid p name payload
          = Reply.malfunction (editor, branch))
    ∧ (∀ fuel,
        svn_editor3_alter ENABLE_ORDERING_CHECK svn_relpath_is_canonical fuel editor branch
            branch.root_eid 7 (some "foo") payload
          = Reply.malfunction (editor, branch))
    ∧ (∀ fuel p name,
        svn_editor3_alter ENABLE_ORDERING_CHECK svn_relpath_is_canonical fuel editor branch
            branch.root_eid p name payload
          ≠ Reply.malfunction (editor, branch) →
        p = -1 ∧ name = some "" ∧ 0 ≤ branch.root_eid
          ∧ (payload = none ∨ VALID_PAYLOAD payload = true)) := by
  have hbad : ∀ fuel p name, p ≠ -1 ∨ name ≠ some "" →
      svn_editor3_alter ENABLE_ORDERING_CHECK svn_relpath_is_canonical fuel editor branch
          branch.root_eid p name payload
        = Reply.malfunction (editor, branch) := by
    intro fuel p name h
    apply alter_malfunction
    rintro ⟨_, h2, _⟩
    rw [if_pos rfl] at h2
    rcases h with h | h
    · exact h h2.1
    · exact h h2.2
  refine ⟨fun h0 hp => ?_, hbad, fun fuel => hbad fuel 7 (some "foo") (Or.inl (by decide)),
    fun fuel p name hne => ?_⟩
  · have hv : AlterValid svn_relpath_is_canonical branch branch.root_eid (-1) (some "")
        payload := ⟨h0, by rw [if_pos rfl]; exact ⟨rfl, rfl⟩, hp, by omega⟩
    have hmax : max branch.next_eid (max (branch.root_eid + 1) (-1 + 1))
        = max branch.next_eid (branch.root_eid + 1) := by omega
    refine ⟨(max (branch.root_eid + 1) (-1 + 1) - branch.next_eid).toNat + 1,
      fun fuel hf => ?_⟩
    have h := alter_of_valid ENABLE_ORDERING_CHECK svn_relpath_is_canonical editor branch
      branch.root_eid (-1) (some "") payload hv fuel (by omega)
    rw [hmax] at h
    refine ⟨h, fun hc hw cb hcb => ?_⟩
    rw [h, hcb]
    exact do_callback_plain ENABLE_ORDERING_CHECK editor _ _ hc hw
  · by_contra hcon
    apply hne
    apply alter_malfunction
    rintro ⟨h1, h2, h3⟩
    rw [if_pos rfl] at h2
    exact hcon ⟨h2.1, h2.2, h1, h3⟩

/-- C27, witness: on the example branch with root EID 0, the counting editor counts the call
`alter(branch, 0, -1, "", payload)`, and `alter(branch, 0, 7, "foo", payload)` aborts with the
count unchanged. -/
theorem alter_on_root_witness :
    (∃ K, ∀ fuel, K ≤ fuel →
        svn_editor3_alter true example_is_canonical fuel counting_editor example_branch_state
            0 (-1) (some "") (some example_payload)
          = Reply.ok ({ counting_editor with baton := 1 }, example_branch_state))
    ∧ svn_editor3_alter true example_is_canonical 1 counting_editor example_branch_state
          0 7 (some "foo") (some example_payload)
        = Reply.malfunction (counting_editor, example_branch_state) := by
  obtain ⟨K, hK⟩ := (alter_on_root true example_is_canonical counting_editor
    example_branch_state (some example_payload)).1 (by decide) (Or.inr (by decide))
  refine ⟨⟨K, fun fuel hf => ?_⟩,
    (alter_on_root true example_is_canonical counting_editor example_branch_state
      (some example_payload)).2.2.1 1⟩
  exact ((hK fuel hf).2 rfl rfl _ rfl).trans (by rfl)

/-- C28: editor alter allocates EIDs.  For every call of `svn_editor3_alter` whose arguments
pass the validation, given enough fuel the call is the dispatch of `cb_alter` on the branch
`allocated`, which differs from `branch` in `next_eid` only; there `eid` and `new_parent_eid`
are below `next_eid`, and `next_eid` is the maximum of the old `next_eid`, `eid + 1` and
`new_parent_eid + 1`, so `allocated` is `branch` when both were in range.  A call whose
arguments do not pass the validation stops with the editor and the branch as they were. -/
theorem alter_allocates_eids {W : Type} (ENABLE_ORDERING_CHECK : Bool)
    (svn_relpath_is_canonical : String → Bool) (editor : svn_editor3_t W)
    (branch : svn_branch_state_t) (eid new_parent_eid : Int) (new_name : Option String)
    (new_payload : Option svn_element_payload_t) :
    (AlterValid svn_relpath_is_canonical branch eid new_parent_eid new_name new_payload →
      ∃ K allocated,
        (∀ fuel, K ≤ fuel →
          svn_editor3_alter ENABLE_ORDERING_CHECK svn_relpath_is_canonical fuel editor branch
              eid new_parent_eid new_name new_payload
            = DO_CALLBACK ENABLE_ORDERING_CHECK editor allocated
                (editor.funcs.cb_alter.map
                  (fun cb world b => cb world b eid new_parent_eid new_name new_payload)))
        ∧ (∀ fuel, K ≤ fuel → editor.cancel_func = none → editor.within_callback = false →
            ∀ cb, editor.funcs.cb_alter = some cb →
            svn_editor3_alter ENABLE_ORDERING_CHECK svn_relpath_is_canonical fuel editor branch
                eid new_parent_eid new_name new_payload
              = invoked ENABLE_ORDERING_CHECK editor
                  (cb editor.baton allocated eid new_parent_eid new_name new_payload))
        ∧ allocated.root_eid = branch.root_eid
        ∧ allocated.next_eid = max branch.next_eid (max (eid + 1) (new_parent_eid + 1))
        ∧ eid < allocated.next_eid ∧ new_parent_eid < allocated.next_eid
        ∧ (eid < branch.next_eid → new_parent_eid < branch.next_eid → allocated = branch)
        ∧ K = (max (eid + 1) (new_parent_eid + 1) - branch.next_eid).toNat + 1)
    ∧ (¬ AlterValid svn_relpath_is_canonical branch eid new_parent_eid new_name new_payload →
      ∀ fuel,
        svn_editor3_alter ENABLE_ORDERING_CHECK svn_relpath_is_canonical fuel editor branch
            eid new_parent_eid new_name new_payload
          = Reply.malfunction (editor, branch)
        ∨ svn_editor3_alter ENABLE_ORDERING_CHECK svn_relpath_is_canonical fuel editor branch
            eid new_parent_eid new_name new_payload
          = Reply.error (editor, branch) svn_errno_t.SVN_ERR_BRANCHING) := by
  refine ⟨fun hv => ?_, fun hv fuel => alter_of_invalid ENABLE_ORDERING_CHECK
    svn_relpath_is_canonical editor branch eid new_parent_eid new_name new_payload hv fuel⟩
  have h := alter_of_valid ENABLE_ORDERING_CHECK svn_relpath_is_canonical editor branch eid
    new_parent_eid new_name new_payload hv
  refine ⟨_, { branch with
      next_eid := max branch.next_eid (max (eid + 1) (new_parent_eid + 1)) },
    fun fuel hf => h fuel (by omega), fun fuel hf hc hw cb hcb => ?_, rfl, rfl,
    by simp only; omega, by simp only; omega, fun h1 h2 => ?_, rfl⟩
  · rw [h fuel (by omega), hcb]
    exact do_callback_plain ENABLE_ORDERING_CHECK editor _ _ hc hw
  · obtain ⟨root, next⟩ := branch
    simp only [svn_branch_state_t.mk.injEq, true_and] at h1 h2 ⊢
    omega

/-- C28, witness: on the example branch, whose next EID is 2, `alter(branch, 5, 3, "a", …)`
passes the validation and reaches the handler with `next_eid` 6. -/
theorem alter_allocates_eids_witness :
    AlterValid example_is_canonical example_branch_state 5 3 (some "a") none
    ∧ ∃ K, ∀ fuel, K ≤ fuel →
        svn_editor3_alter true example_is_canonical fuel counting_editor example_branch_state
            5 3 (some "a") none
          = Reply.ok ({ counting_editor with baton := 1 }, { root_eid := 0, next_eid := 6 }) := by
  have hv : AlterValid example_is_canonical example_branch_state 5 3 (some "a") none :=
    ⟨by decide, ⟨by decide, by decide⟩, Or.inl rfl, by decide⟩
  obtain ⟨K, allocated, _, h2, h3, h4, _⟩ := (alter_allocates_eids true example_is_canonical
    counting_editor example_branch_state 5 3 (some "a") none).1 hv
  refine ⟨hv, K, fun fuel hf => ?_⟩
  rw [h2 fuel hf rfl rfl _ rfl]
  have ha : allocated = { root_eid := 0, next_eid := 6 } := by
    obtain ⟨r, n⟩ := allocated
    simp only at h3 h4
    rw [h3, h4]
    rfl
  rw [ha]
  rfl

/-- C29: editor add.  When `eid ≥ 0`, `new_parent_eid ≥ 0`, `new_name` is a non-empty
canonical relative path, the payload is absent or valid and `new_parent_eid ≠ eid`, the call of
`svn_editor3_add` is the dispatch of `cb_add` with the arguments (and with no cancellation
function and no callback running the handler is called).  With the other conditions met and
`new_parent_eid = eid` it returns the error `SVN_ERR_BRANCHING`, and when one of the other
conditions fails it aborts on an assertion; in both cases the editor and the branch are as they
were, so the handler was not called. -/
theorem add_validates {W : Type} (ENABLE_ORDERING_CHECK : Bool)
    (svn_relpath_is_canonical : String → Bool) (editor : svn_editor3_t W)
    (branch : svn_branch_state_t) (eid new_parent_eid : Int) (new_name : Option String)
    (new_payload : Option svn_element_payload_t) :
    (0 ≤ eid → 0 ≤ new_parent_eid → VALID_NAME svn_relpath_is_canonical new_name = true →
      (new_payload = none ∨ VALID_PAYLOAD new_payload = true) → new_parent_eid ≠ eid →
      svn_editor3_add ENABLE_ORDERING_CHECK svn_relpath_is_canonical editor branch eid
          new_parent_eid new_name new_payload
        = DO_CALLBACK ENABLE_ORDERING_CHECK editor branch
            (editor.funcs.cb_add.map
              (fun cb world b => cb world b eid new_parent_eid new_name new_payload))
      ∧ (editor.cancel_func = none → editor.within_callback = false →
          ∀ cb, editor.funcs.cb_add = some cb →
          svn_editor3_add ENABLE_ORDERING_CHECK svn_relpath_is_canonical editor branch eid
              new_parent_eid new_name new_payload
            = invoked ENABLE_ORDERING_CHECK editor
                (cb editor.baton branch eid new_parent_eid new_name new_payload)))
    ∧ (0 ≤ eid → VALID_NAME svn_relpath_is_canonical new_name = true →
      (new_payload = none ∨ VALID_PAYLOAD new_payload = true) →
      svn_editor3_add ENABLE_ORDERING_CHECK svn_relpath_is_canonical editor branch eid eid
          new_name new_payload
        = Reply.error (editor, branch) svn_errno_t.SVN_ERR_BRANCHING)
    ∧ (¬ (0 ≤ eid ∧ 0 ≤ new_parent_eid
          ∧ VALID_NAME svn_relpath_is_canonical new_name = true
          ∧ (new_payload = none ∨ VALID_PAYLOAD new_payload = true)) →
      svn_editor3_add ENABLE_ORDERING_CHECK svn_relpath_is_canonical editor branch eid
          new_parent_eid new_name new_payload
        = Reply.malfunction (editor, branch))
    ∧ (VALID_NAME svn_relpath_is_canonical new_name = true
      ↔ ∃ s, new_name = some s ∧ s ≠ "" ∧ svn_relpath_is_canonical s = true) := by
  refine ⟨fun h1 h2 h3 h4 h5 => ?_, fun h1 h3 h4 => ?_, fun h => ?_, ?_⟩
  · have h := add_asserted ENABLE_ORDERING_CHECK svn_relpath_is_canonical editor branch eid
      new_parent_eid new_name new_payload ⟨h1, h2, h3, h4⟩
    rw [if_neg h5] at h
    refine ⟨h, fun hc hw cb hcb => ?_⟩
    rw [h, hcb]
    exact do_callback_plain ENABLE_ORDERING_CHECK editor _ _ hc hw
  · have h := add_asserted ENABLE_ORDERING_CHECK svn_relpath_is_canonical editor branch eid
      eid new_name new_payload ⟨h1, h1, h3, h4⟩
    rw [if_pos rfl] at h
    exact h
  · exact add_malfunction ENABLE_ORDERING_CHECK svn_relpath_is_canonical editor branch eid
      new_parent_eid new_name new_payload h
  · cases new_name with
    | none => simp [VALID_NAME]
    | some s => simp [VALID_NAME]

/-- C29, witness: the counting editor counts `add(branch, 1, 0, "file.txt", payload)`, and
`add(branch, 1, 1, "file.txt", payload)` returns `SVN_ERR_BRANCHING` with the count
unchanged. -/
theorem add_validates_witness :
    svn_editor3_add true example_is_canonical counting_editor example_branch_state 1 0
        (some "file.txt") (some example_payload)
      = Reply.ok ({ counting_editor with baton := 1 }, example_branch_state)
    ∧ svn_editor3_add true example_is_canonical counting_editor example_branch_state 1 1
        (some "file.txt") (some example_payload)
      = Reply.error (counting_editor, example_branch_state) svn_errno_t.SVN_ERR_BRANCHING :=
  ⟨(((add_validates true example_is_canonical counting_editor example_branch_state 1 0
        (some "file.txt") (some example_payload)).1 (by decide) (by decide) (by decide)
        (Or.inr (by decide)) (by decide)).2 rfl rfl _ rfl).trans rfl,
    (add_validates true example_is_canonical counting_editor example_branch_state 1 1
        (some "file.txt") (some example_payload)).2.1 (by decide) (by decide)
        (Or.inr (by decide))⟩

/-- C30: editor delete.  For every branch and EID, `svn_editor3_delete(branch, eid)` aborts on
an assertion, with the editor and the branch as they were and so without a call of the handler,
when `eid < 0` or `eid` is the root EID of the branch; otherwise the call is the dispatch of
`cb_delete` with the arguments, and with no cancellation function and no callback running the
handler is called. -/
theorem delete_rejects_root {W : Type} (ENABLE_ORDERING_CHECK : Bool)
    (editor : svn_editor3_t W) (branch : svn_branch_state_t) (eid : Int) :
    (eid < 0 ∨ eid = branch.root_eid →
      svn_editor3_delete ENABLE_ORDERING_CHECK editor branch eid
        = Reply.malfunction (editor, branch))
    ∧ (0 ≤ eid → eid ≠ branch.root_eid →
      svn_editor3_delete ENABLE_ORDERING_CHECK editor branch eid
        = DO_CALLBACK ENABLE_ORDERING_CHECK editor branch
            (editor.funcs.cb_delete.map (fun cb world b => cb world b eid))
      ∧ (editor.cancel_func = none → editor.within_callback = false →
          ∀ cb, editor.funcs.cb_delete = some cb →
          svn_editor3_delete ENABLE_ORDERING_CHECK editor branch eid
            = invoked ENABLE_ORDERING_CHECK editor (cb editor.baton branch eid))) := by
  have h := delete_cases ENABLE_ORDERING_CHECK editor branch eid
  refine ⟨fun hbad => by rw [h, if_pos hbad], fun h1 h2 => ?_⟩
  rw [if_neg (by omega)] at h
  refine ⟨h, fun hc hw cb hcb => ?_⟩
  rw [h, hcb]
  exact do_callback_plain ENABLE_ORDERING_CHECK editor _ _ hc hw

/-- C30, witness: on the example branch with root EID 0, `delete(branch, 0)` aborts with the
count unchanged, and the counting editor counts `delete(branch, 1)`. -/
theorem delete_rejects_root_witness :
    svn_editor3_delete true counting_editor example_branch_state 0
      = Reply.malfunction (counting_editor, example_branch_state)
    ∧ svn_editor3_delete true counting_editor example_branch_state 1
      = Reply.ok ({ counting_editor with baton := 1 }, example_branch_state) :=
  ⟨(delete_rejects_root true counting_editor example_branch_state 0).1 (Or.inr rfl),
    ((((delete_rejects_root true counting_editor example_branch_state 1).2 (by decide)
      (by decide)).2 rfl rfl _ rfl)).trans rfl⟩

theorem kept_refl {W : Type} (editor : svn_editor3_t W) (r : Bool) : Kept editor editor r :=
  ⟨rfl, rfl, rfl, fun _ h => h⟩

theorem kept_trans {W : Type} {a b c : svn_editor3_t W} {r : Bool} (h1 : Kept a b true)
    (h2 : Kept b c r) : Kept a c r :=
  ⟨h2.1.trans h1.1, h2.2.1.trans h1.2.1, h2.2.2.1.trans h1.2.2.1,
    fun hr hw => h2.2.2.2 hr (h1.2.2.2 rfl hw)⟩

theorem start_callback_some {W : Type} (chk : Bool) (editor started : svn_editor3_t W)
    (h : START_CALLBACK chk editor = some started) :
    started.baton = editor.baton ∧ started.finished = editor.finished
      ∧ started.funcs = editor.funcs ∧ started.cancel_func = editor.cancel_func
      ∧ (chk = true → editor.within_callback = false)
      ∧ started.within_callback = (chk || editor.within_callback) := by
  unfold START_CALLBACK at h
  cases chk with
  | false =>
    simp only [Bool.false_eq_true, if_false, Option.some.injEq] at h
    subst h
    simp
  | true =>
    simp only [if_true] at h
    cases hw : editor.within_callback with
    | true => rw [hw] at h; simp at h
    | false =>
      rw [hw] at h
      simp only [Bool.false_eq_true, if_false, Option.some.injEq] at h
      subst h
      simp

theorem end_callback_kept {W : Type} (chk : Bool) (editor started : svn_editor3_t W)
    (h : START_CALLBACK chk editor = some started) (world : W) :
    Kept editor (END_CALLBACK chk { started with baton := world }) true := by
  obtain ⟨_, h2, h3, h4, h5, h6⟩ := start_callback_some chk editor started h
  unfold END_CALLBACK
  cases chk with
  | false =>
    simp only [Bool.false_eq_true, if_false]
    refine ⟨h2, h3, h4, fun _ hw => ?_⟩
    simp only [h6, hw, Bool.or_self]
  | true =>
    simp only [if_true]
    exact ⟨h2, h3, h4, fun _ _ => rfl⟩

theorem check_cancel_kept {W : Type} (chk : Bool) (editor : svn_editor3_t W) :
    (∀ e1, check_cancel chk editor = Reply.ok e1 → Kept editor e1 true)
    ∧ (∀ e1 e, check_cancel chk editor = Reply.error e1 e → Kept editor e1 true)
    ∧ (∀ e1, check_cancel chk editor = Reply.malfunction e1 → e1 = editor)
    ∧ check_cancel chk editor ≠ Reply.out_of_fuel := by
  unfold check_cancel
  cases hc : editor.cancel_func with
  | none =>
    simp only [Reply.ok.injEq, reduceCtorEq, false_implies, implies_true, ne_eq,
      not_false_eq_true, and_true, true_and]
    rintro e1 rfl
    exact kept_refl _ _
  | some probe =>
    simp only
    cases hs : START_CALLBACK chk editor with
    | none =>
      simp only [reduceCtorEq, false_implies, implies_true, Reply.malfunction.injEq, ne_eq,
        not_false_eq_true, and_true, true_and]
      rintro e1 rfl; rfl
    | some started =>
      simp only
      rcases probe started.baton with ⟨world, _ | e⟩
      · simp only [Reply.ok.injEq, reduceCtorEq, false_implies, implies_true, ne_eq,
          not_false_eq_true, and_true, true_and]
        rintro e1 rfl
        exact end_callback_kept chk editor started hs world
      · simp only [Reply.error.injEq, reduceCtorEq, false_implies, implies_true, ne_eq,
          not_false_eq_true, and_true, true_and]
        rintro e1 e' ⟨rfl, _⟩
        exact end_callback_kept chk editor started hs world

theorem do_callback_kept {W σ : Type} (chk : Bool) (editor : svn_editor3_t W) (x : σ)
    (cb : Option (W → σ → Reply (W × σ))) (after : svn_editor3_t W) (x' : σ)
    (h : (DO_CALLBACK chk editor x cb).state = some (after, x')) :
    Kept editor after (DO_CALLBACK chk editor x cb).returned := by
  obtain ⟨c1, c2, c3, c4⟩ := check_cancel_kept chk editor
  revert h
  unfold DO_CALLBACK
  cases hcc : check_cancel chk editor with
  | out_of_fuel => exact absurd hcc c4
  | malfunction e1 =>
    simp only [Reply.state, Option.some.injEq, Prod.mk.injEq, Reply.returned]
    rintro ⟨rfl, _⟩
    rw [c3 _ hcc]
    exact kept_refl _ _
  | error e1 e =>
    simp only [Reply.state, Option.some.injEq, Prod.mk.injEq, Reply.returned]
    rintro ⟨rfl, _⟩
    exact c2 _ _ hcc
  | ok checked =>
    have hk := c1 _ hcc
    simp only
    cases cb with
    | none =>
      simp only [Reply.state, Option.some.injEq, Prod.mk.injEq, Reply.returned]
      rintro ⟨rfl, _⟩
      exact hk
    | some cb =>
      simp only
      cases hs : START_CALLBACK chk checked with
      | none =>
        simp only [Reply.state, Option.some.injEq, Prod.mk.injEq, Reply.returned]
        rintro ⟨rfl, _⟩
        exact ⟨hk.1, hk.2.1, hk.2.2.1, fun hr => by cases hr⟩
      | some started =>
        simp only
        obtain ⟨_, h2, h3, h4, _, _⟩ := start_callback_some chk checked started hs
        rcases cb started.baton x with ⟨w, y⟩ | ⟨⟨w, y⟩, e⟩ | ⟨w, y⟩ | _
        · simp only [Reply.state, Option.some.injEq, Prod.mk.injEq, Reply.returned]
          rintro ⟨rfl, _⟩
          exact kept_trans hk (end_callback_kept chk checked started hs w)
        · simp only [Reply.state, Option.some.injEq, Prod.mk.injEq, Reply.returned]
          rintro ⟨rfl, _⟩
          exact kept_trans hk (end_callback_kept chk checked started hs w)
        · simp only [Reply.state, Option.some.injEq, Prod.mk.injEq, Reply.returned]
          rintro ⟨rfl, _⟩
          exact ⟨h2.trans hk.1, h3.trans hk.2.1, h4.trans hk.2.2.1, fun hr => by cases hr⟩
        · simp only [Reply.state, reduceCtorEq, false_implies]

theorem kept_of_malfunction {W σ : Type} {editor after : svn_editor3_t W} {x y : σ}
    (h : (Reply.malfunction (editor, x)).state = some (after, y)) :
    Kept editor after (Reply.malfunction (editor, x)).returned := by
  simp only [Reply.state, Option.some.injEq, Prod.mk.injEq] at h
  rw [← h.1]
  exact kept_refl _ _

theorem kept_of_error {W σ : Type} {editor after : svn_editor3_t W} {x y : σ}
    {e : svn_errno_t} (h : (Reply.error (editor, x) e).state = some (after, y)) :
    Kept editor after (Reply.error (editor, x) e).returned := by
  simp only [Reply.state, Option.some.injEq, Prod.mk.injEq] at h
  rw [← h.1]
  exact kept_refl _ _

theorem add_kept {W : Type} (chk : Bool) (canon : String → Bool) (editor : svn_editor3_t W)
    (branch : svn_branch_state_t) (eid p : Int) (name : Option String)
    (payload : Option svn_element_payload_t) (after : svn_editor3_t W)
    (b : svn_branch_state_t)
    (h : (svn_editor3_add chk canon editor branch eid p name payload).state
      = some (after, b)) :
    Kept editor after (svn_editor3_add chk canon editor branch eid p name payload).returned := by
  unfold svn_editor3_add at h ⊢
  split_ifs at h ⊢
  · exact kept_of_malfunction h
  · exact kept_of_malfunction h
  · exact kept_of_malfunction h
  · exact kept_of_malfunction h
  · exact kept_of_error h
  · exact do_callback_kept _ _ _ _ _ _ h

theorem copy_one_kept {W : Type} (chk : Bool) (canon : String → Bool)
    (editor : svn_editor3_t W) (src : Option svn_branch_el_rev_id_t)
    (branch : svn_branch_state_t) (eid p : Int) (name : Option String)
    (payload : Option svn_element_payload_t) (after : svn_editor3_t W)
    (b : svn_branch_state_t)
    (h : (svn_editor3_copy_one chk canon editor src branch eid p name payload).state
      = some (after, b)) :
    Kept editor after
      (svn_editor3_copy_one chk canon editor src branch eid p name payload).returned := by
  unfold svn_editor3_copy_one at h ⊢
  split_ifs at h ⊢
  · exact kept_of_malfunction h
  · exact kept_of_malfunction h
  · exact kept_of_malfunction h
  · exact kept_of_malfunction h
  · exact kept_of_malfunction h
  · exact do_callback_kept _ _ _ _ _ _ h

theorem copy_tree_kept {W : Type} (chk : Bool) (canon : String → Bool)
    (editor : svn_editor3_t W) (src : Option svn_branch_el_rev_id_t)
    (branch : svn_branch_state_t) (p : Int) (name : Option String)
    (after : svn_editor3_t W) (b : svn_branch_state_t)
    (h : (svn_editor3_copy_tree chk canon editor src branch p name).state = some (after, b)) :
    Kept editor after (svn_editor3_copy_tree chk canon editor src branch p name).returned := by
  unfold svn_editor3_copy_tree at h ⊢
  split_ifs at h ⊢
  · exact kept_of_malfunction h
  · exact kept_of_malfunction h
  · exact kept_of_malfunction h
  · exact do_callback_kept _ _ _ _ _ _ h

theorem delete_kept {W : Type} (chk : Bool) (editor : svn_editor3_t W)
    (branch : svn_branch_state_t) (eid : Int) (after : svn_editor3_t W)
    (b : svn_branch_state_t)
    (h : (svn_editor3_delete chk editor branch eid).state = some (after, b)) :
    Kept editor after (svn_editor3_delete chk editor branch eid).returned := by
  unfold svn_editor3_delete at h ⊢
  split_ifs at h ⊢
  · exact kept_of_malfunction h
  · exact kept_of_malfunction h
  · exact do_callback_kept _ _ _ _ _ _ h

theorem alter_kept {W : Type} (chk : Bool) (canon : String → Bool) (fuel : Nat)
    (editor : svn_editor3_t W) (branch : svn_branch_state_t) (eid p : Int)
    (name : Option String) (payload : Option svn_element_payload_t)
    (after : svn_editor3_t W) (b : svn_branch_state_t)
    (h : (svn_editor3_alter chk canon fuel editor branch eid p name payload).state
      = some (after, b)) :
    Kept editor after
      (svn_editor3_alter chk canon fuel editor branch eid p name payload).returned := by
  revert h
  unfold svn_editor3_alter
  cases hl : svn_editor3_alter_loop eid p fuel branch with
  | none =>
    simp only
    intro h
    split_ifs at h ⊢
    all_goals first
      | exact kept_of_malfunction h
      | exact kept_of_error h
      | (simp [Reply.state] at h)
  | some allocated =>
    simp only
    intro h
    split_ifs at h ⊢
    all_goals first
      | exact kept_of_malfunction h
      | exact kept_of_error h
      | exact do_callback_kept _ _ _ _ _ _ h

theorem payload_resolve_kept {W : Type} (chk : Bool) (editor : svn_editor3_t W)
    (payload : Option svn_element_payload_t) (element : Option svn_branch_el_rev_content_t)
    (after : svn_editor3_t W) (q : Option svn_element_payload_t)
    (h : (svn_editor3_payload_resolve chk editor payload element).state = some (after, q)) :
    Kept editor after (svn_editor3_payload_resolve chk editor payload element).returned :=
  do_callback_kept _ _ _ _ _ _ h

theorem new_eid_kept {W : Type} (chk : Bool) (editor : svn_editor3_t W)
    (branch : svn_branch_state_t) (after : svn_editor3_t W) (x : svn_branch_state_t × Int)
    (h : (svn_editor3_new_eid chk editor branch).state = some (after, x)) :
    Kept editor after (svn_editor3_new_eid chk editor branch).returned := by
  unfold svn_editor3_new_eid at h ⊢
  cases hd : DO_CALLBACK chk editor (branch, (-1 : Int))
      (editor.funcs.cb_new_eid.map (fun cb world x => cb world x.1 x.2)) with
  | ok s =>
    obtain ⟨called, b, eid⟩ := s
    have hk := do_callback_kept chk editor (branch, (-1 : Int)) _ called (b, eid)
      (by rw [hd]; rfl)
    rw [hd] at hk h
    simp only at h ⊢
    split_ifs at h ⊢
    · simp only [Reply.state, Option.some.injEq, Prod.mk.injEq] at h
      rw [← h.1]
      exact ⟨hk.1, hk.2.1, hk.2.2.1, fun hr => by cases hr⟩
    · simp only [Reply.state, Option.some.injEq, Prod.mk.injEq] at h
      rw [← h.1]
      exact hk
  | error s e =>
    rw [hd] at h
    simp only at h ⊢
    have hk := do_callback_kept chk editor (branch, (-1 : Int)) _ after x (by rw [hd]; exact h)
    rw [hd] at hk
    exact hk
  | malfunction s =>
    rw [hd] at h
    simp only at h ⊢
    have hk := do_callback_kept chk editor (branch, (-1 : Int)) _ after x (by rw [hd]; exact h)
    rw [hd] at hk
    exact hk
  | out_of_fuel =>
    rw [hd] at h
    simp [Reply.state] at h

theorem sequence_point_kept {W : Type} (chk : Bool) (editor : svn_editor3_t W)
    (after : svn_editor3_t W) (u : Unit)
    (h : (svn_editor3_sequence_point chk editor).state = some (after, u)) :
    Kept editor after (svn_editor3_sequence_point chk editor).returned := by
  unfold svn_editor3_sequence_point at h ⊢
  split_ifs at h ⊢
  · exact kept_of_malfunction h
  · exact do_callback_kept _ _ _ _ _ _ h

theorem map_state {σ τ : Type} (g : σ → τ) (r : Reply σ) :
    (r.map g).state = r.state.map g := by
  cases r <;> rfl

theorem map_returned {σ τ : Type} (g : σ → τ) (r : Reply σ) :
    (r.map g).returned = r.returned := by
  cases r <;> rfl

theorem map_succeeded {σ τ : Type} (g : σ → τ) (r : Reply σ) :
    (r.map g).succeeded = r.succeeded := by
  cases r <;> rfl

theorem stepped_of_kept {W : Type} {chk : Bool} {editor after : svn_editor3_t W}
    {r s : Bool} (h : Kept editor after r) : Stepped chk editor after r s false :=
  ⟨h.2.1, h.2.2.1, h.2.2.2, by rw [h.1]; simp⟩

/-- The shared body of `svn_editor3_complete` and `svn_editor3_abort`. -/
theorem finish_stepped {W : Type} (chk : Bool) (editor : svn_editor3_t W)
    (cb : Option (W → Unit → Reply (W × Unit))) (after : svn_editor3_t W) (u : Unit)
    (r : Reply (svn_editor3_t W × Unit))
    (hr : r = if (!SHOULD_NOT_BE_FINISHED chk editor) = true then
              Reply.malfunction (editor, ())
            else
              match DO_CALLBACK chk editor () cb with
              | Reply.ok (called, u) => Reply.ok (MARK_FINISHED chk called, u)
              | other => other)
    (h : r.state = some (after, u)) :
    Stepped chk editor after r.returned r.succeeded true := by
  subst hr
  split_ifs at h ⊢ with hf
  · simp only [Reply.state, Option.some.injEq, Prod.mk.injEq] at h
    rw [← h.1]
    exact ⟨rfl, rfl, (fun hr => by cases hr), by simp [Reply.succeeded]⟩
  · cases hd : DO_CALLBACK chk editor () cb with
    | ok s =>
      obtain ⟨called, v⟩ := s
      have hk := do_callback_kept chk editor () cb called v (by rw [hd]; rfl)
      rw [hd] at hk h
      simp only [Reply.state, Option.some.injEq, Prod.mk.injEq] at h
      rw [← h.1]
      simp only [Reply.returned, Reply.succeeded, Bool.and_true]
      unfold MARK_FINISHED
      cases chk with
      | false =>
        simp only [Bool.false_eq_true, if_false]
        exact ⟨hk.2.1, hk.2.2.1, hk.2.2.2, by rw [hk.1]; simp⟩
      | true =>
        simp only [if_true]
        exact ⟨hk.2.1, hk.2.2.1, hk.2.2.2, by simp⟩
    | error s e =>
      rw [hd] at h
      have hk := do_callback_kept chk editor () cb after u (by rw [hd]; exact h)
      rw [hd] at hk
      simp only [Reply.returned, Reply.succeeded, Bool.and_false, Bool.or_false] at hk ⊢
      exact ⟨hk.2.1, hk.2.2.1, hk.2.2.2, by rw [hk.1]; simp⟩
    | malfunction s =>
      rw [hd] at h
      have hk := do_callback_kept chk editor () cb after u (by rw [hd]; exact h)
      rw [hd] at hk
      simp only [Reply.returned, Reply.succeeded, Bool.and_false, Bool.or_false] at hk ⊢
      exact ⟨hk.2.1, hk.2.2.1, hk.2.2.2, by rw [hk.1]; simp⟩
    | out_of_fuel =>
      rw [hd] at h
      simp [Reply.state] at h

theorem run_call_stepped {W : Type} (chk : Bool) (canon : String → Bool) (fuel : Nat)
    (editor : svn_editor3_t W) (call : editor_call) (after : svn_editor3_t W)
    (h : (run_call chk canon fuel editor call).state = some after) :
    Stepped chk editor after (run_call chk canon fuel editor call).returned
      (run_call chk canon fuel editor call).succeeded call.finishes := by
  cases call with
  | new_eid branch =>
    simp only [run_call, map_state, map_returned, map_succeeded, Option.map_eq_some',
      editor_call.finishes] at h ⊢
    obtain ⟨⟨a, x⟩, hs, rfl⟩ := h
    exact stepped_of_kept (new_eid_kept chk editor branch a x hs)
  | add branch eid p name payload =>
    simp only [run_call, map_state, map_returned, map_succeeded, Option.map_eq_some',
      editor_call.finishes] at h ⊢
    obtain ⟨⟨a, x⟩, hs, rfl⟩ := h
    exact stepped_of_kept (add_kept chk canon editor branch eid p name payload a x hs)
  | copy_one src branch eid p name payload =>
    simp only [run_call, map_state, map_returned, map_succeeded, Option.map_eq_some',
      editor_call.finishes] at h ⊢
    obtain ⟨⟨a, x⟩, hs, rfl⟩ := h
    exact stepped_of_kept
      (copy_one_kept chk canon editor src branch eid p name payload a x hs)
  | copy_tree src branch p name =>
    simp only [run_call, map_state, map_returned, map_succeeded, Option.map_eq_some',
      editor_call.finishes] at h ⊢
    obtain ⟨⟨a, x⟩, hs, rfl⟩ := h
    exact stepped_of_kept (copy_tree_kept chk canon editor src branch p name a x hs)
  | delete branch eid =>
    simp only [run_call, map_state, map_returned, map_succeeded, Option.map_eq_some',
      editor_call.finishes] at h ⊢
    obtain ⟨⟨a, x⟩, hs, rfl⟩ := h
    exact stepped_of_kept (delete_kept chk editor branch eid a x hs)
  | alter branch eid p name payload =>
    simp only [run_call, map_state, map_returned, map_succeeded, Option.map_eq_some',
      editor_call.finishes] at h ⊢
    obtain ⟨⟨a, x⟩, hs, rfl⟩ := h
    exact stepped_of_kept (alter_kept chk canon fuel editor branch eid p name payload a x hs)
  | payload_resolve payload element =>
    simp only [run_call, map_state, map_returned, map_succeeded, Option.map_eq_some',
      editor_call.finishes] at h ⊢
    obtain ⟨⟨a, x⟩, hs, rfl⟩ := h
    exact stepped_of_kept (payload_resolve_kept chk editor payload element a x hs)
  | sequence_point =>
    simp only [run_call, map_state, map_returned, map_succeeded, Option.map_eq_some',
      editor_call.finishes] at h ⊢
    obtain ⟨⟨a, x⟩, hs, rfl⟩ := h
    exact stepped_of_kept (sequence_point_kept chk editor a x hs)
  | complete =>
    simp only [run_call, map_state, map_returned, map_succeeded, Option.map_eq_some',
      editor_call.finishes] at h ⊢
    obtain ⟨⟨a, x⟩, hs, rfl⟩ := h
    exact finish_stepped chk editor editor.funcs.cb_complete a x _
      (by unfold svn_editor3_complete; rfl) hs
  | abort =>
    simp only [run_call, map_state, map_returned, map_succeeded, Option.map_eq_some',
      editor_call.finishes] at h ⊢
    obtain ⟨⟨a, x⟩, hs, rfl⟩ := h
    exact finish_stepped chk editor editor.funcs.cb_abort a x _
      (by unfold svn_editor3_abort; rfl) hs

theorem later_kept {W : Type} {chk : Bool} {canon : String → Bool}
    {editor later : svn_editor3_t W} (h : Later chk canon editor later) :
    later.funcs = editor.funcs ∧ later.cancel_func = editor.cancel_func
      ∧ (editor.finished = true → later.finished = true) := by
  induction h with
  | refl => exact ⟨rfl, rfl, fun h => h⟩
  | step before after fuel call _ hs ih =>
    obtain ⟨h1, h2, _, h4⟩ := run_call_stepped chk canon fuel before call after hs
    refine ⟨h1.trans ih.1, h2.trans ih.2.1, fun hf => ?_⟩
    rw [h4, ih.2.2 hf]
    rfl

theorem start_callback_clear {W : Type} (chk : Bool) (editor : svn_editor3_t W)
    (hw : editor.within_callback = false) :
    START_CALLBACK chk editor = some { editor with within_callback := chk } := by
  obtain ⟨baton, cancel, funcs, within, finished⟩ := editor
  simp only at hw
  subst hw
  cases chk <;> rfl

theorem end_callback_clear {W : Type} (chk : Bool) (editor : svn_editor3_t W)
    (hw : editor.within_callback = false) (world : W) :
    END_CALLBACK chk { editor with within_callback := chk, baton := world }
      = { editor with baton := world } := by
  obtain ⟨baton, cancel, funcs, within, finished⟩ := editor
  simp only at hw
  subst hw
  cases chk <;> rfl

theorem check_cancel_none {W : Type} (chk : Bool) (editor : svn_editor3_t W)
    (hc : editor.cancel_func = none) : check_cancel chk editor = Reply.ok editor := by
  unfold check_cancel
  rw [hc]

theorem check_cancel_some {W : Type} (chk : Bool) (editor : svn_editor3_t W)
    (hw : editor.within_callback = false) (probe : W → W × Option svn_errno_t)
    (hc : editor.cancel_func = some probe) (world : W) (err : Option svn_errno_t)
    (hp : probe editor.baton = (world, err)) :
    check_cancel chk editor
      = match err with
        | none => Reply.ok { editor with baton := world }
        | some e => Reply.error { editor with baton := world } e := by
  obtain ⟨baton, cancel, funcs, within, finished⟩ := editor
  simp only at hw hc hp
  subst hw hc
  cases chk <;> cases err <;>
    simp [check_cancel, START_CALLBACK, END_CALLBACK, hp]

/-- The three cases of `DO_CALLBACK` when no callback is running. -/
theorem do_callback_cases {W σ : Type} (chk : Bool) (editor : svn_editor3_t W) (x : σ)
    (hw : editor.within_callback = false) :
    (editor.cancel_func = none →
      DO_CALLBACK chk editor x none = Reply.ok (editor, x)
      ∧ ∀ cb, DO_CALLBACK chk editor x (some cb) = invoked chk editor (cb editor.baton x))
    ∧ (∀ probe world, editor.cancel_func = some probe → probe editor.baton = (world, none) →
      DO_CALLBACK chk editor x none = Reply.ok ({ editor with baton := world }, x)
      ∧ ∀ cb, DO_CALLBACK chk editor x (some cb)
          = invoked chk { editor with baton := world } (cb world x))
    ∧ (∀ probe world e, editor.cancel_func = some probe →
      probe editor.baton = (world, some e) →
      ∀ cb, DO_CALLBACK chk editor x cb = Reply.error ({ editor with baton := world }, x) e) := by
  refine ⟨fun hc => ⟨?_, fun cb => do_callback_plain chk editor x cb hc hw⟩,
    fun probe world hc hp => ⟨?_, fun cb => ?_⟩, fun probe world e hc hp cb => ?_⟩
  · simp only [DO_CALLBACK, check_cancel_none chk editor hc]
  · simp only [DO_CALLBACK, check_cancel_some chk editor hw probe hc world none hp]
  · have hw2 : ({ editor with baton := world } : svn_editor3_t W).within_callback = false := hw
    simp only [DO_CALLBACK, check_cancel_some chk editor hw probe hc world none hp,
      start_callback_clear chk _ hw2]
    have he := end_callback_clear chk { editor with baton := world } hw2
    rcases hcb : cb world x with ⟨w, y⟩ | ⟨⟨w, y⟩, e⟩ | ⟨w, y⟩ | _
    · simp only [invoked]; rw [← he w]
    · simp only [invoked]; rw [← he w]
    · simp only [invoked]
    · simp only [invoked]
  · simp only [DO_CALLBACK, check_cancel_some chk editor hw probe hc world (some e) hp]

/-- A dispatch that returns `SVN_NO_ERROR`: the cancellation function, if set, returned no
error, and the callback, if set, returned `SVN_NO_ERROR`. -/
theorem do_callback_ok_inv {W σ : Type} (chk : Bool) (editor : svn_editor3_t W) (x : σ)
    (cb : Option (W → σ → Reply (W × σ))) (after : svn_editor3_t W) (x' : σ)
    (h : DO_CALLBACK chk editor x cb = Reply.ok (after, x')) :
    (∀ probe, editor.cancel_func = some probe → ∃ world, probe editor.baton = (world, none))
    ∧ (∀ handler, cb = some handler → ∃ w w', handler w x = Reply.ok (w', x')) := by
  unfold DO_CALLBACK check_cancel at h
  constructor
  · intro probe hc
    rw [hc] at h
    simp only at h
    cases hs : START_CALLBACK chk editor with
    | none => rw [hs] at h; simp at h
    | some started =>
      obtain ⟨hb, _⟩ := start_callback_some chk editor started hs
      rw [hs] at h
      simp only at h
      rw [← hb]
      rcases hp : probe started.baton with ⟨world, _ | e⟩
      · exact ⟨world, rfl⟩
      · rw [hp] at h; simp at h
  · rintro handler rfl
    have key : ∀ checked : svn_editor3_t W,
        (match START_CALLBACK chk checked with
          | none => Reply.malfunction (checked, x)
          | some started =>
            match handler started.baton x with
            | Reply.ok (world, x') =>
              Reply.ok (END_CALLBACK chk { started with baton := world }, x')
            | Reply.error (world, x') e =>
              Reply.error (END_CALLBACK chk { started with baton := world }, x') e
            | Reply.malfunction (world, x') =>
              Reply.malfunction ({ started with baton := world }, x')
            | Reply.out_of_fuel => Reply.out_of_fuel) = Reply.ok (after, x') →
        ∃ w w', handler w x = Reply.ok (w', x') := by
      intro checked hk
      cases hs : START_CALLBACK chk checked with
      | none => rw [hs] at hk; simp at hk
      | some started =>
        rw [hs] at hk
        simp only at hk
        rcases hh : handler started.baton x with ⟨w, y⟩ | ⟨⟨w, y⟩, e⟩ | ⟨w, y⟩ | _
        · rw [hh] at hk
          simp only [Reply.ok.injEq, Prod.mk.injEq] at hk
          exact ⟨_, w, by rw [hh, hk.2]⟩
        · rw [hh] at hk; simp at hk
        · rw [hh] at hk; simp at hk
        · rw [hh] at hk; simp at hk
    cases hc : editor.cancel_func with
    | none =>
      rw [hc] at h
      exact key editor h
    | some probe =>
      rw [hc] at h
      simp only at h
      cases hs : START_CALLBACK chk editor with
      | none => rw [hs] at h; simp at h
      | some started =>
        rw [hs] at h
        simp only at h
        rcases hp : probe started.baton with ⟨world, _ | e⟩
        · rw [hp] at h
          exact key _ h
        · rw [hp] at h; simp at h

theorem copy_one_asserted {W : Type} (chk : Bool) (canon : String → Bool)
    (editor : svn_editor3_t W) (src : Option svn_branch_el_rev_id_t)
    (branch : svn_branch_state_t) (eid p : Int) (name : Option String)
    (payload : Option svn_element_payload_t)
    (hv : CopyOneAsserted canon src eid p name payload) :
    svn_editor3_copy_one chk canon editor src branch eid p name payload
      = DO_CALLBACK chk editor branch
          (editor.funcs.cb_copy_one.map
            (fun cb world b => cb world src b eid p name payload)) := by
  obtain ⟨h1, h2, h3, h4, h5⟩ := hv
  have c1 : (!VALID_EID eid) = false := by simp [VALID_EID, h1]
  have c2 : (!VALID_EL_REV_ID src) = false := by simp [h2]
  have c3 : (!VALID_EID p) = false := by simp [VALID_EID, h3]
  have c4 : (!VALID_NAME canon name) = false := by simp [h4]
  have c5 : (!(payload.isNone || VALID_PAYLOAD payload)) = false := by
    simp only [(payload_ok_iff payload).2 h5, Bool.not_true]
  unfold svn_editor3_copy_one
  rw [c1, c2, c3, c4, c5]
  simp

theorem copy_one_malfunction {W : Type} (chk : Bool) (canon : String → Bool)
    (editor : svn_editor3_t W) (src : Option svn_branch_el_rev_id_t)
    (branch : svn_branch_state_t) (eid p : Int) (name : Option String)
    (payload : Option svn_element_payload_t)
    (hv : ¬ CopyOneAsserted canon src eid p name payload) :
    svn_editor3_copy_one chk canon editor src branch eid p name payload
      = Reply.malfunction (editor, branch) := by
  unfold svn_editor3_copy_one
  by_cases c1 : (!VALID_EID eid) = true
  · rw [if_pos c1]
  rw [if_neg c1]
  by_cases c2 : (!VALID_EL_REV_ID src) = true
  · rw [if_pos c2]
  rw [if_neg c2]
  by_cases c3 : (!VALID_EID p) = true
  · rw [if_pos c3]
  rw [if_neg c3]
  by_cases c4 : (!VALID_NAME canon name) = true
  · rw [if_pos c4]
  rw [if_neg c4]
  by_cases c5 : (!(payload.isNone || VALID_PAYLOAD payload)) = true
  · rw [if_pos c5]
  exfalso
  apply hv
  simp only [Bool.not_eq_true, Bool.not_eq_false', Bool.not_not] at c1 c2 c3 c4 c5
  exact ⟨by simpa [VALID_EID] using c1, c2, by simpa [VALID_EID] using c3, c4,
    (payload_ok_iff payload).1 c5⟩

theorem copy_tree_asserted {W : Type} (chk : Bool) (canon : String → Bool)
    (editor : svn_editor3_t W) (src : Option svn_branch_el_rev_id_t)
    (branch : svn_branch_state_t) (p : Int) (name : Option String)
    (hv : CopyTreeAsserted canon src p name) :
    svn_editor3_copy_tree chk canon editor src branch p name
      = DO_CALLBACK chk editor branch
          (editor.funcs.cb_copy_tree.map (fun cb world b => cb world src b p name)) := by
  obtain ⟨h2, h3, h4⟩ := hv
  have c2 : (!VALID_EL_REV_ID src) = false := by simp [h2]
  have c3 : (!VALID_EID p) = false := by simp [VALID_EID, h3]
  have c4 : (!VALID_NAME canon name) = false := by simp [h4]
  unfold svn_editor3_copy_tree
  rw [c2, c3, c4]
  simp

theorem copy_tree_malfunction {W : Type} (chk : Bool) (canon : String → Bool)
    (editor : svn_editor3_t W) (src : Option svn_branch_el_rev_id_t)
    (branch : svn_branch_state_t) (p : Int) (name : Option String)
    (hv : ¬ CopyTreeAsserted canon src p name) :
    svn_editor3_copy_tree chk canon editor src branch p name
      = Reply.malfunction (editor, branch) := by
  unfold svn_editor3_copy_tree
  by_cases c2 : (!VALID_EL_REV_ID src) = true
  · rw [if_pos c2]
  rw [if_neg c2]
  by_cases c3 : (!VALID_EID p) = true
  · rw [if_pos c3]
  rw [if_neg c3]
  by_cases c4 : (!VALID_NAME canon name) = true
  · rw [if_pos c4]
  exfalso
  apply hv
  simp only [Bool.not_eq_true, Bool.not_eq_false', Bool.not_not] at c2 c3 c4
  exact ⟨c2, by simpa [VALID_EID] using c3, c4⟩

theorem sequence_point_cases {W : Type} (chk : Bool) (editor : svn_editor3_t W) :
    svn_editor3_sequence_point chk editor
      = if chk = true ∧ editor.finished = true then Reply.malfunction (editor, ())
        else DO_CALLBACK chk editor () editor.funcs.cb_sequence_point := by
  unfold svn_editor3_sequence_point SHOULD_NOT_BE_FINISHED
  cases chk <;> cases editor.finished <;> simp

theorem complete_cases {W : Type} (chk : Bool) (editor : svn_editor3_t W) :
    (chk = true ∧ editor.finished = true →
      svn_editor3_complete chk editor = Reply.malfunction (editor, ()))
    ∧ (¬ (chk = true ∧ editor.finished = true) →
      (∀ called u, DO_CALLBACK chk editor () editor.funcs.cb_complete = Reply.ok (called, u) →
        svn_editor3_complete chk editor = Reply.ok (MARK_FINISHED chk called, u))
      ∧ ((∀ s, DO_CALLBACK chk editor () editor.funcs.cb_complete ≠ Reply.ok s) →
        svn_editor3_complete chk editor
          = DO_CALLBACK chk editor () editor.funcs.cb_complete)) := by
  unfold svn_editor3_complete SHOULD_NOT_BE_FINISHED
  constructor
  · rintro ⟨rfl, hf⟩
    simp [hf]
  · intro hn
    have hc : (!(if chk = true then !editor.finished else true)) = false := by
      cases chk <;> cases hf : editor.finished <;> simp_all
    rw [hc]
    simp only [Bool.false_eq_true, if_false]
    constructor
    · intro called u hd
      rw [hd]
    · intro hne
      rcases hd : DO_CALLBACK chk editor () editor.funcs.cb_complete with s | _ | _ | _
      · exact absurd hd (hne s)
      · simp only [hd]
      · simp only [hd]
      · simp only [hd]

theorem abort_cases {W : Type} (chk : Bool) (editor : svn_editor3_t W) :
    (chk = true ∧ editor.finished = true →
      svn_editor3_abort chk editor = Reply.malfunction (editor, ()))
    ∧ (¬ (chk = true ∧ editor.finished = true) →
      (∀ called u, DO_CALLBACK chk editor () editor.funcs.cb_abort = Reply.ok (called, u) →
        svn_editor3_abort chk editor = Reply.ok (MARK_FINISHED chk called, u))
      ∧ ((∀ s, DO_CALLBACK chk editor () editor.funcs.cb_abort ≠ Reply.ok s) →
        svn_editor3_abort chk editor = DO_CALLBACK chk editor () editor.funcs.cb_abort)) := by
  unfold svn_editor3_abort SHOULD_NOT_BE_FINISHED
  constructor
  · rintro ⟨rfl, hf⟩
    simp [hf]
  · intro hn
    have hc : (!(if chk = true then !editor.finished else true)) = false := by
      cases chk <;> cases hf : editor.finished <;> simp_all
    rw [hc]
    simp only [Bool.false_eq_true, if_false]
    constructor
    · intro called u hd
      rw [hd]
    · intro hne
      rcases hd : DO_CALLBACK chk editor () editor.funcs.cb_abort with s | _ | _ | _
      · exact absurd hd (hne s)
      · simp only [hd]
      · simp only [hd]
      · simp only [hd]

theorem new_eid_cases {W : Type} (chk : Bool) (editor : svn_editor3_t W)
    (branch : svn_branch_state_t) :
    (∀ called b eid, DO_CALLBACK chk editor (branch, (-1 : Int))
          (editor.funcs.cb_new_eid.map (fun cb world x => cb world x.1 x.2))
        = Reply.ok (called, (b, eid)) →
      svn_editor3_new_eid chk editor branch
        = if 0 ≤ eid then Reply.ok (called, (b, eid))
          else Reply.malfunction (called, (b, eid)))
    ∧ ((∀ s, DO_CALLBACK chk editor (branch, (-1 : Int))
          (editor.funcs.cb_new_eid.map (fun cb world x => cb world x.1 x.2)) ≠ Reply.ok s) →
      svn_editor3_new_eid chk editor branch
        = DO_CALLBACK chk editor (branch, (-1 : Int))
            (editor.funcs.cb_new_eid.map (fun cb world x => cb world x.1 x.2))) := by
  unfold svn_editor3_new_eid
  constructor
  · intro called b eid hd
    rw [hd]
    by_cases h : 0 ≤ eid
    · simp [VALID_EID, h]
    · simp [VALID_EID, h]
  · intro hne
    rcases hd : DO_CALLBACK chk editor (branch, (-1 : Int))
        (editor.funcs.cb_new_eid.map (fun cb world x => cb world x.1 x.2)) with s | _ | _ | _
    · exact absurd hd (hne s)
    · simp only [hd]
    · simp only [hd]
    · simp only [hd]

theorem finished_after_finish {W : Type} (canon : String → Bool)
    {editor done : svn_editor3_t W} {u : Unit}
    (hdone : svn_editor3_complete true editor = Reply.ok (done, u)
      ∨ svn_editor3_abort true editor = Reply.ok (done, u)) :
    done.finished = true := by
  rcases hdone with h | h
  · have hs : (run_call true canon 0 editor editor_call.complete).state = some done := by
      simp only [run_call, h, Reply.map, Reply.state]
    have := (run_call_stepped true canon 0 editor editor_call.complete done hs).2.2.2
    simp only [run_call, h, Reply.map, Reply.succeeded, editor_call.finishes, Bool.and_self,
      Bool.or_true] at this
    exact this
  · have hs : (run_call true canon 0 editor editor_call.abort).state = some done := by
      simp only [run_call, h, Reply.map, Reply.state]
    have := (run_call_stepped true canon 0 editor editor_call.abort done hs).2.2.2
    simp only [run_call, h, Reply.map, Reply.succeeded, editor_call.finishes, Bool.and_self,
      Bool.or_true] at this
    exact this

/-- C31 (amended): with the ordering check enabled, once `complete` or `abort` has returned
`SVN_NO_ERROR` on an editor, every later call of `sequence_point`, `complete` or `abort` on that
editor, whatever operations were called in between, aborts on the assertion of
`SHOULD_NOT_BE_FINISHED` with the editor as it was, so without a call of its handler. -/
theorem finished_editor_rejects {W : Type} (svn_relpath_is_canonical : String → Bool)
    (editor done later : svn_editor3_t W) (u : Unit)
    (hdone : svn_editor3_complete true editor = Reply.ok (done, u)
      ∨ svn_editor3_abort true editor = Reply.ok (done, u))
    (hlater : Later true svn_relpath_is_canonical done later) :
    svn_editor3_sequence_point true later = Reply.malfunction (later, ())
    ∧ svn_editor3_complete true later = Reply.malfunction (later, ())
    ∧ svn_editor3_abort true later = Reply.malfunction (later, ()) := by
  have hf : later.finished = true :=
    (later_kept hlater).2.2 (finished_after_finish svn_relpath_is_canonical hdone)
  refine ⟨?_, (complete_cases true later).1 ⟨rfl, hf⟩, (abort_cases true later).1 ⟨rfl, hf⟩⟩
  rw [sequence_point_cases, if_pos ⟨rfl, hf⟩]

/-- C31, witness: the counting editor is completed, an `add` is called on it, and then
`sequence_point`, `complete` and `abort` abort with the count unchanged. -/
theorem finished_editor_rejects_witness :
    svn_editor3_complete true counting_editor = Reply.ok (completed_editor, ())
    ∧ Later true example_is_canonical completed_editor { completed_editor with baton := 2 }
    ∧ svn_editor3_sequence_point true { completed_editor with baton := 2 }
        = Reply.malfunction ({ completed_editor with baton := 2 }, ())
    ∧ svn_editor3_complete true { completed_editor with baton := 2 }
        = Reply.malfunction ({ completed_editor with baton := 2 }, ())
    ∧ svn_editor3_abort true { completed_editor with baton := 2 }
        = Reply.malfunction ({ completed_editor with baton := 2 }, ()) :=
  have hl : Later true example_is_canonical completed_editor
      { completed_editor with baton := 2 } :=
    Later.step completed_editor _ 1
      (editor_call.add example_branch_state 1 0 (some "file.txt") (some example_payload))
      Later.refl rfl
  ⟨rfl, hl,
    finished_editor_rejects example_is_canonical counting_editor completed_editor
      { completed_editor with baton := 2 } () (Or.inl rfl) hl⟩

/-- C31, counterexample: in a build without the ordering check, `complete` returns
`SVN_NO_ERROR` on the counting editor, and `sequence_point`, `complete` and `abort` called after
it return `SVN_NO_ERROR` too, each with its handler called (the count goes up). -/
theorem finished_unchecked_editor_accepts :
    svn_editor3_complete false counting_editor
      = Reply.ok ({ counting_editor with baton := 1 }, ())
    ∧ svn_editor3_sequence_point false { counting_editor with baton := 1 }
      = Reply.ok ({ counting_editor with baton := 2 }, ())
    ∧ svn_editor3_complete false { counting_editor with baton := 1 }
      = Reply.ok ({ counting_editor with baton := 2 }, ())
    ∧ svn_editor3_abort false { counting_editor with baton := 1 }
      = Reply.ok ({ counting_editor with baton := 2 }, ()) :=
  ⟨rfl, rfl, rfl, rfl⟩

/-- C32, the divergence: with the ordering check enabled, on a finished editor on which no
callback is running and which has no cancellation function, `svn_editor3_add`,
`svn_editor3_copy_one`, `svn_editor3_copy_tree`, `svn_editor3_delete`, `svn_editor3_alter`,
`svn_editor3_payload_resolve` and `svn_editor3_new_eid` with arguments that pass their
assertions call the handler and return what it returns; whatever is called, the editor stays
finished. -/
theorem finished_editor_still_dispatches {W : Type}
    (svn_relpath_is_canonical : String → Bool) (editor : svn_editor3_t W)
    (hf : editor.finished = true) (hc : editor.cancel_func = none)
    (hw : editor.within_callback = false) :
    (∀ branch eid p name payload cb, editor.funcs.cb_add = some cb →
      AddAsserted svn_relpath_is_canonical eid p name payload → p ≠ eid →
      svn_editor3_add true svn_relpath_is_canonical editor branch eid p name payload
        = invoked true editor (cb editor.baton branch eid p name payload))
    ∧ (∀ src branch eid p name payload cb, editor.funcs.cb_copy_one = some cb →
      CopyOneAsserted svn_relpath_is_canonical src eid p name payload →
      svn_editor3_copy_one true svn_relpath_is_canonical editor src branch eid p name payload
        = invoked true editor (cb editor.baton src branch eid p name payload))
    ∧ (∀ src branch p name cb, editor.funcs.cb_copy_tree = some cb →
      CopyTreeAsserted svn_relpath_is_canonical src p name →
      svn_editor3_copy_tree true svn_relpath_is_canonical editor src branch p name
        = invoked true editor (cb editor.baton src branch p name))
    ∧ (∀ branch eid cb, editor.funcs.cb_delete = some cb → 0 ≤ eid → eid ≠ branch.root_eid →
      svn_editor3_delete true editor branch eid
        = invoked true editor (cb editor.baton branch eid))
    ∧ (∀ branch eid p name payload cb, editor.funcs.cb_alter = some cb →
      AlterValid svn_relpath_is_canonical branch eid p name payload →
      ∃ K, ∀ fuel, K ≤ fuel →
        svn_editor3_alter true svn_relpath_is_canonical fuel editor branch eid p name payload
          = invoked true editor (cb editor.baton
              { branch with next_eid := max branch.next_eid (max (eid + 1) (p + 1)) }
              eid p name payload))
    ∧ (∀ payload element cb, editor.funcs.cb_payload_resolve = some cb →
      svn_editor3_payload_resolve true editor payload element
        = invoked true editor (cb editor.baton payload element))
    ∧ (∀ branch cb world b eid, editor.funcs.cb_new_eid = some cb →
      cb editor.baton branch (-1) = Reply.ok (world, (b, eid)) → 0 ≤ eid →
      svn_editor3_new_eid true editor branch
        = Reply.ok ({ editor with baton := world }, (b, eid)))
    ∧ (∀ fuel call after,
      (run_call true svn_relpath_is_canonical fuel editor call).state = some after →
      after.finished = true) := by
  refine ⟨?_, ?_, ?_, ?_, ?_, ?_, ?_, ?_⟩
  · intro branch eid p name payload cb hcb hv hne
    rw [add_asserted true _ editor branch eid p name payload hv, if_neg hne, hcb]
    exact do_callback_plain true editor _ _ hc hw
  · intro src branch eid p name payload cb hcb hv
    rw [copy_one_asserted true _ editor src branch eid p name payload hv, hcb]
    exact do_callback_plain true editor _ _ hc hw
  · intro src branch p name cb hcb hv
    rw [copy_tree_asserted true _ editor src branch p name hv, hcb]
    exact do_callback_plain true editor _ _ hc hw
  · intro branch eid cb hcb h0 hne
    rw [delete_cases, if_neg (by omega), hcb]
    exact do_callback_plain true editor _ _ hc hw
  · intro branch eid p name payload cb hcb hv
    refine ⟨(max (eid + 1) (p + 1) - branch.next_eid).toNat + 1, fun fuel hfu => ?_⟩
    rw [alter_of_valid true _ editor branch eid p name payload hv fuel (by omega), hcb]
    exact do_callback_plain true editor _ _ hc hw
  · intro payload element cb hcb
    unfold svn_editor3_payload_resolve
    rw [hcb]
    exact do_callback_plain true editor _ _ hc hw
  · intro branch cb world b eid hcb hr h0
    have hd : DO_CALLBACK true editor (branch, (-1 : Int))
        (editor.funcs.cb_new_eid.map (fun cb world x => cb world x.1 x.2))
        = Reply.ok ({ editor with baton := world }, (b, eid)) := by
      rw [hcb]
      exact (do_callback_plain true editor _ _ hc hw).trans (by simp only [hr, invoked])
    rw [(new_eid_cases true editor branch).1 _ _ _ hd, if_pos h0]
  · intro fuel call after hs
    have := (run_call_stepped true _ fuel editor call after hs).2.2.2
    rw [this, hf]
    rfl

/-- C32, witness: the counting editor is completed with the ordering check enabled; it is
finished, and `add(branch, 1, 0, "file.txt", payload)` on it calls the handler (the count goes
from 1 to 2) and returns `SVN_NO_ERROR`. -/
theorem finished_editor_still_dispatches_witness :
    svn_editor3_complete true counting_editor = Reply.ok (completed_editor, ())
    ∧ completed_editor.finished = true
    ∧ svn_editor3_add true example_is_canonical completed_editor example_branch_state 1 0
        (some "file.txt") (some example_payload)
      = Reply.ok ({ completed_editor with baton := 2 }, example_branch_state) :=
  ⟨rfl, rfl,
    ((finished_editor_still_dispatches example_is_canonical completed_editor rfl rfl rfl).1
      example_branch_state 1 0 (some "file.txt") (some example_payload) _ rfl
      ⟨by decide, by decide, by decide, Or.inr (by decide)⟩ (by decide)).trans rfl⟩

/-- C39: editor alter allocates before it dispatches.  For every call of `svn_editor3_alter`
on an editor on which no callback is running whose arguments pass the validation, with
`allocated` the branch whose `next_eid` is the maximum of the old one, `eid + 1` and
`new_parent_eid + 1` (so above both), given enough fuel: when the cancellation function signals
an error, the call returns that error with the branch `allocated`; and when the handler
returns an error, the call returns that error with the branch as the handler left it, the
handler having been given `allocated`, so `next_eid` is above both unless the handler lowered
it.  A call whose arguments do not pass the validation stops with the branch unchanged. -/
theorem alter_allocates_before_cancel {W : Type} (ENABLE_ORDERING_CHECK : Bool)
    (svn_relpath_is_canonical : String → Bool) (editor : svn_editor3_t W)
    (branch : svn_branch_state_t) (eid new_parent_eid : Int) (new_name : Option String)
    (new_payload : Option svn_element_payload_t) (hw : editor.within_callback = false) :
    (AlterValid svn_relpath_is_canonical branch eid new_parent_eid new_name new_payload →
      ∃ K allocated,
        allocated = { branch with
            next_eid := max branch.next_eid (max (eid + 1) (new_parent_eid + 1)) }
        ∧ eid < allocated.next_eid ∧ new_parent_eid < allocated.next_eid
        ∧ (∀ fuel probe world e, K ≤ fuel → editor.cancel_func = some probe →
            probe editor.baton = (world, some e) →
            svn_editor3_alter ENABLE_ORDERING_CHECK svn_relpath_is_canonical fuel editor branch
                eid new_parent_eid new_name new_payload
              = Reply.error ({ editor with baton := world }, allocated) e)
        ∧ (∀ fuel cb world b e, K ≤ fuel → editor.cancel_func = none →
            editor.funcs.cb_alter = some cb →
            cb editor.baton allocated eid new_parent_eid new_name new_payload
              = Reply.error (world, b) e →
            svn_editor3_alter ENABLE_ORDERING_CHECK svn_relpath_is_canonical fuel editor branch
                eid new_parent_eid new_name new_payload
              = Reply.error ({ editor with baton := world }, b) e
            ∧ (allocated.next_eid ≤ b.next_eid →
                eid < b.next_eid ∧ new_parent_eid < b.next_eid))
        ∧ (∀ fuel probe world cb world' b e, K ≤ fuel → editor.cancel_func = some probe →
            probe editor.baton = (world, none) → editor.funcs.cb_alter = some cb →
            cb world allocated eid new_parent_eid new_name new_payload
              = Reply.error (world', b) e →
            svn_editor3_alter ENABLE_ORDERING_CHECK svn_relpath_is_canonical fuel editor branch
                eid new_parent_eid new_name new_payload
              = Reply.error ({ editor with baton := world' }, b) e
            ∧ (allocated.next_eid ≤ b.next_eid →
                eid < b.next_eid ∧ new_parent_eid < b.next_eid)))
    ∧ (¬ AlterValid svn_relpath_is_canonical branch eid new_parent_eid new_name new_payload →
      ∀ fuel,
        svn_editor3_alter ENABLE_ORDERING_CHECK svn_relpath_is_canonical fuel editor branch
            eid new_parent_eid new_name new_payload
          = Reply.malfunction (editor, branch)
        ∨ svn_editor3_alter ENABLE_ORDERING_CHECK svn_relpath_is_canonical fuel editor branch
            eid new_parent_eid new_name new_payload
          = Reply.error (editor, branch) svn_errno_t.SVN_ERR_BRANCHING) := by
  refine ⟨fun hv => ?_, fun hv fuel => alter_of_invalid _ _ editor branch eid new_parent_eid
    new_name new_payload hv fuel⟩
  have h := alter_of_valid ENABLE_ORDERING_CHECK svn_relpath_is_canonical editor branch eid
    new_parent_eid new_name new_payload hv
  have hlt1 : eid < max branch.next_eid (max (eid + 1) (new_parent_eid + 1)) := by omega
  have hlt2 : new_parent_eid < max branch.next_eid (max (eid + 1) (new_parent_eid + 1)) := by
    omega
  obtain ⟨d1, d2, d3⟩ := do_callback_cases ENABLE_ORDERING_CHECK editor
    ({ branch with next_eid := max branch.next_eid (max (eid + 1) (new_parent_eid + 1)) } :
      svn_branch_state_t) hw
  refine ⟨(max (eid + 1) (new_parent_eid + 1) - branch.next_eid).toNat + 1, _, rfl, hlt1,
    hlt2, ?_, ?_, ?_⟩
  · intro fuel probe world e hf hc hp
    rw [h fuel (by omega)]
    exact d3 probe world e hc hp _
  · intro fuel cb world b e hf hc hcb hr
    refine ⟨?_, fun hle => ⟨by simp only at hle; omega, by simp only at hle; omega⟩⟩
    rw [h fuel (by omega), hcb]
    exact ((d1 hc).2 _).trans (by simp only [hr, invoked])
  · intro fuel probe world cb world' b e hf hc hp hcb hr
    refine ⟨?_, fun hle => ⟨by simp only at hle; omega, by simp only at hle; omega⟩⟩
    rw [h fuel (by omega), hcb]
    exact ((d2 probe world hc hp).2 _).trans (by simp only [hr, invoked])

/-- C39, witness: on the editor whose cancellation function signals, `alter(branch, 5, 3, "a")`
on the example branch, whose next EID is 2, returns the error of the function with the next
EID 6. -/
theorem alter_allocates_before_cancel_witness :
    AlterValid example_is_canonical example_branch_state 5 3 (some "a") none
    ∧ ∃ K, ∀ fuel, K ≤ fuel →
        svn_editor3_alter true example_is_canonical fuel cancelling_editor example_branch_state
            5 3 (some "a") none
          = Reply.error ({ cancelling_editor with baton := 10 }, { root_eid := 0, next_eid := 6 })
              svn_errno_t.SVN_ERR_CANCELLED := by
  have hv : AlterValid example_is_canonical example_branch_state 5 3 (some "a") none :=
    ⟨by decide, ⟨by decide, by decide⟩, Or.inl rfl, by decide⟩
  obtain ⟨K, allocated, ha, _, _, h4, _⟩ := (alter_allocates_before_cancel true
    example_is_canonical cancelling_editor example_branch_state 5 3 (some "a") none rfl).1 hv
  refine ⟨hv, K, fun fuel hf => ?_⟩
  rw [h4 fuel _ 10 svn_errno_t.SVN_ERR_CANCELLED hf rfl rfl, ha]
  rfl

theorem finishes_iff (call : editor_call) :
    call.finishes = true ↔ call = editor_call.complete ∨ call = editor_call.abort := by
  cases call <;> simp [editor_call.finishes]

theorem succeeded_iff {σ : Type} (r : Reply σ) (s : σ) (h : r.state = some s) :
    r.succeeded = true ↔ r = Reply.ok s := by
  cases r with
  | ok t => simp only [Reply.state, Option.some.injEq] at h; simp [Reply.succeeded, h]
  | error t e => simp [Reply.succeeded]
  | malfunction t => simp [Reply.succeeded]
  | out_of_fuel => simp [Reply.succeeded]

/-- C40: the finished-state machine of the editor, with the ordering check enabled.  An editor
as `svn_editor3_create` makes it is not finished and has no callback running.  After a call of
any operation the editor is finished exactly when it was finished before or the call was a
`complete` or `abort` that returned `SVN_NO_ERROR`, so the flag is never cleared; such a
`complete` or `abort` had its cancellation function, if any, return no error and its handler,
if any, return `SVN_NO_ERROR`.  When `complete` or `abort` returns an error on an editor that
is not finished, the editor is still not finished, and `complete` and `abort` pass the test of
`SHOULD_NOT_BE_FINISHED` again.  When no callback was running and the operation returned,
`within_callback` is FALSE afterwards. -/
theorem finished_state_machine {W : Type} (svn_relpath_is_canonical : String → Bool)
    (editor : svn_editor3_t W) :
    (∀ funcs (baton : W) cancel,
      (svn_editor3_create funcs baton cancel).finished = false
      ∧ (svn_editor3_create funcs baton cancel).within_callback = false)
    ∧ (∀ fuel call after,
      (run_call true svn_relpath_is_canonical fuel editor call).state = some after →
      (after.finished = true
        ↔ editor.finished = true
          ∨ ((call = editor_call.complete ∨ call = editor_call.abort)
            ∧ run_call true svn_relpath_is_canonical fuel editor call = Reply.ok after))
      ∧ ((run_call true svn_relpath_is_canonical fuel editor call).returned = true →
          editor.within_callback = false → after.within_callback = false))
    ∧ (∀ later, Later true svn_relpath_is_canonical editor later →
      editor.finished = true → later.finished = true)
    ∧ (∀ after u, svn_editor3_complete true editor = Reply.ok (after, u) →
      (∀ probe, editor.cancel_func = some probe →
        ∃ world, probe editor.baton = (world, none))
      ∧ (∀ handler, editor.funcs.cb_complete = some handler →
        ∃ w w', handler w () = Reply.ok (w', ())))
    ∧ (∀ after u, svn_editor3_abort true editor = Reply.ok (after, u) →
      (∀ probe, editor.cancel_func = some probe →
        ∃ world, probe editor.baton = (world, none))
      ∧ (∀ handler, editor.funcs.cb_abort = some handler →
        ∃ w w', handler w () = Reply.ok (w', ())))
    ∧ (∀ after u e, editor.finished = false →
      (svn_editor3_complete true editor = Reply.error (after, u) e
        ∨ svn_editor3_abort true editor = Reply.error (after, u) e) →
      after.finished = false
      ∧ SHOULD_NOT_BE_FINISHED true after = true
      ∧ (∀ called v, DO_CALLBACK true after () after.funcs.cb_complete
            = Reply.ok (called, v) →
          svn_editor3_complete true after = Reply.ok (MARK_FINISHED true called, v))
      ∧ (∀ called v, DO_CALLBACK true after () after.funcs.cb_abort = Reply.ok (called, v) →
          svn_editor3_abort true after = Reply.ok (MARK_FINISHED true called, v))) := by
  refine ⟨fun _ _ _ => ⟨rfl, rfl⟩, ?_, fun later hl => (later_kept hl).2.2, ?_, ?_, ?_⟩
  · intro fuel call after hs
    obtain ⟨_, _, h3, h4⟩ := run_call_stepped true svn_relpath_is_canonical fuel editor call
      after hs
    refine ⟨?_, h3⟩
    rw [h4]
    simp only [Bool.true_and, Bool.or_eq_true, Bool.and_eq_true, finishes_iff,
      succeeded_iff _ after hs]
  · intro after u h
    have hn : ¬ ((true = true) ∧ editor.finished = true) := by
      rintro ⟨_, hf⟩
      rw [(complete_cases true editor).1 ⟨rfl, hf⟩] at h
      cases h
    rcases hd : DO_CALLBACK true editor () editor.funcs.cb_complete with ⟨called, v⟩ | _ | _ | _
    · exact do_callback_ok_inv true editor () _ called v hd
    · rw [((complete_cases true editor).2 hn).2 (fun s hs => by rw [hd] at hs; cases hs), hd]
        at h
      cases h
    · rw [((complete_cases true editor).2 hn).2 (fun s hs => by rw [hd] at hs; cases hs), hd]
        at h
      cases h
    · rw [((complete_cases true editor).2 hn).2 (fun s hs => by rw [hd] at hs; cases hs), hd]
        at h
      cases h
  · intro after u h
    have hn : ¬ ((true = true) ∧ editor.finished = true) := by
      rintro ⟨_, hf⟩
      rw [(abort_cases true editor).1 ⟨rfl, hf⟩] at h
      cases h
    rcases hd : DO_CALLBACK true editor () editor.funcs.cb_abort with ⟨called, v⟩ | _ | _ | _
    · exact do_callback_ok_inv true editor () _ called v hd
    · rw [((abort_cases true editor).2 hn).2 (fun s hs => by rw [hd] at hs; cases hs), hd] at h
      cases h
    · rw [((abort_cases true editor).2 hn).2 (fun s hs => by rw [hd] at hs; cases hs), hd] at h
      cases h
    · rw [((abort_cases true editor).2 hn).2 (fun s hs => by rw [hd] at hs; cases hs), hd] at h
      cases h
  · intro after u e hf h
    have hfa : after.finished = false := by
      rcases h with h | h
      · have hs : (run_call true svn_relpath_is_canonical 0 editor
            editor_call.complete).state = some after := by
          simp only [run_call, h, Reply.map, Reply.state]
        have := (run_call_stepped true svn_relpath_is_canonical 0 editor
          editor_call.complete after hs).2.2.2
        simp only [run_call, h, Reply.map, Reply.succeeded, hf, Bool.and_false,
          Bool.or_false] at this
        exact this
      · have hs : (run_call true svn_relpath_is_canonical 0 editor
            editor_call.abort).state = some after := by
          simp only [run_call, h, Reply.map, Reply.state]
        have := (run_call_stepped true svn_relpath_is_canonical 0 editor
          editor_call.abort after hs).2.2.2
        simp only [run_call, h, Reply.map, Reply.succeeded, hf, Bool.and_false,
          Bool.or_false] at this
        exact this
    have hn : ¬ ((true = true) ∧ after.finished = true) := by
      rintro ⟨_, h2⟩
      rw [hfa] at h2
      cases h2
    exact ⟨hfa, by simp [SHOULD_NOT_BE_FINISHED, hfa],
      ((complete_cases true after).2 hn).1, ((abort_cases true after).2 hn).1⟩

/-- C40, witness: the editor whose cancellation function signals is not finished after
`complete` returned the error, and `complete` passes the test again; the counting editor is
finished after `complete` and stays finished after an `add`. -/
theorem finished_state_machine_witness :
    svn_editor3_complete true cancelling_editor
      = Reply.error ({ cancelling_editor with baton := 10 }, ())
          svn_errno_t.SVN_ERR_CANCELLED
    ∧ ({ cancelling_editor with baton := 10 } : svn_editor3_t Nat).finished = false
    ∧ SHOULD_NOT_BE_FINISHED true
        ({ cancelling_editor with baton := 10 } : svn_editor3_t Nat) = true
    ∧ (completed_editor.finished = true
      → ({ completed_editor with baton := 2 } : svn_editor3_t Nat).finished = true) :=
  have h := (finished_state_machine example_is_canonical cancelling_editor).2.2.2.2.2
    { cancelling_editor with baton := 10 } () svn_errno_t.SVN_ERR_CANCELLED rfl (Or.inl rfl)
  ⟨rfl, h.1, h.2.1,
    (finished_state_machine example_is_canonical completed_editor).2.2.1
      { completed_editor with baton := 2 }
      (Later.step completed_editor _ 1
        (editor_call.add example_branch_state 1 0 (some "file.txt") (some example_payload))
        Later.refl rfl)⟩

theorem wrapped_invoked_forward {W σ : Type} (chk : Bool)
    (w : svn_editor3_t (change_detection_baton_t W)) (eb : change_detection_baton_t W)
    (r : Reply (svn_editor3_t W × σ)) :
    wrapped_reply (invoked chk w (change_detection_forward eb r)) = r := by
  rcases r with ⟨e, x⟩ | ⟨⟨e, x⟩, err⟩ | ⟨e, x⟩ | _ <;> rfl

theorem invoked_forward_flag {W σ : Type} (chk : Bool)
    (w : svn_editor3_t (change_detection_baton_t W)) (eb : change_detection_baton_t W)
    (r : Reply (svn_editor3_t W × σ)) (after : svn_editor3_t (change_detection_baton_t W))
    (x : σ) (h : (invoked chk w (change_detection_forward eb r)).state = some (after, x)) :
    after.baton.change_detected = eb.change_detected
      ∧ after.finished = w.finished := by
  rcases r with ⟨e, y⟩ | ⟨⟨e, y⟩, err⟩ | ⟨e, y⟩ | _ <;>
    simp only [change_detection_forward, Reply.map, invoked, Reply.state, Option.some.injEq,
      Prod.mk.injEq, reduceCtorEq] at h
  · obtain ⟨rfl, _⟩ := h; exact ⟨rfl, rfl⟩
  · obtain ⟨rfl, _⟩ := h; exact ⟨rfl, rfl⟩
  · obtain ⟨rfl, _⟩ := h; exact ⟨rfl, rfl⟩

theorem wrapper_add {W : Type} {chk : Bool} {canon : String → Bool} {fuel0 : Nat}
    {w : svn_editor3_t (change_detection_baton_t W)} (hI : WrapperInv chk canon fuel0 w)
    (branch : svn_branch_state_t) (eid p : Int) (name : Option String)
    (payload : Option svn_element_payload_t) (hv : AddAsserted canon eid p name payload)
    (hp : p ≠ eid) :
    svn_editor3_add chk canon w branch eid p name payload
      = invoked chk w (change_detection_add chk canon w.baton branch eid p name payload) := by
  rw [add_asserted chk canon w branch eid p name payload hv, if_neg hp, hI.1]
  exact do_callback_plain chk w branch _ hI.2.1 hI.2.2.1

theorem wrapper_copy_one {W : Type} {chk : Bool} {canon : String → Bool} {fuel0 : Nat}
    {w : svn_editor3_t (change_detection_baton_t W)} (hI : WrapperInv chk canon fuel0 w)
    (src : Option svn_branch_el_rev_id_t) (branch : svn_branch_state_t) (eid p : Int)
    (name : Option String) (payload : Option svn_element_payload_t)
    (hv : CopyOneAsserted canon src eid p name payload) :
    svn_editor3_copy_one chk canon w src branch eid p name payload
      = invoked chk w
          (change_detection_copy_one chk canon w.baton src branch eid p name payload) := by
  rw [copy_one_asserted chk canon w src branch eid p name payload hv, hI.1]
  exact do_callback_plain chk w branch _ hI.2.1 hI.2.2.1

theorem wrapper_copy_tree {W : Type} {chk : Bool} {canon : String → Bool} {fuel0 : Nat}
    {w : svn_editor3_t (change_detection_baton_t W)} (hI : WrapperInv chk canon fuel0 w)
    (src : Option svn_branch_el_rev_id_t) (branch : svn_branch_state_t) (p : Int)
    (name : Option String) (hv : CopyTreeAsserted canon src p name) :
    svn_editor3_copy_tree chk canon w src branch p name
      = invoked chk w (change_detection_copy_tree chk canon w.baton src branch p name) := by
  rw [copy_tree_asserted chk canon w src branch p name hv, hI.1]
  exact do_callback_plain chk w branch _ hI.2.1 hI.2.2.1

theorem wrapper_delete {W : Type} {chk : Bool} {canon : String → Bool} {fuel0 : Nat}
    {w : svn_editor3_t (change_detection_baton_t W)} (hI : WrapperInv chk canon fuel0 w)
    (branch : svn_branch_state_t) (eid : Int) (h1 : 0 ≤ eid) (h2 : eid ≠ branch.root_eid) :
    svn_editor3_delete chk w branch eid
      = invoked chk w (change_detection_delete chk w.baton branch eid) := by
  rw [delete_cases chk w branch eid, if_neg (by omega), hI.1]
  exact do_callback_plain chk w branch _ hI.2.1 hI.2.2.1

theorem alter_of_loop {W : Type} (chk : Bool) (canon : String → Bool)
    (editor : svn_editor3_t W) (branch : svn_branch_state_t) (eid p : Int)
    (name : Option String) (payload : Option svn_element_payload_t)
    (hv : AlterValid canon branch eid p name payload) (fuel : Nat) :
    (svn_editor3_alter_loop eid p fuel branch = none →
      svn_editor3_alter chk canon fuel editor branch eid p name payload = Reply.out_of_fuel)
    ∧ (∀ allocated, svn_editor3_alter_loop eid p fuel branch = some allocated →
      svn_editor3_alter chk canon fuel editor branch eid p name payload
        = DO_CALLBACK chk editor allocated
            (editor.funcs.cb_alter.map
              (fun cb world b => cb world b eid p name payload))) := by
  obtain ⟨h1, h2, h3, h4⟩ := hv
  have c1 : (!VALID_EID eid) = false := by simp [VALID_EID, h1]
  have c2 : (!(if eid = branch.root_eid then p == -1 else VALID_EID p)) = false := by
    by_cases hr : eid = branch.root_eid
    · rw [if_pos hr] at h2 ⊢; simp [h2.1]
    · rw [if_neg hr] at h2 ⊢; simp [VALID_EID, h2.1]
  have c3 : (!(if eid = branch.root_eid then name == some ""
              else VALID_NAME canon name)) = false := by
    by_cases hr : eid = branch.root_eid
    · rw [if_pos hr] at h2 ⊢; simp [h2.2]
    · rw [if_neg hr] at h2 ⊢; simp [h2.2]
  have c4 : (!(payload.isNone || VALID_PAYLOAD payload)) = false := by
    rcases h3 with rfl | h3
    · rfl
    · simp [h3]
  have c5 : (!(p != eid)) = false := by simp [h4]
  unfold svn_editor3_alter
  rw [c1, c2, c3, c4, c5]
  simp only [Bool.false_eq_true, if_false]
  constructor
  · intro hl
    simp only [hl]
  · intro allocated hl
    simp only [hl]

theorem wrapper_alter {W : Type} {chk : Bool} {canon : String → Bool} {fuel0 : Nat}
    {w : svn_editor3_t (change_detection_baton_t W)} (hI : WrapperInv chk canon fuel0 w)
    (branch : svn_branch_state_t) (eid p : Int) (name : Option String)
    (payload : Option svn_element_payload_t) (hv : AlterValid canon branch eid p name payload)
    (fuel : Nat) (allocated : svn_branch_state_t)
    (hl : svn_editor3_alter_loop eid p fuel branch = some allocated) :
    svn_editor3_alter chk canon fuel w branch eid p name payload
      = invoked chk w
          (change_detection_alter chk canon fuel0 w.baton allocated eid p name payload) := by
  rw [(alter_of_loop chk canon w branch eid p name payload hv fuel).2 allocated hl, hI.1]
  exact do_callback_plain chk w allocated _ hI.2.1 hI.2.2.1

theorem wrapper_payload_resolve {W : Type} {chk : Bool} {canon : String → Bool} {fuel0 : Nat}
    {w : svn_editor3_t (change_detection_baton_t W)} (hI : WrapperInv chk canon fuel0 w)
    (payload : Option svn_element_payload_t) (element : Option svn_branch_el_rev_content_t) :
    svn_editor3_payload_resolve chk w payload element
      = invoked chk w (change_detection_payload_resolve chk w.baton payload element) := by
  unfold svn_editor3_payload_resolve
  rw [hI.1]
  exact do_callback_plain chk w payload _ hI.2.1 hI.2.2.1

theorem wrapper_new_eid_callback {W : Type} {chk : Bool} {canon : String → Bool} {fuel0 : Nat}
    {w : svn_editor3_t (change_detection_baton_t W)} (hI : WrapperInv chk canon fuel0 w)
    (branch : svn_branch_state_t) :
    DO_CALLBACK chk w (branch, (-1 : Int))
        (w.funcs.cb_new_eid.map (fun cb world x => cb world x.1 x.2))
      = invoked chk w (change_detection_new_eid chk w.baton branch (-1)) := by
  rw [hI.1]
  exact do_callback_plain chk w (branch, (-1 : Int)) _ hI.2.1 hI.2.2.1

theorem wrapper_sequence_point_callback {W : Type} {chk : Bool} {canon : String → Bool}
    {fuel0 : Nat} {w : svn_editor3_t (change_detection_baton_t W)}
    (hI : WrapperInv chk canon fuel0 w) :
    DO_CALLBACK chk w () w.funcs.cb_sequence_point
      = invoked chk w (change_detection_sequence_point chk w.baton ()) := by
  rw [hI.1]
  exact do_callback_plain chk w () _ hI.2.1 hI.2.2.1

theorem wrapper_complete_callback {W : Type} {chk : Bool} {canon : String → Bool}
    {fuel0 : Nat} {w : svn_editor3_t (change_detection_baton_t W)}
    (hI : WrapperInv chk canon fuel0 w) :
    DO_CALLBACK chk w () w.funcs.cb_complete
      = invoked chk w (change_detection_complete chk w.baton ()) := by
  rw [hI.1]
  exact do_callback_plain chk w () _ hI.2.1 hI.2.2.1

theorem wrapper_abort_callback {W : Type} {chk : Bool} {canon : String → Bool}
    {fuel0 : Nat} {w : svn_editor3_t (change_detection_baton_t W)}
    (hI : WrapperInv chk canon fuel0 w) :
    DO_CALLBACK chk w () w.funcs.cb_abort
      = invoked chk w (change_detection_abort chk w.baton ()) := by
  rw [hI.1]
  exact do_callback_plain chk w () _ hI.2.1 hI.2.2.1

theorem new_eid_ok_valid {W : Type} (chk : Bool) (editor after : svn_editor3_t W)
    (branch b : svn_branch_state_t) (eid : Int)
    (h : svn_editor3_new_eid chk editor branch = Reply.ok (after, (b, eid))) : 0 ≤ eid := by
  unfold svn_editor3_new_eid at h
  rcases hd : DO_CALLBACK chk editor (branch, (-1 : Int))
      (editor.funcs.cb_new_eid.map (fun cb world x => cb world x.1 x.2))
    with ⟨called, b1, n⟩ | _ | _ | _
  · simp only [hd] at h
    by_cases hv : 0 ≤ n
    · simp only [VALID_EID, ge_iff_le, hv, decide_True, Bool.not_true, Bool.false_eq_true,
        if_false, Reply.ok.injEq, Prod.mk.injEq] at h
      rw [← h.2.2]
      exact hv
    · simp [VALID_EID, hv] at h
  · simp only [hd] at h
    cases h
  · simp only [hd] at h
    cases h
  · simp only [hd] at h
    cases h

theorem alter_loop_stop (eid p : Int) :
    ∀ (fuel : Nat) (branch allocated : svn_branch_state_t),
    svn_editor3_alter_loop eid p fuel branch = some allocated →
    allocated.root_eid = branch.root_eid
      ∧ ¬ (eid ≥ allocated.next_eid ∨ p ≥ allocated.next_eid) := by
  intro fuel
  induction fuel with
  | zero => intro branch allocated h; simp [svn_editor3_alter_loop] at h
  | succ k ih =>
    intro branch allocated h
    unfold svn_editor3_alter_loop at h
    by_cases hc : eid ≥ branch.next_eid ∨ p ≥ branch.next_eid
    · rw [if_pos hc] at h
      obtain ⟨h1, h2⟩ := ih _ _ h
      exact ⟨h1.trans rfl, h2⟩
    · rw [if_neg hc] at h
      simp only [Option.some.injEq] at h
      subst h
      exact ⟨rfl, hc⟩

theorem alter_loop_again (eid p : Int) (fuel : Nat) (branch allocated : svn_branch_state_t)
    (h : svn_editor3_alter_loop eid p fuel branch = some allocated) (k : Nat) :
    svn_editor3_alter_loop eid p (k + 1) allocated = some allocated := by
  unfold svn_editor3_alter_loop
  rw [if_neg (alter_loop_stop eid p fuel branch allocated h).2]

theorem alter_valid_root (canon : String → Bool) (b1 b2 : svn_branch_state_t) (eid p : Int)
    (name : Option String) (payload : Option svn_element_payload_t)
    (hr : b2.root_eid = b1.root_eid) (hv : AlterValid canon b1 eid p name payload) :
    AlterValid canon b2 eid p name payload := by
  unfold AlterValid at hv ⊢
  rw [hr]
  exact hv

theorem transparent_add {W : Type} {chk : Bool} {canon : String → Bool} {fuel0 : Nat}
    {w : svn_editor3_t (change_detection_baton_t W)} (hI : WrapperInv chk canon fuel0 w)
    (branch : svn_branch_state_t) (eid p : Int) (name : Option String)
    (payload : Option svn_element_payload_t) :
    wrapped_reply (svn_editor3_add chk canon w branch eid p name payload)
      = svn_editor3_add chk canon w.baton.wrapped_editor branch eid p name payload := by
  by_cases hv : AddAsserted canon eid p name payload
  · by_cases hp : p = eid
    · rw [add_asserted chk canon w branch eid p name payload hv,
        add_asserted chk canon w.baton.wrapped_editor branch eid p name payload hv,
        if_pos hp, if_pos hp]
      rfl
    · rw [wrapper_add hI branch eid p name payload hv hp]
      exact wrapped_invoked_forward chk w _ _
  · rw [add_malfunction chk canon w branch eid p name payload hv,
      add_malfunction chk canon w.baton.wrapped_editor branch eid p name payload hv]
    rfl

theorem transparent_copy_one {W : Type} {chk : Bool} {canon : String → Bool} {fuel0 : Nat}
    {w : svn_editor3_t (change_detection_baton_t W)} (hI : WrapperInv chk canon fuel0 w)
    (src : Option svn_branch_el_rev_id_t) (branch : svn_branch_state_t) (eid p : Int)
    (name : Option String) (payload : Option svn_element_payload_t) :
    wrapped_reply (svn_editor3_copy_one chk canon w src branch eid p name payload)
      = svn_editor3_copy_one chk canon w.baton.wrapped_editor src branch eid p name
          payload := by
  by_cases hv : CopyOneAsserted canon src eid p name payload
  · rw [wrapper_copy_one hI src branch eid p name payload hv]
    exact wrapped_invoked_forward chk w _ _
  · rw [copy_one_malfunction chk canon w src branch eid p name payload hv,
      copy_one_malfunction chk canon w.baton.wrapped_editor src branch eid p name payload hv]
    rfl

theorem transparent_copy_tree {W : Type} {chk : Bool} {canon : String → Bool} {fuel0 : Nat}
    {w : svn_editor3_t (change_detection_baton_t W)} (hI : WrapperInv chk canon fuel0 w)
    (src : Option svn_branch_el_rev_id_t) (branch : svn_branch_state_t) (p : Int)
    (name : Option String) :
    wrapped_reply (svn_editor3_copy_tree chk canon w src branch p name)
      = svn_editor3_copy_tree chk canon w.baton.wrapped_editor src branch p name := by
  by_cases hv : CopyTreeAsserted canon src p name
  · rw [wrapper_copy_tree hI src branch p name hv]
    exact wrapped_invoked_forward chk w _ _
  · rw [copy_tree_malfunction chk canon w src branch p name hv,
      copy_tree_malfunction chk canon w.baton.wrapped_editor src branch p name hv]
    rfl

theorem transparent_delete {W : Type} {chk : Bool} {canon : String → Bool} {fuel0 : Nat}
    {w : svn_editor3_t (change_detection_baton_t W)} (hI : WrapperInv chk canon fuel0 w)
    (branch : svn_branch_state_t) (eid : Int) :
    wrapped_reply (svn_editor3_delete chk w branch eid)
      = svn_editor3_delete chk w.baton.wrapped_editor branch eid := by
  by_cases hv : eid < 0 ∨ eid = branch.root_eid
  · rw [delete_cases chk w branch eid, delete_cases chk w.baton.wrapped_editor branch eid,
      if_pos hv, if_pos hv]
    rfl
  · rw [wrapper_delete hI branch eid (by omega) (fun h => hv (Or.inr h))]
    exact wrapped_invoked_forward chk w _ _

theorem transparent_alter {W : Type} {chk : Bool} {canon : String → Bool} {fuel0 : Nat}
    {w : svn_editor3_t (change_detection_baton_t W)} (hI : WrapperInv chk canon fuel0 w)
    (h0 : 0 < fuel0) (fuel : Nat) (branch : svn_branch_state_t) (eid p : Int)
    (name : Option String) (payload : Option svn_element_payload_t) :
    wrapped_reply (svn_editor3_alter chk canon fuel w branch eid p name payload)
      = svn_editor3_alter chk canon fuel w.baton.wrapped_editor branch eid p name payload := by
  by_cases ha : AlterAsserted canon branch eid p name payload
  · by_cases hp : p = eid
    · subst hp
      rw [alter_branching chk canon w branch p name payload ha fuel,
        alter_branching chk canon w.baton.wrapped_editor branch p name payload ha fuel]
      rfl
    · have hv : AlterValid canon branch eid p name payload := ⟨ha.1, ha.2.1, ha.2.2, hp⟩
      cases hl : svn_editor3_alter_loop eid p fuel branch with
      | none =>
        rw [(alter_of_loop chk canon w branch eid p name payload hv fuel).1 hl,
          (alter_of_loop chk canon w.baton.wrapped_editor branch eid p name payload hv
            fuel).1 hl]
        rfl
      | some allocated =>
        obtain ⟨k, rfl⟩ : ∃ k, fuel0 = k + 1 := ⟨fuel0 - 1, by omega⟩
        rw [wrapper_alter hI branch eid p name payload hv fuel allocated hl,
          (alter_of_loop chk canon w.baton.wrapped_editor branch eid p name payload hv
            fuel).2 allocated hl]
        refine (wrapped_invoked_forward chk w _ _).trans ?_
        exact (alter_of_loop chk canon w.baton.wrapped_editor allocated eid p name payload
          (alter_valid_root canon branch allocated eid p name payload
            (alter_loop_stop eid p fuel branch allocated hl).1 hv) (k + 1)).2 allocated
          (alter_loop_again eid p fuel branch allocated hl k)
  · rw [alter_malfunction chk canon w branch eid p name payload ha fuel,
      alter_malfunction chk canon w.baton.wrapped_editor branch eid p name payload ha fuel]
    rfl

theorem transparent_payload_resolve {W : Type} {chk : Bool} {canon : String → Bool}
    {fuel0 : Nat} {w : svn_editor3_t (change_detection_baton_t W)}
    (hI : WrapperInv chk canon fuel0 w) (payload : Option svn_element_payload_t)
    (element : Option svn_branch_el_rev_content_t) :
    wrapped_reply (svn_editor3_payload_resolve chk w payload element)
      = svn_editor3_payload_resolve chk w.baton.wrapped_editor payload element := by
  rw [wrapper_payload_resolve hI payload element]
  exact wrapped_invoked_forward chk w _ _

theorem should_not_be_finished_iff {W : Type} (chk : Bool) (editor : svn_editor3_t W) :
    SHOULD_NOT_BE_FINISHED chk editor = true ↔ ¬ (chk = true ∧ editor.finished = true) := by
  unfold SHOULD_NOT_BE_FINISHED
  cases chk <;> cases editor.finished <;> simp

theorem transparent_sequence_point {W : Type} {chk : Bool} {canon : String → Bool}
    {fuel0 : Nat} {w : svn_editor3_t (change_detection_baton_t W)}
    (hI : WrapperInv chk canon fuel0 w) :
    wrapped_reply (svn_editor3_sequence_point chk w)
      = svn_editor3_sequence_point chk w.baton.wrapped_editor := by
  by_cases hf : chk = true ∧ w.finished = true
  · rw [sequence_point_cases chk w, if_pos hf, sequence_point_cases chk w.baton.wrapped_editor,
      if_pos ⟨hf.1, hI.2.2.2 hf.2⟩]
    rfl
  · rw [sequence_point_cases chk w, if_neg hf, wrapper_sequence_point_callback hI]
    exact wrapped_invoked_forward chk w _ _

theorem transparent_complete {W : Type} {chk : Bool} {canon : String → Bool}
    {fuel0 : Nat} {w : svn_editor3_t (change_detection_baton_t W)}
    (hI : WrapperInv chk canon fuel0 w) :
    wrapped_reply (svn_editor3_complete chk w)
      = svn_editor3_complete chk w.baton.wrapped_editor := by
  by_cases hf : chk = true ∧ w.finished = true
  · rw [(complete_cases chk w).1 hf,
      (complete_cases chk w.baton.wrapped_editor).1 ⟨hf.1, hI.2.2.2 hf.2⟩]
    rfl
  · have hs : (!SHOULD_NOT_BE_FINISHED chk w) = false := by
      rw [(should_not_be_finished_iff chk w).2 hf]; rfl
    conv_lhs => unfold svn_editor3_complete
    rw [hs, wrapper_complete_callback hI]
    simp only [Bool.false_eq_true, if_false]
    unfold change_detection_complete
    generalize svn_editor3_complete chk w.baton.wrapped_editor = r
    rcases r with ⟨e, x⟩ | ⟨⟨e, x⟩, err⟩ | ⟨e, x⟩ | _ <;> cases chk <;> rfl

theorem transparent_abort {W : Type} {chk : Bool} {canon : String → Bool}
    {fuel0 : Nat} {w : svn_editor3_t (change_detection_baton_t W)}
    (hI : WrapperInv chk canon fuel0 w) :
    wrapped_reply (svn_editor3_abort chk w)
      = svn_editor3_abort chk w.baton.wrapped_editor := by
  by_cases hf : chk = true ∧ w.finished = true
  · rw [(abort_cases chk w).1 hf,
      (abort_cases chk w.baton.wrapped_editor).1 ⟨hf.1, hI.2.2.2 hf.2⟩]
    rfl
  · have hs : (!SHOULD_NOT_BE_FINISHED chk w) = false := by
      rw [(should_not_be_finished_iff chk w).2 hf]; rfl
    conv_lhs => unfold svn_editor3_abort
    rw [hs, wrapper_abort_callback hI]
    simp only [Bool.false_eq_true, if_false]
    unfold change_detection_abort
    generalize svn_editor3_abort chk w.baton.wrapped_editor = r
    rcases r with ⟨e, x⟩ | ⟨⟨e, x⟩, err⟩ | ⟨e, x⟩ | _ <;> cases chk <;> rfl

/-- What `svn_editor3_new_eid` of the wrapper editor returns, from the reply of the wrapped
editor: the out-parameter is written only on success. -/
theorem wrapper_new_eid {W : Type} {chk : Bool} {canon : String → Bool} {fuel0 : Nat}
    {w : svn_editor3_t (change_detection_baton_t W)} (hI : WrapperInv chk canon fuel0 w)
    (branch : svn_branch_state_t) :
    svn_editor3_new_eid chk w branch
      = invoked chk w (change_detection_new_eid chk w.baton branch (-1)) := by
  unfold svn_editor3_new_eid
  rw [wrapper_new_eid_callback hI branch]
  unfold change_detection_new_eid
  rcases hin : svn_editor3_new_eid chk w.baton.wrapped_editor branch
    with ⟨e, b, n⟩ | ⟨⟨e, b, n⟩, err⟩ | ⟨e, b, n⟩ | _
  · have hn := new_eid_ok_valid chk _ _ _ _ _ hin
    simp [invoked, VALID_EID, hn]
  · rfl
  · rfl
  · rfl

theorem transparent_new_eid {W : Type} {chk : Bool} {canon : String → Bool} {fuel0 : Nat}
    {w : svn_editor3_t (change_detection_baton_t W)} (hI : WrapperInv chk canon fuel0 w)
    (branch : svn_branch_state_t) :
    (svn_editor3_new_eid chk w branch).map (fun s => (s.1.baton.wrapped_editor, s.2.1))
        = (svn_editor3_new_eid chk w.baton.wrapped_editor branch).map
            (fun s => (s.1, s.2.1))
    ∧ (∀ e b eid, svn_editor3_new_eid chk w.baton.wrapped_editor branch
          = Reply.ok (e, (b, eid)) →
        wrapped_reply (svn_editor3_new_eid chk w branch) = Reply.ok (e, (b, eid)))
    ∧ (∀ after b eid, svn_editor3_new_eid chk w branch = Reply.ok (after, (b, eid)) →
        svn_editor3_new_eid chk w.baton.wrapped_editor branch
          = Reply.ok (after.baton.wrapped_editor, (b, eid))) := by
  rw [wrapper_new_eid hI branch]
  unfold change_detection_new_eid
  rcases hin : svn_editor3_new_eid chk w.baton.wrapped_editor branch
    with ⟨e, b, n⟩ | ⟨⟨e, b, n⟩, err⟩ | ⟨e, b, n⟩ | _
  · refine ⟨rfl, ?_, ?_⟩
    · intro e' b' n' h
      rw [← h]
      rfl
    · intro after b' n' h
      simp only [invoked, Reply.ok.injEq, Prod.mk.injEq] at h
      obtain ⟨rfl, rfl, rfl⟩ := h
      rfl
  · refine ⟨rfl, (fun _ _ _ h => by cases h), fun _ _ _ h => ?_⟩
    simp [invoked] at h
  · refine ⟨rfl, (fun _ _ _ h => by cases h), fun _ _ _ h => ?_⟩
    simp [invoked] at h
  · refine ⟨rfl, (fun _ _ _ h => by cases h), fun _ _ _ h => ?_⟩
    simp [invoked] at h

theorem map_map {σ τ υ : Type} (f : σ → τ) (g : τ → υ) (r : Reply σ) :
    (r.map f).map g = r.map (fun s => g (f s)) := by
  cases r <;> rfl

theorem state_of_pair {W σ : Type} {editor after : svn_editor3_t W} {x y : σ}
    (h : (Reply.malfunction (editor, x)).state = some (after, y)) : after = editor := by
  simp only [Reply.state, Option.some.injEq, Prod.mk.injEq] at h
  exact h.1.symm

theorem state_of_error {W σ : Type} {editor after : svn_editor3_t W} {x y : σ}
    {e : svn_errno_t} (h : (Reply.error (editor, x) e).state = some (after, y)) :
    after = editor := by
  simp only [Reply.state, Option.some.injEq, Prod.mk.injEq] at h
  exact h.1.symm

/-- A call that does not pass the checks leaves the editor as it was. -/
theorem rejected_unchanged {W : Type} (chk : Bool) (canon : String → Bool) (fuel : Nat)
    (editor : svn_editor3_t W) (call : editor_call) (after : svn_editor3_t W)
    (hr : ¬ Reaches chk canon fuel editor call)
    (hs : (run_call chk canon fuel editor call).state = some after) : after = editor := by
  cases call with
  | new_eid branch => exact absurd trivial hr
  | payload_resolve payload element => exact absurd trivial hr
  | add branch eid p name payload =>
    simp only [run_call, map_state, Option.map_eq_some'] at hs
    obtain ⟨⟨a, x⟩, hs, rfl⟩ := hs
    by_cases hv : AddAsserted canon eid p name payload
    · have hp : p = eid := by
        by_contra hp
        exact hr ⟨hv, hp⟩
      rw [add_asserted chk canon editor branch eid p name payload hv, if_pos hp] at hs
      exact state_of_error hs
    · rw [add_malfunction chk canon editor branch eid p name payload hv] at hs
      exact state_of_pair hs
  | copy_one src branch eid p name payload =>
    simp only [run_call, map_state, Option.map_eq_some'] at hs
    obtain ⟨⟨a, x⟩, hs, rfl⟩ := hs
    rw [copy_one_malfunction chk canon editor src branch eid p name payload hr] at hs
    exact state_of_pair hs
  | copy_tree src branch p name =>
    simp only [run_call, map_state, Option.map_eq_some'] at hs
    obtain ⟨⟨a, x⟩, hs, rfl⟩ := hs
    rw [copy_tree_malfunction chk canon editor src branch p name hr] at hs
    exact state_of_pair hs
  | delete branch eid =>
    simp only [run_call, map_state, Option.map_eq_some'] at hs
    obtain ⟨⟨a, x⟩, hs, rfl⟩ := hs
    have hv : eid < 0 ∨ eid = branch.root_eid := by
      by_contra hv
      exact hr ⟨by omega, fun h => hv (Or.inr h)⟩
    rw [delete_cases chk editor branch eid, if_pos hv] at hs
    exact state_of_pair hs
  | alter branch eid p name payload =>
    simp only [run_call, map_state, Option.map_eq_some'] at hs
    obtain ⟨⟨a, x⟩, hs, rfl⟩ := hs
    by_cases ha : AlterAsserted canon branch eid p name payload
    · by_cases hp : p = eid
      · subst hp
        rw [alter_branching chk canon editor branch p name payload ha fuel] at hs
        exact state_of_error hs
      · have hv : AlterValid canon branch eid p name payload := ⟨ha.1, ha.2.1, ha.2.2, hp⟩
        cases hl : svn_editor3_alter_loop eid p fuel branch with
        | none =>
          rw [(alter_of_loop chk canon editor branch eid p name payload hv fuel).1 hl] at hs
          simp [Reply.state] at hs
        | some allocated => exact absurd ⟨hv, allocated, hl⟩ hr
    · rw [alter_malfunction chk canon editor branch eid p name payload ha fuel] at hs
      exact state_of_pair hs
  | sequence_point =>
    simp only [run_call, map_state, Option.map_eq_some'] at hs
    obtain ⟨⟨a, x⟩, hs, rfl⟩ := hs
    have hf : chk = true ∧ editor.finished = true := by
      by_contra hf
      exact hr ((should_not_be_finished_iff chk editor).2 hf)
    rw [sequence_point_cases chk editor, if_pos hf] at hs
    exact state_of_pair hs
  | complete =>
    simp only [run_call, map_state, Option.map_eq_some'] at hs
    obtain ⟨⟨a, x⟩, hs, rfl⟩ := hs
    have hf : chk = true ∧ editor.finished = true := by
      by_contra hf
      exact hr ((should_not_be_finished_iff chk editor).2 hf)
    rw [(complete_cases chk editor).1 hf] at hs
    exact state_of_pair hs
  | abort =>
    simp only [run_call, map_state, Option.map_eq_some'] at hs
    obtain ⟨⟨a, x⟩, hs, rfl⟩ := hs
    have hf : chk = true ∧ editor.finished = true := by
      by_contra hf
      exact hr ((should_not_be_finished_iff chk editor).2 hf)
    rw [(abort_cases chk editor).1 hf] at hs
    exact state_of_pair hs

/-- A call on the wrapper editor that passes the checks sets the flag when it is one of the
five operations that change the tree, and leaves it as it is otherwise. -/
theorem wrapper_flag {W : Type} {chk : Bool} {canon : String → Bool} {fuel0 : Nat}
    {w : svn_editor3_t (change_detection_baton_t W)} (hI : WrapperInv chk canon fuel0 w)
    (fuel : Nat) (call : editor_call) (after : svn_editor3_t (change_detection_baton_t W))
    (hr : Reaches chk canon fuel w call)
    (hs : (run_call chk canon fuel w call).state = some after) :
    after.baton.change_detected = (w.baton.change_detected || call.mutates) := by
  cases call with
  | new_eid branch =>
    simp only [run_call, map_state, Option.map_eq_some'] at hs
    obtain ⟨⟨a, x⟩, hs, rfl⟩ := hs
    rw [wrapper_new_eid hI branch] at hs
    unfold change_detection_new_eid at hs
    rcases hin : svn_editor3_new_eid chk w.baton.wrapped_editor branch
      with ⟨e, b, n⟩ | ⟨⟨e, b, n⟩, err⟩ | ⟨e, b, n⟩ | _ <;>
      simp only [hin, invoked, Reply.state, Option.some.injEq, Prod.mk.injEq,
        reduceCtorEq] at hs
    · obtain ⟨rfl, _⟩ := hs; simp [editor_call.mutates]
    · obtain ⟨rfl, _⟩ := hs; simp [editor_call.mutates]
    · obtain ⟨rfl, _⟩ := hs; simp [editor_call.mutates]
  | add branch eid p name payload =>
    simp only [run_call, map_state, Option.map_eq_some'] at hs
    obtain ⟨⟨a, x⟩, hs, rfl⟩ := hs
    rw [wrapper_add hI branch eid p name payload hr.1 hr.2] at hs
    exact (invoked_forward_flag chk w _ _ a x hs).1.trans (by simp [editor_call.mutates])
  | copy_one src branch eid p name payload =>
    simp only [run_call, map_state, Option.map_eq_some'] at hs
    obtain ⟨⟨a, x⟩, hs, rfl⟩ := hs
    rw [wrapper_copy_one hI src branch eid p name payload hr] at hs
    exact (invoked_forward_flag chk w _ _ a x hs).1.trans (by simp [editor_call.mutates])
  | copy_tree src branch p name =>
    simp only [run_call, map_state, Option.map_eq_some'] at hs
    obtain ⟨⟨a, x⟩, hs, rfl⟩ := hs
    rw [wrapper_copy_tree hI src branch p name hr] at hs
    exact (invoked_forward_flag chk w _ _ a x hs).1.trans (by simp [editor_call.mutates])
  | delete branch eid =>
    simp only [run_call, map_state, Option.map_eq_some'] at hs
    obtain ⟨⟨a, x⟩, hs, rfl⟩ := hs
    rw [wrapper_delete hI branch eid hr.1 hr.2] at hs
    exact (invoked_forward_flag chk w _ _ a x hs).1.trans (by simp [editor_call.mutates])
  | alter branch eid p name payload =>
    simp only [run_call, map_state, Option.map_eq_some'] at hs
    obtain ⟨⟨a, x⟩, hs, rfl⟩ := hs
    obtain ⟨hv, allocated, hl⟩ := hr
    rw [wrapper_alter hI branch eid p name payload hv fuel allocated hl] at hs
    exact (invoked_forward_flag chk w _ _ a x hs).1.trans (by simp [editor_call.mutates])
  | payload_resolve payload element =>
    simp only [run_call, map_state, Option.map_eq_some'] at hs
    obtain ⟨⟨a, x⟩, hs, rfl⟩ := hs
    rw [wrapper_payload_resolve hI payload element] at hs
    exact (invoked_forward_flag chk w _ _ a x hs).1.trans (by simp [editor_call.mutates])
  | sequence_point =>
    simp only [run_call, map_state, Option.map_eq_some'] at hs
    obtain ⟨⟨a, x⟩, hs, rfl⟩ := hs
    rw [sequence_point_cases chk w, if_neg ((should_not_be_finished_iff chk w).1 hr),
      wrapper_sequence_point_callback hI] at hs
    exact (invoked_forward_flag chk w _ _ a x hs).1.trans (by simp [editor_call.mutates])
  | complete =>
    simp only [run_call, map_state, Option.map_eq_some'] at hs
    obtain ⟨⟨a, x⟩, hs, rfl⟩ := hs
    have hn : (!SHOULD_NOT_BE_FINISHED chk w) = false := by rw [hr]; rfl
    unfold svn_editor3_complete at hs
    rw [hn, wrapper_complete_callback hI] at hs
    simp only [Bool.false_eq_true, if_false] at hs
    unfold change_detection_complete at hs
    generalize svn_editor3_complete chk w.baton.wrapped_editor = r at hs
    rcases r with ⟨e, y⟩ | ⟨⟨e, y⟩, err⟩ | ⟨e, y⟩ | _ <;> cases chk <;>
      simp only [change_detection_forward, Reply.map, invoked, Reply.state, MARK_FINISHED,
        Option.some.injEq, Prod.mk.injEq, reduceCtorEq, if_true, Bool.false_eq_true,
        if_false] at hs <;>
      (obtain ⟨rfl, _⟩ := hs; simp [editor_call.mutates])
  | abort =>
    simp only [run_call, map_state, Option.map_eq_some'] at hs
    obtain ⟨⟨a, x⟩, hs, rfl⟩ := hs
    have hn : (!SHOULD_NOT_BE_FINISHED chk w) = false := by rw [hr]; rfl
    unfold svn_editor3_abort at hs
    rw [hn, wrapper_abort_callback hI] at hs
    simp only [Bool.false_eq_true, if_false] at hs
    unfold change_detection_abort at hs
    generalize svn_editor3_abort chk w.baton.wrapped_editor = r at hs
    rcases r with ⟨e, y⟩ | ⟨⟨e, y⟩, err⟩ | ⟨e, y⟩ | _ <;> cases chk <;>
      simp only [change_detection_forward, Reply.map, invoked, Reply.state, MARK_FINISHED,
        Option.some.injEq, Prod.mk.injEq, reduceCtorEq, if_true, Bool.false_eq_true,
        if_false] at hs <;>
      (obtain ⟨rfl, _⟩ := hs; simp [editor_call.mutates])

/-- Seen from the caller, a call on the wrapper editor leaves the wrapped editor as the same
call on the wrapped editor leaves it, with the same kind of reply. -/
theorem run_call_transparent {W : Type} {chk : Bool} {canon : String → Bool} {fuel0 : Nat}
    {w : svn_editor3_t (change_detection_baton_t W)} (hI : WrapperInv chk canon fuel0 w)
    (h0 : 0 < fuel0) (fuel : Nat) (call : editor_call) :
    (run_call chk canon fuel w call).map (fun e => e.baton.wrapped_editor)
      = run_call chk canon fuel w.baton.wrapped_editor call := by
  cases call with
  | new_eid branch =>
    have h := congrArg (Reply.map Prod.fst) (transparent_new_eid hI branch).1
    simp only [map_map] at h
    simp only [run_call, map_map]
    exact h
  | add branch eid p name payload =>
    have h := congrArg (Reply.map Prod.fst) (transparent_add hI branch eid p name payload)
    simp only [wrapped_reply, map_map] at h
    simp only [run_call, map_map]
    exact h
  | copy_one src branch eid p name payload =>
    have h := congrArg (Reply.map Prod.fst)
      (transparent_copy_one hI src branch eid p name payload)
    simp only [wrapped_reply, map_map] at h
    simp only [run_call, map_map]
    exact h
  | copy_tree src branch p name =>
    have h := congrArg (Reply.map Prod.fst) (transparent_copy_tree hI src branch p name)
    simp only [wrapped_reply, map_map] at h
    simp only [run_call, map_map]
    exact h
  | delete branch eid =>
    have h := congrArg (Reply.map Prod.fst) (transparent_delete hI branch eid)
    simp only [wrapped_reply, map_map] at h
    simp only [run_call, map_map]
    exact h
  | alter branch eid p name payload =>
    have h := congrArg (Reply.map Prod.fst)
      (transparent_alter hI h0 fuel branch eid p name payload)
    simp only [wrapped_reply, map_map] at h
    simp only [run_call, map_map]
    exact h
  | payload_resolve payload element =>
    have h := congrArg (Reply.map Prod.fst) (transparent_payload_resolve hI payload element)
    simp only [wrapped_reply, map_map] at h
    simp only [run_call, map_map]
    exact h
  | sequence_point =>
    have h := congrArg (Reply.map Prod.fst) (transparent_sequence_point hI)
    simp only [wrapped_reply, map_map] at h
    simp only [run_call, map_map]
    exact h
  | complete =>
    have h := congrArg (Reply.map Prod.fst) (transparent_complete hI)
    simp only [wrapped_reply, map_map] at h
    simp only [run_call, map_map]
    exact h
  | abort =>
    have h := congrArg (Reply.map Prod.fst) (transparent_abort hI)
    simp only [wrapped_reply, map_map] at h
    simp only [run_call, map_map]
    exact h

/-- The properties of `WrapperInv` hold again after a call that returned. -/
theorem wrapper_inv_step {W : Type} {chk : Bool} {canon : String → Bool} {fuel0 : Nat}
    {w : svn_editor3_t (change_detection_baton_t W)} (hI : WrapperInv chk canon fuel0 w)
    (h0 : 0 < fuel0) (fuel : Nat) (call : editor_call)
    (after : svn_editor3_t (change_detection_baton_t W))
    (hret : (run_call chk canon fuel w call).returned = true)
    (hs : (run_call chk canon fuel w call).state = some after) :
    WrapperInv chk canon fuel0 after := by
  obtain ⟨h1, h2, h3, h4⟩ := run_call_stepped chk canon fuel w call after hs
  have ht := run_call_transparent hI h0 fuel call
  have hin : (run_call chk canon fuel w.baton.wrapped_editor call).state
      = some after.baton.wrapped_editor := by
    rw [← ht, map_state, hs]
    rfl
  obtain ⟨_, _, _, g4⟩ := run_call_stepped chk canon fuel w.baton.wrapped_editor call
    after.baton.wrapped_editor hin
  have hsucc : (run_call chk canon fuel w.baton.wrapped_editor call).succeeded
      = (run_call chk canon fuel w call).succeeded := by
    rw [← ht, map_succeeded]
  refine ⟨h1.trans hI.1, h2.trans hI.2.1, h3 hret hI.2.2.1, fun hf => ?_⟩
  rw [g4, hsucc]
  rw [h4] at hf
  cases hwf : w.finished with
  | true => rw [hI.2.2.2 hwf]; rfl
  | false =>
    rw [hwf] at hf
    simp only [Bool.false_or] at hf
    rw [hf]
    simp

theorem issued_flag {W : Type} {chk : Bool} {canon : String → Bool} {fuel0 : Nat}
    (h0 : 0 < fuel0) {w0 w : svn_editor3_t (change_detection_baton_t W)}
    {calls : List (svn_editor3_t (change_detection_baton_t W) × Nat × editor_call)}
    (h : Issued chk canon w0 calls w) (hI : WrapperInv chk canon fuel0 w0) :
    WrapperInv chk canon fuel0 w
    ∧ (w.baton.change_detected = true
        ↔ w0.baton.change_detected = true
          ∨ ∃ c ∈ calls, c.2.2.mutates = true ∧ Reaches chk canon c.2.1 c.1 c.2.2) := by
  induction h with
  | nil => exact ⟨hI, by simp⟩
  | snoc calls before after fuel call _ hret hs ih =>
    obtain ⟨hb, hiff⟩ := ih
    refine ⟨wrapper_inv_step hb h0 fuel call after hret hs, ?_⟩
    by_cases hr : Reaches chk canon fuel before call
    · rw [wrapper_flag hb fuel call after hr hs, Bool.or_eq_true, hiff]
      constructor
      · rintro ((h1 | ⟨c, hc, hm⟩) | hm)
        · exact Or.inl h1
        · exact Or.inr ⟨c, List.mem_append_left _ hc, hm⟩
        · exact Or.inr ⟨(before, fuel, call), by simp, hm, hr⟩
      · rintro (h1 | ⟨c, hc, hm⟩)
        · exact Or.inl (Or.inl h1)
        · rcases List.mem_append.1 hc with hc | hc
          · exact Or.inl (Or.inr ⟨c, hc, hm⟩)
          · simp only [List.mem_singleton] at hc
            subst hc
            exact Or.inr hm.1
    · rw [rejected_unchanged chk canon fuel before call after hr hs, hiff]
      constructor
      · rintro (h1 | ⟨c, hc, hm⟩)
        · exact Or.inl h1
        · exact Or.inr ⟨c, List.mem_append_left _ hc, hm⟩
      · rintro (h1 | ⟨c, hc, hm⟩)
        · exact Or.inl h1
        · rcases List.mem_append.1 hc with hc | hc
          · exact Or.inr ⟨c, hc, hm⟩
          · simp only [List.mem_singleton] at hc
            subst hc
            exact absurd hm.2 hr

theorem wrapper_inv_create {W : Type} (chk : Bool) (canon : String → Bool) (fuel0 : Nat)
    (wrapped_editor : svn_editor3_t W) :
    WrapperInv chk canon fuel0
      (svn_editor3__change_detection_editor chk canon fuel0 wrapped_editor) :=
  ⟨rfl, rfl, rfl, fun h => by cases h⟩

/-- C34: the change-detection wrapper.  Right after `svn_editor3__change_detection_editor` the
flag is FALSE and the baton holds the wrapped editor.  For every editor `w` that the wrapper
editor has become after calls that returned: the flag is TRUE exactly when one of the calls was
an `add`, `copy_one`, `copy_tree`, `delete` or `alter` that passed the checks of the operation
and so reached the callback of the wrapper; a further call that passes the checks leaves the
flag TRUE when it is one of these five and as it was otherwise, and a call that does not pass
leaves the wrapper editor as it was, so the flag is never reset; and each of the ten
operations, seen from the caller, returns what the same operation with the same arguments
returns on the wrapped editor, with the wrapped editor and the operands as that call leaves
them (`new_eid` writes the EID of the wrapped editor on success).  The loop of the
`svn_editor3_alter` that the wrapper calls has fuel. -/
theorem change_detection_wrapper {W : Type} (ENABLE_ORDERING_CHECK : Bool)
    (svn_relpath_is_canonical : String → Bool) (fuel : Nat)
    (wrapped_editor : svn_editor3_t W) (src_el_rev : Option svn_branch_el_rev_id_t)
    (branch : svn_branch_state_t) (eid new_parent_eid : Int) (new_name : Option String)
    (new_payload payload : Option svn_element_payload_t)
    (element : Option svn_branch_el_rev_content_t) (h0 : 0 < fuel) :
    ((svn_editor3__change_detection_editor ENABLE_ORDERING_CHECK svn_relpath_is_canonical
        fuel wrapped_editor).baton.change_detected = false
      ∧ (svn_editor3__change_detection_editor ENABLE_ORDERING_CHECK svn_relpath_is_canonical
        fuel wrapped_editor).baton.wrapped_editor = wrapped_editor)
    ∧ ∀ calls w,
      Issued ENABLE_ORDERING_CHECK svn_relpath_is_canonical
        (svn_editor3__change_detection_editor ENABLE_ORDERING_CHECK svn_relpath_is_canonical
          fuel wrapped_editor) calls w →
      (w.baton.change_detected = true
        ↔ ∃ c ∈ calls, c.2.2.mutates = true
            ∧ Reaches ENABLE_ORDERING_CHECK svn_relpath_is_canonical c.2.1 c.1 c.2.2)
      ∧ (∀ k call after,
          (run_call ENABLE_ORDERING_CHECK svn_relpath_is_canonical k w call).state
            = some after →
          (Reaches ENABLE_ORDERING_CHECK svn_relpath_is_canonical k w call →
            after.baton.change_detected = (w.baton.change_detected || call.mutates))
          ∧ (¬ Reaches ENABLE_ORDERING_CHECK svn_relpath_is_canonical k w call → after = w))
      ∧ ((svn_editor3_new_eid ENABLE_ORDERING_CHECK w branch).map
              (fun s => (s.1.baton.wrapped_editor, s.2.1))
            = (svn_editor3_new_eid ENABLE_ORDERING_CHECK w.baton.wrapped_editor branch).map
                (fun s => (s.1, s.2.1))
          ∧ (∀ e b eid,
              svn_editor3_new_eid ENABLE_ORDERING_CHECK w.baton.wrapped_editor branch
                = Reply.ok (e, (b, eid)) →
              wrapped_reply (svn_editor3_new_eid ENABLE_ORDERING_CHECK w branch)
                = Reply.ok (e, (b, eid))))
      ∧ wrapped_reply (svn_editor3_add ENABLE_ORDERING_CHECK svn_relpath_is_canonical w branch
            eid new_parent_eid new_name new_payload)
          = svn_editor3_add ENABLE_ORDERING_CHECK svn_relpath_is_canonical
              w.baton.wrapped_editor branch eid new_parent_eid new_name new_payload
      ∧ wrapped_reply (svn_editor3_copy_one ENABLE_ORDERING_CHECK svn_relpath_is_canonical w
            src_el_rev branch eid new_parent_eid new_name new_payload)
          = svn_editor3_copy_one ENABLE_ORDERING_CHECK svn_relpath_is_canonical
              w.baton.wrapped_editor src_el_rev branch eid new_parent_eid new_name
              new_payload
      ∧ wrapped_reply (svn_editor3_copy_tree ENABLE_ORDERING_CHECK svn_relpath_is_canonical w
            src_el_rev branch new_parent_eid new_name)
          = svn_editor3_copy_tree ENABLE_ORDERING_CHECK svn_relpath_is_canonical
              w.baton.wrapped_editor src_el_rev branch new_parent_eid new_name
      ∧ wrapped_reply (svn_editor3_delete ENABLE_ORDERING_CHECK w branch eid)
          = svn_editor3_delete ENABLE_ORDERING_CHECK w.baton.wrapped_editor branch eid
      ∧ (∀ k, wrapped_reply (svn_editor3_alter ENABLE_ORDERING_CHECK svn_relpath_is_canonical
            k w branch eid new_parent_eid new_name new_payload)
          = svn_editor3_alter ENABLE_ORDERING_CHECK svn_relpath_is_canonical k
              w.baton.wrapped_editor branch eid new_parent_eid new_name new_payload)
      ∧ wrapped_reply (svn_editor3_payload_resolve ENABLE_ORDERING_CHECK w payload element)
          = svn_editor3_payload_resolve ENABLE_ORDERING_CHECK w.baton.wrapped_editor payload
              element
      ∧ wrapped_reply (svn_editor3_sequence_point ENABLE_ORDERING_CHECK w)
          = svn_editor3_sequence_point ENABLE_ORDERING_CHECK w.baton.wrapped_editor
      ∧ wrapped_reply (svn_editor3_complete ENABLE_ORDERING_CHECK w)
          = svn_editor3_complete ENABLE_ORDERING_CHECK w.baton.wrapped_editor
      ∧ wrapped_reply (svn_editor3_abort ENABLE_ORDERING_CHECK w)
          = svn_editor3_abort ENABLE_ORDERING_CHECK w.baton.wrapped_editor := by
  refine ⟨⟨rfl, rfl⟩, fun calls w hw => ?_⟩
  obtain ⟨hI, hiff⟩ := issued_flag h0 hw
    (wrapper_inv_create ENABLE_ORDERING_CHECK svn_relpath_is_canonical fuel wrapped_editor)
  refine ⟨?_, fun k call after hs =>
      ⟨fun hr => wrapper_flag hI k call after hr hs,
        fun hr => rejected_unchanged _ _ k w call after hr hs⟩,
    ⟨(transparent_new_eid hI branch).1, (transparent_new_eid hI branch).2.1⟩,
    transparent_add hI branch eid new_parent_eid new_name new_payload,
    transparent_copy_one hI src_el_rev branch eid new_parent_eid new_name new_payload,
    transparent_copy_tree hI src_el_rev branch new_parent_eid new_name,
    transparent_delete hI branch eid,
    fun k => transparent_alter hI h0 k branch eid new_parent_eid new_name new_payload,
    transparent_payload_resolve hI payload element,
    transparent_sequence_point hI, transparent_complete hI, transparent_abort hI⟩
  rw [hiff]
  constructor
  · rintro (h | h)
    · cases h
    · exact h
  · exact Or.inr

/-- C34, witness: with the ordering check enabled and the counting editor wrapped, the flag is
FALSE after the creation and a `new_eid` does not set it, and an `add` on the wrapper returns
what it returns on the counting editor. -/
theorem change_detection_wrapper_witness :
    0 < 1
    ∧ detecting_editor.baton.change_detected = false
    ∧ (({ detecting_editor with
          baton := { wrapped_editor := { counting_editor with baton := 1 },
                     change_detected := false } } :
        svn_editor3_t (change_detection_baton_t Nat)).baton.change_detected = true
      ↔ ∃ c ∈ [(detecting_editor, 1, editor_call.new_eid example_branch_state)],
          c.2.2.mutates = true ∧ Reaches true example_is_canonical c.2.1 c.1 c.2.2)
    ∧ wrapped_reply (svn_editor3_add true example_is_canonical detecting_editor
          example_branch_state 1 0 (some "file.txt") (some example_payload))
        = svn_editor3_add true example_is_canonical counting_editor example_branch_state 1 0
            (some "file.txt") (some example_payload) :=
  ⟨by decide,
    (change_detection_wrapper true example_is_canonical 1 counting_editor
      (some example_el_rev) example_branch_state 1 0 (some "file.txt") (some example_payload)
      none none (by decide)).1.1,
    ((change_detection_wrapper true example_is_canonical 1 counting_editor
      (some example_el_rev) example_branch_state 1 0 (some "file.txt") (some example_payload)
      none none (by decide)).2
      [(detecting_editor, 1, editor_call.new_eid example_branch_state)]
      { detecting_editor with
        baton := { wrapped_editor := { counting_editor with baton := 1 },
                   change_detected := false } }
      (Issued.snoc [] detecting_editor _ 1 (editor_call.new_eid example_branch_state)
        Issued.nil rfl rfl)).1,
    ((change_detection_wrapper true example_is_canonical 1 counting_editor
      (some example_el_rev) example_branch_state 1 0 (some "file.txt") (some example_payload)
      none none (by decide)).2
      [] detecting_editor Issued.nil).2.2.2.1⟩

theorem lookup_mem {β : Type} (m : List (Int × β)) (k : Int) (v : β)
    (h : m.lookup k = some v) : (k, v) ∈ m := by
  induction m with
  | nil => simp at h
  | cons kv m ih =>
    obtain ⟨a, b⟩ := kv
    rw [List.lookup_cons] at h
    by_cases hk : k = a
    · subst hk
      simp only [beq_self_eq_true, Option.some.injEq] at h
      subst h
      exact List.mem_cons_self _ _
    · have : (k == a) = false := by simpa using hk
      rw [this] at h
      exact List.mem_cons_of_mem _ (ih h)

theorem lookup_isSome_iff {β : Type} (m : List (Int × β)) (k : Int) :
    (m.lookup k).isSome = true ↔ k ∈ m.map Prod.fst := by
  induction m with
  | nil => simp
  | cons kv m ih =>
    obtain ⟨a, b⟩ := kv
    rw [List.lookup_cons]
    by_cases hk : k = a
    · subst hk
      simp
    · have : (k == a) = false := by simpa using hk
      rw [this]
      simp only [List.map_cons, List.mem_cons, hk, false_or]
      exact ih

theorem lookup_rebind {β : Type} (m : List (Int × β)) (k k' : Int) (v : β) :
    (m.filter (fun kv => kv.1 != k) ++ [(k, v)]).lookup k'
      = if k' = k then some v else m.lookup k' := by
  induction m with
  | nil =>
    by_cases hk : k' = k
    · subst hk; simp [List.lookup_cons]
    · have : (k' == k) = false := by simpa using hk
      simp [List.lookup_cons, this, hk]
  | cons kv m ih =>
    obtain ⟨a, b⟩ := kv
    by_cases ha : a = k
    · subst ha
      have hf : List.filter (fun kv : Int × β => kv.1 != a) ((a, b) :: m)
          = List.filter (fun kv => kv.1 != a) m := by
        simp [List.filter_cons]
      rw [hf, ih]
      by_cases hk : k' = a
      · simp [hk]
      · have : (k' == a) = false := by simpa using hk
        simp [hk, List.lookup_cons, this]
    · have hf : List.filter (fun kv : Int × β => kv.1 != k) ((a, b) :: m)
          = (a, b) :: List.filter (fun kv => kv.1 != k) m := by
        simp [List.filter_cons, ha]
      rw [hf, List.cons_append, List.lookup_cons, List.lookup_cons, ih]
      by_cases hk : k' = k
      · have hka : (k' == a) = false := by
          simp only [beq_eq_false_iff_ne, ne_eq]
          rintro rfl
          exact ha hk
        simp [hk, hka]
        rw [← hk, hka]
      · simp [hk]

theorem nodup_rebind {β : Type} (m : List (Int × β)) (k : Int) (v : β)
    (h : (m.map Prod.fst).Nodup) :
    ((m.filter (fun kv => kv.1 != k) ++ [(k, v)]).map Prod.fst).Nodup := by
  rw [List.map_append, List.nodup_append]
  refine ⟨(List.filter_sublist m).map Prod.fst |>.nodup h, by simp, ?_⟩
  intro a ha hb
  simp only [List.map_cons, List.map_nil, List.mem_singleton] at hb
  subst hb
  obtain ⟨⟨x, y⟩, hxy, hx⟩ := List.mem_map.1 ha
  have := (List.mem_filter.1 hxy).2
  simp only at hx
  subst hx
  simp at this

theorem overlay_keys (overlay base : EMap) (e : Int) :
    e ∈ (apr_hash_overlay overlay base).map Prod.fst
      ↔ (svn_int_hash_get overlay e).isSome = true
        ∨ (svn_int_hash_get base e).isSome = true := by
  unfold apr_hash_overlay svn_int_hash_get
  rw [List.map_append, List.mem_append, lookup_isSome_iff, lookup_isSome_iff]
  constructor
  · rintro (h | h)
    · exact Or.inl h
    · obtain ⟨⟨k, v⟩, hkv, rfl⟩ := List.mem_map.1 h
      exact Or.inr (List.mem_map.2 ⟨(k, v), (List.mem_filter.1 hkv).1, rfl⟩)
  · rintro (h | h)
    · exact Or.inl h
    · by_cases ho : e ∈ overlay.map Prod.fst
      · exact Or.inl ho
      · obtain ⟨⟨k, v⟩, hkv, rfl⟩ := List.mem_map.1 h
        refine Or.inr (List.mem_map.2 ⟨(k, v), List.mem_filter.2 ⟨hkv, ?_⟩, rfl⟩)
        cases hl : overlay.lookup k with
        | none => rfl
        | some x =>
          exact absurd ((lookup_isSome_iff overlay k).1 (by rw [hl]; rfl)) ho

theorem content_equal_total
    (peq : Option svn_element_content_t → Option svn_element_content_t → Bool)
    (l r : Option svn_branch_el_rev_content_t)
    (hl : ∀ el, l = some el → el.name ≠ none) (hr : ∀ el, r = some el → el.name ≠ none) :
    svn_branch_el_rev_content_equal peq l r = Outcome.ok (structurally_equal peq l r) := by
  cases l with
  | none => cases r <;> rfl
  | some a =>
    cases r with
    | none => rfl
    | some b =>
      obtain ⟨pa, na, ca⟩ := a
      obtain ⟨pb, nb, cb⟩ := b
      cases na with
      | none => exact absurd rfl (hl _ rfl)
      | some sa =>
        cases nb with
        | none => exact absurd rfl (hr _ rfl)
        | some sb =>
          simp only [svn_branch_el_rev_content_equal, structurally_equal, ne_eq,
            Option.some.injEq]
          by_cases hp : pa = pb
          · by_cases hn : sa = sb
            · cases hc : peq ca cb <;> simp [hp, hn, hc]
            · simp [hp, hn]
          · simp [hp]

theorem resolved_name (m : EMap) (hm : NamesSet m)
    (resolve : Option svn_branch_el_rev_content_t → Option svn_element_payload_t) (e : Int)
    (el : svn_branch_el_rev_content_t)
    (h : resolved resolve (svn_int_hash_get m e) = some el) : el.name ≠ none := by
  unfold resolved svn_int_hash_get at h
  cases hl : m.lookup e with
  | none => rw [hl] at h; cases h
  | some x =>
    rw [hl] at h
    simp only [Option.map_some', Option.some.injEq] at h
    subst h
    exact hm (e, x) (lookup_mem m e x hl)

theorem payload_resolve_resolving {W : Type} (chk : Bool) (editor : svn_editor3_t W)
    (resolve : Option svn_branch_el_rev_content_t → Option svn_element_payload_t)
    (hR : Resolving editor resolve) (payload : Option svn_element_payload_t)
    (element : Option svn_branch_el_rev_content_t) :
    ∃ after, svn_editor3_payload_resolve chk editor payload element
        = Reply.ok (after, resolve element)
      ∧ Resolving after resolve := by
  obtain ⟨hw, hc, cb, hcb, hres⟩ := hR
  unfold svn_editor3_payload_resolve
  rw [hcb]
  simp only [Option.map_some']
  cases hcf : editor.cancel_func with
  | none =>
    rw [((do_callback_cases chk editor payload hw).1 hcf).2]
    obtain ⟨w', hw'⟩ := hres editor.baton payload element
    rw [hw']
    exact ⟨{ editor with baton := w' }, rfl, hw, hc, cb, hcb, hres⟩
  | some probe =>
    have hp : probe editor.baton = ((probe editor.baton).1, none) := by
      rw [← hc probe hcf editor.baton]
    rw [((do_callback_cases chk editor payload hw).2.1 probe _ hcf hp).2]
    obtain ⟨w', hw'⟩ := hres (probe editor.baton).1 payload element
    rw [hw']
    exact ⟨{ editor with baton := w' }, rfl, hw, hc, cb, hcb, hres⟩

theorem resolve_element_ok {W : Type} (chk : Bool)
    (uninitialised : Option svn_element_payload_t) (editor : svn_editor3_t W)
    (resolve : Option svn_branch_el_rev_content_t → Option svn_element_payload_t)
    (hR : Resolving editor resolve) (element : Option svn_branch_el_rev_content_t) :
    ∃ after, resolve_element chk uninitialised editor element
        = Reply.ok (after, resolved resolve element)
      ∧ Resolving after resolve := by
  cases element with
  | none => exact ⟨editor, rfl, hR⟩
  | some el =>
    obtain ⟨after, h1, h2⟩ := payload_resolve_resolving chk editor resolve hR uninitialised
      (some el)
    refine ⟨after, ?_, h2⟩
    simp only [resolve_element, h1, resolved, Option.map_some']

theorem subtree_differences_loop_spec {W : Type} (chk : Bool)
    (peq : Option svn_element_content_t → Option svn_element_content_t → Bool)
    (uninitialised : Option svn_element_payload_t) (left right : svn_branch_subtree_t)
    (resolve : Option svn_branch_el_rev_content_t → Option svn_element_payload_t)
    (hl : NamesSet left.e_map) (hr : NamesSet right.e_map) :
    ∀ (keys : List Int) (editor : svn_editor3_t W) (diff : DiffMap),
    Resolving editor resolve →
    ∃ after diff',
      subtree_differences_loop chk peq uninitialised left right keys editor diff
        = Reply.ok (after, diff')
      ∧ Resolving after resolve
      ∧ (∀ e, diff'.lookup e
          = if e ∈ keys
              ∧ structurally_equal peq (resolved resolve (svn_int_hash_get left.e_map e))
                  (resolved resolve (svn_int_hash_get right.e_map e)) = false
            then some (resolved resolve (svn_int_hash_get left.e_map e),
              resolved resolve (svn_int_hash_get right.e_map e))
            else diff.lookup e)
      ∧ ((diff.map Prod.fst).Nodup → (diff'.map Prod.fst).Nodup) := by
  intro keys
  induction keys with
  | nil =>
    intro editor diff hR
    exact ⟨editor, diff, rfl, hR, fun e => by simp, fun h => h⟩
  | cons k rest ih =>
    intro editor diff hR
    obtain ⟨e1, h1, hR1⟩ := resolve_element_ok chk uninitialised editor resolve hR
      (svn_int_hash_get left.e_map k)
    obtain ⟨e2, h2, hR2⟩ := resolve_element_ok chk uninitialised e1 resolve hR1
      (svn_int_hash_get right.e_map k)
    have heq := content_equal_total peq
      (resolved resolve (svn_int_hash_get left.e_map k))
      (resolved resolve (svn_int_hash_get right.e_map k))
      (fun el h => resolved_name left.e_map hl resolve k el h)
      (fun el h => resolved_name right.e_map hr resolve k el h)
    obtain ⟨after, diff', h3, hR3, hlook, hnd⟩ := ih e2
      (if !structurally_equal peq (resolved resolve (svn_int_hash_get left.e_map k))
            (resolved resolve (svn_int_hash_get right.e_map k)) then
         diff.filter (fun kv => kv.1 != k)
           ++ [(k, (resolved resolve (svn_int_hash_get left.e_map k),
                 resolved resolve (svn_int_hash_get right.e_map k)))]
       else diff) hR2
    refine ⟨after, diff', ?_, hR3, fun e => ?_, fun h => hnd ?_⟩
    · simp only [subtree_differences_loop, h1, h2, heq]
      exact h3
    · rw [hlook e]
      cases hsk : structurally_equal peq (resolved resolve (svn_int_hash_get left.e_map k))
          (resolved resolve (svn_int_hash_get right.e_map k))
      · simp only [Bool.not_false, if_true, lookup_rebind]
        by_cases hk : e = k
        · subst hk
          simp [hsk]
        · simp [hk, List.mem_cons]
      · simp only [Bool.not_true, Bool.false_eq_true, if_false]
        by_cases hk : e = k
        · subst hk
          simp [hsk]
        · simp [hk, List.mem_cons]
    · cases hsk : structurally_equal peq
          (resolved resolve (svn_int_hash_get left.e_map k))
          (resolved resolve (svn_int_hash_get right.e_map k))
      · simp only [Bool.not_false, if_true]
        exact nodup_rebind diff k _ h
      · simp only [Bool.not_true, Bool.false_eq_true, if_false]
        exact h

theorem structurally_equal_absent
    (peq : Option svn_element_content_t → Option svn_element_content_t → Bool) :
    structurally_equal peq none none = true := rfl

theorem structurally_equal_refl
    (peq : Option svn_element_content_t → Option svn_element_content_t → Bool)
    (hrefl : ∀ a, peq a a = true) (l : Option svn_branch_el_rev_content_t) :
    structurally_equal peq l l = true := by
  cases l with
  | none => rfl
  | some a => simp [structurally_equal, hrefl]

theorem structurally_equal_symm
    (peq : Option svn_element_content_t → Option svn_element_content_t → Bool)
    (hsymm : ∀ a b, peq a b = peq b a) (l r : Option svn_branch_el_rev_content_t) :
    structurally_equal peq l r = structurally_equal peq r l := by
  cases l with
  | none => cases r <;> rfl
  | some a =>
    cases r with
    | none => rfl
    | some b =>
      simp only [structurally_equal]
      rw [hsymm a.content b.content]
      congr 2
      · exact decide_eq_decide.2 ⟨Eq.symm, Eq.symm⟩
      · exact decide_eq_decide.2 ⟨Eq.symm, Eq.symm⟩

theorem lookup_all_none {β : Type} (m : List (Int × β)) (h : ∀ e, m.lookup e = none) :
    m = [] := by
  cases m with
  | nil => rfl
  | cons kv m =>
    obtain ⟨a, b⟩ := kv
    have := h a
    simp [List.lookup_cons] at this

theorem subtree_differences_ok {W : Type} (chk : Bool)
    (peq : Option svn_element_content_t → Option svn_element_content_t → Bool)
    (uninitialised : Option svn_element_payload_t) (editor : svn_editor3_t W)
    (left right : svn_branch_subtree_t)
    (resolve : Option svn_branch_el_rev_content_t → Option svn_element_payload_t)
    (hR : Resolving editor resolve) (hl : NamesSet left.e_map) (hr : NamesSet right.e_map) :
    ∃ after diff,
      svn_branch_subtree_differences chk peq uninitialised editor left right
        = Reply.ok (after, some diff)
      ∧ Resolving after resolve
      ∧ (diff.map Prod.fst).Nodup
      ∧ ∀ e, diff.lookup e
          = if structurally_equal peq (resolved resolve (svn_int_hash_get left.e_map e))
                (resolved resolve (svn_int_hash_get right.e_map e)) = false
            then some (resolved resolve (svn_int_hash_get left.e_map e),
              resolved resolve (svn_int_hash_get right.e_map e))
            else none := by
  obtain ⟨after, diff, h1, h2, h3, h4⟩ := subtree_differences_loop_spec chk peq uninitialised
    left right resolve hl hr ((apr_hash_overlay left.e_map right.e_map).map Prod.fst) editor []
    hR
  refine ⟨after, diff, ?_, h2, h4 List.nodup_nil, fun e => ?_⟩
  · simp only [svn_branch_subtree_differences, h1]
  · rw [h3 e]
    by_cases hs : structurally_equal peq (resolved resolve (svn_int_hash_get left.e_map e))
        (resolved resolve (svn_int_hash_get right.e_map e)) = false
    · have hin : e ∈ (apr_hash_overlay left.e_map right.e_map).map Prod.fst := by
        rw [overlay_keys]
        by_contra hno
        simp only [not_or, Bool.not_eq_true, Option.not_isSome, Option.isNone_iff_eq_none]
          at hno
        rw [hno.1, hno.2] at hs
        cases hs
      rw [if_pos ⟨hin, hs⟩, if_pos hs]
    · rw [if_neg (fun h => hs h.2), if_neg hs]
      rfl

/-- C35: `svn_branch_subtree_differences` with an editor that resolves every payload, the
payload depending on the element only, on subtrees whose elements have names.  The function
returns `SVN_NO_ERROR` and a table with each key once.  The table has a value at `e` exactly
when `e` is an EID of the left or of the right element map and
`svn_branch_el_rev_content_equal` is FALSE on the two resolved elements, and the value is the
pair of the resolved left element and the resolved right element, either of which is absent
when the map has no element at `e`.  The test of `svn_branch_el_rev_content_equal` is the
structural equality: both absent, or both present with the same parent EID, name and payload,
the payloads compared by `svn_element_content_equal`.  When that comparison is reflexive the
differences of a subtree with itself are empty, and when it is symmetric the differences with
left and right swapped have the same keys and the swapped pairs. -/
theorem subtree_differences_keys {W : Type} (ENABLE_ORDERING_CHECK : Bool)
    (svn_element_content_equal :
      Option svn_element_content_t → Option svn_element_content_t → Bool)
    (uninitialised : Option svn_element_payload_t) (editor : svn_editor3_t W)
    (left right : svn_branch_subtree_t)
    (resolve : Option svn_branch_el_rev_content_t → Option svn_element_payload_t)
    (hR : Resolving editor resolve) (hl : NamesSet left.e_map) (hr : NamesSet right.e_map) :
    ∃ after diff,
      svn_branch_subtree_differences ENABLE_ORDERING_CHECK svn_element_content_equal
          uninitialised editor left right = Reply.ok (after, some diff)
      ∧ (diff.map Prod.fst).Nodup
      ∧ (∀ e pair, diff.lookup e = some pair
          ↔ ((svn_int_hash_get left.e_map e).isSome = true
              ∨ (svn_int_hash_get right.e_map e).isSome = true)
            ∧ svn_branch_el_rev_content_equal svn_element_content_equal
                (resolved resolve (svn_int_hash_get left.e_map e))
                (resolved resolve (svn_int_hash_get right.e_map e)) = Outcome.ok false
            ∧ pair = (resolved resolve (svn_int_hash_get left.e_map e),
                resolved resolve (svn_int_hash_get right.e_map e)))
      ∧ (∀ e, svn_branch_el_rev_content_equal svn_element_content_equal
            (resolved resolve (svn_int_hash_get left.e_map e))
            (resolved resolve (svn_int_hash_get right.e_map e))
          = Outcome.ok (structurally_equal svn_element_content_equal
              (resolved resolve (svn_int_hash_get left.e_map e))
              (resolved resolve (svn_int_hash_get right.e_map e))))
      ∧ ((∀ a, svn_element_content_equal a a = true) → left.e_map = right.e_map → diff = [])
      ∧ ((∀ a b, svn_element_content_equal a b = svn_element_content_equal b a) →
          ∃ after' diff',
            svn_branch_subtree_differences ENABLE_ORDERING_CHECK svn_element_content_equal
                uninitialised editor right left = Reply.ok (after', some diff')
            ∧ ∀ e, diff'.lookup e = (diff.lookup e).map Prod.swap) := by
  obtain ⟨after, diff, h1, _, h3, h4⟩ := subtree_differences_ok ENABLE_ORDERING_CHECK
    svn_element_content_equal uninitialised editor left right resolve hR hl hr
  have htot : ∀ e, svn_branch_el_rev_content_equal svn_element_content_equal
        (resolved resolve (svn_int_hash_get left.e_map e))
        (resolved resolve (svn_int_hash_get right.e_map e))
      = Outcome.ok (structurally_equal svn_element_content_equal
          (resolved resolve (svn_int_hash_get left.e_map e))
          (resolved resolve (svn_int_hash_get right.e_map e))) := fun e =>
    content_equal_total svn_element_content_equal _ _
      (fun el h => resolved_name left.e_map hl resolve e el h)
      (fun el h => resolved_name right.e_map hr resolve e el h)
  refine ⟨after, diff, h1, h3, fun e pair => ?_, htot, fun hrefl hsame => ?_, fun hsymm => ?_⟩
  · rw [h4 e, htot e]
    by_cases hs : structurally_equal svn_element_content_equal
        (resolved resolve (svn_int_hash_get left.e_map e))
        (resolved resolve (svn_int_hash_get right.e_map e)) = false
    · rw [if_pos hs, hs]
      have hin : (svn_int_hash_get left.e_map e).isSome = true
          ∨ (svn_int_hash_get right.e_map e).isSome = true := by
        by_contra hno
        simp only [not_or, Bool.not_eq_true, Option.not_isSome, Option.isNone_iff_eq_none]
          at hno
        rw [hno.1, hno.2] at hs
        cases hs
      constructor
      · intro h
        exact ⟨hin, rfl, (Option.some.inj h).symm⟩
      · rintro ⟨_, _, rfl⟩
        rfl
    · rw [if_neg hs]
      simp only [Bool.not_eq_false] at hs
      rw [hs]
      constructor
      · intro h
        cases h
      · rintro ⟨_, h, _⟩
        cases h
  · apply lookup_all_none
    intro e
    rw [h4 e, hsame, structurally_equal_refl svn_element_content_equal hrefl]
    rfl
  · obtain ⟨after', diff', g1, _, _, g4⟩ := subtree_differences_ok ENABLE_ORDERING_CHECK
      svn_element_content_equal uninitialised editor right left resolve hR hr hl
    refine ⟨after', diff', g1, fun e => ?_⟩
    rw [g4 e, h4 e, structurally_equal_symm svn_element_content_equal hsymm]
    by_cases hs : structurally_equal svn_element_content_equal
        (resolved resolve (svn_int_hash_get left.e_map e))
        (resolved resolve (svn_int_hash_get right.e_map e)) = false
    · rw [if_pos hs, if_pos hs]
      rfl
    · rw [if_neg hs, if_neg hs]
      rfl

theorem counting_resolving : Resolving counting_editor example_resolve :=
  ⟨rfl, (fun _ h => by cases h), _, rfl, fun w _ _ => ⟨w + 1, rfl⟩⟩

theorem example_names_left : NamesSet example_left.e_map := by
  intro kv h
  simp only [example_left, List.mem_cons, List.mem_singleton, List.not_mem_nil, or_false] at h
  rcases h with rfl | rfl <;> simp

theorem example_names_right : NamesSet example_right.e_map := by
  intro kv h
  simp only [example_right, List.mem_cons, List.mem_singleton, List.not_mem_nil, or_false] at h
  rcases h with rfl | rfl <;> simp

/-- C35, witness: the counting editor resolves every payload, the two example subtrees have
names, and their differences are returned. -/
theorem subtree_differences_keys_witness :
    Resolving counting_editor example_resolve
    ∧ NamesSet example_left.e_map ∧ NamesSet example_right.e_map
    ∧ ∃ after diff,
        svn_branch_subtree_differences true (fun a b => a == b) none counting_editor
          example_left example_right = Reply.ok (after, some diff)
        ∧ (diff.map Prod.fst).Nodup :=
  ⟨counting_resolving, example_names_left, example_names_right,
    let ⟨after, diff, h1, h2, _⟩ := subtree_differences_keys true (fun a b => a == b) none
      counting_editor example_left example_right example_resolve counting_resolving
      example_names_left example_names_right
    ⟨after, diff, h1, h2⟩⟩

theorem strncmp_append (p x : List Char) : strncmp (p ++ x) p p.length = 0 := by
  induction p with
  | nil => cases x <;> rfl
  | cons a p ih =>
    simp only [List.cons_append, List.length_cons, strncmp, if_true]
    exact ih

theorem strncmp_zero_iff (b : List Char) (hb : ∀ c ∈ b, c.toNat ≠ 0) :
    ∀ (n : Nat) (a : List Char), n ≤ b.length →
    (strncmp a b n = 0 ↔ a.take n = b.take n) := by
  induction b with
  | nil =>
    intro n a hn
    have : n = 0 := by simpa using hn
    subst this
    simp [strncmp]
  | cons c b ih =>
    intro n a hn
    cases n with
    | zero => simp [strncmp]
    | succ n =>
      have hc : c.toNat ≠ 0 := hb c (List.mem_cons_self _ _)
      cases a with
      | nil =>
        simp only [strncmp, List.take_nil, List.take_succ_cons]
        constructor
        · intro h
          omega
        · intro h
          cases h
      | cons x a =>
        simp only [strncmp, List.take_succ_cons, List.cons.injEq]
        by_cases hx : x = c
        · subst hx
          simp only [if_true, true_and]
          exact ih (fun d hd => hb d (List.mem_cons_of_mem _ hd)) n a
            (by simpa using hn)
        · simp only [if_neg hx, hx, false_and, iff_false]
          intro h
          rw [if_neg (fun f => f)] at h
          apply hx
          have h1 : x.toNat = c.toNat := by omega
          rw [← Char.ofNat_toNat x, h1, Char.ofNat_toNat]

theorem strchr_append (host rest : List Char) (c : Char) (h : c ∉ host) :
    strchr (host ++ c :: rest) c = some (c :: rest) := by
  induction host with
  | nil => simp [strchr]
  | cons a host ih =>
    have ha : a ≠ c := fun e => h (e ▸ List.mem_cons_self _ _)
    simp only [List.cons_append, strchr, if_neg ha]
    exact ih (fun hm => h (List.mem_cons_of_mem _ hm))

theorem split_URL_host {R : Type} (decode : String → String)
    (find_root : String → Option String) (repos_open : String → Option R)
    (count : String → Nat) (remove : String → Nat → String) (host rest : List Char)
    (hs : '/' ∉ host) :
    svn_ra_local__split_URL decode find_root repos_open count remove
        (String.mk ("file://".data ++ host ++ '/' :: rest))
      = if host ≠ [] ∧ strncmp (decode (String.mk host)).data "localhost/".data 10 ≠ 0 then
          Except.error svn_errno_t.SVN_ERR_RA_ILLEGAL_URL
        else
          match find_root (decode (String.mk ('/' :: rest))) with
          | none => Except.error svn_errno_t.SVN_ERR_RA_LOCAL_REPOS_OPEN_FAILED
          | some repos_root =>
            match repos_open repos_root with
            | none => Except.error svn_errno_t.SVN_ERR_RA_LOCAL_REPOS_OPEN_FAILED
            | some repos =>
              Except.ok (repos,
                remove (String.mk ("file://".data ++ host ++ '/' :: rest))
                  (count (String.mk
                    ((decode (String.mk ('/' :: rest))).data.drop repos_root.length))),
                String.mk ((decode (String.mk ('/' :: rest))).data.drop repos_root.length)) := by
  have h1 : strncmp ("file://".data ++ host ++ '/' :: rest) "file://".data 7 = 0 := by
    rw [List.append_assoc]
    exact strncmp_append "file://".data (host ++ '/' :: rest)
  have h2 : ("file://".data ++ host ++ '/' :: rest).drop 7 = host ++ '/' :: rest := by
    rw [List.append_assoc]
    exact List.drop_left' rfl
  have h3 := strchr_append host rest '/' hs
  have h4 : (host ++ '/' :: rest).length - ('/' :: rest).length = host.length := by
    simp
  have h5 : (host ++ '/' :: rest).length ≠ ('/' :: rest).length ↔ host ≠ [] := by
    cases host with
    | nil => simp
    | cons a host =>
      simp only [List.cons_append, List.length_cons, List.length_append, ne_eq,
        reduceCtorEq, not_false_eq_true, iff_true]
      omega
  unfold svn_ra_local__split_URL
  simp only [h1, h2, h3, h4, h5, ne_eq, not_true_eq_false, if_false, List.take_left']
  try rfl

/-- C36: the hostname rule of `svn_ra_local__split_URL` as the code has it.  For a URL
`file://<host>/<rest>` whose host has no slash, the call returns the illegal-URL error
exactly when the host is not empty and the first ten characters of the decoded host are not
`localhost/`: the copy of the host ends before the slash, so the host `localhost` is rejected,
for every rest of the URL and every `svn_path_uri_decode` that leaves `localhost` as it is,
while the empty host passes the check. -/
theorem split_URL_rejects_localhost {R : Type} (svn_path_uri_decode : String → String)
    (svn_repos_find_root_path : String → Option String) (svn_repos_open : String → Option R)
    (svn_path_component_count : String → Nat)
    (svn_path_remove_components : String → Nat → String) :
    (∀ host rest, '/' ∉ host →
      (svn_ra_local__split_URL svn_path_uri_decode svn_repos_find_root_path svn_repos_open
          svn_path_component_count svn_path_remove_components
          (String.mk ("file://".data ++ host ++ '/' :: rest))
        = Except.error svn_errno_t.SVN_ERR_RA_ILLEGAL_URL
      ↔ host ≠ []
        ∧ (svn_path_uri_decode (String.mk host)).data.take 10 ≠ "localhost/".data))
    ∧ (svn_path_uri_decode "localhost" = "localhost" →
      ∀ rest,
        svn_ra_local__split_URL svn_path_uri_decode svn_repos_find_root_path svn_repos_open
          svn_path_component_count svn_path_remove_components
          (String.mk ("file://localhost/".data ++ rest))
        = Except.error svn_errno_t.SVN_ERR_RA_ILLEGAL_URL) := by
  have hno : ∀ c ∈ "localhost/".data, c.toNat ≠ 0 := by decide
  have hz : ∀ a : List Char,
      strncmp a "localhost/".data 10 = 0 ↔ a.take 10 = "localhost/".data := fun a =>
    strncmp_zero_iff "localhost/".data hno 10 a (by decide)
  have key : ∀ host rest, '/' ∉ host →
      (svn_ra_local__split_URL svn_path_uri_decode svn_repos_find_root_path svn_repos_open
          svn_path_component_count svn_path_remove_components
          (String.mk ("file://".data ++ host ++ '/' :: rest))
        = Except.error svn_errno_t.SVN_ERR_RA_ILLEGAL_URL
      ↔ host ≠ []
        ∧ (svn_path_uri_decode (String.mk host)).data.take 10 ≠ "localhost/".data) := by
    intro host rest hs
    rw [split_URL_host svn_path_uri_decode svn_repos_find_root_path svn_repos_open
      svn_path_component_count svn_path_remove_components host rest hs]
    by_cases hc : host ≠ []
        ∧ strncmp (svn_path_uri_decode (String.mk host)).data "localhost/".data 10 ≠ 0
    · rw [if_pos hc]
      exact ⟨fun _ => ⟨hc.1, fun h => hc.2 ((hz _).2 h)⟩, fun _ => rfl⟩
    · rw [if_neg hc]
      constructor
      · intro h
        cases hf : svn_repos_find_root_path (svn_path_uri_decode (String.mk ('/' :: rest)))
          with
        | none => simp only [hf] at h; cases h
        | some root =>
          simp only [hf] at h
          cases ho : svn_repos_open root with
          | none => simp only [ho] at h; cases h
          | some repos => simp only [ho] at h; cases h
      · rintro ⟨g1, g2⟩
        exact absurd ⟨g1, fun h => g2 ((hz _).1 h)⟩ hc
  refine ⟨key, fun hd rest => ?_⟩
  have := (key "localhost".data rest (by decide)).2
    ⟨by decide, by
      have e : (String.mk "localhost".data) = "localhost" := rfl
      rw [e, hd]
      decide⟩
  exact this

/-- C36, witness: with a decoding that changes nothing, `file://localhost/some/path` gets the
illegal-URL error, and `file:///some/path` gets past the hostname check. -/
theorem split_URL_rejects_localhost_witness :
    svn_ra_local__split_URL (fun s => s) (fun s => some s) (fun _ => some ()) (fun _ => 0)
        (fun s _ => s) "file://localhost/some/path"
      = Except.error svn_errno_t.SVN_ERR_RA_ILLEGAL_URL
    ∧ svn_ra_local__split_URL (fun s => s) (fun s => some s) (fun _ => some ()) (fun _ => 0)
        (fun s _ => s) "file:///some/path"
      ≠ Except.error svn_errno_t.SVN_ERR_RA_ILLEGAL_URL :=
  ⟨(split_URL_rejects_localhost (fun s => s) (fun s => some s) (fun _ => some ()) (fun _ => 0)
      (fun s _ => s)).2 rfl "some/path".data,
    fun h => absurd
      (((split_URL_rejects_localhost (fun s => s) (fun s => some s) (fun _ => some ())
        (fun _ => 0) (fun s _ => s)).1 [] "some/path".data (by decide)).1 h).1
      (fun f => f rfl)⟩

theorem root_path_not_null (f : svn_branch_family_t) (b : svn_branch_instance_t) (fuel : Nat) :
    svn_branch_get_path_by_eid f b fuel b.sibling_defn.root_eid ≠ Outcome.ok none := by
  unfold svn_branch_get_path_by_eid
  by_cases he : FAMILY_HAS_ELEMENT f b.sibling_defn.root_eid = true
  · rw [if_pos he]
    cases fuel with
    | zero => simp [svn_branch_get_path_by_eid_loop]
    | succ k => simp [svn_branch_get_path_by_eid_loop, IS_BRANCH_ROOT_EID]
  · rw [if_neg he]
    simp

/-- C37: for a branch whose root EID is an EID of the family, which
`svn_branch_sibling_create` asserts, `svn_branch_get_path_by_eid` at the root EID returns the
empty path, whatever the element map holds and also when it is empty; and for every branch
the calls of `svn_branch_branch_subtree_r` and `svn_branch_branch_into` with the root EID as
`from_eid` do not return an error, so the check that the source element exists does not
reject it. -/
theorem root_source_never_rejected (family : svn_branch_family_t)
    (branch : svn_branch_instance_t)
    (he : FAMILY_HAS_ELEMENT family branch.sibling_defn.root_eid = true) :
    (∀ k, svn_branch_get_path_by_eid family branch (k + 1) branch.sibling_defn.root_eid
        = Outcome.ok (some ""))
    ∧ (∀ k e_map, svn_branch_get_path_by_eid family { branch with e_map := e_map } (k + 1)
          branch.sibling_defn.root_eid = Outcome.ok (some ""))
    ∧ (∀ fuel rev_root from_branch to_outer_branch to_outer_parent_eid new_name s e,
        rev_root.store.get? from_branch = some branch →
        svn_branch_branch_subtree_r fuel family rev_root from_branch
            branch.sibling_defn.root_eid to_outer_branch to_outer_parent_eid new_name
          ≠ Run.error s e)
    ∧ (∀ fuel rev_root from_branch to_branch to_parent_eid new_name s e,
        rev_root.store.get? from_branch = some branch →
        svn_branch_branch_into fuel family rev_root from_branch
            branch.sibling_defn.root_eid to_branch to_parent_eid new_name
          ≠ Run.error s e) := by
  refine ⟨fun k => path_of_root he k,
    fun k e_map => path_of_root (b := { branch with e_map := e_map }) he k, ?_, ?_⟩
  · intro fuel rev_root from_branch to_outer_branch to_outer_parent_eid new_name s e hget h
    unfold svn_branch_branch_subtree_r at h
    simp only [hget] at h
    have hnn := root_path_not_null family branch fuel
    split at h
    · exact hnn (by assumption)
    · repeat' split at h
      all_goals cases h
    · cases h
    · cases h
  · intro fuel rev_root from_branch to_branch to_parent_eid new_name s e hget h
    unfold svn_branch_branch_into at h
    simp only [hget] at h
    have hnn := root_path_not_null family branch fuel
    split at h
    · exact hnn (by assumption)
    · repeat' split at h
      all_goals cases h
    · cases h
    · cases h

/-- C37, witness: in a family with the EIDs 0 to 9, the path of the root EID 0 of a branch
with an empty element map is the empty path, and branching from it into the branch itself is
not rejected. -/
theorem root_source_never_rejected_witness :
    FAMILY_HAS_ELEMENT (family_of 0 10) (branch_of []).sibling_defn.root_eid = true
    ∧ svn_branch_get_path_by_eid (family_of 0 10) (branch_of []) 1 0 = Outcome.ok (some "")
    ∧ svn_branch_branch_into 3 (family_of 0 10) empty_branch_root 0 0 0 0 (some "copy")
        ≠ Run.error empty_branch_root svn_errno_t.SVN_ERR_BRANCHING :=
  ⟨rfl, (root_source_never_rejected (family_of 0 10) (branch_of []) rfl).1 0,
    (root_source_never_rejected (family_of 0 10) (branch_of []) rfl).2.2.2 3
      empty_branch_root 0 0 0 (some "copy") empty_branch_root svn_errno_t.SVN_ERR_BRANCHING
      rfl⟩

theorem root_rrpath_outer {f : svn_branch_family_t} {S : List svn_branch_instance_t}
    {c b : svn_branch_instance_t} {a m : Nat} {R : String}
    (h : svn_branch_get_root_rrpath f S m c = Outcome.ok R) (ho : c.outer_branch = some a)
    (hb : S.get? a = some b) :
    ∃ m' R', m = m' + 1 ∧ svn_branch_get_root_rrpath f S m' b = Outcome.ok R' := by
  cases m with
  | zero => simp [svn_branch_get_root_rrpath] at h
  | succ m' =>
    refine ⟨m', ?_⟩
    simp only [svn_branch_get_root_rrpath, ho, hb] at h
    cases hp : svn_branch_get_path_by_eid f b m' c.outer_eid with
    | malfunction => rw [hp] at h; cases h
    | out_of_fuel => rw [hp] at h; cases h
    | ok p =>
      rw [hp] at h
      cases p with
      | none => cases h
      | some path =>
        simp only at h
        cases hr : svn_branch_get_root_rrpath f S m' b with
        | malfunction => rw [hr] at h; cases h
        | out_of_fuel => rw [hr] at h; cases h
        | ok R' => exact ⟨R', rfl, rfl⟩

theorem eid_by_rrpath_returns {f : svn_branch_family_t} {S : List svn_branch_instance_t}
    {b : svn_branch_instance_t} {fuel : Nat} {R : String}
    (hR : svn_branch_get_root_rrpath f S fuel b = Outcome.ok R)
    (hkeys : ∀ e n, (e, n) ∈ b.e_map →
      ∃ res, svn_branch_get_path_by_eid f b fuel e = Outcome.ok res) (rrpath : String) :
    ∃ eid, svn_branch_get_eid_by_rrpath f S fuel b rrpath = Outcome.ok eid := by
  simp only [svn_branch_get_eid_by_rrpath, hR]
  cases svn_relpath_skip_ancestor R rrpath with
  | none => exact ⟨-1, rfl⟩
  | some p => exact eid_scan_total f b fuel p b.e_map hkeys

/-- With a defined root path for every instance and a path computation that returns for every
key, the nested lookup returns from every instance; `n` bounds the depth of the nesting below
the instance. -/
theorem find_nested_returns {f : svn_branch_family_t} {rr : svn_branch_revision_root_t}
    {K1 K0 : Nat} (hK1 : K1 ≤ K0)
    (hroot : ∀ fuel, K1 ≤ fuel → ∀ b ∈ rr.store,
      ∃ R, svn_branch_get_root_rrpath f rr.store fuel b = Outcome.ok R)
    (hkeys : ∀ fuel, K0 ≤ fuel → ∀ b ∈ rr.store, ∀ e n, (e, n) ∈ b.e_map →
      ∃ res, svn_branch_get_path_by_eid f b fuel e = Outcome.ok res)
    (rrpath : String) :
    ∀ (n a : Nat) (b : svn_branch_instance_t), rr.store.get? a = some b →
    (∀ m R, svn_branch_get_root_rrpath f rr.store m b = Outcome.ok R → K1 ≤ m + n) →
    ∀ fuel, K0 + n + 1 ≤ fuel →
    ∃ res, svn_branch_find_nested_branch_element_by_rrpath f rr fuel a rrpath
      = Outcome.ok res := by
  intro n
  induction n with
  | zero =>
    intro a b hb hmin fuel hf
    obtain ⟨k, rfl⟩ : ∃ k, fuel = k + 1 := ⟨fuel - 1, by omega⟩
    have hmem : b ∈ rr.store := List.mem_iff_get?.2 ⟨a, hb⟩
    obtain ⟨R, hR⟩ := hroot k (by omega) b hmem
    simp only [svn_branch_find_nested_branch_element_by_rrpath, hb, hR]
    cases svn_relpath_skip_ancestor R rrpath with
    | none => exact ⟨none, rfl⟩
    | some p =>
      simp only
      obtain ⟨r, hr⟩ := find_first_total
        (fun s => svn_branch_find_nested_branch_element_by_rrpath f rr k s rrpath)
        (svn_branch_get_all_sub_branches rr a) (fun s hs => by
          exfalso
          obtain ⟨_, c, hc, hco⟩ := mem_sub_branches.1 hs
          obtain ⟨Rc, hRc⟩ := hroot K1 (le_refl _) c (List.mem_iff_get?.2 ⟨s, hc⟩)
          obtain ⟨m', R', hm, hR'⟩ := root_rrpath_outer hRc hco hb
          have := hmin m' R' hR'
          omega)
      rw [hr]
      cases r with
      | some x => exact ⟨some x, rfl⟩
      | none =>
        obtain ⟨eid, he⟩ := eid_by_rrpath_returns hR (hkeys k (by omega) b hmem) rrpath
        simp only [he]
        exact ⟨some (a, eid), rfl⟩
  | succ n ih =>
    intro a b hb hmin fuel hf
    obtain ⟨k, rfl⟩ : ∃ k, fuel = k + 1 := ⟨fuel - 1, by omega⟩
    have hmem : b ∈ rr.store := List.mem_iff_get?.2 ⟨a, hb⟩
    obtain ⟨R, hR⟩ := hroot k (by omega) b hmem
    simp only [svn_branch_find_nested_branch_element_by_rrpath, hb, hR]
    cases svn_relpath_skip_ancestor R rrpath with
    | none => exact ⟨none, rfl⟩
    | some p =>
      simp only
      obtain ⟨r, hr⟩ := find_first_total
        (fun s => svn_branch_find_nested_branch_element_by_rrpath f rr k s rrpath)
        (svn_branch_get_all_sub_branches rr a) (fun s hs => by
          obtain ⟨_, c, hc, hco⟩ := mem_sub_branches.1 hs
          exact ih s c hc (fun m Rc hRc => by
            obtain ⟨m', R', hm, hR'⟩ := root_rrpath_outer hRc hco hb
            have := hmin m' R' hR'
            omega) k (by omega))
      rw [hr]
      cases r with
      | some x => exact ⟨some x, rfl⟩
      | none =>
        obtain ⟨eid, he⟩ := eid_by_rrpath_returns hR (hkeys k (by omega) b hmem) rrpath
        simp only [he]
        exact ⟨some (a, eid), rfl⟩

theorem store_fuel {f : svn_branch_family_t} {S : List svn_branch_instance_t}
    (hdef : RootPathsDefined f S) (hv : ∀ a b, S.get? a = some b → BranchValid f b)
    (hac : ∀ a b, S.get? a = some b → ∀ e n, (e, n) ∈ b.e_map →
      ChainTerminates b.e_map b.sibling_defn.root_eid e) :
    ∃ K1 K0, K1 ≤ K0
      ∧ (∀ fuel, K1 ≤ fuel → ∀ b ∈ S,
          ∃ R, svn_branch_get_root_rrpath f S fuel b = Outcome.ok R)
      ∧ (∀ fuel, K0 ≤ fuel → ∀ b ∈ S, ∀ e n, (e, n) ∈ b.e_map →
          ∃ res, svn_branch_get_path_by_eid f b fuel e = Outcome.ok res) := by
  obtain ⟨K1, hK1⟩ := uniform_of_list
    (fun fuel b => ∃ R, svn_branch_get_root_rrpath f S fuel b = Outcome.ok R) S
    (fun b hb => by
      obtain ⟨i, hi⟩ := List.mem_iff_get?.1 hb
      exact hdef i b hi)
  obtain ⟨K2, hK2⟩ := uniform_of_list
    (fun fuel (b : svn_branch_instance_t) => ∀ e n, (e, n) ∈ b.e_map →
      ∃ res, svn_branch_get_path_by_eid f b fuel e = Outcome.ok res) S
    (fun b hb => by
      obtain ⟨i, hi⟩ := List.mem_iff_get?.1 hb
      obtain ⟨K, hK⟩ := uniform_fuel (hv i b hi) (hac i b hi) b.e_map (fun _ h => h)
      exact ⟨K, fun fuel hf e n hm => hK e n hm fuel hf⟩)
  exact ⟨K1, max K1 K2, le_max_left _ _, hK1,
    fun fuel hf => hK2 fuel (le_trans (le_max_right _ _) hf)⟩

theorem cycle_nested_diverges : ∀ fuel,
    svn_branch_find_nested_branch_element_by_rrpath (family_of 0 3) cycle_rev_root fuel 0 "zzz"
      = Outcome.out_of_fuel := by
  intro fuel
  cases fuel with
  | zero => rfl
  | succ k =>
    have hb : cycle_rev_root.store.get? 0 = some (branch_of cycle_map) := rfl
    cases k with
    | zero => rfl
    | succ j =>
      have hR := root_rrpath_top (family_of 0 3) cycle_rev_root.store
        (b := branch_of cycle_map) rfl j
      have hs : svn_branch_get_all_sub_branches cycle_rev_root 0 = [] := by decide
      have he : svn_branch_get_eid_by_rrpath (family_of 0 3) cycle_rev_root.store (j + 1)
          (branch_of cycle_map) "zzz" = Outcome.out_of_fuel := by
        rw [eid_by_rrpath_top (family_of 0 3) cycle_rev_root.store
          (b := branch_of cycle_map) rfl j "zzz"]
        exact cycle_eid_scan_diverges (j + 1)
      have hk : svn_relpath_skip_ancestor "" "zzz" = some "zzz" := by decide
      simp only [svn_branch_find_nested_branch_element_by_rrpath, hb, hR, hk, hs,
        find_first_sub_branch, he]

theorem ready_rootPathsDefined {f : svn_branch_family_t} {r : svn_branch_revision_root_t}
    (h : RoundTripReady f r) : RootPathsDefined f r.store := by
  obtain ⟨K0, hK0⟩ := exists_fuelEnough h
  intro a b hb
  exact ⟨K0, fun fuel hf => (hK0 fuel hf a b hb).1⟩

/-- C38 (amended): for every revision root whose root branch is top-level, every branch
instance of which has a defined root path, and whose element maps pass validation and have
parent chains that end, and for every relative path: the nested lookup started at the root
branch returns a branch, given enough fuel, and with no amount of fuel does it return without
a branch; so `svn_branch_repos_find_el_rev_by_path_rev` returns a locator for an in-range
revision with such a revision root, and its assertion on the branch does not fail. -/
theorem nested_lookup_finds_branch (family : svn_branch_family_t)
    (rev_root : svn_branch_revision_root_t) (a : Nat) (root_branch : svn_branch_instance_t)
    (hroot : rev_root.store.get? a = some root_branch)
    (htop : root_branch.outer_branch = none)
    (hdef : RootPathsDefined family rev_root.store)
    (hv : ∀ i b, rev_root.store.get? i = some b → BranchValid family b)
    (hac : ∀ i b, rev_root.store.get? i = some b → ∀ e n, (e, n) ∈ b.e_map →
      ChainTerminates b.e_map b.sibling_defn.root_eid e)
    (rrpath : String) :
    (∃ K, ∀ fuel, K ≤ fuel →
      ∃ branch eid,
        svn_branch_find_nested_branch_element_by_rrpath family rev_root fuel a rrpath
          = Outcome.ok (some (branch, eid)))
    ∧ (∀ fuel,
        svn_branch_find_nested_branch_element_by_rrpath family rev_root fuel a rrpath
          ≠ Outcome.ok none)
    ∧ (∀ repos revnum, 0 ≤ revnum → repos.rev_roots.get? revnum.toNat = some rev_root →
        rev_root.root_branch = some a →
        ∃ K, ∀ fuel, K ≤ fuel →
          ∃ branch eid,
            svn_branch_repos_find_el_rev_by_path_rev family fuel repos rrpath revnum
              = Run.ok () { branch := some branch, eid := eid, rev := revnum }) := by
  obtain ⟨K1, K0, hle, h1, h2⟩ := store_fuel hdef hv hac
  have hsome : ∀ fuel, K0 + K1 + 1 ≤ fuel →
      ∃ branch eid,
        svn_branch_find_nested_branch_element_by_rrpath family rev_root fuel a rrpath
          = Outcome.ok (some (branch, eid)) := by
    intro fuel hf
    obtain ⟨res, hres⟩ := find_nested_returns hle h1 h2 rrpath K1 a root_branch hroot
      (fun m _ _ => by omega) fuel hf
    cases res with
    | none => exact absurd hres (find_nested_top_some family rev_root hroot htop rrpath fuel)
    | some x => exact ⟨x.1, x.2, hres⟩
  refine ⟨⟨K0 + K1 + 1, hsome⟩,
    fun fuel => find_nested_top_some family rev_root hroot htop rrpath fuel,
    fun repos revnum h0 hget hrb => ⟨K0 + K1 + 1, fun fuel hf => ?_⟩⟩
  obtain ⟨branch, eid, hres⟩ := hsome fuel hf
  have hlt : revnum.toNat < repos.rev_roots.length := lt_of_get hget
  have hin : ¬ (revnum < 0 ∨ revnum ≥ (repos.rev_roots.length : Int)) := by omega
  refine ⟨branch, eid, ?_⟩
  simp only [svn_branch_repos_find_el_rev_by_path_rev, if_neg hin, hget, hrb, hres]

/-- C38, witness: the theorem applied to the revision root with a top-level branch and the
branch nested in it at `sub`. -/
theorem nested_lookup_finds_branch_witness :
    ({ round_trip_root with rev := 0 } : svn_branch_revision_root_t).store.get? 0
        = some round_trip_top
    ∧ round_trip_top.outer_branch = none
    ∧ RootPathsDefined round_trip_family
        ({ round_trip_root with rev := 0 } : svn_branch_revision_root_t).store
    ∧ ∃ K, ∀ fuel, K ≤ fuel →
        ∃ branch eid,
          svn_branch_find_nested_branch_element_by_rrpath round_trip_family
            { round_trip_root with rev := 0 } fuel 0 "sub/f"
            = Outcome.ok (some (branch, eid)) :=
  ⟨rfl, rfl, ready_rootPathsDefined find_el_rev_root_ready,
    (nested_lookup_finds_branch round_trip_family { round_trip_root with rev := 0 } 0
      round_trip_top rfl rfl (ready_rootPathsDefined find_el_rev_root_ready)
      find_el_rev_root_ready.valid find_el_rev_root_ready.acyclic "sub/f").1⟩

/-- C38, counterexample: the revision root whose only branch is top-level with the map
`{0: root, 1: (parent 2, "a"), 2: (parent 1, "b")}`; every entry passes validation and the
branch has the root path `""`, yet the nested lookup of `zzz` from the root branch uses up
every amount of fuel, and so does `svn_branch_repos_find_el_rev_by_path_rev` for revision 0:
neither returns a branch. -/
theorem nested_lookup_diverges_on_cycle :
    cycle_rev_root.store.get? 0 = some (branch_of cycle_map)
    ∧ (branch_of cycle_map).outer_branch = none
    ∧ RootPathsDefined (family_of 0 3) cycle_rev_root.store
    ∧ (∀ i b, cycle_rev_root.store.get? i = some b → BranchValid (family_of 0 3) b)
    ∧ (∀ fuel,
        svn_branch_find_nested_branch_element_by_rrpath (family_of 0 3) cycle_rev_root fuel 0
          "zzz" = Outcome.out_of_fuel)
    ∧ (∀ fuel,
        svn_branch_repos_find_el_rev_by_path_rev (family_of 0 3) fuel cycle_repos "zzz" 0
          = Run.out_of_fuel) := by
  have hstore : ∀ i b, cycle_rev_root.store.get? i = some b → b = branch_of cycle_map := by
    intro i b h
    cases i with
    | zero => simp [cycle_rev_root] at h; exact h.symm
    | succ j => simp [cycle_rev_root] at h
  refine ⟨rfl, rfl, ?_, ?_, cycle_nested_diverges, fun fuel => ?_⟩
  · intro i b h
    rw [hstore i b h]
    exact ⟨1, fun fuel hf => by
      obtain ⟨k, rfl⟩ : ∃ k, fuel = k + 1 := ⟨fuel - 1, by omega⟩
      exact ⟨"", root_rrpath_top _ _ rfl k⟩⟩
  · intro i b h
    rw [hstore i b h]
    exact cycle_branch_valid
  · have hin : ¬ ((0 : Int) < 0 ∨ (0 : Int) ≥ ((cycle_repos.rev_roots.length : Nat) : Int)) := by
      decide
    have hget : cycle_repos.rev_roots.get? (0 : Int).toNat = some cycle_rev_root := rfl
    have hrb : cycle_rev_root.root_branch = some 0 := rfl
    simp only [svn_branch_repos_find_el_rev_by_path_rev, if_neg hin, hget, hrb,
      cycle_nested_diverges fuel]

theorem nested_root_no_branch (fuel : Nat) (x : Nat × Int) :
    svn_branch_find_nested_branch_element_by_rrpath round_trip_family nested_root_rev_root
      fuel 1 "dir" ≠ Outcome.ok (some x) := by
  intro h
  cases fuel with
  | zero => simp [svn_branch_find_nested_branch_element_by_rrpath] at h
  | succ k =>
    obtain ⟨rb, R, hrb, hR, hcase⟩ := find_nested_unfold h
    have hrb' : rb = round_trip_nested := by
      simp [nested_root_rev_root, round_trip_root] at hrb; exact hrb.symm
    subst hrb'
    have hsound : RootPath round_trip_root.store round_trip_nested R :=
      root_rrpath_sound (fun a b hb => round_trip_root_ready.valid a b hb) k
        round_trip_nested R hR
    have hsub : RootPath round_trip_root.store round_trip_nested "sub" :=
      RootPath.nested round_trip_nested 0 round_trip_top "sub" "" rfl rfl
        round_trip_top_paths.2.2 (RootPath.top round_trip_top rfl)
    have hRe : R = "sub" := rootPath_unique hsound _ hsub
    subst hRe
    rcases hcase with ⟨_, hres⟩ | ⟨hskip, _⟩
    · cases hres
    · exact hskip (by decide)

theorem pathTo_cases {b : svn_branch_instance_t} {e : Int} {p : String} (h : PathTo b e p) :
    (e = b.sibling_defn.root_eid ∧ p = "")
    ∨ (e ≠ b.sibling_defn.root_eid
      ∧ ∃ n name P, svn_int_hash_get b.e_map e = some n ∧ n.name = some name
          ∧ PathTo b n.parent_eid P ∧ p = svn_relpath_join P name) := by
  cases h with
  | root => exact Or.inl ⟨rfl, rfl⟩
  | step _ n name P hne hg hn hP => exact Or.inr ⟨hne, n, name, P, hg, hn, hP, rfl⟩

theorem dangling_store_cases {i : Nat} {b : svn_branch_instance_t}
    (h : dangling_rev_root.store.get? i = some b) :
    (i = 0 ∧ b = branch_of [(0, el (-1) "")]) ∨ (i = 1 ∧ b = dangling_nested) := by
  match i, h with
  | 0, h => left; simp [dangling_rev_root] at h; exact ⟨rfl, h.symm⟩
  | 1, h => right; simp [dangling_rev_root] at h; exact ⟨rfl, h.symm⟩
  | n + 2, h => simp [dangling_rev_root] at h

theorem dangling_store_valid (i : Nat) (b : svn_branch_instance_t)
    (h : dangling_rev_root.store.get? i = some b) : BranchValid (family_of 0 2) b := by
  rcases dangling_store_cases h with ⟨_, rfl⟩ | ⟨_, rfl⟩
  · exact branchValid_of_forall (by simp [NodupKeys, branch_of]) (by decide)
  · exact branchValid_of_forall (by simp [NodupKeys, dangling_nested]) (by decide)

theorem dangling_no_root_path (fuel : Nat) (R : String) :
    svn_branch_get_root_rrpath (family_of 0 2) dangling_rev_root.store fuel dangling_nested
      ≠ Outcome.ok R := by
  intro h
  have hsound := root_rrpath_sound dangling_store_valid fuel dangling_nested R h
  cases hsound with
  | top _ htop => cases htop
  | nested _ o ob p R0 ho hob hp _ =>
    have ho' : o = 0 := by
      have : dangling_nested.outer_branch = some 0 := rfl
      rw [this] at ho; cases ho; rfl
    subst ho'
    have hob' : ob = branch_of [(0, el (-1) "")] := by
      simp [dangling_rev_root] at hob; exact hob.symm
    subst hob'
    rcases pathTo_cases hp with ⟨h1, _⟩ | ⟨_, n, _, _, hg, _⟩
    · exact absurd h1 (by decide)
    · have hnone : svn_int_hash_get (branch_of [(0, el (-1) "")]).e_map
          dangling_nested.outer_eid = none := by decide
      rw [hnone] at hg
      cases hg

theorem dangling_no_branch (fuel : Nat) (res : Option (Nat × Int)) :
    svn_branch_find_nested_branch_element_by_rrpath (family_of 0 2) dangling_rev_root fuel 0
      "x" ≠ Outcome.ok res := by
  intro h
  cases fuel with
  | zero => simp [svn_branch_find_nested_branch_element_by_rrpath] at h
  | succ k =>
    obtain ⟨rb, R, hrb, hR, hcase⟩ := find_nested_unfold h
    have hrb' : rb = branch_of [(0, el (-1) "")] := by
      simp [dangling_rev_root] at hrb; exact hrb.symm
    subst hrb'
    cases k with
    | zero => simp [svn_branch_get_root_rrpath] at hR
    | succ j =>
      rcases hcase with ⟨hskip, _⟩ | ⟨_, r, hfirst, _⟩
      · rw [root_rrpath_top _ _ rfl j] at hR
        cases hR
        exact absurd hskip (by decide)
      · have hs : svn_branch_get_all_sub_branches dangling_rev_root 0 = [1] := by decide
        rw [hs] at hfirst
        simp only [find_first_sub_branch] at hfirst
        cases hn : svn_branch_find_nested_branch_element_by_rrpath (family_of 0 2)
            dangling_rev_root (j + 1) 1 "x" with
        | ok r1 =>
          obtain ⟨rb1, R1, hrb1, hR1, _⟩ := find_nested_unfold hn
          have : rb1 = dangling_nested := by
            simp [dangling_rev_root] at hrb1; exact hrb1.symm
          subst this
          exact dangling_no_root_path j R1 hR1
        | malfunction => rw [hn] at hfirst; cases hfirst
        | out_of_fuel => rw [hn] at hfirst; cases hfirst

theorem unallocated_no_branch (fuel : Nat) (res : Option (Nat × Int)) :
    svn_branch_find_nested_branch_element_by_rrpath (family_of 0 1) unallocated_rev_root
      fuel 0 "zzz" ≠ Outcome.ok res := by
  intro h
  cases fuel with
  | zero => simp [svn_branch_find_nested_branch_element_by_rrpath] at h
  | succ k =>
    obtain ⟨rb, R, hrb, hR, hcase⟩ := find_nested_unfold h
    have hrb' : rb = branch_of [(0, el (-1) ""), (1, el 0 "a")] := by
      simp [unallocated_rev_root] at hrb; exact hrb.symm
    subst hrb'
    cases k with
    | zero => simp [svn_branch_get_root_rrpath] at hR
    | succ j =>
      rw [root_rrpath_top _ _ rfl j] at hR
      cases hR
      rcases hcase with ⟨hskip, _⟩ | ⟨_, r, hfirst, hr⟩
      · exact absurd hskip (by decide)
      · rcases hr with ⟨x, hx, _⟩ | ⟨_, eid, he, _⟩
        · have hs : svn_branch_get_all_sub_branches unallocated_rev_root 0 = [] := by decide
          rw [hs] at hfirst
          simp only [find_first_sub_branch] at hfirst
          rw [hx] at hfirst
          cases hfirst
        · rw [eid_by_rrpath_top _ _ rfl j] at he
          have h0 : svn_branch_get_path_by_eid (family_of 0 1)
              (branch_of [(0, el (-1) ""), (1, el 0 "a")]) (j + 1) 0 = Outcome.ok (some "") :=
            path_of_root (by decide) j
          have h1 : svn_branch_get_path_by_eid (family_of 0 1)
              (branch_of [(0, el (-1) ""), (1, el 0 "a")]) (j + 1) 1 = Outcome.malfunction := by
            unfold svn_branch_get_path_by_eid
            rw [if_neg (by decide)]
          have hne : ¬ ("zzz" = "") := by decide
          simp only [branch_of, svn_branch_get_eid_by_path_scan] at he h0 h1
          simp only [h0, h1, if_neg hne] at he
          cases he

/-- C26 (amended): `svn_branch_repos_find_el_rev_by_path_rev(rrpath, revnum, repos)` returns
the error `SVN_ERR_FS_NO_SUCH_REVISION` if and only if `revnum < 0` or `revnum` is at least the
number of revision roots of the repository, and it returns no other error.  Otherwise, with
`rev_root` the revision root of `revnum` and `a` its root branch: the call returns a locator
exactly when the nested-branch lookup of `rrpath` from `a` returns a branch, and the locator
has that branch, the EID of the lookup and the revision `revnum`; the lookup from a top-level
root branch never comes back without a branch; and when the root branch is top-level, every
branch instance of `rev_root` has a defined root path, and the element maps pass validation
and have parent chains that end, the lookup returns a branch and the call returns the locator
of that branch, the EID of the lookup and `revnum`, given enough fuel. -/
theorem find_el_rev_by_path_rev_spec (family : svn_branch_family_t) (fuel : Nat)
    (repos : svn_branch_repos_t) (rrpath : String) (revnum : Int) :
    (svn_branch_repos_find_el_rev_by_path_rev family fuel repos rrpath revnum
        = Run.error () svn_errno_t.SVN_ERR_FS_NO_SUCH_REVISION
      ↔ revnum < 0 ∨ (repos.rev_roots.length : Int) ≤ revnum)
    ∧ (∀ s e, svn_branch_repos_find_el_rev_by_path_rev family fuel repos rrpath revnum
        = Run.error s e → e = svn_errno_t.SVN_ERR_FS_NO_SUCH_REVISION)
    ∧ (∀ rev_root a, 0 ≤ revnum → repos.rev_roots.get? revnum.toNat = some rev_root →
        rev_root.root_branch = some a →
        (∀ el, svn_branch_repos_find_el_rev_by_path_rev family fuel repos rrpath revnum
            = Run.ok () el
          ↔ ∃ b, svn_branch_find_nested_branch_element_by_rrpath family rev_root fuel a rrpath
              = Outcome.ok (some (b, el.eid)) ∧ el.branch = some b ∧ el.rev = revnum)
        ∧ (∀ root_branch, rev_root.store.get? a = some root_branch →
            root_branch.outer_branch = none →
            svn_branch_find_nested_branch_element_by_rrpath family rev_root fuel a rrpath
              ≠ Outcome.ok none)
        ∧ (∀ root_branch, rev_root.store.get? a = some root_branch →
            root_branch.outer_branch = none →
            RootPathsDefined family rev_root.store →
            (∀ i b, rev_root.store.get? i = some b → BranchValid family b) →
            (∀ i b, rev_root.store.get? i = some b → ∀ e n, (e, n) ∈ b.e_map →
              ChainTerminates b.e_map b.sibling_defn.root_eid e) →
            ∃ K, ∀ fuel', K ≤ fuel' →
              ∃ b eid,
                svn_branch_find_nested_branch_element_by_rrpath family rev_root fuel' a rrpath
                  = Outcome.ok (some (b, eid))
                ∧ svn_branch_repos_find_el_rev_by_path_rev family fuel' repos rrpath revnum
                  = Run.ok () { branch := some b, eid := eid, rev := revnum })) := by
  refine ⟨?_, ?_, ?_⟩
  · unfold svn_branch_repos_find_el_rev_by_path_rev
    by_cases hr : revnum < 0 ∨ revnum ≥ (repos.rev_roots.length : Int)
    · rw [if_pos hr]; simp only [true_iff]; omega
    · rw [if_neg hr]
      have hr2 : ¬ (revnum < 0 ∨ (repos.rev_roots.length : Int) ≤ revnum) := by omega
      simp only [hr2, iff_false]
      split
      · simp
      · split
        · simp
        · split <;> simp
  · intro s e
    unfold svn_branch_repos_find_el_rev_by_path_rev
    split
    · intro h; cases h; rfl
    · split
      · intro h; cases h
      · split
        · intro h; cases h
        · split <;> intro h <;> cases h
  · intro rev_root a h0 hg ha
    refine ⟨fun el => ?_,
      fun root_branch hroot htop => find_nested_top_some family rev_root hroot htop _ _,
      fun root_branch hroot htop hdef hv hac => ?_⟩
    · obtain ⟨hok, hno⟩ := find_el_rev_in_range family repos rrpath revnum rev_root a fuel h0 hg ha
      constructor
      · intro h
        cases hl : svn_branch_find_nested_branch_element_by_rrpath family rev_root fuel a
            rrpath with
        | malfunction => exact absurd h (hno _ hl (fun x hx => by cases hx) el)
        | out_of_fuel => exact absurd h (hno _ hl (fun x hx => by cases hx) el)
        | ok res =>
          cases res with
          | none => exact absurd h (hno _ hl (fun x hx => by cases hx) el)
          | some x =>
            obtain ⟨b, eid⟩ := x
            rw [hok b eid hl] at h
            cases h
            exact ⟨b, rfl, rfl, rfl⟩
      · rintro ⟨b, hl, hb, hr⟩
        obtain ⟨eb, ee, er⟩ := el
        simp only at hb hr hl
        subst hb hr
        exact hok b ee hl
    · obtain ⟨K1, K0, hle, h1, h2⟩ := store_fuel hdef hv hac
      refine ⟨K0 + K1 + 1, fun fuel' hf => ?_⟩
      obtain ⟨res, hres⟩ := find_nested_returns hle h1 h2 rrpath K1 a root_branch hroot
        (fun m _ _ => by omega) fuel' hf
      cases res with
      | none => exact absurd hres (find_nested_top_some family rev_root hroot htop rrpath fuel')
      | some x =>
        exact ⟨x.1, x.2, hres,
          (find_el_rev_in_range family repos rrpath revnum rev_root a fuel' h0 hg ha).1 x.1 x.2 hres⟩

/-- C26, witness: in the repository with the one revision 0, the revision 1 gives the error
`SVN_ERR_FS_NO_SUCH_REVISION`, the path `sub/f` in revision 0 gives the locator of element 1
in the nested branch, and with enough fuel the call returns the locator of what the lookup
returns. -/
theorem find_el_rev_by_path_rev_spec_witness :
    svn_branch_repos_find_el_rev_by_path_rev round_trip_family 5 find_el_rev_repos "sub/f" 1
        = Run.error () svn_errno_t.SVN_ERR_FS_NO_SUCH_REVISION
    ∧ svn_branch_repos_find_el_rev_by_path_rev round_trip_family 5 find_el_rev_repos "sub/f" 0
        = Run.ok () { branch := some 1, eid := 1, rev := 0 }
    ∧ ∃ K, ∀ fuel', K ≤ fuel' →
        ∃ b eid,
          svn_branch_find_nested_branch_element_by_rrpath round_trip_family
              { round_trip_root with rev := 0 } fuel' 0 "sub/f" = Outcome.ok (some (b, eid))
          ∧ svn_branch_repos_find_el_rev_by_path_rev round_trip_family fuel'
              find_el_rev_repos "sub/f" 0
            = Run.ok () { branch := some b, eid := eid, rev := 0 } :=
  ⟨(find_el_rev_by_path_rev_spec round_trip_family 5 find_el_rev_repos "sub/f" 1).1.2
      (Or.inr (by decide)),
    (((find_el_rev_by_path_rev_spec round_trip_family 5 find_el_rev_repos "sub/f" 0).2.2
      { round_trip_root with rev := 0 } 0 (by decide) rfl rfl).1
        { branch := some 1, eid := 1, rev := 0 }).2 ⟨1, by rfl, rfl, rfl⟩,
    ((find_el_rev_by_path_rev_spec round_trip_family 5 find_el_rev_repos "sub/f" 0).2.2
      { round_trip_root with rev := 0 } 0 (by decide) rfl rfl).2.2 round_trip_top rfl rfl
      (ready_rootPathsDefined find_el_rev_root_ready) find_el_rev_root_ready.valid
      find_el_rev_root_ready.acyclic⟩

/-- C26, counterexample: four repositories with the one revision 0, which is in range, for
which the call returns no locator, whatever the fuel.  With the validated map
`{0: root, 1: (parent 2, "a"), 2: (parent 1, "b")}` in a top-level root branch the call for
`zzz` uses up every amount of fuel.  With the nested branch at `sub` as root branch the
lookup of `dir` returns no branch and the assertion on the branch fails.  With a nested branch
anchored at an element that the root branch does not have, the root path of the nested branch
is not defined and the lookup of `x` aborts.  With the element 1 in a family whose only EID
is 0, the lookup of `zzz` aborts. -/
theorem find_el_rev_returns_no_locator :
    ¬ ((0 : Int) < 0 ∨ ((cycle_repos.rev_roots.length : Nat) : Int) ≤ 0)
    ∧ (∀ fuel,
        svn_branch_repos_find_el_rev_by_path_rev (family_of 0 3) fuel cycle_repos "zzz" 0
          = Run.out_of_fuel)
    ∧ (∀ fuel el,
        svn_branch_repos_find_el_rev_by_path_rev round_trip_family fuel nested_root_repos
          "dir" 0 ≠ Run.ok () el)
    ∧ svn_branch_repos_find_el_rev_by_path_rev round_trip_family 4 nested_root_repos "dir" 0
        = Run.malfunction
    ∧ (∀ fuel el,
        svn_branch_repos_find_el_rev_by_path_rev (family_of 0 2) fuel dangling_repos "x" 0
          ≠ Run.ok () el)
    ∧ svn_branch_repos_find_el_rev_by_path_rev (family_of 0 2) 4 dangling_repos "x" 0
        = Run.malfunction
    ∧ (∀ fuel el,
        svn_branch_repos_find_el_rev_by_path_rev (family_of 0 1) fuel unallocated_repos
          "zzz" 0 ≠ Run.ok () el)
    ∧ svn_branch_repos_find_el_rev_by_path_rev (family_of 0 1) 3 unallocated_repos "zzz" 0
        = Run.malfunction := by
  refine ⟨by decide, fun fuel => ?_, fun fuel el => ?_, by rfl, fun fuel el => ?_, by rfl,
    fun fuel el => ?_, by rfl⟩
  · have hin : ¬ ((0 : Int) < 0 ∨ (0 : Int) ≥ ((cycle_repos.rev_roots.length : Nat) : Int)) := by
      decide
    have hget : cycle_repos.rev_roots.get? (0 : Int).toNat = some cycle_rev_root := rfl
    have hrb : cycle_rev_root.root_branch = some 0 := rfl
    simp only [svn_branch_repos_find_el_rev_by_path_rev, if_neg hin, hget, hrb,
      cycle_nested_diverges fuel]
  · exact (find_el_rev_in_range round_trip_family nested_root_repos "dir" 0
      nested_root_rev_root 1 fuel (by decide) rfl rfl).2 _ rfl
      (fun x => nested_root_no_branch fuel x) el
  · exact (find_el_rev_in_range (family_of 0 2) dangling_repos "x" 0
      dangling_rev_root 0 fuel (by decide) rfl rfl).2 _ rfl
      (fun x => dangling_no_branch fuel (some x)) el
  · exact (find_el_rev_in_range (family_of 0 1) unallocated_repos "zzz" 0
      unallocated_rev_root 0 fuel (by decide) rfl rfl).2 _ rfl
      (fun x => unallocated_no_branch fuel (some x)) el

theorem join_cancel {R p q : String} (h : svn_relpath_join R p = svn_relpath_join R q) :
    p = q := by
  have h1 := skip_ancestor_join R p
  rw [h, skip_ancestor_join R q] at h1
  cases h1
  rfl

theorem rootPath_cases {S : List svn_branch_instance_t} {b : svn_branch_instance_t}
    {R : String} (h : RootPath S b R) :
    (b.outer_branch = none ∧ R = "")
    ∨ ∃ o ob p R0, b.outer_branch = some o ∧ S.get? o = some ob ∧ PathTo ob b.outer_eid p
        ∧ RootPath S ob R0 ∧ R = svn_relpath_join R0 p := by
  cases h with
  | top _ h => exact Or.inl ⟨h, rfl⟩
  | nested _ o ob p R0 ho hob hp hR => exact Or.inr ⟨o, ob, p, R0, ho, hob, hp, hR, rfl⟩

/-- Distinct paths of the anchors give distinct root paths. -/
theorem disjointness_of_paths {f : svn_branch_family_t} {rr : svn_branch_revision_root_t}
    (hv : ∀ a b, rr.store.get? a = some b → BranchValid f b) (hd : PathsDistinct rr) :
    SubBranchDisjointness f rr := by
  intro s t bs bt o fuel R hs ht hne hbs hbt hos hot h1 h2
  rcases rootPath_cases (root_rrpath_sound hv fuel bs R h1) with ⟨h, _⟩ |
    ⟨o1, ob1, p1, R1, ho1, hob1, hp1, hR1, e1⟩
  · rw [h] at hos; cases hos
  rcases rootPath_cases (root_rrpath_sound hv fuel bt R h2) with ⟨h, _⟩ |
    ⟨o2, ob2, p2, R2, ho2, hob2, hp2, hR2, e2⟩
  · rw [h] at hot; cases hot
  rw [hos] at ho1; cases ho1
  rw [hot] at ho2; cases ho2
  rw [hob1] at hob2; cases hob2
  have hR : R1 = R2 := rootPath_unique hR1 _ hR2
  subst hR
  have hp : p1 = p2 := join_cancel (e1.symm.trans e2)
  subst hp
  exact hd s t bs bt o ob1 p1 hs ht hne hbs hbt hos hot hob1 hp1 hp2

/-- The anchor of an instance with a defined root path is an EID of the family. -/
theorem defined_anchor {f : svn_branch_family_t} {S : List svn_branch_instance_t}
    (hdef : RootPathsDefined f S) {s o : Nat} {bs : svn_branch_instance_t}
    (hbs : S.get? s = some bs) (hos : bs.outer_branch = some o) :
    FAMILY_HAS_ELEMENT f bs.outer_eid = true ∧ ∃ bo, S.get? o = some bo := by
  obtain ⟨K, hK⟩ := hdef s bs hbs
  obtain ⟨R, hR⟩ := hK (K + 1) (by omega)
  simp only [svn_branch_get_root_rrpath, hos] at hR
  cases hbo : S.get? o with
  | none => rw [hbo] at hR; cases hR
  | some bo =>
    rw [hbo] at hR
    simp only at hR
    cases hp : svn_branch_get_path_by_eid f bo K bs.outer_eid with
    | ok res => exact ⟨pathByEid_family ⟨K, hp⟩, bo, rfl⟩
    | malfunction => rw [hp] at hR; cases hR
    | out_of_fuel => rw [hp] at hR; cases hR

/-- Distinct root paths give distinct paths of the anchors, when the root paths are
defined. -/
theorem paths_of_disjointness {f : svn_branch_family_t} {rr : svn_branch_revision_root_t}
    (hv : ∀ a b, rr.store.get? a = some b → BranchValid f b)
    (hdef : RootPathsDefined f rr.store) (hd : SubBranchDisjointness f rr) :
    PathsDistinct rr := by
  intro s t bs bt o bo p hs ht hne hbs hbt hos hot hbo hp1 hp2
  have hfs := (defined_anchor hdef hbs hos).1
  have hft := (defined_anchor hdef hbt hot).1
  obtain ⟨k1, hk1⟩ := path_loop_of_pathTo (hv o bo hbo) hp1 hfs
  obtain ⟨k2, hk2⟩ := path_loop_of_pathTo (hv o bo hbo) hp2 hft
  obtain ⟨k3, hk3⟩ := hdef o bo hbo
  obtain ⟨R, hR⟩ := hk3 (k1 + k2 + k3) (by omega)
  have e1 : svn_branch_get_path_by_eid f bo (k1 + k2 + k3) bs.outer_eid
      = Outcome.ok (some p) := by
    rw [path_by_eid_eq_loop hfs, hk1 _ (by omega), join_empty_right]
  have e2 : svn_branch_get_path_by_eid f bo (k1 + k2 + k3) bt.outer_eid
      = Outcome.ok (some p) := by
    rw [path_by_eid_eq_loop hft, hk2 _ (by omega), join_empty_right]
  refine hd s t bs bt o (k1 + k2 + k3 + 1) (svn_relpath_join R p) hs ht hne hbs hbt hos hot
    ?_ ?_
  · simp only [svn_branch_get_root_rrpath, hos, hbo, e1, hR]
  · simp only [svn_branch_get_root_rrpath, hot, hbo, e2, hR]

/-- When `svn_branch_get_subbranches` returns, every listed instance has a root path. -/
theorem get_subbranches_loop_rooted (family : svn_branch_family_t)
    (store : List svn_branch_instance_t) (fuel : Nat) (branch : Nat)
    (top_rrpath : Option String) :
    ∀ (l subs : List Nat),
      svn_branch_get_subbranches_loop family store fuel branch top_rrpath l = Outcome.ok subs →
      ∀ i ∈ l, ∃ b R, store.get? i = some b
        ∧ svn_branch_get_root_rrpath family store fuel b = Outcome.ok R := by
  intro l
  induction l with
  | nil => intro subs _ i hi; cases hi
  | cons j rest ih =>
    intro subs h i hi
    simp only [svn_branch_get_subbranches_loop] at h
    cases hb : store.get? j with
    | none => rw [hb] at h; cases h
    | some sb =>
      rw [hb] at h
      simp only at h
      cases hR : svn_branch_get_root_rrpath family store fuel sb with
      | malfunction => rw [hR] at h; cases h
      | out_of_fuel => rw [hR] at h; cases h
      | ok R =>
        rw [hR] at h
        simp only at h
        have hrest : ∃ subs', svn_branch_get_subbranches_loop family store fuel branch
            top_rrpath rest = Outcome.ok subs' := by
          by_cases ho : sb.outer_branch = some branch
          · rw [if_pos ho] at h
            cases top_rrpath with
            | none => cases h
            | some top =>
              simp only at h
              cases hl : svn_branch_get_subbranches_loop family store fuel branch (some top)
                  rest with
              | malfunction => rw [hl] at h; cases h
              | out_of_fuel => rw [hl] at h; cases h
              | ok l' => exact ⟨l', rfl⟩
          · rw [if_neg ho] at h
            exact ⟨subs, h⟩
        obtain ⟨subs', hs'⟩ := hrest
        rcases List.mem_cons.1 hi with rfl | hi
        · exact ⟨sb, R, hb, hR⟩
        · exact ih subs' hs' i hi

theorem get_subbranches_rooted {family : svn_branch_family_t}
    {rr : svn_branch_revision_root_t} {fuel branch : Nat} {eid : Int} {subs : List Nat}
    (h : svn_branch_get_subbranches family rr fuel branch eid = Outcome.ok subs) :
    ∀ i ∈ rr.branch_instances, ∃ b R, rr.store.get? i = some b
      ∧ svn_branch_get_root_rrpath family rr.store fuel b = Outcome.ok R := by
  unfold svn_branch_get_subbranches at h
  cases hb : rr.store.get? branch with
  | none => rw [hb] at h; cases h
  | some b =>
    rw [hb] at h
    simp only at h
    cases hp : svn_branch_get_rrpath_by_eid family rr.store fuel b eid with
    | malfunction => rw [hp] at h; cases h
    | out_of_fuel => rw [hp] at h; cases h
    | ok top =>
      rw [hp] at h
      exact get_subbranches_loop_rooted family rr.store fuel branch top _ subs h

/-- The anchor of a listed sub-branch has a path in the outer branch, after
`svn_branch_get_subbranches` has returned. -/
theorem listed_anchor_path {family : svn_branch_family_t}
    {rr : svn_branch_revision_root_t} {fuel branch : Nat} {eid : Int} {subs : List Nat}
    (hv : ∀ a b, rr.store.get? a = some b → BranchValid family b)
    (h : svn_branch_get_subbranches family rr fuel branch eid = Outcome.ok subs)
    {s o : Nat} {bs bo : svn_branch_instance_t} (hs : s ∈ rr.branch_instances)
    (hbs : rr.store.get? s = some bs) (hos : bs.outer_branch = some o)
    (hbo : rr.store.get? o = some bo) : ∃ q, PathTo bo bs.outer_eid q := by
  obtain ⟨b, R, hb, hR⟩ := get_subbranches_rooted h s hs
  rw [hbs] at hb; cases hb
  rcases rootPath_cases (root_rrpath_sound hv fuel bs R hR) with ⟨h1, _⟩ |
    ⟨o1, ob1, p1, R1, ho1, hob1, hp1, _, _⟩
  · rw [h1] at hos; cases hos
  · rw [hos] at ho1; cases ho1
    rw [hbo] at hob1; cases hob1
    exact ⟨p1, hp1⟩

/-- The paths in a copy of the subtree at `from_eid`: an element with the path `p` in the copy
and a path `q` in the source has `q = join(P0, p)` with `P0` the path of `from_eid` in the
source. -/
theorem copy_path {f : svn_branch_family_t} {from_b c nb : svn_branch_instance_t}
    {from_eid : Int} {s' : svn_branch_subtree_t}
    (hvf : BranchValid f from_b) (hvn : BranchValid f nb)
    (hroot : nb.sibling_defn.root_eid = from_eid) (hc : c.e_map = [])
    (hinst : svn_branch_instantiate_subtree f c (-1) (some "")
      (svn_branch_map_get_subtree from_b from_eid) = Step.done (nb, s'))
    {e : Int} {p : String} (h : PathTo nb e p) :
    ∀ q, PathTo from_b e q →
      ∃ P0, PathTo from_b from_eid P0 ∧ q = svn_relpath_join P0 p := by
  have nd : NodupKeys (svn_branch_map_get_subtree from_b from_eid).e_map := hvf.1
  obtain ⟨root, m1, _, hpurge, _, _, _, _, _, _, hget⟩ := instantiate_lookup nd hinst
  have hsub := (purge_done_spec nd _ m1 hpurge).1
  have hentry : ∀ e n, e ≠ from_eid → svn_int_hash_get nb.e_map e = some n →
      svn_int_hash_get from_b.e_map e = some n := by
    intro e n hne hg
    rw [hget e] at hg
    have hne' : ¬ e = (svn_branch_map_get_subtree from_b from_eid).root_eid := hne
    rw [if_neg hne'] at hg
    by_cases hm : (svn_int_hash_get m1 e).isSome = true
    · rw [if_pos hm] at hg
      exact get_sublist hsub nd hg
    · rw [if_neg hm, hc] at hg
      simp [svn_int_hash_get] at hg
  induction h with
  | root =>
    intro q hq
    rw [hroot] at hq
    exact ⟨q, hq, (join_empty_right q).symm⟩
  | step e n name P hne hg hn _ ih =>
    intro q hq
    rw [hroot] at hne
    have hgf := hentry e n hne hg
    rcases pathTo_cases hq with ⟨h1, _⟩ | ⟨_, n', name', Q, hg', hn', hQ, hq'⟩
    · exfalso
      have hvr := (hvf.2 e n (mem_of_get hgf)).2
      rw [h1] at hvr
      have hname := (validate_root hvr).2
      obtain ⟨_, _, nm, hnm, hne2⟩ :=
        validate_non_root (hvn.2 e n (mem_of_get hg)).2 (by rw [hroot]; exact hne)
      rw [hname] at hnm
      cases hnm
      exact hne2 rfl
    · rw [hgf] at hg'; cases hg'
      rw [hn] at hn'; cases hn'
      obtain ⟨P0, hP0, hQe⟩ := ih Q hQ
      exact ⟨P0, hP0, by rw [hq', hQe, join_assoc]⟩

/-- Pushing an instance anchored at an element whose path no other anchor has keeps the paths
of the anchors distinct. -/
theorem paths_pushed {rr : svn_branch_revision_root_t} (hl : InstancesListed rr)
    (hd : PathsDistinct rr) {nb : svn_branch_instance_t} {o : Nat}
    (ho : nb.outer_branch = some o) (hn : NoPathAt rr o nb.outer_eid) :
    PathsDistinct (pushed rr nb) := by
  have hold : ∀ i, i < rr.store.length → (pushed rr nb).store.get? i = rr.store.get? i :=
    fun i hi => (extends_pushed rr nb).same i hi
  have hmem : ∀ i, i ∈ (pushed rr nb).branch_instances →
      i ∈ rr.branch_instances ∨ i = rr.store.length := by
    intro i hi
    simp only [pushed, List.mem_append, List.mem_singleton] at hi
    exact hi
  intro s t bs bt o' bo p hs ht hne hbs hbt hos hot hbo hp1 hp2
  rcases hmem s hs with h1 | h1 <;> rcases hmem t ht with h2 | h2
  · rw [hold s (hl.listed s h1)] at hbs
    rw [hold t (hl.listed t h2)] at hbt
    rw [hold o' (hl.outer s bs o' hbs hos)] at hbo
    exact hd s t bs bt o' bo p h1 h2 hne hbs hbt hos hot hbo hp1 hp2
  · rw [hold s (hl.listed s h1)] at hbs
    rw [h2, pushed_get] at hbt
    cases hbt
    rw [hold o' (hl.outer s bs o' hbs hos)] at hbo
    rw [ho] at hot; cases hot
    exact hn s h1 bs bo p hbs hos hbo hp2 hp1
  · rw [hold t (hl.listed t h2)] at hbt
    rw [h1, pushed_get] at hbs
    cases hbs
    rw [hold o' (hl.outer t bt o' hbt hot)] at hbo
    rw [ho] at hos; cases hos
    exact hn t h2 bt bo p hbt hot hbo hp1 hp2
  · exact absurd (h1.trans h2.symm) hne

theorem branch_loop_paths (family : svn_branch_family_t) (fuel : Nat) (T : Nat)
    (st0 : svn_branch_revision_root_t) (bT : svn_branch_instance_t)
    (hstep : ∀ st s e d st1 a1, PathsReady family st → NoPathAt st T e →
      svn_branch_branch_subtree_r2 family fuel st s d.root_eid T e d = Outcome.ok (st1, a1) →
      PathsReady family st1)
    (hl0 : InstancesListed st0) (hT : st0.store.get? T = some bT) :
    ∀ (todo processed : List Nat) (st st' : svn_branch_revision_root_t),
    (∀ s ∈ processed ++ todo, s ∈ st0.branch_instances) →
    (processed ++ todo).Nodup →
    (∀ i ∈ st0.branch_instances, ∀ b, st0.store.get? i = some b → b.outer_branch = some T →
      ∀ s ∈ processed ++ todo, ∀ bs, st0.store.get? s = some bs →
      ∀ p, PathTo bT bs.outer_eid p → ¬ PathTo bT b.outer_eid p) →
    (∀ s ∈ processed ++ todo, ∀ s' ∈ processed ++ todo, s ≠ s' → ∀ bs bs',
      st0.store.get? s = some bs → st0.store.get? s' = some bs' →
      ∀ p, PathTo bT bs.outer_eid p → ¬ PathTo bT bs'.outer_eid p) →
    PathLoop family T st0 processed st →
    todo.foldl (fun acc s => acc.bind
        (branch_subbranch (svn_branch_branch_subtree_r2 family fuel) T s)) (Outcome.ok st)
      = Outcome.ok st' →
    PathLoop family T st0 (processed ++ todo) st' := by
  intro todo
  induction todo with
  | nil =>
    intro processed st st' _ _ _ _ hJ h
    simp only [List.foldl_nil] at h
    cases h
    rw [List.append_nil]
    exact hJ
  | cons s todo ih =>
    intro processed st st' hsubs hnd hold hpair hJ h
    obtain ⟨st1, h1, h2⟩ := foldl_bind_cons
      (fun s => branch_subbranch (svn_branch_branch_subtree_r2 family fuel) T s) s todo st st' h
    obtain ⟨subbranch, a1, hsb, hcall⟩ := branch_subbranch_unfold h1
    have hs_mem : s ∈ processed ++ s :: todo :=
      List.mem_append_right _ (List.mem_cons_self _ _)
    have hs0 := hsubs s hs_mem
    have hlen0 := hJ.ext.len
    have hsame : ∀ i, i ∈ st0.branch_instances → st.store.get? i = st0.store.get? i :=
      fun i hi => hJ.ext.same i (hl0.listed i hi)
    have hbs : st0.store.get? s = some subbranch := by rw [← hsame s hs0]; exact hsb
    have hTL : T < st0.store.length := lt_of_get hT
    have hTst : st.store.get? T = some bT := by rw [hJ.ext.same T hTL]; exact hT
    have hs_notin : s ∉ processed := by
      intro hp
      have := List.nodup_append.1 hnd
      exact this.2.2 hp (List.mem_cons_self _ _)
    have hno : NoPathAt st T subbranch.outer_eid := by
      intro i hi b bo p hb ho hbo hp1 hp2
      rw [hTst] at hbo; cases hbo
      rcases hJ.anchored i hi b hb ho with h3 | ⟨s', hs', bs', hbs', he⟩
      · rw [hsame i h3] at hb
        exact hold i h3 b hb ho s hs_mem subbranch hbs p hp1 hp2
      · rw [he] at hp2
        exact hpair s hs_mem s' (List.mem_append_left _ hs') (fun e => hs_notin (e ▸ hs'))
          subbranch bs' hbs hbs' p hp1 hp2
    have hr1 := hstep st s _ _ st1 a1 hJ.ready hno hcall
    have post := r2_post family fuel st s _ T _ _ st1 a1 hcall
    obtain ⟨_, nb, _, _, hinst, hnb⟩ := post.new_inst
    obtain ⟨_, e2, e3, _⟩ := instantiate_fields hinst
    have hJ1 : PathLoop family T st0 (processed ++ [s]) st1 := by
      refine ⟨hr1, extends_trans hJ.ext post.ext, ?_⟩
      intro i hi b hb ho
      rcases (mem_extends post.ext i).1 hi with h3 | ⟨h3, h4⟩
      · rw [post.ext.same i (hJ.ready.listed.listed i h3)] at hb
        rcases hJ.anchored i h3 b hb ho with h5 | ⟨s', hs', bs', hbs', he⟩
        · exact Or.inl h5
        · exact Or.inr ⟨s', List.mem_append_left _ hs', bs', hbs', he⟩
      · by_cases hia : i = a1
        · rw [hia, hnb] at hb; cases hb
          refine Or.inr ⟨s, List.mem_append_right _ (List.mem_singleton.2 rfl), subbranch,
            hbs, ?_⟩
          rw [e3]; rfl
        · obtain ⟨b2, o2, hb2, ho2, h5, _⟩ := post.nested i (by have := post.addr; omega) h4
          rw [hb] at hb2; cases hb2
          rw [ho] at ho2; cases ho2
          have := post.addr
          omega
    have happ : processed ++ s :: todo = (processed ++ [s]) ++ todo := by simp
    rw [happ] at hsubs hnd hold hpair ⊢
    exact ih (processed ++ [s]) st1 st' hsubs hnd hold hpair hJ1 h2

/-- A call of `svn_branch_branch_subtree_r2` that returns keeps the paths of the anchors
distinct, when the new instance is anchored at an element whose path no other anchor has and
is given the root EID of the subtree. -/
theorem r2_paths (family : svn_branch_family_t) :
    ∀ (fuel : Nat) (rr : svn_branch_revision_root_t) (from_branch : Nat)
      (to_outer_branch : Nat) (to_outer_eid : Int) (d : svn_branch_sibling_t)
      (rr' : svn_branch_revision_root_t) (a : Nat),
      PathsReady family rr → NoPathAt rr to_outer_branch to_outer_eid →
      svn_branch_branch_subtree_r2 family fuel rr from_branch d.root_eid to_outer_branch
        to_outer_eid d = Outcome.ok (rr', a) →
      PathsReady family rr' := by
  intro fuel
  induction fuel with
  | zero =>
    intro rr f t te d rr' a _ _ h
    simp [svn_branch_branch_subtree_r2] at h
  | succ n ih =>
    intro rr f t te d rr' a hr hno h
    obtain ⟨from_b, to_b, nb, s', subs, hf, ht, _, hinst, hsubs, hloop, _⟩ := r2_unfold h
    obtain ⟨e1, e2, e3, _⟩ := instantiate_fields hinst
    have e1' : nb.sibling_defn = d := by rw [e1]; rfl
    have e2' : nb.outer_branch = some t := by rw [e2]; rfl
    have e3' : nb.outer_eid = te := by rw [e3]; rfl
    have htL := lt_of_get ht
    have hfL := lt_of_get hf
    have hlen : (pushed rr nb).store.length = rr.store.length + 1 := by simp [pushed]
    have hl0 : InstancesListed (pushed rr nb) := by
      refine listed_extends hr.listed (extends_pushed rr nb) ?_
      intro i hi b o hb ho
      have hiL := lt_of_get hb
      have hia : i = rr.store.length := by omega
      rw [hia, pushed_get] at hb; cases hb
      rw [e2'] at ho; cases ho
      omega
    have hvc : BranchValid family (created_instance d t te) :=
      ⟨by simp [created_instance, NodupKeys], fun e n hm => by
        simp [created_instance] at hm⟩
    have hvn : BranchValid family nb := (instantiate_preserves_valid hvc hinst).1
    have hv0 : ∀ a b, (pushed rr nb).store.get? a = some b → BranchValid family b := by
      intro i b hb
      have hiL := lt_of_get hb
      by_cases hi : i < rr.store.length
      · rw [(extends_pushed rr nb).same i hi] at hb
        exact hr.valid i b hb
      · have hia : i = rr.store.length := by omega
        rw [hia, pushed_get] at hb; cases hb
        exact hvn
    have hd0 : PathsDistinct (pushed rr nb) :=
      paths_pushed hr.listed hr.distinct e2' (by rw [e3']; exact hno)
    have hr0 : PathsReady family (pushed rr nb) := ⟨hl0, hv0, hd0⟩
    obtain ⟨hsub, hall⟩ := get_subbranches_spec hsubs
    have hf0 : (pushed rr nb).store.get? f = some from_b := by
      rw [(extends_pushed rr nb).same f hfL]; exact hf
    have hJ0 : PathLoop family rr.store.length (pushed rr nb) [] (pushed rr nb) :=
      ⟨hr0, extends_refl _, fun i hi _ _ _ => Or.inl hi⟩
    have hres := branch_loop_paths family n rr.store.length (pushed rr nb) nb
      (fun st s e d st1 a1 h1 h2 h3 => ih st s _ e d st1 a1 h1 h2 h3)
      hl0 (pushed_get rr nb) subs [] (pushed rr nb) rr'
      (fun s hs => hsub.subset (by simpa using hs))
      (by simpa using hsub.nodup hl0.nodup)
      (fun i hi b hb ho => by
        exfalso
        by_cases hia : i = rr.store.length
        · rw [hia, pushed_get] at hb; cases hb
          rw [e2'] at ho; cases ho
          omega
        · have hiL := lt_of_get hb
          have hi' : i < rr.store.length := by omega
          rw [(extends_pushed rr nb).same i hi'] at hb
          have := hr.listed.outer i b _ hb ho
          omega)
      (fun s hs s' hs' hne bs bs' hbs hbs' p hp1 hp2 => by
        have hs1 : s ∈ subs := by simpa using hs
        have hs2 : s' ∈ subs := by simpa using hs'
        obtain ⟨x, hx, hox⟩ := hall s hs1
        obtain ⟨y, hy, hoy⟩ := hall s' hs2
        rw [hbs] at hx; cases hx
        rw [hbs'] at hy; cases hy
        obtain ⟨q, hq⟩ := listed_anchor_path hv0 hsubs (hsub.subset hs1) hbs hox hf0
        obtain ⟨q', hq'⟩ := listed_anchor_path hv0 hsubs (hsub.subset hs2) hbs' hoy hf0
        obtain ⟨P0, hP0, eq1⟩ := copy_path (hr.valid f from_b hf) hvn
          (by rw [e1']) rfl hinst hp1 q hq
        obtain ⟨P1, hP1, eq2⟩ := copy_path (hr.valid f from_b hf) hvn
          (by rw [e1']) rfl hinst hp2 q' hq'
        have hP : P0 = P1 := pathTo_unique hP0 _ hP1
        subst hP
        rw [← eq1] at eq2
        rw [eq2] at hq'
        exact hd0 s s' bs bs' f from_b q (hsub.subset hs1) (hsub.subset hs2) hne hbs hbs'
          hox hoy hf0 hq hq')
      hJ0 hloop
    exact hres.ready

/-- A path in a branch to which an entry was written at an EID outside the family is a path
in the branch before the write, for an element of the family. -/
theorem pathTo_transfer {f : svn_branch_family_t} {b b' : svn_branch_instance_t}
    (hv : BranchValid f b) (hs : b'.sibling_defn = b.sibling_defn) {k : Int}
    (hk : FAMILY_HAS_ELEMENT f k = false)
    (hget : ∀ e, e ≠ k → svn_int_hash_get b'.e_map e = svn_int_hash_get b.e_map e)
    {e : Int} {p : String} (h : PathTo b' e p) :
    FAMILY_HAS_ELEMENT f e = true → PathTo b e p := by
  induction h with
  | root => intro _; rw [hs]; exact PathTo.root
  | step e n name P hne hg hn _ ih =>
    intro he
    have hek : e ≠ k := fun h => by rw [h, hk] at he; cases he
    rw [hget e hek] at hg
    rw [hs] at hne
    have hpar := (validate_non_root (hv.2 e n (mem_of_get hg)).2 hne).2.1
    exact PathTo.step e n name P hne hg hn (ih hpar)

/-- The store with the instance at `a` replaced by one with the same outer link. -/
theorem set_get {S : List svn_branch_instance_t} {a : Nat} {b b' : svn_branch_instance_t}
    (hb : S.get? a = some b) {i : Nat} {x : svn_branch_instance_t}
    (hx : (S.set a b').get? i = some x) :
    (i = a ∧ x = b') ∨ (i ≠ a ∧ S.get? i = some x) := by
  rw [get_set_cases S a i b' (lt_of_get hb)] at hx
  by_cases h : i = a
  · rw [if_pos h] at hx; cases hx
    exact Or.inl ⟨h, rfl⟩
  · rw [if_neg h] at hx
    exact Or.inr ⟨h, hx⟩

/-- Replacing the instance at `a` keeps the paths of the anchors distinct, when the anchors
in the new instance have distinct paths. -/
theorem paths_set {rr : svn_branch_revision_root_t} (hd : PathsDistinct rr) {a : Nat}
    {b b' : svn_branch_instance_t} (hb : rr.store.get? a = some b)
    (ho : b'.outer_branch = b.outer_branch) (he : b'.outer_eid = b.outer_eid)
    (hnew : ∀ s ∈ rr.branch_instances, ∀ t ∈ rr.branch_instances, s ≠ t → ∀ bs bt p,
      rr.store.get? s = some bs → rr.store.get? t = some bt →
      bs.outer_branch = some a → bt.outer_branch = some a →
      PathTo b' bs.outer_eid p → ¬ PathTo b' bt.outer_eid p) :
    PathsDistinct { rr with store := rr.store.set a b' } := by
  intro s t bs bt o bo p hs ht hne hbs hbt hos hot hbo hp1 hp2
  obtain ⟨ys, h1, h2, h3⟩ := set_anchor hb ho he hbs
  obtain ⟨yt, h4, h5, h6⟩ := set_anchor hb ho he hbt
  rw [← h3] at hp1
  rw [← h6] at hp2
  rcases set_get hb hbo with ⟨h7, h8⟩ | ⟨_, h8⟩
  · subst h7 h8
    exact hnew s hs t ht hne ys yt p h1 h4 (h2.trans hos) (h5.trans hot) hp1 hp2
  · exact hd s t ys yt o bo p hs ht hne h1 h4 (h2.trans hos) (h5.trans hot) h8 hp1 hp2

/-- A call of `svn_branch_branch_subtree_r` that returns keeps the paths of the anchors
distinct, when no immediate sub-branch of the destination is anchored at an element with the
path of the new name under the new parent. -/
theorem branch_subtree_r_paths {fuel : Nat} {family family' : svn_branch_family_t}
    {rr rr' : svn_branch_revision_root_t} {from_branch : Nat} {from_eid : Int}
    {to_outer_branch : Nat} {to_outer_parent_eid : Int} {new_name : Option String} {a : Nat}
    (hl : InstancesListed rr)
    (hv : ∀ a b, rr.store.get? a = some b → BranchValid family b)
    (hdef : RootPathsDefined family rr.store) (hd : PathsDistinct rr)
    (hpre : ∀ t ∈ rr.branch_instances, ∀ bt to_b name P, rr.store.get? t = some bt →
      bt.outer_branch = some to_outer_branch → rr.store.get? to_outer_branch = some to_b →
      new_name = some name → PathTo to_b to_outer_parent_eid P →
      ¬ PathTo to_b bt.outer_eid (svn_relpath_join P name))
    (h : svn_branch_branch_subtree_r fuel family rr from_branch from_eid to_outer_branch
      to_outer_parent_eid new_name = Run.ok (family', rr') a) :
    PathsReady family' rr' := by
  obtain ⟨from_b, path, to_b, d, _, _, ht, hok, hsib, hr⟩ := branch_subtree_r_unfold h
  obtain ⟨hd_eq, hf'⟩ := add_new_branch_sibling_ok hsib
  have hroot : from_eid = d.root_eid := by rw [hd_eq]
  have h1 : family'.first_eid = family.first_eid := by rw [hf']; rfl
  have h2 : family'.next_eid = family.next_eid + 1 := by rw [hf']; rfl
  have hfresh : FAMILY_HAS_ELEMENT family family.next_eid = false := by
    simp [FAMILY_HAS_ELEMENT]
  -- the destination with the placeholder
  have hset : branch_map_set (family_bump family) to_b family.next_eid
      (some ⟨to_outer_parent_eid, new_name, none⟩)
      = Step.done (placeholder_written to_b family.next_eid to_outer_parent_eid new_name) :=
    (set_done_iff _ _ _ _ _).2 ⟨hok, rfl⟩
  have hvb : ∀ b, BranchValid family b → BranchValid (family_bump family) b :=
    fun b hb => @branchValid_mono family (family_bump family) rfl (by simp [family_bump]) b hb
  have hvb' : ∀ b, BranchValid (family_bump family) b → BranchValid family' b :=
    fun b hb => @branchValid_mono (family_bump family) family' (by rw [h1]; rfl)
      (by rw [h2]; simp [family_bump]) b hb
  have hvto := (set_preserves_valid (hvb to_b (hv _ _ ht)) hset).1
  have hgetto : ∀ e, e ≠ family.next_eid →
      svn_int_hash_get
        (placeholder_written to_b family.next_eid to_outer_parent_eid new_name).e_map e
        = svn_int_hash_get to_b.e_map e := by
    intro e he
    simp only [placeholder_written]
    rw [get_set_some, if_neg he]
  have hanchor : ∀ t bt, rr.store.get? t = some bt → ∀ o, bt.outer_branch = some o →
      FAMILY_HAS_ELEMENT family bt.outer_eid = true :=
    fun t bt hbt o ho => (defined_anchor hdef hbt ho).1
  have hback : ∀ e p, FAMILY_HAS_ELEMENT family e = true →
      PathTo (placeholder_written to_b family.next_eid to_outer_parent_eid new_name) e p →
      PathTo to_b e p :=
    fun e p he hp => @pathTo_transfer family to_b
      (placeholder_written to_b family.next_eid to_outer_parent_eid new_name) (hv _ _ ht) rfl
      family.next_eid hfresh hgetto e p hp he
  have hready : PathsReady family'
      { rr with store := (rr.store.set to_outer_branch
        (placeholder_written to_b family.next_eid to_outer_parent_eid new_name)) } := by
    refine ⟨listed_set hl ht rfl rfl, ?_, ?_⟩
    · intro i x hx
      rcases set_get ht hx with ⟨_, h8⟩ | ⟨_, h8⟩
      · rw [h8]; exact hvb' _ hvto
      · exact hvb' _ (hvb _ (hv i x h8))
    · refine paths_set hd ht rfl rfl ?_
      intro s hs t hts hne bs bt p hbs hbt hos hot hp1 hp2
      exact hd s t bs bt to_outer_branch to_b p hs hts hne hbs hbt hos hot ht
        (hback _ _ (hanchor s bs hbs _ hos) hp1) (hback _ _ (hanchor t bt hbt _ hot) hp2)
  have hno : NoPathAt
      { rr with store := (rr.store.set to_outer_branch
        (placeholder_written to_b family.next_eid to_outer_parent_eid new_name)) }
      to_outer_branch family.next_eid := by
    intro s hs bs bo p hbs hos hbo hp1 hp2
    obtain ⟨ys, h3, h4, h5⟩ := @set_anchor rr.store to_outer_branch to_b
      (placeholder_written to_b family.next_eid to_outer_parent_eid new_name) ht rfl rfl s bs hbs
    rcases set_get ht hbo with ⟨_, h8⟩ | ⟨h7, _⟩
    · subst h8
      rw [← h5] at hp2
      have hfs := hanchor s ys h3 _ (h4.trans hos)
      have hp2' := hback _ _ hfs hp2
      rcases pathTo_cases hp1 with ⟨hr1, hpe⟩ | ⟨hne1, n, name, P, hg, hn, hP, hpe⟩
      · -- the new element is the root of the destination
        have hr1' : family.next_eid = to_b.sibling_defn.root_eid := hr1
        rcases pathTo_cases hp2' with ⟨hr2, _⟩ | ⟨hne2, n2, name2, P2, hg2, hn2, _, hpe2⟩
        · rw [hr2, ← hr1', hfresh] at hfs; cases hfs
        · obtain ⟨_, _, nm, hnm, hne3⟩ :=
            validate_non_root ((hv _ _ ht).2 _ n2 (mem_of_get hg2)).2 hne2
          rw [hn2] at hnm; cases hnm
          rw [hpe] at hpe2
          exact join_ne_empty (Or.inr hne3) hpe2.symm
      · have hg' : svn_int_hash_get (svn_int_hash_set to_b.e_map family.next_eid
            (some ⟨to_outer_parent_eid, new_name, none⟩)) family.next_eid = some n := hg
        rw [get_set_some, if_pos rfl] at hg'
        cases hg'
        have hne1' : family.next_eid ≠ to_b.sibling_defn.root_eid := hne1
        obtain ⟨hpk, hpf, _⟩ := validate_non_root hok.2.1 hne1'
        have hpf' : FAMILY_HAS_ELEMENT family to_outer_parent_eid = true := by
          simp only [FAMILY_HAS_ELEMENT, family_bump, Bool.and_eq_true,
            decide_eq_true_eq] at hpf ⊢
          have hpk' : to_outer_parent_eid ≠ family.next_eid := hpk
          omega
        have hP' := hback _ _ hpf' hP
        rw [hpe] at hp2'
        exact hpre s hs ys to_b name P h3 (h4.trans hos) ht hn hP' hp2'
    · exact absurd rfl h7
  have hr' : svn_branch_branch_subtree_r2 family' fuel
      { rr with store := (rr.store.set to_outer_branch
        (placeholder_written to_b family.next_eid to_outer_parent_eid new_name)) }
      from_branch from_eid to_outer_branch family.next_eid d = Outcome.ok (rr', a) := hr
  rw [hroot] at hr'
  exact r2_paths family' fuel _ from_branch to_outer_branch family.next_eid d rr' a hready hno hr'

/-- A call of `svn_branch_branch_into` that returns keeps the paths of the anchors distinct,
when the copies of the sub-branches land at free paths of the destination. -/
theorem branch_into_paths {fuel : Nat} {family : svn_branch_family_t}
    {rr rr' : svn_branch_revision_root_t} {from_branch : Nat} {from_eid : Int}
    {to_branch : Nat} {to_parent_eid : Int} {new_name : Option String}
    (hl : InstancesListed rr)
    (hv : ∀ a b, rr.store.get? a = some b → BranchValid family b)
    (hd : PathsDistinct rr)
    (hpre : ∀ from_b to_b to_b' s' subs, rr.store.get? from_branch = some from_b →
      rr.store.get? to_branch = some to_b →
      svn_branch_instantiate_subtree family to_b to_parent_eid new_name
        (svn_branch_map_get_subtree from_b from_eid) = Step.done (to_b', s') →
      svn_branch_get_subbranches family { rr with store := rr.store.set to_branch to_b' }
        fuel from_branch from_eid = Outcome.ok subs →
      LandingFree rr to_branch to_b' subs)
    (h : svn_branch_branch_into fuel family rr from_branch from_eid to_branch to_parent_eid
      new_name = Run.ok rr' ()) :
    PathsReady family rr' := by
  obtain ⟨from_b, to_b, to_b', s', subs, hf, ht, hinst, hsubs, hloop⟩ := branch_into_unfold h
  obtain ⟨h1, h2, h3⟩ := hpre from_b to_b to_b' s' subs hf ht hinst hsubs
  obtain ⟨_, e2, e3, _⟩ := instantiate_fields hinst
  have hl0 := listed_set hl ht e2 e3
  have hv0 : ∀ a b, ({ rr with store := rr.store.set to_branch to_b' } :
      svn_branch_revision_root_t).store.get? a = some b → BranchValid family b := by
    intro i x hx
    rcases set_get ht hx with ⟨_, h8⟩ | ⟨_, h8⟩
    · rw [h8]; exact (instantiate_preserves_valid (hv _ _ ht) hinst).1
    · exact hv i x h8
  have hd0 : PathsDistinct { rr with store := rr.store.set to_branch to_b' } :=
    paths_set hd ht e2 e3 h1
  obtain ⟨hsub, hall⟩ := get_subbranches_spec hsubs
  have hT : ({ rr with store := rr.store.set to_branch to_b' } :
      svn_branch_revision_root_t).store.get? to_branch = some to_b' := by
    show (rr.store.set to_branch to_b').get? to_branch = some to_b'
    rw [get_set_cases _ _ _ _ (lt_of_get ht), if_pos rfl]
  have hJ0 : PathLoop family to_branch { rr with store := rr.store.set to_branch to_b' } []
      { rr with store := rr.store.set to_branch to_b' } :=
    ⟨⟨hl0, hv0, hd0⟩, extends_refl _, fun i hi _ _ _ => Or.inl hi⟩
  have hres := branch_loop_paths family fuel to_branch
    { rr with store := rr.store.set to_branch to_b' } to_b'
    (fun st s e d st1 a1 p1 p2 p3 => r2_paths family fuel st s to_branch e d st1 a1 p1 p2 p3)
    hl0 hT subs [] { rr with store := rr.store.set to_branch to_b' } rr'
    (fun s hs => hsub.subset (by simpa using hs))
    (by simpa using hsub.nodup hl0.nodup)
    (fun i hi b hb ho s hs bs hbs p hp1 hp2 => by
      obtain ⟨y, h4, h5, h6⟩ := set_anchor ht e2 e3 hb
      obtain ⟨z, h7, _, h9⟩ := set_anchor ht e2 e3 hbs
      rw [← h9] at hp1
      rw [← h6] at hp2
      exact h2 s (by simpa using hs) i hi z y p h7 h4 (h5.trans ho) hp1 hp2)
    (fun s hs t hts hne bs bt hbs hbt p hp1 hp2 => by
      obtain ⟨y, h4, _, h6⟩ := set_anchor ht e2 e3 hbs
      obtain ⟨z, h7, _, h9⟩ := set_anchor ht e2 e3 hbt
      rw [← h6] at hp1
      rw [← h9] at hp2
      exact h3 s (by simpa using hs) t (by simpa using hts) hne y z p h4 h7 hp1 hp2)
    hJ0 hloop
  exact hres.ready

theorem rootPathsDefined_of_rootPath {f : svn_branch_family_t}
    {S : List svn_branch_instance_t} (hv : ∀ a b, S.get? a = some b → BranchValid f b)
    (hinv : ∀ a b, S.get? a = some b → assert_branch_instance_invariants f b = true)
    (h : ∀ a b, S.get? a = some b → ∃ R, RootPath S b R) : RootPathsDefined f S := by
  intro a b hb
  obtain ⟨R, hR⟩ := h a b hb
  obtain ⟨K, hK⟩ := root_rrpath_complete hv hinv hR (hinv a b hb)
  exact ⟨K, fun fuel hf => ⟨R, hK fuel hf⟩⟩

theorem two_copies_cases {i : Nat} {b : svn_branch_instance_t}
    (h : two_copies_root.store.get? i = some b) :
    (i = 0 ∧ b = two_copies_top) ∨ (i = 1 ∧ b = branching_inner)
      ∨ (i = 2 ∧ b = two_copies_second) ∨ (i = 3 ∧ b = two_copies_other) := by
  match i, h with
  | 0, h => simp [two_copies_root] at h; exact Or.inl ⟨rfl, h.symm⟩
  | 1, h => simp [two_copies_root] at h; exact Or.inr (Or.inl ⟨rfl, h.symm⟩)
  | 2, h => simp [two_copies_root] at h; exact Or.inr (Or.inr (Or.inl ⟨rfl, h.symm⟩))
  | 3, h => simp [two_copies_root] at h; exact Or.inr (Or.inr (Or.inr ⟨rfl, h.symm⟩))
  | n + 4, h => simp [two_copies_root] at h

theorem two_copies_listed : InstancesListed two_copies_root := by
  refine ⟨by decide, by decide, ?_⟩
  intro i b o hb ho
  rcases two_copies_cases hb with ⟨_, rfl⟩ | ⟨_, rfl⟩ | ⟨_, rfl⟩ | ⟨_, rfl⟩
  · cases ho
  · cases ho; decide
  · cases ho; decide
  · cases ho

theorem two_copies_valid (i : Nat) (b : svn_branch_instance_t)
    (hb : two_copies_root.store.get? i = some b) : BranchValid branching_family_twice b := by
  rcases two_copies_cases hb with ⟨_, rfl⟩ | ⟨_, rfl⟩ | ⟨_, rfl⟩ | ⟨_, rfl⟩
  · exact branchValid_of_forall (by simp [NodupKeys, two_copies_top, branch_of]) (by decide)
  · exact branchValid_of_forall (by simp [NodupKeys, branching_inner]) (by decide)
  · exact branchValid_of_forall (by simp [NodupKeys, two_copies_second]) (by decide)
  · exact branchValid_of_forall (by simp [NodupKeys, two_copies_other, branch_of]) (by decide)

theorem two_copies_top_paths :
    PathTo two_copies_top 0 "" ∧ PathTo two_copies_top 2 "copy"
      ∧ PathTo two_copies_top 3 "copy2" :=
  ⟨PathTo.root,
    PathTo.step 2 (svn_branch_el_rev_content_create 0 (some "copy") none) "copy" ""
      (by decide) (by decide) rfl PathTo.root,
    PathTo.step 3 (svn_branch_el_rev_content_create 0 (some "copy2") none) "copy2" ""
      (by decide) (by decide) rfl PathTo.root⟩

theorem two_copies_defined : RootPathsDefined branching_family_twice two_copies_root.store := by
  refine rootPathsDefined_of_rootPath two_copies_valid ?_ ?_
  · intro i b hb
    rcases two_copies_cases hb with ⟨_, rfl⟩ | ⟨_, rfl⟩ | ⟨_, rfl⟩ | ⟨_, rfl⟩ <;> decide
  · intro i b hb
    rcases two_copies_cases hb with ⟨_, rfl⟩ | ⟨_, rfl⟩ | ⟨_, rfl⟩ | ⟨_, rfl⟩
    · exact ⟨_, RootPath.top _ rfl⟩
    · exact ⟨_, RootPath.nested branching_inner 0 two_copies_top "copy" "" rfl rfl
        two_copies_top_paths.2.1 (RootPath.top _ rfl)⟩
    · exact ⟨_, RootPath.nested two_copies_second 0 two_copies_top "copy2" "" rfl rfl
        two_copies_top_paths.2.2 (RootPath.top _ rfl)⟩
    · exact ⟨_, RootPath.top _ rfl⟩

/-- In a branch with the elements `copy` at 2 and `copy2` at 3, the two have no path in
common. -/
theorem two_copies_apart {p : String} (h1 : PathTo two_copies_top 2 p)
    (h2 : PathTo two_copies_top 3 p) : False := by
  have e1 := pathTo_unique two_copies_top_paths.2.1 _ h1
  have e2 := pathTo_unique two_copies_top_paths.2.2 _ h2
  rw [← e1] at e2
  exact absurd e2 (by decide)

theorem two_copies_paths : PathsDistinct two_copies_root := by
  intro s t bs bt o bo p _ _ hne hbs hbt hos hot hbo hp1 hp2
  rcases two_copies_cases hbs with ⟨_, rfl⟩ | ⟨rfl, rfl⟩ | ⟨rfl, rfl⟩ | ⟨_, rfl⟩
  · cases hos
  · cases hos
    simp [two_copies_root] at hbo
    subst hbo
    rcases two_copies_cases hbt with ⟨_, rfl⟩ | ⟨rfl, rfl⟩ | ⟨rfl, rfl⟩ | ⟨_, rfl⟩
    · cases hot
    · exact hne rfl
    · exact two_copies_apart hp1 hp2
    · cases hot
  · cases hos
    simp [two_copies_root] at hbo
    subst hbo
    rcases two_copies_cases hbt with ⟨_, rfl⟩ | ⟨rfl, rfl⟩ | ⟨rfl, rfl⟩ | ⟨_, rfl⟩
    · cases hot
    · exact two_copies_apart hp2 hp1
    · exact hne rfl
    · cases hot
  · cases hos

theorem two_copies_disjoint : SubBranchDisjointness branching_family_twice two_copies_root :=
  disjointness_of_paths two_copies_valid two_copies_paths

theorem moved_cases {i : Nat} {b : svn_branch_instance_t}
    (h : moved_root.store.get? i = some b) :
    (i = 0 ∧ b = moved_top) ∨ (i = 1 ∧ b = moved_first)
      ∨ (i = 2 ∧ b = moved_second) ∨ (i = 3 ∧ b = moved_source) := by
  match i, h with
  | 0, h => simp [moved_root] at h; exact Or.inl ⟨rfl, h.symm⟩
  | 1, h => simp [moved_root] at h; exact Or.inr (Or.inl ⟨rfl, h.symm⟩)
  | 2, h => simp [moved_root] at h; exact Or.inr (Or.inr (Or.inl ⟨rfl, h.symm⟩))
  | 3, h => simp [moved_root] at h; exact Or.inr (Or.inr (Or.inr ⟨rfl, h.symm⟩))
  | n + 4, h => simp [moved_root] at h

theorem moved_valid (i : Nat) (b : svn_branch_instance_t)
    (hb : moved_root.store.get? i = some b) : BranchValid moved_family b := by
  rcases moved_cases hb with ⟨_, rfl⟩ | ⟨_, rfl⟩ | ⟨_, rfl⟩ | ⟨_, rfl⟩
  · exact branchValid_of_forall (by simp [NodupKeys, moved_top, branch_of]) (by decide)
  · exact branchValid_of_forall (by simp [NodupKeys, moved_first]) (by decide)
  · exact branchValid_of_forall (by simp [NodupKeys, moved_second]) (by decide)
  · exact branchValid_of_forall (by simp [NodupKeys, moved_source, branch_of]) (by decide)

theorem moved_top_paths : PathTo moved_top 3 "x/a" ∧ PathTo moved_top 4 "y/a" :=
  ⟨PathTo.step 3 (svn_branch_el_rev_content_create 1 (some "a") none) "a" "x"
      (by decide) (by decide) rfl
      (PathTo.step 1 (el 0 "x") "x" "" (by decide) (by decide) rfl PathTo.root),
    PathTo.step 4 (svn_branch_el_rev_content_create 2 (some "a") none) "a" "y"
      (by decide) (by decide) rfl
      (PathTo.step 2 (el 0 "y") "y" "" (by decide) (by decide) rfl PathTo.root)⟩

theorem moved_apart {p : String} (h1 : PathTo moved_top 3 p) (h2 : PathTo moved_top 4 p) :
    False := by
  have e1 := pathTo_unique moved_top_paths.1 _ h1
  have e2 := pathTo_unique moved_top_paths.2 _ h2
  rw [← e1] at e2
  exact absurd e2 (by decide)

theorem moved_paths : PathsDistinct moved_root := by
  intro s t bs bt o bo p _ _ hne hbs hbt hos hot hbo hp1 hp2
  rcases moved_cases hbs with ⟨_, rfl⟩ | ⟨rfl, rfl⟩ | ⟨rfl, rfl⟩ | ⟨_, rfl⟩
  · cases hos
  · cases hos
    simp [moved_root] at hbo
    subst hbo
    rcases moved_cases hbt with ⟨_, rfl⟩ | ⟨rfl, rfl⟩ | ⟨rfl, rfl⟩ | ⟨_, rfl⟩
    · cases hot
    · exact hne rfl
    · exact moved_apart hp1 hp2
    · cases hot
  · cases hos
    simp [moved_root] at hbo
    subst hbo
    rcases moved_cases hbt with ⟨_, rfl⟩ | ⟨rfl, rfl⟩ | ⟨rfl, rfl⟩ | ⟨_, rfl⟩
    · cases hot
    · exact moved_apart hp2 hp1
    · exact hne rfl
    · cases hot
  · cases hos

theorem slash_cases {i : Nat} {b : svn_branch_instance_t}
    (h : slash_root.store.get? i = some b) :
    (i = 0 ∧ b = slash_target) ∨ (i = 1 ∧ b = slash_source)
      ∨ (i = 2 ∧ b = slash_first) ∨ (i = 3 ∧ b = slash_second) := by
  match i, h with
  | 0, h => simp [slash_root] at h; exact Or.inl ⟨rfl, h.symm⟩
  | 1, h => simp [slash_root] at h; exact Or.inr (Or.inl ⟨rfl, h.symm⟩)
  | 2, h => simp [slash_root] at h; exact Or.inr (Or.inr (Or.inl ⟨rfl, h.symm⟩))
  | 3, h => simp [slash_root] at h; exact Or.inr (Or.inr (Or.inr ⟨rfl, h.symm⟩))
  | n + 4, h => simp [slash_root] at h

theorem slash_valid (i : Nat) (b : svn_branch_instance_t)
    (hb : slash_root.store.get? i = some b) : BranchValid slash_family b := by
  rcases slash_cases hb with ⟨_, rfl⟩ | ⟨_, rfl⟩ | ⟨_, rfl⟩ | ⟨_, rfl⟩
  · exact branchValid_of_forall (by simp [NodupKeys, slash_target, branch_of]) (by decide)
  · exact branchValid_of_forall (by simp [NodupKeys, slash_source, branch_of]) (by decide)
  · exact branchValid_of_forall (by simp [NodupKeys, slash_first]) (by decide)
  · exact branchValid_of_forall (by simp [NodupKeys, slash_second]) (by decide)

theorem slash_source_paths : PathTo slash_source 2 "a/b" ∧ PathTo slash_source 4 "a/c" :=
  ⟨PathTo.step 2 (svn_branch_el_rev_content_create 0 (some "a/b") none) "a/b" ""
      (by decide) (by decide) rfl PathTo.root,
    PathTo.step 4 (svn_branch_el_rev_content_create 1 (some "c") none) "c" "a"
      (by decide) (by decide) rfl
      (PathTo.step 1 (el 0 "a") "a" "" (by decide) (by decide) rfl PathTo.root)⟩

theorem slash_apart {p : String} (h1 : PathTo slash_source 2 p)
    (h2 : PathTo slash_source 4 p) : False := by
  have e1 := pathTo_unique slash_source_paths.1 _ h1
  have e2 := pathTo_unique slash_source_paths.2 _ h2
  rw [← e1] at e2
  exact absurd e2 (by decide)

theorem slash_paths : PathsDistinct slash_root := by
  intro s t bs bt o bo p _ _ hne hbs hbt hos hot hbo hp1 hp2
  rcases slash_cases hbs with ⟨_, rfl⟩ | ⟨_, rfl⟩ | ⟨rfl, rfl⟩ | ⟨rfl, rfl⟩
  · cases hos
  · cases hos
  · cases hos
    simp [slash_root] at hbo
    subst hbo
    rcases slash_cases hbt with ⟨_, rfl⟩ | ⟨_, rfl⟩ | ⟨rfl, rfl⟩ | ⟨rfl, rfl⟩
    · cases hot
    · cases hot
    · exact hne rfl
    · exact slash_apart hp1 hp2
  · cases hos
    simp [slash_root] at hbo
    subst hbo
    rcases slash_cases hbt with ⟨_, rfl⟩ | ⟨_, rfl⟩ | ⟨rfl, rfl⟩ | ⟨rfl, rfl⟩
    · cases hot
    · cases hot
    · exact slash_apart hp2 hp1
    · exact hne rfl

/-- C20, counterexample: four calls that return without error on a revision root with
sub-branch disjointness and leave one without.  In the revision root of the branching
scenario the only sub-branch is the one at `copy`: `svn_branch_branch_into` of the top
branch into itself leaves two sub-branches anchored at the same EID 2, both with the root
rrpath `copy`; and a second `svn_branch_branch_subtree_r` of `dir` under the name `copy`
leaves sub-branches anchored at the EIDs 2 and 3, both with the root rrpath `copy`.  In the
revision root with the sub-branches at `x/a` and `y/a`, `svn_branch_branch_into` of the
directory `y` of another branch under the name `x` moves `y` to `x`, and both sub-branches
have the root rrpath `x/a`.  In the revision root whose source branch has the sub-branches
at `a/b` and `a/c`, `svn_branch_branch_into` of the directory `a` into a branch without
sub-branches, under the name `x`, anchors the two copies at the elements 2 and 4 of the
destination, both with the root rrpath `x/c`. -/
theorem branching_breaks_disjointness :
    SubBranchDisjointness branching_family_after branching_root_after
    ∧ svn_branch_branch_into 6 branching_family_after branching_root_after 0 0 0 (-1) (some "")
      = Run.ok branching_root_into_itself ()
    ∧ ¬ SubBranchDisjointness branching_family_after branching_root_into_itself
    ∧ svn_branch_branch_subtree_r 6 branching_family_after branching_root_after 0 1 0 0
        (some "copy") = Run.ok (branching_family_twice, branching_root_twice) 2
    ∧ ¬ SubBranchDisjointness branching_family_twice branching_root_twice
    ∧ SubBranchDisjointness moved_family moved_root
    ∧ svn_branch_branch_into 6 moved_family moved_root 3 2 0 0 (some "x")
      = Run.ok moved_root_after ()
    ∧ ¬ SubBranchDisjointness moved_family moved_root_after
    ∧ SubBranchDisjointness slash_family slash_root
    ∧ svn_branch_branch_into 6 slash_family slash_root 1 1 0 0 (some "x")
      = Run.ok slash_root_after ()
    ∧ ¬ SubBranchDisjointness slash_family slash_root_after := by
  refine ⟨branching_root_after_disjoint, by rfl, ?_, by rfl, ?_,
    disjointness_of_paths moved_valid moved_paths, by rfl, ?_,
    disjointness_of_paths slash_valid slash_paths, by rfl, ?_⟩
  · intro h
    exact h 1 2 _ _ 0 3 "copy" (by decide) (by decide) (by decide) rfl rfl rfl rfl
      (by decide) (by decide)
  · intro h
    exact h 1 2 _ _ 0 3 "copy" (by decide) (by decide) (by decide) rfl rfl rfl rfl
      (by decide) (by decide)
  · intro h
    exact h 1 2 _ _ 0 4 "x/a" (by decide) (by decide) (by decide) rfl rfl rfl rfl
      (by decide) (by decide)
  · intro h
    exact h 4 5 _ _ 0 4 "x/c" (by decide) (by decide) (by decide) rfl rfl rfl rfl
      (by decide) (by decide)

/-- C20 (amended): sub-branch disjointness is preserved by the branching operations under
these conditions.  The revision root has a list that names existing instances, none twice,
its element maps pass validation, every branch instance has a defined root rrpath, and no two
immediate sub-branches of one branch instance have the same root rrpath.  Then after a call of
`svn_branch_branch_subtree_r` that returns without error, when no immediate sub-branch of
`to_outer_branch` is anchored at an element whose path is `new_name` under
`to_outer_parent_eid`, and after a call of `svn_branch_branch_into` that returns without
error, when in `to_branch` with the subtree instantiated the anchors of the immediate
sub-branches of `to_branch` keep distinct paths and the elements at which the sub-branches of
`from_branch` are copied have paths that differ from these and from one another: still no two
immediate sub-branches of one branch instance have the same root rrpath. -/
theorem branching_keeps_disjointness (family : svn_branch_family_t)
    (rr : svn_branch_revision_root_t) (hl : InstancesListed rr)
    (hv : ∀ a b, rr.store.get? a = some b → BranchValid family b)
    (hdef : RootPathsDefined family rr.store) (hd : SubBranchDisjointness family rr) :
    (∀ (fuel from_branch : Nat) (from_eid : Int) (to_outer_branch : Nat)
        (to_outer_parent_eid : Int) (new_name : Option String)
        (family' : svn_branch_family_t) (rr' : svn_branch_revision_root_t) (new_branch : Nat),
      (∀ t ∈ rr.branch_instances, ∀ bt to_b name P, rr.store.get? t = some bt →
        bt.outer_branch = some to_outer_branch → rr.store.get? to_outer_branch = some to_b →
        new_name = some name → PathTo to_b to_outer_parent_eid P →
        ¬ PathTo to_b bt.outer_eid (svn_relpath_join P name)) →
      svn_branch_branch_subtree_r fuel family rr from_branch from_eid to_outer_branch
        to_outer_parent_eid new_name = Run.ok (family', rr') new_branch →
      SubBranchDisjointness family' rr')
    ∧ (∀ (fuel from_branch : Nat) (from_eid : Int) (to_branch : Nat) (to_parent_eid : Int)
        (new_name : Option String) (rr' : svn_branch_revision_root_t),
      (∀ from_b to_b to_b' s' subs, rr.store.get? from_branch = some from_b →
        rr.store.get? to_branch = some to_b →
        svn_branch_instantiate_subtree family to_b to_parent_eid new_name
          (svn_branch_map_get_subtree from_b from_eid) = Step.done (to_b', s') →
        svn_branch_get_subbranches family { rr with store := rr.store.set to_branch to_b' }
          fuel from_branch from_eid = Outcome.ok subs →
        LandingFree rr to_branch to_b' subs) →
      svn_branch_branch_into fuel family rr from_branch from_eid to_branch to_parent_eid
        new_name = Run.ok rr' () →
      SubBranchDisjointness family rr') := by
  have hpd := paths_of_disjointness hv hdef hd
  constructor
  · intro fuel f fe t p name family' rr' nbr hpre h
    have r := branch_subtree_r_paths hl hv hdef hpd hpre h
    exact disjointness_of_paths r.valid r.distinct
  · intro fuel f fe t p name rr' hpre h
    have r := branch_into_paths hl hv hpd hpre h
    exact disjointness_of_paths r.valid r.distinct

theorem two_copies_free_name (t : Nat) (_ : t ∈ two_copies_root.branch_instances)
    (bt to_b : svn_branch_instance_t) (name P : String)
    (hbt : two_copies_root.store.get? t = some bt) (hot : bt.outer_branch = some 0)
    (hto : two_copies_root.store.get? 0 = some to_b) (hname : some "copy3" = some name)
    (hP : PathTo to_b 0 P) : ¬ PathTo to_b bt.outer_eid (svn_relpath_join P name) := by
  intro hq
  simp [two_copies_root] at hto
  subst hto
  cases hname
  have hPe := pathTo_unique two_copies_top_paths.1 _ hP
  subst hPe
  rcases two_copies_cases hbt with ⟨_, rfl⟩ | ⟨_, rfl⟩ | ⟨_, rfl⟩ | ⟨_, rfl⟩
  · cases hot
  · exact absurd (pathTo_unique two_copies_top_paths.2.1 _ hq) (by decide)
  · exact absurd (pathTo_unique two_copies_top_paths.2.2 _ hq) (by decide)
  · cases hot

theorem two_copies_landing (from_b to_b to_b' : svn_branch_instance_t)
    (s' : svn_branch_subtree_t) (subs : List Nat)
    (hf : two_copies_root.store.get? 0 = some from_b)
    (ht : two_copies_root.store.get? 3 = some to_b)
    (hinst : svn_branch_instantiate_subtree branching_family_twice to_b (-1) (some "")
      (svn_branch_map_get_subtree from_b 0) = Step.done (to_b', s'))
    (hsubs : svn_branch_get_subbranches branching_family_twice
      { two_copies_root with store := two_copies_root.store.set 3 to_b' } 6 0 0
      = Outcome.ok subs) :
    LandingFree two_copies_root 3 to_b' subs := by
  simp [two_copies_root] at hf ht
  subst hf ht
  have hc : svn_branch_instantiate_subtree branching_family_twice two_copies_other (-1)
      (some "") (svn_branch_map_get_subtree two_copies_top 0)
      = Step.done (two_copies_top, svn_branch_map_get_subtree two_copies_top 0) := by rfl
  rw [hc] at hinst
  cases hinst
  have hs : svn_branch_get_subbranches branching_family_twice
      { two_copies_root with store := two_copies_root.store.set 3 two_copies_top } 6 0 0
      = Outcome.ok [1, 2] := by rfl
  rw [hs] at hsubs
  cases hsubs
  refine ⟨?_, ?_, ?_⟩
  · intro s _ t _ _ bs bt p hbs _ hos
    rcases two_copies_cases hbs with ⟨_, rfl⟩ | ⟨_, rfl⟩ | ⟨_, rfl⟩ | ⟨_, rfl⟩ <;> cases hos
  · intro s _ t _ bs bt p _ hbt hot
    rcases two_copies_cases hbt with ⟨_, rfl⟩ | ⟨_, rfl⟩ | ⟨_, rfl⟩ | ⟨_, rfl⟩ <;> cases hot
  · intro s hs t hts hne bs bt p hbs hbt hp1 hp2
    simp only [List.mem_cons, List.mem_singleton, List.mem_nil_iff, or_false] at hs hts
    rcases hs with rfl | rfl <;> rcases hts with rfl | rfl
    · exact hne rfl
    · simp [two_copies_root] at hbs hbt
      subst hbs hbt
      exact two_copies_apart hp1 hp2
    · simp [two_copies_root] at hbs hbt
      subst hbs hbt
      exact two_copies_apart hp2 hp1
    · exact hne rfl

/-- C20, witness: the revision root in which the top-level branch has the sub-branches at
`copy` and `copy2`.  The branching of `dir` under the name `copy3` leaves the three
sub-branches with the root rrpaths `copy`, `copy2` and `copy3`; and
`svn_branch_branch_into` of the top-level branch into the second top-level branch copies the
two sub-branches, to the root rrpaths `copy` and `copy2` in that branch.  Both leave a
revision root with sub-branch disjointness. -/
theorem branching_keeps_disjointness_witness :
    InstancesListed two_copies_root
    ∧ RootPathsDefined branching_family_twice two_copies_root.store
    ∧ SubBranchDisjointness branching_family_twice two_copies_root
    ∧ svn_branch_branch_subtree_r 6 branching_family_twice two_copies_root 0 1 0 0
        (some "copy3") = Run.ok (three_copies_family, three_copies_root) 4
    ∧ svn_branch_get_root_rrpath three_copies_family three_copies_root.store 3
        branching_inner = Outcome.ok "copy"
    ∧ svn_branch_get_root_rrpath three_copies_family three_copies_root.store 3
        two_copies_second = Outcome.ok "copy2"
    ∧ svn_branch_get_root_rrpath three_copies_family three_copies_root.store 3
        three_copies_third = Outcome.ok "copy3"
    ∧ SubBranchDisjointness three_copies_family three_copies_root
    ∧ svn_branch_branch_into 6 branching_family_twice two_copies_root 0 0 3 (-1) (some "")
        = Run.ok two_copies_into ()
    ∧ svn_branch_get_root_rrpath branching_family_twice two_copies_into.store 3
        two_copies_first_copy = Outcome.ok "copy"
    ∧ svn_branch_get_root_rrpath branching_family_twice two_copies_into.store 3
        two_copies_second_copy = Outcome.ok "copy2"
    ∧ SubBranchDisjointness branching_family_twice two_copies_into :=
  ⟨two_copies_listed, two_copies_defined, two_copies_disjoint, by rfl, by decide, by decide,
    by decide,
    (branching_keeps_disjointness branching_family_twice two_copies_root two_copies_listed
      two_copies_valid two_copies_defined two_copies_disjoint).1 6 0 1 0 0 (some "copy3")
      three_copies_family three_copies_root 4 two_copies_free_name (by rfl),
    by rfl, by decide, by decide,
    (branching_keeps_disjointness branching_family_twice two_copies_root two_copies_listed
      two_copies_valid two_copies_defined two_copies_disjoint).2 6 0 0 3 (-1) (some "")
      two_copies_into two_copies_landing (by rfl)⟩

end SvnBranch
